import Mathlib

/-! # CONTAM forward translator: a shallow embedding

Embedding of `openstudiocore/src/contam/ForwardTranslator.cpp`.

Conventions of the embedding

* C++ `double` values that the translator only adds, multiplies, divides and compares are
  rationals (`ℚ`); `setLamCoef` and `addAirflowElement`, which call `sqrt` and `std::pow`, are
  stated over the reals.  Number formatting (`QString::arg`, `sprintf("%g")`) is not modelled:
  a field that the source stores as formatted text holds the number itself.
* C++ `int` values are `Int`; every one of them is a list size or a counter derived from one.
* `QMap` and `std::map` are association lists with at most one entry per key (`Table`).
* An index into a `QList` that lies outside the list has no defined result: the embedding
  returns `Outcome.outOfRange` (inside loops) or `none` (from `translate`).
* The progress bar is an observer that never feeds back into the translation; it is left out.
-/

namespace openstudio

/-- Identity of a model object (a UUID in the source). -/
abbrev Handle := Nat

/-- Modelled from the spec: the severity scale of `utilities/core/LogMessage.hpp`, which is not
part of the sources at hand (`Trace = -3, Debug = -2, Info = -1, Warn = 0, Error = 1, Fatal = 2`). -/
inductive LogLevel where
  | Trace
  | Debug
  | Info
  | Warn
  | Error
  | Fatal
  deriving DecidableEq, Repr

/-- Numeric rank of a severity, used by the comparison `logLevel() > Warn`. -/
def LogLevel.toInt : LogLevel → Int
  | .Trace => -3
  | .Debug => -2
  | .Info => -1
  | .Warn => 0
  | .Error => 1
  | .Fatal => 2

/-- One captured log entry. -/
structure LogMessage where
  logLevel : LogLevel
  logMessage : String
  deriving DecidableEq, Repr

/-- Association list standing for `QMap<K,int>` and `std::map<K,int>`. -/
abbrev Table (κ : Type) := List (κ × Int)

namespace Table

variable {κ : Type} [DecidableEq κ]

/-- The entry stored under `k`, if any (`find`, `contains`). -/
def find (m : Table κ) (k : κ) : Option Int :=
  match m with
  | [] => none
  | (k1, v) :: rest => if k1 = k then some v else find rest k

/-- The call `map.value(k, d)` of `QMap`. -/
def value (m : Table κ) (k : κ) (d : Int) : Int :=
  (m.find k).getD d

/-- The assignment `map[k] = v`: overwrites or inserts. -/
def set (m : Table κ) (k : κ) (v : Int) : Table κ :=
  match m with
  | [] => [(k, v)]
  | (k1, v1) :: rest => if k1 = k then (k1, v) :: rest else (k1, v1) :: set rest k v

/-- The read `map[k]` through the non-const `operator[]`: a missing key is inserted with 0. -/
def index (m : Table κ) (k : κ) : Int × Table κ :=
  match m.find k with
  | some v => (v, m)
  | none => (0, m.set k 0)

/-- All stored values. -/
def values (m : Table κ) : List Int := m.map Prod.snd

/-- All keys. -/
def keys (m : Table κ) : List κ := m.map Prod.fst

end Table

namespace model

/-- The attributes of a `BuildingStory` read by the translator. -/
structure BuildingStory where
  handle : Handle
  nominalFloortoFloorHeight : ℚ
  nominalZCoordinate : Option ℚ
  deriving DecidableEq, Repr

/-- The attributes of a `Space` read by the translator; `buildingStory` and `thermalZone`
hold the handle of the object the accessor returns. -/
structure Space where
  handle : Handle
  name : String
  volume : ℚ
  floorArea : ℚ
  buildingStory : Option Handle
  thermalZone : Option Handle
  deriving DecidableEq, Repr

/-- The attributes of a `ThermalZone` read by the translator. -/
structure ThermalZone where
  handle : Handle
  name : String
  volume : Option ℚ
  spaces : List Space
  deriving DecidableEq, Repr

/-- A vertex of a surface. -/
structure Point3d where
  x : ℚ
  y : ℚ
  z : ℚ
  deriving DecidableEq, Repr

/-- What the translator reads of the surface returned by `surface.adjacentSurface()`. -/
structure AdjacentSurface where
  handle : Handle
  name : String
  space : Option Space
  deriving DecidableEq, Repr

/-- The attributes of a `Surface` read by the translator. -/
structure Surface where
  handle : Handle
  name : String
  outsideBoundaryCondition : String
  surfaceType : String
  space : Option Space
  grossArea : ℚ
  azimuth : ℚ
  vertices : List Point3d
  adjacentSurface : Option AdjacentSurface
  deriving DecidableEq, Repr

/-- The attributes of an `AirLoopHVAC` read by the translator. -/
structure AirLoopHVAC where
  handle : Handle
  thermalZones : List ThermalZone
  deriving DecidableEq, Repr

/-- The building name as returned by `getOptionalUniqueModelObject<Building>()` and `name()`. -/
structure Building where
  name : Option String
  deriving DecidableEq, Repr

/-- The source building model as seen through the query interface. -/
structure Model where
  building : Option Building
  stories : List BuildingStory
  thermalZones : List ThermalZone
  surfaces : List Surface
  airLoops : List AirLoopHVAC
  hasSqlFile : Bool
  deriving DecidableEq, Repr

/-- The story of the first space of a zone that has one: the story the zone loop looks up. -/
def firstStory : List Space → Option Handle
  | [] => none
  | space :: rest =>
    match space.buildingStory with
    | some story => some story
    | none => firstStory rest

/-- The zone has a resolvable level: its first space with a story names a story of the model. -/
def Model.levelResolves (model : Model) (zone : ThermalZone) : Bool :=
  match firstStory zone.spaces with
  | some story => decide (story ∈ model.stories.map (fun s => s.handle))
  | none => false

/-- The thermal zone reached from the far side of an interior surface. -/
def Surface.adjacentZone (surface : Surface) : Option Handle :=
  match surface.adjacentSurface with
  | some adjacentSurface =>
    match adjacentSurface.space with
    | some adjacentSpace => adjacentSpace.thermalZone
    | none => none
  | none => none

/-- The thermal zone that owns a surface. -/
def Surface.ownZone (surface : Surface) : Option Handle :=
  match surface.space with
  | some space => space.thermalZone
  | none => none

/-- Every surface with boundary condition "Surface" has an adjacent surface with a space in
a thermal zone. -/
def Model.adjacencyResolves (model : Model) : Prop :=
  ∀ s ∈ model.surfaces, s.outsideBoundaryCondition = "Surface" → s.adjacentZone.isSome = true

/-- Referential integrity of the model: a thermal zone reached through an adjacent surface
or served by an air loop is one of the thermal zones of the model. -/
def Model.zoneRefsResolve (model : Model) : Prop :=
  (∀ s ∈ model.surfaces, ∀ z, s.adjacentZone = some z →
    z ∈ model.thermalZones.map (fun tz => tz.handle)) ∧
  (∀ loop ∈ model.airLoops, ∀ tz ∈ loop.thermalZones,
    tz.handle ∈ model.thermalZones.map (fun z => z.handle))

/-- How `surface.adjacentSurface()` presents the surface `b`. -/
def Surface.asAdjacent (b : Surface) : AdjacentSurface :=
  { handle := b.handle, name := b.name, space := b.space }

end model

namespace contam

namespace prj

/-- Modelled from the spec: `prj::Level` of `contam/PrjData.hpp` (not part of the sources at
hand): sequence index, reference height, height delta, display label. -/
structure Level where
  nr : Int := 0
  refht : ℚ := 0
  delht : ℚ := 0
  name : String := ""
  deriving DecidableEq, Repr

/-- Modelled from the spec: `prj::Zone` of `contam/PrjData.hpp`: sequence index, owning level,
volume, reference temperature, flags, display label. -/
structure Zone where
  nr : Int := 0
  pl : Int := 0
  Vol : ℚ := 0
  T0 : ℚ := 0
  variablePressure : Bool := false
  variableContaminants : Bool := false
  system : Bool := false
  name : String := ""
  deriving DecidableEq, Repr

/-- Modelled from the spec: `prj::Path` of `contam/PrjData.hpp`: sequence index, from and to
zone (`pzn`, `pzm`), element (`pe`), wind template (`pw`), AHS (`pa`), level (`pld`), relative
height (`none` for a NaN), multiplier, wind parameters, flags and the optional flow-rate
override `Fahs`. -/
structure Path where
  nr : Int := 0
  pzn : Int := 0
  pzm : Int := 0
  pe : Int := 0
  pw : Int := 0
  pa : Int := 0
  pld : Int := 0
  relHt : Option ℚ := some 0
  mult : ℚ := 0
  wPmod : ℚ := 0
  wazm : ℚ := 0
  Fahs : Option ℚ := none
  windPressure : Bool := false
  system : Bool := false
  exhaust : Bool := false
  recirculation : Bool := false
  outsideAir : Bool := false
  deriving DecidableEq, Repr

/-- Modelled from the spec: `prj::Ahs` of `contam/PrjData.hpp`: sequence index, synthesized
return and supply zones, recirculation, outside-air and exhaust paths, display label. -/
structure Ahs where
  nr : Int := 0
  zone_r : Int := 0
  zone_s : Int := 0
  path_r : Int := 0
  path_s : Int := 0
  path_x : Int := 0
  name : String := ""
  deriving DecidableEq, Repr

/-- Modelled from the spec: `prj::Plr_Test1` of `contam/PrjData.hpp`, the one-point power-law
airflow element: index, icon, type tag, name, laminar and turbulent coefficient (`none` when
the computed value is not a finite number), exponent, reference pressure drop and flow, unit
flags. -/
structure AirflowElement where
  nr : Int
  icon : Int
  dtype : String
  name : String
  lam : Option ℝ
  turb : Option ℝ
  expt : ℝ
  dP : ℝ
  Flow : ℝ
  u_P : Int
  u_F : Int

/-- Modelled from the spec: the steady-state weather record of the run control. -/
structure Weather where
  windspd : ℚ := 0
  winddir : ℚ := 0
  deriving DecidableEq, Repr

/-- Modelled from the spec: the fields of the run control (`rc`) written by the translator. -/
structure RunControl where
  prjdesc : String := ""
  wind_H : ℚ := 0
  ssWeather : Weather := {}
  deriving DecidableEq, Repr

/-- Modelled from the spec: `prj::Data` of `contam/PrjData.hpp`, the assembled network. -/
structure Data where
  valid : Bool
  rc : RunControl
  levels : List Level
  zones : List Zone
  paths : List Path
  airflowElements : List AirflowElement
  ahs : List Ahs

end prj


/-- Modelled from the spec: the two helpers of `utilities/geometry` and `contam/WindPressure.hpp`
that the surface loop calls and that are not part of the sources at hand: the radian to degree
conversion and the building-height dependent wind pressure modifier
(`wind::pressureModifier(wind::Default, H)`). They are parameters of the translation. -/
structure Externals where
  radToDeg : ℚ → ℚ
  pressureModifier : ℚ → ℚ

/-- Result of running a statement that may leave `translate` early. -/
inductive Outcome (σ : Type) where
  | next : σ → Outcome σ
  | abort : σ → Outcome σ
  | outOfRange : Outcome σ

/-- A range-based loop whose body may leave the function. -/
def forEach {σ α : Type} (body : σ → α → Outcome σ) : List α → σ → Outcome σ
  | [], s => .next s
  | a :: rest, s =>
    match body s a with
    | .next s1 => forEach body rest s1
    | .abort s1 => .abort s1
    | .outOfRange => .outOfRange

/-- Result of a loop or phase reduced to the translator it leaves behind. -/
def Outcome.map {σ τ : Type} (f : σ → τ) : Outcome σ → Outcome τ
  | .next s => .next (f s)
  | .abort s => .abort (f s)
  | .outOfRange => .outOfRange

/-- Sequencing of two phases: the second runs only when the first did not leave the function. -/
def Outcome.bind {σ : Type} (o : Outcome σ) (f : σ → Outcome σ) : Outcome σ :=
  match o with
  | .next s => f s
  | .abort s => .abort s
  | .outOfRange => .outOfRange

/-- The read `list[i]` of a `QList` with an `int` index. -/
def listAt {α : Type} (l : List α) (i : Int) : Option α :=
  if 0 ≤ i then l.get? i.toNat else none

/-- The update `list[i].field = value` of a `QList` with an `int` index. -/
def listModify {α : Type} (l : List α) (i : Int) (f : α → α) : Option (List α) :=
  match listAt l i with
  | some a => some (l.set i.toNat (f a))
  | none => none

/-- The four airflow element indices a translation assigns to paths. -/
structure ElementChoice where
  roof : Int
  exterior : Int
  floor : Int
  interior : Int
  deriving DecidableEq, Repr

/-- The five tables handled by `findAFEs`. -/
structure AfeTables where
  afeMap : Table String
  extWallAFE : Table String
  intWallAFE : Table String
  floorAFE : Table String
  roofAFE : Table String

/-- One pass of the loop of `findAFEs`; `g` is `(grade[i], wallExt[i], wallInt[i], floor[i], roof[i])`.
The reads of `afeMap` go through `operator[]`. -/
def findAFEsStep (s : AfeTables) (g : String × String × String × String × String) : AfeTables :=
  let e := s.afeMap.index g.2.1
  let i := e.2.index g.2.2.1
  let f := i.2.index g.2.2.2.1
  let r := f.2.index g.2.2.2.2
  { afeMap := r.2
    extWallAFE := s.extWallAFE.set g.1 e.1
    intWallAFE := s.intWallAFE.set g.1 i.1
    floorAFE := s.floorAFE.set g.1 f.1
    roofAFE := s.roofAFE.set g.1 r.1 }

/-- The function `findAFEs`. -/
def findAFEs (afeMap : Table String) : AfeTables :=
  [("Leaky", "ExtWallLeaky", "IntWallLeaky", "FloorLeaky", "RoofLeaky"),
   ("Average", "ExtWallAvg", "IntWallAvg", "FloorAvg", "RoofAvg"),
   ("Tight", "ExtWallTight", "IntWallTight", "FloorTight", "RoofTight")].foldl findAFEsStep
    { afeMap := afeMap, extWallAFE := [], intWallAFE := [], floorAFE := [], roofAFE := [] }

/-- The members of `ForwardTranslator` (the progress bar apart). -/
structure ForwardTranslator where
  m_data : prj.Data
  m_afeMap : Table String
  m_levelMap : Table Handle
  m_zoneMap : Table Handle
  m_pathMap : Table String
  m_surfaceMap : Table Handle
  m_ahsMap : Table Handle
  m_valid : Bool
  m_logSink : List LogMessage

namespace ForwardTranslator

open model

/-- The constructor; `template` is what `m_data.read(":/templates/template.prj")` produced. -/
def new (template : prj.Data) : ForwardTranslator :=
  { m_data := if template.valid then { template with levels := [] } else template
    m_afeMap := []
    m_levelMap := []
    m_zoneMap := []
    m_pathMap := []
    m_surfaceMap := []
    m_ahsMap := []
    m_valid := false
    m_logSink := [] }

/-- The macro `LOG(level, message)`: the sink keeps messages of level `Warn` and above. -/
def LOG (t : ForwardTranslator) (level : LogLevel) (message : String) : ForwardTranslator :=
  if LogLevel.Warn.toInt ≤ level.toInt then
    { t with m_logSink := t.m_logSink ++ [{ logLevel := level, logMessage := message }] }
  else t

/-- The assignment `m_valid = v`. -/
def setValid (t : ForwardTranslator) (v : Bool) : ForwardTranslator :=
  { t with m_valid := v }

/-- The overload `tableLookup(QMap<Handle,int>, Handle, name)`. -/
def tableLookupQMap (t : ForwardTranslator) (map : Table Handle) (handle : Handle)
    (name : String) : Int × ForwardTranslator :=
  let nr := map.value handle 0
  if nr = 0 then
    (nr, t.LOG .Warn ("Unable to look up '" ++ toString handle ++ "' in " ++ name))
  else (nr, t)

/-- The overload `tableLookup(QMap<std::string,int>, std::string, name)`. -/
def tableLookupString (t : ForwardTranslator) (map : Table String) (str : String)
    (name : String) : Int × ForwardTranslator :=
  let nr := map.value str 0
  if nr = 0 then
    (nr, t.LOG .Warn ("Unable to look up '" ++ str ++ "' in " ++ name))
  else (nr, t)

/-- The overload `tableLookup(std::map<Handle,int>, Handle, name)`: it warns when the key is
missing, not when the stored value is 0. -/
def tableLookupStdMap (t : ForwardTranslator) (map : Table Handle) (handle : Handle)
    (name : String) : Int × ForwardTranslator :=
  match map.find handle with
  | none => (0, t.LOG .Warn ("Unable to look up '" ++ toString handle ++ "' in " ++ name))
  | some nr => (nr, t)

/-- The inline member `valid()`. -/
def valid (t : ForwardTranslator) : Bool := t.m_valid && t.m_data.valid

/-- The member `warnings()`. -/
def warnings (t : ForwardTranslator) : List LogMessage :=
  t.m_logSink.filter (fun m => m.logLevel = LogLevel.Warn)

/-- The member `errors()`. -/
def errors (t : ForwardTranslator) : List LogMessage :=
  t.m_logSink.filter (fun m => LogLevel.Warn.toInt < m.logLevel.toInt)

/-- The model description written to `m_data.rc.prjdesc`. -/
def modelDescr (model : Model) : String :=
  match model.building with
  | some building =>
    match building.name with
    | some name => "Automatically generated from \"" ++ name ++ "\" OpenStudio model"
    | none => "Automatically generated OpenStudio model"
  | none => "Automatically generated OpenStudio model"

/-- Body of the loop over the building stories; `nr` and `totalHeight` are the loop locals. -/
def storyStep (s : Int × ℚ × ForwardTranslator) (buildingStory : BuildingStory) :
    Int × ℚ × ForwardTranslator :=
  let nr := s.1
  let t := s.2.2
  let ht := buildingStory.nominalFloortoFloorHeight
  let totalHeight := s.2.1 + ht
  let z := match buildingStory.nominalZCoordinate with
    | some elevation => elevation
    | none => totalHeight
  let level : prj.Level :=
    { name := "<" ++ toString nr ++ ">", nr := nr, refht := z, delht := ht }
  (nr + 1, totalHeight,
    { t with
      m_levelMap := t.m_levelMap.set buildingStory.handle nr
      m_data := { t.m_data with levels := t.m_data.levels ++ [level] } })

/-- The loop over the building stories, started with `nr = 1` and `totalHeight = 0`. -/
def translateStories (stories : List BuildingStory) (t : ForwardTranslator) :
    Int × ℚ × ForwardTranslator :=
  stories.foldl storyStep (1, 0, t)

/-- The level of a zone: the level of the first space that has a story (`break`). -/
def zoneLevel (t : ForwardTranslator) : List Space → Int × ForwardTranslator
  | [] => (0, t)
  | space :: rest =>
    match space.buildingStory with
    | some story => t.tableLookupQMap t.m_levelMap story "levelMap"
    | none => zoneLevel t rest

/-- The volume written to `zone.Vol`: the volume of the thermal zone when it has one, else
the sum of the volumes of its spaces, with a warning when that sum is zero. -/
def zoneVolume (t : ForwardTranslator) (thermalZone : ThermalZone) : ℚ × ForwardTranslator :=
  match thermalZone.volume with
  | some volume => (volume, t)
  | none =>
    let vol := (thermalZone.spaces.map (fun space => space.volume)).sum
    if vol = 0 then
      (0, t.LOG .Warn ("Failed to compute volume for Zone '" ++ thermalZone.name ++ "'"))
    else (vol, t)

/-- Body of the loop over the thermal zones; `s.1` is the loop local `nr`. -/
def zoneStep (s : Int × ForwardTranslator) (thermalZone : ThermalZone) :
    Outcome (Int × ForwardTranslator) :=
  let nr := s.1 + 1
  let t := { s.2 with m_zoneMap := s.2.m_zoneMap.set thermalZone.handle nr }
  let zone : prj.Zone := { nr := nr, name := "Zone_" ++ toString nr }
  let volt := zoneVolume t thermalZone
  let zone := { zone with Vol := volt.1, variablePressure := true, variableContaminants := true }
  let lvl := zoneLevel volt.2 thermalZone.spaces
  if lvl.1 ≠ 0 then
    let zone := { zone with pl := lvl.1, T0 := 293.15 }
    .next (nr, { lvl.2 with m_data := { lvl.2.m_data with zones := lvl.2.m_data.zones ++ [zone] } })
  else
    .abort (nr, (lvl.2.LOG .Error ("Unable to set level for zone '" ++ thermalZone.name ++
      "', translation aborted")).setValid false)

/-- The locals of the loop over the surfaces. -/
structure SurfaceLoop where
  nr : Int
  used : List Handle
  t : ForwardTranslator

/-- The mean of the `z` coordinates of the vertices less the reference height of the level;
`none` is the NaN that the division `0/0` yields for a surface without vertices. -/
def relativeHeight (vertices : List Point3d) (refht : ℚ) : Option ℚ :=
  if vertices.length = 0 then none
  else some ((vertices.map (fun point => point.z)).sum / (vertices.length : ℚ) - refht)

/-- The statements `path.nr = ++nr; m_surfaceMap[surface.handle()] = path.nr;
m_data.paths << path;` with `t` the translator at that point. -/
def SurfaceLoop.addPath (s : SurfaceLoop) (t : ForwardTranslator) (handle : Handle)
    (path : prj.Path) : SurfaceLoop :=
  { nr := s.nr + 1
    used := s.used
    t := { t with
      m_surfaceMap := t.m_surfaceMap.set handle (s.nr + 1)
      m_data := { t.m_data with paths := t.m_data.paths ++ [{ path with nr := s.nr + 1 }] } } }

/-- The fields of an exterior flow path (`bc == "Outdoors"`), the index apart. -/
def exteriorPath (ext : Externals) (pe : ElementChoice) (wind_H : ℚ) (surface : Surface)
    (zone : prj.Zone) (path : prj.Path) : prj.Path :=
  let path := { path with
    pzn := zone.nr
    pzm := -1
    wazm := ext.radToDeg surface.azimuth
    windPressure := true
    wPmod := ext.pressureModifier wind_H
    pw := 4 }
  if surface.surfaceType = "RoofCeiling" then { path with pe := pe.roof, pw := 5 }
  else { path with pe := pe.exterior }

/-- The fields of an interior flow path (`bc == "Surface"`), the index apart; `pzm` is what
`m_zoneMap[adjacentZone->handle()]` returned. -/
def interiorPath (pe : ElementChoice) (surface : Surface) (zone : prj.Zone) (pzm : Int)
    (path : prj.Path) : prj.Path :=
  let path := { path with pzn := zone.nr, pzm := pzm }
  if surface.surfaceType = "Floor" ∨ surface.surfaceType = "RoofCeiling"
  then { path with pe := pe.floor }
  else { path with pe := pe.interior }

/-- The branch `else if (bc == "Surface")` of the loop over the surfaces. -/
def interiorStep (pe : ElementChoice) (s : SurfaceLoop) (t : ForwardTranslator)
    (surface : Surface) (thermalZone : Handle) (zone : prj.Zone) (path : prj.Path) :
    Outcome SurfaceLoop :=
  match surface.adjacentSurface with
  | none =>
    .abort { s with t := (t.LOG .Error ("Unable to find adjacent surface for surface '"
      ++ surface.name ++ "'")).setValid false }
  | some adjacentSurface =>
    match adjacentSurface.space with
    | none =>
      .abort { s with t := (t.LOG .Error ("Unattached adjacent surface '"
        ++ adjacentSurface.name ++ "'")).setValid false }
    | some adjacentSpace =>
      match adjacentSpace.thermalZone with
      | none =>
        .abort { s with t := (t.LOG .Error ("Unattached adjacent space '"
          ++ adjacentSpace.name ++ "'")).setValid false }
      | some adjacentZone =>
        if adjacentZone ≠ thermalZone then
          let ix := t.m_zoneMap.index adjacentZone
          let s1 := s.addPath { t with m_zoneMap := ix.2 } surface.handle
            (interiorPath pe surface zone ix.1 path)
          .next { s1 with used := s.used ++ [adjacentSurface.handle] }
        else .next { s with t := t }

/-- Body of the loop over the surfaces. -/
def surfaceStep (ext : Externals) (pe : ElementChoice) (wind_H : ℚ) (s : SurfaceLoop)
    (surface : Surface) : Outcome SurfaceLoop :=
  let bc := surface.outsideBoundaryCondition
  if ¬ (surface.handle ∈ s.used) ∧ bc ≠ "Ground" then
    match surface.space with
    | none => .next { s with t := s.t.LOG .Warn ("Unattached surface '" ++ surface.name ++ "'") }
    | some space =>
      match space.thermalZone with
      | none => .next { s with t := s.t.LOG .Warn ("Unattached space '" ++ space.name ++ "'") }
      | some thermalZone =>
        let look := s.t.tableLookupStdMap s.t.m_zoneMap thermalZone "zoneMap"
        let zoneNr := look.1
        let t := look.2
        if zoneNr = 0 then .next { s with t := t }
        else
          match listAt t.m_data.zones (zoneNr - 1) with
          | none => .outOfRange
          | some zone =>
            match listAt t.m_data.levels (zone.pl - 1) with
            | none => .outOfRange
            | some level =>
              let path : prj.Path :=
                { relHt := relativeHeight surface.vertices level.refht
                  pld := zone.pl
                  mult := surface.grossArea }
              if bc = "Outdoors" then
                .next (s.addPath t surface.handle (exteriorPath ext pe wind_H surface zone path))
              else if bc = "Surface" then interiorStep pe s t surface thermalZone zone path
              else .next { s with t := t }
  else .next s

/-- The loop over the thermal zones, started with `nr = 0`. -/
def translateZones (thermalZones : List ThermalZone) (t : ForwardTranslator) :
    Outcome ForwardTranslator :=
  (forEach zoneStep thermalZones (0, t)).map Prod.snd

/-- The loop over the surfaces, started with `nr = 0`, an empty `used` list and
`wind_H = m_data.rc.wind_H`. -/
def translateSurfaces (ext : Externals) (pe : ElementChoice) (surfaces : List Surface)
    (t : ForwardTranslator) : Outcome ForwardTranslator :=
  (forEach (surfaceStep ext pe t.m_data.rc.wind_H) surfaces
    { nr := 0, used := [], t := t }).map (fun s => s.t)

/-- Body of the loop over the zones served by an air loop: one supply and one return path. -/
def servedZoneStep (ahs : prj.Ahs) (t : ForwardTranslator) (thermalZone : ThermalZone) :
    ForwardTranslator :=
  let look := t.tableLookupStdMap t.m_zoneMap thermalZone.handle "zoneMap"
  let zoneNr := look.1
  let t := look.2
  let sp : prj.Path :=
    { nr := (t.m_data.paths.length : Int) + 1
      pld := 1
      pzn := ahs.zone_s
      pzm := zoneNr
      pa := ahs.nr
      system := true }
  let t := { t with m_pathMap := t.m_pathMap.set (thermalZone.name ++ " supply") sp.nr }
  let rp : prj.Path :=
    { nr := sp.nr + 1
      pld := 1
      pzn := zoneNr
      pzm := ahs.zone_r
      pa := ahs.nr
      system := true }
  let t := { t with m_pathMap := t.m_pathMap.set (thermalZone.name ++ " return") rp.nr }
  { t with m_data := { t.m_data with paths := t.m_data.paths ++ [sp, rp] } }

/-- The synthesized return zone `rz` of the AHS number `nr`; `zones` is the zone list at that
point. -/
def returnZone (nr : Int) (zones : List prj.Zone) : prj.Zone :=
  { nr := (zones.length : Int) + 1
    pl := 1
    T0 := 293.15
    system := true
    variableContaminants := true
    name := "AHS_" ++ toString nr ++ "(Rec)" }

/-- The synthesized supply zone `sz` of the AHS number `nr`. -/
def supplyZone (nr : Int) (rz : prj.Zone) : prj.Zone :=
  { nr := rz.nr + 1
    pl := 1
    T0 := 293.15
    system := true
    variableContaminants := true
    name := "AHS_" ++ toString nr ++ "(Sup)" }

/-- The AHS record with its number, name and the two zone numbers stored. -/
def newAhs (nr : Int) (rz sz : prj.Zone) : prj.Ahs :=
  { nr := nr, name := "AHS_" ++ toString nr, zone_r := rz.nr, zone_s := sz.nr }

/-- The translator when the loop over the served zones of an air loop starts: the air loop is
registered in `m_ahsMap` and the two system zones are in the zone list. -/
def airloopStart (s : Int × ForwardTranslator) (airloop : AirLoopHVAC) : ForwardTranslator :=
  let nr := s.1 + 1
  let rz := returnZone nr s.2.m_data.zones
  let sz := supplyZone nr rz
  { s.2 with
    m_ahsMap := s.2.m_ahsMap.set airloop.handle nr
    m_data := { s.2.m_data with zones := s.2.m_data.zones ++ [rz, sz] } }

/-- The AHS record of an air loop. -/
def airloopAhs (s : Int × ForwardTranslator) : prj.Ahs :=
  let nr := s.1 + 1
  let rz := returnZone nr s.2.m_data.zones
  newAhs nr rz (supplyZone nr rz)

/-- Body of the loop over the air loops; `s.1` is the loop local `nr`. -/
def airloopStep (s : Int × ForwardTranslator) (airloop : AirLoopHVAC) :
    Int × ForwardTranslator :=
  if airloop.thermalZones.length = 0 then s
  else
    let ahs := airloopAhs s
    let t := airloop.thermalZones.foldl (servedZoneStep ahs) (airloopStart s airloop)
    (s.1 + 1, { t with m_data := { t.m_data with ahs := t.m_data.ahs ++ [ahs] } })

/-- The loop over the air loops, started with `nr = 0`. -/
def translateAirLoops (systems : List AirLoopHVAC) (t : ForwardTranslator) : ForwardTranslator :=
  (systems.foldl airloopStep (0, t)).2

/-- The recirculation path of the AHS `a`; `size` is `m_data.paths.size()` at that point. -/
def recircPath (size : Int) (a : prj.Ahs) : prj.Path :=
  { nr := size + 1
    pld := 1
    pzn := a.zone_r
    pzm := a.zone_s
    recirculation := true }

/-- The outside air path of the AHS `a`, numbered after the recirculation path. -/
def oaPath (size : Int) (a : prj.Ahs) : prj.Path :=
  { nr := (recircPath size a).nr + 1
    pld := 1
    pzn := -1
    pzm := a.zone_s
    outsideAir := true }

/-- The exhaust path of the AHS `a`, numbered after the outside air path. -/
def exhaustPath (size : Int) (a : prj.Ahs) : prj.Path :=
  { nr := (oaPath size a).nr + 1
    pld := 1
    pzn := a.zone_r
    pzm := -1
    exhaust := true }

/-- The AHS record with the numbers of its three closing paths stored. -/
def closeAhs (size : Int) (a : prj.Ahs) : prj.Ahs :=
  { a with
    path_r := (recircPath size a).nr
    path_s := (oaPath size a).nr
    path_x := (exhaustPath size a).nr }

/-- Body of the loop `for(i=0;i<m_data.ahs.size();i++)` that closes each AHS. -/
def closureStep (t : ForwardTranslator) (i : Nat) : Outcome ForwardTranslator :=
  match listAt t.m_data.ahs (i : Int) with
  | none => .outOfRange
  | some a =>
    let loopName := "AHS_" ++ toString (i + 1)
    let size : Int := (t.m_data.paths.length : Int)
    let recirc := recircPath size a
    let t := { t with m_pathMap := t.m_pathMap.set (loopName ++ " recirculation") recirc.nr }
    let oa := oaPath size a
    let t := { t with m_pathMap := t.m_pathMap.set (loopName ++ " oa") oa.nr }
    let exhaust := exhaustPath size a
    let t := { t with m_pathMap := t.m_pathMap.set (loopName ++ " exhaust") exhaust.nr }
    .next { t with
      m_data := { t.m_data with
        paths := t.m_data.paths ++ [recirc, oa, exhaust]
        ahs := t.m_data.ahs.set i (closeAhs size a) } }

/-- The loop that connects the supply and return zones of every AHS. -/
def connectAhs (t : ForwardTranslator) : Outcome ForwardTranslator :=
  forEach closureStep (List.range t.m_data.ahs.length) t

/-- The assignment `m_data.paths[nr-1].Fahs = flow`, guarded by `if(nr)`. -/
def setFahs (paths : List prj.Path) (nr : Int) (flow : ℚ) : Option (List prj.Path) :=
  if nr ≠ 0 then listModify paths (nr - 1) (fun p => { p with Fahs := some flow })
  else some paths

/-- Body of the loop that approximates the supply and return flows of a thermal zone. -/
def flowStep (t : ForwardTranslator) (thermalZone : ThermalZone) : Outcome ForwardTranslator :=
  let area := (thermalZone.spaces.map (fun space => space.floorArea)).sum
  if area = 0 then
    .next (t.LOG .Warn ("Failed to compute floor area for Zone '" ++ thermalZone.name ++ "'"))
  else
    let flowRate := area * 0.00508 * 1.2041
    let supplyNr := t.m_pathMap.value (thermalZone.name ++ " supply") 0
    match setFahs t.m_data.paths supplyNr flowRate with
    | none => .outOfRange
    | some paths1 =>
      let returnNr := t.m_pathMap.value (thermalZone.name ++ " return") 0
      match setFahs paths1 returnNr (0.9 * flowRate) with
      | none => .outOfRange
      | some paths2 => .next { t with m_data := { t.m_data with paths := paths2 } }

/-- The flow-rate step: with simulation results only a warning per zone is logged (the time
series are read and dropped); without them the flows are approximated. -/
def setFlows (model : Model) (t : ForwardTranslator) : Outcome ForwardTranslator :=
  if model.hasSqlFile then
    .next (model.thermalZones.foldl
      (fun t _ => t.LOG .Warn "Zone equipment not yet accounted for.") t)
  else
    forEach flowStep model.thermalZones
      (t.LOG .Warn "Simulation results not available, using 1 scfm/ft^2 to set supply flows")

/-- The block guarded by `if(translateHVAC)`. -/
def translateHVACBlock (model : Model) (t : ForwardTranslator) : Outcome ForwardTranslator :=
  (connectAhs (translateAirLoops model.airLoops t)).bind (setFlows model)

/-- How `translate` returns: `m_valid = true; return true` at the end, `return false` at an
abort (where `m_valid` was already cleared). -/
def finish : Outcome ForwardTranslator → Option (Bool × ForwardTranslator)
  | .next t => some (true, t.setValid true)
  | .abort t => some (false, t)
  | .outOfRange => none

/-- The assignment `m_data.rc.prjdesc = modelDescr`. -/
def setDescription (t : ForwardTranslator) (model : Model) : ForwardTranslator :=
  { t with m_data := { t.m_data with rc := { t.m_data.rc with prjdesc := modelDescr model } } }

/-- The first part of the shared body: the model description, the loop over the stories and
the assignment of `m_data.rc.wind_H`. -/
def storiesPhase (model : Model) (t : ForwardTranslator) : ForwardTranslator :=
  let st := translateStories model.stories (t.setDescription model)
  { st.2.2 with
    m_data := { st.2.2.m_data with rc := { st.2.2.m_data.rc with wind_H := st.2.1 } } }

/-- The zones, surfaces and HVAC phases in sequence. -/
def networkPhases (ext : Externals) (pe : ElementChoice) (model : Model) (translateHVAC : Bool)
    (t : ForwardTranslator) : Outcome ForwardTranslator :=
  ((translateZones model.thermalZones t).bind (translateSurfaces ext pe model.surfaces)).bind
    (fun t => if translateHVAC then translateHVACBlock model t else .next t)

/-- The part shared, line for line, by the two long overloads of `translate`: from the model
description to the final `return true`. The overloads differ only in where the four element
indices `pe` come from. -/
def translateBody (ext : Externals) (pe : ElementChoice) (t : ForwardTranslator) (model : Model)
    (translateHVAC : Bool) : Option (Bool × ForwardTranslator) :=
  let t := storiesPhase model t
  if t.m_data.levels.length = 0 then
    some (false, (t.LOG .Error
      "Failed to find building stories in model, translation aborted").setValid false)
  else finish (networkPhases ext pe model translateHVAC t)

/-- The call `m_logSink.resetStringStream()`. -/
def resetLog (t : ForwardTranslator) : ForwardTranslator :=
  { t with m_logSink := [] }

/-- The loop that builds the airflow element lookup table `m_afeMap`. -/
def buildAfeMap (t : ForwardTranslator) : ForwardTranslator :=
  { t with m_afeMap := t.m_data.airflowElements.foldl (fun m e => m.set e.name e.nr) t.m_afeMap }

/-- The check of the leakage descriptor against the known ones: the descriptor used from
there on, and the translator with the warning logged for an unknown one. -/
def checkDescriptor (t : ForwardTranslator) (leakageDescriptor : String) :
    String × ForwardTranslator :=
  let known := ["Average", "Tight", "Leaky"]
  if leakageDescriptor ∈ known then (leakageDescriptor, t)
  else ("Average", t.LOG .Warn ("Unknown leakage descriptor '" ++ leakageDescriptor ++
    "' using 'Average'"))

/-- The four reads `roofAFE[descriptor]`, `extWallAFE[descriptor]`, `floorAFE[descriptor]`
and `intWallAFE[descriptor]` of the surface loop. -/
def elementChoice (tabs : AfeTables) (descriptor : String) : ElementChoice :=
  { roof := (tabs.roofAFE.index descriptor).1
    exterior := (tabs.extWallAFE.index descriptor).1
    floor := (tabs.floorAFE.index descriptor).1
    interior := (tabs.intWallAFE.index descriptor).1 }

/-- The translator after the element lookup table is built and `findAFEs` has run on it. -/
def afePhase (t : ForwardTranslator) : ForwardTranslator :=
  { t.buildAfeMap with m_afeMap := (findAFEs t.buildAfeMap.m_afeMap).afeMap }

/-- The overload `translate(model, translateHVAC, leakageDescriptor)`. -/
def translate (ext : Externals) (t : ForwardTranslator) (model : Model) (translateHVAC : Bool)
    (leakageDescriptor : String) : Option (Bool × ForwardTranslator) :=
  let dt := checkDescriptor t.resetLog leakageDescriptor
  let tabs := findAFEs dt.2.buildAfeMap.m_afeMap
  translateBody ext (elementChoice tabs dt.1) (afePhase dt.2) model translateHVAC

/-- The overload `translate(model, afeMap, translateHVAC)`; `afeMap` is passed by value. -/
def translateWithMap (ext : Externals) (t : ForwardTranslator) (model : Model)
    (afeMap : Table String) (translateHVAC : Bool) : Option (Bool × ForwardTranslator) :=
  translateBody ext
    { roof := (afeMap.index "roof").1
      exterior := (afeMap.index "exterior").1
      floor := (afeMap.index "floor").1
      interior := (afeMap.index "interior").1 } t.resetLog model translateHVAC

/-- The member `setSteadyWeather`. -/
def setSteadyWeather (t : ForwardTranslator) (windSpeed windDirection : ℚ) :
    Bool × ForwardTranslator :=
  let wt : ℚ × ForwardTranslator :=
    if windSpeed < 0 then
      (-windSpeed, t.LOG .Warn "Steady state wind speed is negative, using absolute value.")
    else (windSpeed, t)
  (true, { wt.2 with
    m_data := { wt.2.m_data with
      rc := { wt.2.m_data.rc with
        ssWeather := { windspd := wt.1, winddir := windDirection } } } })

end ForwardTranslator

section AirflowElements

/-- Quotient of two doubles; `none` when the divisor is zero (the IEEE result is then an
infinity or a NaN). -/
noncomputable def fdiv (a b : ℝ) : Option ℝ :=
  if b = 0 then none else some (a / b)

/-- The call `sqrt(a)`; `none` (NaN) for a negative argument. -/
noncomputable def fsqrt (a : ℝ) : Option ℝ :=
  if a < 0 then none else some (Real.sqrt a)

/-- The call `std::pow(a, b)` on finite arguments: defined for a positive base, for a zero base
with a non-negative exponent and for a negative base with an integer exponent; `none` (an
infinity or a NaN) otherwise. -/
noncomputable def fpow (a b : ℝ) : Option ℝ :=
  if 0 < a then some (a ^ b)
  else if a = 0 then (if 0 < b then some 0 else if b = 0 then some 1 else none)
  else @ite _ (∃ k : ℤ, b = (k : ℝ)) (Classical.propDecidable _) (some (a ^ b)) none

/-- The static function `setLamCoef`. A `none` anywhere in the computation is carried to the
result, as a NaN is. -/
noncomputable def setLamCoef (Ct x : ℝ) : Option ℝ :=
  let RHOAIR : ℝ := 1.20410
  let SRHO : ℝ := 1.097315
  let SQRT2 : ℝ := 1.414213562
  let MUAIR : ℝ := 1.81625e-5
  let DPTMIN : ℝ := 1.0e-10
  let Re : ℝ := 30.0
  (fdiv Ct (0.6 * SQRT2)).bind fun A =>
  (fsqrt A).bind fun D =>
  (fdiv (MUAIR * Re * A) D).bind fun F =>
  (fdiv F (Ct * SRHO)).bind fun q =>
  (fdiv 1.0 x).bind fun e =>
  (fpow q e).bind fun dP0 =>
  let dP := if dP0 < DPTMIN then DPTMIN else dP0
  fdiv (MUAIR * F) (RHOAIR * dP)

/-- The turbulent coefficient `Ct = F/(SRHO*std::pow(deltaP,n))` of `addAirflowElement`. -/
noncomputable def turbCoef (flow n deltaP : ℝ) : Option ℝ :=
  let RHOAIR : ℝ := 1.20410
  let SRHO : ℝ := 1.097315
  let F := RHOAIR * flow / 3600.0
  (fpow deltaP n).bind fun p => fdiv F (SRHO * p)

/-- The member `addAirflowElement`; `OPNG` is the icon constant of `PrjData.hpp`. -/
noncomputable def ForwardTranslator.addAirflowElement (OPNG : Int) (t : ForwardTranslator)
    (name : String) (flow n deltaP : ℝ) : Int × ForwardTranslator :=
  let RHOAIR : ℝ := 1.20410
  let F := RHOAIR * flow / 3600.0
  let Ct := turbCoef flow n deltaP
  let Cl := Ct.bind fun c => setLamCoef c n
  let nr : Int := (t.m_data.airflowElements.length : Int) + 1
  let afe : prj.AirflowElement :=
    { nr := nr
      icon := OPNG
      dtype := "plr_test1"
      name := name
      lam := Cl
      turb := Ct
      expt := n
      dP := deltaP
      Flow := F
      u_P := 0
      u_F := 1 }
  (nr, { t with m_data := { t.m_data with airflowElements := t.m_data.airflowElements ++ [afe] } })

/-- The overload `translate(model, leakageRate, translateHVAC)`. -/
noncomputable def ForwardTranslator.translateWithRate (ext : Externals) (OPNG : Int)
    (t : ForwardTranslator) (model : model.Model) (leakageRate : ℝ) (translateHVAC : Bool) :
    Option (Bool × ForwardTranslator) :=
  let e := t.addAirflowElement OPNG "CustomExterior" leakageRate 0.65 75.0
  let r := e.2.addAirflowElement OPNG "CustomRoof" leakageRate 0.65 75.0
  let i := r.2.addAirflowElement OPNG "CustomInterior" (2 * leakageRate) 0.65 75.0
  let f := i.2.addAirflowElement OPNG "CustomFloor" (2 * leakageRate) 0.65 75.0
  let afeMap : Table String :=
    Table.set (Table.set (Table.set (Table.set [] "exterior" e.1) "roof" r.1) "interior" i.1) "floor" f.1
  f.2.translateWithMap ext model afeMap translateHVAC

end AirflowElements

/-! ## Predicates used in the statements -/

/-- What holds of the result of a statement: `P` when control falls through, `Q` at a
`return false`; an out-of-range access satisfies nothing. -/
def Outcome.sat {σ : Type} (P Q : σ → Prop) : Outcome σ → Prop
  | .next s => P s
  | .abort s => Q s
  | .outOfRange => False

/-- The records of a list are numbered 1, 2, ... in list order (`nr == position + 1`). -/
def Numbered {α : Type} (nr : α → Int) (l : List α) : Prop :=
  ∀ (i : Nat) (a : α), l.get? i = some a → nr a = (i : Int) + 1

/-- The baseline read from the template loaded and contributes no zones, paths or AHS. -/
def prj.Data.Baseline (template : prj.Data) : Prop :=
  template.valid = true ∧ template.zones = [] ∧ template.paths = [] ∧ template.ahs = []

/-- What the loop over the stories has established after the stories `pre`, started from the
translator `t0`; `s` holds the loop locals `nr`, `totalHeight` and the translator. -/
def StoriesInv (t0 : ForwardTranslator) (pre : List model.BuildingStory)
    (s : Int × ℚ × ForwardTranslator) : Prop :=
  s.1 = (pre.length : Int) + 1 ∧
  s.2.1 = (pre.map (fun b => b.nominalFloortoFloorHeight)).sum ∧
  s.2.2.m_data.levels.length = t0.m_data.levels.length + pre.length ∧
  (∀ i, i < t0.m_data.levels.length → s.2.2.m_data.levels[i]? = t0.m_data.levels[i]?) ∧
  (∀ (i : Nat) (b : model.BuildingStory), pre[i]? = some b →
    ∃ l, s.2.2.m_data.levels[t0.m_data.levels.length + i]? = some l ∧
      l.nr = (i : Int) + 1 ∧
      l.refht = b.nominalZCoordinate.getD
        (((pre.take (i + 1)).map (fun b => b.nominalFloortoFloorHeight)).sum) ∧
      l.delht = b.nominalFloortoFloorHeight) ∧
  (∀ e ∈ s.2.2.m_levelMap, e ∈ t0.m_levelMap ∨ (1 ≤ e.2 ∧ e.2 ≤ (pre.length : Int))) ∧
  (∀ b ∈ pre, ∃ v, s.2.2.m_levelMap.find b.handle = some v ∧ 1 ≤ v ∧ v ≤ (pre.length : Int))

/-- The zone loop finds a level for the zone in the story table `levelMap`. -/
def LevelFound (levelMap : Table Handle) (zone : model.ThermalZone) : Prop :=
  ∃ h v, model.firstStory zone.spaces = some h ∧ levelMap.find h = some v ∧ v ≠ 0

/-- What the loop over the thermal zones has established after the zones `pre`, started from
the translator `t0`; `s` holds the loop local `nr` and the translator. -/
def ZonesInv (t0 : ForwardTranslator) (pre : List model.ThermalZone)
    (s : Int × ForwardTranslator) : Prop :=
  s.1 = (pre.length : Int) ∧
  s.2.m_data.levels = t0.m_data.levels ∧
  s.2.m_levelMap = t0.m_levelMap ∧
  s.2.m_data.paths = t0.m_data.paths ∧
  s.2.m_data.ahs = t0.m_data.ahs ∧
  s.2.m_pathMap = t0.m_pathMap ∧
  s.2.m_surfaceMap = t0.m_surfaceMap ∧
  s.2.m_data.valid = t0.m_data.valid ∧
  s.2.m_data.rc = t0.m_data.rc ∧
  (∃ new : List prj.Zone, s.2.m_data.zones = t0.m_data.zones ++ new ∧
    new.length = pre.length ∧ Numbered (fun z => z.nr) new ∧
    ∀ z ∈ new, z.pl ≠ 0 ∧ z.system = false ∧ ∃ h, t0.m_levelMap.find h = some z.pl) ∧
  (∀ e ∈ s.2.m_zoneMap, e ∈ t0.m_zoneMap ∨ (1 ≤ e.2 ∧ e.2 ≤ (pre.length : Int))) ∧
  (∀ z ∈ pre, ∃ v, s.2.m_zoneMap.find z.handle = some v ∧ 1 ≤ v ∧ v ≤ (pre.length : Int)) ∧
  (∀ z ∈ pre, LevelFound t0.m_levelMap z)

/-- One pass of the zone loop for the zone `z` that ends in `return false`: the zone is in
the zone table but not in the zone list, and `m_valid` is cleared. -/
def ZoneAbortRel (z : model.ThermalZone) (s r : Int × ForwardTranslator) : Prop :=
  r.2.m_data = s.2.m_data ∧ r.2.m_valid = false ∧ r.2.m_levelMap = s.2.m_levelMap ∧
  r.2.m_pathMap = s.2.m_pathMap ∧ r.2.m_surfaceMap = s.2.m_surfaceMap ∧
  r.2.m_zoneMap = s.2.m_zoneMap.set z.handle (s.1 + 1)

/-- A run of the zone loop over the zones `zs` that ends in `return false` at a zone without
a level. -/
def ZonesAbort (t0 : ForwardTranslator) (zs : List model.ThermalZone)
    (r : Int × ForwardTranslator) : Prop :=
  ∃ pre z post s, zs = pre ++ z :: post ∧ ZonesInv t0 pre s ∧
    ¬ LevelFound t0.m_levelMap z ∧ ZoneAbortRel z s r

/-- Every nonzero index of the zone table leads to a zone of the zone list whose level is a
level of the level list: the two reads `zones[zoneNr-1]` and `levels[zone->pl-1]` of the
surface loop are in range. -/
def ZoneLookupOK (t : ForwardTranslator) : Prop :=
  ∀ e ∈ t.m_zoneMap, e.2 ≠ 0 →
    ∃ zone, listAt t.m_data.zones (e.2 - 1) = some zone ∧
      ∃ level, listAt t.m_data.levels (zone.pl - 1) = some level

/-- The surface loop creates a path for the surface `a` when it reaches it in state `s`. -/
def SurfaceCreates (s : ForwardTranslator.SurfaceLoop) (a : model.Surface) : Prop :=
  a.handle ∉ s.used ∧
  ∃ z v, a.ownZone = some z ∧ s.t.m_zoneMap.find z = some v ∧ v ≠ 0 ∧
    (a.outsideBoundaryCondition = "Outdoors" ∨
      (a.outsideBoundaryCondition = "Surface" ∧ ∃ k, a.adjacentZone = some k ∧ k ≠ z))

/-- The path `p` is the one the surface loop creates for the surface `a` in state `s`;
`zm` is the zone table after the step. -/
def SurfacePathOf (s : ForwardTranslator.SurfaceLoop) (a : model.Surface) (zm : Table Handle)
    (p : prj.Path) : Prop :=
  p.nr = s.nr + 1 ∧ p.pa = 0 ∧ p.system = false ∧ p.recirculation = false ∧
  p.outsideAir = false ∧ p.exhaust = false ∧ p.Fahs = none ∧
  p.mult = a.grossArea ∧
  (∃ z v zone, a.ownZone = some z ∧ s.t.m_zoneMap.find z = some v ∧ v ≠ 0 ∧
    listAt s.t.m_data.zones (v - 1) = some zone ∧ p.pzn = zone.nr ∧ p.pld = zone.pl) ∧
  ((a.outsideBoundaryCondition = "Outdoors" ∧ p.pzm = -1 ∧ p.windPressure = true) ∨
    (a.outsideBoundaryCondition = "Surface" ∧
      ∃ k, a.adjacentZone = some k ∧ zm.find k = some p.pzm))

/-- The handles the surface loop appends to `used` when it creates a path for `a`. -/
def usedDelta (a : model.Surface) : List Handle :=
  if a.outsideBoundaryCondition = "Outdoors" then []
  else
    match a.adjacentSurface with
    | some adjacentSurface => [adjacentSurface.handle]
    | none => []

/-- One pass of the surface loop for the surface `a` that falls through, as a relation
between the loop state before (`s`) and after (`r`). -/
def SurfaceStepRel (a : model.Surface) (s r : ForwardTranslator.SurfaceLoop) : Prop :=
  r.t.m_data.levels = s.t.m_data.levels ∧
  r.t.m_data.zones = s.t.m_data.zones ∧
  r.t.m_data.ahs = s.t.m_data.ahs ∧
  r.t.m_data.valid = s.t.m_data.valid ∧
  r.t.m_data.rc = s.t.m_data.rc ∧
  r.t.m_levelMap = s.t.m_levelMap ∧
  r.t.m_pathMap = s.t.m_pathMap ∧
  r.t.m_valid = s.t.m_valid ∧
  (∀ k v, s.t.m_zoneMap.find k = some v → r.t.m_zoneMap.find k = some v) ∧
  (∀ e ∈ r.t.m_zoneMap, e ∈ s.t.m_zoneMap ∨ e.2 = 0) ∧
  ((¬ SurfaceCreates s a ∧ r.nr = s.nr ∧ r.used = s.used ∧
      r.t.m_data.paths = s.t.m_data.paths ∧ r.t.m_surfaceMap = s.t.m_surfaceMap) ∨
    (SurfaceCreates s a ∧ r.nr = s.nr + 1 ∧ r.used = s.used ++ usedDelta a ∧
      r.t.m_surfaceMap = s.t.m_surfaceMap.set a.handle (s.nr + 1) ∧
      ∃ p, r.t.m_data.paths = s.t.m_data.paths ++ [p] ∧ SurfacePathOf s a r.t.m_zoneMap p))

/-- One pass of the surface loop for the surface `a` that ends in `return false`. -/
def SurfaceAbortRel (a : model.Surface) (s r : ForwardTranslator.SurfaceLoop) : Prop :=
  r.t.m_data = s.t.m_data ∧ r.t.m_valid = false ∧ r.nr = s.nr ∧ r.used = s.used ∧
  r.t.m_surfaceMap = s.t.m_surfaceMap ∧ r.t.m_zoneMap = s.t.m_zoneMap ∧
  a.handle ∉ s.used ∧ a.outsideBoundaryCondition = "Surface" ∧ a.adjacentZone = none

/-- A run of the surface loop over the surfaces `xs` that falls through, from the loop state
`s` to the loop state `r`. -/
inductive SurfaceRun : List model.Surface → ForwardTranslator.SurfaceLoop →
    ForwardTranslator.SurfaceLoop → Prop where
  | nil (s : ForwardTranslator.SurfaceLoop) : SurfaceRun [] s s
  | cons (a : model.Surface) (rest : List model.Surface)
      (s s1 r : ForwardTranslator.SurfaceLoop) :
      SurfaceStepRel a s s1 → SurfaceRun rest s1 r → SurfaceRun (a :: rest) s r

/-- A run of the surface loop over the surfaces `xs` that ends in `return false` at some
surface `a`. -/
def SurfaceAbort (xs : List model.Surface) (s r : ForwardTranslator.SurfaceLoop) : Prop :=
  ∃ pre a post mid, xs = pre ++ a :: post ∧ SurfaceRun pre s mid ∧ SurfaceAbortRel a mid r

/-- A path with its flow-rate override dropped: what the flow-rate step leaves unchanged. -/
def prj.Path.clearFahs (p : prj.Path) : prj.Path := { p with Fahs := none }

/-- The path is none of the three paths that close an AHS. -/
def prj.Path.notClosure (p : prj.Path) : Prop :=
  p.recirculation = false ∧ p.outsideAir = false ∧ p.exhaust = false

/-- Every nonzero index of the named-path table is the position of a path of the list. -/
def PathMapOK (t : ForwardTranslator) : Prop :=
  ∀ e ∈ t.m_pathMap, e.2 = 0 ∨ (1 ≤ e.2 ∧ e.2 ≤ (t.m_data.paths.length : Int))

/-- What the loop over the zones served by an air loop has established after the zones
`pre`, started from the translator `t0`, for the AHS record `ahs`. -/
def ServedInv (ahs : prj.Ahs) (t0 : ForwardTranslator) (pre : List model.ThermalZone)
    (t : ForwardTranslator) : Prop :=
  t.m_data.levels = t0.m_data.levels ∧
  t.m_data.zones = t0.m_data.zones ∧
  t.m_data.ahs = t0.m_data.ahs ∧
  t.m_data.valid = t0.m_data.valid ∧
  t.m_zoneMap = t0.m_zoneMap ∧
  t.m_surfaceMap = t0.m_surfaceMap ∧
  t.m_levelMap = t0.m_levelMap ∧
  t.m_valid = t0.m_valid ∧
  (∀ e ∈ t.m_pathMap, e ∈ t0.m_pathMap ∨ (1 ≤ e.2 ∧ e.2 ≤ (t.m_data.paths.length : Int))) ∧
  ∃ new : List prj.Path, t.m_data.paths = t0.m_data.paths ++ new ∧
    new.length = 2 * pre.length ∧
    (∀ (i : Nat) (p : prj.Path), new[i]? = some p →
      p.nr = (t0.m_data.paths.length : Int) + (i : Int) + 1) ∧
    ∀ p ∈ new, p.pa = ahs.nr ∧ p.system = true ∧ p.notClosure ∧ p.Fahs = none ∧
      ∃ z ∈ pre, (p.pzn = ahs.zone_s ∧ p.pzm = t0.m_zoneMap.value z.handle 0) ∨
        (p.pzn = t0.m_zoneMap.value z.handle 0 ∧ p.pzm = ahs.zone_r)

/-- The air loops that get an AHS: those serving at least one thermal zone. -/
def servedLoops (loops : List model.AirLoopHVAC) : List model.AirLoopHVAC :=
  loops.filter (fun l => decide (l.thermalZones.length ≠ 0))

/-- The zone index `k` written by the air loop phase: a system zone created by the phase or
what the zone table of `t0` holds for a zone served by one of the loops `pre`. -/
def AirZoneRef (t0 : ForwardTranslator) (pre : List model.AirLoopHVAC) (k : Int) : Prop :=
  ((t0.m_data.zones.length : Int) < k ∧
    k ≤ (t0.m_data.zones.length : Int) + 2 * ((servedLoops pre).length : Int)) ∨
  ∃ loop ∈ pre, ∃ z ∈ loop.thermalZones, k = t0.m_zoneMap.value z.handle 0

/-- What the loop over the air loops has established after the loops `pre`, started from the
translator `t0`; `s` holds the loop local `nr` and the translator. -/
def AirInv (t0 : ForwardTranslator) (pre : List model.AirLoopHVAC)
    (s : Int × ForwardTranslator) : Prop :=
  s.1 = ((servedLoops pre).length : Int) ∧
  s.2.m_data.levels = t0.m_data.levels ∧
  s.2.m_data.valid = t0.m_data.valid ∧
  s.2.m_zoneMap = t0.m_zoneMap ∧
  s.2.m_surfaceMap = t0.m_surfaceMap ∧
  s.2.m_levelMap = t0.m_levelMap ∧
  s.2.m_valid = t0.m_valid ∧
  (∀ e ∈ s.2.m_pathMap, e ∈ t0.m_pathMap ∨ (1 ≤ e.2 ∧ e.2 ≤ (s.2.m_data.paths.length : Int))) ∧
  (∃ nz : List prj.Zone, s.2.m_data.zones = t0.m_data.zones ++ nz ∧
    nz.length = 2 * (servedLoops pre).length ∧
    ∀ (i : Nat) (z : prj.Zone), nz[i]? = some z →
      z.nr = (t0.m_data.zones.length : Int) + (i : Int) + 1 ∧ z.system = true ∧ z.pl = 1 ∧
      z.variablePressure = false ∧ z.variableContaminants = true) ∧
  (∃ na : List prj.Ahs, s.2.m_data.ahs = t0.m_data.ahs ++ na ∧
    na.length = (servedLoops pre).length ∧
    ∀ (j : Nat) (a : prj.Ahs), na[j]? = some a →
      a.nr = (j : Int) + 1 ∧
      a.zone_r = (t0.m_data.zones.length : Int) + 2 * (j : Int) + 1 ∧
      a.zone_s = (t0.m_data.zones.length : Int) + 2 * (j : Int) + 2 ∧
      a.path_r = 0 ∧ a.path_s = 0 ∧ a.path_x = 0) ∧
  ∃ np : List prj.Path, s.2.m_data.paths = t0.m_data.paths ++ np ∧
    (∀ (i : Nat) (p : prj.Path), np[i]? = some p →
      p.nr = (t0.m_data.paths.length : Int) + (i : Int) + 1) ∧
    (∀ p ∈ np, 1 ≤ p.pa ∧ p.pa ≤ ((servedLoops pre).length : Int) ∧ p.system = true ∧
      p.notClosure ∧ p.Fahs = none ∧ AirZoneRef t0 pre p.pzn ∧ AirZoneRef t0 pre p.pzm) ∧
    ∀ (j : Nat) (loop : model.AirLoopHVAC), (servedLoops pre)[j]? = some loop →
      (np.filter (fun p => decide (p.pa = (j : Int) + 1))).length = 2 * loop.thermalZones.length

/-- What the loop that closes the AHS records has established after the first `i` records,
started from the translator `t0`. -/
def ClosureInv (t0 : ForwardTranslator) (i : Nat) (t : ForwardTranslator) : Prop :=
  t.m_data.levels = t0.m_data.levels ∧
  t.m_data.zones = t0.m_data.zones ∧
  t.m_data.valid = t0.m_data.valid ∧
  t.m_zoneMap = t0.m_zoneMap ∧
  t.m_surfaceMap = t0.m_surfaceMap ∧
  t.m_levelMap = t0.m_levelMap ∧
  t.m_valid = t0.m_valid ∧
  t.m_data.ahs.length = t0.m_data.ahs.length ∧
  (∀ j, i ≤ j → t.m_data.ahs[j]? = t0.m_data.ahs[j]?) ∧
  (∀ (j : Nat) (a0 : prj.Ahs), j < i → t0.m_data.ahs[j]? = some a0 →
    t.m_data.ahs[j]? = some
      (ForwardTranslator.closeAhs ((t0.m_data.paths.length : Int) + 3 * (j : Int)) a0)) ∧
  (∀ e ∈ t.m_pathMap, e ∈ t0.m_pathMap ∨ (1 ≤ e.2 ∧ e.2 ≤ (t.m_data.paths.length : Int))) ∧
  ∃ cl : List prj.Path, t.m_data.paths = t0.m_data.paths ++ cl ∧ cl.length = 3 * i ∧
    ∀ (j : Nat) (a0 : prj.Ahs), j < i → t0.m_data.ahs[j]? = some a0 →
      cl[3 * j]? = some
        (ForwardTranslator.recircPath ((t0.m_data.paths.length : Int) + 3 * (j : Int)) a0) ∧
      cl[3 * j + 1]? = some
        (ForwardTranslator.oaPath ((t0.m_data.paths.length : Int) + 3 * (j : Int)) a0) ∧
      cl[3 * j + 2]? = some
        (ForwardTranslator.exhaustPath ((t0.m_data.paths.length : Int) + 3 * (j : Int)) a0)

/-- What the flow-rate step leaves of the translator `t0`: everything but the flow-rate
override of paths (and the log). -/
def FlowInv (t0 t : ForwardTranslator) : Prop :=
  t.m_data.levels = t0.m_data.levels ∧
  t.m_data.zones = t0.m_data.zones ∧
  t.m_data.ahs = t0.m_data.ahs ∧
  t.m_data.valid = t0.m_data.valid ∧
  t.m_zoneMap = t0.m_zoneMap ∧
  t.m_surfaceMap = t0.m_surfaceMap ∧
  t.m_levelMap = t0.m_levelMap ∧
  t.m_pathMap = t0.m_pathMap ∧
  t.m_valid = t0.m_valid ∧
  t.m_data.paths.map prj.Path.clearFahs = t0.m_data.paths.map prj.Path.clearFahs

/-- What the block guarded by `if(translateHVAC)` establishes, from the translator `t` to
the translator `r`: the air loop phase, the closing of the AHS records, the flow-rate step. -/
def HvacPost (model : model.Model) (t r : ForwardTranslator) : Prop :=
  ∃ (nr : Int) (t1 t2 : ForwardTranslator),
    model.airLoops.foldl ForwardTranslator.airloopStep (0, t) = (nr, t1) ∧
    AirInv t model.airLoops (nr, t1) ∧
    ClosureInv t1 t1.m_data.ahs.length t2 ∧
    FlowInv t2 r

/-- Every index of the story table is the position of a level of the level list. -/
def LevelMapOK (t : ForwardTranslator) : Prop :=
  ∀ e ∈ t.m_levelMap, 1 ≤ e.2 ∧ e.2 ≤ (t.m_data.levels.length : Int)

/-- A run of the zone, surface and HVAC phases that reaches the final `return true`, from
the translator `t` (after the stories phase) to the translator `r`. -/
def NetworkRun (model : model.Model) (translateHVAC : Bool) (t r : ForwardTranslator) : Prop :=
  ∃ (nr : Int) (tz : ForwardTranslator) (ts : ForwardTranslator.SurfaceLoop),
    ZonesInv t model.thermalZones (nr, tz) ∧
    SurfaceRun model.surfaces { nr := 0, used := [], t := tz } ts ∧
    ((translateHVAC = true ∧ HvacPost model ts.t r) ∨ (translateHVAC = false ∧ r = ts.t))

/-- A run of the zone and surface phases that ends in `return false`. -/
def NetworkAbort (model : model.Model) (t r : ForwardTranslator) : Prop :=
  (∃ s, ZonesAbort t model.thermalZones s ∧ r = s.2) ∨
  ∃ (nr : Int) (tz : ForwardTranslator) (ts : ForwardTranslator.SurfaceLoop),
    ZonesInv t model.thermalZones (nr, tz) ∧
    SurfaceAbort model.surfaces { nr := 0, used := [], t := tz } ts ∧ r = ts.t

/-- The translator holds no level, zone, path or AHS and no table entry, and its baseline
loaded: the state of a freshly constructed translator whose template is a baseline. -/
def Ready (t : ForwardTranslator) : Prop :=
  t.m_data.valid = true ∧ t.m_data.levels = [] ∧ t.m_data.zones = [] ∧ t.m_data.paths = [] ∧
  t.m_data.ahs = [] ∧ t.m_levelMap = [] ∧ t.m_zoneMap = [] ∧ t.m_pathMap = [] ∧
  t.m_surfaceMap = []

/-- The levels a fresh translation creates for the stories of a model. -/
def LevelsOfStories (stories : List model.BuildingStory) (levels : List prj.Level) : Prop :=
  levels.length = stories.length ∧
  ∀ (i : Nat) (story : model.BuildingStory), stories[i]? = some story →
    ∃ l, levels[i]? = some l ∧
      l.refht = story.nominalZCoordinate.getD
        (((stories.take (i + 1)).map (fun b => b.nominalFloortoFloorHeight)).sum) ∧
      l.delht = story.nominalFloortoFloorHeight

/-! ## Example inputs -/

namespace Examples

/-- Stand-ins for the two geometry helpers. -/
def ext : Externals := { radToDeg := fun a => a * 57, pressureModifier := fun h => h / 10 }

/-- A baseline template: it loaded, it has the one level of a legal project file and no
zones, paths, elements or AHS. -/
def template : prj.Data :=
  { valid := true, rc := {}, levels := [{ nr := 1, name := "<1>" }], zones := [], paths := [],
    airflowElements := [], ahs := [] }

/-- A model without building stories. -/
def noStories : model.Model :=
  { building := none, stories := [], thermalZones := [], surfaces := [], airLoops := [],
    hasSqlFile := false }

/-- A space on story 1 in zone 11. -/
def spaceA : model.Space :=
  { handle := 21, name := "Space A", volume := 100, floorArea := 30, buildingStory := some 1,
    thermalZone := some 11 }

/-- A space on story 2 in zone 12. -/
def spaceB : model.Space :=
  { handle := 22, name := "Space B", volume := 100, floorArea := 30, buildingStory := some 2,
    thermalZone := some 12 }

/-- Zone 11 with the space on story 1. -/
def zoneA : model.ThermalZone :=
  { handle := 11, name := "Zone A", volume := some 100, spaces := [spaceA] }

/-- Zone 12 with the space on story 2. -/
def zoneB : model.ThermalZone :=
  { handle := 12, name := "Zone B", volume := some 100, spaces := [spaceB] }

/-- A zone without spaces. -/
def zoneNoSpace : model.ThermalZone :=
  { handle := 12, name := "Zone B", volume := none, spaces := [] }

/-- One story, a zone on it, and a second zone that has no space and hence no level. -/
def unresolvedZone : model.Model :=
  { building := none
    stories := [{ handle := 1, nominalFloortoFloorHeight := 3, nominalZCoordinate := none }]
    thermalZones := [zoneA, zoneNoSpace]
    surfaces := []
    airLoops := []
    hasSqlFile := false }

end Examples

namespace Examples

/-- The end-to-end scenario of the specification: two stories of height 3 without explicit
elevation, one thermal zone of volume 100 on each, one exterior wall of area 20 per zone, no
air loop. -/
def scenario : model.Model :=
  { building := none
    stories :=
      [{ handle := 1, nominalFloortoFloorHeight := 3, nominalZCoordinate := none },
       { handle := 2, nominalFloortoFloorHeight := 3, nominalZCoordinate := none }]
    thermalZones := [zoneA, zoneB]
    surfaces :=
      [{ handle := 31, name := "Wall A", outsideBoundaryCondition := "Outdoors",
         surfaceType := "Wall", space := some spaceA, grossArea := 20, azimuth := 0,
         vertices := [⟨0, 0, 0⟩, ⟨5, 0, 0⟩, ⟨5, 0, 4⟩, ⟨0, 0, 4⟩], adjacentSurface := none },
       { handle := 32, name := "Wall B", outsideBoundaryCondition := "Outdoors",
         surfaceType := "Wall", space := some spaceB, grossArea := 20, azimuth := 0,
         vertices := [⟨0, 0, 4⟩, ⟨5, 0, 4⟩, ⟨5, 0, 8⟩, ⟨0, 0, 8⟩], adjacentSurface := none }]
    airLoops := []
    hasSqlFile := false }

end Examples

namespace Examples

/-- Two stories of height 0 without explicit elevation. -/
def flatStories : model.Model :=
  { building := none
    stories :=
      [{ handle := 1, nominalFloortoFloorHeight := 0, nominalZCoordinate := none },
       { handle := 2, nominalFloortoFloorHeight := 0, nominalZCoordinate := none }]
    thermalZones := []
    surfaces := []
    airLoops := []
    hasSqlFile := false }

end Examples

/-- The zone index `k` of a path is the exterior index -1 or the index of a zone of the zone
list `zones`; in particular it is not 0 and not beyond the list. -/
def ZoneRefOK (zones : List prj.Zone) (k : Int) : Prop :=
  k = -1 ∨ (1 ≤ k ∧ k ≤ (zones.length : Int) ∧ ∃ z ∈ zones, z.nr = k)

namespace Examples

/-- The ceiling of space A, whose other side is the floor of space B. -/
def ceilingA : model.Surface :=
  { handle := 33, name := "Ceiling A", outsideBoundaryCondition := "Surface",
    surfaceType := "RoofCeiling", space := some spaceA, grossArea := 25, azimuth := 0,
    vertices := [⟨0, 0, 3⟩, ⟨5, 0, 3⟩, ⟨5, 5, 3⟩, ⟨0, 5, 3⟩],
    adjacentSurface := some { handle := 34, name := "Floor B", space := some spaceB } }

/-- The floor of space B, whose other side is the ceiling of space A. -/
def floorB : model.Surface :=
  { handle := 34, name := "Floor B", outsideBoundaryCondition := "Surface",
    surfaceType := "Floor", space := some spaceB, grossArea := 25, azimuth := 0,
    vertices := [⟨0, 0, 3⟩, ⟨0, 5, 3⟩, ⟨5, 5, 3⟩, ⟨5, 0, 3⟩],
    adjacentSurface := some { handle := 33, name := "Ceiling A", space := some spaceA } }

/-- An exterior wall of space A. -/
def wallA : model.Surface :=
  { handle := 31, name := "Wall A", outsideBoundaryCondition := "Outdoors",
    surfaceType := "Wall", space := some spaceA, grossArea := 20, azimuth := 0,
    vertices := [⟨0, 0, 0⟩, ⟨5, 0, 0⟩, ⟨5, 0, 3⟩, ⟨0, 0, 3⟩], adjacentSurface := none }

/-- The stories of the example buildings: two stories of height 3. -/
def twoStories : List model.BuildingStory :=
  [{ handle := 1, nominalFloortoFloorHeight := 3, nominalZCoordinate := none },
   { handle := 2, nominalFloortoFloorHeight := 3, nominalZCoordinate := none }]

/-- A building of two stories with one zone each, an exterior wall, the interior pair
ceiling A / floor B (ceiling first) and one air loop that serves both zones. -/
def building : model.Model :=
  { building := none
    stories := twoStories
    thermalZones := [zoneA, zoneB]
    surfaces := [wallA, ceilingA, floorB]
    airLoops := [{ handle := 41, thermalZones := [zoneA, zoneB] }]
    hasSqlFile := false }

/-- The same building with the floor of space B enumerated before the ceiling of space A. -/
def buildingSwapped : model.Model :=
  { building with surfaces := [wallA, floorB, ceilingA] }

/-- A space in zone 13 that is on no story. -/
def spaceC : model.Space :=
  { handle := 23, name := "Space C", volume := 100, floorArea := 30, buildingStory := none,
    thermalZone := some 13 }

/-- Zone 13 with the space that is on no story: the zone has no level. -/
def zoneC : model.ThermalZone :=
  { handle := 13, name := "Zone C", volume := some 100, spaces := [spaceC] }

/-- A ceiling of space A, whose other side is the floor of space C. -/
def ceilingAC : model.Surface :=
  { handle := 35, name := "Ceiling A", outsideBoundaryCondition := "Surface",
    surfaceType := "RoofCeiling", space := some spaceA, grossArea := 25, azimuth := 0,
    vertices := [⟨0, 0, 3⟩, ⟨5, 0, 3⟩, ⟨5, 5, 3⟩, ⟨0, 5, 3⟩],
    adjacentSurface := some { handle := 36, name := "Floor C", space := some spaceC } }

/-- The floor of space C, whose other side is the ceiling of space A. -/
def floorC : model.Surface :=
  { handle := 36, name := "Floor C", outsideBoundaryCondition := "Surface",
    surfaceType := "Floor", space := some spaceC, grossArea := 25, azimuth := 0,
    vertices := [⟨0, 0, 3⟩, ⟨0, 5, 3⟩, ⟨5, 5, 3⟩, ⟨5, 0, 3⟩],
    adjacentSurface := some { handle := 35, name := "Ceiling A", space := some spaceA } }

/-- A building with the interior pair ceiling A / floor C between zone 11 and zone 13, in
which zone 13 has no level: the translation aborts in the zone loop. -/
def buildingAborted : model.Model :=
  { building := none
    stories := twoStories
    thermalZones := [zoneA, zoneC]
    surfaces := [wallA, ceilingAC, floorC]
    airLoops := []
    hasSqlFile := false }

end Examples

/-- The path is a closing path of the AHS `a`: it carries one of the three closing flags and
starts at the return zone of `a` or ends at its supply zone. -/
def prj.Ahs.closedBy (a : prj.Ahs) (p : prj.Path) : Bool :=
  (p.recirculation || p.outsideAir || p.exhaust) && (p.pzn == a.zone_r || p.pzm == a.zone_s)

/-- The path is the recirculation path of the AHS `a`: flagged recirculation, from the return
zone of `a` to its supply zone. -/
def prj.Ahs.recirculationOf (a : prj.Ahs) (p : prj.Path) : Bool :=
  p.recirculation && p.pzn == a.zone_r && p.pzm == a.zone_s

/-- The path is the outside air path of the AHS `a`: flagged outside air, from the exterior to
the supply zone of `a`. -/
def prj.Ahs.outsideAirOf (a : prj.Ahs) (p : prj.Path) : Bool :=
  p.outsideAir && p.pzn == -1 && p.pzm == a.zone_s

/-- The path is the exhaust path of the AHS `a`: flagged exhaust, from the return zone of `a`
to the exterior. -/
def prj.Ahs.exhaustOf (a : prj.Ahs) (p : prj.Path) : Bool :=
  p.exhaust && p.pzn == a.zone_r && p.pzm == -1

/-- The AHS records of the translator `r` against the air loops of the model `building`: one
record per air loop that serves a zone, in order; the record of a loop serving `k` zones has
`2 * k` paths carrying its index, exactly three closing paths (one recirculation, one outside air, one
exhaust), and its three stored path indices are pairwise distinct and each is the index of the
path at that position of the path list, which carries the matching flag. -/
def AhsClosed (building : model.Model) (r : ForwardTranslator) : Prop :=
  r.m_data.ahs.length = (servedLoops building.airLoops).length ∧
  ∀ (j : Nat) (a : prj.Ahs) (loop : model.AirLoopHVAC),
    r.m_data.ahs[j]? = some a → (servedLoops building.airLoops)[j]? = some loop →
    a.nr = (j : Int) + 1 ∧
    (r.m_data.paths.filter (fun p => decide (p.pa = a.nr))).length =
      2 * loop.thermalZones.length ∧
    (r.m_data.paths.filter a.closedBy).length = 3 ∧
    (r.m_data.paths.filter a.recirculationOf).length = 1 ∧
    (r.m_data.paths.filter a.outsideAirOf).length = 1 ∧
    (r.m_data.paths.filter a.exhaustOf).length = 1 ∧
    a.path_r ≠ a.path_s ∧ a.path_r ≠ a.path_x ∧ a.path_s ≠ a.path_x ∧
    (∃ p, listAt r.m_data.paths (a.path_r - 1) = some p ∧ p.nr = a.path_r ∧
      a.recirculationOf p = true) ∧
    (∃ p, listAt r.m_data.paths (a.path_s - 1) = some p ∧ p.nr = a.path_s ∧
      a.outsideAirOf p = true) ∧
    (∃ p, listAt r.m_data.paths (a.path_x - 1) = some p ∧ p.nr = a.path_x ∧
      a.exhaustOf p = true)

/-- The translator with the message `w` put in front of its log. -/
def ForwardTranslator.shiftLog (t : ForwardTranslator) (w : LogMessage) : ForwardTranslator :=
  { t with m_logSink := w :: t.m_logSink }

/-- The locals of the surface loop with the message `w` put in front of the log. -/
def ForwardTranslator.SurfaceLoop.shiftLog (s : ForwardTranslator.SurfaceLoop) (w : LogMessage) :
    ForwardTranslator.SurfaceLoop :=
  { s with t := s.t.shiftLog w }

section RateMode

/-- The element that the specification's `deriveElement(name, flow, 0.65, 75)` registers
under the number `nr`: mass flow `ρ·flow/3600`, turbulent coefficient `F/(√ρ·ΔP^n)`, laminar
coefficient from the laminar-to-turbulent transition point. -/
noncomputable def derivedElement (OPNG nr : Int) (name : String) (flow : ℝ) :
    prj.AirflowElement :=
  { nr := nr
    icon := OPNG
    dtype := "plr_test1"
    name := name
    lam := (turbCoef flow 0.65 75.0).bind fun c => setLamCoef c 0.65
    turb := turbCoef flow 0.65 75.0
    expt := 0.65
    dP := 75.0
    Flow := 1.20410 * flow / 3600.0
    u_P := 0
    u_F := 1 }

/-- The empirical-rate mode in the words of the specification: on a translator holding `N`
airflow elements, four custom elements numbered `N + 1`, ..., `N + 4` are synthesized
(interior and floor from twice the rate of exterior and roof), then the explicit-map mode runs
with the map of the four roles to these numbers. -/
noncomputable def ForwardTranslator.translateWithRateSpec (ext : Externals) (OPNG : Int)
    (t : ForwardTranslator) (model : model.Model) (leakageRate : ℝ) (translateHVAC : Bool) :
    Option (Bool × ForwardTranslator) :=
  let N : Int := (t.m_data.airflowElements.length : Int)
  let t4 : ForwardTranslator :=
    { t with
      m_data := { t.m_data with
        airflowElements := t.m_data.airflowElements ++
          [derivedElement OPNG (N + 1) "CustomExterior" leakageRate,
           derivedElement OPNG (N + 2) "CustomRoof" leakageRate,
           derivedElement OPNG (N + 3) "CustomInterior" (2 * leakageRate),
           derivedElement OPNG (N + 4) "CustomFloor" (2 * leakageRate)] } }
  t4.translateWithMap ext model
    [("exterior", N + 1), ("roof", N + 2), ("interior", N + 3), ("floor", N + 4)] translateHVAC

end RateMode

/-- The warning of the zone loop for a zone without a volume. -/
def ForwardTranslator.volumeWarning (z : model.ThermalZone) : LogMessage :=
  { logLevel := .Warn, logMessage := "Failed to compute volume for Zone '" ++ z.name ++ "'" }

/-- The volumes of the translated zones of the translator `r` against the thermal zones of
the model `building`: zone `i` of the zone list carries the number `i + 1` and the volume of
thermal zone `i` when that zone has one, else the sum of the volumes of its spaces; when it
has none and that sum is zero, the warning for the zone is among the warnings. -/
def ZoneVolumesOK (building : model.Model) (r : ForwardTranslator) : Prop :=
  ∀ (i : Nat) (z : model.ThermalZone), building.thermalZones[i]? = some z →
    ∃ zone, r.m_data.zones[i]? = some zone ∧ zone.nr = (i : Int) + 1 ∧
      zone.Vol = z.volume.getD ((z.spaces.map (fun space => space.volume)).sum) ∧
      (z.volume = none → (z.spaces.map (fun space => space.volume)).sum = 0 →
        ForwardTranslator.volumeWarning z ∈ r.warnings)

/-- What the zone loop has established about volumes after the zones `pre`, started from the
translator `t0`. -/
def VolumesInv (t0 : ForwardTranslator) (pre : List model.ThermalZone)
    (s : Int × ForwardTranslator) : Prop :=
  ∀ (i : Nat) (z : model.ThermalZone), pre[i]? = some z →
    ∃ zone, s.2.m_data.zones[t0.m_data.zones.length + i]? = some zone ∧
      zone.Vol = z.volume.getD ((z.spaces.map (fun space => space.volume)).sum) ∧
      (z.volume = none → (z.spaces.map (fun space => space.volume)).sum = 0 →
        ForwardTranslator.volumeWarning z ∈ s.2.m_logSink)

namespace Examples

/-- Zone 11 with an own volume of zero and a space of volume 100. -/
def zoneZeroVolume : model.ThermalZone :=
  { handle := 11, name := "Zone A", volume := some 0, spaces := [spaceA] }

/-- One story and the zone with an own volume of zero. -/
def zeroVolume : model.Model :=
  { building := none
    stories := [{ handle := 1, nominalFloortoFloorHeight := 3, nominalZCoordinate := none }]
    thermalZones := [zoneZeroVolume]
    surfaces := []
    airLoops := []
    hasSqlFile := false }

/-- A space of volume zero on story 1 in zone 11. -/
def spaceZero : model.Space :=
  { handle := 21, name := "Space A", volume := 0, floorArea := 30, buildingStory := some 1,
    thermalZone := some 11 }

/-- Zone 11 without an own volume, with the space of volume zero. -/
def zoneNoVolume : model.ThermalZone :=
  { handle := 11, name := "Zone A", volume := none, spaces := [spaceZero] }

/-- One story and the zone without any volume. -/
def noVolume : model.Model :=
  { building := none
    stories := [{ handle := 1, nominalFloortoFloorHeight := 3, nominalZCoordinate := none }]
    thermalZones := [zoneNoVolume]
    surfaces := []
    airLoops := []
    hasSqlFile := false }

end Examples

/-- Every index stored in the table `m` is the number of a record of the list `l`. -/
def TableLive {κ α : Type} (m : Table κ) (nr : α → Int) (l : List α) : Prop :=
  ∀ e ∈ m, ∃ a ∈ l, nr a = e.2

namespace Examples

/-- A ceiling of space A with boundary condition "Surface" and no adjacent surface. -/
def ceilingLone : model.Surface :=
  { handle := 37, name := "Ceiling A", outsideBoundaryCondition := "Surface",
    surfaceType := "RoofCeiling", space := some spaceA, grossArea := 25, azimuth := 0,
    vertices := [⟨0, 0, 3⟩, ⟨5, 0, 3⟩, ⟨5, 5, 3⟩, ⟨0, 5, 3⟩], adjacentSurface := none }

/-- The example building with the ceiling of space A replaced by the ceiling without an
adjacent surface, between the exterior wall and the floor of space B. -/
def loneCeiling : model.Model :=
  { building with surfaces := [wallA, ceilingLone, floorB] }

end Examples

/-- The translator with the message `w` put into the log after the messages `A`. -/
def ForwardTranslator.insertLog (t : ForwardTranslator) (A : List LogMessage) (w : LogMessage) :
    ForwardTranslator :=
  { t with m_logSink := A ++ w :: t.m_logSink.drop A.length }

/-- The locals of the surface loop with the message `w` put into the log after the messages
`A`. -/
def ForwardTranslator.SurfaceLoop.insertLog (s : ForwardTranslator.SurfaceLoop)
    (A : List LogMessage) (w : LogMessage) : ForwardTranslator.SurfaceLoop :=
  { s with t := s.t.insertLog A w }

/-- The warning that the surface loop logs for a surface without a space or in a space without
a thermal zone. -/
def unattachedWarning (a : model.Surface) : LogMessage :=
  match a.space with
  | none => { logLevel := .Warn, logMessage := "Unattached surface '" ++ a.name ++ "'" }
  | some space => { logLevel := .Warn, logMessage := "Unattached space '" ++ space.name ++ "'" }

namespace Examples

/-- An exterior wall that belongs to no space. -/
def wallLoose : model.Surface :=
  { handle := 38, name := "Wall X", outsideBoundaryCondition := "Outdoors",
    surfaceType := "Wall", space := none, grossArea := 20, azimuth := 0,
    vertices := [⟨0, 0, 0⟩, ⟨5, 0, 0⟩, ⟨5, 0, 3⟩, ⟨0, 0, 3⟩], adjacentSurface := none }

/-- The example building with the wall without a space between the exterior wall and the
interior pair. -/
def looseWall : model.Model :=
  { building with surfaces := [wallA, wallLoose, ceilingA, floorB] }

end Examples

/-- Every entry of the log has passed the threshold `Warn` of the sink. -/
def Captured (t : ForwardTranslator) : Prop :=
  ∀ m ∈ t.m_logSink, LogLevel.Warn.toInt ≤ m.logLevel.toInt

/-- What holds of the result of a statement, however control leaves it; an out-of-range access
has no result. -/
def Outcome.all {σ : Type} (P : σ → Prop) : Outcome σ → Prop
  | .next s => P s
  | .abort s => P s
  | .outOfRange => True

/-- The two lists `warnings()` and `errors()` split the log: the first holds the entries below
the severity `Error`, the second the entries at or above it, each in logging order, and every
entry of the log is in exactly one of them, as often as it is in the log. -/
def LogPartition (t : ForwardTranslator) : Prop :=
  t.warnings = t.m_logSink.filter (fun m => decide (m.logLevel.toInt < LogLevel.Error.toInt)) ∧
  t.errors = t.m_logSink.filter (fun m => decide (LogLevel.Error.toInt ≤ m.logLevel.toInt)) ∧
  t.warnings.Sublist t.m_logSink ∧ t.errors.Sublist t.m_logSink ∧
  (∀ m, t.warnings.count m + t.errors.count m = t.m_logSink.count m) ∧
  (∀ m ∈ t.m_logSink, (m ∈ t.warnings ∧ m ∉ t.errors) ∨ (m ∈ t.errors ∧ m ∉ t.warnings))

/-- Modelled from the spec: the part of the file system that `QFile` touches: whether
`open(QFile::WriteOnly)` succeeds for a path, and the text each file holds. -/
structure Disk where
  canOpen : String → Bool
  content : String → Option String

/-- The text `text` written to the file `path` through a `QTextStream`. -/
def Disk.write (disk : Disk) (path : String) (text : String) : Disk :=
  { disk with content := fun p => if p = path then some text else disk.content p }

/-- The member `toString`; `print` stands for `prj::Data::print` of `contam/PrjData.hpp`,
which is not part of the sources at hand. -/
def ForwardTranslator.toString (print : prj.Data → String) (t : ForwardTranslator) :
    Option String :=
  if t.valid then some (print t.m_data) else none

/-- The member `toPrj`. -/
def ForwardTranslator.toPrj (print : prj.Data → String) (t : ForwardTranslator) (disk : Disk)
    (path : String) : Bool × Disk :=
  match t.toString print with
  | some output =>
    if disk.canOpen path then (true, disk.write path output) else (false, disk)
  | none => (false, disk)

/-- The member `translateToString`: the printed network when `translate` returns true, no
string otherwise. -/
def ForwardTranslator.translateToString (ext : Externals) (print : prj.Data → String)
    (t : ForwardTranslator) (model : model.Model) (translateHVAC : Bool)
    (leakageDescriptor : String) : Option (Option String × ForwardTranslator) :=
  match t.translate ext model translateHVAC leakageDescriptor with
  | some (true, r) => some (some (print r.m_data), r)
  | some (false, r) => some (none, r)
  | none => none

/-- The static member `modelToPrj`; `template` is what the constructor of the local
translator reads. Every path through the function ends in `return false`. -/
def ForwardTranslator.modelToPrj (ext : Externals) (print : prj.Data → String)
    (template : prj.Data) (disk : Disk) (model : model.Model) (path : String)
    (translateHVAC : Bool) (leakageDescriptor : String) : Option (Bool × Disk) :=
  match (ForwardTranslator.new template).translateToString ext print model translateHVAC
      leakageDescriptor with
  | none => none
  | some (none, _) => some (false, disk)
  | some (some output, _) =>
    if disk.canOpen path then some (false, disk.write path output)
    else some (false, disk)

namespace Examples

/-- A file system in which every file can be opened for writing and no file exists. -/
def disk : Disk := { canOpen := fun _ => true, content := fun _ => none }

/-- A stand-in for the printer of the network: the numbers of its levels, zones and paths. -/
def print (data : prj.Data) : String :=
  toString data.levels.length ++ " " ++ toString data.zones.length ++ " " ++
    toString data.paths.length

end Examples

namespace Examples

/-- One story and a single thermal zone, which has no space and hence no level. -/
def onlyNoSpace : model.Model :=
  { building := none
    stories := [{ handle := 1, nominalFloortoFloorHeight := 3, nominalZCoordinate := none }]
    thermalZones := [zoneNoSpace]
    surfaces := []
    airLoops := []
    hasSqlFile := false }

end Examples

/-- The network holds nothing that the HVAC block creates: no AHS record, no system zone, no
path flagged system, recirculation, outside air or exhaust or tagged with an AHS, and no
flow-rate override. -/
def NoHvac (r : ForwardTranslator) : Prop :=
  r.m_data.ahs = [] ∧ (∀ z ∈ r.m_data.zones, z.system = false) ∧
  ∀ p ∈ r.m_data.paths, p.system = false ∧ p.recirculation = false ∧ p.outsideAir = false ∧
    p.exhaust = false ∧ p.pa = 0 ∧ p.Fahs = none

/-- The AHS records and system zones that the translation `r` of the model `building` with
HVAC holds: one AHS record per air loop that serves a zone, in order, and after the zones of
the thermal zones two system zones per AHS record, the return zone and then the supply zone,
numbered on, whose numbers the AHS record stores; every path tagged with an AHS is tagged
with one of these. -/
def AhsZones (building : model.Model) (r : ForwardTranslator) : Prop :=
  r.m_data.ahs.length = (servedLoops building.airLoops).length ∧
  r.m_data.zones.length =
    building.thermalZones.length + 2 * (servedLoops building.airLoops).length ∧
  (∀ (i : Nat) (z : prj.Zone), i < building.thermalZones.length →
    r.m_data.zones[i]? = some z → z.system = false) ∧
  (∀ (j : Nat) (loop : model.AirLoopHVAC), (servedLoops building.airLoops)[j]? = some loop →
    ∃ a rz sz, r.m_data.ahs[j]? = some a ∧
      r.m_data.zones[building.thermalZones.length + 2 * j]? = some rz ∧
      r.m_data.zones[building.thermalZones.length + 2 * j + 1]? = some sz ∧
      a.nr = (j : Int) + 1 ∧
      rz.nr = (building.thermalZones.length : Int) + 2 * (j : Int) + 1 ∧ sz.nr = rz.nr + 1 ∧
      a.zone_r = rz.nr ∧ a.zone_s = sz.nr ∧
      rz.pl = 1 ∧ rz.system = true ∧ rz.variableContaminants = true ∧
      rz.variablePressure = false ∧
      sz.pl = 1 ∧ sz.system = true ∧ sz.variableContaminants = true ∧
      sz.variablePressure = false) ∧
  ∀ p ∈ r.m_data.paths, p.pa ≠ 0 →
    1 ≤ p.pa ∧ p.pa ≤ ((servedLoops building.airLoops).length : Int)

namespace Examples

/-- The example building with a second air loop, enumerated first, that serves no zone. -/
def buildingIdleLoop : model.Model :=
  { building with
    airLoops := [{ handle := 40, thermalZones := [] },
                 { handle := 41, thermalZones := [zoneA, zoneB] }] }

end Examples

section FlowStepOmitted

open ForwardTranslator

/-- The zones, surfaces and HVAC phases of the specification's comparison run "with the
flow-assignment step omitted": as `networkPhases`, the HVAC block ending after the AHS records
are closed. -/
def ForwardTranslator.networkPhasesNoFlows (ext : Externals) (pe : ElementChoice)
    (building : model.Model) (translateHVAC : Bool) (t : ForwardTranslator) :
    Outcome ForwardTranslator :=
  ((translateZones building.thermalZones t).bind
    (translateSurfaces ext pe building.surfaces)).bind
    (fun t => if translateHVAC then connectAhs (translateAirLoops building.airLoops t)
      else .next t)

/-- The shared body of the comparison run with the flow-assignment step omitted. -/
def ForwardTranslator.translateBodyNoFlows (ext : Externals) (pe : ElementChoice)
    (t : ForwardTranslator) (building : model.Model) (translateHVAC : Bool) :
    Option (Bool × ForwardTranslator) :=
  let t := storiesPhase building t
  if t.m_data.levels.length = 0 then
    some (false, (t.LOG .Error
      "Failed to find building stories in model, translation aborted").setValid false)
  else finish (networkPhasesNoFlows ext pe building translateHVAC t)

/-- The descriptor overload of the comparison run with the flow-assignment step omitted. -/
def ForwardTranslator.translateNoFlows (ext : Externals) (t : ForwardTranslator)
    (building : model.Model) (translateHVAC : Bool) (leakageDescriptor : String) :
    Option (Bool × ForwardTranslator) :=
  let dt := checkDescriptor t.resetLog leakageDescriptor
  let tabs := findAFEs dt.2.buildAfeMap.m_afeMap
  translateBodyNoFlows ext (elementChoice tabs dt.1) (afePhase dt.2) building translateHVAC

/-- The explicit-map overload of the comparison run with the flow-assignment step omitted. -/
def ForwardTranslator.translateWithMapNoFlows (ext : Externals) (t : ForwardTranslator)
    (building : model.Model) (afeMap : Table String) (translateHVAC : Bool) :
    Option (Bool × ForwardTranslator) :=
  translateBodyNoFlows ext
    { roof := (afeMap.index "roof").1
      exterior := (afeMap.index "exterior").1
      floor := (afeMap.index "floor").1
      interior := (afeMap.index "interior").1 } t.resetLog building translateHVAC

/-- The warning that the flow-rate step logs per thermal zone when simulation results are at
hand. -/
def ForwardTranslator.equipmentWarning : LogMessage :=
  { logLevel := .Warn, logMessage := "Zone equipment not yet accounted for." }

/-- The translator with `n` more equipment warnings at the end of its log. -/
def ForwardTranslator.withEquipmentWarnings (t : ForwardTranslator) (n : Nat) :
    ForwardTranslator :=
  { t with m_logSink := t.m_logSink ++ List.replicate n equipmentWarning }

end FlowStepOmitted

namespace Examples

/-- The example building with simulation results at hand. -/
def buildingWithResults : model.Model :=
  { building with hasSqlFile := true }

end Examples

/-- The table `m` holds every index at most once, and its indices lie between 1 and `bound`:
what holds of the named-path table, whose entries are written with the numbers of paths as
they are created. -/
def InjBelow (m : Table String) (bound : Int) : Prop :=
  (∀ k1 k2 v, m.find k1 = some v → m.find k2 = some v → k1 = k2) ∧
  ∀ k v, m.find k = some v → 1 ≤ v ∧ v ≤ bound

/-- The floor area that the flow-rate loop sums over the spaces of a thermal zone (the local
`area`). -/
def flowArea (z : model.ThermalZone) : ℚ := (z.spaces.map (fun space => space.floorArea)).sum

/-- The warning of the flow-rate loop for a thermal zone whose floor area is zero. -/
def areaWarning (z : model.ThermalZone) : LogMessage :=
  { logLevel := .Warn
    logMessage := "Failed to compute floor area for Zone '" ++ z.name ++ "'" }

/-- The warning that opens the flow-rate approximation. -/
def noResultsWarning : LogMessage :=
  { logLevel := .Warn
    logMessage := "Simulation results not available, using 1 scfm/ft^2 to set supply flows" }

/-- What one round of the flow-rate loop, for the thermal zone `z` and the named-path table
`m`, makes of the path `q` at position `i` of the path list: the two guarded assignments, the
one to the return path being the later one. -/
def flowOverride (m : Table String) (z : model.ThermalZone) (i : Nat) (q : prj.Path) :
    prj.Path :=
  if flowArea z = 0 then q
  else if m.find (z.name ++ " return") = some ((i : Int) + 1) then
    { q with Fahs := some (0.9 * (flowArea z * 0.00508 * 1.2041)) }
  else if m.find (z.name ++ " supply") = some ((i : Int) + 1) then
    { q with Fahs := some (flowArea z * 0.00508 * 1.2041) }
  else q

/-- The flow-rate overrides that the translation `r` of the model `building` holds for its
thermal zones: for the thermal zone `z` whose floor area is not zero, and whose name no later
thermal zone has, the path registered under "<name> supply" carries the override
`area * 0.00508 * 1.2041` and the path registered under "<name> return" carries 0.9 times
that. -/
def FlowRates (building : model.Model) (r : ForwardTranslator) : Prop :=
  ∀ (k : Nat) (z : model.ThermalZone), building.thermalZones[k]? = some z → flowArea z ≠ 0 →
    (∀ (k2 : Nat) (z2 : model.ThermalZone), k < k2 → building.thermalZones[k2]? = some z2 →
      z2.name ≠ z.name) →
    (∀ n, r.m_pathMap.find (z.name ++ " supply") = some n →
      ∃ p, listAt r.m_data.paths (n - 1) = some p ∧ p.nr = n ∧
        p.Fahs = some (flowArea z * 0.00508 * 1.2041)) ∧
    (∀ n, r.m_pathMap.find (z.name ++ " return") = some n →
      ∃ p, listAt r.m_data.paths (n - 1) = some p ∧ p.nr = n ∧
        p.Fahs = some (0.9 * (flowArea z * 0.00508 * 1.2041)))

/-- The translation `r` of the model `building` with HVAC and without simulation results, set
against the translation `r2` with the flow-rate step omitted: the same named-path table and
errors; the log of `r2` followed by the opening warning of the approximation and one warning
per thermal zone whose floor area is zero, and nothing else; and position by position the path
of `r2`, unchanged or with the flow-rate override assigned by the round of a thermal zone of
nonzero floor area under whose name the position is registered. -/
def FlowSkips (building : model.Model) (r r2 : ForwardTranslator) : Prop :=
  r.m_pathMap = r2.m_pathMap ∧ r.errors = r2.errors ∧
  r.m_data.paths.length = r2.m_data.paths.length ∧
  r.m_logSink = r2.m_logSink ++ noResultsWarning ::
    (building.thermalZones.filter (fun z => decide (flowArea z = 0))).map areaWarning ∧
  ∀ (i : Nat) (q : prj.Path), r2.m_data.paths[i]? = some q →
    ∃ p, r.m_data.paths[i]? = some p ∧
      (p = q ∨ ∃ z ∈ building.thermalZones, flowArea z ≠ 0 ∧
        ((r.m_pathMap.find (z.name ++ " return") = some ((i : Int) + 1) ∧
          p = { q with Fahs := some (0.9 * (flowArea z * 0.00508 * 1.2041)) }) ∨
         (r.m_pathMap.find (z.name ++ " supply") = some ((i : Int) + 1) ∧
          p = { q with Fahs := some (flowArea z * 0.00508 * 1.2041) })))

namespace Examples

/-- A space on story 1 in zone 14, without floor area. -/
def spaceD : model.Space :=
  { handle := 24, name := "Space D", volume := 100, floorArea := 0, buildingStory := some 1,
    thermalZone := some 14 }

/-- Zone 14, whose floor area is zero. -/
def zoneD : model.ThermalZone :=
  { handle := 14, name := "Zone D", volume := some 100, spaces := [spaceD] }

/-- A building with three thermal zones and one air loop that serves zone B and zone D: zone A
is served by no air loop, so that no path is registered under its name, and zone D has no
floor area. -/
def buildingFlows : model.Model :=
  { building := none
    stories := twoStories
    thermalZones := [zoneA, zoneB, zoneD]
    surfaces := [wallA]
    airLoops := [{ handle := 41, thermalZones := [zoneB, zoneD] }]
    hasSqlFile := false }

end Examples

/-- The local `sp` of the loop over the zones served by an air loop, the supply path from the
supply zone of the AHS to the served zone; `size` is `m_data.paths.size()` at that point and
`zoneNr` the index looked up for the served zone. -/
def supplyPath (size : Int) (ahs : prj.Ahs) (zoneNr : Int) : prj.Path :=
  { nr := size + 1
    pld := 1
    pzn := ahs.zone_s
    pzm := zoneNr
    pa := ahs.nr
    system := true }

/-- The local `rp` of the loop over the zones served by an air loop, the return path from the
served zone to the return zone of the AHS, numbered after the supply path. -/
def returnPath (size : Int) (ahs : prj.Ahs) (zoneNr : Int) : prj.Path :=
  { nr := (supplyPath size ahs zoneNr).nr + 1
    pld := 1
    pzn := zoneNr
    pzm := ahs.zone_r
    pa := ahs.nr
    system := true }

/-- The number of thermal zones served by the air loops `loops`, an air loop counting each
zone that it serves. -/
def servedZoneCount (loops : List model.AirLoopHVAC) : Nat :=
  (loops.map (fun l => l.thermalZones.length)).sum

/-- The supply and return paths that the translation `r` of the model `building` with HVAC
holds. With `n0` paths before them, the path list continues with two paths per zone served
by an air loop, loop by loop and zone by zone, and ends with the three closing paths per AHS
record; the paths flagged system are those pairs and no other path. For the zone `z` at
position `k` of the zones served by the air loop `j` (of those that serve a zone), with the
AHS record `a`: the first path of its pair is the supply path, from the supply zone of `a`
to the index that the zone table holds for `z`, the second is the return path, from that index
to the return zone of `a`; both are numbered by their position, flagged system and tagged
with the number of `a`; the index is that of a zone of the thermal zones when `z` is one of
the thermal zones of the model; and the named-path table holds the number of the supply path
under "<name> supply" and that of the return path under "<name> return", provided that no
zone served later (by the same air loop or by a later one) has the same name. -/
def ServedPaths (building : model.Model) (r : ForwardTranslator) : Prop :=
  ∃ n0 : Nat,
    r.m_data.paths.length = n0 + 2 * servedZoneCount building.airLoops
      + 3 * (servedLoops building.airLoops).length ∧
    (∀ (i : Nat) (p : prj.Path), r.m_data.paths[i]? = some p → p.system = true →
      n0 ≤ i ∧ i < n0 + 2 * servedZoneCount building.airLoops) ∧
    ∀ (j : Nat) (loop : model.AirLoopHVAC), (servedLoops building.airLoops)[j]? = some loop →
      ∃ a, r.m_data.ahs[j]? = some a ∧ a.nr = (j : Int) + 1 ∧
        ∀ (k : Nat) (z : model.ThermalZone), loop.thermalZones[k]? = some z →
          ∃ sp rp,
            r.m_data.paths[n0
              + 2 * (servedZoneCount ((servedLoops building.airLoops).take j) + k)]? = some sp ∧
            r.m_data.paths[n0
              + 2 * (servedZoneCount ((servedLoops building.airLoops).take j) + k) + 1]?
              = some rp ∧
            sp.nr = ((n0 + 2 * (servedZoneCount ((servedLoops building.airLoops).take j) + k)
              : Nat) : Int) + 1 ∧
            rp.nr = sp.nr + 1 ∧
            sp.pzn = a.zone_s ∧ sp.pzm = r.m_zoneMap.value z.handle 0 ∧
            rp.pzn = r.m_zoneMap.value z.handle 0 ∧ rp.pzm = a.zone_r ∧
            sp.pa = a.nr ∧ rp.pa = a.nr ∧ sp.system = true ∧ rp.system = true ∧
            (z.handle ∈ building.thermalZones.map (fun z => z.handle) →
              r.m_zoneMap.find z.handle = some sp.pzm ∧ 1 ≤ sp.pzm ∧
              sp.pzm ≤ (building.thermalZones.length : Int)) ∧
            ((∀ (k2 : Nat) (z2 : model.ThermalZone), k < k2 →
                loop.thermalZones[k2]? = some z2 → z2.name ≠ z.name) →
              (∀ (j2 : Nat) (loop2 : model.AirLoopHVAC), j < j2 →
                (servedLoops building.airLoops)[j2]? = some loop2 →
                ∀ z2 ∈ loop2.thermalZones, z2.name ≠ z.name) →
              r.m_pathMap.find (z.name ++ " supply") = some sp.nr ∧
              r.m_pathMap.find (z.name ++ " return") = some rp.nr)

/-- What the zone loop has established about levels and flags after the zones `pre`, started
from the translator `t0`: the zone of a thermal zone is on the level that the story table
holds for the story of the first space of the zone that has a story, and is flagged variable
pressure and variable contaminants. -/
def ZoneLevelsInv (t0 : ForwardTranslator) (pre : List model.ThermalZone)
    (s : Int × ForwardTranslator) : Prop :=
  s.2.m_levelMap = t0.m_levelMap ∧
  s.2.m_data.zones.length = t0.m_data.zones.length + pre.length ∧
  ∀ (i : Nat) (z : model.ThermalZone), pre[i]? = some z →
    ∃ zone story, s.2.m_data.zones[t0.m_data.zones.length + i]? = some zone ∧
      model.firstStory z.spaces = some story ∧
      t0.m_levelMap.find story = some zone.pl ∧ zone.pl ≠ 0 ∧
      zone.variablePressure = true ∧ zone.variableContaminants = true ∧ zone.system = false

/-- The levels and flags of the zones that the translation `r` of the model `building` holds
for the thermal zones: the zone at the position of the thermal zone `z` is numbered by its
position, is on the level that the story table holds for the story of the first space of `z`
(in the order of `z.spaces`) that has a building story, which is the level created for that
story (level `j + 1` for the story at position `j`, stories having handles of their own), and
is flagged variable pressure and variable contaminants and not system. -/
def ZoneLevelsOK (building : model.Model) (r : ForwardTranslator) : Prop :=
  ∀ (i : Nat) (z : model.ThermalZone), building.thermalZones[i]? = some z →
    ∃ zone story, r.m_data.zones[i]? = some zone ∧ zone.nr = (i : Int) + 1 ∧
      model.firstStory z.spaces = some story ∧
      r.m_levelMap.find story = some zone.pl ∧ zone.pl ≠ 0 ∧
      (∀ (j : Nat) (b : model.BuildingStory), building.stories[j]? = some b →
        b.handle = story →
        (∀ (j2 : Nat) (b2 : model.BuildingStory), j < j2 → building.stories[j2]? = some b2 →
          b2.handle ≠ story) →
        zone.pl = (j : Int) + 1 ∧ ∃ l, r.m_data.levels[j]? = some l ∧ l.nr = zone.pl) ∧
      zone.variablePressure = true ∧ zone.variableContaminants = true ∧ zone.system = false

namespace Examples

/-- A space in zone 15 that is on no story. -/
def spaceLoft : model.Space :=
  { handle := 25, name := "Loft", volume := 50, floorArea := 10, buildingStory := none,
    thermalZone := some 15 }

/-- A space in zone 15 on story 2. -/
def spaceUpper : model.Space :=
  { handle := 26, name := "Upper", volume := 50, floorArea := 10, buildingStory := some 2,
    thermalZone := some 15 }

/-- A space in zone 15 on story 1. -/
def spaceLower : model.Space :=
  { handle := 27, name := "Lower", volume := 50, floorArea := 10, buildingStory := some 1,
    thermalZone := some 15 }

/-- Zone 15, which spans both stories: its first space is on no story, the second on story 2,
the third on story 1. -/
def zoneSpan : model.ThermalZone :=
  { handle := 15, name := "Zone S", volume := some 150,
    spaces := [spaceLoft, spaceUpper, spaceLower] }

/-- Two stories and the zone that spans them. -/
def spanning : model.Model :=
  { building := none
    stories := twoStories
    thermalZones := [zoneSpan]
    surfaces := []
    airLoops := []
    hasSqlFile := false }

end Examples

/-- The table `m` holds an entry for every key for which `m0` holds one. -/
def KeysKept {κ : Type} [DecidableEq κ] (m0 m : Table κ) : Prop :=
  ∀ k, (m0.find k).isSome = true → (m.find k).isSome = true

/-- Nothing that the translator `t0` holds is cleared in `r`: the level list and the zone list
of `t0` are the front of those of `r`, the path list of `t0` is the front of that of `r` but
for flow-rate overrides, the AHS list is not shorter, and every key of each of the six lookup
tables is still a key. -/
def Kept (t0 r : ForwardTranslator) : Prop :=
  (∃ e, r.m_data.levels = t0.m_data.levels ++ e) ∧
  (∃ e, r.m_data.zones = t0.m_data.zones ++ e) ∧
  (∃ e, r.m_data.paths.map prj.Path.clearFahs
    = t0.m_data.paths.map prj.Path.clearFahs ++ e) ∧
  t0.m_data.ahs.length ≤ r.m_data.ahs.length ∧
  KeysKept t0.m_afeMap r.m_afeMap ∧ KeysKept t0.m_levelMap r.m_levelMap ∧
  KeysKept t0.m_zoneMap r.m_zoneMap ∧ KeysKept t0.m_pathMap r.m_pathMap ∧
  KeysKept t0.m_surfaceMap r.m_surfaceMap ∧ KeysKept t0.m_ahsMap r.m_ahsMap

/-- Every path of the network has a relative height that is a number: none holds the NaN
that the mean of the `z` coordinates of no vertex is. -/
def PathHeights (t : ForwardTranslator) : Prop :=
  ∀ p ∈ t.m_data.paths, p.relHt.isSome = true

/-- Every position that the named-path table holds under a name "<name> supply" or
"<name> return" is the position of a path of the list that is flagged system-controlled. -/
def SystemKeys (t : ForwardTranslator) : Prop :=
  ∀ (name : String) (i : Nat),
    (t.m_pathMap.find (name ++ " supply") = some ((i : Int) + 1) ∨
      t.m_pathMap.find (name ++ " return") = some ((i : Int) + 1)) →
    ∃ p, t.m_data.paths[i]? = some p ∧ p.system = true

/-- The translator `r` is the translator `t` but for its log and for the flow-rate overrides
of its paths: every member and every field of the network data other than the path list is
the same, and the path list has the same paths, position by position, up to the field
`Fahs`. -/
def FlowFrame (t r : ForwardTranslator) : Prop :=
  ∃ (paths : List prj.Path) (log : List LogMessage),
    r = { t with m_data := { t.m_data with paths := paths }, m_logSink := log } ∧
    paths.map prj.Path.clearFahs = t.m_data.paths.map prj.Path.clearFahs

/-- The translations of the model `building` with the surface list `xs` and with the surface
list `ys` return the same, flag and translator (log included), in both modes, with and
without HVAC. -/
def SameRuns (ext : Externals) (template : prj.Data) (building : model.Model)
    (descriptor : String) (afeMap : Table String) (xs ys : List model.Surface) : Prop :=
  ∀ hvac : Bool,
    (ForwardTranslator.new template).translate ext { building with surfaces := xs } hvac
        descriptor =
      (ForwardTranslator.new template).translate ext { building with surfaces := ys } hvac
        descriptor ∧
    (ForwardTranslator.new template).translateWithMap ext { building with surfaces := xs }
        afeMap hvac =
      (ForwardTranslator.new template).translateWithMap ext { building with surfaces := ys }
        afeMap hvac

namespace Examples

/-- An adiabatic panel of space A: its boundary condition is none of "Ground", "Outdoors"
and "Surface". -/
def panelA : model.Surface :=
  { handle := 36, name := "Panel A", outsideBoundaryCondition := "Adiabatic",
    surfaceType := "Wall", space := some spaceA, grossArea := 10, azimuth := 0,
    vertices := [⟨0, 0, 0⟩, ⟨0, 5, 0⟩, ⟨0, 5, 3⟩, ⟨0, 0, 3⟩], adjacentSurface := none }

/-- An adiabatic panel that belongs to no space. -/
def panelLoose : model.Surface :=
  { handle := 37, name := "Panel X", outsideBoundaryCondition := "Adiabatic",
    surfaceType := "Wall", space := none, grossArea := 10, azimuth := 0,
    vertices := [⟨0, 0, 0⟩, ⟨0, 5, 0⟩, ⟨0, 5, 3⟩, ⟨0, 0, 3⟩], adjacentSurface := none }

end Examples

/-- The translator with the table `am` as its airflow element lookup table. -/
def ForwardTranslator.withAfeMap (t : ForwardTranslator) (am : Table String) :
    ForwardTranslator :=
  { t with m_afeMap := am }

/-- The locals of the surface loop with the table `am` as the airflow element lookup table of
the translator. -/
def ForwardTranslator.SurfaceLoop.withAfeMap (s : ForwardTranslator.SurfaceLoop)
    (am : Table String) : ForwardTranslator.SurfaceLoop :=
  { s with t := s.t.withAfeMap am }

/-- The number `i` is the index of the template element named `name`: the template holds an
airflow element of that name, and every airflow element of that name in it has the index
`i`. -/
def IsElementIndex (template : prj.Data) (name : String) (i : Int) : Prop :=
  (∃ e ∈ template.airflowElements, e.name = name) ∧
  ∀ e ∈ template.airflowElements, e.name = name → e.nr = i

namespace Examples

/-- A power-law element of the example template with the elements of the grade "Average". -/
noncomputable def gradedElement (nr : Int) (name : String) : prj.AirflowElement :=
  { nr := nr, icon := 0, dtype := "plr_test1", name := name, lam := some 1, turb := some 1,
    expt := 0.65, dP := 75, Flow := 1, u_P := 0, u_F := 0 }

/-- A baseline template that holds the four airflow elements of the grade "Average". -/
noncomputable def gradedTemplate : prj.Data :=
  { valid := true, rc := {}, levels := [{ nr := 1, name := "<1>" }], zones := [], paths := [],
    airflowElements := [gradedElement 1 "ExtWallAvg", gradedElement 2 "IntWallAvg",
      gradedElement 3 "FloorAvg", gradedElement 4 "RoofAvg"],
    ahs := [] }

end Examples

/-! ## Theorems -/

section Generic

theorem foldl_invariant {σ α : Type} (f : σ → α → σ) (P : List α → σ → Prop) (xs : List α)
    (s0 : σ) (h0 : P [] s0)
    (hstep : ∀ pre a post s, xs = pre ++ a :: post → P pre s → P (pre ++ [a]) (f s a)) :
    P xs (xs.foldl f s0) := by
  suffices h : ∀ (done rest : List α) (s : σ), xs = done ++ rest → P done s →
      P xs (rest.foldl f s) from h [] xs s0 rfl h0
  intro done rest
  induction rest generalizing done with
  | nil => intro s hx hp; simpa [hx] using hp
  | cons a rest ih =>
    intro s hx hp
    have hx2 : xs = (done ++ [a]) ++ rest := by simp [hx]
    exact ih (done ++ [a]) (f s a) hx2 (hstep done a rest s hx hp)

theorem forEach_invariant {σ α : Type} (body : σ → α → Outcome σ) (P : List α → σ → Prop)
    (Q : σ → Prop) (xs : List α) (s0 : σ) (h0 : P [] s0)
    (hstep : ∀ pre a post s, xs = pre ++ a :: post → P pre s →
      (body s a).sat (P (pre ++ [a])) Q) :
    (forEach body xs s0).sat (P xs) Q := by
  suffices h : ∀ (done rest : List α) (s : σ), xs = done ++ rest → P done s →
      (forEach body rest s).sat (P xs) Q from h [] xs s0 rfl h0
  intro done rest
  induction rest generalizing done with
  | nil => intro s hx hp; simpa [forEach, Outcome.sat, hx] using hp
  | cons a rest ih =>
    intro s hx hp
    have hx2 : xs = (done ++ [a]) ++ rest := by simp [hx]
    have hs := hstep done a rest s hx hp
    unfold forEach
    cases hb : body s a with
    | next s1 =>
      rw [hb] at hs
      exact ih (done ++ [a]) s1 hx2 hs
    | abort s1 =>
      rw [hb] at hs
      exact hs
    | outOfRange =>
      rw [hb] at hs
      exact hs

theorem Outcome.sat_mono {σ : Type} {P Q P2 Q2 : σ → Prop} {o : Outcome σ}
    (h : o.sat P Q) (hp : ∀ s, P s → P2 s) (hq : ∀ s, Q s → Q2 s) : o.sat P2 Q2 := by
  cases o with
  | next s => exact hp s h
  | abort s => exact hq s h
  | outOfRange => exact h

theorem Outcome.sat_map {σ τ : Type} {P Q : τ → Prop} (f : σ → τ) (o : Outcome σ) :
    (o.map f).sat P Q ↔ o.sat (fun s => P (f s)) (fun s => Q (f s)) := by
  cases o <;> simp [Outcome.map, Outcome.sat]

theorem Outcome.sat_bind {σ : Type} {P Q P2 : σ → Prop} {o : Outcome σ} {f : σ → Outcome σ}
    (h : o.sat P Q) (hf : ∀ s, P s → (f s).sat P2 Q) : (o.bind f).sat P2 Q := by
  cases o with
  | next s => exact hf s h
  | abort s => exact h
  | outOfRange => exact h

theorem Outcome.sat_and {σ : Type} {P Q P2 Q2 : σ → Prop} {o : Outcome σ}
    (h1 : o.sat P Q) (h2 : o.sat P2 Q2) :
    o.sat (fun s => P s ∧ P2 s) (fun s => Q s ∧ Q2 s) := by
  cases o with
  | next s => exact ⟨h1, h2⟩
  | abort s => exact ⟨h1, h2⟩
  | outOfRange => exact h1

end Generic

section Tables

variable {κ : Type} [DecidableEq κ]

theorem Table.find_set_self (m : Table κ) (k : κ) (v : Int) : (m.set k v).find k = some v := by
  induction m with
  | nil => simp [Table.set, Table.find]
  | cons e rest ih =>
    obtain ⟨k1, v1⟩ := e
    by_cases h : k1 = k
    · simp [Table.set, Table.find, h]
    · simp [Table.set, Table.find, h, ih]

theorem Table.find_set_ne (m : Table κ) (k k2 : κ) (v : Int) (hne : k2 ≠ k) :
    (m.set k v).find k2 = m.find k2 := by
  induction m with
  | nil =>
    have h : ¬ k = k2 := fun h => hne h.symm
    simp [Table.set, Table.find, h]
  | cons e rest ih =>
    obtain ⟨k1, v1⟩ := e
    by_cases h : k1 = k
    · subst h
      have h2 : ¬ k1 = k2 := fun h => hne h.symm
      simp [Table.set, Table.find, h2]
    · by_cases h3 : k1 = k2
      · subst h3
        simp [Table.set, Table.find, h]
      · simp [Table.set, Table.find, h, h3, ih]

theorem Table.mem_set (m : Table κ) (k : κ) (v : Int) (e : κ × Int) (he : e ∈ m.set k v) :
    e = (k, v) ∨ e ∈ m := by
  induction m with
  | nil => simpa [Table.set] using he
  | cons e1 rest ih =>
    obtain ⟨k1, v1⟩ := e1
    by_cases h : k1 = k
    · simp [Table.set, h] at he
      rcases he with he | he
      · exact Or.inl he
      · exact Or.inr (List.mem_cons_of_mem _ he)
    · simp [Table.set, h] at he
      rcases he with he | he
      · exact Or.inr (by simp [he])
      · rcases ih he with h1 | h1
        · exact Or.inl h1
        · exact Or.inr (List.mem_cons_of_mem _ h1)

theorem Table.find_mem (m : Table κ) (k : κ) (v : Int) (h : m.find k = some v) : (k, v) ∈ m := by
  induction m with
  | nil => simp [Table.find] at h
  | cons e rest ih =>
    obtain ⟨k1, v1⟩ := e
    by_cases hk : k1 = k
    · simp [Table.find, hk] at h
      simp [hk, h]
    · simp [Table.find, hk] at h
      exact List.mem_cons_of_mem _ (ih h)

theorem Table.find_none_of_not_key (m : Table κ) (k : κ) (h : ∀ e ∈ m, e.1 ≠ k) :
    m.find k = none := by
  induction m with
  | nil => simp [Table.find]
  | cons e rest ih =>
    obtain ⟨k1, v1⟩ := e
    have h1 : ¬ k1 = k := h (k1, v1) (by simp)
    simp [Table.find, h1]
    exact ih (fun e he => h e (List.mem_cons_of_mem _ he))

theorem Table.find_isSome_of_key (m : Table κ) (k : κ) (v : Int) (h : (k, v) ∈ m) :
    ∃ w, m.find k = some w := by
  induction m with
  | nil => simp at h
  | cons e rest ih =>
    obtain ⟨k1, v1⟩ := e
    by_cases hk : k1 = k
    · exact ⟨v1, by simp [Table.find, hk]⟩
    · have h2 : (k, v) ∈ rest := by
        rcases List.mem_cons.mp h with h3 | h3
        · exact absurd (congrArg Prod.fst h3).symm hk
        · exact h3
      obtain ⟨w, hw⟩ := ih h2
      exact ⟨w, by simp [Table.find, hk, hw]⟩

theorem Table.index_fst (m : Table κ) (k : κ) : (m.index k).1 = m.value k 0 := by
  unfold Table.index Table.value
  cases h : m.find k <;> simp

theorem Table.mem_index (m : Table κ) (k : κ) (e : κ × Int) (he : e ∈ (m.index k).2) :
    e = (k, 0) ∨ e ∈ m := by
  unfold Table.index at he
  cases h : m.find k with
  | none =>
    rw [h] at he
    exact Table.mem_set m k 0 e he
  | some v =>
    rw [h] at he
    exact Or.inr he

theorem Table.find_index_of_find (m : Table κ) (k k2 : κ) (v : Int) (h : m.find k2 = some v) :
    (m.index k).2.find k2 = some v := by
  unfold Table.index
  cases hk : m.find k with
  | none =>
    have hne : k2 ≠ k := by
      intro heq
      rw [heq, hk] at h
      exact Option.noConfusion h
    simpa [Table.find_set_ne m k k2 0 hne] using h
  | some w => simpa using h

end Tables

section LogLemmas

open ForwardTranslator

theorem ForwardTranslator.LOG_eq (t : ForwardTranslator) (level : LogLevel) (msg : String)
    (h : level = .Warn ∨ level = .Error) :
    t.LOG level msg =
      { t with m_logSink := t.m_logSink ++ [{ logLevel := level, logMessage := msg }] } := by
  rcases h with h | h <;> subst h <;> simp [ForwardTranslator.LOG, LogLevel.toInt]

@[simp] theorem ForwardTranslator.LOG_m_data (t : ForwardTranslator) (l : LogLevel) (m : String) :
    (t.LOG l m).m_data = t.m_data := by
  unfold ForwardTranslator.LOG; split <;> rfl

@[simp] theorem ForwardTranslator.LOG_m_zoneMap (t : ForwardTranslator) (l : LogLevel)
    (m : String) : (t.LOG l m).m_zoneMap = t.m_zoneMap := by
  unfold ForwardTranslator.LOG; split <;> rfl

@[simp] theorem ForwardTranslator.LOG_m_levelMap (t : ForwardTranslator) (l : LogLevel)
    (m : String) : (t.LOG l m).m_levelMap = t.m_levelMap := by
  unfold ForwardTranslator.LOG; split <;> rfl

@[simp] theorem ForwardTranslator.LOG_m_pathMap (t : ForwardTranslator) (l : LogLevel)
    (m : String) : (t.LOG l m).m_pathMap = t.m_pathMap := by
  unfold ForwardTranslator.LOG; split <;> rfl

@[simp] theorem ForwardTranslator.LOG_m_surfaceMap (t : ForwardTranslator) (l : LogLevel)
    (m : String) : (t.LOG l m).m_surfaceMap = t.m_surfaceMap := by
  unfold ForwardTranslator.LOG; split <;> rfl

@[simp] theorem ForwardTranslator.LOG_m_ahsMap (t : ForwardTranslator) (l : LogLevel)
    (m : String) : (t.LOG l m).m_ahsMap = t.m_ahsMap := by
  unfold ForwardTranslator.LOG; split <;> rfl

@[simp] theorem ForwardTranslator.LOG_m_afeMap (t : ForwardTranslator) (l : LogLevel)
    (m : String) : (t.LOG l m).m_afeMap = t.m_afeMap := by
  unfold ForwardTranslator.LOG; split <;> rfl

@[simp] theorem ForwardTranslator.LOG_m_valid (t : ForwardTranslator) (l : LogLevel)
    (m : String) : (t.LOG l m).m_valid = t.m_valid := by
  unfold ForwardTranslator.LOG; split <;> rfl

@[simp] theorem ForwardTranslator.tableLookupStdMap_m_data (t : ForwardTranslator)
    (m : Table Handle) (h : Handle) (n : String) :
    (t.tableLookupStdMap m h n).2.m_data = t.m_data := by
  unfold ForwardTranslator.tableLookupStdMap; split <;> simp

@[simp] theorem ForwardTranslator.tableLookupStdMap_m_zoneMap (t : ForwardTranslator)
    (m : Table Handle) (h : Handle) (n : String) :
    (t.tableLookupStdMap m h n).2.m_zoneMap = t.m_zoneMap := by
  unfold ForwardTranslator.tableLookupStdMap; split <;> simp

@[simp] theorem ForwardTranslator.tableLookupStdMap_m_levelMap (t : ForwardTranslator)
    (m : Table Handle) (h : Handle) (n : String) :
    (t.tableLookupStdMap m h n).2.m_levelMap = t.m_levelMap := by
  unfold ForwardTranslator.tableLookupStdMap; split <;> simp

@[simp] theorem ForwardTranslator.tableLookupStdMap_m_pathMap (t : ForwardTranslator)
    (m : Table Handle) (h : Handle) (n : String) :
    (t.tableLookupStdMap m h n).2.m_pathMap = t.m_pathMap := by
  unfold ForwardTranslator.tableLookupStdMap; split <;> simp

@[simp] theorem ForwardTranslator.tableLookupStdMap_m_surfaceMap (t : ForwardTranslator)
    (m : Table Handle) (h : Handle) (n : String) :
    (t.tableLookupStdMap m h n).2.m_surfaceMap = t.m_surfaceMap := by
  unfold ForwardTranslator.tableLookupStdMap; split <;> simp

@[simp] theorem ForwardTranslator.tableLookupStdMap_m_valid (t : ForwardTranslator)
    (m : Table Handle) (h : Handle) (n : String) :
    (t.tableLookupStdMap m h n).2.m_valid = t.m_valid := by
  unfold ForwardTranslator.tableLookupStdMap; split <;> simp

theorem ForwardTranslator.tableLookupStdMap_fst (t : ForwardTranslator)
    (m : Table Handle) (h : Handle) (n : String) :
    (t.tableLookupStdMap m h n).1 = m.value h 0 := by
  unfold ForwardTranslator.tableLookupStdMap Table.value
  cases m.find h <;> simp

@[simp] theorem ForwardTranslator.tableLookupQMap_m_data (t : ForwardTranslator)
    (m : Table Handle) (h : Handle) (n : String) :
    (t.tableLookupQMap m h n).2.m_data = t.m_data := by
  unfold ForwardTranslator.tableLookupQMap; simp only []; split <;> simp

@[simp] theorem ForwardTranslator.tableLookupQMap_m_zoneMap (t : ForwardTranslator)
    (m : Table Handle) (h : Handle) (n : String) :
    (t.tableLookupQMap m h n).2.m_zoneMap = t.m_zoneMap := by
  unfold ForwardTranslator.tableLookupQMap; simp only []; split <;> simp

@[simp] theorem ForwardTranslator.tableLookupQMap_m_levelMap (t : ForwardTranslator)
    (m : Table Handle) (h : Handle) (n : String) :
    (t.tableLookupQMap m h n).2.m_levelMap = t.m_levelMap := by
  unfold ForwardTranslator.tableLookupQMap; simp only []; split <;> simp

@[simp] theorem ForwardTranslator.tableLookupQMap_m_pathMap (t : ForwardTranslator)
    (m : Table Handle) (h : Handle) (n : String) :
    (t.tableLookupQMap m h n).2.m_pathMap = t.m_pathMap := by
  unfold ForwardTranslator.tableLookupQMap; simp only []; split <;> simp

@[simp] theorem ForwardTranslator.tableLookupQMap_m_surfaceMap (t : ForwardTranslator)
    (m : Table Handle) (h : Handle) (n : String) :
    (t.tableLookupQMap m h n).2.m_surfaceMap = t.m_surfaceMap := by
  unfold ForwardTranslator.tableLookupQMap; simp only []; split <;> simp

theorem ForwardTranslator.tableLookupQMap_fst (t : ForwardTranslator)
    (m : Table Handle) (h : Handle) (n : String) :
    (t.tableLookupQMap m h n).1 = m.value h 0 := by
  unfold ForwardTranslator.tableLookupQMap; simp only []; split <;> simp_all

@[simp] theorem ForwardTranslator.tableLookupStdMap_m_ahsMap (t : ForwardTranslator)
    (m : Table Handle) (h : Handle) (n : String) :
    (t.tableLookupStdMap m h n).2.m_ahsMap = t.m_ahsMap := by
  unfold ForwardTranslator.tableLookupStdMap; split <;> simp

@[simp] theorem ForwardTranslator.tableLookupStdMap_m_afeMap (t : ForwardTranslator)
    (m : Table Handle) (h : Handle) (n : String) :
    (t.tableLookupStdMap m h n).2.m_afeMap = t.m_afeMap := by
  unfold ForwardTranslator.tableLookupStdMap; split <;> simp

@[simp] theorem ForwardTranslator.tableLookupQMap_m_ahsMap (t : ForwardTranslator)
    (m : Table Handle) (h : Handle) (n : String) :
    (t.tableLookupQMap m h n).2.m_ahsMap = t.m_ahsMap := by
  unfold ForwardTranslator.tableLookupQMap; simp only []; split <;> simp

@[simp] theorem ForwardTranslator.tableLookupQMap_m_afeMap (t : ForwardTranslator)
    (m : Table Handle) (h : Handle) (n : String) :
    (t.tableLookupQMap m h n).2.m_afeMap = t.m_afeMap := by
  unfold ForwardTranslator.tableLookupQMap; simp only []; split <;> simp

@[simp] theorem ForwardTranslator.tableLookupQMap_m_valid (t : ForwardTranslator)
    (m : Table Handle) (h : Handle) (n : String) :
    (t.tableLookupQMap m h n).2.m_valid = t.m_valid := by
  unfold ForwardTranslator.tableLookupQMap; simp only []; split <;> simp

end LogLemmas

section Stories

open model ForwardTranslator

theorem translateStories_inv (stories : List BuildingStory) (t0 : ForwardTranslator) :
    StoriesInv t0 stories (translateStories stories t0) := by
  unfold translateStories
  apply foldl_invariant storyStep (StoriesInv t0) stories (1, 0, t0)
  · refine ⟨by simp, by simp, by simp, fun i _ => rfl, ?_, ?_, ?_⟩
    · intro i b h; simp at h
    · intro e he; exact Or.inl he
    · intro b hb; simp at hb
  · intro pre a post s _ hinv
    obtain ⟨h1, h2, h3, h4, h5, h6, h7⟩ := hinv
    refine ⟨?_, ?_, ?_, ?_, ?_, ?_, ?_⟩
    · simp [storyStep, h1]
    · simp [storyStep, h2]
    · simp [storyStep, h3]; omega
    · intro i hi
      have hlt : i < s.2.2.m_data.levels.length := by omega
      simp [storyStep, List.getElem?_append_left hlt, h4 i hi]
    · intro i b hb
      by_cases hi : i < pre.length
      · have hb2 : pre[i]? = some b := by
          rw [List.getElem?_append_left hi] at hb; exact hb
        obtain ⟨l, hl1, hl2, hl3, hl4⟩ := h5 i b hb2
        refine ⟨l, ?_, hl2, ?_, hl4⟩
        · have hlt : t0.m_data.levels.length + i < s.2.2.m_data.levels.length := by omega
          simp [storyStep, List.getElem?_append_left hlt, hl1]
        · rw [hl3, List.take_append_of_le_length (by omega)]
      · have hlen : (pre ++ [a]).length = pre.length + 1 := by simp
        have hi2 : i = pre.length := by
          have : i < (pre ++ [a]).length := by
            by_contra hge
            have : (pre ++ [a])[i]? = none := List.getElem?_eq_none (by omega)
            rw [this] at hb; exact Option.noConfusion hb
          omega
        subst hi2
        have hb3 : b = a := by simpa using hb.symm
        subst hb3
        refine ⟨prj.Level.mk s.1 (match b.nominalZCoordinate with
              | some elevation => elevation
              | none => s.2.1 + b.nominalFloortoFloorHeight)
            b.nominalFloortoFloorHeight ("<" ++ toString s.1 ++ ">"), ?_, ?_, ?_, ?_⟩
        · simp only [storyStep]
          rw [← h3]
          simp
        · simp [h1]
        · simp only []
          rw [List.take_of_length_le (by simp)]
          cases hz : b.nominalZCoordinate <;> simp [h2]
        · rfl
    · intro e he
      simp only [storyStep] at he
      rcases Table.mem_set _ _ _ _ he with h | h
      · right
        rw [h]
        simp [h1]
      · rcases h6 e h with h | h
        · exact Or.inl h
        · right
          simp
          omega
    · intro b hb
      simp only [storyStep]
      by_cases hk : b.handle = a.handle
      · refine ⟨s.1, ?_, ?_, ?_⟩
        · rw [hk]; exact Table.find_set_self _ _ _
        · omega
        · simp; omega
      · have hb2 : b ∈ pre := by
          rcases List.mem_append.mp hb with h | h
          · exact h
          · simp at h; rw [h] at hk; exact absurd rfl hk
        obtain ⟨v, hv1, hv2, hv3⟩ := h7 b hb2
        refine ⟨v, ?_, hv2, ?_⟩
        · rw [Table.find_set_ne _ _ _ _ hk]; exact hv1
        · simp; omega

end Stories

section StoriesFrame

open model ForwardTranslator

theorem translateStories_frame (stories : List BuildingStory) (t0 : ForwardTranslator) :
    (translateStories stories t0).2.2.m_zoneMap = t0.m_zoneMap ∧
    (translateStories stories t0).2.2.m_pathMap = t0.m_pathMap ∧
    (translateStories stories t0).2.2.m_surfaceMap = t0.m_surfaceMap ∧
    (translateStories stories t0).2.2.m_ahsMap = t0.m_ahsMap ∧
    (translateStories stories t0).2.2.m_afeMap = t0.m_afeMap ∧
    (translateStories stories t0).2.2.m_valid = t0.m_valid ∧
    (translateStories stories t0).2.2.m_logSink = t0.m_logSink ∧
    (translateStories stories t0).2.2.m_data.zones = t0.m_data.zones ∧
    (translateStories stories t0).2.2.m_data.paths = t0.m_data.paths ∧
    (translateStories stories t0).2.2.m_data.ahs = t0.m_data.ahs ∧
    (translateStories stories t0).2.2.m_data.valid = t0.m_data.valid ∧
    (translateStories stories t0).2.2.m_data.rc = t0.m_data.rc := by
  unfold translateStories
  apply foldl_invariant storyStep (fun _ s =>
    s.2.2.m_zoneMap = t0.m_zoneMap ∧ s.2.2.m_pathMap = t0.m_pathMap ∧
    s.2.2.m_surfaceMap = t0.m_surfaceMap ∧ s.2.2.m_ahsMap = t0.m_ahsMap ∧
    s.2.2.m_afeMap = t0.m_afeMap ∧ s.2.2.m_valid = t0.m_valid ∧
    s.2.2.m_logSink = t0.m_logSink ∧ s.2.2.m_data.zones = t0.m_data.zones ∧
    s.2.2.m_data.paths = t0.m_data.paths ∧ s.2.2.m_data.ahs = t0.m_data.ahs ∧
    s.2.2.m_data.valid = t0.m_data.valid ∧ s.2.2.m_data.rc = t0.m_data.rc) stories (1, 0, t0)
  · simp
  · intro pre a post s _ h
    simpa [storyStep] using h

@[simp] theorem storiesPhase_m_zoneMap (model : Model) (t : ForwardTranslator) :
    (storiesPhase model t).m_zoneMap = t.m_zoneMap := by
  simp [storiesPhase, ForwardTranslator.setDescription, (translateStories_frame model.stories _).1]

@[simp] theorem storiesPhase_m_pathMap (model : Model) (t : ForwardTranslator) :
    (storiesPhase model t).m_pathMap = t.m_pathMap := by
  simp [storiesPhase, ForwardTranslator.setDescription, (translateStories_frame model.stories _).2.1]

@[simp] theorem storiesPhase_m_surfaceMap (model : Model) (t : ForwardTranslator) :
    (storiesPhase model t).m_surfaceMap = t.m_surfaceMap := by
  simp [storiesPhase, ForwardTranslator.setDescription, (translateStories_frame model.stories _).2.2.1]

@[simp] theorem storiesPhase_m_ahsMap (model : Model) (t : ForwardTranslator) :
    (storiesPhase model t).m_ahsMap = t.m_ahsMap := by
  simp [storiesPhase, ForwardTranslator.setDescription, (translateStories_frame model.stories _).2.2.2.1]

@[simp] theorem storiesPhase_m_afeMap (model : Model) (t : ForwardTranslator) :
    (storiesPhase model t).m_afeMap = t.m_afeMap := by
  simp [storiesPhase, ForwardTranslator.setDescription, (translateStories_frame model.stories _).2.2.2.2.1]

@[simp] theorem storiesPhase_m_valid (model : Model) (t : ForwardTranslator) :
    (storiesPhase model t).m_valid = t.m_valid := by
  simp [storiesPhase, ForwardTranslator.setDescription, (translateStories_frame model.stories _).2.2.2.2.2.1]

@[simp] theorem storiesPhase_m_logSink (model : Model) (t : ForwardTranslator) :
    (storiesPhase model t).m_logSink = t.m_logSink := by
  simp [storiesPhase, ForwardTranslator.setDescription, (translateStories_frame model.stories _).2.2.2.2.2.2.1]

@[simp] theorem storiesPhase_zones (model : Model) (t : ForwardTranslator) :
    (storiesPhase model t).m_data.zones = t.m_data.zones := by
  simp [storiesPhase, ForwardTranslator.setDescription, (translateStories_frame model.stories _).2.2.2.2.2.2.2.1]

@[simp] theorem storiesPhase_paths (model : Model) (t : ForwardTranslator) :
    (storiesPhase model t).m_data.paths = t.m_data.paths := by
  simp [storiesPhase, ForwardTranslator.setDescription, (translateStories_frame model.stories _).2.2.2.2.2.2.2.2.1]

@[simp] theorem storiesPhase_ahs (model : Model) (t : ForwardTranslator) :
    (storiesPhase model t).m_data.ahs = t.m_data.ahs := by
  simp [storiesPhase, ForwardTranslator.setDescription, (translateStories_frame model.stories _).2.2.2.2.2.2.2.2.2.1]

@[simp] theorem storiesPhase_valid (model : Model) (t : ForwardTranslator) :
    (storiesPhase model t).m_data.valid = t.m_data.valid := by
  simp [storiesPhase, ForwardTranslator.setDescription, (translateStories_frame model.stories _).2.2.2.2.2.2.2.2.2.2.1]

theorem storiesPhase_levels (model : Model) (t : ForwardTranslator) :
    (storiesPhase model t).m_data.levels =
      (translateStories model.stories (t.setDescription model)).2.2.m_data.levels := by
  simp [storiesPhase]

theorem storiesPhase_m_levelMap (model : Model) (t : ForwardTranslator) :
    (storiesPhase model t).m_levelMap =
      (translateStories model.stories (t.setDescription model)).2.2.m_levelMap := by
  simp [storiesPhase]

/-- The levels and the story table after the stories phase of a translator that held no
level and no story entry. -/
theorem storiesPhase_fresh (model : Model) (t : ForwardTranslator)
    (hl : t.m_data.levels = []) (hm : t.m_levelMap = []) :
    (storiesPhase model t).m_data.levels.length = model.stories.length ∧
    (∀ (i : Nat) (b : BuildingStory), model.stories[i]? = some b →
      ∃ l, (storiesPhase model t).m_data.levels[i]? = some l ∧
        l.nr = (i : Int) + 1 ∧
        l.refht = b.nominalZCoordinate.getD
          (((model.stories.take (i + 1)).map (fun b => b.nominalFloortoFloorHeight)).sum) ∧
        l.delht = b.nominalFloortoFloorHeight) ∧
    (∀ e ∈ (storiesPhase model t).m_levelMap,
      1 ≤ e.2 ∧ e.2 ≤ ((storiesPhase model t).m_data.levels.length : Int)) ∧
    (∀ b ∈ model.stories, ∃ v, (storiesPhase model t).m_levelMap.find b.handle = some v ∧
      1 ≤ v) := by
  have h := translateStories_inv model.stories (t.setDescription model)
  obtain ⟨_, _, h3, _, h5, h6, h7⟩ := h
  have hl2 : (t.setDescription model).m_data.levels = [] := by
    simpa [ForwardTranslator.setDescription] using hl
  have hm2 : (t.setDescription model).m_levelMap = [] := by
    simpa [ForwardTranslator.setDescription] using hm
  simp only [hl2, hm2, List.length_nil, Nat.zero_add] at h3 h5 h6 h7
  rw [storiesPhase_levels, storiesPhase_m_levelMap]
  refine ⟨h3, h5, ?_, ?_⟩
  · intro e he
    rcases h6 e he with h | h
    · simp at h
    · rw [h3]; exact h
  · intro b hb
    obtain ⟨v, hv, hv1, _⟩ := h7 b hb
    exact ⟨v, hv, hv1⟩

end StoriesFrame

section Zones

open model ForwardTranslator

@[simp] theorem zoneVolume_m_data (t : ForwardTranslator) (z : ThermalZone) :
    (zoneVolume t z).2.m_data = t.m_data := by
  unfold zoneVolume
  split
  · simp
  · simp only []
    split <;> simp

@[simp] theorem zoneVolume_m_zoneMap (t : ForwardTranslator) (z : ThermalZone) :
    (zoneVolume t z).2.m_zoneMap = t.m_zoneMap := by
  unfold zoneVolume
  split
  · simp
  · simp only []
    split <;> simp

@[simp] theorem zoneVolume_m_levelMap (t : ForwardTranslator) (z : ThermalZone) :
    (zoneVolume t z).2.m_levelMap = t.m_levelMap := by
  unfold zoneVolume
  split
  · simp
  · simp only []
    split <;> simp

@[simp] theorem zoneVolume_m_pathMap (t : ForwardTranslator) (z : ThermalZone) :
    (zoneVolume t z).2.m_pathMap = t.m_pathMap := by
  unfold zoneVolume
  split
  · simp
  · simp only []
    split <;> simp

@[simp] theorem zoneVolume_m_surfaceMap (t : ForwardTranslator) (z : ThermalZone) :
    (zoneVolume t z).2.m_surfaceMap = t.m_surfaceMap := by
  unfold zoneVolume
  split
  · simp
  · simp only []
    split <;> simp

@[simp] theorem zoneVolume_m_ahsMap (t : ForwardTranslator) (z : ThermalZone) :
    (zoneVolume t z).2.m_ahsMap = t.m_ahsMap := by
  unfold zoneVolume
  split
  · simp
  · simp only []
    split <;> simp

@[simp] theorem zoneVolume_m_afeMap (t : ForwardTranslator) (z : ThermalZone) :
    (zoneVolume t z).2.m_afeMap = t.m_afeMap := by
  unfold zoneVolume
  split
  · simp
  · simp only []
    split <;> simp

@[simp] theorem zoneLevel_m_data (t : ForwardTranslator) (spaces : List Space) :
    (zoneLevel t spaces).2.m_data = t.m_data := by
  induction spaces with
  | nil => simp [zoneLevel]
  | cons sp rest ih =>
    unfold zoneLevel
    split
    · simp
    · exact ih

@[simp] theorem zoneLevel_m_zoneMap (t : ForwardTranslator) (spaces : List Space) :
    (zoneLevel t spaces).2.m_zoneMap = t.m_zoneMap := by
  induction spaces with
  | nil => simp [zoneLevel]
  | cons sp rest ih =>
    unfold zoneLevel
    split
    · simp
    · exact ih

@[simp] theorem zoneLevel_m_levelMap (t : ForwardTranslator) (spaces : List Space) :
    (zoneLevel t spaces).2.m_levelMap = t.m_levelMap := by
  induction spaces with
  | nil => simp [zoneLevel]
  | cons sp rest ih =>
    unfold zoneLevel
    split
    · simp
    · exact ih

@[simp] theorem zoneLevel_m_pathMap (t : ForwardTranslator) (spaces : List Space) :
    (zoneLevel t spaces).2.m_pathMap = t.m_pathMap := by
  induction spaces with
  | nil => simp [zoneLevel]
  | cons sp rest ih =>
    unfold zoneLevel
    split
    · simp
    · exact ih

@[simp] theorem zoneLevel_m_surfaceMap (t : ForwardTranslator) (spaces : List Space) :
    (zoneLevel t spaces).2.m_surfaceMap = t.m_surfaceMap := by
  induction spaces with
  | nil => simp [zoneLevel]
  | cons sp rest ih =>
    unfold zoneLevel
    split
    · simp
    · exact ih

@[simp] theorem zoneLevel_m_ahsMap (t : ForwardTranslator) (spaces : List Space) :
    (zoneLevel t spaces).2.m_ahsMap = t.m_ahsMap := by
  induction spaces with
  | nil => simp [zoneLevel]
  | cons sp rest ih =>
    unfold zoneLevel
    split
    · simp
    · exact ih

@[simp] theorem zoneLevel_m_afeMap (t : ForwardTranslator) (spaces : List Space) :
    (zoneLevel t spaces).2.m_afeMap = t.m_afeMap := by
  induction spaces with
  | nil => simp [zoneLevel]
  | cons sp rest ih =>
    unfold zoneLevel
    split
    · simp
    · exact ih

theorem zoneLevel_fst (t : ForwardTranslator) (spaces : List Space) :
    (zoneLevel t spaces).1 =
      match firstStory spaces with
      | some h => t.m_levelMap.value h 0
      | none => 0 := by
  induction spaces with
  | nil => simp [zoneLevel, firstStory]
  | cons sp rest ih =>
    unfold zoneLevel firstStory
    split
    · simp [ForwardTranslator.tableLookupQMap_fst]
    · exact ih

theorem zoneLevel_ne_zero_iff (t : ForwardTranslator) (z : ThermalZone) :
    (zoneLevel t z.spaces).1 ≠ 0 ↔ LevelFound t.m_levelMap z := by
  rw [zoneLevel_fst]
  unfold LevelFound
  cases hf : firstStory z.spaces with
  | none => simp
  | some h =>
    simp only [Table.value]
    cases hv : t.m_levelMap.find h with
    | none => simp [hv]
    | some v => simp [hv]

theorem zoneLevel_found (t : ForwardTranslator) (z : ThermalZone)
    (h : (zoneLevel t z.spaces).1 ≠ 0) :
    ∃ k, t.m_levelMap.find k = some (zoneLevel t z.spaces).1 := by
  rw [zoneLevel_fst] at h ⊢
  cases hf : firstStory z.spaces with
  | none => rw [hf] at h; exact absurd rfl h
  | some k =>
    rw [hf] at h
    simp only [Table.value] at h ⊢
    cases hv : t.m_levelMap.find k with
    | none => rw [hv] at h; exact absurd rfl h
    | some v => exact ⟨k, by simp [hv]⟩

theorem Numbered.append_one {α : Type} (nr : α → Int) (l : List α) (a : α)
    (h : Numbered nr l) (ha : nr a = (l.length : Int) + 1) : Numbered nr (l ++ [a]) := by
  intro i b hb
  rw [List.get?_eq_getElem?] at hb
  by_cases hi : i < l.length
  · rw [List.getElem?_append_left hi] at hb
    exact h i b (by rw [List.get?_eq_getElem?]; exact hb)
  · have hi2 : i = l.length := by
      have : i < (l ++ [a]).length := by
        by_contra hge
        have : (l ++ [a])[i]? = none := List.getElem?_eq_none (by omega)
        rw [this] at hb; exact Option.noConfusion hb
      simp at this
      omega
    subst hi2
    have : b = a := by simpa using hb.symm
    rw [this, ha]

theorem zoneStep_spec (t0 : ForwardTranslator) (pre : List ThermalZone)
    (s : Int × ForwardTranslator) (z : ThermalZone) (h : ZonesInv t0 pre s) :
    (zoneStep s z).sat (ZonesInv t0 (pre ++ [z]))
      (fun r => ¬ LevelFound t0.m_levelMap z ∧ ZoneAbortRel z s r) := by
  obtain ⟨h1, h2, h3, h4, h5, h6, h7, h8, h9, ⟨new, hn1, hn2, hn3, hn4⟩, h11, h12, h13⟩ := h
  have hlm : (zoneVolume { s.2 with m_zoneMap := s.2.m_zoneMap.set z.handle (s.1 + 1) }
      z).2.m_levelMap = t0.m_levelMap := by simp [h3]
  unfold zoneStep
  simp only []
  split
  · rename_i hlvl
    have hfound := zoneLevel_found _ z hlvl
    rw [hlm] at hfound
    simp only [Outcome.sat]
    have hfnd : LevelFound t0.m_levelMap z := by
      rw [← hlm, ← zoneLevel_ne_zero_iff]
      exact hlvl
    refine ⟨?_, ?_, ?_, ?_, ?_, ?_, ?_, ?_, ?_, ?_, ?_, ?_, ?_⟩
    · simp [h1]
    · simp [h2]
    · simp [h3]
    · simp [h4]
    · simp [h5]
    · simp [h6]
    · simp [h7]
    · simp [h8]
    · simp [h9]
    · refine ⟨new ++ [?newzone], ?e1, ?e2, ?e3, ?e4⟩
      case e1 =>
        simp only [zoneLevel_m_data, zoneVolume_m_data, hn1, List.append_assoc]
        exact rfl
      case e2 => simp [hn2]
      case e3 =>
        apply Numbered.append_one _ _ _ hn3
        simp [hn2, h1]
      case e4 =>
        intro zz hzz
        rcases List.mem_append.mp hzz with hz | hz
        · exact hn4 zz hz
        · simp at hz
          subst hz
          exact ⟨hlvl, rfl, hfound⟩
    · intro e he
      simp only [zoneLevel_m_zoneMap, zoneVolume_m_zoneMap] at he
      rcases Table.mem_set _ _ _ _ he with he | he
      · right; rw [he]; simp [h1]
      · rcases h11 e he with h | h
        · exact Or.inl h
        · right; simp; omega
    · intro zz hzz
      simp only [zoneLevel_m_zoneMap, zoneVolume_m_zoneMap]
      by_cases hk : zz.handle = z.handle
      · refine ⟨s.1 + 1, ?_, ?_, ?_⟩
        · rw [hk]; exact Table.find_set_self _ _ _
        · omega
        · simp; omega
      · have hz2 : zz ∈ pre := by
          rcases List.mem_append.mp hzz with h | h
          · exact h
          · simp at h; rw [h] at hk; exact absurd rfl hk
        obtain ⟨v, hv1, hv2, hv3⟩ := h12 zz hz2
        refine ⟨v, ?_, hv2, ?_⟩
        · rw [Table.find_set_ne _ _ _ _ hk]; exact hv1
        · simp; omega
    · intro zz hzz
      rcases List.mem_append.mp hzz with h | h
      · exact h13 zz h
      · simp at h; rw [h]; exact hfnd
  · rename_i hlvl
    simp only [Outcome.sat]
    refine ⟨?_, ?_⟩
    · intro hf
      apply hlvl
      rw [zoneLevel_ne_zero_iff, hlm]
      exact hf
    · unfold ZoneAbortRel
      refine ⟨by simp [ForwardTranslator.setValid], by simp [ForwardTranslator.setValid],
        by simp [ForwardTranslator.setValid], by simp [ForwardTranslator.setValid],
        by simp [ForwardTranslator.setValid], by simp [ForwardTranslator.setValid]⟩

theorem translateZones_spec (t0 : ForwardTranslator) (zs : List ThermalZone) :
    (forEach zoneStep zs (0, t0)).sat (ZonesInv t0 zs) (ZonesAbort t0 zs) := by
  apply forEach_invariant zoneStep (ZonesInv t0) _ zs (0, t0)
  · refine ⟨rfl, rfl, rfl, rfl, rfl, rfl, rfl, rfl, rfl, ⟨[], by simp, rfl, ?_, ?_⟩, ?_, ?_, ?_⟩
    · intro i a h; simp at h
    · intro z hz; simp at hz
    · intro e he; exact Or.inl he
    · intro z hz; simp at hz
    · intro z hz; simp at hz
  · intro pre a post s hx hinv
    apply Outcome.sat_mono (zoneStep_spec t0 pre s a hinv)
    · intro s hs; exact hs
    · intro r hr; exact ⟨pre, a, post, s, hx, hinv, hr.1, hr.2⟩

end Zones

section Surfaces

open model ForwardTranslator

@[simp] theorem setValid_m_data (t : ForwardTranslator) (b : Bool) :
    (t.setValid b).m_data = t.m_data := rfl

@[simp] theorem setValid_m_zoneMap (t : ForwardTranslator) (b : Bool) :
    (t.setValid b).m_zoneMap = t.m_zoneMap := rfl

@[simp] theorem setValid_m_surfaceMap (t : ForwardTranslator) (b : Bool) :
    (t.setValid b).m_surfaceMap = t.m_surfaceMap := rfl

@[simp] theorem setValid_m_valid (t : ForwardTranslator) (b : Bool) :
    (t.setValid b).m_valid = b := rfl

@[simp] theorem interiorPath_pa (pe : ElementChoice) (a : Surface) (zone : prj.Zone)
    (pzm : Int) (path : prj.Path) : (interiorPath pe a zone pzm path).pa = path.pa := by
  unfold interiorPath; simp only []; split <;> rfl

@[simp] theorem interiorPath_pld (pe : ElementChoice) (a : Surface) (zone : prj.Zone)
    (pzm : Int) (path : prj.Path) : (interiorPath pe a zone pzm path).pld = path.pld := by
  unfold interiorPath; simp only []; split <;> rfl

@[simp] theorem interiorPath_relHt (pe : ElementChoice) (a : Surface) (zone : prj.Zone)
    (pzm : Int) (path : prj.Path) : (interiorPath pe a zone pzm path).relHt = path.relHt := by
  unfold interiorPath; simp only []; split <;> rfl

@[simp] theorem interiorPath_mult (pe : ElementChoice) (a : Surface) (zone : prj.Zone)
    (pzm : Int) (path : prj.Path) : (interiorPath pe a zone pzm path).mult = path.mult := by
  unfold interiorPath; simp only []; split <;> rfl

@[simp] theorem interiorPath_Fahs (pe : ElementChoice) (a : Surface) (zone : prj.Zone)
    (pzm : Int) (path : prj.Path) : (interiorPath pe a zone pzm path).Fahs = path.Fahs := by
  unfold interiorPath; simp only []; split <;> rfl

@[simp] theorem interiorPath_system (pe : ElementChoice) (a : Surface) (zone : prj.Zone)
    (pzm : Int) (path : prj.Path) : (interiorPath pe a zone pzm path).system = path.system := by
  unfold interiorPath; simp only []; split <;> rfl

@[simp] theorem interiorPath_exhaust (pe : ElementChoice) (a : Surface) (zone : prj.Zone)
    (pzm : Int) (path : prj.Path) : (interiorPath pe a zone pzm path).exhaust = path.exhaust := by
  unfold interiorPath; simp only []; split <;> rfl

@[simp] theorem interiorPath_recirculation (pe : ElementChoice) (a : Surface) (zone : prj.Zone)
    (pzm : Int) (path : prj.Path) : (interiorPath pe a zone pzm path).recirculation = path.recirculation := by
  unfold interiorPath; simp only []; split <;> rfl

@[simp] theorem interiorPath_outsideAir (pe : ElementChoice) (a : Surface) (zone : prj.Zone)
    (pzm : Int) (path : prj.Path) : (interiorPath pe a zone pzm path).outsideAir = path.outsideAir := by
  unfold interiorPath; simp only []; split <;> rfl

@[simp] theorem interiorPath_nr (pe : ElementChoice) (a : Surface) (zone : prj.Zone)
    (pzm : Int) (path : prj.Path) : (interiorPath pe a zone pzm path).nr = path.nr := by
  unfold interiorPath; simp only []; split <;> rfl

@[simp] theorem interiorPath_wazm (pe : ElementChoice) (a : Surface) (zone : prj.Zone)
    (pzm : Int) (path : prj.Path) : (interiorPath pe a zone pzm path).wazm = path.wazm := by
  unfold interiorPath; simp only []; split <;> rfl

@[simp] theorem interiorPath_wPmod (pe : ElementChoice) (a : Surface) (zone : prj.Zone)
    (pzm : Int) (path : prj.Path) : (interiorPath pe a zone pzm path).wPmod = path.wPmod := by
  unfold interiorPath; simp only []; split <;> rfl

@[simp] theorem interiorPath_windPressure (pe : ElementChoice) (a : Surface) (zone : prj.Zone)
    (pzm : Int) (path : prj.Path) : (interiorPath pe a zone pzm path).windPressure = path.windPressure := by
  unfold interiorPath; simp only []; split <;> rfl

@[simp] theorem interiorPath_pw (pe : ElementChoice) (a : Surface) (zone : prj.Zone)
    (pzm : Int) (path : prj.Path) : (interiorPath pe a zone pzm path).pw = path.pw := by
  unfold interiorPath; simp only []; split <;> rfl

@[simp] theorem interiorPath_pzn (pe : ElementChoice) (a : Surface) (zone : prj.Zone)
    (pzm : Int) (path : prj.Path) : (interiorPath pe a zone pzm path).pzn = zone.nr := by
  unfold interiorPath; simp only []; split <;> rfl

@[simp] theorem interiorPath_pzm (pe : ElementChoice) (a : Surface) (zone : prj.Zone)
    (pzm : Int) (path : prj.Path) : (interiorPath pe a zone pzm path).pzm = pzm := by
  unfold interiorPath; simp only []; split <;> rfl

@[simp] theorem exteriorPath_pa (ext : Externals) (pe : ElementChoice) (w : ℚ) (a : Surface)
    (zone : prj.Zone) (path : prj.Path) : (exteriorPath ext pe w a zone path).pa = path.pa := by
  unfold exteriorPath; simp only []; split <;> rfl

@[simp] theorem exteriorPath_pld (ext : Externals) (pe : ElementChoice) (w : ℚ) (a : Surface)
    (zone : prj.Zone) (path : prj.Path) : (exteriorPath ext pe w a zone path).pld = path.pld := by
  unfold exteriorPath; simp only []; split <;> rfl

@[simp] theorem exteriorPath_relHt (ext : Externals) (pe : ElementChoice) (w : ℚ) (a : Surface)
    (zone : prj.Zone) (path : prj.Path) : (exteriorPath ext pe w a zone path).relHt = path.relHt := by
  unfold exteriorPath; simp only []; split <;> rfl

@[simp] theorem exteriorPath_mult (ext : Externals) (pe : ElementChoice) (w : ℚ) (a : Surface)
    (zone : prj.Zone) (path : prj.Path) : (exteriorPath ext pe w a zone path).mult = path.mult := by
  unfold exteriorPath; simp only []; split <;> rfl

@[simp] theorem exteriorPath_Fahs (ext : Externals) (pe : ElementChoice) (w : ℚ) (a : Surface)
    (zone : prj.Zone) (path : prj.Path) : (exteriorPath ext pe w a zone path).Fahs = path.Fahs := by
  unfold exteriorPath; simp only []; split <;> rfl

@[simp] theorem exteriorPath_system (ext : Externals) (pe : ElementChoice) (w : ℚ) (a : Surface)
    (zone : prj.Zone) (path : prj.Path) : (exteriorPath ext pe w a zone path).system = path.system := by
  unfold exteriorPath; simp only []; split <;> rfl

@[simp] theorem exteriorPath_exhaust (ext : Externals) (pe : ElementChoice) (w : ℚ) (a : Surface)
    (zone : prj.Zone) (path : prj.Path) : (exteriorPath ext pe w a zone path).exhaust = path.exhaust := by
  unfold exteriorPath; simp only []; split <;> rfl

@[simp] theorem exteriorPath_recirculation (ext : Externals) (pe : ElementChoice) (w : ℚ) (a : Surface)
    (zone : prj.Zone) (path : prj.Path) : (exteriorPath ext pe w a zone path).recirculation = path.recirculation := by
  unfold exteriorPath; simp only []; split <;> rfl

@[simp] theorem exteriorPath_outsideAir (ext : Externals) (pe : ElementChoice) (w : ℚ) (a : Surface)
    (zone : prj.Zone) (path : prj.Path) : (exteriorPath ext pe w a zone path).outsideAir = path.outsideAir := by
  unfold exteriorPath; simp only []; split <;> rfl

@[simp] theorem exteriorPath_nr (ext : Externals) (pe : ElementChoice) (w : ℚ) (a : Surface)
    (zone : prj.Zone) (path : prj.Path) : (exteriorPath ext pe w a zone path).nr = path.nr := by
  unfold exteriorPath; simp only []; split <;> rfl

@[simp] theorem exteriorPath_pzn (ext : Externals) (pe : ElementChoice) (w : ℚ) (a : Surface)
    (zone : prj.Zone) (path : prj.Path) : (exteriorPath ext pe w a zone path).pzn = zone.nr := by
  unfold exteriorPath; simp only []; split <;> rfl

@[simp] theorem exteriorPath_pzm (ext : Externals) (pe : ElementChoice) (w : ℚ) (a : Surface)
    (zone : prj.Zone) (path : prj.Path) : (exteriorPath ext pe w a zone path).pzm = -1 := by
  unfold exteriorPath; simp only []; split <;> rfl

@[simp] theorem exteriorPath_windPressure (ext : Externals) (pe : ElementChoice) (w : ℚ)
    (a : Surface) (zone : prj.Zone) (path : prj.Path) :
    (exteriorPath ext pe w a zone path).windPressure = true := by
  unfold exteriorPath; simp only []; split <;> rfl

theorem tableLookupStdMap_cases (t : ForwardTranslator) (m : Table Handle) (h : Handle)
    (n : String) :
    ((t.tableLookupStdMap m h n).1 = 0 ∧ (m.find h = none ∨ m.find h = some 0)) ∨
    ((t.tableLookupStdMap m h n).1 ≠ 0 ∧ m.find h = some (t.tableLookupStdMap m h n).1) := by
  unfold ForwardTranslator.tableLookupStdMap
  cases hf : m.find h with
  | none => simp
  | some v =>
    by_cases hv : v = 0
    · simp [hv]
    · simp [hv]

theorem interiorStep_rel (pe : ElementChoice) (s : SurfaceLoop) (t : ForwardTranslator)
    (a : Surface) (z : Handle) (v : Int) (zone : prj.Zone) (path : prj.Path)
    (hd : t.m_data = s.t.m_data) (hz : t.m_zoneMap = s.t.m_zoneMap)
    (hs : t.m_surfaceMap = s.t.m_surfaceMap) (hl : t.m_levelMap = s.t.m_levelMap)
    (hp : t.m_pathMap = s.t.m_pathMap) (hv : t.m_valid = s.t.m_valid)
    (hused : a.handle ∉ s.used) (hbc : a.outsideBoundaryCondition = "Surface")
    (hown : a.ownZone = some z) (hfind : s.t.m_zoneMap.find z = some v) (hv0 : v ≠ 0)
    (hzone : listAt s.t.m_data.zones (v - 1) = some zone)
    (hpath : path.pa = 0 ∧ path.system = false ∧ path.recirculation = false ∧
      path.outsideAir = false ∧ path.exhaust = false ∧ path.Fahs = none ∧
      path.mult = a.grossArea ∧ path.pld = zone.pl) :
    (interiorStep pe s t a z zone path).sat (SurfaceStepRel a s) (SurfaceAbortRel a s) := by
  have hne : ¬ a.outsideBoundaryCondition = "Outdoors" := by rw [hbc]; decide
  unfold interiorStep
  cases hadj : a.adjacentSurface with
  | none =>
    simp [Outcome.sat, SurfaceAbortRel, hd, hz, hs, hused, hbc, Surface.adjacentZone, hadj]
  | some adj =>
    simp only []
    cases hsp : adj.space with
    | none =>
      simp [Outcome.sat, SurfaceAbortRel, hd, hz, hs, hused, hbc, Surface.adjacentZone, hadj, hsp]
    | some asp =>
      simp only []
      cases htz : asp.thermalZone with
      | none =>
        simp [Outcome.sat, SurfaceAbortRel, hd, hz, hs, hused, hbc, Surface.adjacentZone, hadj,
          hsp, htz]
      | some k =>
        simp only []
        have hadjz : a.adjacentZone = some k := by
          simp [Surface.adjacentZone, hadj, hsp, htz]
        by_cases hk : k = z
        · subst hk
          have hnc : ¬ SurfaceCreates s a := by
            rintro ⟨_, z2, v2, h1, _, _, h4⟩
            rw [hown] at h1
            injection h1 with h1
            subst h1
            rcases h4 with h4 | ⟨_, k2, h5, h6⟩
            · exact hne h4
            · rw [hadjz] at h5
              injection h5 with h5
              exact h6 h5.symm
          simp only [ne_eq, not_true_eq_false, ite_false, Outcome.sat]
          unfold SurfaceStepRel
          refine ⟨by rw [hd], by rw [hd], by rw [hd], by rw [hd], by rw [hd], hl, hp, hv,
            ?_, ?_, Or.inl ⟨hnc, rfl, rfl, by rw [hd], hs⟩⟩
          · intro k2 v2 h; rw [hz]; exact h
          · intro e he; rw [hz] at he; exact Or.inl he
        · have hc : SurfaceCreates s a :=
            ⟨hused, z, v, hown, hfind, hv0, Or.inr ⟨hbc, k, hadjz, hk⟩⟩
          simp only [ne_eq, hk, not_false_eq_true, ite_true, Outcome.sat]
          unfold SurfaceStepRel
          refine ⟨by simp [SurfaceLoop.addPath, hd], by simp [SurfaceLoop.addPath, hd],
            by simp [SurfaceLoop.addPath, hd], by simp [SurfaceLoop.addPath, hd],
            by simp [SurfaceLoop.addPath, hd], by simp [SurfaceLoop.addPath, hl],
            by simp [SurfaceLoop.addPath, hp], by simp [SurfaceLoop.addPath, hv], ?_, ?_,
            Or.inr ⟨hc, by simp [SurfaceLoop.addPath], ?_, ?_, ?_⟩⟩
          · intro k2 v2 h
            simp only [SurfaceLoop.addPath]
            rw [hz]
            exact Table.find_index_of_find _ _ _ _ h
          · intro e he
            simp only [SurfaceLoop.addPath] at he
            rw [hz] at he
            rcases Table.mem_index _ _ _ he with h | h
            · right; rw [h]
            · exact Or.inl h
          · simp [usedDelta, hne, hadj]
          · simp [SurfaceLoop.addPath, hs]
          · obtain ⟨q1, q2, q3, q4, q5, q6, q7, q8⟩ := hpath
            have hix : (t.m_zoneMap.index k).2.find k = some (t.m_zoneMap.index k).1 := by
              unfold Table.index
              cases hfk : t.m_zoneMap.find k with
              | none => simp [Table.find_set_self]
              | some w => simp [hfk]
            refine ⟨?p, ?e, ?g⟩
            case e =>
              simp only [SurfaceLoop.addPath, hd]
              exact rfl
            unfold SurfacePathOf
            refine ⟨by simp [SurfaceLoop.addPath], by simp [SurfaceLoop.addPath, q1],
              by simp [SurfaceLoop.addPath, q2], by simp [SurfaceLoop.addPath, q3],
              by simp [SurfaceLoop.addPath, q4], by simp [SurfaceLoop.addPath, q5],
              by simp [SurfaceLoop.addPath, q6], by simp [SurfaceLoop.addPath, q7],
              ⟨z, v, zone, hown, hfind, hv0, hzone, by simp [SurfaceLoop.addPath],
                by simp [SurfaceLoop.addPath, q8]⟩,
              Or.inr ⟨hbc, k, hadjz, by simpa [SurfaceLoop.addPath] using hix⟩⟩

end Surfaces

section SurfaceStep

open model ForwardTranslator

theorem SurfaceStepRel.of_skip (a : Surface) (s : SurfaceLoop) (t : ForwardTranslator)
    (hnc : ¬ SurfaceCreates s a)
    (hd : t.m_data = s.t.m_data) (hz : t.m_zoneMap = s.t.m_zoneMap)
    (hs : t.m_surfaceMap = s.t.m_surfaceMap) (hl : t.m_levelMap = s.t.m_levelMap)
    (hp : t.m_pathMap = s.t.m_pathMap) (hv : t.m_valid = s.t.m_valid) :
    SurfaceStepRel a s { s with t := t } := by
  unfold SurfaceStepRel
  refine ⟨by rw [hd], by rw [hd], by rw [hd], by rw [hd], by rw [hd], hl, hp, hv,
    ?_, ?_, Or.inl ⟨hnc, rfl, rfl, by rw [hd], hs⟩⟩
  · intro k2 v2 h; rw [hz]; exact h
  · intro e he; rw [hz] at he; exact Or.inl he

theorem surfaceStep_rel (ext : Externals) (pe : ElementChoice) (w : ℚ) (s : SurfaceLoop)
    (a : Surface) (hok : ZoneLookupOK s.t) :
    (surfaceStep ext pe w s a).sat (SurfaceStepRel a s) (SurfaceAbortRel a s) := by
  unfold surfaceStep
  simp only []
  by_cases hcond : ¬ (a.handle ∈ s.used) ∧ a.outsideBoundaryCondition ≠ "Ground"
  · rw [if_pos hcond]
    obtain ⟨hused, hground⟩ := hcond
    cases hsp : a.space with
    | none =>
      simp only [Outcome.sat]
      apply SurfaceStepRel.of_skip <;> try simp
      rintro ⟨_, z, v, h1, _⟩
      simp [Surface.ownZone, hsp] at h1
    | some space =>
      simp only []
      cases htz : space.thermalZone with
      | none =>
        simp only [Outcome.sat]
        apply SurfaceStepRel.of_skip <;> try simp
        rintro ⟨_, z, v, h1, _⟩
        simp [Surface.ownZone, hsp, htz] at h1
      | some z =>
        simp only []
        have hown : a.ownZone = some z := by simp [Surface.ownZone, hsp, htz]
        rcases tableLookupStdMap_cases s.t s.t.m_zoneMap z "zoneMap" with ⟨h0, hf⟩ | ⟨h0, hf⟩
        · rw [if_pos h0]
          simp only [Outcome.sat]
          apply SurfaceStepRel.of_skip <;> try simp
          rintro ⟨_, z2, v2, h1, h2, h3, _⟩
          rw [hown] at h1
          injection h1 with h1
          subst h1
          rcases hf with hf | hf
          · rw [hf] at h2; exact Option.noConfusion h2
          · rw [hf] at h2; injection h2 with h2; exact h3 h2.symm
        · rw [if_neg h0]
          obtain ⟨zone, hzone, level, hlevel⟩ := hok (z, _) (Table.find_mem _ _ _ hf) h0
          simp only [ForwardTranslator.tableLookupStdMap_m_data, hzone, hlevel]
          by_cases hout : a.outsideBoundaryCondition = "Outdoors"
          · rw [if_pos hout]
            have hc : SurfaceCreates s a := ⟨hused, z, _, hown, hf, h0, Or.inl hout⟩
            simp only [Outcome.sat]
            unfold SurfaceStepRel
            refine ⟨by simp [SurfaceLoop.addPath], by simp [SurfaceLoop.addPath],
              by simp [SurfaceLoop.addPath], by simp [SurfaceLoop.addPath],
              by simp [SurfaceLoop.addPath], by simp [SurfaceLoop.addPath],
              by simp [SurfaceLoop.addPath], by simp [SurfaceLoop.addPath], ?_, ?_,
              Or.inr ⟨hc, by simp [SurfaceLoop.addPath], by simp [SurfaceLoop.addPath, usedDelta, hout],
                by simp [SurfaceLoop.addPath], ?p, ?e, ?g⟩⟩
            case e =>
              simp only [SurfaceLoop.addPath, ForwardTranslator.tableLookupStdMap_m_data]
              exact rfl
            · intro k2 v2 h
              simpa [SurfaceLoop.addPath] using h
            · intro e he
              simp only [SurfaceLoop.addPath, ForwardTranslator.tableLookupStdMap_m_zoneMap] at he
              exact Or.inl he
            · unfold SurfacePathOf
              refine ⟨by simp [SurfaceLoop.addPath], by simp, by simp, by simp, by simp, by simp,
                by simp, by simp, ⟨z, _, zone, hown, hf, h0, hzone, by simp, by simp⟩,
                Or.inl ⟨hout, by simp, by simp⟩⟩
          · rw [if_neg hout]
            by_cases hsurf : a.outsideBoundaryCondition = "Surface"
            · rw [if_pos hsurf]
              apply interiorStep_rel pe s _ a z _ zone _ (by simp) (by simp) (by simp) (by simp)
                (by simp) (by simp) hused hsurf hown hf h0 hzone
              simp
            · rw [if_neg hsurf]
              simp only [Outcome.sat]
              apply SurfaceStepRel.of_skip <;> try simp
              rintro ⟨_, z2, v2, _, _, _, h4⟩
              rcases h4 with h4 | ⟨h4, _⟩
              · exact hout h4
              · exact hsurf h4
  · rw [if_neg hcond]
    simp only [Outcome.sat]
    have hnc : ¬ SurfaceCreates s a := by
      rintro ⟨h1, z, v, _, _, _, h4⟩
      apply hcond
      refine ⟨h1, ?_⟩
      rcases h4 with h4 | ⟨h4, _⟩
      · rw [h4]; decide
      · rw [h4]; decide
    exact SurfaceStepRel.of_skip a s s.t hnc rfl rfl rfl rfl rfl rfl

end SurfaceStep

section SurfaceRuns

open model ForwardTranslator

theorem SurfaceStepRel.step_zoneLookupOK {a : Surface} {s r : SurfaceLoop}
    (h : SurfaceStepRel a s r) (hok : ZoneLookupOK s.t) : ZoneLookupOK r.t := by
  obtain ⟨h1, h2, _, _, _, _, _, _, _, h10, _⟩ := h
  intro e he hne
  rcases h10 e he with h | h
  · rw [h1, h2]; exact hok e h hne
  · exact absurd h hne

theorem forEach_surfaceRun (ext : Externals) (pe : ElementChoice) (w : ℚ)
    (xs : List Surface) (s0 : SurfaceLoop) (hok : ZoneLookupOK s0.t) :
    (forEach (surfaceStep ext pe w) xs s0).sat (SurfaceRun xs s0) (SurfaceAbort xs s0) := by
  induction xs generalizing s0 with
  | nil => exact SurfaceRun.nil s0
  | cons a rest ih =>
    have hstep := surfaceStep_rel ext pe w s0 a hok
    unfold forEach
    cases hb : surfaceStep ext pe w s0 a with
    | next s1 =>
      rw [hb] at hstep
      simp only [Outcome.sat] at hstep
      simp only []
      have h2 := ih s1 (hstep.step_zoneLookupOK hok)
      apply Outcome.sat_mono h2
      · intro r hr; exact SurfaceRun.cons a rest s0 s1 r hstep hr
      · rintro r ⟨pre, b, post, mid, hx, hrun, hab⟩
        exact ⟨a :: pre, b, post, mid, by simp [hx], SurfaceRun.cons a pre s0 s1 mid hstep hrun,
          hab⟩
    | abort s1 =>
      rw [hb] at hstep
      simp only [Outcome.sat] at hstep ⊢
      exact ⟨[], a, rest, s0, rfl, SurfaceRun.nil s0, hstep⟩
    | outOfRange =>
      rw [hb] at hstep
      exact hstep.elim

theorem SurfaceRun.append {xs ys : List Surface} {s m r : SurfaceLoop}
    (h1 : SurfaceRun xs s m) (h2 : SurfaceRun ys m r) : SurfaceRun (xs ++ ys) s r := by
  induction h1 with
  | nil s => simpa using h2
  | cons a rest s s1 m hstep _ ih => exact SurfaceRun.cons a _ s s1 r hstep (ih h2)

theorem SurfaceRun.split {xs ys : List Surface} {s r : SurfaceLoop}
    (h : SurfaceRun (xs ++ ys) s r) : ∃ m, SurfaceRun xs s m ∧ SurfaceRun ys m r := by
  induction xs generalizing s with
  | nil => exact ⟨s, SurfaceRun.nil s, by simpa using h⟩
  | cons a rest ih =>
    cases h with
    | cons _ _ _ s1 _ hstep hrun =>
      obtain ⟨m, hm1, hm2⟩ := ih hrun
      exact ⟨m, SurfaceRun.cons a rest s s1 m hstep hm1, hm2⟩

theorem SurfaceRun.single {a : Surface} {s r : SurfaceLoop}
    (h : SurfaceRun [a] s r) : SurfaceStepRel a s r := by
  cases h with
  | cons _ _ _ s1 _ hstep hrun =>
    cases hrun
    exact hstep

/-- What a run of the surface loop leaves unchanged. -/
theorem SurfaceRun.run_frame {xs : List Surface} {s r : SurfaceLoop} (h : SurfaceRun xs s r) :
    r.t.m_data.levels = s.t.m_data.levels ∧ r.t.m_data.zones = s.t.m_data.zones ∧
    r.t.m_data.ahs = s.t.m_data.ahs ∧ r.t.m_data.valid = s.t.m_data.valid ∧
    r.t.m_data.rc = s.t.m_data.rc ∧ r.t.m_levelMap = s.t.m_levelMap ∧
    r.t.m_pathMap = s.t.m_pathMap ∧ r.t.m_valid = s.t.m_valid := by
  induction h with
  | nil s => simp
  | cons a rest s s1 r hstep _ ih =>
    obtain ⟨h1, h2, h3, h4, h5, h6, h7, h8, _⟩ := hstep
    obtain ⟨i1, i2, i3, i4, i5, i6, i7, i8⟩ := ih
    exact ⟨i1.trans h1, i2.trans h2, i3.trans h3, i4.trans h4, i5.trans h5, i6.trans h6,
      i7.trans h7, i8.trans h8⟩

theorem SurfaceRun.zoneMap_stable {xs : List Surface} {s r : SurfaceLoop}
    (h : SurfaceRun xs s r) :
    (∀ k v, s.t.m_zoneMap.find k = some v → r.t.m_zoneMap.find k = some v) ∧
    (∀ e ∈ r.t.m_zoneMap, e ∈ s.t.m_zoneMap ∨ e.2 = 0) := by
  induction h with
  | nil s => exact ⟨fun _ _ h => h, fun _ h => Or.inl h⟩
  | cons a rest s s1 r hstep _ ih =>
    obtain ⟨_, _, _, _, _, _, _, _, h9, h10, _⟩ := hstep
    refine ⟨fun k v hk => ih.1 k v (h9 k v hk), ?_⟩
    intro e he
    rcases ih.2 e he with h | h
    · exact h10 e h
    · exact Or.inr h

theorem SurfaceRun.used_mono {xs : List Surface} {s r : SurfaceLoop}
    (h : SurfaceRun xs s r) : ∀ k ∈ s.used, k ∈ r.used := by
  induction h with
  | nil s => exact fun _ h => h
  | cons a rest s s1 r hstep _ ih =>
    intro k hk
    apply ih
    rcases hstep.2.2.2.2.2.2.2.2.2.2 with ⟨_, _, hu, _⟩ | ⟨_, _, hu, _⟩
    · rw [hu]; exact hk
    · rw [hu]; exact List.mem_append_left _ hk

theorem SurfaceRun.used_origin {xs : List Surface} {s r : SurfaceLoop}
    (h : SurfaceRun xs s r) : ∀ k ∈ r.used, k ∈ s.used ∨ ∃ a ∈ xs, k ∈ usedDelta a := by
  induction h with
  | nil s => exact fun _ h => Or.inl h
  | cons a rest s s1 r hstep _ ih =>
    intro k hk
    rcases ih k hk with h1 | ⟨b, hb, hkb⟩
    · rcases hstep.2.2.2.2.2.2.2.2.2.2 with ⟨_, _, hu, _⟩ | ⟨_, _, hu, _⟩
      · rw [hu] at h1; exact Or.inl h1
      · rw [hu] at h1
        rcases List.mem_append.mp h1 with h2 | h2
        · exact Or.inl h2
        · exact Or.inr ⟨a, by simp, h2⟩
    · exact Or.inr ⟨b, List.mem_cons_of_mem _ hb, hkb⟩

theorem SurfaceRun.surfaceMap_other {xs : List Surface} {s r : SurfaceLoop}
    (h : SurfaceRun xs s r) (k : Handle) (hk : ∀ a ∈ xs, a.handle ≠ k) :
    r.t.m_surfaceMap.find k = s.t.m_surfaceMap.find k := by
  induction h with
  | nil s => rfl
  | cons a rest s s1 r hstep _ ih =>
    rw [ih (fun b hb => hk b (List.mem_cons_of_mem _ hb))]
    rcases hstep.2.2.2.2.2.2.2.2.2.2 with ⟨_, _, _, _, hm⟩ | ⟨_, _, _, hm, _⟩
    · rw [hm]
    · rw [hm]
      exact Table.find_set_ne _ _ _ _ (fun heq => hk a (by simp) heq.symm)

theorem SurfaceRun.paths_extend {xs : List Surface} {s r : SurfaceLoop}
    (h : SurfaceRun xs s r) :
    ∃ extra, r.t.m_data.paths = s.t.m_data.paths ++ extra ∧
      r.nr = s.nr + (extra.length : Int) ∧
      (∀ (i : Nat) (p : prj.Path), extra[i]? = some p → p.nr = s.nr + (i : Int) + 1) ∧
      ∀ p ∈ extra, p.pa = 0 ∧ p.system = false ∧ p.recirculation = false ∧
        p.outsideAir = false ∧ p.exhaust = false ∧ p.Fahs = none ∧
        (∃ e ∈ s.t.m_zoneMap, e.2 ≠ 0 ∧ ∃ zone, listAt s.t.m_data.zones (e.2 - 1) = some zone ∧
          p.pzn = zone.nr) ∧
        (p.pzm = -1 ∨ ∃ a ∈ xs, ∃ k, a.adjacentZone = some k ∧
          r.t.m_zoneMap.find k = some p.pzm) := by
  induction h with
  | nil s => exact ⟨[], by simp, by simp, by simp, by simp⟩
  | cons a rest s s1 r hstep hrun ih =>
    obtain ⟨extra, he1, he2, he3, he4⟩ := ih
    have hstab := hrun.zoneMap_stable
    obtain ⟨_, hzones, _, _, _, _, _, _, _, hzm, hcase⟩ := hstep
    have hlift : ∀ p ∈ extra, p.pa = 0 ∧ p.system = false ∧ p.recirculation = false ∧
        p.outsideAir = false ∧ p.exhaust = false ∧ p.Fahs = none ∧
        (∃ e ∈ s.t.m_zoneMap, e.2 ≠ 0 ∧ ∃ zone, listAt s.t.m_data.zones (e.2 - 1) = some zone ∧
          p.pzn = zone.nr) ∧
        (p.pzm = -1 ∨ ∃ b ∈ a :: rest, ∃ k, b.adjacentZone = some k ∧
          r.t.m_zoneMap.find k = some p.pzm) := by
      intro p hp
      obtain ⟨q1, q2, q3, q4, q5, q6, ⟨e, hem, hne, zone, hz, hpzn⟩, q8⟩ := he4 p hp
      refine ⟨q1, q2, q3, q4, q5, q6, ?_, ?_⟩
      · rcases hzm e hem with h | h
        · exact ⟨e, h, hne, zone, by rw [← hzones]; exact hz, hpzn⟩
        · exact absurd h hne
      · rcases q8 with h | ⟨b, hb, k, hk1, hk2⟩
        · exact Or.inl h
        · exact Or.inr ⟨b, List.mem_cons_of_mem _ hb, k, hk1, hk2⟩
    rcases hcase with ⟨_, hnr, _, hp, _⟩ | ⟨_, hnr, _, _, p, hp, hpo⟩
    · refine ⟨extra, by rw [he1, hp], by rw [he2, hnr], ?_, hlift⟩
      intro i q hq
      rw [he3 i q hq, hnr]
    · refine ⟨p :: extra, by rw [he1, hp]; simp, ?_, ?_, ?_⟩
      · rw [he2, hnr]; simp; omega
      · intro i q hq
        cases i with
        | zero =>
          simp at hq
          rw [← hq, hpo.1]
          simp
        | succ j =>
          simp at hq
          rw [he3 j q hq, hnr]
          push_cast
          omega
      · intro q hq
        rcases List.mem_cons.mp hq with h | h
        · subst h
          obtain ⟨_, q1, q2, q3, q4, q5, q6, _, ⟨z, v, zone, _, hf, hv0, hz, hpzn, _⟩, q9⟩ := hpo
          refine ⟨q1, q2, q3, q4, q5, q6, ⟨(z, v), Table.find_mem _ _ _ hf, hv0, zone, hz, hpzn⟩, ?_⟩
          rcases q9 with ⟨_, h, _⟩ | ⟨_, k, hk1, hk2⟩
          · exact Or.inl h
          · exact Or.inr ⟨a, by simp, k, hk1, hstab.1 k _ hk2⟩
        · exact hlift q h

end SurfaceRuns

section Served

open model ForwardTranslator

theorem servedZoneStep_inv (ahs : prj.Ahs) (t0 : ForwardTranslator) (pre : List ThermalZone)
    (t : ForwardTranslator) (z : ThermalZone) (h : ServedInv ahs t0 pre t) :
    ServedInv ahs t0 (pre ++ [z]) (servedZoneStep ahs t z) := by
  obtain ⟨h1, h2, h3, h4, h5, h6, h7, h8, h9, new, hn1, hn2, hn3, hn4⟩ := h
  have hlook : (t.tableLookupStdMap t.m_zoneMap z.handle "zoneMap").1
      = t0.m_zoneMap.value z.handle 0 := by
    rw [ForwardTranslator.tableLookupStdMap_fst, h5]
  unfold ServedInv servedZoneStep
  simp only [ForwardTranslator.tableLookupStdMap_m_data,
    ForwardTranslator.tableLookupStdMap_m_zoneMap, ForwardTranslator.tableLookupStdMap_m_pathMap,
    ForwardTranslator.tableLookupStdMap_m_surfaceMap, ForwardTranslator.tableLookupStdMap_m_valid,
    ForwardTranslator.tableLookupStdMap_m_levelMap, hlook]
  refine ⟨h1, h2, h3, h4, h5, h6, h7, h8, ?_, new ++ [?sp, ?rp], ?e, ?_, ?_, ?_⟩
  case e =>
    rw [hn1, List.append_assoc]
    exact rfl
  · intro e he
    rcases Table.mem_set _ _ _ _ he with he | he
    · right; rw [he]; simp; omega
    · rcases Table.mem_set _ _ _ _ he with he | he
      · right; rw [he]; simp
      · rcases h9 e he with h | h
        · exact Or.inl h
        · right; simp; omega
  · simp [hn2]; omega
  · intro i p hp
    by_cases hi : i < new.length
    · rw [List.getElem?_append_left hi] at hp
      exact hn3 i p hp
    · have hlen : t.m_data.paths.length = t0.m_data.paths.length + new.length := by
        rw [hn1]; simp
      rw [List.getElem?_append_right (by omega)] at hp
      have hcases : i - new.length = 0 ∨ i - new.length = 1 := by
        by_contra hcon
        have : 2 ≤ i - new.length := by omega
        rw [List.getElem?_eq_none (by simp; omega)] at hp
        exact Option.noConfusion hp
      rcases hcases with hc | hc
      · rw [hc] at hp
        simp at hp
        rw [← hp]
        simp only []
        omega
      · rw [hc] at hp
        simp at hp
        rw [← hp]
        simp only []
        omega
  · intro p hp
    rcases List.mem_append.mp hp with hp | hp
    · obtain ⟨q1, q2, q3, q4, zz, hzz, q5⟩ := hn4 p hp
      exact ⟨q1, q2, q3, q4, zz, List.mem_append_left _ hzz, q5⟩
    · simp at hp
      rcases hp with hp | hp
      · subst hp
        exact ⟨rfl, rfl, ⟨rfl, rfl, rfl⟩, rfl, z, by simp, Or.inl ⟨rfl, rfl⟩⟩
      · subst hp
        exact ⟨rfl, rfl, ⟨rfl, rfl, rfl⟩, rfl, z, by simp, Or.inr ⟨rfl, rfl⟩⟩

theorem servedZones_inv (ahs : prj.Ahs) (t0 : ForwardTranslator) (zs : List ThermalZone) :
    ServedInv ahs t0 zs (zs.foldl (servedZoneStep ahs) t0) := by
  apply foldl_invariant (servedZoneStep ahs) (ServedInv ahs t0) zs t0
  · refine ⟨rfl, rfl, rfl, rfl, rfl, rfl, rfl, rfl, fun e he => Or.inl he, [], by simp, rfl,
      ?_, ?_⟩
    · intro i p hp; simp at hp
    · intro p hp; simp at hp
  · intro pre a post s _ hinv
    exact servedZoneStep_inv ahs t0 pre s a hinv

end Served

section AirLoops

open model ForwardTranslator

theorem servedLoops_append_skip (pre : List AirLoopHVAC) (a : AirLoopHVAC)
    (h : a.thermalZones.length = 0) : servedLoops (pre ++ [a]) = servedLoops pre := by
  simp [servedLoops, List.filter_append, List.length_eq_zero.mp h]

theorem servedLoops_append_take (pre : List AirLoopHVAC) (a : AirLoopHVAC)
    (h : ¬ a.thermalZones.length = 0) : servedLoops (pre ++ [a]) = servedLoops pre ++ [a] := by
  have h2 : a.thermalZones ≠ [] := fun e => h (by simp [e])
  simp [servedLoops, List.filter_append, h2]

theorem AirZoneRef.mono (t0 : ForwardTranslator) (pre : List AirLoopHVAC) (a : AirLoopHVAC)
    (k : Int) (h : AirZoneRef t0 pre k) : AirZoneRef t0 (pre ++ [a]) k := by
  rcases h with ⟨h1, h2⟩ | ⟨loop, hl, z, hz, hk⟩
  · left
    refine ⟨h1, ?_⟩
    have : (servedLoops pre).length ≤ (servedLoops (pre ++ [a])).length := by
      by_cases ha : a.thermalZones.length = 0
      · rw [servedLoops_append_skip pre a ha]
      · rw [servedLoops_append_take pre a ha]; simp
    omega
  · exact Or.inr ⟨loop, List.mem_append_left _ hl, z, hz, hk⟩

theorem airloopStep_inv (t0 : ForwardTranslator) (pre : List AirLoopHVAC)
    (s : Int × ForwardTranslator) (a : AirLoopHVAC) (h : AirInv t0 pre s) :
    AirInv t0 (pre ++ [a]) (airloopStep s a) := by
  by_cases ha : a.thermalZones.length = 0
  · unfold airloopStep
    rw [if_pos ha]
    obtain ⟨h1, h2, h3, h4, h5, h6, h7, h8, h9, h10, np, hp1, hp2, hp3, hp4⟩ := h
    unfold AirInv
    rw [servedLoops_append_skip pre a ha]
    refine ⟨h1, h2, h3, h4, h5, h6, h7, h8, h9, h10, np, hp1, hp2, ?_, hp4⟩
    intro p hp
    obtain ⟨q1, q2, q3, q4, q5, q6, q7⟩ := hp3 p hp
    have m6 := AirZoneRef.mono t0 pre a _ q6
    have m7 := AirZoneRef.mono t0 pre a _ q7
    exact ⟨q1, q2, q3, q4, q5, m6, m7⟩
  · obtain ⟨h1, h2, h3, h4, h5, h6, h7, h8, ⟨nz, hz1, hz2, hz3⟩, ⟨na, ha1, ha2, ha3⟩,
      np, hp1, hp2, hp3, hp4⟩ := h
    have hsl := servedLoops_append_take pre a ha
    have hinner := servedZones_inv (airloopAhs s) (airloopStart s a) a.thermalZones
    obtain ⟨i1, i2, i3, i4, i5, i6, i7, i8, i9, new, hn1, hn2, hn3, hn4⟩ := hinner
    have b1 : (airloopStart s a).m_data.levels = s.2.m_data.levels := rfl
    have b2 : (airloopStart s a).m_data.zones = s.2.m_data.zones ++
        [returnZone (s.1 + 1) s.2.m_data.zones,
          supplyZone (s.1 + 1) (returnZone (s.1 + 1) s.2.m_data.zones)] := rfl
    have b3 : (airloopStart s a).m_data.ahs = s.2.m_data.ahs := rfl
    have b4 : (airloopStart s a).m_data.valid = s.2.m_data.valid := rfl
    have b5 : (airloopStart s a).m_zoneMap = s.2.m_zoneMap := rfl
    have b6 : (airloopStart s a).m_surfaceMap = s.2.m_surfaceMap := rfl
    have b7 : (airloopStart s a).m_levelMap = s.2.m_levelMap := rfl
    have b8 : (airloopStart s a).m_valid = s.2.m_valid := rfl
    have b9 : (airloopStart s a).m_pathMap = s.2.m_pathMap := rfl
    have b10 : (airloopStart s a).m_data.paths = s.2.m_data.paths := rfl
    have c1 : (airloopAhs s).nr = s.1 + 1 := rfl
    have c2 : (airloopAhs s).zone_r = (s.2.m_data.zones.length : Int) + 1 := rfl
    have c3 : (airloopAhs s).zone_s = (s.2.m_data.zones.length : Int) + 1 + 1 := rfl
    rw [b1] at i1
    rw [b2] at i2
    rw [b3] at i3
    rw [b4] at i4
    rw [b5] at i5 hn4
    rw [b6] at i6
    rw [b7] at i7
    rw [b8] at i8
    rw [b9] at i9
    rw [b10] at hn1 hn3
    rw [c1, c2, c3] at hn4
    have hzlen : s.2.m_data.zones.length = t0.m_data.zones.length + 2 * (servedLoops pre).length := by
      rw [hz1]; simp [hz2]
    have hplen : s.2.m_data.paths.length = t0.m_data.paths.length + np.length := by
      rw [hp1]; simp
    unfold airloopStep
    rw [if_neg ha]
    unfold AirInv
    try simp only []
    rw [hsl]
    refine ⟨by simp [h1], by rw [i1]; exact h2, by rw [i4]; exact h3, by rw [i5]; exact h4,
      by rw [i6]; exact h5, by rw [i7]; exact h6, by rw [i8]; exact h7, ?_, ?_, ?_, ?_⟩
    · intro e he
      try simp only [] at he
      rcases i9 e he with h | h
      · rcases h8 e h with h | h
        · exact Or.inl h
        · right
          refine ⟨h.1, ?_⟩
          try simp only []
          rw [hn1]
          have := h.2
          simp
          omega
      · exact Or.inr h
    · refine ⟨nz ++ [?rz, ?sz], ?e, ?_, ?_⟩
      case e =>
        try simp only []
        rw [i2, hz1, List.append_assoc]
        exact rfl
      · simp [hz2]; omega
      · intro i z hz
        by_cases hi : i < nz.length
        · rw [List.getElem?_append_left hi] at hz
          exact hz3 i z hz
        · rw [List.getElem?_append_right (by omega)] at hz
          have hcases : i - nz.length = 0 ∨ i - nz.length = 1 := by
            by_contra hcon
            have : 2 ≤ i - nz.length := by omega
            rw [List.getElem?_eq_none (by simp; omega)] at hz
            exact Option.noConfusion hz
          rcases hcases with hc | hc
          · rw [hc] at hz
            simp at hz
            rw [← hz]
            refine ⟨?_, rfl, rfl, rfl, rfl⟩
            simp only [returnZone, supplyZone, List.length_append]
            push_cast
            omega
          · rw [hc] at hz
            simp at hz
            rw [← hz]
            refine ⟨?_, rfl, rfl, rfl, rfl⟩
            simp only [returnZone, supplyZone, List.length_append]
            push_cast
            omega
    · refine ⟨na ++ [?ah], ?e, ?_, ?_⟩
      case e =>
        try simp only []
        rw [i3, ha1, List.append_assoc]
        exact rfl
      · simp [ha2]
      · intro j b hb
        by_cases hj : j < na.length
        · rw [List.getElem?_append_left hj] at hb
          exact ha3 j b hb
        · rw [List.getElem?_append_right (by omega)] at hb
          have hj0 : j - na.length = 0 := by
            by_contra hcon
            rw [List.getElem?_eq_none (by simp; omega)] at hb
            exact Option.noConfusion hb
          rw [hj0] at hb
          simp at hb
          rw [← hb]
          refine ⟨?_, ?_, ?_, rfl, rfl, rfl⟩
          · simp only [airloopAhs, newAhs]; omega
          · simp only [airloopAhs, newAhs, returnZone]; omega
          · simp only [airloopAhs, newAhs, returnZone, supplyZone]; omega
    · refine ⟨np ++ new, ?_, ?_, ?_, ?_⟩
      · rw [hn1, hp1, List.append_assoc]
      · intro i p hp
        by_cases hi : i < np.length
        · rw [List.getElem?_append_left hi] at hp
          exact hp2 i p hp
        · rw [List.getElem?_append_right (by omega)] at hp
          rw [hn3 _ p hp]
          omega
      · intro p hp
        rcases List.mem_append.mp hp with hp | hp
        · obtain ⟨q1, q2, q3, q4, q5, q6, q7⟩ := hp3 p hp
          have m6 := AirZoneRef.mono t0 pre a _ q6
          have m7 := AirZoneRef.mono t0 pre a _ q7
          refine ⟨q1, ?_, q3, q4, q5, m6, m7⟩
          simp
          omega
        · obtain ⟨q1, q2, q3, q4, z, hz, q5⟩ := hn4 p hp
          have hsys1 : AirZoneRef t0 (pre ++ [a]) ((s.2.m_data.zones.length : Int) + 1 + 1) := by
            left
            rw [hsl]
            simp
            omega
          have hsys2 : AirZoneRef t0 (pre ++ [a]) ((s.2.m_data.zones.length : Int) + 1) := by
            left
            rw [hsl]
            simp
            omega
          have hval : AirZoneRef t0 (pre ++ [a]) (t0.m_zoneMap.value z.handle 0) :=
            Or.inr ⟨a, by simp, z, hz, rfl⟩
          refine ⟨by rw [q1]; omega, by rw [q1]; simp; omega, q2, q3, q4, ?_, ?_⟩
          · rcases q5 with ⟨e1, _⟩ | ⟨e1, _⟩
            · rw [e1]; exact hsys1
            · rw [e1, h4]; exact hval
          · rcases q5 with ⟨_, e2⟩ | ⟨_, e2⟩
            · rw [e2, h4]; exact hval
            · rw [e2]; exact hsys2
      · intro j loop hj
        rw [List.filter_append]
        by_cases hjl : j < (servedLoops pre).length
        · rw [List.getElem?_append_left hjl] at hj
          have hnew : new.filter (fun p => decide (p.pa = (j : Int) + 1)) = [] := by
            rw [List.filter_eq_nil_iff]
            intro p hp
            obtain ⟨q1, _⟩ := hn4 p hp
            simp only [decide_eq_true_eq]
            rw [q1]
            try simp only []
            omega
          rw [hnew]
          simpa using hp4 j loop hj
        · rw [List.getElem?_append_right (by omega)] at hj
          have hj0 : j - (servedLoops pre).length = 0 := by
            by_contra hcon
            rw [List.getElem?_eq_none (by simp; omega)] at hj
            exact Option.noConfusion hj
          rw [hj0] at hj
          simp at hj
          subst hj
          have hjeq : j = (servedLoops pre).length := by omega
          have hold : np.filter (fun p => decide (p.pa = (j : Int) + 1)) = [] := by
            rw [List.filter_eq_nil_iff]
            intro p hp
            obtain ⟨_, q2, _⟩ := hp3 p hp
            simp only [decide_eq_true_eq]
            omega
          have hnew : new.filter (fun p => decide (p.pa = (j : Int) + 1)) = new := by
            rw [List.filter_eq_self]
            intro p hp
            obtain ⟨q1, _⟩ := hn4 p hp
            simp only [decide_eq_true_eq]
            rw [q1]
            try simp only []
            omega
          rw [hold, hnew]
          simpa using hn2

theorem translateAirLoops_inv (t0 : ForwardTranslator) (loops : List AirLoopHVAC) :
    AirInv t0 loops (loops.foldl airloopStep (0, t0)) := by
  apply foldl_invariant airloopStep (AirInv t0) loops (0, t0)
  · refine ⟨by simp [servedLoops], rfl, rfl, rfl, rfl, rfl, rfl, fun e he => Or.inl he,
      ⟨[], by simp, by simp [servedLoops], ?_⟩, ⟨[], by simp, by simp [servedLoops], ?_⟩,
      [], by simp, ?_, ?_, ?_⟩
    · intro i z hz; simp at hz
    · intro j a ha; simp at ha
    · intro i p hp; simp at hp
    · intro p hp; simp at hp
    · intro j loop hj; simp [servedLoops] at hj
  · intro pre a post s _ hinv
    exact airloopStep_inv t0 pre s a hinv

end AirLoops

section Closure

open model ForwardTranslator

theorem range_split {n : Nat} {pre post : List Nat} {a : Nat}
    (h : List.range n = pre ++ a :: post) : a = pre.length ∧ a < n := by
  have hlen : (List.range n).length = pre.length + 1 + post.length := by
    rw [h]; simp; omega
  simp at hlen
  have hlt : pre.length < n := by omega
  have h1 : (List.range n)[pre.length]? = some pre.length := List.getElem?_range hlt
  rw [h] at h1
  rw [List.getElem?_append_right (Nat.le_refl _)] at h1
  simp at h1
  omega

theorem listAt_natCast {α : Type} (l : List α) (i : Nat) : listAt l (i : Int) = l[i]? := by
  simp [listAt]

theorem closureStep_inv (t0 : ForwardTranslator) (i : Nat) (t : ForwardTranslator)
    (hi : i < t0.m_data.ahs.length) (h : ClosureInv t0 i t) :
    (closureStep t i).sat (ClosureInv t0 (i + 1)) (fun _ => False) := by
  obtain ⟨h1, h2, h3, h4, h5, h6, h7, h8, h9, h10, h11, cl, hc1, hc2, hc3⟩ := h
  obtain ⟨a0, ha0⟩ : ∃ a0, t0.m_data.ahs[i]? = some a0 :=
    ⟨t0.m_data.ahs[i], List.getElem?_eq_getElem hi⟩
  have hat : listAt t.m_data.ahs (i : Int) = some a0 := by
    rw [listAt_natCast, h9 i (Nat.le_refl _)]; exact ha0
  have hsize : (t.m_data.paths.length : Int) = (t0.m_data.paths.length : Int) + 3 * (i : Int) := by
    rw [hc1]; simp [hc2]
  unfold closureStep
  rw [hat]
  simp only [Outcome.sat]
  rw [hsize]
  unfold ClosureInv
  refine ⟨h1, h2, h3, h4, h5, h6, h7, by simp [h8], ?_, ?_, ?_, cl ++ [?p1, ?p2, ?p3], ?e, ?_, ?_⟩
  case e =>
    simp only []
    rw [hc1, List.append_assoc]
    exact rfl
  · intro j hj
    simp only []
    rw [List.getElem?_set_ne (by omega)]
    exact h9 j (by omega)
  · intro j b0 hj hb0
    simp only []
    by_cases hji : j = i
    · subst hji
      rw [List.getElem?_set_self (by omega)]
      rw [hb0] at ha0
      injection ha0 with ha0
      rw [ha0]
    · rw [List.getElem?_set_ne (fun h => hji h.symm)]
      exact h10 j b0 (by omega) hb0
  · intro e he
    simp only [] at he ⊢
    have hlen : (t.m_data.paths ++ [recircPath ((t0.m_data.paths.length : Int) + 3 * (i : Int)) a0,
        oaPath ((t0.m_data.paths.length : Int) + 3 * (i : Int)) a0,
        exhaustPath ((t0.m_data.paths.length : Int) + 3 * (i : Int)) a0]).length
        = t.m_data.paths.length + 3 := by simp
    rw [hlen]
    rcases Table.mem_set _ _ _ _ he with he | he
    · right; rw [he]; simp [exhaustPath, oaPath, recircPath]; omega
    · rcases Table.mem_set _ _ _ _ he with he | he
      · right; rw [he]; simp [oaPath, recircPath]; omega
      · rcases Table.mem_set _ _ _ _ he with he | he
        · right; rw [he]; simp [recircPath]; omega
        · rcases h11 e he with h | h
          · exact Or.inl h
          · right; push_cast; omega
  · simp [hc2]; omega
  · intro j b0 hj hb0
    by_cases hji : j = i
    · subst hji
      rw [hb0] at ha0
      injection ha0 with ha0
      subst ha0
      have e0 : 3 * j = cl.length := by omega
      refine ⟨?_, ?_, ?_⟩
      · rw [e0, List.getElem?_append_right (Nat.le_refl _)]; simp
      · rw [e0, List.getElem?_append_right (by omega)]; simp
      · rw [e0, List.getElem?_append_right (by omega)]; simp
    · have hlt : j < i := by omega
      obtain ⟨q1, q2, q3⟩ := hc3 j b0 hlt hb0
      refine ⟨?_, ?_, ?_⟩
      · rw [List.getElem?_append_left (by omega)]; exact q1
      · rw [List.getElem?_append_left (by omega)]; exact q2
      · rw [List.getElem?_append_left (by omega)]; exact q3

theorem connectAhs_inv (t0 : ForwardTranslator) :
    (connectAhs t0).sat (ClosureInv t0 t0.m_data.ahs.length) (fun _ => False) := by
  unfold connectAhs
  have h := forEach_invariant closureStep (fun pre t => ClosureInv t0 pre.length t)
    (fun _ => False) (List.range t0.m_data.ahs.length) t0
    (by
      refine ⟨rfl, rfl, rfl, rfl, rfl, rfl, rfl, rfl, fun _ _ => rfl, ?_,
        fun e he => Or.inl he, [], by simp, rfl, ?_⟩
      · intro j a0 hj; simp at hj
      · intro j a0 hj; simp at hj)
    (by
      intro pre a post s hx hinv
      obtain ⟨ha, hlt⟩ := range_split hx
      subst ha
      have := closureStep_inv t0 pre.length s hlt hinv
      simpa using this)
  simpa using h

end Closure

section Flows

open model ForwardTranslator

theorem listModify_clearFahs (paths : List prj.Path) (nr : Int) (flow : ℚ)
    (h : 1 ≤ nr ∧ nr ≤ (paths.length : Int)) :
    ∃ paths2, listModify paths (nr - 1) (fun p => { p with Fahs := some flow }) = some paths2 ∧
      paths2.map prj.Path.clearFahs = paths.map prj.Path.clearFahs := by
  have hnn : 0 ≤ nr - 1 := by omega
  have hlt : (nr - 1).toNat < paths.length := by omega
  have hget : listAt paths (nr - 1) = some paths[(nr - 1).toNat] := by
    unfold listAt
    rw [if_pos hnn, List.get?_eq_getElem?]
    exact List.getElem?_eq_getElem hlt
  refine ⟨_, by unfold listModify; rw [hget], ?_⟩
  apply List.ext_getElem?
  intro k
  simp only [List.getElem?_map]
  by_cases hk : (nr - 1).toNat = k
  · subst hk
    rw [List.getElem?_set_self hlt, List.getElem?_eq_getElem hlt]
    rfl
  · rw [List.getElem?_set_ne hk]

theorem setFahs_clearFahs (paths : List prj.Path) (nr : Int) (flow : ℚ)
    (h : nr = 0 ∨ (1 ≤ nr ∧ nr ≤ (paths.length : Int))) :
    ∃ paths2, setFahs paths nr flow = some paths2 ∧
      paths2.map prj.Path.clearFahs = paths.map prj.Path.clearFahs := by
  unfold setFahs
  by_cases h0 : nr = 0
  · simp [h0]
  · rw [if_pos h0]
    rcases h with h | h
    · exact absurd h h0
    · exact listModify_clearFahs paths nr flow h

theorem Table.value_mem_or_zero {κ : Type} [DecidableEq κ] (m : Table κ) (k : κ) :
    m.value k 0 = 0 ∨ (k, m.value k 0) ∈ m := by
  unfold Table.value
  cases h : m.find k with
  | none => simp
  | some v => right; simpa using Table.find_mem m k v h

theorem flowStep_inv (t0 t : ForwardTranslator) (z : ThermalZone) (hok : PathMapOK t0)
    (h : FlowInv t0 t) : (flowStep t z).sat (FlowInv t0) (fun _ => False) := by
  obtain ⟨h1, h2, h3, h4, h5, h6, h7, h8, h9, h10⟩ := h
  have hlen : t.m_data.paths.length = t0.m_data.paths.length := by
    have := congrArg List.length h10
    simpa using this
  have hidx : ∀ name, t.m_pathMap.value name 0 = 0 ∨
      (1 ≤ t.m_pathMap.value name 0 ∧ t.m_pathMap.value name 0 ≤ (t.m_data.paths.length : Int)) := by
    intro name
    rcases Table.value_mem_or_zero t.m_pathMap name with h | h
    · exact Or.inl h
    · rw [h8] at h
      rcases hok _ h with h0 | h0
      · left; rw [h8]; exact h0
      · right; rw [hlen, h8]; exact h0
  unfold flowStep
  simp only []
  split
  · simp only [Outcome.sat]
    exact ⟨by simp [h1], by simp [h2], by simp [h3], by simp [h4], by simp [h5], by simp [h6],
      by simp [h7], by simp [h8], by simp [h9], by simp [h10]⟩
  · obtain ⟨p1, hp1, hc1⟩ := setFahs_clearFahs t.m_data.paths
      (t.m_pathMap.value (z.name ++ " supply") 0)
      ((z.spaces.map (fun space => space.floorArea)).sum * 0.00508 * 1.2041)
      (hidx _)
    have hlen1 : p1.length = t.m_data.paths.length := by
      have := congrArg List.length hc1
      simpa using this
    obtain ⟨p2, hp2, hc2⟩ := setFahs_clearFahs p1
      (t.m_pathMap.value (z.name ++ " return") 0)
      (0.9 * ((z.spaces.map (fun space => space.floorArea)).sum * 0.00508 * 1.2041))
      (by rw [hlen1]; exact hidx _)
    rw [hp1]
    simp only []
    rw [hp2]
    simp only [Outcome.sat]
    exact ⟨h1, h2, h3, h4, h5, h6, h7, h8, h9, by simp only []; rw [hc2, hc1, h10]⟩

theorem FlowInv.refl (t : ForwardTranslator) : FlowInv t t :=
  ⟨rfl, rfl, rfl, rfl, rfl, rfl, rfl, rfl, rfl, rfl⟩

theorem FlowInv.of_log (t0 t : ForwardTranslator) (l : LogLevel) (msg : String)
    (h : FlowInv t0 t) : FlowInv t0 (t.LOG l msg) := by
  obtain ⟨h1, h2, h3, h4, h5, h6, h7, h8, h9, h10⟩ := h
  exact ⟨by simp [h1], by simp [h2], by simp [h3], by simp [h4], by simp [h5], by simp [h6],
    by simp [h7], by simp [h8], by simp [h9], by simp [h10]⟩

theorem setFlows_inv (model : Model) (t0 : ForwardTranslator) (hok : PathMapOK t0) :
    (setFlows model t0).sat (FlowInv t0) (fun _ => False) := by
  unfold setFlows
  split
  · simp only [Outcome.sat]
    apply foldl_invariant (fun (t : ForwardTranslator) (_ : ThermalZone) =>
      t.LOG .Warn "Zone equipment not yet accounted for.") (fun _ t => FlowInv t0 t)
    · exact FlowInv.refl t0
    · intro pre a post s _ hs
      exact FlowInv.of_log t0 s _ _ hs
  · apply forEach_invariant flowStep (fun _ t => FlowInv t0 t) (fun _ => False)
    · exact FlowInv.of_log t0 t0 _ _ (FlowInv.refl t0)
    · intro pre a post s _ hs
      exact flowStep_inv t0 s a hok hs

end Flows

section Network

open model ForwardTranslator

theorem listAt_of_bounds {α : Type} (l : List α) (k : Int) (h1 : 1 ≤ k)
    (h2 : k ≤ (l.length : Int)) : ∃ a, listAt l (k - 1) = some a := by
  have hnn : 0 ≤ k - 1 := by omega
  have hlt : (k - 1).toNat < l.length := by omega
  refine ⟨l[(k - 1).toNat], ?_⟩
  unfold listAt
  rw [if_pos hnn, List.get?_eq_getElem?]
  exact List.getElem?_eq_getElem hlt

theorem listAt_mem {α : Type} (l : List α) (k : Int) (a : α) (h : listAt l k = some a) :
    a ∈ l := by
  unfold listAt at h
  split at h
  · rw [List.get?_eq_getElem?] at h
    exact List.mem_iff_getElem?.mpr ⟨_, h⟩
  · exact Option.noConfusion h

theorem translateHVACBlock_spec (model : Model) (t : ForwardTranslator) (hok : PathMapOK t) :
    (translateHVACBlock model t).sat (HvacPost model t) (fun _ => False) := by
  unfold translateHVACBlock translateAirLoops
  have hair := translateAirLoops_inv t model.airLoops
  generalize hs : model.airLoops.foldl airloopStep (0, t) = s at hair
  obtain ⟨nr, t1⟩ := s
  have hclo := connectAhs_inv t1
  have hok1 : PathMapOK t1 := by
    obtain ⟨_, _, _, _, _, _, _, h8, _, _, np, hp1, _⟩ := hair
    intro e he
    rcases h8 e he with h | h
    · rcases hok e h with h0 | h0
      · exact Or.inl h0
      · right
        refine ⟨h0.1, ?_⟩
        have := h0.2
        simp only [] at hp1 ⊢
        rw [hp1]
        simp
        omega
    · exact Or.inr h
  simp only []
  cases hc : connectAhs t1 with
  | outOfRange => rw [hc] at hclo; exact hclo.elim
  | abort s => rw [hc] at hclo; exact hclo.elim
  | next t2 =>
    rw [hc] at hclo
    simp only [Outcome.sat] at hclo
    have hok2 : PathMapOK t2 := by
      obtain ⟨_, _, _, _, _, _, _, _, _, _, h11, cl, hc1, _⟩ := hclo
      intro e he
      rcases h11 e he with h | h
      · rcases hok1 e h with h0 | h0
        · exact Or.inl h0
        · right
          refine ⟨h0.1, ?_⟩
          have := h0.2
          rw [hc1]
          simp
          omega
      · exact Or.inr h
    have hflow := setFlows_inv model t2 hok2
    simp only [Outcome.bind]
    apply Outcome.sat_mono hflow
    · intro r hr
      exact ⟨nr, t1, t2, hs, hair, hclo, hr⟩
    · intro r hr; exact hr

theorem ZonesInv.zones_zoneLookupOK {t : ForwardTranslator} {zs : List ThermalZone} {nr : Int}
    {tz : ForwardTranslator} (h : ZonesInv t zs (nr, tz)) (hl : LevelMapOK t)
    (hz : t.m_data.zones = []) (hzm : t.m_zoneMap = []) : ZoneLookupOK tz := by
  obtain ⟨_, h2, _, _, _, _, _, _, _, ⟨new, hn1, hn2, hn3, hn4⟩, h11, _, _⟩ := h
  simp only [] at h2 hn1 h11
  intro e he hne
  rcases h11 e he with h | h
  · rw [hzm] at h; simp at h
  · rw [hz] at hn1
    simp only [List.nil_append] at hn1
    obtain ⟨zone, hzone⟩ := listAt_of_bounds tz.m_data.zones e.2 h.1 (by rw [hn1, hn2]; exact h.2)
    refine ⟨zone, hzone, ?_⟩
    have hmem : zone ∈ new := by rw [← hn1]; exact listAt_mem _ _ _ hzone
    obtain ⟨hpl, _, k, hk⟩ := hn4 zone hmem
    have hb := hl (k, zone.pl) (Table.find_mem _ _ _ hk)
    rw [h2]
    exact listAt_of_bounds _ _ hb.1 hb.2

theorem networkPhases_spec (ext : Externals) (pe : ElementChoice) (model : Model)
    (translateHVAC : Bool) (t : ForwardTranslator) (hl : LevelMapOK t)
    (hz : t.m_data.zones = []) (hzm : t.m_zoneMap = []) (hpm : PathMapOK t) :
    (networkPhases ext pe model translateHVAC t).sat (NetworkRun model translateHVAC t)
      (NetworkAbort model t) := by
  unfold networkPhases translateZones
  have hzones := translateZones_spec t model.thermalZones
  cases hzr : forEach zoneStep model.thermalZones (0, t) with
  | outOfRange => rw [hzr] at hzones; exact hzones.elim
  | abort s =>
    rw [hzr] at hzones
    simp only [Outcome.sat] at hzones
    simp only [Outcome.map, Outcome.bind, Outcome.sat]
    exact Or.inl ⟨s, hzones, rfl⟩
  | next s =>
    rw [hzr] at hzones
    simp only [Outcome.sat] at hzones
    obtain ⟨nr, tz⟩ := s
    simp only [Outcome.map, Outcome.bind]
    have hzok := hzones.zones_zoneLookupOK hl hz hzm
    unfold translateSurfaces
    have hsurf := forEach_surfaceRun ext pe tz.m_data.rc.wind_H model.surfaces
      { nr := 0, used := [], t := tz } hzok
    cases hsr : forEach (surfaceStep ext pe tz.m_data.rc.wind_H) model.surfaces
        { nr := 0, used := [], t := tz } with
    | outOfRange => rw [hsr] at hsurf; exact hsurf.elim
    | abort s =>
      rw [hsr] at hsurf
      simp only [Outcome.sat] at hsurf
      simp only [Outcome.map, Outcome.sat]
      exact Or.inr ⟨nr, tz, s, hzones, hsurf, rfl⟩
    | next ts =>
      rw [hsr] at hsurf
      simp only [Outcome.sat] at hsurf
      simp only [Outcome.map]
      cases translateHVAC with
      | false =>
        simp only [Outcome.sat]
        exact ⟨nr, tz, ts, hzones, hsurf, Or.inr ⟨rfl, rfl⟩⟩
      | true =>
        have hpm2 : PathMapOK ts.t := by
          obtain ⟨_, _, _, _, _, hq6, _⟩ := hsurf.run_frame
          obtain ⟨extra, he1, _⟩ := hsurf.paths_extend
          obtain ⟨_, _, _, hq4, _, hq6b, _⟩ := hzones
          simp only [] at hq6 he1 hq4 hq6b
          intro e he
          have hfr := hsurf.run_frame
          rw [hfr.2.2.2.2.2.2.1] at he
          simp only [] at he
          rw [hq6b] at he
          rcases hpm e he with h0 | h0
          · exact Or.inl h0
          · right
            refine ⟨h0.1, ?_⟩
            rw [he1, hq4]
            have := h0.2
            simp
            omega
        have hh := translateHVACBlock_spec model ts.t hpm2
        simp only [if_true]
        apply Outcome.sat_mono hh
        · intro r hr
          exact ⟨nr, tz, ts, hzones, hsurf, Or.inl ⟨rfl, hr⟩⟩
        · intro r hr; exact hr.elim

end Network

section Body

open model ForwardTranslator

theorem Ready.new (template : prj.Data) (h : template.Baseline) :
    Ready (ForwardTranslator.new template) := by
  obtain ⟨h1, h2, h3, h4⟩ := h
  simp [Ready, ForwardTranslator.new, h1, h2, h3, h4]

theorem Ready.resetLog {t : ForwardTranslator} (h : Ready t) : Ready t.resetLog := h

theorem Ready.log {t : ForwardTranslator} (h : Ready t) (l : LogLevel) (msg : String) :
    Ready (t.LOG l msg) := by
  unfold Ready at h ⊢
  simpa using h

theorem Ready.checkDescriptor {t : ForwardTranslator} (h : Ready t) (d : String) :
    Ready (t.checkDescriptor d).2 := by
  unfold ForwardTranslator.checkDescriptor
  simp only []
  split
  · exact h
  · exact h.log _ _

theorem afePhase_m_data (t : ForwardTranslator) : t.afePhase.m_data = t.m_data := by
  simp only [ForwardTranslator.afePhase, ForwardTranslator.buildAfeMap]

theorem afePhase_m_logSink (t : ForwardTranslator) : t.afePhase.m_logSink = t.m_logSink := by
  simp only [ForwardTranslator.afePhase, ForwardTranslator.buildAfeMap]

theorem afePhase_m_valid (t : ForwardTranslator) : t.afePhase.m_valid = t.m_valid := by
  simp only [ForwardTranslator.afePhase, ForwardTranslator.buildAfeMap]

theorem Ready.afePhase {t : ForwardTranslator} (h : Ready t) : Ready t.afePhase := by
  obtain ⟨h1, h2, h3, h4, h5, h6, h7, h8, h9⟩ := h
  refine ⟨?_, ?_, ?_, ?_, ?_, ?_, ?_, ?_, ?_⟩
  · rw [afePhase_m_data]; exact h1
  · rw [afePhase_m_data]; exact h2
  · rw [afePhase_m_data]; exact h3
  · rw [afePhase_m_data]; exact h4
  · rw [afePhase_m_data]; exact h5
  · simpa only [ForwardTranslator.afePhase, ForwardTranslator.buildAfeMap] using h6
  · simpa only [ForwardTranslator.afePhase, ForwardTranslator.buildAfeMap] using h7
  · simpa only [ForwardTranslator.afePhase, ForwardTranslator.buildAfeMap] using h8
  · simpa only [ForwardTranslator.afePhase, ForwardTranslator.buildAfeMap] using h9

theorem storiesPhase_levelMapOK (model : Model) (t : ForwardTranslator) (h : Ready t) :
    LevelMapOK (storiesPhase model t) :=
  (storiesPhase_fresh model t h.2.1 h.2.2.2.2.2.1).2.2.1

theorem storiesPhase_levels_ne (model : Model) (t : ForwardTranslator) (h : Ready t) :
    (storiesPhase model t).m_data.levels.length = 0 ↔ model.stories = [] := by
  rw [(storiesPhase_fresh model t h.2.1 h.2.2.2.2.2.1).1]
  exact List.length_eq_zero

/-- The shape of every run of the shared body on a ready translator. -/
theorem translateBody_spec (ext : Externals) (pe : ElementChoice) (t : ForwardTranslator)
    (model : Model) (translateHVAC : Bool) (h : Ready t) :
    (model.stories = [] ∧ translateBody ext pe t model translateHVAC =
      some (false, ((storiesPhase model t).LOG .Error
        "Failed to find building stories in model, translation aborted").setValid false)) ∨
    (model.stories ≠ [] ∧
      ((∃ r0, NetworkRun model translateHVAC (storiesPhase model t) r0 ∧
          translateBody ext pe t model translateHVAC = some (true, r0.setValid true)) ∨
        (∃ r, NetworkAbort model (storiesPhase model t) r ∧
          translateBody ext pe t model translateHVAC = some (false, r)))) := by
  by_cases hs : model.stories = []
  · left
    refine ⟨hs, ?_⟩
    unfold translateBody
    simp only []
    rw [if_pos ((storiesPhase_levels_ne model t h).mpr hs)]
  · right
    refine ⟨hs, ?_⟩
    have hne : ¬ (storiesPhase model t).m_data.levels.length = 0 :=
      fun h0 => hs ((storiesPhase_levels_ne model t h).mp h0)
    have hnet := networkPhases_spec ext pe model translateHVAC (storiesPhase model t)
      (storiesPhase_levelMapOK model t h) (by simp [h.2.2.1]) (by simp [h.2.2.2.2.2.2.1])
      (by intro e he; simp [h.2.2.2.2.2.2.2.1] at he)
    unfold translateBody
    simp only []
    rw [if_neg hne]
    cases hr : networkPhases ext pe model translateHVAC (storiesPhase model t) with
    | outOfRange => rw [hr] at hnet; exact hnet.elim
    | next r0 =>
      rw [hr] at hnet
      exact Or.inl ⟨r0, hnet, rfl⟩
    | abort r =>
      rw [hr] at hnet
      exact Or.inr ⟨r, hnet, rfl⟩

theorem HvacPost.hvac_frame {model : Model} {t r : ForwardTranslator} (h : HvacPost model t r) :
    r.m_data.levels = t.m_data.levels ∧ r.m_data.valid = t.m_data.valid ∧
    r.m_zoneMap = t.m_zoneMap ∧ r.m_surfaceMap = t.m_surfaceMap ∧
    r.m_levelMap = t.m_levelMap := by
  obtain ⟨nr, t1, t2, _, ha, hc, hf⟩ := h
  obtain ⟨_, a2, a3, a4, a5, a6, _⟩ := ha
  obtain ⟨c1, _, c3, c4, c5, c6, _⟩ := hc
  obtain ⟨f1, _, _, f4, f5, f6, f7, _⟩ := hf
  simp only [] at a2 a3 a4 a5 a6
  exact ⟨f1.trans (c1.trans a2), f4.trans (c3.trans a3), f5.trans (c4.trans a4),
    f6.trans (c5.trans a5), f7.trans (c6.trans a6)⟩

theorem NetworkRun.network_frame {model : Model} {hvac : Bool} {t r : ForwardTranslator}
    (h : NetworkRun model hvac t r) :
    r.m_data.levels = t.m_data.levels ∧ r.m_data.valid = t.m_data.valid ∧
    r.m_levelMap = t.m_levelMap := by
  obtain ⟨nr, tz, ts, hz, hs, hh⟩ := h
  obtain ⟨_, z2, z3, _, _, _, _, z8, _⟩ := hz
  obtain ⟨s1, _, _, s4, _, s6, _⟩ := hs.run_frame
  simp only [] at z2 z3 z8 s1 s4 s6
  rcases hh with ⟨_, hh⟩ | ⟨_, hh⟩
  · obtain ⟨f1, f2, _, _, f5⟩ := hh.hvac_frame
    exact ⟨f1.trans (s1.trans z2), f2.trans (s4.trans z8), f5.trans (s6.trans z3)⟩
  · rw [hh]
    exact ⟨s1.trans z2, s4.trans z8, s6.trans z3⟩

theorem NetworkAbort.abort_frame {model : Model} {t r : ForwardTranslator}
    (h : NetworkAbort model t r) :
    r.m_data.levels = t.m_data.levels ∧ r.m_data.valid = t.m_data.valid ∧ r.m_valid = false := by
  rcases h with ⟨s, ⟨pre, z, post, s0, _, hinv, _, hab⟩, hr⟩ | ⟨nr, tz, ts, hz, hs, hr⟩
  · obtain ⟨_, z2, _, _, _, _, _, z8, _⟩ := hinv
    obtain ⟨a1, a2, _⟩ := hab
    rw [hr, a1]
    exact ⟨z2, z8, a2⟩
  · obtain ⟨_, z2, _, _, _, _, _, z8, _⟩ := hz
    obtain ⟨pre, a, post, mid, _, hrun, hab⟩ := hs
    obtain ⟨s1, _, _, s4, _⟩ := hrun.run_frame
    obtain ⟨a1, a2, _⟩ := hab
    simp only [] at z2 z8 s1 s4
    rw [hr, a1]
    exact ⟨s1.trans z2, s4.trans z8, a2⟩

theorem levelFound_of_resolves (model : Model) (t : ForwardTranslator) (h : Ready t)
    (z : ThermalZone) (hz : model.levelResolves z = true) :
    LevelFound (storiesPhase model t).m_levelMap z := by
  unfold Model.levelResolves at hz
  cases hf : firstStory z.spaces with
  | none => rw [hf] at hz; exact absurd hz (by simp)
  | some k =>
    rw [hf] at hz
    simp only [decide_eq_true_eq, List.mem_map] at hz
    obtain ⟨b, hb, hbk⟩ := hz
    obtain ⟨v, hv, hv1⟩ := (storiesPhase_fresh model t h.2.1 h.2.2.2.2.2.1).2.2.2 b hb
    rw [hbk] at hv
    exact ⟨k, v, hf, hv, by omega⟩

/-- The shared body succeeds on a ready translator when the model has a story, every zone
has a resolvable level and every interior surface has a resolvable adjacent zone. -/
theorem translateBody_succeeds (ext : Externals) (pe : ElementChoice) (t : ForwardTranslator)
    (model : Model) (translateHVAC : Bool) (h : Ready t) (hs : model.stories ≠ [])
    (hz : ∀ z ∈ model.thermalZones, model.levelResolves z = true)
    (ha : model.adjacencyResolves) :
    ∃ r0, NetworkRun model translateHVAC (storiesPhase model t) r0 ∧
      translateBody ext pe t model translateHVAC = some (true, r0.setValid true) := by
  rcases translateBody_spec ext pe t model translateHVAC h with ⟨h0, _⟩ | ⟨_, h1 | h1⟩
  · exact absurd h0 hs
  · exact h1
  · obtain ⟨r, hab, _⟩ := h1
    exfalso
    rcases hab with ⟨s, ⟨pre, z, post, s0, hx, _, hnf, _⟩, _⟩ | ⟨nr, tz, ts, _, hsab, _⟩
    · exact hnf (levelFound_of_resolves model t h z (hz z (by simp [hx])))
    · obtain ⟨pre, a, post, mid, hx, _, hab⟩ := hsab
      obtain ⟨_, _, _, _, _, _, _, hbc, hadj⟩ := hab
      have := ha a (by simp [hx]) hbc
      rw [hadj] at this
      exact absurd this (by simp)

end Body

section Claims

open model ForwardTranslator

theorem valid_of_abort (t : ForwardTranslator) (h : t.m_valid = false) : t.valid = false := by
  simp [ForwardTranslator.valid, h]

theorem errors_LOG_Error (t : ForwardTranslator) (msg : String) :
    ((t.LOG .Error msg).setValid false).errors ≠ [] := by
  simp [ForwardTranslator.LOG, ForwardTranslator.errors, ForwardTranslator.setValid,
    LogLevel.toInt, List.filter_append]

theorem new_levels (template : prj.Data) (h : template.valid = true ∨ template.levels = []) :
    (ForwardTranslator.new template).m_data.levels = [] := by
  unfold ForwardTranslator.new
  rcases h with h | h
  · simp [h]
  · by_cases hv : template.valid = true <;> simp [hv, h]

theorem translateBody_no_stories (ext : Externals) (pe : ElementChoice) (t : ForwardTranslator)
    (model : Model) (hvac : Bool) (hl : t.m_data.levels = []) (hs : model.stories = []) :
    ∃ r, translateBody ext pe t model hvac = some (false, r) ∧ r.valid = false ∧
      r.errors ≠ [] := by
  have h0 : (storiesPhase model t).m_data.levels.length = 0 := by
    simp [storiesPhase, translateStories, hs, hl, ForwardTranslator.setDescription]
  refine ⟨((storiesPhase model t).LOG .Error
      "Failed to find building stories in model, translation aborted").setValid false,
    ?_, ?_, ?_⟩
  · simp [translateBody, h0]
  · simp [ForwardTranslator.valid, ForwardTranslator.setValid]
  · exact errors_LOG_Error _ _

/-- C1: on a freshly constructed translator, for every model without building stories,
`translate` returns false in descriptor mode and in explicit-map mode alike, `valid()` is
false afterwards and `errors()` is not empty. -/
theorem translate_no_stories (ext : Externals) (template : prj.Data) (model : Model)
    (hvac : Bool) (descriptor : String) (afeMap : Table String)
    (hfresh : template.valid = true ∨ template.levels = [])
    (hstories : model.stories = []) :
    (∃ r, (ForwardTranslator.new template).translate ext model hvac descriptor
        = some (false, r) ∧ r.valid = false ∧ r.errors ≠ []) ∧
    (∃ r, (ForwardTranslator.new template).translateWithMap ext model afeMap hvac
        = some (false, r) ∧ r.valid = false ∧ r.errors ≠ []) := by
  have hl := new_levels template hfresh
  constructor
  · unfold ForwardTranslator.translate
    apply translateBody_no_stories _ _ _ _ _ _ hstories
    rw [afePhase_m_data]
    unfold ForwardTranslator.checkDescriptor
    simp only []
    split
    · exact hl
    · simpa [ForwardTranslator.resetLog] using hl
  · unfold ForwardTranslator.translateWithMap
    apply translateBody_no_stories _ _ _ _ _ _ hstories
    simpa [ForwardTranslator.resetLog] using hl

/-- Witness of C1: a model without stories on a translator built from a loaded template. -/
theorem translate_no_stories_witness :
    (∃ r, (ForwardTranslator.new Examples.template).translate Examples.ext Examples.noStories
        true "Average" = some (false, r) ∧ r.valid = false ∧ r.errors ≠ []) ∧
    (∃ r, (ForwardTranslator.new Examples.template).translateWithMap Examples.ext
        Examples.noStories [("exterior", 1)] true = some (false, r) ∧ r.valid = false ∧
        r.errors ≠ []) :=
  translate_no_stories Examples.ext Examples.template Examples.noStories true "Average"
    [("exterior", 1)] (Or.inl rfl) rfl

theorem translate_ready (t : ForwardTranslator) (d : String) (h : Ready t) :
    Ready (t.resetLog.checkDescriptor d).2.afePhase :=
  ((h.resetLog).checkDescriptor d).afePhase

theorem NetworkRun.valid {model : Model} {hvac : Bool} {t r : ForwardTranslator}
    (h : NetworkRun model hvac t r) (hv : t.m_data.valid = true) :
    (r.setValid true).valid = true := by
  have := h.network_frame.2.1
  simp [ForwardTranslator.valid, ForwardTranslator.setValid, this, hv]

/-- C2 (amended): on a freshly constructed translator whose template is a baseline, for
every model with at least one story in which every thermal zone has a resolvable level and
every surface with boundary condition "Surface" has an adjacent surface in a space of a
thermal zone, `translate` returns true (in both modes) and `valid()` is true afterwards. -/
theorem translate_succeeds (ext : Externals) (template : prj.Data) (model : Model)
    (hvac : Bool) (descriptor : String) (afeMap : Table String)
    (hb : template.Baseline) (hs : model.stories ≠ [])
    (hz : ∀ z ∈ model.thermalZones, model.levelResolves z = true)
    (ha : model.adjacencyResolves) :
    (∃ r, (ForwardTranslator.new template).translate ext model hvac descriptor
        = some (true, r) ∧ r.valid = true) ∧
    (∃ r, (ForwardTranslator.new template).translateWithMap ext model afeMap hvac
        = some (true, r) ∧ r.valid = true) := by
  have hr := Ready.new template hb
  constructor
  · have hr2 := translate_ready _ descriptor hr
    obtain ⟨r0, hrun, heq⟩ := translateBody_succeeds ext
      (elementChoice (findAFEs ((ForwardTranslator.new template).resetLog.checkDescriptor
        descriptor).2.buildAfeMap.m_afeMap)
        ((ForwardTranslator.new template).resetLog.checkDescriptor descriptor).1)
      _ model hvac hr2 hs hz ha
    refine ⟨r0.setValid true, heq, hrun.valid ?_⟩
    simp [hr2.1]
  · obtain ⟨r0, hrun, heq⟩ := translateBody_succeeds ext
      { roof := (afeMap.index "roof").1, exterior := (afeMap.index "exterior").1,
        floor := (afeMap.index "floor").1, interior := (afeMap.index "interior").1 }
      _ model hvac hr.resetLog hs hz ha
    refine ⟨r0.setValid true, heq, hrun.valid ?_⟩
    simp [hr.resetLog.1]

end Claims

section Claims2

open model ForwardTranslator

theorem translateBody_fails_of_unresolved (ext : Externals) (pe : ElementChoice)
    (t : ForwardTranslator) (model : Model) (hvac : Bool) (h : Ready t)
    (hs : model.stories ≠ [])
    (hz : ∃ z ∈ model.thermalZones, ¬ LevelFound (storiesPhase model t).m_levelMap z) :
    ∃ r, translateBody ext pe t model hvac = some (false, r) ∧ r.valid = false := by
  rcases translateBody_spec ext pe t model hvac h with ⟨h0, _⟩ | ⟨_, h1 | h1⟩
  · exact absurd h0 hs
  · exfalso
    obtain ⟨r0, ⟨nr, tz, ts, hzi, _⟩, _⟩ := h1
    obtain ⟨z, hzm, hnf⟩ := hz
    exact hnf (hzi.2.2.2.2.2.2.2.2.2.2.2.2 z hzm)
  · obtain ⟨r, hab, heq⟩ := h1
    exact ⟨r, heq, valid_of_abort r hab.abort_frame.2.2⟩

theorem Examples.template_baseline : Examples.template.Baseline := ⟨rfl, rfl, rfl, rfl⟩

/-- C2, counterexample: a model with one story and a thermal zone with a resolvable level,
whose second thermal zone has no space: `translate` returns false and `valid()` is false. -/
theorem translate_unresolved_zone_fails :
    Examples.unresolvedZone.stories ≠ [] ∧
    (∃ z ∈ Examples.unresolvedZone.thermalZones,
      Examples.unresolvedZone.levelResolves z = true) ∧
    ∃ r, (ForwardTranslator.new Examples.template).translate Examples.ext
      Examples.unresolvedZone true "Average" = some (false, r) ∧ r.valid = false := by
  refine ⟨by simp [Examples.unresolvedZone], ?_, ?_⟩
  · refine ⟨Examples.zoneA, by simp [Examples.unresolvedZone], ?_⟩
    simp [Model.levelResolves, firstStory, Examples.spaceA, Examples.zoneA,
      Examples.unresolvedZone]
  · have hr := translate_ready (ForwardTranslator.new Examples.template) "Average"
      (Ready.new _ Examples.template_baseline)
    unfold ForwardTranslator.translate
    apply translateBody_fails_of_unresolved _ _ _ _ _ hr
    · simp [Examples.unresolvedZone]
    · refine ⟨Examples.zoneNoSpace, by simp [Examples.unresolvedZone], ?_⟩
      rintro ⟨k, v, hk, _⟩
      simp [firstStory, Examples.zoneNoSpace] at hk

theorem Examples.scenario_levels :
    ∀ z ∈ Examples.scenario.thermalZones, Examples.scenario.levelResolves z = true := by
  intro z hz
  simp only [Examples.scenario, List.mem_cons, List.mem_singleton, List.not_mem_nil,
    or_false] at hz
  rcases hz with hz | hz <;> subst hz <;>
    simp [Model.levelResolves, firstStory, Examples.spaceA, Examples.spaceB, Examples.zoneA,
      Examples.zoneB, Examples.scenario]

theorem Examples.scenario_adjacency : Examples.scenario.adjacencyResolves := by
  intro s hs hbc
  simp only [Examples.scenario, List.mem_cons, List.mem_singleton, List.not_mem_nil,
    or_false] at hs
  rcases hs with hs | hs <;> subst hs <;> simp at hbc

/-- Witness of C2 (amended): the end-to-end scenario on the example template. -/
theorem translate_succeeds_witness :
    (∃ r, (ForwardTranslator.new Examples.template).translate Examples.ext Examples.scenario
        true "Average" = some (true, r) ∧ r.valid = true) ∧
    (∃ r, (ForwardTranslator.new Examples.template).translateWithMap Examples.ext
        Examples.scenario [] true = some (true, r) ∧ r.valid = true) :=
  translate_succeeds Examples.ext Examples.template Examples.scenario true "Average" []
    Examples.template_baseline (by simp [Examples.scenario]) Examples.scenario_levels
    Examples.scenario_adjacency

end Claims2

section Levels

open model ForwardTranslator

/-- Every run of the shared body on a ready translator returns, and it leaves the levels of
the stories phase in place. -/
theorem translateBody_levels (ext : Externals) (pe : ElementChoice) (t : ForwardTranslator)
    (model : Model) (hvac : Bool) (h : Ready t) :
    ∃ b r, translateBody ext pe t model hvac = some (b, r) ∧
      r.m_data.levels = (storiesPhase model t).m_data.levels := by
  rcases translateBody_spec ext pe t model hvac h with ⟨_, h0⟩ | ⟨_, h1 | h1⟩
  · exact ⟨false, _, h0, by simp [ForwardTranslator.setValid]⟩
  · obtain ⟨r0, hrun, heq⟩ := h1
    exact ⟨true, _, heq, by simpa [ForwardTranslator.setValid] using hrun.network_frame.1⟩
  · obtain ⟨r, hab, heq⟩ := h1
    exact ⟨false, r, heq, hab.abort_frame.1⟩

theorem translateBody_levelsOfStories (ext : Externals) (pe : ElementChoice)
    (t : ForwardTranslator) (model : Model) (hvac : Bool) (h : Ready t) :
    ∃ b r, translateBody ext pe t model hvac = some (b, r) ∧
      LevelsOfStories model.stories r.m_data.levels := by
  obtain ⟨b, r, heq, hl⟩ := translateBody_levels ext pe t model hvac h
  refine ⟨b, r, heq, ?_⟩
  rw [hl]
  obtain ⟨f1, f2, _⟩ := storiesPhase_fresh model t h.2.1 h.2.2.2.2.2.1
  refine ⟨f1, ?_⟩
  intro i story hs
  obtain ⟨l, q1, _, q3, q4⟩ := f2 i story hs
  exact ⟨l, q1, q3, q4⟩

theorem translate_levelsOfStories (ext : Externals) (template : prj.Data) (model : Model)
    (hvac : Bool) (descriptor : String) (hb : template.Baseline) :
    ∃ b r, (ForwardTranslator.new template).translate ext model hvac descriptor
        = some (b, r) ∧ LevelsOfStories model.stories r.m_data.levels :=
  translateBody_levelsOfStories ext
    (elementChoice (findAFEs ((ForwardTranslator.new template).resetLog.checkDescriptor
      descriptor).2.buildAfeMap.m_afeMap)
      ((ForwardTranslator.new template).resetLog.checkDescriptor descriptor).1)
    _ model hvac (translate_ready _ descriptor (Ready.new template hb))

theorem translateWithMap_levelsOfStories (ext : Externals) (template : prj.Data)
    (model : Model) (hvac : Bool) (afeMap : Table String) (hb : template.Baseline) :
    ∃ b r, (ForwardTranslator.new template).translateWithMap ext model afeMap hvac
        = some (b, r) ∧ LevelsOfStories model.stories r.m_data.levels :=
  translateBody_levelsOfStories ext
    { roof := (afeMap.index "roof").1, exterior := (afeMap.index "exterior").1,
      floor := (afeMap.index "floor").1, interior := (afeMap.index "interior").1 }
    _ model hvac (Ready.new template hb).resetLog

/-- C8: for every story the created level has the explicit elevation of the story as its
reference height when one is present, and otherwise the running sum of the nominal heights of
the stories up to and including that story (stories with an explicit elevation contribute
their height to the sum); its height delta is the nominal height of the story. -/
theorem translate_levels (ext : Externals) (template : prj.Data) (model : Model)
    (hvac : Bool) (descriptor : String) (afeMap : Table String) (hb : template.Baseline) :
    (∃ b r, (ForwardTranslator.new template).translate ext model hvac descriptor
        = some (b, r) ∧
      r.m_data.levels.length = model.stories.length ∧
      ∀ (i : Nat) (story : BuildingStory), model.stories[i]? = some story →
        ∃ l, r.m_data.levels[i]? = some l ∧
          l.refht = story.nominalZCoordinate.getD
            (((model.stories.take (i + 1)).map (fun b => b.nominalFloortoFloorHeight)).sum) ∧
          l.delht = story.nominalFloortoFloorHeight) ∧
    (∃ b r, (ForwardTranslator.new template).translateWithMap ext model afeMap hvac
        = some (b, r) ∧
      r.m_data.levels.length = model.stories.length ∧
      ∀ (i : Nat) (story : BuildingStory), model.stories[i]? = some story →
        ∃ l, r.m_data.levels[i]? = some l ∧
          l.refht = story.nominalZCoordinate.getD
            (((model.stories.take (i + 1)).map (fun b => b.nominalFloortoFloorHeight)).sum) ∧
          l.delht = story.nominalFloortoFloorHeight) := by
  have hr := Ready.new template hb
  constructor
  · obtain ⟨b, r, heq, h1, h2⟩ := translateBody_levelsOfStories ext
      (elementChoice (findAFEs ((ForwardTranslator.new template).resetLog.checkDescriptor
        descriptor).2.buildAfeMap.m_afeMap)
        ((ForwardTranslator.new template).resetLog.checkDescriptor descriptor).1)
      _ model hvac (translate_ready _ descriptor hr)
    exact ⟨b, r, heq, h1, h2⟩
  · obtain ⟨b, r, heq, h1, h2⟩ := translateBody_levelsOfStories ext
      { roof := (afeMap.index "roof").1, exterior := (afeMap.index "exterior").1,
        floor := (afeMap.index "floor").1, interior := (afeMap.index "interior").1 }
      _ model hvac hr.resetLog
    exact ⟨b, r, heq, h1, h2⟩

end Levels

section Increasing

open model ForwardTranslator

/-- Witness of C8: the end-to-end scenario on the example template. -/
theorem translate_levels_witness :
    (∃ b r, (ForwardTranslator.new Examples.template).translate Examples.ext Examples.scenario
        false "Average" = some (b, r) ∧
      r.m_data.levels.length = Examples.scenario.stories.length ∧
      ∀ (i : Nat) (story : BuildingStory), Examples.scenario.stories[i]? = some story →
        ∃ l, r.m_data.levels[i]? = some l ∧
          l.refht = story.nominalZCoordinate.getD
            (((Examples.scenario.stories.take (i + 1)).map
              (fun b => b.nominalFloortoFloorHeight)).sum) ∧
          l.delht = story.nominalFloortoFloorHeight) ∧
    (∃ b r, (ForwardTranslator.new Examples.template).translateWithMap Examples.ext
        Examples.scenario [] false = some (b, r) ∧
      r.m_data.levels.length = Examples.scenario.stories.length ∧
      ∀ (i : Nat) (story : BuildingStory), Examples.scenario.stories[i]? = some story →
        ∃ l, r.m_data.levels[i]? = some l ∧
          l.refht = story.nominalZCoordinate.getD
            (((Examples.scenario.stories.take (i + 1)).map
              (fun b => b.nominalFloortoFloorHeight)).sum) ∧
          l.delht = story.nominalFloortoFloorHeight) :=
  translate_levels Examples.ext Examples.template Examples.scenario false "Average" []
    Examples.template_baseline

theorem prefix_sum_step (stories : List BuildingStory) (k : Nat) (s : BuildingStory)
    (hk : stories[k]? = some s) :
    ((stories.take (k + 1)).map (fun b => b.nominalFloortoFloorHeight)).sum =
      ((stories.take k).map (fun b => b.nominalFloortoFloorHeight)).sum +
        s.nominalFloortoFloorHeight := by
  rw [List.take_succ, hk]
  simp

theorem mem_tail_of_getElem_succ (stories : List BuildingStory) (k : Nat) (s : BuildingStory)
    (hk : stories[k + 1]? = some s) : s ∈ stories.tail := by
  cases stories with
  | nil => simp at hk
  | cons a tl =>
    simp at hk
    exact List.mem_iff_getElem?.mpr ⟨k, hk⟩

theorem prefix_sum_le (stories : List BuildingStory)
    (hnn : ∀ s ∈ stories.tail, 0 ≤ s.nominalFloortoFloorHeight) (i j : Nat) (hij : i ≤ j)
    (hj : j < stories.length) :
    ((stories.take (i + 1)).map (fun b => b.nominalFloortoFloorHeight)).sum ≤
      ((stories.take (j + 1)).map (fun b => b.nominalFloortoFloorHeight)).sum := by
  induction j with
  | zero =>
    have h0 : i = 0 := by omega
    subst h0
    exact le_refl _
  | succ j ih =>
    by_cases hle : i ≤ j
    · have hget : stories[j + 1]? = some stories[j + 1] := List.getElem?_eq_getElem hj
      rw [prefix_sum_step stories (j + 1) _ hget]
      have hp := hnn _ (mem_tail_of_getElem_succ stories j _ hget)
      have := ih hle (by omega)
      linarith
    · have hij2 : i = j + 1 := by omega
      subst hij2
      exact le_refl _

theorem levels_nondecreasing (stories : List BuildingStory) (levels : List prj.Level)
    (h : LevelsOfStories stories levels)
    (hno : ∀ s ∈ stories, s.nominalZCoordinate = none)
    (hnn : ∀ s ∈ stories.tail, 0 ≤ s.nominalFloortoFloorHeight) :
    (levels.map (fun l => l.refht)).Pairwise (fun a b => a ≤ b) := by
  obtain ⟨hlen, hpt⟩ := h
  rw [List.pairwise_iff_getElem]
  intro i j hi hj hij
  simp only [List.length_map] at hi hj
  have hi2 : i < stories.length := by omega
  have hj2 : j < stories.length := by omega
  obtain ⟨li, hli, hri, _⟩ := hpt i stories[i] (List.getElem?_eq_getElem hi2)
  obtain ⟨lj, hlj, hrj, _⟩ := hpt j stories[j] (List.getElem?_eq_getElem hj2)
  rw [hno _ (List.getElem_mem hi2)] at hri
  rw [hno _ (List.getElem_mem hj2)] at hrj
  simp only [Option.getD_none] at hri hrj
  have e1 : levels[i] = li := by
    have := List.getElem?_eq_getElem hi
    rw [this] at hli
    exact Option.some.inj hli
  have e2 : levels[j] = lj := by
    have := List.getElem?_eq_getElem hj
    rw [this] at hlj
    exact Option.some.inj hlj
  simp only [List.getElem_map]
  rw [e1, e2, hri, hrj]
  exact prefix_sum_le stories hnn i j hij.le hj2

/-- C7 (amended): when no story supplies an explicit elevation and no story after the first
has a negative nominal height, both translation modes return and the reference heights of the
created levels are non-decreasing in story enumeration order: a level is never below a level
of an earlier story. Each reference height is the running sum of the nominal heights, and
adding a height that is not negative never lowers the sum; the order need not be strict. -/
theorem translate_levels_nondecreasing (ext : Externals) (template : prj.Data) (model : Model)
    (hvac : Bool) (descriptor : String) (afeMap : Table String) (hb : template.Baseline)
    (hno : ∀ s ∈ model.stories, s.nominalZCoordinate = none)
    (hnn : ∀ s ∈ model.stories.tail, 0 ≤ s.nominalFloortoFloorHeight) :
    (∃ b r, (ForwardTranslator.new template).translate ext model hvac descriptor
        = some (b, r) ∧
      (r.m_data.levels.map (fun l => l.refht)).Pairwise (fun a b => a ≤ b)) ∧
    (∃ b r, (ForwardTranslator.new template).translateWithMap ext model afeMap hvac
        = some (b, r) ∧
      (r.m_data.levels.map (fun l => l.refht)).Pairwise (fun a b => a ≤ b)) := by
  obtain ⟨b, r, heq, hl⟩ := translate_levelsOfStories ext template model hvac descriptor hb
  obtain ⟨b2, r2, heq2, hl2⟩ :=
    translateWithMap_levelsOfStories ext template model hvac afeMap hb
  exact ⟨⟨b, r, heq, levels_nondecreasing model.stories _ hl hno hnn⟩,
    ⟨b2, r2, heq2, levels_nondecreasing model.stories _ hl2 hno hnn⟩⟩

/-- Witness of C7 (amended): two stories of nominal height 0 without explicit elevation, the
input on which the strict order fails. -/
theorem translate_levels_nondecreasing_witness :
    (∃ b r, (ForwardTranslator.new Examples.template).translate Examples.ext
        Examples.flatStories false "Average" = some (b, r) ∧
      (r.m_data.levels.map (fun l => l.refht)).Pairwise (fun a b => a ≤ b)) ∧
    (∃ b r, (ForwardTranslator.new Examples.template).translateWithMap Examples.ext
        Examples.flatStories [] false = some (b, r) ∧
      (r.m_data.levels.map (fun l => l.refht)).Pairwise (fun a b => a ≤ b)) :=
  translate_levels_nondecreasing Examples.ext Examples.template Examples.flatStories false
    "Average" [] Examples.template_baseline
    (by intro s hs; simp [Examples.flatStories] at hs; rcases hs with hs | hs <;> rw [hs])
    (by intro s hs; simp [Examples.flatStories] at hs; rw [hs])

/-- C7, counterexample: two stories of nominal height 0 without explicit elevation get the
reference heights 0 and 0, which are not strictly increasing. -/
theorem translate_flat_stories_not_increasing :
    2 ≤ Examples.flatStories.stories.length ∧
    (∀ s ∈ Examples.flatStories.stories, s.nominalZCoordinate = none) ∧
    ∃ b r, (ForwardTranslator.new Examples.template).translate Examples.ext
        Examples.flatStories false "Average" = some (b, r) ∧
      ¬ (r.m_data.levels.map (fun l => l.refht)).Pairwise (fun a b => a < b) := by
  refine ⟨by simp [Examples.flatStories], ?_, ?_⟩
  · intro s hs
    simp [Examples.flatStories] at hs
    rcases hs with hs | hs <;> rw [hs]
  · obtain ⟨b, r, heq, hlen, hpt⟩ := translate_levelsOfStories Examples.ext Examples.template
      Examples.flatStories false "Average" Examples.template_baseline
    refine ⟨b, r, heq, ?_⟩
    obtain ⟨l0, h0, hr0, _⟩ := hpt 0 _ (by simp [Examples.flatStories]; rfl)
    obtain ⟨l1, h1, hr1, _⟩ := hpt 1 _ (by simp [Examples.flatStories]; rfl)
    simp [Examples.flatStories] at hr0 hr1 hlen
    have hl : r.m_data.levels = [l0, l1] := by
      apply List.ext_getElem?
      intro n
      match n with
      | 0 => simpa using h0
      | 1 => simpa using h1
      | n + 2 =>
        have : r.m_data.levels.length ≤ n + 2 := by omega
        simp [List.getElem?_eq_none this]
    rw [hl]
    simp [hr0, hr1]

end Increasing

section LaminarCoefficient

theorem setLamCoef_pos (Ct x : ℝ) (hC : 0 < Ct) (hx : x ≠ 0) :
    ∃ c, setLamCoef Ct x = some c ∧ 0 < c := by
  have hA : 0 < Ct / (0.6 * 1.414213562) := by positivity
  have hD : 0 < Real.sqrt (Ct / (0.6 * 1.414213562)) := Real.sqrt_pos.mpr hA
  have hF : 0 < 1.81625e-5 * 30.0 * (Ct / (0.6 * 1.414213562)) /
      Real.sqrt (Ct / (0.6 * 1.414213562)) := by positivity
  have hq : 0 < 1.81625e-5 * 30.0 * (Ct / (0.6 * 1.414213562)) /
      Real.sqrt (Ct / (0.6 * 1.414213562)) / (Ct * 1.097315) := by positivity
  have hCs : Ct * 1.097315 ≠ 0 := by positivity
  have h06 : (0.6 : ℝ) * 1.414213562 ≠ 0 := by norm_num
  unfold setLamCoef
  simp only [fdiv, fsqrt, fpow, if_neg h06, Option.some_bind, if_neg (not_lt.mpr hA.le),
    if_neg hD.ne', if_neg hCs, if_neg hx, if_pos hq]
  split_ifs with h1 h2 h3
  · norm_num at h2
  · exact ⟨_, rfl, by positivity⟩
  · exfalso
    have hp := Real.rpow_pos_of_pos hq (1.0 / x)
    have : (1.20410 : ℝ) * _ ≠ 0 := mul_ne_zero (by norm_num) hp.ne'
    exact this h3
  · refine ⟨_, rfl, ?_⟩
    have hp := Real.rpow_pos_of_pos hq (1.0 / x)
    positivity

theorem turbCoef_pos (flow n deltaP : ℝ) (hf : 0 < flow) (hp : 0 < deltaP) :
    ∃ c, turbCoef flow n deltaP = some c ∧ 0 < c := by
  have hpow := Real.rpow_pos_of_pos hp n
  have hne : (1.097315 : ℝ) * deltaP ^ n ≠ 0 := by positivity
  unfold turbCoef
  simp only [fpow, if_pos hp, Option.some_bind, fdiv, if_neg hne]
  exact ⟨_, rfl, by positivity⟩

theorem turbCoef_zero_flow (n deltaP : ℝ) (hp : 0 < deltaP) :
    turbCoef 0 n deltaP = some 0 := by
  have hpow := Real.rpow_pos_of_pos hp n
  have hne : (1.097315 : ℝ) * deltaP ^ n ≠ 0 := by positivity
  unfold turbCoef
  simp only [fpow, if_pos hp, Option.some_bind, fdiv, if_neg hne]
  simp

theorem setLamCoef_zero (x : ℝ) : setLamCoef 0 x = none := by
  unfold setLamCoef
  have h06 : (0.6 : ℝ) * 1.414213562 ≠ 0 := by norm_num
  simp only [fdiv, fsqrt, if_neg h06, Option.some_bind, zero_div, lt_irrefl, if_false,
    Real.sqrt_zero, if_true, Option.none_bind]

/-- C10 (amended): the call of `addAirflowElement` with the flow 27.1, the exponent 0.65 and
the pressure difference 75.0 that the claim names, on any translator and under any name,
appends one element whose laminar coefficient is a number (neither a NaN nor an infinity) and
is positive. -/
theorem addAirflowElement_default_lam (OPNG : Int) (t : ForwardTranslator) (name : String) :
    ∃ afe c, (t.addAirflowElement OPNG name 27.1 0.65 75.0).2.m_data.airflowElements =
        t.m_data.airflowElements ++ [afe] ∧
      afe.nr = (t.addAirflowElement OPNG name 27.1 0.65 75.0).1 ∧
      afe.lam = some c ∧ 0 < c := by
  obtain ⟨ct, hct, hpos⟩ := turbCoef_pos 27.1 0.65 75.0 (by norm_num) (by norm_num)
  obtain ⟨c, hc, hcp⟩ := setLamCoef_pos ct 0.65 hpos (by norm_num)
  refine ⟨_, c, rfl, rfl, ?_, hcp⟩
  simp only [hct, Option.some_bind, hc]

/-- C10, counterexample: the call with flow 0, exponent 0.65 and pressure difference 75 has
the turbulent coefficient 0, so `setLamCoef` divides 0 by the hydraulic diameter 0 and the
laminar coefficient of the new element is not a number. -/
theorem addAirflowElement_zero_flow_lam :
    ∃ afe, ((ForwardTranslator.new Examples.template).addAirflowElement 0 "CustomExterior"
        0 0.65 75.0).2.m_data.airflowElements =
        (ForwardTranslator.new Examples.template).m_data.airflowElements ++ [afe] ∧
      afe.turb = some 0 ∧ afe.lam = none := by
  have ht := turbCoef_zero_flow 0.65 75.0 (by norm_num)
  refine ⟨_, rfl, ?_, ?_⟩
  · simpa using ht
  · simp only [ht, Option.some_bind, setLamCoef_zero]

end LaminarCoefficient

section Scenario

open model ForwardTranslator

/-- C3: the end-to-end scenario (two stories of height 3 without elevation, one zone of
volume 100 per story, one exterior wall of area 20 per zone, no air loop), translated on a
fresh translator with descriptor "Average" and without HVAC, returns true with `valid()` true
and no message of error severity, and yields exactly two levels with reference heights 3 and
6, exactly two zones (one per level, volume 100), exactly two paths, path 1 between zone 1
and the exterior index -1 and path 2 between zone 2 and the exterior index -1, and no AHS. -/
theorem translate_scenario (ext : Externals) (template : prj.Data) (hb : template.Baseline) :
    ∃ r, (ForwardTranslator.new template).translate ext Examples.scenario false "Average"
        = some (true, r) ∧
      r.valid = true ∧ r.errors = [] ∧
      r.m_data.levels.map (fun l => (l.nr, l.refht, l.delht)) = [(1, 3, 3), (2, 6, 3)] ∧
      r.m_data.zones.map (fun z => (z.nr, z.pl, z.Vol)) = [(1, 1, 100), (2, 2, 100)] ∧
      r.m_data.paths.map (fun p => (p.nr, p.pzn, p.pzm, p.mult)) =
        [(1, 1, -1, 20), (2, 2, -1, 20)] ∧
      r.m_data.ahs = [] := by
  obtain ⟨valid, rc, levels, zones, paths, afes, ahs⟩ := template
  obtain ⟨h1, h2, h3, h4⟩ := hb
  simp only at h1 h2 h3 h4
  subst h1 h2 h3 h4
  simp [ForwardTranslator.translate, ForwardTranslator.new, resetLog, checkDescriptor, afePhase,
    buildAfeMap, translateBody, storiesPhase, setDescription, translateStories, storyStep,
    networkPhases, translateZones, zoneStep, zoneLevel, zoneVolume, tableLookupQMap,
    tableLookupStdMap, translateSurfaces, surfaceStep, exteriorPath, SurfaceLoop.addPath,
    relativeHeight, finish, forEach, Outcome.bind, Outcome.map, LOG, setValid,
    Table.find, Table.value, Table.set, listAt, Examples.scenario, Examples.zoneA,
    Examples.zoneB, Examples.spaceA, Examples.spaceB, ForwardTranslator.valid,
    ForwardTranslator.errors]
  norm_num

/-- Witness of C3: the scenario on the example template. -/
theorem translate_scenario_witness :
    ∃ r, (ForwardTranslator.new Examples.template).translate Examples.ext Examples.scenario
        false "Average" = some (true, r) ∧
      r.valid = true ∧ r.errors = [] ∧
      r.m_data.levels.map (fun l => (l.nr, l.refht, l.delht)) = [(1, 3, 3), (2, 6, 3)] ∧
      r.m_data.zones.map (fun z => (z.nr, z.pl, z.Vol)) = [(1, 1, 100), (2, 2, 100)] ∧
      r.m_data.paths.map (fun p => (p.nr, p.pzn, p.pzm, p.mult)) =
        [(1, 1, -1, 20), (2, 2, -1, 20)] ∧
      r.m_data.ahs = [] :=
  translate_scenario Examples.ext Examples.template ⟨rfl, rfl, rfl, rfl⟩

end Scenario

section ZoneReferences

open model ForwardTranslator

theorem Numbered.listAt_nr {α : Type} {nr : α → Int} {l : List α} (h : Numbered nr l)
    (k : Int) (a : α) (hk : listAt l (k - 1) = some a) : nr a = k ∧ 1 ≤ k := by
  unfold listAt at hk
  split at hk
  · rename_i h0
    have := h (k - 1).toNat a hk
    exact ⟨by rw [this]; omega, by omega⟩
  · exact absurd hk (by simp)

theorem Numbered.ref_ok {zones : List prj.Zone} (h : Numbered (fun z => z.nr) zones) (k : Int)
    (h1 : 1 ≤ k) (h2 : k ≤ (zones.length : Int)) : ZoneRefOK zones k := by
  right
  refine ⟨h1, h2, ?_⟩
  obtain ⟨a, ha⟩ := listAt_of_bounds zones k h1 h2
  exact ⟨a, listAt_mem _ _ _ ha, (h.listAt_nr k a ha).1⟩

theorem Numbered.append_numbered {α : Type} (nr : α → Int) (l m : List α) (h : Numbered nr l)
    (hm : ∀ (i : Nat) (a : α), m[i]? = some a → nr a = (l.length : Int) + (i : Int) + 1) :
    Numbered nr (l ++ m) := by
  intro i a ha
  rw [List.get?_eq_getElem?] at ha
  by_cases hi : i < l.length
  · rw [List.getElem?_append_left hi] at ha
    exact h i a (by rw [List.get?_eq_getElem?]; exact ha)
  · rw [List.getElem?_append_right (by omega)] at ha
    have := hm _ a ha
    rw [this]
    omega

/-- Transfer of a path through the flow-rate step: position by position the paths differ in
the flow-rate override only. -/
theorem FlowInv.path_at {t0 t : ForwardTranslator} (h : FlowInv t0 t) (i : Nat) (p : prj.Path)
    (hp : t.m_data.paths[i]? = some p) :
    ∃ q, t0.m_data.paths[i]? = some q ∧ q.clearFahs = p.clearFahs := by
  have hm := h.2.2.2.2.2.2.2.2.2
  have h1 : (t.m_data.paths.map prj.Path.clearFahs)[i]? = some p.clearFahs := by
    rw [List.getElem?_map, hp]; rfl
  rw [hm, List.getElem?_map] at h1
  cases hq : t0.m_data.paths[i]? with
  | none => rw [hq] at h1; simp at h1
  | some q =>
    rw [hq] at h1
    simp only [Option.map_some', Option.some.injEq] at h1
    exact ⟨q, rfl, h1⟩

theorem FlowInv.path_length {t0 t : ForwardTranslator} (h : FlowInv t0 t) :
    t.m_data.paths.length = t0.m_data.paths.length := by
  have hm := congrArg List.length h.2.2.2.2.2.2.2.2.2
  simpa using hm

theorem FlowInv.path_mem {t0 t : ForwardTranslator} (h : FlowInv t0 t) (p : prj.Path)
    (hp : p ∈ t.m_data.paths) : ∃ q ∈ t0.m_data.paths, q.clearFahs = p.clearFahs := by
  obtain ⟨i, hi⟩ := List.mem_iff_getElem?.mp hp
  obtain ⟨q, hq, he⟩ := h.path_at i p hi
  exact ⟨q, List.mem_iff_getElem?.mpr ⟨i, hq⟩, he⟩

theorem clearFahs_fields (p q : prj.Path) (h : q.clearFahs = p.clearFahs) :
    q.nr = p.nr ∧ q.pzn = p.pzn ∧ q.pzm = p.pzm ∧ q.pa = p.pa ∧ q.system = p.system ∧
    q.recirculation = p.recirculation ∧ q.outsideAir = p.outsideAir ∧ q.exhaust = p.exhaust := by
  have e1 := congrArg prj.Path.nr h
  have e2 := congrArg prj.Path.pzn h
  have e3 := congrArg prj.Path.pzm h
  have e4 := congrArg prj.Path.pa h
  have e5 := congrArg prj.Path.system h
  have e6 := congrArg prj.Path.recirculation h
  have e7 := congrArg prj.Path.outsideAir h
  have e8 := congrArg prj.Path.exhaust h
  exact ⟨e1, e2, e3, e4, e5, e6, e7, e8⟩

/-- Every path appended by the loop that closes the AHS records is one of the three closing
paths of one of the records. -/
theorem ClosureInv.closure_mem {t0 t : ForwardTranslator} {i : Nat} (h : ClosureInv t0 i t)
    (hi : i ≤ t0.m_data.ahs.length) :
    ∃ cl, t.m_data.paths = t0.m_data.paths ++ cl ∧ cl.length = 3 * i ∧
      ∀ (m : Nat) (q : prj.Path), cl[m]? = some q →
        ∃ a0, t0.m_data.ahs[m / 3]? = some a0 ∧ m / 3 < i ∧
          ((m % 3 = 0 ∧ q = recircPath ((t0.m_data.paths.length : Int) + 3 * ((m / 3 : Nat) : Int)) a0) ∨
           (m % 3 = 1 ∧ q = oaPath ((t0.m_data.paths.length : Int) + 3 * ((m / 3 : Nat) : Int)) a0) ∨
           (m % 3 = 2 ∧ q = exhaustPath ((t0.m_data.paths.length : Int) + 3 * ((m / 3 : Nat) : Int)) a0)) := by
  obtain ⟨_, _, _, _, _, _, _, _, _, _, _, cl, hc1, hc2, hc3⟩ := h
  refine ⟨cl, hc1, hc2, ?_⟩
  intro m q hq
  have hm : m < cl.length := by
    by_contra hcon
    rw [List.getElem?_eq_none (by omega)] at hq
    exact absurd hq (by simp)
  have hj : m / 3 < i := by omega
  have hj2 : m / 3 < t0.m_data.ahs.length := by omega
  refine ⟨t0.m_data.ahs[m / 3], List.getElem?_eq_getElem hj2, hj, ?_⟩
  obtain ⟨g0, g1, g2⟩ := hc3 (m / 3) _ hj (List.getElem?_eq_getElem hj2)
  have hcases : m % 3 = 0 ∨ m % 3 = 1 ∨ m % 3 = 2 := by omega
  rcases hcases with hc | hc | hc
  · left
    have : 3 * (m / 3) = m := by omega
    rw [this, hq] at g0
    exact ⟨hc, Option.some.inj g0⟩
  · right; left
    have : 3 * (m / 3) + 1 = m := by omega
    rw [this, hq] at g1
    exact ⟨hc, Option.some.inj g1⟩
  · right; right
    have : 3 * (m / 3) + 2 = m := by omega
    rw [this, hq] at g2
    exact ⟨hc, Option.some.inj g2⟩

end ZoneReferences

section ZoneReferences2

open model ForwardTranslator

/-- The index `k` is the exterior index or lies within a zone list of length `n`. -/
theorem zoneRef_of_bounds {zones : List prj.Zone} (h : Numbered (fun z => z.nr) zones) (k : Int)
    (hk : k = -1 ∨ (1 ≤ k ∧ k ≤ (zones.length : Int))) : ZoneRefOK zones k := by
  rcases hk with hk | hk
  · exact Or.inl hk
  · exact h.ref_ok k hk.1 hk.2

/-- The zone list of a run that reaches the final `return true` is numbered in list order, and
every zone index of a path is the exterior index or lies within the zone list. -/
theorem NetworkRun.zone_refs {model : Model} {hvac : Bool} {t r : ForwardTranslator}
    (h : NetworkRun model hvac t r)
    (hz : t.m_data.zones = []) (hp : t.m_data.paths = []) (ha : t.m_data.ahs = [])
    (hzm : t.m_zoneMap = []) (hm : model.zoneRefsResolve) :
    Numbered (fun z => z.nr) r.m_data.zones ∧
    ∀ p ∈ r.m_data.paths,
      (p.pzn = -1 ∨ (1 ≤ p.pzn ∧ p.pzn ≤ (r.m_data.zones.length : Int))) ∧
      (p.pzm = -1 ∨ (1 ≤ p.pzm ∧ p.pzm ≤ (r.m_data.zones.length : Int))) := by
  obtain ⟨nr, tz, ts, hzi, hrun, hh⟩ := h
  obtain ⟨_, _, _, z4, z5, _, _, _, _, ⟨new, zn1, zn2, zn3, _⟩, z11, z12, _⟩ := hzi
  simp only [] at z4 z5 zn1 z11 z12
  rw [hz, List.nil_append] at zn1
  rw [hp] at z4
  rw [ha] at z5
  have hmap : ∀ e ∈ tz.m_zoneMap, 1 ≤ e.2 ∧ e.2 ≤ (new.length : Int) := by
    intro e he
    rcases z11 e he with h0 | h0
    · rw [hzm] at h0; exact absurd h0 (by simp)
    · rw [zn2]; exact h0
  obtain ⟨extra, he1, _, _, he4⟩ := hrun.paths_extend
  obtain ⟨_, s2, s3, _⟩ := hrun.run_frame
  have hstab := hrun.zoneMap_stable
  simp only [] at he1 he4 s2 s3 hstab
  rw [z4, List.nil_append] at he1
  rw [zn1] at s2 he4
  rw [z5] at s3
  have hfind : ∀ k ∈ model.thermalZones.map (fun z => z.handle),
      ∃ v, ts.t.m_zoneMap.find k = some v ∧ 1 ≤ v ∧ v ≤ (new.length : Int) := by
    intro k hk
    obtain ⟨z, hzmem, hzk⟩ := List.mem_map.mp hk
    obtain ⟨v, hv, b1, b2⟩ := z12 z hzmem
    rw [hzk] at hv
    exact ⟨v, hstab.1 k v hv, b1, by rw [zn2]; exact b2⟩
  have hsurf : ∀ p ∈ ts.t.m_data.paths,
      (p.pzn = -1 ∨ (1 ≤ p.pzn ∧ p.pzn ≤ (new.length : Int))) ∧
      (p.pzm = -1 ∨ (1 ≤ p.pzm ∧ p.pzm ≤ (new.length : Int))) := by
    intro p hpm
    rw [he1] at hpm
    obtain ⟨_, _, _, _, _, _, ⟨e, hem, _, zone, hzl, hpzn⟩, hpzm⟩ := he4 p hpm
    constructor
    · right
      rw [hpzn, (zn3.listAt_nr e.2 zone hzl).1]
      exact hmap e hem
    · rcases hpzm with h0 | ⟨a, ham, k, hk1, hk2⟩
      · exact Or.inl h0
      · right
        obtain ⟨v, hv, b1, b2⟩ := hfind k (hm.1 a ham k hk1)
        rw [hv] at hk2
        rw [← Option.some.inj hk2]
        exact ⟨b1, b2⟩
  rcases hh with ⟨_, hpost⟩ | ⟨_, hr⟩
  · obtain ⟨nr1, t1, t2, _, hair, hclo, hflow⟩ := hpost
    obtain ⟨_, _, _, _, _, _, _, _, ⟨nz, a91, a92, a93⟩, ⟨na, a101, a102, a103⟩,
      np, a111, _, a113, _⟩ := hair
    simp only [] at a91 a92 a93 a101 a102 a103 a111 a113
    rw [s2] at a91 a93 a103
    rw [s3, List.nil_append] at a101
    have hzones : r.m_data.zones = new ++ nz := by
      rw [hflow.2.1, hclo.2.1, a91]
    have hlen : (r.m_data.zones.length : Int) =
        (new.length : Int) + 2 * ((servedLoops model.airLoops).length : Int) := by
      rw [hzones, List.length_append, a92]
      push_cast
      ring
    refine ⟨?_, ?_⟩
    · rw [hzones]
      exact Numbered.append_numbered _ new nz zn3 (fun i z hi => (a93 i z hi).1)
    · intro p hpm
      obtain ⟨q, hq, hqp⟩ := hflow.path_mem p hpm
      obtain ⟨_, e2, e3, _⟩ := clearFahs_fields p q hqp
      rw [← e2, ← e3, hlen]
      obtain ⟨cl, c1, c2, c3⟩ := hclo.closure_mem (le_refl _)
      rw [c1, a111] at hq
      rcases List.mem_append.mp hq with hq1 | hq1
      · rcases List.mem_append.mp hq1 with hq2 | hq2
        · obtain ⟨b1, b2⟩ := hsurf q hq2
          constructor
          · rcases b1 with b | b
            · exact Or.inl b
            · exact Or.inr ⟨b.1, by omega⟩
          · rcases b2 with b | b
            · exact Or.inl b
            · exact Or.inr ⟨b.1, by omega⟩
        · obtain ⟨_, _, _, _, _, r1, r2⟩ := a113 q hq2
          have href : ∀ k, AirZoneRef ts.t model.airLoops k →
              k = -1 ∨ (1 ≤ k ∧ k ≤ (new.length : Int) +
                2 * ((servedLoops model.airLoops).length : Int)) := by
            intro k hk
            right
            rcases hk with ⟨k1, k2⟩ | ⟨loop, hl, z, hzl, hk⟩
            · rw [s2] at k1 k2
              exact ⟨by omega, k2⟩
            · obtain ⟨v, hv, b1, b2⟩ := hfind z.handle (hm.2 loop hl z hzl)
              rw [hk]
              unfold Table.value
              rw [hv]
              simp only [Option.getD_some]
              exact ⟨b1, by omega⟩
          exact ⟨href _ r1, href _ r2⟩
      · obtain ⟨m, hmq⟩ := List.mem_iff_getElem?.mp hq1
        obtain ⟨a0, ha0, hlt, hcase⟩ := c3 m q hmq
        rw [a101] at ha0 hlt
        obtain ⟨_, g2, g3, _⟩ := a103 (m / 3) a0 ha0
        rw [a102] at hlt
        have hlt2 : ((m / 3 : Nat) : Int) < ((servedLoops model.airLoops).length : Int) := by
          exact_mod_cast hlt
        rcases hcase with ⟨_, hq0⟩ | ⟨_, hq0⟩ | ⟨_, hq0⟩
        · rw [hq0]
          simp only [recircPath]
          exact ⟨Or.inr ⟨by omega, by omega⟩, Or.inr ⟨by omega, by omega⟩⟩
        · rw [hq0]
          simp only [oaPath]
          exact ⟨Or.inl trivial, Or.inr ⟨by omega, by omega⟩⟩
        · rw [hq0]
          simp only [exhaustPath]
          exact ⟨Or.inr ⟨by omega, by omega⟩, Or.inl trivial⟩
  · rw [hr, s2]
    exact ⟨zn3, hsurf⟩

/-- A run of the shared body that returns true on a ready translator is a run of the three
network phases that reaches the final `return true`. -/
theorem translateBody_true_run (ext : Externals) (pe : ElementChoice) (t : ForwardTranslator)
    (model : Model) (hvac : Bool) (h : Ready t) (r : ForwardTranslator)
    (heq : translateBody ext pe t model hvac = some (true, r)) :
    ∃ r0, NetworkRun model hvac (storiesPhase model t) r0 ∧ r = r0.setValid true := by
  rcases translateBody_spec ext pe t model hvac h with ⟨_, h0⟩ | ⟨_, h1 | h1⟩
  · rw [h0] at heq
    simp at heq
  · obtain ⟨r0, hrun, h2⟩ := h1
    rw [h2] at heq
    simp only [Option.some.injEq, Prod.mk.injEq, true_and] at heq
    exact ⟨r0, hrun, heq.symm⟩
  · obtain ⟨r1, _, h2⟩ := h1
    rw [h2] at heq
    simp at heq

theorem translateBody_zone_refs (ext : Externals) (pe : ElementChoice) (t : ForwardTranslator)
    (model : Model) (hvac : Bool) (h : Ready t) (hm : model.zoneRefsResolve)
    (r : ForwardTranslator) (heq : translateBody ext pe t model hvac = some (true, r)) :
    ∀ p ∈ r.m_data.paths, ZoneRefOK r.m_data.zones p.pzn ∧ ZoneRefOK r.m_data.zones p.pzm := by
  obtain ⟨r0, hrun, hr⟩ := translateBody_true_run ext pe t model hvac h r heq
  obtain ⟨hnum, hb⟩ := hrun.zone_refs (by simp [h.2.2.1]) (by simp [h.2.2.2.1])
    (by simp [h.2.2.2.2.1]) (by simp [h.2.2.2.2.2.2.1]) hm
  rw [hr]
  intro p hp
  exact ⟨zoneRef_of_bounds hnum _ (hb p hp).1, zoneRef_of_bounds hnum _ (hb p hp).2⟩

end ZoneReferences2

section ZoneReferences3

open model ForwardTranslator

/-- The translation of the example building with HVAC, evaluated: four zones, nine paths (two
from surfaces, four supply and return paths, three closing paths), one AHS, and the surface
table with the wall and the ceiling. -/
theorem Examples.building_translate (ext : Externals) :
    ∃ r, (ForwardTranslator.new Examples.template).translate ext Examples.building true
        "Average" = some (true, r) ∧
      r.m_data.zones.map (fun z => (z.nr, z.pl, z.system)) =
        [(1, 1, false), (2, 2, false), (3, 1, true), (4, 1, true)] ∧
      r.m_data.paths.map (fun p => (p.nr, p.pzn, p.pzm, p.pa, p.Fahs.isSome)) =
        [(1, 1, -1, 0, false), (2, 1, 2, 0, false), (3, 4, 1, 1, true), (4, 1, 3, 1, true),
         (5, 4, 2, 1, true), (6, 2, 3, 1, true), (7, 3, 4, 0, false), (8, -1, 4, 0, false),
         (9, 3, -1, 0, false)] ∧
      r.m_data.ahs = [prj.Ahs.mk 1 3 4 7 8 9 "AHS_1"] ∧ r.m_surfaceMap = [(31, 1), (33, 2)] := by
  simp [ForwardTranslator.translate, ForwardTranslator.new, resetLog, checkDescriptor, afePhase,
    buildAfeMap, translateBody, storiesPhase, setDescription, translateStories, storyStep,
    networkPhases, translateZones, zoneStep, zoneLevel, zoneVolume, tableLookupQMap,
    tableLookupStdMap, translateSurfaces, surfaceStep, exteriorPath, interiorStep, interiorPath,
    SurfaceLoop.addPath, Table.index,
    relativeHeight, finish, forEach, Outcome.bind, Outcome.map, LOG, setValid,
    Table.find, Table.value, Table.set, listAt, Examples.building, Examples.zoneA,
    Examples.zoneB, Examples.spaceA, Examples.spaceB, Examples.wallA, Examples.ceilingA,
    Examples.floorB, Examples.twoStories, Examples.template,
    translateHVACBlock, translateAirLoops, airloopStep, airloopAhs, airloopStart, newAhs,
    returnZone, supplyZone, servedZoneStep, connectAhs, closureStep, closeAhs, recircPath,
    oaPath, exhaustPath, setFlows, flowStep, setFahs, listModify, List.range, List.range.loop]
  decide

theorem Examples.building_zoneRefs : Examples.building.zoneRefsResolve := by
  constructor
  · intro s hs z hz
    simp only [Examples.building, List.mem_cons, List.mem_singleton, List.not_mem_nil,
      or_false] at hs
    rcases hs with hs | hs | hs <;> subst hs <;>
      simp [Surface.adjacentZone, Examples.wallA, Examples.ceilingA, Examples.floorB,
        Examples.spaceA, Examples.spaceB] at hz <;>
      subst hz <;> simp [Examples.building, Examples.zoneA, Examples.zoneB]
  · intro loop hl tz htz
    simp only [Examples.building, List.mem_singleton] at hl
    subst hl
    simp only [List.mem_cons, List.mem_singleton, List.not_mem_nil, or_false] at htz
    rcases htz with h | h <;> subst h <;> simp [Examples.building]

/-- C4: after a successful `translate` on a fresh translator (template a baseline, either
mode, with or without HVAC) of a model whose zone references resolve (as they do in every
OpenStudio model: a zone reached through an adjacent surface or an air loop is a zone of the
model), the from-zone and the to-zone index of every path are the exterior index -1 or the
index `nr` of a zone of the zone list, hence neither 0 nor beyond the list. -/
theorem translate_paths_reference_zones (ext : Externals) (template : prj.Data) (model : Model)
    (hvac : Bool) (descriptor : String) (afeMap : Table String)
    (hb : template.Baseline) (hm : model.zoneRefsResolve) :
    (∀ r, (ForwardTranslator.new template).translate ext model hvac descriptor = some (true, r) →
      ∀ p ∈ r.m_data.paths,
        ZoneRefOK r.m_data.zones p.pzn ∧ ZoneRefOK r.m_data.zones p.pzm) ∧
    (∀ r, (ForwardTranslator.new template).translateWithMap ext model afeMap hvac
        = some (true, r) →
      ∀ p ∈ r.m_data.paths,
        ZoneRefOK r.m_data.zones p.pzn ∧ ZoneRefOK r.m_data.zones p.pzm) := by
  have hr := Ready.new template hb
  constructor
  · intro r heq
    exact translateBody_zone_refs ext _ _ model hvac (translate_ready _ descriptor hr) hm r heq
  · intro r heq
    exact translateBody_zone_refs ext _ _ model hvac hr.resetLog hm r heq

/-- Witness of C4: the example building with HVAC translates, and all its nine paths
reference zones of the list or the exterior. -/
theorem translate_paths_reference_zones_witness :
    ∃ r, (ForwardTranslator.new Examples.template).translate Examples.ext Examples.building
        true "Average" = some (true, r) ∧ r.m_data.paths.length = 9 ∧
      ∀ p ∈ r.m_data.paths,
        ZoneRefOK r.m_data.zones p.pzn ∧ ZoneRefOK r.m_data.zones p.pzm := by
  obtain ⟨r, heq, _, hp, _⟩ := Examples.building_translate Examples.ext
  refine ⟨r, heq, ?_, ?_⟩
  · have := congrArg List.length hp
    simpa using this
  · exact (translate_paths_reference_zones Examples.ext Examples.template Examples.building
      true "Average" [] Examples.template_baseline Examples.building_zoneRefs).1 r heq

end ZoneReferences3

section AhsClosure

open model ForwardTranslator

/-- Counting by positions: a predicate that holds exactly at the positions `s, ..., s + c - 1`
of a list holds of `c` elements. -/
theorem countP_of_positions {α : Type} (p : α → Bool) (l : List α) (s c : Nat)
    (hs : s + c ≤ l.length)
    (h : ∀ (m : Nat) (x : α), l[m]? = some x → (p x = true ↔ s ≤ m ∧ m < s + c)) :
    l.countP p = c := by
  induction l generalizing s c with
  | nil =>
    simp at hs
    simp [hs.2]
  | cons x tl ih =>
    have hx := h 0 x (by simp)
    cases s with
    | zero =>
      cases c with
      | zero =>
        have hf : p x = false := by
          cases hp : p x with
          | false => rfl
          | true => exact absurd (hx.mp hp).2 (by omega)
        rw [List.countP_cons_of_neg _ _ (by simp [hf])]
        apply ih 0 0 (by omega)
        intro m y hy
        have := h (m + 1) y (by simpa using hy)
        rw [this]
        omega
      | succ c1 =>
        have ht : p x = true := hx.mpr ⟨by omega, by omega⟩
        rw [List.countP_cons_of_pos _ _ ht]
        congr 1
        apply ih 0 c1 (by simp at hs; omega)
        intro m y hy
        have := h (m + 1) y (by simpa using hy)
        rw [this]
        omega
    | succ s1 =>
      have hf : p x = false := by
        cases hp : p x with
        | false => rfl
        | true => exact absurd (hx.mp hp).1 (by omega)
      rw [List.countP_cons_of_neg _ _ (by simp [hf])]
      apply ih s1 c (by simp at hs; omega)
      intro m y hy
      have := h (m + 1) y (by simpa using hy)
      rw [this]
      omega

theorem FlowInv.countP_eq {t0 t : ForwardTranslator} (h : FlowInv t0 t) (f : prj.Path → Bool)
    (hf : ∀ p, f p.clearFahs = f p) :
    t.m_data.paths.countP f = t0.m_data.paths.countP f := by
  have hm := h.2.2.2.2.2.2.2.2.2
  have e1 : ∀ l : List prj.Path, (l.map prj.Path.clearFahs).countP f = l.countP f := by
    intro l
    rw [List.countP_map]
    congr 1
    funext p
    exact hf p
  rw [← e1 t.m_data.paths, ← e1 t0.m_data.paths, hm]

/-- The path of the result at a position where the flow-rate step found the path `q`. -/
theorem FlowInv.path_from {t0 t : ForwardTranslator} (h : FlowInv t0 t) (i : Nat)
    (q : prj.Path) (hq : t0.m_data.paths[i]? = some q) :
    ∃ p, t.m_data.paths[i]? = some p ∧ q.clearFahs = p.clearFahs := by
  have hlen := h.path_length
  have hi : i < t0.m_data.paths.length := by
    by_contra hcon
    rw [List.getElem?_eq_none (by omega)] at hq
    exact absurd hq (by simp)
  have hi2 : i < t.m_data.paths.length := by omega
  obtain ⟨q1, hq1, he⟩ := h.path_at i _ (List.getElem?_eq_getElem hi2)
  rw [hq] at hq1
  rw [Option.some.inj hq1]
  exact ⟨_, List.getElem?_eq_getElem hi2, he⟩

end AhsClosure

section AhsClosure2

open model ForwardTranslator

theorem clearFahs_closedBy (a : prj.Ahs) (p : prj.Path) :
    a.closedBy p.clearFahs = a.closedBy p := rfl

theorem clearFahs_recirculationOf (a : prj.Ahs) (p : prj.Path) :
    a.recirculationOf p.clearFahs = a.recirculationOf p := rfl

theorem clearFahs_outsideAirOf (a : prj.Ahs) (p : prj.Path) :
    a.outsideAirOf p.clearFahs = a.outsideAirOf p := rfl

theorem clearFahs_exhaustOf (a : prj.Ahs) (p : prj.Path) :
    a.exhaustOf p.clearFahs = a.exhaustOf p := rfl

/-- The AHS records and the paths after the air loop phase and the closing loop, started from
a translator without AHS records whose paths are surface paths. -/
theorem HvacPost.post_ahs_closed {model : Model} {t r : ForwardTranslator} (h : HvacPost model t r)
    (ha : t.m_data.ahs = [])
    (hp : ∀ p ∈ t.m_data.paths, p.pa = 0 ∧ p.notClosure) : AhsClosed model r := by
  obtain ⟨nr1, t1, t2, _, hair, hclo, hflow⟩ := h
  obtain ⟨_, _, _, _, _, _, _, _, _, ⟨na, a101, a102, a103⟩, np, a111, _, a113, a114⟩ := hair
  simp only [] at a101 a102 a103 a111 a113 a114
  rw [ha, List.nil_append] at a101
  obtain ⟨cl, c1, c2, c3⟩ := hclo.closure_mem (le_refl _)
  have hahs := hclo.2.2.2.2.2.2.2.2.2.1
  have hlenahs := hclo.2.2.2.2.2.2.2.1
  rw [a101] at c2 c3 hahs hlenahs
  rw [a102] at c2
  have hrahs : r.m_data.ahs = t2.m_data.ahs := hflow.2.2.1
  refine ⟨by rw [hrahs, hlenahs, a102], ?_⟩
  intro j a loop hja hjl
  rw [hrahs] at hja
  have hjS : j < (servedLoops model.airLoops).length := by
    by_contra hcon
    rw [List.getElem?_eq_none (by omega)] at hjl
    exact absurd hjl (by simp)
  have hjna : j < na.length := by omega
  have ha0 : na[j]? = some na[j] := List.getElem?_eq_getElem hjna
  obtain ⟨g1, g2, g3, _⟩ := a103 j _ ha0
  have hclose := hahs j _ hjna ha0
  rw [hja] at hclose
  have haeq : a = closeAhs ((t1.m_data.paths.length : Int) + 3 * (j : Int)) na[j] :=
    Option.some.inj hclose
  have hbase : ∀ p ∈ t1.m_data.paths, p.pa ≠ 0 → p ∈ np := by
    intro p hpm hne
    rw [a111] at hpm
    rcases List.mem_append.mp hpm with h0 | h0
    · exact absurd (hp p h0).1 hne
    · exact h0
  have hbaseNC : ∀ p ∈ t1.m_data.paths, p.notClosure := by
    intro p hpm
    rw [a111] at hpm
    rcases List.mem_append.mp hpm with h0 | h0
    · exact (hp p h0).2
    · exact (a113 p h0).2.2.2.1
  -- the shape of the path at every position of the list after the closing loop
  have hidx : ∀ (m : Nat) (x : prj.Path), t2.m_data.paths[m]? = some x →
      (m < t1.m_data.paths.length ∧ x.notClosure) ∨
      (t1.m_data.paths.length ≤ m ∧ ∃ a1, na[(m - t1.m_data.paths.length) / 3]? = some a1 ∧
        (m - t1.m_data.paths.length) / 3 < (servedLoops model.airLoops).length ∧
        (((m - t1.m_data.paths.length) % 3 = 0 ∧ x = recircPath ((t1.m_data.paths.length : Int)
            + 3 * (((m - t1.m_data.paths.length) / 3 : Nat) : Int)) a1) ∨
         ((m - t1.m_data.paths.length) % 3 = 1 ∧ x = oaPath ((t1.m_data.paths.length : Int)
            + 3 * (((m - t1.m_data.paths.length) / 3 : Nat) : Int)) a1) ∨
         ((m - t1.m_data.paths.length) % 3 = 2 ∧ x = exhaustPath ((t1.m_data.paths.length : Int)
            + 3 * (((m - t1.m_data.paths.length) / 3 : Nat) : Int)) a1))) := by
    intro m x hx
    rw [c1] at hx
    by_cases hm : m < t1.m_data.paths.length
    · left
      rw [List.getElem?_append_left hm] at hx
      exact ⟨hm, hbaseNC x (List.mem_iff_getElem?.mpr ⟨m, hx⟩)⟩
    · right
      rw [List.getElem?_append_right (by omega)] at hx
      obtain ⟨a1, q1, q2, q3⟩ := c3 _ x hx
      exact ⟨by omega, a1, q1, by omega, q3⟩
  have hzr : ∀ (k : Nat) (a1 : prj.Ahs), na[k]? = some a1 →
      a1.zone_r = (t.m_data.zones.length : Int) + 2 * (k : Int) + 1 ∧
      a1.zone_s = (t.m_data.zones.length : Int) + 2 * (k : Int) + 2 := by
    intro k a1 hk
    obtain ⟨_, q2, q3, _⟩ := a103 k a1 hk
    exact ⟨q2, q3⟩
  have hlen2 : t2.m_data.paths.length =
      t1.m_data.paths.length + 3 * (servedLoops model.airLoops).length := by
    rw [c1, List.length_append, c2]
  have hfr : a.zone_r = (t.m_data.zones.length : Int) + 2 * (j : Int) + 1 := by
    rw [haeq]; exact g2
  have hfs : a.zone_s = (t.m_data.zones.length : Int) + 2 * (j : Int) + 2 := by
    rw [haeq]; exact g3
  -- the three counts of closing paths
  have hcount : ∀ (f : prj.Path → Bool) (off c : Nat), off + c ≤ 3 →
      (∀ (m : Nat) (x : prj.Path), t2.m_data.paths[m]? = some x →
        (f x = true ↔ t1.m_data.paths.length + 3 * j + off ≤ m ∧
          m < t1.m_data.paths.length + 3 * j + off + c)) →
      t2.m_data.paths.countP f = c := by
    intro f off c hoc hf
    apply countP_of_positions f _ (t1.m_data.paths.length + 3 * j + off) c
    · rw [hlen2]; omega
    · exact hf
  have hpos : ∀ off, off < 3 → ∃ x p a1, cl[3 * j + off]? = some x ∧
      r.m_data.paths[t1.m_data.paths.length + 3 * j + off]? = some p ∧
      x.clearFahs = p.clearFahs ∧ na[j]? = some a1 ∧ a1 = na[j] ∧
      ((off = 0 ∧ x = recircPath ((t1.m_data.paths.length : Int) + 3 * (j : Int)) a1) ∨
       (off = 1 ∧ x = oaPath ((t1.m_data.paths.length : Int) + 3 * (j : Int)) a1) ∨
       (off = 2 ∧ x = exhaustPath ((t1.m_data.paths.length : Int) + 3 * (j : Int)) a1)) := by
    intro off hoff
    have hlt : 3 * j + off < cl.length := by omega
    have hx : cl[3 * j + off]? = some cl[3 * j + off] := List.getElem?_eq_getElem hlt
    have hx2 : t2.m_data.paths[t1.m_data.paths.length + 3 * j + off]? =
        some cl[3 * j + off] := by
      rw [c1, List.getElem?_append_right (by omega)]
      have : t1.m_data.paths.length + 3 * j + off - t1.m_data.paths.length = 3 * j + off := by
        omega
      rw [this]
      exact hx
    obtain ⟨p, hp1, hp2⟩ := hflow.path_from _ _ hx2
    obtain ⟨a1, q1, _, q3⟩ := c3 _ _ hx
    have hdiv : (3 * j + off) / 3 = j := by omega
    rw [hdiv] at q1 q3
    have ha1 : a1 = na[j] := by
      rw [ha0] at q1
      exact (Option.some.inj q1).symm
    refine ⟨_, p, a1, hx, hp1, hp2, q1, ha1, ?_⟩
    rcases q3 with ⟨q4, q⟩ | ⟨q4, q⟩ | ⟨q4, q⟩
    · exact Or.inl ⟨by omega, q⟩
    · exact Or.inr (Or.inl ⟨by omega, q⟩)
    · exact Or.inr (Or.inr ⟨by omega, q⟩)
  refine ⟨by rw [haeq]; exact g1, ?_, ?_, ?_, ?_, ?_, ?_, ?_, ?_, ?_, ?_, ?_⟩
  · -- paths carrying the index of the AHS
    rw [← List.countP_eq_length_filter,
      hflow.countP_eq (fun p => decide (p.pa = a.nr)) (fun p => rfl), c1, a111]
    rw [List.countP_append, List.countP_append]
    have hnr : a.nr = (j : Int) + 1 := by rw [haeq]; exact g1
    have e1 : t.m_data.paths.countP (fun p => decide (p.pa = a.nr)) = 0 := by
      rw [List.countP_eq_zero]
      intro p hpm
      simp only [decide_eq_true_eq]
      rw [(hp p hpm).1, hnr]
      omega
    have e2 : cl.countP (fun p => decide (p.pa = a.nr)) = 0 := by
      rw [List.countP_eq_zero]
      intro p hpm
      simp only [decide_eq_true_eq]
      obtain ⟨m, hm⟩ := List.mem_iff_getElem?.mp hpm
      obtain ⟨a1, _, _, q3⟩ := c3 m p hm
      rcases q3 with ⟨_, q⟩ | ⟨_, q⟩ | ⟨_, q⟩ <;> rw [q, hnr] <;>
        simp only [recircPath, oaPath, exhaustPath] <;> omega
    rw [e1, e2, hnr, List.countP_eq_length_filter, a114 j loop hjl]
    omega
  · rw [← List.countP_eq_length_filter, hflow.countP_eq _ (clearFahs_closedBy a)]
    apply hcount a.closedBy 0 3 (by omega)
    intro m x hx
    rcases hidx m x hx with ⟨hm, hnc⟩ | ⟨hm, a1, q1, q2, q3⟩
    · have : a.closedBy x = false := by
        simp [prj.Ahs.closedBy, hnc.1, hnc.2.1, hnc.2.2]
      rw [this]
      constructor
      · intro hf; exact absurd hf (by simp)
      · intro hf; omega
    · obtain ⟨z1, z2⟩ := hzr _ a1 q1
      rcases q3 with ⟨q4, q⟩ | ⟨q4, q⟩ | ⟨q4, q⟩ <;> rw [q] <;>
        simp only [prj.Ahs.closedBy, recircPath, oaPath, exhaustPath, Bool.or_true,
          Bool.true_or, Bool.or_false, Bool.true_and, Bool.or_eq_true, beq_iff_eq, hfr, hfs,
          z1, z2] <;>
        omega
  · rw [← List.countP_eq_length_filter, hflow.countP_eq _ (clearFahs_recirculationOf a)]
    apply hcount a.recirculationOf 0 1 (by omega)
    intro m x hx
    rcases hidx m x hx with ⟨hm, hnc⟩ | ⟨hm, a1, q1, q2, q3⟩
    · have : a.recirculationOf x = false := by
        simp [prj.Ahs.recirculationOf, hnc.1]
      rw [this]
      constructor
      · intro hf; exact absurd hf (by simp)
      · intro hf; omega
    · obtain ⟨z1, z2⟩ := hzr _ a1 q1
      rcases q3 with ⟨q4, q⟩ | ⟨q4, q⟩ | ⟨q4, q⟩ <;> rw [q] <;>
        simp only [prj.Ahs.recirculationOf, recircPath, oaPath, exhaustPath, Bool.false_and,
          Bool.true_and, Bool.and_eq_true, beq_iff_eq, hfr, hfs, z1, z2, Bool.false_eq_true,
          false_iff, true_and, and_true] <;>
        omega
  · rw [← List.countP_eq_length_filter, hflow.countP_eq _ (clearFahs_outsideAirOf a)]
    apply hcount a.outsideAirOf 1 1 (by omega)
    intro m x hx
    rcases hidx m x hx with ⟨hm, hnc⟩ | ⟨hm, a1, q1, q2, q3⟩
    · have : a.outsideAirOf x = false := by
        simp [prj.Ahs.outsideAirOf, hnc.2.1]
      rw [this]
      constructor
      · intro hf; exact absurd hf (by simp)
      · intro hf; omega
    · obtain ⟨z1, z2⟩ := hzr _ a1 q1
      rcases q3 with ⟨q4, q⟩ | ⟨q4, q⟩ | ⟨q4, q⟩ <;> rw [q] <;>
        simp only [prj.Ahs.outsideAirOf, recircPath, oaPath, exhaustPath, Bool.false_and,
          Bool.true_and, Bool.and_eq_true, beq_iff_eq, hfr, hfs, z1, z2, Bool.false_eq_true,
          false_iff, true_and, and_true] <;>
        omega
  · rw [← List.countP_eq_length_filter, hflow.countP_eq _ (clearFahs_exhaustOf a)]
    apply hcount a.exhaustOf 2 1 (by omega)
    intro m x hx
    rcases hidx m x hx with ⟨hm, hnc⟩ | ⟨hm, a1, q1, q2, q3⟩
    · have : a.exhaustOf x = false := by
        simp [prj.Ahs.exhaustOf, hnc.2.2]
      rw [this]
      constructor
      · intro hf; exact absurd hf (by simp)
      · intro hf; omega
    · obtain ⟨z1, z2⟩ := hzr _ a1 q1
      rcases q3 with ⟨q4, q⟩ | ⟨q4, q⟩ | ⟨q4, q⟩ <;> rw [q] <;>
        simp only [prj.Ahs.exhaustOf, recircPath, oaPath, exhaustPath, Bool.false_and,
          Bool.true_and, Bool.and_eq_true, beq_iff_eq, hfr, hfs, z1, z2, Bool.false_eq_true,
          false_iff, true_and, and_true] <;>
        omega
  · rw [haeq]; simp only [closeAhs, recircPath, oaPath, exhaustPath]; omega
  · rw [haeq]; simp only [closeAhs, recircPath, oaPath, exhaustPath]; omega
  · rw [haeq]; simp only [closeAhs, recircPath, oaPath, exhaustPath]; omega
  · obtain ⟨x, p, a1, _, hpr, hxp, _, ha1, hk⟩ := hpos 0 (by omega)
    rcases hk with ⟨_, q⟩ | ⟨h0, _⟩ | ⟨h0, _⟩
    · obtain ⟨e1, e2, e3, _, _, e6, _⟩ := clearFahs_fields p x hxp
      have hidx0 : a.path_r - 1 = ((t1.m_data.paths.length + 3 * j + 0 : Nat) : Int) := by
        rw [haeq]; simp only [closeAhs, recircPath]; push_cast; omega
      refine ⟨p, by rw [hidx0, listAt_natCast]; exact hpr, ?_, ?_⟩
      · rw [← e1, q, haeq]; rfl
      · rw [← clearFahs_recirculationOf, ← hxp, clearFahs_recirculationOf, q, ha1, haeq]
        simp [prj.Ahs.recirculationOf, recircPath, closeAhs]
    · omega
    · omega
  · obtain ⟨x, p, a1, _, hpr, hxp, _, ha1, hk⟩ := hpos 1 (by omega)
    rcases hk with ⟨h0, _⟩ | ⟨_, q⟩ | ⟨h0, _⟩
    · omega
    · obtain ⟨e1, _⟩ := clearFahs_fields p x hxp
      have hidx0 : a.path_s - 1 = ((t1.m_data.paths.length + 3 * j + 1 : Nat) : Int) := by
        rw [haeq]; simp only [closeAhs, recircPath, oaPath]; push_cast; omega
      refine ⟨p, by rw [hidx0, listAt_natCast]; exact hpr, ?_, ?_⟩
      · rw [← e1, q, haeq]; rfl
      · rw [← clearFahs_outsideAirOf, ← hxp, clearFahs_outsideAirOf, q, ha1, haeq]
        simp [prj.Ahs.outsideAirOf, oaPath, closeAhs]
    · omega
  · obtain ⟨x, p, a1, _, hpr, hxp, _, ha1, hk⟩ := hpos 2 (by omega)
    rcases hk with ⟨h0, _⟩ | ⟨h0, _⟩ | ⟨_, q⟩
    · omega
    · omega
    · obtain ⟨e1, _⟩ := clearFahs_fields p x hxp
      have hidx0 : a.path_x - 1 = ((t1.m_data.paths.length + 3 * j + 2 : Nat) : Int) := by
        rw [haeq]; simp only [closeAhs, recircPath, oaPath, exhaustPath]; push_cast; omega
      refine ⟨p, by rw [hidx0, listAt_natCast]; exact hpr, ?_, ?_⟩
      · rw [← e1, q, haeq]; rfl
      · rw [← clearFahs_exhaustOf, ← hxp, clearFahs_exhaustOf, q, ha1, haeq]
        simp [prj.Ahs.exhaustOf, exhaustPath, closeAhs]

end AhsClosure2

section AhsClosure3

open model ForwardTranslator

theorem NetworkRun.run_ahs_closed {model : Model} {t r : ForwardTranslator}
    (h : NetworkRun model true t r) (hp : t.m_data.paths = []) (ha : t.m_data.ahs = []) :
    AhsClosed model r := by
  obtain ⟨nr, tz, ts, hzi, hrun, hh⟩ := h
  obtain ⟨_, _, _, z4, z5, _⟩ := hzi
  simp only [] at z4 z5
  obtain ⟨extra, he1, _, _, he4⟩ := hrun.paths_extend
  obtain ⟨_, _, s3, _⟩ := hrun.run_frame
  simp only [] at he1 s3
  rw [z4, hp, List.nil_append] at he1
  rw [z5, ha] at s3
  rcases hh with ⟨_, hpost⟩ | ⟨hf, _⟩
  · apply hpost.post_ahs_closed s3
    intro p hpm
    rw [he1] at hpm
    obtain ⟨q1, _, q3, q4, q5, _⟩ := he4 p hpm
    exact ⟨q1, q3, q4, q5⟩
  · exact absurd hf (by simp)

theorem translateBody_ahs_closed (ext : Externals) (pe : ElementChoice) (t : ForwardTranslator)
    (model : Model) (h : Ready t) (r : ForwardTranslator)
    (heq : translateBody ext pe t model true = some (true, r)) : AhsClosed model r := by
  obtain ⟨r0, hrun, hr⟩ := translateBody_true_run ext pe t model true h r heq
  have := hrun.run_ahs_closed (by simp [h.2.2.2.1]) (by simp [h.2.2.2.2.1])
  rw [hr]
  exact this

/-- C9: after a successful `translate` with HVAC on a fresh translator (template a baseline,
either mode) there is one AHS record per air loop that serves a zone, in order, and for the
record of a loop serving `k` zones: exactly `2 * k` paths carry the index of the AHS, exactly
three closing paths belong to it (one recirculation, one outside air, one exhaust), and the
stored recirculation, outside air and exhaust path indices are pairwise distinct and each is
the index of the path at that position of the path list, which carries the matching flag. -/
theorem translate_ahs_closure (ext : Externals) (template : prj.Data) (model : Model)
    (descriptor : String) (afeMap : Table String) (hb : template.Baseline) :
    (∀ r, (ForwardTranslator.new template).translate ext model true descriptor = some (true, r) →
      AhsClosed model r) ∧
    (∀ r, (ForwardTranslator.new template).translateWithMap ext model afeMap true
        = some (true, r) → AhsClosed model r) := by
  have hr := Ready.new template hb
  constructor
  · intro r heq
    exact translateBody_ahs_closed ext _ _ model (translate_ready _ descriptor hr) r heq
  · intro r heq
    exact translateBody_ahs_closed ext _ _ model hr.resetLog r heq

/-- Witness of C9: the example building, whose one air loop serves two zones, translates with
HVAC to one AHS record, closed as stated. -/
theorem translate_ahs_closure_witness :
    ∃ r, (ForwardTranslator.new Examples.template).translate Examples.ext Examples.building
        true "Average" = some (true, r) ∧
      r.m_data.ahs = [prj.Ahs.mk 1 3 4 7 8 9 "AHS_1"] ∧ AhsClosed Examples.building r := by
  obtain ⟨r, heq, _, _, ha, _⟩ := Examples.building_translate Examples.ext
  exact ⟨r, heq, ha, (translate_ahs_closure Examples.ext Examples.template Examples.building
    "Average" [] Examples.template_baseline).1 r heq⟩

end AhsClosure3

section LogShift

open model ForwardTranslator

theorem foldl_comm {σ α : Type} (f : σ → α → σ) (g : σ → σ)
    (h : ∀ s a, f (g s) a = g (f s a)) (l : List α) (s : σ) :
    l.foldl f (g s) = g (l.foldl f s) := by
  induction l generalizing s with
  | nil => rfl
  | cons a rest ih => simp only [List.foldl_cons, h, ih]

theorem forEach_comm {σ α : Type} (body : σ → α → Outcome σ) (g : σ → σ)
    (h : ∀ s a, body (g s) a = (body s a).map g) (l : List α) (s : σ) :
    forEach body l (g s) = (forEach body l s).map g := by
  induction l generalizing s with
  | nil => rfl
  | cons a rest ih =>
    simp only [forEach, h]
    cases body s a with
    | next s1 => simp only [Outcome.map]; exact ih s1
    | abort s1 => rfl
    | outOfRange => rfl

theorem Outcome.map_map {σ τ υ : Type} (f : σ → τ) (g : τ → υ) (o : Outcome σ) :
    (o.map f).map g = o.map (fun s => g (f s)) := by
  cases o <;> rfl

theorem shiftLog_LOG (t : ForwardTranslator) (w : LogMessage) (l : LogLevel) (msg : String) :
    (t.shiftLog w).LOG l msg = (t.LOG l msg).shiftLog w := by
  unfold LOG
  split <;> rfl

theorem shiftLog_setValid (t : ForwardTranslator) (w : LogMessage) (v : Bool) :
    (t.shiftLog w).setValid v = (t.setValid v).shiftLog w := rfl

theorem shiftLog_tableLookupQMap (t : ForwardTranslator) (w : LogMessage) (m : Table Handle)
    (h : Handle) (name : String) :
    (t.shiftLog w).tableLookupQMap m h name =
      ((t.tableLookupQMap m h name).1, (t.tableLookupQMap m h name).2.shiftLog w) := by
  unfold tableLookupQMap
  simp only []
  split
  · simp only [shiftLog_LOG]
  · rfl

theorem shiftLog_tableLookupStdMap (t : ForwardTranslator) (w : LogMessage) (m : Table Handle)
    (h : Handle) (name : String) :
    (t.shiftLog w).tableLookupStdMap m h name =
      ((t.tableLookupStdMap m h name).1, (t.tableLookupStdMap m h name).2.shiftLog w) := by
  unfold tableLookupStdMap
  split
  · simp only [shiftLog_LOG]
  · rfl

theorem shiftLog_storyStep (w : LogMessage) (s : Int × ℚ × ForwardTranslator)
    (b : BuildingStory) :
    storyStep (s.1, s.2.1, s.2.2.shiftLog w) b =
      ((storyStep s b).1, (storyStep s b).2.1, (storyStep s b).2.2.shiftLog w) := rfl

theorem shiftLog_translateStories (w : LogMessage) (stories : List BuildingStory)
    (t : ForwardTranslator) :
    translateStories stories (t.shiftLog w) =
      ((translateStories stories t).1, (translateStories stories t).2.1,
        (translateStories stories t).2.2.shiftLog w) := by
  unfold translateStories
  exact foldl_comm storyStep (fun s => (s.1, s.2.1, s.2.2.shiftLog w))
    (fun s b => shiftLog_storyStep w s b) stories (1, 0, t)

theorem shiftLog_storiesPhase (w : LogMessage) (model : Model) (t : ForwardTranslator) :
    storiesPhase model (t.shiftLog w) = (storiesPhase model t).shiftLog w := by
  unfold storiesPhase
  have : (t.shiftLog w).setDescription model = (t.setDescription model).shiftLog w := rfl
  rw [this, shiftLog_translateStories]
  rfl

theorem shiftLog_zoneVolume (w : LogMessage) (t : ForwardTranslator) (z : ThermalZone) :
    zoneVolume (t.shiftLog w) z = ((zoneVolume t z).1, (zoneVolume t z).2.shiftLog w) := by
  unfold zoneVolume
  split
  · rfl
  · simp only []
    split
    · simp only [shiftLog_LOG]
    · rfl

theorem shiftLog_zoneLevel (w : LogMessage) (t : ForwardTranslator) (spaces : List Space) :
    zoneLevel (t.shiftLog w) spaces = ((zoneLevel t spaces).1, (zoneLevel t spaces).2.shiftLog w) := by
  induction spaces with
  | nil => rfl
  | cons s rest ih =>
    unfold zoneLevel
    split
    · exact shiftLog_tableLookupQMap t w _ _ _
    · exact ih

theorem shiftLog_zoneStep (w : LogMessage) (s : Int × ForwardTranslator) (z : ThermalZone) :
    zoneStep (s.1, s.2.shiftLog w) z = (zoneStep s z).map (fun r => (r.1, r.2.shiftLog w)) := by
  unfold zoneStep
  simp only []
  have e1 : ({ s.2.shiftLog w with m_zoneMap := s.2.m_zoneMap.set z.handle (s.1 + 1) }
      : ForwardTranslator) =
      ({ s.2 with m_zoneMap := s.2.m_zoneMap.set z.handle (s.1 + 1) }
        : ForwardTranslator).shiftLog w := rfl
  have e0 : (s.2.shiftLog w).m_zoneMap = s.2.m_zoneMap := rfl
  rw [e0, e1, shiftLog_zoneVolume]
  simp only []
  rw [shiftLog_zoneLevel]
  simp only []
  split
  · rfl
  · simp only [Outcome.map, shiftLog_LOG, shiftLog_setValid]

theorem shiftLog_translateZones (w : LogMessage) (zs : List ThermalZone)
    (t : ForwardTranslator) :
    translateZones zs (t.shiftLog w) = (translateZones zs t).map (fun r => r.shiftLog w) := by
  unfold translateZones
  have := forEach_comm zoneStep (fun r : Int × ForwardTranslator => (r.1, r.2.shiftLog w))
    (fun s a => shiftLog_zoneStep w s a) zs (0, t)
  simp only [] at this
  rw [this, Outcome.map_map, Outcome.map_map]

end LogShift

section LogShift2

open model ForwardTranslator

theorem shiftLog_addPath (w : LogMessage) (s : SurfaceLoop) (t : ForwardTranslator)
    (h : Handle) (p : prj.Path) :
    (s.shiftLog w).addPath (t.shiftLog w) h p = (s.addPath t h p).shiftLog w := rfl

theorem shiftLog_interiorStep (w : LogMessage) (pe : ElementChoice) (s : SurfaceLoop)
    (t : ForwardTranslator) (surface : Surface) (tz : Handle) (zone : prj.Zone)
    (path : prj.Path) :
    interiorStep pe (s.shiftLog w) (t.shiftLog w) surface tz zone path =
      (interiorStep pe s t surface tz zone path).map (fun r => r.shiftLog w) := by
  unfold interiorStep
  split
  · simp only [Outcome.map, shiftLog_LOG, shiftLog_setValid]; rfl
  · split
    · simp only [Outcome.map, shiftLog_LOG, shiftLog_setValid]; rfl
    · split
      · simp only [Outcome.map, shiftLog_LOG, shiftLog_setValid]; rfl
      · split
        · rfl
        · rfl

theorem shiftLog_surfaceStep (w : LogMessage) (ext : Externals) (pe : ElementChoice) (wh : ℚ)
    (s : SurfaceLoop) (surface : Surface) :
    surfaceStep ext pe wh (s.shiftLog w) surface =
      (surfaceStep ext pe wh s surface).map (fun r => r.shiftLog w) := by
  unfold surfaceStep
  have e0 : (s.shiftLog w).used = s.used := rfl
  have e1 : (s.shiftLog w).t = s.t.shiftLog w := rfl
  have e2 : (s.t.shiftLog w).m_zoneMap = s.t.m_zoneMap := rfl
  simp only [e0, e1, e2, shiftLog_tableLookupStdMap]
  split
  · split
    · simp only [Outcome.map, shiftLog_LOG]; rfl
    · split
      · simp only [Outcome.map, shiftLog_LOG]; rfl
      · split
        · rfl
        · have e3 : ∀ t : ForwardTranslator, (t.shiftLog w).m_data = t.m_data := fun _ => rfl
          simp only [e3]
          split
          · rfl
          · split
            · rfl
            · split
              · rfl
              · split
                · exact shiftLog_interiorStep w pe s _ surface _ _ _
                · rfl
  · rfl

theorem shiftLog_translateSurfaces (w : LogMessage) (ext : Externals) (pe : ElementChoice)
    (surfaces : List Surface) (t : ForwardTranslator) :
    translateSurfaces ext pe surfaces (t.shiftLog w) =
      (translateSurfaces ext pe surfaces t).map (fun r => r.shiftLog w) := by
  unfold translateSurfaces
  have := forEach_comm (surfaceStep ext pe t.m_data.rc.wind_H)
    (fun r : SurfaceLoop => r.shiftLog w)
    (fun s a => shiftLog_surfaceStep w ext pe _ s a) surfaces { nr := 0, used := [], t := t }
  have e : (t.shiftLog w).m_data = t.m_data := rfl
  have e2 : ({ nr := 0, used := [], t := t.shiftLog w } : SurfaceLoop) =
      ({ nr := 0, used := [], t := t } : SurfaceLoop).shiftLog w := rfl
  rw [e, e2, this, Outcome.map_map, Outcome.map_map]
  rfl

theorem shiftLog_servedZoneStep (w : LogMessage) (ahs : prj.Ahs) (t : ForwardTranslator)
    (z : ThermalZone) :
    servedZoneStep ahs (t.shiftLog w) z = (servedZoneStep ahs t z).shiftLog w := by
  unfold servedZoneStep
  have e2 : (t.shiftLog w).m_zoneMap = t.m_zoneMap := rfl
  simp only [e2, shiftLog_tableLookupStdMap]
  rfl

theorem shiftLog_airloopStep (w : LogMessage) (s : Int × ForwardTranslator)
    (loop : AirLoopHVAC) :
    airloopStep (s.1, s.2.shiftLog w) loop =
      ((airloopStep s loop).1, (airloopStep s loop).2.shiftLog w) := by
  unfold airloopStep
  split
  · rfl
  · have e1 : airloopAhs (s.1, s.2.shiftLog w) = airloopAhs s := rfl
    have e2 : airloopStart (s.1, s.2.shiftLog w) loop = (airloopStart s loop).shiftLog w := rfl
    simp only [e1, e2]
    rw [foldl_comm (servedZoneStep (airloopAhs s)) (fun t => t.shiftLog w)
      (fun t z => shiftLog_servedZoneStep w _ t z)]
    rfl

theorem shiftLog_translateAirLoops (w : LogMessage) (loops : List AirLoopHVAC)
    (t : ForwardTranslator) :
    translateAirLoops loops (t.shiftLog w) = (translateAirLoops loops t).shiftLog w := by
  unfold translateAirLoops
  have := foldl_comm airloopStep (fun r : Int × ForwardTranslator => (r.1, r.2.shiftLog w))
    (fun s a => shiftLog_airloopStep w s a) loops (0, t)
  simp only [] at this
  rw [this]

theorem shiftLog_closureStep (w : LogMessage) (t : ForwardTranslator) (i : Nat) :
    closureStep (t.shiftLog w) i = (closureStep t i).map (fun r => r.shiftLog w) := by
  unfold closureStep
  have e : (t.shiftLog w).m_data = t.m_data := rfl
  simp only [e]
  split
  · rfl
  · rfl

theorem shiftLog_connectAhs (w : LogMessage) (t : ForwardTranslator) :
    connectAhs (t.shiftLog w) = (connectAhs t).map (fun r => r.shiftLog w) := by
  unfold connectAhs
  have e : (t.shiftLog w).m_data = t.m_data := rfl
  rw [e]
  exact forEach_comm closureStep (fun r => r.shiftLog w)
    (fun s a => shiftLog_closureStep w s a) _ t

theorem shiftLog_flowStep (w : LogMessage) (t : ForwardTranslator) (z : ThermalZone) :
    flowStep (t.shiftLog w) z = (flowStep t z).map (fun r => r.shiftLog w) := by
  unfold flowStep
  have e : (t.shiftLog w).m_data = t.m_data := rfl
  have e2 : (t.shiftLog w).m_pathMap = t.m_pathMap := rfl
  simp only [e, e2]
  split
  · simp only [Outcome.map, shiftLog_LOG]
  · split
    · rfl
    · split
      · rfl
      · rfl

theorem shiftLog_setFlows (w : LogMessage) (model : Model) (t : ForwardTranslator) :
    setFlows model (t.shiftLog w) = (setFlows model t).map (fun r => r.shiftLog w) := by
  unfold setFlows
  split
  · simp only [Outcome.map]
    rw [foldl_comm (fun (t : ForwardTranslator) (_ : ThermalZone) =>
      t.LOG .Warn "Zone equipment not yet accounted for.") (fun t => t.shiftLog w)
      (fun t _ => shiftLog_LOG t w _ _)]
  · rw [shiftLog_LOG]
    exact forEach_comm flowStep (fun r => r.shiftLog w)
      (fun s a => shiftLog_flowStep w s a) _ _

theorem Outcome.bind_map_comm {σ : Type} (g : σ → σ) (o : Outcome σ) (f : σ → Outcome σ)
    (h : ∀ s, f (g s) = (f s).map g) : (o.map g).bind f = (o.bind f).map g := by
  cases o with
  | next s => exact h s
  | abort s => rfl
  | outOfRange => rfl

theorem shiftLog_translateHVACBlock (w : LogMessage) (model : Model) (t : ForwardTranslator) :
    translateHVACBlock model (t.shiftLog w) =
      (translateHVACBlock model t).map (fun r => r.shiftLog w) := by
  unfold translateHVACBlock
  rw [shiftLog_translateAirLoops, shiftLog_connectAhs]
  exact Outcome.bind_map_comm _ _ _ (fun s => shiftLog_setFlows w model s)

theorem shiftLog_networkPhases (w : LogMessage) (ext : Externals) (pe : ElementChoice)
    (model : Model) (hvac : Bool) (t : ForwardTranslator) :
    networkPhases ext pe model hvac (t.shiftLog w) =
      (networkPhases ext pe model hvac t).map (fun r => r.shiftLog w) := by
  unfold networkPhases
  rw [shiftLog_translateZones]
  rw [Outcome.bind_map_comm _ _ _ (fun s => shiftLog_translateSurfaces w ext pe _ s)]
  apply Outcome.bind_map_comm
  intro s
  split
  · exact shiftLog_translateHVACBlock w model s
  · rfl

theorem shiftLog_finish (w : LogMessage) (o : Outcome ForwardTranslator) :
    finish (o.map (fun r => r.shiftLog w)) =
      (finish o).map (fun br => (br.1, br.2.shiftLog w)) := by
  cases o <;> rfl

theorem shiftLog_translateBody (w : LogMessage) (ext : Externals) (pe : ElementChoice)
    (t : ForwardTranslator) (model : Model) (hvac : Bool) :
    translateBody ext pe (t.shiftLog w) model hvac =
      (translateBody ext pe t model hvac).map (fun br => (br.1, br.2.shiftLog w)) := by
  unfold translateBody
  simp only [shiftLog_storiesPhase]
  have e : ((storiesPhase model t).shiftLog w).m_data = (storiesPhase model t).m_data := rfl
  rw [e]
  split
  · simp only [Option.map_some', shiftLog_LOG, shiftLog_setValid]
  · rw [shiftLog_networkPhases, shiftLog_finish]

end LogShift2

section UnknownDescriptor

open model ForwardTranslator

theorem shiftLog_afePhase (w : LogMessage) (t : ForwardTranslator) :
    (t.shiftLog w).afePhase = t.afePhase.shiftLog w := by
  simp only [ForwardTranslator.afePhase, ForwardTranslator.buildAfeMap,
    ForwardTranslator.shiftLog]

theorem shiftLog_buildAfeMap (w : LogMessage) (t : ForwardTranslator) :
    (t.shiftLog w).buildAfeMap.m_afeMap = t.buildAfeMap.m_afeMap := by
  simp only [ForwardTranslator.buildAfeMap, ForwardTranslator.shiftLog]

theorem checkDescriptor_known (t : ForwardTranslator) (d : String)
    (hd : d ∈ ["Average", "Tight", "Leaky"]) : t.checkDescriptor d = (d, t) := by
  unfold checkDescriptor
  simp only []
  rw [if_pos hd]

theorem checkDescriptor_unknown (t : ForwardTranslator) (d : String)
    (hd : d ∉ ["Average", "Tight", "Leaky"]) :
    t.resetLog.checkDescriptor d = ("Average", t.resetLog.shiftLog
      { logLevel := .Warn
        logMessage := "Unknown leakage descriptor '" ++ d ++ "' using 'Average'" }) := by
  unfold checkDescriptor
  simp only []
  rw [if_neg hd]
  rfl

/-- A run with an unknown descriptor is the run with "Average" with one warning put in front
of the log. -/
theorem translate_unknown_eq (ext : Externals) (t : ForwardTranslator) (model : Model)
    (hvac : Bool) (d : String) (hd : d ∉ ["Average", "Tight", "Leaky"]) :
    t.translate ext model hvac d =
      (t.translate ext model hvac "Average").map (fun br => (br.1, br.2.shiftLog
        { logLevel := .Warn
          logMessage := "Unknown leakage descriptor '" ++ d ++ "' using 'Average'" })) := by
  unfold ForwardTranslator.translate
  simp only []
  rw [checkDescriptor_unknown t d hd, checkDescriptor_known t.resetLog "Average" (by simp)]
  simp only [shiftLog_afePhase, shiftLog_buildAfeMap, shiftLog_translateBody]

theorem shiftLog_warnings (t : ForwardTranslator) (w : LogMessage)
    (hw : w.logLevel = LogLevel.Warn) : (t.shiftLog w).warnings = w :: t.warnings := by
  unfold ForwardTranslator.warnings ForwardTranslator.shiftLog
  simp [hw]

theorem shiftLog_errors (t : ForwardTranslator) (w : LogMessage)
    (hw : w.logLevel = LogLevel.Warn) : (t.shiftLog w).errors = t.errors := by
  unfold ForwardTranslator.errors ForwardTranslator.shiftLog
  simp [hw]

/-- C6: on a fresh translator (template a baseline), for every model and HVAC flag, a
translation with a leakage descriptor that is none of "Average", "Tight" and "Leaky" returns
what the translation with "Average" returns and leaves the same network data (levels, zones,
paths with their element indices, AHS records), the same validity and the same errors; its
warnings are those of the "Average" run with exactly one more warning, in front. -/
theorem translate_unknown_descriptor (ext : Externals) (template : prj.Data) (model : Model)
    (hvac : Bool) (d : String) (hb : template.Baseline)
    (hd : d ∉ ["Average", "Tight", "Leaky"]) :
    ∃ b ra ru,
      (ForwardTranslator.new template).translate ext model hvac "Average" = some (b, ra) ∧
      (ForwardTranslator.new template).translate ext model hvac d = some (b, ru) ∧
      ru.m_data.levels = ra.m_data.levels ∧ ru.m_data.zones = ra.m_data.zones ∧
      ru.m_data.paths = ra.m_data.paths ∧ ru.m_data.ahs = ra.m_data.ahs ∧
      ru.valid = ra.valid ∧ ru.errors = ra.errors ∧
      ru.warnings = { logLevel := .Warn, logMessage :=
        "Unknown leakage descriptor '" ++ d ++ "' using 'Average'" } :: ra.warnings := by
  obtain ⟨b, ra, heq, _⟩ := translate_levelsOfStories ext template model hvac "Average" hb
  refine ⟨b, ra, ra.shiftLog { logLevel := .Warn, logMessage :=
    "Unknown leakage descriptor '" ++ d ++ "' using 'Average'" }, heq, ?_, rfl, rfl, rfl, rfl,
    rfl, shiftLog_errors _ _ rfl, shiftLog_warnings _ _ rfl⟩
  rw [translate_unknown_eq ext _ model hvac d hd, heq]
  rfl

/-- Witness of C6: the example building translated with the descriptor "Sloppy". -/
theorem translate_unknown_descriptor_witness :
    ∃ b ra ru,
      (ForwardTranslator.new Examples.template).translate Examples.ext Examples.building true
        "Average" = some (b, ra) ∧
      (ForwardTranslator.new Examples.template).translate Examples.ext Examples.building true
        "Sloppy" = some (b, ru) ∧
      ru.m_data.levels = ra.m_data.levels ∧ ru.m_data.zones = ra.m_data.zones ∧
      ru.m_data.paths = ra.m_data.paths ∧ ru.m_data.ahs = ra.m_data.ahs ∧
      ru.valid = ra.valid ∧ ru.errors = ra.errors ∧
      ru.warnings = { logLevel := .Warn, logMessage :=
        "Unknown leakage descriptor '" ++ "Sloppy" ++ "' using 'Average'" } :: ra.warnings :=
  translate_unknown_descriptor Examples.ext Examples.template Examples.building true "Sloppy"
    Examples.template_baseline (by decide)

end UnknownDescriptor

section InteriorPair

open model ForwardTranslator

theorem nodup_handles_split {l1 l2 : List Surface} {a : Surface}
    (h : ((l1 ++ a :: l2).map (fun s => s.handle)).Nodup) :
    (∀ x ∈ l1, x.handle ≠ a.handle) ∧ (∀ x ∈ l2, x.handle ≠ a.handle) := by
  rw [List.map_append, List.map_cons, List.nodup_append] at h
  obtain ⟨_, h2, h3⟩ := h
  rw [List.nodup_cons] at h2
  constructor
  · intro x hx heq
    exact h3 (List.mem_map.mpr ⟨x, hx, rfl⟩) (by rw [heq]; exact List.mem_cons_self _ _)
  · intro x hx heq
    exact h2.1 (by rw [← heq]; exact List.mem_map.mpr ⟨x, hx, rfl⟩)

theorem usedDelta_mem (a : Surface) (k : Handle) (h : k ∈ usedDelta a) :
    ∃ x, a.adjacentSurface = some x ∧ x.handle = k := by
  unfold usedDelta at h
  split at h
  · exact absurd h (by simp)
  · split at h
    · rename_i x hx
      simp only [List.mem_singleton] at h
      exact ⟨x, hx, h.symm⟩
    · exact absurd h (by simp)

end InteriorPair

section InteriorPair2

open model ForwardTranslator

/-- The surface loop on an interior pair: the surface `A` enumerated first gets a path between
the two zones, the surface `B` enumerated later gets none. -/
theorem NetworkRun.interior_pair {model : Model} {hvac : Bool} {t r : ForwardTranslator}
    (h : NetworkRun model hvac t r)
    (hz : t.m_data.zones = []) (hp : t.m_data.paths = []) (hsm : t.m_surfaceMap = [])
    (A B : Surface) (pre mid post : List Surface)
    (hx : model.surfaces = pre ++ A :: (mid ++ B :: post))
    (hnd : (model.surfaces.map (fun s => s.handle)).Nodup)
    (hA : A.outsideBoundaryCondition = "Surface")
    (hAB : A.adjacentSurface = some B.asAdjacent)
    (honly : ∀ s ∈ model.surfaces, ∀ x, s.adjacentSurface = some x → x.handle = A.handle →
      s.handle = B.handle)
    (zA zB : Handle) (hzA : A.ownZone = some zA) (hzB : B.ownZone = some zB) (hne : zA ≠ zB)
    (hmA : zA ∈ model.thermalZones.map (fun z => z.handle)) :
    ∃ k p, r.m_surfaceMap.find A.handle = some k ∧ r.m_surfaceMap.find B.handle = none ∧
      listAt r.m_data.paths (k - 1) = some p ∧ p.nr = k ∧
      r.m_zoneMap.find zA = some p.pzn ∧ r.m_zoneMap.find zB = some p.pzm := by
  obtain ⟨nr, tz, ts, hzi, hrun, hh⟩ := h
  obtain ⟨_, _, _, z4, _, _, z7, _, _, ⟨new, zn1, zn2, zn3, _⟩, _, z12, _⟩ := hzi
  simp only [] at z4 z7 zn1 z12
  rw [hz, List.nil_append] at zn1
  rw [hp] at z4
  rw [hsm] at z7
  rw [hx] at hrun hnd
  obtain ⟨s1, hpre, hrest⟩ := hrun.split
  cases hrest with
  | cons _ _ _ s2 _ hstepA hrest2 =>
  obtain ⟨s3, hmid, hrest3⟩ := hrest2.split
  cases hrest3 with
  | cons _ _ _ s4 _ hstepB hpost =>
  obtain ⟨hpreA, hrestA⟩ := nodup_handles_split hnd
  have hnd2 : (((pre ++ A :: mid) ++ B :: post).map (fun s => s.handle)).Nodup := by
    simpa using hnd
  obtain ⟨hfrontB, hpostB⟩ := nodup_handles_split hnd2
  have hABne : A.handle ≠ B.handle := hfrontB A (by simp)
  have hAused : A.handle ∉ s1.used := by
    intro hmem
    rcases hpre.used_origin _ hmem with h0 | ⟨a, ha, hk⟩
    · simp at h0
    · obtain ⟨x, hxa, hxh⟩ := usedDelta_mem a _ hk
      have := honly a (by rw [hx]; simp [ha]) x hxa hxh
      exact hfrontB a (by simp [ha]) this
  obtain ⟨zoneA, hzoneA, hzoneAh⟩ := List.mem_map.mp hmA
  obtain ⟨v, hv, hv1, _⟩ := z12 zoneA hzoneA
  rw [hzoneAh] at hv
  have hv1s : s1.t.m_zoneMap.find zA = some v := hpre.zoneMap_stable.1 zA v hv
  have hadj : A.adjacentZone = some zB := by
    unfold Surface.adjacentZone
    rw [hAB]
    simp only [Surface.asAdjacent]
    unfold Surface.ownZone at hzB
    exact hzB
  have hcreates : SurfaceCreates s1 A :=
    ⟨hAused, zA, v, hzA, hv1s, by omega, Or.inr ⟨hA, zB, hadj, hne.symm⟩⟩
  obtain ⟨_, _, _, _, _, _, _, _, hstabA, _, hcase⟩ := hstepA
  rcases hcase with ⟨hno, _⟩ | ⟨_, hnrA, husedA, hsmA, p, hpA, hpo⟩
  · exact absurd hcreates hno
  have hBused2 : B.handle ∈ s2.used := by
    rw [husedA]
    apply List.mem_append_right
    unfold usedDelta
    rw [if_neg (by rw [hA]; decide), hAB]
    simp [Surface.asAdjacent]
  have hBused3 := hmid.used_mono _ hBused2
  obtain ⟨_, _, _, _, _, _, _, _, hstabB, _, hcaseB⟩ := hstepB
  rcases hcaseB with ⟨_, _, _, hpB, hsmB⟩ | ⟨hc, _⟩
  swap
  · exact absurd hBused3 hc.1
  have hsA : ts.t.m_surfaceMap.find A.handle = some (s1.nr + 1) := by
    rw [hpost.surfaceMap_other A.handle (fun a ha => hrestA a (by simp [ha])), hsmB,
      hmid.surfaceMap_other A.handle (fun a ha => hrestA a (by simp [ha])), hsmA]
    exact Table.find_set_self _ _ _
  have hsB : ts.t.m_surfaceMap.find B.handle = none := by
    rw [hpost.surfaceMap_other B.handle (fun a ha => hpostB a ha), hsmB,
      hmid.surfaceMap_other B.handle (fun a ha => hfrontB a (by simp [ha])), hsmA,
      Table.find_set_ne _ _ _ _ (Ne.symm hABne),
      hpre.surfaceMap_other B.handle (fun a ha => hfrontB a (by simp [ha]))]
    simp only [z7]
    rfl
  obtain ⟨e1, h11, h12, _, _⟩ := hpre.paths_extend
  simp only [] at h11 h12
  rw [z4, List.nil_append] at h11
  have hlen1 : ((s1.t.m_data.paths.length : Nat) : Int) = s1.nr := by
    rw [h11, h12]; simp
  obtain ⟨e3, h31, _⟩ := hmid.paths_extend
  obtain ⟨e5, h51, _⟩ := hpost.paths_extend
  have hidx : ts.t.m_data.paths[s1.t.m_data.paths.length]? = some p := by
    rw [h51, hpB, h31, hpA, List.append_assoc, List.append_assoc,
      List.getElem?_append_right (le_refl _)]
    simp
  obtain ⟨_, hzones1, _⟩ := hpre.run_frame
  simp only [] at hzones1
  obtain ⟨pnr, _, _, _, _, _, _, _, ⟨z, v2, zone, hz1, hz2, _, hz4, hpzn, _⟩, hzm⟩ := hpo
  rw [hzA] at hz1
  have hzz : z = zA := (Option.some.inj hz1).symm
  subst hzz
  rw [hv1s] at hz2
  have hvv : v2 = v := (Option.some.inj hz2).symm
  subst hvv
  rw [hzones1, zn1] at hz4
  have hpznv : p.pzn = v2 := by rw [hpzn]; exact (zn3.listAt_nr v2 zone hz4).1
  have hfinA : ts.t.m_zoneMap.find z = some p.pzn := by
    rw [hpznv]
    exact hpost.zoneMap_stable.1 _ _ (hstabB _ _ (hmid.zoneMap_stable.1 _ _ (hstabA _ _ hv1s)))
  have hfinB : ts.t.m_zoneMap.find zB = some p.pzm := by
    rcases hzm with ⟨hout, _⟩ | ⟨_, k, hk1, hk2⟩
    · rw [hA] at hout
      exact absurd hout (by decide)
    · rw [hadj] at hk1
      rw [← Option.some.inj hk1] at hk2
      exact hpost.zoneMap_stable.1 _ _ (hstabB _ _ (hmid.zoneMap_stable.1 _ _ hk2))
  have hk : s1.nr + 1 - 1 = ((s1.t.m_data.paths.length : Nat) : Int) := by omega
  rcases hh with ⟨_, hpost2⟩ | ⟨_, hr⟩
  · obtain ⟨_, _, f3, f4, _⟩ := hpost2.hvac_frame
    obtain ⟨nr1, t1, t2, _, hair, hclo, hflow⟩ := hpost2
    obtain ⟨_, _, _, _, _, _, _, _, _, _, np, a111, _⟩ := hair
    obtain ⟨_, _, _, _, _, _, _, _, _, _, _, cl, c1, _⟩ := hclo
    simp only [] at a111
    have hidx2 : t2.m_data.paths[s1.t.m_data.paths.length]? = some p := by
      have hlt : s1.t.m_data.paths.length < ts.t.m_data.paths.length := by
        by_contra hcon
        rw [List.getElem?_eq_none (by omega)] at hidx
        exact absurd hidx (by simp)
      rw [c1, a111, List.getElem?_append_left (by rw [List.length_append]; omega),
        List.getElem?_append_left hlt]
      exact hidx
    obtain ⟨q, hq1, hq2⟩ := hflow.path_from _ _ hidx2
    obtain ⟨e1, e2, e3, _⟩ := clearFahs_fields q p hq2
    refine ⟨s1.nr + 1, q, by rw [f4]; exact hsA, by rw [f4]; exact hsB, ?_, ?_, ?_, ?_⟩
    · rw [hk, listAt_natCast]; exact hq1
    · rw [← e1]; exact pnr
    · rw [f3, ← e2]; exact hfinA
    · rw [f3, ← e3]; exact hfinB
  · rw [hr]
    refine ⟨s1.nr + 1, p, hsA, hsB, ?_, pnr, hfinA, hfinB⟩
    rw [hk, listAt_natCast]
    exact hidx

end InteriorPair2

section InteriorPair3

open model ForwardTranslator

theorem translateBody_interior_pair (ext : Externals) (pe : ElementChoice)
    (t : ForwardTranslator) (model : Model) (hvac : Bool) (h : Ready t)
    (A B : Surface) (pre mid post : List Surface) (zA zB : Handle)
    (hx : model.surfaces = pre ++ A :: (mid ++ B :: post))
    (hnd : (model.surfaces.map (fun s => s.handle)).Nodup)
    (hA : A.outsideBoundaryCondition = "Surface")
    (hAB : A.adjacentSurface = some B.asAdjacent)
    (honly : ∀ s ∈ model.surfaces, ∀ x, s.adjacentSurface = some x → x.handle = A.handle →
      s.handle = B.handle)
    (hzA : A.ownZone = some zA) (hzB : B.ownZone = some zB) (hne : zA ≠ zB)
    (hmA : zA ∈ model.thermalZones.map (fun z => z.handle))
    (r : ForwardTranslator) (heq : translateBody ext pe t model hvac = some (true, r)) :
    ∃ k p, r.m_surfaceMap.find A.handle = some k ∧ r.m_surfaceMap.find B.handle = none ∧
      listAt r.m_data.paths (k - 1) = some p ∧ p.nr = k ∧
      r.m_zoneMap.find zA = some p.pzn ∧ r.m_zoneMap.find zB = some p.pzm := by
  obtain ⟨r0, hrun, hr⟩ := translateBody_true_run ext pe t model hvac h r heq
  have := hrun.interior_pair (by simp [h.2.2.1]) (by simp [h.2.2.2.1])
    (by simp [h.2.2.2.2.2.2.2.2]) A B pre mid post hx hnd hA hAB honly zA zB hzA hzB hne hmA
  rw [hr]
  exact this

/-- C5 (amended): after a successful `translate` on a fresh translator (template a baseline,
either mode, with or without HVAC) of a model whose surfaces have pairwise distinct handles,
for an interior pair `A`, `B` (`A` has boundary condition "Surface" and `B` as its adjacent
surface, no other surface names `A` as its adjacent surface, the two are in spaces of two
different thermal zones `zA` and `zB`, and `zA` is a zone of the model) of which `A` is
enumerated first: `A` gets a path, the path `k` of the path list, whose from-zone index is the
index of `zA` and whose to-zone index is the index of `zB`, and `B` gets no path. The roles of
`A` and `B` are those of the enumeration order, so the pair gets one path whichever of the two
surfaces comes first. -/
theorem translate_interior_pair (ext : Externals) (template : prj.Data) (model : Model)
    (hvac : Bool) (descriptor : String) (afeMap : Table String)
    (A B : Surface) (pre mid post : List Surface) (zA zB : Handle)
    (hb : template.Baseline)
    (hx : model.surfaces = pre ++ A :: (mid ++ B :: post))
    (hnd : (model.surfaces.map (fun s => s.handle)).Nodup)
    (hA : A.outsideBoundaryCondition = "Surface")
    (hAB : A.adjacentSurface = some B.asAdjacent)
    (honly : ∀ s ∈ model.surfaces, ∀ x, s.adjacentSurface = some x → x.handle = A.handle →
      s.handle = B.handle)
    (hzA : A.ownZone = some zA) (hzB : B.ownZone = some zB) (hne : zA ≠ zB)
    (hmA : zA ∈ model.thermalZones.map (fun z => z.handle)) :
    (∀ r, (ForwardTranslator.new template).translate ext model hvac descriptor = some (true, r) →
      ∃ k p, r.m_surfaceMap.find A.handle = some k ∧ r.m_surfaceMap.find B.handle = none ∧
        listAt r.m_data.paths (k - 1) = some p ∧ p.nr = k ∧
        r.m_zoneMap.find zA = some p.pzn ∧ r.m_zoneMap.find zB = some p.pzm) ∧
    (∀ r, (ForwardTranslator.new template).translateWithMap ext model afeMap hvac
        = some (true, r) →
      ∃ k p, r.m_surfaceMap.find A.handle = some k ∧ r.m_surfaceMap.find B.handle = none ∧
        listAt r.m_data.paths (k - 1) = some p ∧ p.nr = k ∧
        r.m_zoneMap.find zA = some p.pzn ∧ r.m_zoneMap.find zB = some p.pzm) := by
  have hr := Ready.new template hb
  constructor
  · intro r heq
    exact translateBody_interior_pair ext _ _ model hvac (translate_ready _ descriptor hr)
      A B pre mid post zA zB hx hnd hA hAB honly hzA hzB hne hmA r heq
  · intro r heq
    exact translateBody_interior_pair ext _ _ model hvac hr.resetLog
      A B pre mid post zA zB hx hnd hA hAB honly hzA hzB hne hmA r heq

/-- The translation of the example building with the floor enumerated before the ceiling
returns true. -/
theorem Examples.buildingSwapped_translate (ext : Externals) :
    ∃ r, (ForwardTranslator.new Examples.template).translate ext Examples.buildingSwapped true
        "Average" = some (true, r) ∧ r.m_surfaceMap = [(31, 1), (34, 2)] := by
  simp [ForwardTranslator.translate, ForwardTranslator.new, resetLog, checkDescriptor, afePhase,
    buildAfeMap, translateBody, storiesPhase, setDescription, translateStories, storyStep,
    networkPhases, translateZones, zoneStep, zoneLevel, zoneVolume, tableLookupQMap,
    tableLookupStdMap, translateSurfaces, surfaceStep, exteriorPath, interiorStep, interiorPath,
    SurfaceLoop.addPath, Table.index,
    relativeHeight, finish, forEach, Outcome.bind, Outcome.map, LOG, setValid,
    Table.find, Table.value, Table.set, listAt, Examples.building, Examples.buildingSwapped,
    Examples.zoneA,
    Examples.zoneB, Examples.spaceA, Examples.spaceB, Examples.wallA, Examples.ceilingA,
    Examples.floorB, Examples.twoStories, Examples.template,
    translateHVACBlock, translateAirLoops, airloopStep, airloopAhs, airloopStart, newAhs,
    returnZone, supplyZone, servedZoneStep, connectAhs, closureStep, closeAhs, recircPath,
    oaPath, exhaustPath, setFlows, flowStep, setFahs, listModify, List.range, List.range.loop]

/-- Witness of C5 (amended): the example building in both enumeration orders. With the
ceiling of space A first the ceiling gets the path from zone 11 to zone 12 and the floor of
space B none; with the floor first the floor gets the path from zone 12 to zone 11 and the
ceiling none. -/
theorem translate_interior_pair_witness :
    (∃ r k p, (ForwardTranslator.new Examples.template).translate Examples.ext
        Examples.building true "Average" = some (true, r) ∧
      r.m_surfaceMap.find Examples.ceilingA.handle = some k ∧
      r.m_surfaceMap.find Examples.floorB.handle = none ∧
      listAt r.m_data.paths (k - 1) = some p ∧ p.nr = k ∧
      r.m_zoneMap.find 11 = some p.pzn ∧ r.m_zoneMap.find 12 = some p.pzm) ∧
    (∃ r k p, (ForwardTranslator.new Examples.template).translate Examples.ext
        Examples.buildingSwapped true "Average" = some (true, r) ∧
      r.m_surfaceMap.find Examples.floorB.handle = some k ∧
      r.m_surfaceMap.find Examples.ceilingA.handle = none ∧
      listAt r.m_data.paths (k - 1) = some p ∧ p.nr = k ∧
      r.m_zoneMap.find 12 = some p.pzn ∧ r.m_zoneMap.find 11 = some p.pzm) := by
  constructor
  · obtain ⟨r, heq, _⟩ := Examples.building_translate Examples.ext
    obtain ⟨k, p, h⟩ := (translate_interior_pair Examples.ext Examples.template
      Examples.building true "Average" [] Examples.ceilingA Examples.floorB [Examples.wallA]
      [] [] 11 12 Examples.template_baseline rfl (by decide) rfl rfl
      (by
        intro s hs x hxs hxh
        simp only [Examples.building, List.mem_cons, List.mem_singleton, List.not_mem_nil,
          or_false] at hs
        rcases hs with hs | hs | hs <;> subst hs
        · simp [Examples.wallA] at hxs
        · simp only [Examples.ceilingA, Option.some.injEq] at hxs
          subst hxs
          simp [Examples.ceilingA] at hxh
        · rfl)
      rfl rfl (by decide) (by decide)).1 r heq
    exact ⟨r, k, p, heq, h⟩
  · obtain ⟨r, heq, _⟩ := Examples.buildingSwapped_translate Examples.ext
    obtain ⟨k, p, h⟩ := (translate_interior_pair Examples.ext Examples.template
      Examples.buildingSwapped true "Average" [] Examples.floorB Examples.ceilingA
      [Examples.wallA] [] [] 12 11 Examples.template_baseline rfl (by decide) rfl rfl
      (by
        intro s hs x hxs hxh
        simp only [Examples.buildingSwapped, Examples.building, List.mem_cons,
          List.mem_singleton, List.not_mem_nil, or_false] at hs
        rcases hs with hs | hs | hs <;> subst hs
        · simp [Examples.wallA] at hxs
        · simp only [Examples.floorB, Option.some.injEq] at hxs
          subst hxs
          simp [Examples.floorB] at hxh
        · rfl)
      rfl rfl (by decide) (by decide)).1 r heq
    exact ⟨r, k, p, heq, h⟩

/-- C5, counterexample: in the example building whose zone 13 has no level, the ceiling of
space A and the floor of space C have boundary condition "Surface", are each other's adjacent
surface and belong to spaces of the two different zones 11 and 13, yet `translate` returns
false from the zone loop and there is no path at all. -/
theorem translate_aborted_pair_no_path :
    Examples.ceilingAC ∈ Examples.buildingAborted.surfaces ∧
    Examples.floorC ∈ Examples.buildingAborted.surfaces ∧
    Examples.ceilingAC.outsideBoundaryCondition = "Surface" ∧
    Examples.floorC.outsideBoundaryCondition = "Surface" ∧
    Examples.ceilingAC.adjacentSurface = some Examples.floorC.asAdjacent ∧
    Examples.floorC.adjacentSurface = some Examples.ceilingAC.asAdjacent ∧
    Examples.ceilingAC.ownZone = some 11 ∧ Examples.floorC.ownZone = some 13 ∧
    ∃ r, (ForwardTranslator.new Examples.template).translate Examples.ext
        Examples.buildingAborted true "Average" = some (false, r) ∧
      r.m_data.paths = [] ∧ r.m_surfaceMap = [] := by
  refine ⟨by simp [Examples.buildingAborted], by simp [Examples.buildingAborted], rfl, rfl,
    rfl, rfl, rfl, rfl, ?_⟩
  simp [ForwardTranslator.translate, ForwardTranslator.new, resetLog, checkDescriptor, afePhase,
    buildAfeMap, translateBody, storiesPhase, setDescription, translateStories, storyStep,
    networkPhases, translateZones, zoneStep, zoneLevel, zoneVolume, tableLookupQMap,
    finish, forEach, Outcome.bind, Outcome.map, LOG, setValid,
    Table.find, Table.value, Table.set, Examples.buildingAborted, Examples.zoneA,
    LogLevel.toInt,
    Examples.zoneC, Examples.spaceA, Examples.spaceC, Examples.twoStories, Examples.template]

end InteriorPair3

section AirflowElementCalls

open model ForwardTranslator

/-- C20: `addAirflowElement` is total: for every name, flow, exponent and pressure drop it
appends exactly one element at the end of the element list, returns the previous element count
plus one, gives the new element that number (and the name passed), and leaves the elements
that were there, the levels, zones, paths and AHS records, the run control, the lookup tables,
the validity flag and the log unchanged. -/
theorem addAirflowElement_appends (OPNG : Int) (t : ForwardTranslator) (name : String)
    (flow n deltaP : ℝ) :
    (t.addAirflowElement OPNG name flow n deltaP).1 =
      (t.m_data.airflowElements.length : Int) + 1 ∧
    (∃ afe, (t.addAirflowElement OPNG name flow n deltaP).2.m_data.airflowElements =
        t.m_data.airflowElements ++ [afe] ∧
      afe.nr = (t.m_data.airflowElements.length : Int) + 1 ∧ afe.name = name ∧
      afe.expt = n ∧ afe.dP = deltaP ∧ afe.Flow = 1.20410 * flow / 3600.0) ∧
    (t.addAirflowElement OPNG name flow n deltaP).2.m_data.airflowElements.length =
      t.m_data.airflowElements.length + 1 ∧
    (∀ i, i < t.m_data.airflowElements.length →
      (t.addAirflowElement OPNG name flow n deltaP).2.m_data.airflowElements[i]? =
        t.m_data.airflowElements[i]?) ∧
    (t.addAirflowElement OPNG name flow n deltaP).2.m_data.levels = t.m_data.levels ∧
    (t.addAirflowElement OPNG name flow n deltaP).2.m_data.zones = t.m_data.zones ∧
    (t.addAirflowElement OPNG name flow n deltaP).2.m_data.paths = t.m_data.paths ∧
    (t.addAirflowElement OPNG name flow n deltaP).2.m_data.ahs = t.m_data.ahs ∧
    (t.addAirflowElement OPNG name flow n deltaP).2.m_data.rc = t.m_data.rc ∧
    (t.addAirflowElement OPNG name flow n deltaP).2.m_data.valid = t.m_data.valid ∧
    (t.addAirflowElement OPNG name flow n deltaP).2.m_zoneMap = t.m_zoneMap ∧
    (t.addAirflowElement OPNG name flow n deltaP).2.m_surfaceMap = t.m_surfaceMap ∧
    (t.addAirflowElement OPNG name flow n deltaP).2.m_levelMap = t.m_levelMap ∧
    (t.addAirflowElement OPNG name flow n deltaP).2.m_valid = t.m_valid ∧
    (t.addAirflowElement OPNG name flow n deltaP).2.m_logSink = t.m_logSink := by
  refine ⟨rfl, ⟨_, rfl, rfl, rfl, rfl, rfl, rfl⟩, ?_, ?_, rfl, rfl, rfl, rfl, rfl, rfl, rfl,
    rfl, rfl, rfl, rfl⟩
  · simp [ForwardTranslator.addAirflowElement]
  · intro i hi
    simp only [ForwardTranslator.addAirflowElement]
    exact List.getElem?_append_left hi

end AirflowElementCalls

section RateModeProofs

open model ForwardTranslator

theorem addAirflowElement_eq (OPNG : Int) (t : ForwardTranslator) (name : String) (flow : ℝ)
    (k : Int) (hk : (t.m_data.airflowElements.length : Int) + 1 = k) :
    t.addAirflowElement OPNG name flow 0.65 75.0 =
      (k, { t with m_data := { t.m_data with airflowElements := t.m_data.airflowElements ++
          [derivedElement OPNG k name flow] } }) := by
  subst hk
  rfl

/-- C19: the overload `translate(model, leakageRate, translateHVAC)` on a translator holding
`N` airflow elements is the empirical-rate mode of the specification: it appends the four
elements CustomExterior, CustomRoof, CustomInterior and CustomFloor with the numbers `N + 1`,
..., `N + 4`, interior and floor derived from twice the rate of exterior and roof (their
reference mass flow is exactly double), and then returns what the explicit-map overload
returns on that translator with the map of exterior, roof, interior and floor to `N + 1`,
..., `N + 4`. -/
theorem translateWithRate_refines (ext : Externals) (OPNG : Int) (t : ForwardTranslator)
    (model : Model) (leakageRate : ℝ) (translateHVAC : Bool) :
    t.translateWithRate ext OPNG model leakageRate translateHVAC =
      t.translateWithRateSpec ext OPNG model leakageRate translateHVAC ∧
    (∀ nr name, (derivedElement OPNG nr name (2 * leakageRate)).Flow =
      2 * (derivedElement OPNG nr name leakageRate).Flow) := by
  constructor
  · unfold ForwardTranslator.translateWithRate ForwardTranslator.translateWithRateSpec
    simp only []
    rw [addAirflowElement_eq OPNG t "CustomExterior" leakageRate _ rfl]
    simp only []
    rw [addAirflowElement_eq OPNG _ "CustomRoof" leakageRate
      ((t.m_data.airflowElements.length : Int) + 2) (by simp; ring)]
    simp only []
    rw [addAirflowElement_eq OPNG _ "CustomInterior" (2 * leakageRate)
      ((t.m_data.airflowElements.length : Int) + 3) (by simp; ring)]
    simp only []
    rw [addAirflowElement_eq OPNG _ "CustomFloor" (2 * leakageRate)
      ((t.m_data.airflowElements.length : Int) + 4) (by simp; ring)]
    simp only [List.append_assoc, List.singleton_append]
    rfl
  · intro nr name
    simp only [derivedElement]
    ring

end RateModeProofs

section Decomposition

open model ForwardTranslator

theorem Outcome.bind_eq_next {σ : Type} (o : Outcome σ) (f : σ → Outcome σ) (r : σ) :
    o.bind f = .next r ↔ ∃ s, o = .next s ∧ f s = .next r := by
  cases o with
  | next s => simp [Outcome.bind]
  | abort s => simp [Outcome.bind]
  | outOfRange => simp [Outcome.bind]

theorem Outcome.bind_eq_abort {σ : Type} (o : Outcome σ) (f : σ → Outcome σ) (r : σ) :
    o.bind f = .abort r ↔ o = .abort r ∨ ∃ s, o = .next s ∧ f s = .abort r := by
  cases o with
  | next s => simp [Outcome.bind]
  | abort s => simp [Outcome.bind]
  | outOfRange => simp [Outcome.bind]

theorem Outcome.map_eq_next {σ τ : Type} (o : Outcome σ) (g : σ → τ) (r : τ) :
    o.map g = .next r ↔ ∃ s, o = .next s ∧ g s = r := by
  cases o with
  | next s => simp [Outcome.map]
  | abort s => simp [Outcome.map]
  | outOfRange => simp [Outcome.map]

theorem Outcome.map_eq_abort {σ τ : Type} (o : Outcome σ) (g : σ → τ) (r : τ) :
    o.map g = .abort r ↔ ∃ s, o = .abort s ∧ g s = r := by
  cases o with
  | next s => simp [Outcome.map]
  | abort s => simp [Outcome.map]
  | outOfRange => simp [Outcome.map]

theorem finish_eq_true (o : Outcome ForwardTranslator) (r : ForwardTranslator) :
    finish o = some (true, r) ↔ ∃ t, o = .next t ∧ r = t.setValid true := by
  cases o with
  | next s =>
    simp only [finish, Option.some.injEq, Prod.mk.injEq, true_and, Outcome.next.injEq]
    constructor
    · intro h; exact ⟨s, rfl, h.symm⟩
    · rintro ⟨t, h1, h2⟩; rw [h2, h1]
  | abort s => simp [finish]
  | outOfRange => simp [finish]

theorem finish_eq_false (o : Outcome ForwardTranslator) (r : ForwardTranslator) :
    finish o = some (false, r) ↔ o = .abort r := by
  cases o with
  | next s => simp [finish]
  | abort s => simp [finish]
  | outOfRange => simp [finish]

/-- The loop over a list that is split in two runs the first part, then the second. -/
theorem forEach_append {σ α : Type} (body : σ → α → Outcome σ) (xs ys : List α) (s : σ) :
    forEach body (xs ++ ys) s = (forEach body xs s).bind (forEach body ys) := by
  induction xs generalizing s with
  | nil => rfl
  | cons a rest ih =>
    simp only [List.cons_append, forEach]
    cases body s a with
    | next s1 => simp only []; exact ih s1
    | abort s1 => rfl
    | outOfRange => rfl

/-- A loop that leaves the function does so in the pass for some element, after the passes
for the elements before it fell through. -/
theorem forEach_abort_split {σ α : Type} (body : σ → α → Outcome σ) (l : List α) (s r : σ)
    (h : forEach body l s = .abort r) :
    ∃ pre a post mid, l = pre ++ a :: post ∧ forEach body pre s = .next mid ∧
      body mid a = .abort r := by
  induction l generalizing s with
  | nil => simp [forEach] at h
  | cons a rest ih =>
    unfold forEach at h
    cases hb : body s a with
    | next s1 =>
      rw [hb] at h
      obtain ⟨pre, b, post, mid, hx, hpre, hab⟩ := ih s1 h
      refine ⟨a :: pre, b, post, mid, by rw [hx]; rfl, ?_, hab⟩
      simp only [forEach, hb]
      exact hpre
    | abort s1 =>
      rw [hb] at h
      simp only [Outcome.abort.injEq] at h
      exact ⟨[], a, rest, s, rfl, rfl, by rw [hb, h]⟩
    | outOfRange =>
      rw [hb] at h
      simp at h

theorem forEach_no_abort {σ α : Type} (body : σ → α → Outcome σ)
    (hb : ∀ s a r, body s a ≠ .abort r) (l : List α) (s r : σ) :
    forEach body l s ≠ .abort r := by
  intro h
  obtain ⟨_, a, _, mid, _, _, hab⟩ := forEach_abort_split body l s r h
  exact hb mid a r hab

theorem translateHVACBlock_no_abort (model : Model) (t r : ForwardTranslator) :
    translateHVACBlock model t ≠ .abort r := by
  unfold translateHVACBlock
  intro h
  rw [Outcome.bind_eq_abort] at h
  have hclo : ∀ s i r, closureStep s i ≠ .abort r := by
    intro s i r
    unfold closureStep
    split <;> simp
  have hflow : ∀ s z r, flowStep s z ≠ .abort r := by
    intro s z r
    unfold flowStep
    simp only []
    split
    · simp
    · split
      · simp
      · split <;> simp
  rcases h with h | ⟨s, _, h⟩
  · exact forEach_no_abort closureStep hclo _ _ _ h
  · unfold setFlows at h
    split at h
    · simp at h
    · exact forEach_no_abort flowStep hflow _ _ _ h

/-- The steps of a run of the shared body that returns true. -/
theorem translateBody_true_steps (ext : Externals) (pe : ElementChoice) (t : ForwardTranslator)
    (model : Model) (hvac : Bool) (r : ForwardTranslator)
    (h : translateBody ext pe t model hvac = some (true, r)) :
    (storiesPhase model t).m_data.levels.length ≠ 0 ∧
    ∃ sz ts r0, forEach zoneStep model.thermalZones (0, storiesPhase model t) = .next sz ∧
      forEach (surfaceStep ext pe sz.2.m_data.rc.wind_H) model.surfaces
        { nr := 0, used := [], t := sz.2 } = .next ts ∧
      ((hvac = true ∧ translateHVACBlock model ts.t = .next r0) ∨ (hvac = false ∧ r0 = ts.t)) ∧
      r = r0.setValid true := by
  unfold translateBody at h
  simp only [] at h
  split at h
  · simp at h
  · rename_i hne
    refine ⟨hne, ?_⟩
    rw [finish_eq_true] at h
    obtain ⟨r0, h0, hr⟩ := h
    unfold networkPhases at h0
    rw [Outcome.bind_eq_next] at h0
    obtain ⟨t2, h1, h2⟩ := h0
    rw [Outcome.bind_eq_next] at h1
    obtain ⟨t1, h3, h4⟩ := h1
    unfold translateZones at h3
    rw [Outcome.map_eq_next] at h3
    obtain ⟨sz, h5, h6⟩ := h3
    unfold translateSurfaces at h4
    rw [Outcome.map_eq_next] at h4
    obtain ⟨ts, h7, h8⟩ := h4
    subst h6
    refine ⟨sz, ts, r0, h5, h7, ?_, hr⟩
    subst h8
    cases hvac with
    | true => exact Or.inl ⟨rfl, by simpa using h2⟩
    | false =>
      right
      simp only [Bool.false_eq_true, if_false, Outcome.next.injEq] at h2
      exact ⟨rfl, h2.symm⟩

/-- The steps of a run of the shared body that returns false: there is no level, or the zone
loop or the surface loop left the function. -/
theorem translateBody_false_steps (ext : Externals) (pe : ElementChoice)
    (t : ForwardTranslator) (model : Model) (hvac : Bool) (r : ForwardTranslator)
    (h : translateBody ext pe t model hvac = some (false, r)) :
    ((storiesPhase model t).m_data.levels.length = 0 ∧
      r = ((storiesPhase model t).LOG .Error
        "Failed to find building stories in model, translation aborted").setValid false) ∨
    ((storiesPhase model t).m_data.levels.length ≠ 0 ∧
      ∃ sr, forEach zoneStep model.thermalZones (0, storiesPhase model t) = .abort sr ∧
        r = sr.2) ∨
    ((storiesPhase model t).m_data.levels.length ≠ 0 ∧
      ∃ sz sr, forEach zoneStep model.thermalZones (0, storiesPhase model t) = .next sz ∧
        forEach (surfaceStep ext pe sz.2.m_data.rc.wind_H) model.surfaces
          { nr := 0, used := [], t := sz.2 } = .abort sr ∧ r = sr.t) := by
  unfold translateBody at h
  simp only [] at h
  split at h
  · rename_i h0
    left
    simp only [Option.some.injEq, Prod.mk.injEq, true_and] at h
    exact ⟨h0, h.symm⟩
  · rename_i hne
    right
    rw [finish_eq_false] at h
    unfold networkPhases at h
    rw [Outcome.bind_eq_abort] at h
    rcases h with h | ⟨s, _, h⟩
    · rw [Outcome.bind_eq_abort] at h
      rcases h with h | ⟨tz, h1, h2⟩
      · left
        unfold translateZones at h
        rw [Outcome.map_eq_abort] at h
        obtain ⟨sr, h3, h4⟩ := h
        exact ⟨hne, sr, h3, h4.symm⟩
      · right
        unfold translateZones at h1
        rw [Outcome.map_eq_next] at h1
        obtain ⟨sz, h3, h4⟩ := h1
        unfold translateSurfaces at h2
        rw [Outcome.map_eq_abort] at h2
        obtain ⟨sr, h5, h6⟩ := h2
        subst h4
        exact ⟨hne, sz, sr, h3, h5, h6.symm⟩
    · exfalso
      split at h
      · exact translateHVACBlock_no_abort model s r h
      · simp at h

end Decomposition

section LookupMiss

open model ForwardTranslator

theorem Table.find_index_ne {κ : Type} [DecidableEq κ] (m : Table κ) (k k2 : κ) (hne : k2 ≠ k) :
    (m.index k).2.find k2 = m.find k2 := by
  unfold Table.index
  cases hk : m.find k with
  | none => exact Table.find_set_ne m k k2 0 hne
  | some v => rfl

theorem Table.index_miss {κ : Type} [DecidableEq κ] (m : Table κ) (k : κ)
    (h : m.find k = none) : (m.index k).1 = 0 := by
  unfold Table.index
  rw [h]

theorem Table.index_set_self {κ : Type} [DecidableEq κ] (m : Table κ) (k : κ) (v : Int) :
    ((m.set k v).index k).1 = v := by
  unfold Table.index
  rw [Table.find_set_self]

theorem Table.index_set_ne {κ : Type} [DecidableEq κ] (m : Table κ) (k k2 : κ) (v : Int)
    (hne : k2 ≠ k) : ((m.set k v).index k2).1 = (m.index k2).1 := by
  unfold Table.index
  rw [Table.find_set_ne m k k2 v hne]
  cases m.find k2 <;> rfl

/-- The element indices that `findAFEs` stores for the grade "Average" are what
`operator[]` reads from the element table under the four "Avg" names, after the reads for the
grade "Leaky". -/
theorem findAFEs_average_miss (m : Table String) :
    (m.find "ExtWallAvg" = none → (elementChoice (findAFEs m) "Average").exterior = 0) ∧
    (m.find "IntWallAvg" = none → (elementChoice (findAFEs m) "Average").interior = 0) ∧
    (m.find "FloorAvg" = none → (elementChoice (findAFEs m) "Average").floor = 0) ∧
    (m.find "RoofAvg" = none → (elementChoice (findAFEs m) "Average").roof = 0) := by
  refine ⟨?_, ?_, ?_, ?_⟩ <;> intro h <;>
    simp only [elementChoice, findAFEs, List.foldl_cons, List.foldl_nil, findAFEsStep] <;>
    rw [Table.index_set_ne _ _ _ _ (by decide), Table.index_set_self] <;>
    apply Table.index_miss <;>
    simp only [Table.find_index_ne _ _ _ (show ("ExtWallAvg" : String) ≠ "ExtWallLeaky" by decide),
      Table.find_index_ne _ _ _ (show ("ExtWallAvg" : String) ≠ "IntWallLeaky" by decide),
      Table.find_index_ne _ _ _ (show ("ExtWallAvg" : String) ≠ "FloorLeaky" by decide),
      Table.find_index_ne _ _ _ (show ("ExtWallAvg" : String) ≠ "RoofLeaky" by decide),
      Table.find_index_ne _ _ _ (show ("IntWallAvg" : String) ≠ "ExtWallLeaky" by decide),
      Table.find_index_ne _ _ _ (show ("IntWallAvg" : String) ≠ "IntWallLeaky" by decide),
      Table.find_index_ne _ _ _ (show ("IntWallAvg" : String) ≠ "FloorLeaky" by decide),
      Table.find_index_ne _ _ _ (show ("IntWallAvg" : String) ≠ "RoofLeaky" by decide),
      Table.find_index_ne _ _ _ (show ("IntWallAvg" : String) ≠ "ExtWallAvg" by decide),
      Table.find_index_ne _ _ _ (show ("FloorAvg" : String) ≠ "ExtWallLeaky" by decide),
      Table.find_index_ne _ _ _ (show ("FloorAvg" : String) ≠ "IntWallLeaky" by decide),
      Table.find_index_ne _ _ _ (show ("FloorAvg" : String) ≠ "FloorLeaky" by decide),
      Table.find_index_ne _ _ _ (show ("FloorAvg" : String) ≠ "RoofLeaky" by decide),
      Table.find_index_ne _ _ _ (show ("FloorAvg" : String) ≠ "ExtWallAvg" by decide),
      Table.find_index_ne _ _ _ (show ("FloorAvg" : String) ≠ "IntWallAvg" by decide),
      Table.find_index_ne _ _ _ (show ("RoofAvg" : String) ≠ "ExtWallLeaky" by decide),
      Table.find_index_ne _ _ _ (show ("RoofAvg" : String) ≠ "IntWallLeaky" by decide),
      Table.find_index_ne _ _ _ (show ("RoofAvg" : String) ≠ "FloorLeaky" by decide),
      Table.find_index_ne _ _ _ (show ("RoofAvg" : String) ≠ "RoofLeaky" by decide),
      Table.find_index_ne _ _ _ (show ("RoofAvg" : String) ≠ "ExtWallAvg" by decide),
      Table.find_index_ne _ _ _ (show ("RoofAvg" : String) ≠ "IntWallAvg" by decide),
      Table.find_index_ne _ _ _ (show ("RoofAvg" : String) ≠ "FloorAvg" by decide), h]

end LookupMiss

section LookupMiss2

open model ForwardTranslator

theorem warnings_LOG_Warn (t : ForwardTranslator) (msg : String) :
    (t.LOG .Warn msg).warnings = t.warnings ++ [{ logLevel := .Warn, logMessage := msg }] := by
  simp [ForwardTranslator.LOG, ForwardTranslator.warnings, LogLevel.toInt]

/-- C17 (amended): a miss in one of the three `tableLookup` overloads yields index 0 and
records exactly one warning, changing nothing else of the network data. A miss in the element
tables yields index 0 as well, but through `operator[]`, which records nothing: the read of a
role key that the caller's map lacks (explicit-map mode) is 0, the index that `findAFEs`
stores for the grade "Average" is 0 when the element table lacks the template element name,
and the element phase leaves the log as it was. -/
theorem tableLookup_miss_reported (t : ForwardTranslator) (handleMap : Table Handle)
    (stringMap afeMap : Table String) (handle : Handle) (key name : String) :
    (handleMap.find handle = none →
      (t.tableLookupQMap handleMap handle name).1 = 0 ∧
      (t.tableLookupQMap handleMap handle name).2.warnings = t.warnings ++
        [{ logLevel := .Warn, logMessage :=
            "Unable to look up '" ++ toString handle ++ "' in " ++ name }] ∧
      (t.tableLookupQMap handleMap handle name).2.m_data = t.m_data) ∧
    (stringMap.find key = none →
      (t.tableLookupString stringMap key name).1 = 0 ∧
      (t.tableLookupString stringMap key name).2.warnings = t.warnings ++
        [{ logLevel := .Warn, logMessage := "Unable to look up '" ++ key ++ "' in " ++ name }] ∧
      (t.tableLookupString stringMap key name).2.m_data = t.m_data) ∧
    (handleMap.find handle = none →
      (t.tableLookupStdMap handleMap handle name).1 = 0 ∧
      (t.tableLookupStdMap handleMap handle name).2.warnings = t.warnings ++
        [{ logLevel := .Warn, logMessage :=
            "Unable to look up '" ++ toString handle ++ "' in " ++ name }] ∧
      (t.tableLookupStdMap handleMap handle name).2.m_data = t.m_data) ∧
    (afeMap.find key = none → (afeMap.index key).1 = 0) ∧
    (afeMap.find "ExtWallAvg" = none →
      (elementChoice (findAFEs afeMap) "Average").exterior = 0) ∧
    (afeMap.find "IntWallAvg" = none →
      (elementChoice (findAFEs afeMap) "Average").interior = 0) ∧
    (afeMap.find "FloorAvg" = none → (elementChoice (findAFEs afeMap) "Average").floor = 0) ∧
    (afeMap.find "RoofAvg" = none → (elementChoice (findAFEs afeMap) "Average").roof = 0) ∧
    t.afePhase.m_logSink = t.m_logSink := by
  obtain ⟨f1, f2, f3, f4⟩ := findAFEs_average_miss afeMap
  refine ⟨?_, ?_, ?_, Table.index_miss afeMap key, f1, f2, f3, f4, afePhase_m_logSink t⟩
  · intro h
    simp only [tableLookupQMap, Table.value, h, Option.getD_none, if_true]
    exact ⟨trivial, warnings_LOG_Warn _ _, by simp⟩
  · intro h
    simp only [tableLookupString, Table.value, h, Option.getD_none, if_true]
    exact ⟨trivial, warnings_LOG_Warn _ _, by simp⟩
  · intro h
    simp only [tableLookupStdMap, h]
    exact ⟨trivial, warnings_LOG_Warn _ _, by simp⟩

/-- Witness of C17 (amended): the lookups in empty tables. -/
theorem tableLookup_miss_reported_witness :
    ((ForwardTranslator.new Examples.template).tableLookupStdMap [] 11 "zoneMap").1 = 0 ∧
    ((ForwardTranslator.new Examples.template).tableLookupStdMap [] 11 "zoneMap").2.warnings =
      [{ logLevel := .Warn, logMessage := "Unable to look up '11' in zoneMap" }] ∧
    (Table.index ([] : Table String) "roof").1 = 0 ∧
    (elementChoice (findAFEs []) "Average").exterior = 0 := by
  have h := tableLookup_miss_reported (ForwardTranslator.new Examples.template) [] [] [] 11
    "roof" "zoneMap"
  obtain ⟨_, _, h3, h4, h5, _⟩ := h
  obtain ⟨a1, a2, _⟩ := h3 rfl
  exact ⟨a1, a2, h4 rfl, h5 rfl⟩

/-- C17, counterexample: the end-to-end scenario translated in explicit-map mode with a map
that lacks all four role keys, and in descriptor mode on a template without airflow elements,
returns true with every path carrying the element index 0, and no warning is recorded. -/
theorem translate_missing_elements_silent :
    (∃ r, (ForwardTranslator.new Examples.template).translateWithMap Examples.ext
        Examples.scenario [] false = some (true, r) ∧
      r.m_data.paths.map (fun p => (p.nr, p.pe)) = [(1, 0), (2, 0)] ∧ r.warnings = []) ∧
    (∃ r, (ForwardTranslator.new Examples.template).translate Examples.ext
        Examples.scenario false "Average" = some (true, r) ∧
      r.m_data.paths.map (fun p => (p.nr, p.pe)) = [(1, 0), (2, 0)] ∧ r.warnings = []) := by
  constructor <;>
  simp [ForwardTranslator.translate, ForwardTranslator.translateWithMap, ForwardTranslator.new,
    resetLog, checkDescriptor, afePhase, elementChoice, findAFEs, findAFEsStep,
    buildAfeMap, translateBody, storiesPhase, setDescription, translateStories, storyStep,
    networkPhases, translateZones, zoneStep, zoneLevel, zoneVolume, tableLookupQMap,
    tableLookupStdMap, translateSurfaces, surfaceStep, exteriorPath, SurfaceLoop.addPath,
    relativeHeight, finish, forEach, Outcome.bind, Outcome.map, LOG, setValid,
    Table.find, Table.value, Table.set, Table.index, listAt, Examples.scenario, Examples.zoneA,
    Examples.zoneB, Examples.spaceA, Examples.spaceB, Examples.template,
    ForwardTranslator.warnings]

end LookupMiss2

section Traces

open model ForwardTranslator

theorem SurfaceRun.run_zoneLookupOK {xs : List Surface} {s r : SurfaceLoop}
    (h : SurfaceRun xs s r) (hok : ZoneLookupOK s.t) : ZoneLookupOK r.t := by
  induction h with
  | nil s => exact hok
  | cons b rest s s1 r2 hstep _ ih => exact ih (hstep.step_zoneLookupOK hok)

theorem Ready.pathMapOK_after {model : Model} {t : ForwardTranslator} (h : Ready t)
    {nr : Int} {tz : ForwardTranslator} {xs : List Surface} {ts : SurfaceLoop}
    (hz : ZonesInv (storiesPhase model t) model.thermalZones (nr, tz))
    (hs : SurfaceRun xs { nr := 0, used := [], t := tz } ts) : PathMapOK ts.t := by
  intro e he
  have hfr := hs.run_frame
  rw [hfr.2.2.2.2.2.2.1] at he
  obtain ⟨_, _, _, _, _, hq6b, _⟩ := hz
  simp only [] at he hq6b
  rw [hq6b] at he
  simp [h.2.2.2.2.2.2.2.1] at he

/-- A run of the shared body on a ready translator that returns true, step by step: the zone
loop, the surface loop and the HVAC block fall through, and each satisfies its invariant. -/
theorem translateBody_true_trace (ext : Externals) (pe : ElementChoice) (t : ForwardTranslator)
    (model : Model) (hvac : Bool) (hr : Ready t) (r : ForwardTranslator)
    (h : translateBody ext pe t model hvac = some (true, r)) :
    ∃ nr tz ts r0,
      forEach zoneStep model.thermalZones (0, storiesPhase model t) = .next (nr, tz) ∧
      ZonesInv (storiesPhase model t) model.thermalZones (nr, tz) ∧
      forEach (surfaceStep ext pe tz.m_data.rc.wind_H) model.surfaces
        { nr := 0, used := [], t := tz } = .next ts ∧
      SurfaceRun model.surfaces { nr := 0, used := [], t := tz } ts ∧
      ((hvac = true ∧ translateHVACBlock model ts.t = .next r0 ∧ HvacPost model ts.t r0) ∨
        (hvac = false ∧ r0 = ts.t)) ∧
      r = r0.setValid true := by
  obtain ⟨_, ⟨nr, tz⟩, ts, r0, h1, h2, h3, h4⟩ := translateBody_true_steps ext pe t model hvac r h
  have hz := translateZones_spec (storiesPhase model t) model.thermalZones
  rw [h1] at hz
  simp only [Outcome.sat] at hz
  have hzok := hz.zones_zoneLookupOK (storiesPhase_levelMapOK model t hr) (by simp [hr.2.2.1])
    (by simp [hr.2.2.2.2.2.2.1])
  have hs := forEach_surfaceRun ext pe tz.m_data.rc.wind_H model.surfaces
    { nr := 0, used := [], t := tz } hzok
  simp only [] at h2
  rw [h2] at hs
  simp only [Outcome.sat] at hs
  refine ⟨nr, tz, ts, r0, h1, hz, h2, hs, ?_, h4⟩
  rcases h3 with ⟨hv, h5⟩ | h3
  · left
    have hh := translateHVACBlock_spec model ts.t (hr.pathMapOK_after hz hs)
    rw [h5] at hh
    exact ⟨hv, h5, hh⟩
  · exact Or.inr h3

/-- A run of the shared body on a ready translator that returns false although the model has
a story, step by step: the zone loop left the function at a zone `z`, or the zone loop fell
through and the surface loop left the function at a surface `a`. -/
theorem translateBody_false_trace (ext : Externals) (pe : ElementChoice)
    (t : ForwardTranslator) (model : Model) (hvac : Bool) (hr : Ready t)
    (hs : model.stories ≠ []) (r : ForwardTranslator)
    (h : translateBody ext pe t model hvac = some (false, r)) :
    (∃ pre z post mid sr, model.thermalZones = pre ++ z :: post ∧
      forEach zoneStep pre (0, storiesPhase model t) = .next mid ∧
      ZonesInv (storiesPhase model t) pre mid ∧ zoneStep mid z = .abort sr ∧ r = sr.2) ∨
    (∃ nr tz, forEach zoneStep model.thermalZones (0, storiesPhase model t) = .next (nr, tz) ∧
      ZonesInv (storiesPhase model t) model.thermalZones (nr, tz) ∧
      ∃ pre a post mid sr, model.surfaces = pre ++ a :: post ∧
        forEach (surfaceStep ext pe tz.m_data.rc.wind_H) pre
          { nr := 0, used := [], t := tz } = .next mid ∧
        SurfaceRun pre { nr := 0, used := [], t := tz } mid ∧ ZoneLookupOK mid.t ∧
        surfaceStep ext pe tz.m_data.rc.wind_H mid a = .abort sr ∧ r = sr.t) := by
  rcases translateBody_false_steps ext pe t model hvac r h with ⟨h0, _⟩ | ⟨_, sr, h1, h2⟩ |
    ⟨_, ⟨nr, tz⟩, sr, h1, h2, h3⟩
  · exact absurd ((storiesPhase_levels_ne model t hr).mp h0) hs
  · left
    obtain ⟨pre, z, post, mid, hx, hpre, hab⟩ := forEach_abort_split _ _ _ _ h1
    have hz := translateZones_spec (storiesPhase model t) pre
    rw [hpre] at hz
    exact ⟨pre, z, post, mid, sr, hx, hpre, hz, hab, h2⟩
  · right
    have hz := translateZones_spec (storiesPhase model t) model.thermalZones
    rw [h1] at hz
    simp only [Outcome.sat] at hz
    refine ⟨nr, tz, h1, hz, ?_⟩
    have hzok := hz.zones_zoneLookupOK (storiesPhase_levelMapOK model t hr)
      (by simp [hr.2.2.1]) (by simp [hr.2.2.2.2.2.2.1])
    obtain ⟨pre, a, post, mid, hx, hpre, hab⟩ := forEach_abort_split _ _ _ _ h2
    have hrun := forEach_surfaceRun ext pe tz.m_data.rc.wind_H pre
      { nr := 0, used := [], t := tz } hzok
    simp only [] at hpre
    rw [hpre] at hrun
    simp only [Outcome.sat] at hrun
    have hok2 : ZoneLookupOK mid.t := hrun.run_zoneLookupOK hzok
    exact ⟨pre, a, post, mid, sr, hx, hpre, hrun, hok2, hab, h3⟩

end Traces

section LogGrowth

open model ForwardTranslator

/-- A function on states that commutes with putting a message in front of the log only
appends to the log. -/
theorem log_extends {σ : Type} (sh : LogMessage → σ → σ) (log : σ → List LogMessage)
    (setLog : List LogMessage → σ → σ)
    (l1 : ∀ w L s, setLog (w :: L) s = sh w (setLog L s))
    (l2 : ∀ s, setLog (log s) s = s)
    (l3 : ∀ L s, log (setLog L s) = L)
    (f : σ → Outcome σ) (hf : ∀ w s, f (sh w s) = (f s).map (sh w)) (s r : σ)
    (h : f s = .next r ∨ f s = .abort r) : ∃ extra, log r = log s ++ extra := by
  have key : ∀ L, f (setLog L s) =
      (f (setLog [] s)).map (fun r => setLog (L ++ log r) r) := by
    intro L
    induction L with
    | nil =>
      have : (fun r : σ => setLog ([] ++ log r) r) = id := by
        funext r
        simp [l2]
      rw [this]
      cases f (setLog [] s) <;> rfl
    | cons w L ih =>
      rw [l1, hf, ih, Outcome.map_map]
      congr 1
      funext r
      rw [List.cons_append, l1]
  have hs := key (log s)
  rw [l2] at hs
  rw [hs] at h
  rcases h with h | h
  · rw [Outcome.map_eq_next] at h
    obtain ⟨r0, _, h2⟩ := h
    exact ⟨log r0, by rw [← h2, l3]⟩
  · rw [Outcome.map_eq_abort] at h
    obtain ⟨r0, _, h2⟩ := h
    exact ⟨log r0, by rw [← h2, l3]⟩

theorem log_extends_translator (f : ForwardTranslator → Outcome ForwardTranslator)
    (hf : ∀ w t, f (t.shiftLog w) = (f t).map (fun r => r.shiftLog w))
    (t r : ForwardTranslator) (h : f t = .next r ∨ f t = .abort r) :
    ∃ extra, r.m_logSink = t.m_logSink ++ extra :=
  log_extends (fun w t => t.shiftLog w) (fun t => t.m_logSink)
    (fun L t => { t with m_logSink := L }) (fun _ _ _ => rfl) (fun _ => rfl) (fun _ _ => rfl)
    f hf t r h

theorem log_extends_pair (f : Int × ForwardTranslator → Outcome (Int × ForwardTranslator))
    (hf : ∀ w s, f (s.1, s.2.shiftLog w) = (f s).map (fun r => (r.1, r.2.shiftLog w)))
    (s r : Int × ForwardTranslator) (h : f s = .next r ∨ f s = .abort r) :
    ∃ extra, r.2.m_logSink = s.2.m_logSink ++ extra :=
  log_extends (fun w s => (s.1, s.2.shiftLog w)) (fun s => s.2.m_logSink)
    (fun L s => (s.1, { s.2 with m_logSink := L })) (fun _ _ _ => rfl) (fun _ => rfl)
    (fun _ _ => rfl) f hf s r h

theorem log_extends_loop (f : SurfaceLoop → Outcome SurfaceLoop)
    (hf : ∀ w s, f (s.shiftLog w) = (f s).map (fun r => r.shiftLog w))
    (s r : SurfaceLoop) (h : f s = .next r ∨ f s = .abort r) :
    ∃ extra, r.t.m_logSink = s.t.m_logSink ++ extra :=
  log_extends (fun w s => s.shiftLog w) (fun s => s.t.m_logSink)
    (fun L s => { s with t := { s.t with m_logSink := L } }) (fun _ _ _ => rfl) (fun _ => rfl)
    (fun _ _ => rfl) f hf s r h

theorem zoneStep_log (s r : Int × ForwardTranslator) (z : ThermalZone)
    (h : zoneStep s z = .next r ∨ zoneStep s z = .abort r) :
    ∃ extra, r.2.m_logSink = s.2.m_logSink ++ extra :=
  log_extends_pair (fun s => zoneStep s z) (fun w s => shiftLog_zoneStep w s z) s r h

theorem surfaceLoop_log (ext : Externals) (pe : ElementChoice) (w : ℚ) (xs : List Surface)
    (s r : SurfaceLoop)
    (h : forEach (surfaceStep ext pe w) xs s = .next r ∨
      forEach (surfaceStep ext pe w) xs s = .abort r) :
    ∃ extra, r.t.m_logSink = s.t.m_logSink ++ extra :=
  log_extends_loop (fun s => forEach (surfaceStep ext pe w) xs s)
    (fun m s => forEach_comm (surfaceStep ext pe w) (fun r => r.shiftLog m)
      (fun s a => shiftLog_surfaceStep m ext pe w s a) xs s) s r h

theorem zoneLoop_log (zs : List ThermalZone) (s r : Int × ForwardTranslator)
    (h : forEach zoneStep zs s = .next r ∨ forEach zoneStep zs s = .abort r) :
    ∃ extra, r.2.m_logSink = s.2.m_logSink ++ extra :=
  log_extends_pair (fun s => forEach zoneStep zs s)
    (fun m s => forEach_comm zoneStep (fun r : Int × ForwardTranslator => (r.1, r.2.shiftLog m))
      (fun s a => shiftLog_zoneStep m s a) zs s) s r h

theorem hvacBlock_log (model : Model) (t r : ForwardTranslator)
    (h : translateHVACBlock model t = .next r) :
    ∃ extra, r.m_logSink = t.m_logSink ++ extra :=
  log_extends_translator (translateHVACBlock model)
    (fun w t => shiftLog_translateHVACBlock w model t) t r (Or.inl h)

end LogGrowth

section ZoneVolumes

open model ForwardTranslator

theorem LOG_log (t : ForwardTranslator) (l : LogLevel) (msg : String) :
    ∃ extra, (t.LOG l msg).m_logSink = t.m_logSink ++ extra := by
  unfold ForwardTranslator.LOG
  split
  · exact ⟨_, rfl⟩
  · exact ⟨[], by simp⟩

theorem zoneLevel_log (t : ForwardTranslator) (spaces : List Space) :
    ∃ extra, (zoneLevel t spaces).2.m_logSink = t.m_logSink ++ extra := by
  induction spaces with
  | nil => exact ⟨[], by simp [zoneLevel]⟩
  | cons s rest ih =>
    unfold zoneLevel
    split
    · unfold tableLookupQMap
      simp only []
      split
      · exact LOG_log _ _ _
      · exact ⟨[], by simp⟩
    · exact ih

theorem zoneVolume_fst (t : ForwardTranslator) (z : ThermalZone) :
    (zoneVolume t z).1 = z.volume.getD ((z.spaces.map (fun space => space.volume)).sum) := by
  unfold zoneVolume
  cases z.volume with
  | some v => rfl
  | none =>
    simp only [Option.getD_none]
    split
    · rename_i h0; rw [h0]
    · rfl

theorem zoneVolume_warns (t : ForwardTranslator) (z : ThermalZone) (hv : z.volume = none)
    (h0 : (z.spaces.map (fun space => space.volume)).sum = 0) :
    volumeWarning z ∈ (zoneVolume t z).2.m_logSink := by
  unfold zoneVolume
  rw [hv]
  simp only [h0, if_true]
  simp [ForwardTranslator.LOG, LogLevel.toInt, volumeWarning]

/-- A pass of the zone loop that falls through appends one zone, numbered with the loop
counter, whose volume is that of the thermal zone or else the sum over its spaces. -/
theorem zoneStep_next_zone (s r : Int × ForwardTranslator) (z : ThermalZone)
    (h : zoneStep s z = .next r) :
    ∃ zone, r.2.m_data.zones = s.2.m_data.zones ++ [zone] ∧ zone.nr = s.1 + 1 ∧
      zone.Vol = z.volume.getD ((z.spaces.map (fun space => space.volume)).sum) ∧
      (z.volume = none → (z.spaces.map (fun space => space.volume)).sum = 0 →
        volumeWarning z ∈ r.2.m_logSink) := by
  unfold zoneStep at h
  simp only [] at h
  split at h
  · simp only [Outcome.next.injEq] at h
    subst h
    refine ⟨?newzone, ?e, ?_, ?_, ?_⟩
    case e =>
      simp only [zoneLevel_m_data, zoneVolume_m_data]
      exact rfl
    · rfl
    · exact zoneVolume_fst _ z
    intro hv h0
    simp only []
    obtain ⟨extra, he⟩ := zoneLevel_log
      (zoneVolume { s.2 with m_zoneMap := s.2.m_zoneMap.set z.handle (s.1 + 1) } z).2 z.spaces
    rw [he]
    exact List.mem_append_left _ (zoneVolume_warns _ z hv h0)
  · simp at h

theorem zoneLoop_volumes (t0 : ForwardTranslator) (zs : List ThermalZone) :
    (forEach zoneStep zs (0, t0)).sat
      (fun s => s.2.m_data.zones.length = t0.m_data.zones.length + zs.length ∧
        VolumesInv t0 zs s) (fun _ => True) := by
  apply forEach_invariant zoneStep
    (fun pre s => s.2.m_data.zones.length = t0.m_data.zones.length + pre.length ∧
      VolumesInv t0 pre s) (fun _ => True) zs (0, t0)
  · refine ⟨by simp, ?_⟩
    intro i z h
    simp at h
  · intro pre a post s _ hinv
    obtain ⟨hlen, hvol⟩ := hinv
    cases hstep : zoneStep s a with
    | outOfRange =>
      unfold zoneStep at hstep
      simp only [] at hstep
      split at hstep <;> simp at hstep
    | abort r => trivial
    | next r =>
      simp only [Outcome.sat]
      obtain ⟨zone, hz1, _, hz3, hz4⟩ := zoneStep_next_zone s r a hstep
      obtain ⟨extra, hlog⟩ := zoneStep_log s r a (Or.inl hstep)
      refine ⟨by rw [hz1]; simp [hlen]; omega, ?_⟩
      intro i z hi
      by_cases hlt : i < pre.length
      · rw [List.getElem?_append_left hlt] at hi
        obtain ⟨zn, q1, q2, q3⟩ := hvol i z hi
        refine ⟨zn, ?_, q2, ?_⟩
        · rw [hz1, List.getElem?_append_left (by omega)]
          exact q1
        · intro hv h0
          rw [hlog]
          exact List.mem_append_left _ (q3 hv h0)
      · have hi2 : i = pre.length := by
          have : i < (pre ++ [a]).length := by
            by_contra hcon
            rw [List.getElem?_eq_none (by omega)] at hi
            exact absurd hi (by simp)
          simp at this
          omega
        subst hi2
        simp at hi
        subst hi
        refine ⟨zone, ?_, hz3, hz4⟩
        rw [hz1, ← hlen]
        simp

theorem translateBody_zone_volumes (ext : Externals) (pe : ElementChoice)
    (t : ForwardTranslator) (model : Model) (hvac : Bool) (hr : Ready t)
    (r : ForwardTranslator) (h : translateBody ext pe t model hvac = some (true, r)) :
    ZoneVolumesOK model r := by
  obtain ⟨nr, tz, ts, r0, h1, hzi, h2, hrun, h3, h4⟩ :=
    translateBody_true_trace ext pe t model hvac hr r h
  have hvol := zoneLoop_volumes (storiesPhase model t) model.thermalZones
  rw [h1] at hvol
  simp only [Outcome.sat] at hvol
  obtain ⟨_, hvol⟩ := hvol
  have hz0 : (storiesPhase model t).m_data.zones = [] := by simp [hr.2.2.1]
  obtain ⟨_, _, _, _, _, _, _, _, _, ⟨new, zn1, _, zn3, _⟩, _⟩ := hzi
  simp only [] at zn1
  rw [hz0, List.nil_append] at zn1
  obtain ⟨_, hzones, _⟩ := hrun.run_frame
  simp only [] at hzones
  obtain ⟨e1, hlog1⟩ := surfaceLoop_log ext pe _ _ _ _ (Or.inl h2)
  simp only [] at hlog1
  have hfin : (∃ nz, r.m_data.zones = tz.m_data.zones ++ nz) ∧
      ∃ e2, r.m_logSink = tz.m_logSink ++ e2 := by
    rcases h3 with ⟨_, h5, hpost⟩ | ⟨_, h5⟩
    · obtain ⟨e2, hlog2⟩ := hvacBlock_log model ts.t r0 h5
      obtain ⟨nr1, t1, t2, _, hair, hclo, hflow⟩ := hpost
      obtain ⟨_, _, _, _, _, _, _, _, ⟨nz, a91, _⟩, _⟩ := hair
      simp only [] at a91
      refine ⟨⟨nz, ?_⟩, e1 ++ e2, ?_⟩
      · rw [h4]
        simp only [setValid_m_data]
        rw [hflow.2.1, hclo.2.1, a91, hzones]
      · rw [h4]
        simp only [ForwardTranslator.setValid]
        rw [hlog2, hlog1, List.append_assoc]
    · refine ⟨⟨[], ?_⟩, e1, ?_⟩
      · rw [h4, h5]
        simp [hzones]
      · rw [h4, h5]
        simp only [ForwardTranslator.setValid]
        exact hlog1
  obtain ⟨⟨nz, hz⟩, e2, hlog⟩ := hfin
  intro i z hi
  obtain ⟨zone, q1, q2, q3⟩ := hvol i z hi
  rw [hz0] at q1
  simp only [List.length_nil, Nat.zero_add] at q1
  have hlt : i < tz.m_data.zones.length := by
    by_contra hcon
    rw [List.getElem?_eq_none (by omega)] at q1
    exact absurd q1 (by simp)
  refine ⟨zone, by rw [hz, List.getElem?_append_left hlt]; exact q1, ?_, q2, ?_⟩
  · rw [zn1] at q1
    exact zn3 i zone (by rw [List.get?_eq_getElem?]; exact q1)
  · intro hv h0
    unfold ForwardTranslator.warnings
    rw [List.mem_filter]
    refine ⟨?_, by simp [volumeWarning]⟩
    rw [hlog]
    exact List.mem_append_left _ (q3 hv h0)

end ZoneVolumes

section ZoneVolumes2

open model ForwardTranslator

/-- C18 (amended): on a fresh translator (template a baseline, either mode), for every model
that translates (a story, every zone with a resolvable level, every interior surface with a
resolvable adjacent zone), whatever the volumes: `translate` returns true, and for every
thermal zone the translated zone carries the zone's own volume whenever the zone has one
(also when that volume is zero) and otherwise the sum of the volumes of its spaces; when the
zone has no volume of its own and that sum is zero, the translated volume is zero and the
warning for the zone is recorded. -/
theorem translate_zone_volumes (ext : Externals) (template : prj.Data) (model : Model)
    (hvac : Bool) (descriptor : String) (afeMap : Table String)
    (hb : template.Baseline) (hs : model.stories ≠ [])
    (hz : ∀ z ∈ model.thermalZones, model.levelResolves z = true)
    (ha : model.adjacencyResolves) :
    (∃ r, (ForwardTranslator.new template).translate ext model hvac descriptor
        = some (true, r) ∧ ZoneVolumesOK model r) ∧
    (∃ r, (ForwardTranslator.new template).translateWithMap ext model afeMap hvac
        = some (true, r) ∧ ZoneVolumesOK model r) := by
  have hr := Ready.new template hb
  constructor
  · have hr2 := translate_ready _ descriptor hr
    obtain ⟨r0, _, heq⟩ := translateBody_succeeds ext
      (elementChoice (findAFEs ((ForwardTranslator.new template).resetLog.checkDescriptor
        descriptor).2.buildAfeMap.m_afeMap)
        ((ForwardTranslator.new template).resetLog.checkDescriptor descriptor).1)
      _ model hvac hr2 hs hz ha
    exact ⟨_, heq, translateBody_zone_volumes ext _ _ model hvac hr2 _ heq⟩
  · obtain ⟨r0, _, heq⟩ := translateBody_succeeds ext
      { roof := (afeMap.index "roof").1, exterior := (afeMap.index "exterior").1,
        floor := (afeMap.index "floor").1, interior := (afeMap.index "interior").1 }
      _ model hvac hr.resetLog hs hz ha
    exact ⟨_, heq, translateBody_zone_volumes ext _ _ model hvac hr.resetLog _ heq⟩

/-- Witness of C18 (amended): a zone without a volume of its own whose only space has volume
zero; the translation succeeds and records the warning. -/
theorem translate_zone_volumes_witness :
    (∃ r, (ForwardTranslator.new Examples.template).translate Examples.ext Examples.noVolume
        true "Average" = some (true, r) ∧ ZoneVolumesOK Examples.noVolume r) ∧
    (∃ r, (ForwardTranslator.new Examples.template).translateWithMap Examples.ext
        Examples.noVolume [] true = some (true, r) ∧ ZoneVolumesOK Examples.noVolume r) :=
  translate_zone_volumes Examples.ext Examples.template Examples.noVolume true "Average" []
    Examples.template_baseline (by simp [Examples.noVolume])
    (by
      intro z hz
      simp only [Examples.noVolume, List.mem_singleton] at hz
      subst hz
      simp [Model.levelResolves, firstStory, Examples.zoneNoVolume, Examples.spaceZero,
        Examples.noVolume])
    (by intro s hs; simp [Examples.noVolume] at hs)

/-- C18, counterexample: a thermal zone whose own volume is zero and whose space has volume
100 is translated to a zone of volume 0, not 100, and no warning is recorded. -/
theorem translate_zero_own_volume :
    Examples.zoneZeroVolume ∈ Examples.zeroVolume.thermalZones ∧
    Examples.zoneZeroVolume.volume = some 0 ∧
    (Examples.zoneZeroVolume.spaces.map (fun space => space.volume)).sum = 100 ∧
    ∃ r, (ForwardTranslator.new Examples.template).translate Examples.ext Examples.zeroVolume
        false "Average" = some (true, r) ∧
      r.m_data.zones.map (fun z => (z.nr, z.Vol)) = [(1, 0)] ∧ r.warnings = [] := by
  refine ⟨by simp [Examples.zeroVolume], rfl, by simp [Examples.zoneZeroVolume, Examples.spaceA],
    ?_⟩
  simp [ForwardTranslator.translate, ForwardTranslator.new,
    resetLog, checkDescriptor, afePhase, elementChoice, findAFEs, findAFEsStep,
    buildAfeMap, translateBody, storiesPhase, setDescription, translateStories, storyStep,
    networkPhases, translateZones, zoneStep, zoneLevel, zoneVolume, tableLookupQMap,
    translateSurfaces, finish, forEach, Outcome.bind, Outcome.map, LOG, setValid,
    Table.find, Table.value, Table.set, Table.index, Examples.zeroVolume,
    Examples.zoneZeroVolume, Examples.spaceA, Examples.template, ForwardTranslator.warnings]

end ZoneVolumes2

section Numbering

open model ForwardTranslator

/-- The zone, path and AHS lists of a run that reaches the final `return true`, started
without zones, paths and AHS records, are numbered in list order. -/
theorem NetworkRun.lists_numbered {model : Model} {hvac : Bool} {t r : ForwardTranslator}
    (h : NetworkRun model hvac t r)
    (hz : t.m_data.zones = []) (hp : t.m_data.paths = []) (ha : t.m_data.ahs = []) :
    Numbered (fun z => z.nr) r.m_data.zones ∧ Numbered (fun p => p.nr) r.m_data.paths ∧
    Numbered (fun a => a.nr) r.m_data.ahs := by
  obtain ⟨nr, tz, ts, hzi, hrun, hh⟩ := h
  obtain ⟨_, _, _, z4, z5, _, _, _, _, ⟨new, zn1, zn2, zn3, _⟩, _⟩ := hzi
  simp only [] at z4 z5 zn1
  rw [hz, List.nil_append] at zn1
  rw [hp] at z4
  rw [ha] at z5
  obtain ⟨extra, he1, _, he3, _⟩ := hrun.paths_extend
  obtain ⟨_, s2, s3, _⟩ := hrun.run_frame
  simp only [] at he1 he3 s2 s3
  rw [z4, List.nil_append] at he1
  rw [zn1] at s2
  rw [z5] at s3
  have hsurf : Numbered (fun p => p.nr) ts.t.m_data.paths := by
    intro i p hi
    rw [List.get?_eq_getElem?, he1] at hi
    have := he3 i p hi
    simp only []
    rw [this]
    omega
  rcases hh with ⟨_, hpost⟩ | ⟨_, hr⟩
  · obtain ⟨nr1, t1, t2, _, hair, hclo, hflow⟩ := hpost
    obtain ⟨_, _, _, _, _, _, _, _, ⟨nz, a91, a92, a93⟩, ⟨na, a101, a102, a103⟩,
      np, a111, a112, _⟩ := hair
    simp only [] at a91 a92 a93 a101 a102 a103 a111 a112
    rw [s2] at a91 a93
    rw [s3, List.nil_append] at a101
    obtain ⟨cl, c1, c2, c3⟩ := hclo.closure_mem (le_refl _)
    have hahs := hclo.2.2.2.2.2.2.2.2.2.1
    have hlenahs := hclo.2.2.2.2.2.2.2.1
    rw [a101] at hahs hlenahs c3
    refine ⟨?_, ?_, ?_⟩
    · rw [hflow.2.1, hclo.2.1, a91]
      exact Numbered.append_numbered _ new nz zn3 (fun i z hi => (a93 i z hi).1)
    · have h1 : Numbered (fun p => p.nr) t1.m_data.paths := by
        rw [a111]
        exact Numbered.append_numbered _ _ np hsurf a112
      have h2 : Numbered (fun p => p.nr) t2.m_data.paths := by
        rw [c1]
        apply Numbered.append_numbered _ _ cl h1
        intro m q hq
        obtain ⟨a0, _, _, hcase⟩ := c3 m q hq
        rcases hcase with ⟨hm, hq0⟩ | ⟨hm, hq0⟩ | ⟨hm, hq0⟩ <;> rw [hq0] <;>
          simp only [recircPath, oaPath, exhaustPath] <;> omega
      intro i p hi
      rw [List.get?_eq_getElem?] at hi
      obtain ⟨q, hq, hqp⟩ := hflow.path_at i p hi
      obtain ⟨e1, _⟩ := clearFahs_fields p q hqp
      simp only []
      rw [← e1]
      exact h2 i q (by rw [List.get?_eq_getElem?]; exact hq)
    · rw [hflow.2.2.1]
      intro j a hj
      rw [List.get?_eq_getElem?] at hj
      have hjlt : j < na.length := by
        by_contra hcon
        rw [List.getElem?_eq_none (by omega)] at hj
        exact absurd hj (by simp)
      have h0 := hahs j _ hjlt (List.getElem?_eq_getElem hjlt)
      rw [hj] at h0
      rw [Option.some.inj h0]
      exact (a103 j _ (List.getElem?_eq_getElem hjlt)).1
  · rw [hr]
    refine ⟨by rw [s2]; exact zn3, hsurf, ?_⟩
    rw [s3]
    intro i a hi
    simp at hi

theorem translateBody_lists_numbered (ext : Externals) (pe : ElementChoice)
    (t : ForwardTranslator) (model : Model) (hvac : Bool) (h : Ready t)
    (r : ForwardTranslator) (heq : translateBody ext pe t model hvac = some (true, r)) :
    Numbered (fun l => l.nr) r.m_data.levels ∧ Numbered (fun z => z.nr) r.m_data.zones ∧
    Numbered (fun p => p.nr) r.m_data.paths ∧ Numbered (fun a => a.nr) r.m_data.ahs := by
  obtain ⟨r0, hrun, hr⟩ := translateBody_true_run ext pe t model hvac h r heq
  have hnum := hrun.lists_numbered (by simp [h.2.2.1]) (by simp [h.2.2.2.1])
    (by simp [h.2.2.2.2.1])
  have hlev := hrun.network_frame.1
  rw [hr]
  refine ⟨?_, hnum⟩
  simp only [setValid_m_data]
  rw [hlev]
  obtain ⟨f1, f2, _⟩ := storiesPhase_fresh model t h.2.1 h.2.2.2.2.2.1
  intro i l hi
  rw [List.get?_eq_getElem?] at hi
  have hlt : i < model.stories.length := by
    by_contra hcon
    rw [List.getElem?_eq_none (by omega)] at hi
    exact absurd hi (by simp)
  obtain ⟨l2, q1, q2, _⟩ := f2 i _ (List.getElem?_eq_getElem hlt)
  rw [hi] at q1
  rw [Option.some.inj q1]
  exact q2

/-- C15: after a successful `translate` on a fresh translator whose template is a baseline
(it contributes no zones, paths or AHS records; either mode, with or without HVAC) every
level, zone, path and AHS record carries as `nr` its position in its list plus one: the
surface paths, the supply and return paths and the closing paths are numbered in one
sequence, and the system zones continue the numbering of the thermal zones. -/
theorem translate_lists_numbered (ext : Externals) (template : prj.Data) (model : Model)
    (hvac : Bool) (descriptor : String) (afeMap : Table String) (hb : template.Baseline) :
    (∀ r, (ForwardTranslator.new template).translate ext model hvac descriptor = some (true, r) →
      Numbered (fun l => l.nr) r.m_data.levels ∧ Numbered (fun z => z.nr) r.m_data.zones ∧
      Numbered (fun p => p.nr) r.m_data.paths ∧ Numbered (fun a => a.nr) r.m_data.ahs) ∧
    (∀ r, (ForwardTranslator.new template).translateWithMap ext model afeMap hvac
        = some (true, r) →
      Numbered (fun l => l.nr) r.m_data.levels ∧ Numbered (fun z => z.nr) r.m_data.zones ∧
      Numbered (fun p => p.nr) r.m_data.paths ∧ Numbered (fun a => a.nr) r.m_data.ahs) := by
  have hr := Ready.new template hb
  constructor
  · intro r heq
    exact translateBody_lists_numbered ext _ _ model hvac (translate_ready _ descriptor hr) r heq
  · intro r heq
    exact translateBody_lists_numbered ext _ _ model hvac hr.resetLog r heq

/-- Witness of C15: the example building with HVAC: two levels, four zones, nine paths and
one AHS record, each list numbered in order. -/
theorem translate_lists_numbered_witness :
    ∃ r, (ForwardTranslator.new Examples.template).translate Examples.ext Examples.building
        true "Average" = some (true, r) ∧
      r.m_data.zones.length = 4 ∧ r.m_data.paths.length = 9 ∧ r.m_data.ahs.length = 1 ∧
      Numbered (fun l => l.nr) r.m_data.levels ∧ Numbered (fun z => z.nr) r.m_data.zones ∧
      Numbered (fun p => p.nr) r.m_data.paths ∧ Numbered (fun a => a.nr) r.m_data.ahs := by
  obtain ⟨r, heq, hz, hp, ha, _⟩ := Examples.building_translate Examples.ext
  refine ⟨r, heq, ?_, ?_, ?_, (translate_lists_numbered Examples.ext Examples.template
    Examples.building true "Average" [] Examples.template_baseline).1 r heq⟩
  · simpa using congrArg List.length hz
  · simpa using congrArg List.length hp
  · rw [ha]; rfl

end Numbering

section LiveTables

open model ForwardTranslator

theorem Numbered.exists_nr {α : Type} {nr : α → Int} {l : List α} (h : Numbered nr l) (k : Int)
    (h1 : 1 ≤ k) (h2 : k ≤ (l.length : Int)) : ∃ a ∈ l, nr a = k := by
  obtain ⟨a, ha⟩ := listAt_of_bounds l k h1 h2
  exact ⟨a, listAt_mem _ _ _ ha, (h.listAt_nr k a ha).1⟩

theorem TableLive.of_bounds {κ α : Type} {m : Table κ} {nr : α → Int} {l : List α}
    (hn : Numbered nr l) (hb : ∀ e ∈ m, 1 ≤ e.2 ∧ e.2 ≤ (l.length : Int)) :
    TableLive m nr l := by
  intro e he
  exact hn.exists_nr e.2 (hb e he).1 (hb e he).2

/-- The indices that a run of the surface loop adds to the surface table lie between the
path counter before and after the run. -/
theorem SurfaceRun.surfaceMap_bound {xs : List Surface} {s r : SurfaceLoop}
    (h : SurfaceRun xs s r) :
    s.nr ≤ r.nr ∧
    ∀ e ∈ r.t.m_surfaceMap, e ∈ s.t.m_surfaceMap ∨ (s.nr + 1 ≤ e.2 ∧ e.2 ≤ r.nr) := by
  induction h with
  | nil s => exact ⟨le_refl _, fun e he => Or.inl he⟩
  | cons a rest s s1 r hstep _ ih =>
    obtain ⟨ih1, ih2⟩ := ih
    rcases hstep.2.2.2.2.2.2.2.2.2.2 with ⟨_, hnr, _, _, hm⟩ | ⟨_, hnr, _, hm, _⟩
    · refine ⟨by omega, ?_⟩
      intro e he
      rcases ih2 e he with h0 | h0
      · rw [hm] at h0; exact Or.inl h0
      · exact Or.inr ⟨by omega, h0.2⟩
    · refine ⟨by omega, ?_⟩
      intro e he
      rcases ih2 e he with h0 | h0
      · rw [hm] at h0
        rcases Table.mem_set _ _ _ _ h0 with h1 | h1
        · right
          rw [h1]
          simp only []
          omega
        · exact Or.inl h1
      · exact Or.inr ⟨by omega, h0.2⟩

/-- A pass of the surface loop leaves the zone table as it is when the zone on the far side
of the surface has an entry. -/
theorem surfaceStep_zoneMap_keep (ext : Externals) (pe : ElementChoice) (w : ℚ)
    (s r : SurfaceLoop) (a : Surface)
    (hk : ∀ k, a.adjacentZone = some k → ∃ v, s.t.m_zoneMap.find k = some v)
    (h : surfaceStep ext pe w s a = .next r) : r.t.m_zoneMap = s.t.m_zoneMap := by
  unfold surfaceStep at h
  simp only [] at h
  split at h
  · split at h
    · simp only [Outcome.next.injEq] at h
      subst h
      simp
    · split at h
      · simp only [Outcome.next.injEq] at h
        subst h
        simp
      · split at h
        · simp only [Outcome.next.injEq] at h
          subst h
          simp
        · split at h
          · simp at h
          · split at h
            · simp at h
            · split at h
              · simp only [Outcome.next.injEq] at h
                subst h
                simp [SurfaceLoop.addPath]
              · split at h
                · unfold interiorStep at h
                  split at h
                  · simp at h
                  · rename_i adj hadj
                    split at h
                    · simp at h
                    · rename_i sp hsp
                      split at h
                      · simp at h
                      · rename_i kz hkz
                        obtain ⟨v, hv⟩ := hk kz (by
                          simp only [Surface.adjacentZone, hadj, hsp, hkz])
                        split at h
                        · simp only [Outcome.next.injEq] at h
                          subst h
                          simp only [SurfaceLoop.addPath, Table.index,
                            tableLookupStdMap_m_zoneMap, hv]
                        · simp only [Outcome.next.injEq] at h
                          subst h
                          simp
                · simp only [Outcome.next.injEq] at h
                  subst h
                  simp
  · simp only [Outcome.next.injEq] at h
    subst h
    rfl

theorem surfaceLoop_zoneMap_keep (ext : Externals) (pe : ElementChoice) (w : ℚ)
    (xs : List Surface) (s r : SurfaceLoop)
    (hk : ∀ a ∈ xs, ∀ k, a.adjacentZone = some k → ∃ v, s.t.m_zoneMap.find k = some v)
    (h : forEach (surfaceStep ext pe w) xs s = .next r) : r.t.m_zoneMap = s.t.m_zoneMap := by
  induction xs generalizing s with
  | nil =>
    simp only [forEach, Outcome.next.injEq] at h
    rw [h]
  | cons a rest ih =>
    unfold forEach at h
    cases hb : surfaceStep ext pe w s a with
    | next s1 =>
      rw [hb] at h
      have e1 := surfaceStep_zoneMap_keep ext pe w s s1 a (hk a (by simp)) hb
      rw [← e1]
      apply ih s1 _ h
      intro b hb2 k hk2
      rw [e1]
      exact hk b (List.mem_cons_of_mem _ hb2) k hk2
    | abort s1 => rw [hb] at h; simp at h
    | outOfRange => rw [hb] at h; simp at h

end LiveTables

section Aborts

open model ForwardTranslator

@[simp] theorem setValid_m_levelMap (t : ForwardTranslator) (v : Bool) :
    (t.setValid v).m_levelMap = t.m_levelMap := rfl

@[simp] theorem setValid_m_pathMap (t : ForwardTranslator) (v : Bool) :
    (t.setValid v).m_pathMap = t.m_pathMap := rfl

@[simp] theorem setValid_m_logSink (t : ForwardTranslator) (v : Bool) :
    (t.setValid v).m_logSink = t.m_logSink := rfl

theorem errors_of_error_log (t : ForwardTranslator) (msg : String) (v : Bool) :
    ((t.LOG .Error msg).setValid v).errors ≠ [] := by
  simp [ForwardTranslator.LOG, ForwardTranslator.errors, ForwardTranslator.setValid,
    LogLevel.toInt, List.filter_append]

/-- A pass of the zone loop that leaves the function: the zone is in the zone table but not
in the zone list, the network data is as before, `m_valid` is cleared and an error is
logged. -/
theorem zoneStep_abort (s r : Int × ForwardTranslator) (z : ThermalZone)
    (h : zoneStep s z = .abort r) :
    r.1 = s.1 + 1 ∧ r.2.m_data = s.2.m_data ∧ r.2.m_valid = false ∧
    r.2.m_levelMap = s.2.m_levelMap ∧ r.2.m_pathMap = s.2.m_pathMap ∧
    r.2.m_surfaceMap = s.2.m_surfaceMap ∧
    r.2.m_zoneMap = s.2.m_zoneMap.set z.handle (s.1 + 1) ∧
    r.2.errors ≠ [] ∧ ¬ LevelFound s.2.m_levelMap z := by
  unfold zoneStep at h
  simp only [] at h
  split at h
  · simp at h
  · rename_i hlvl
    simp only [Outcome.abort.injEq] at h
    subst h
    refine ⟨rfl, by simp, by simp, by simp, by simp, by simp, by simp,
      errors_of_error_log _ _ _, ?_⟩
    intro hfound
    apply hlvl
    rw [zoneLevel_ne_zero_iff]
    simpa using hfound

/-- A pass of the surface loop that leaves the function: the surface is unconsumed, has the
boundary condition "Surface" and no resolvable adjacent zone; nothing but the validity flag
and the log changes, and an error is logged. -/
theorem surfaceStep_abort (ext : Externals) (pe : ElementChoice) (w : ℚ)
    (s r : SurfaceLoop) (a : Surface) (h : surfaceStep ext pe w s a = .abort r) :
    r.nr = s.nr ∧ r.used = s.used ∧ r.t.m_data = s.t.m_data ∧ r.t.m_valid = false ∧
    r.t.m_levelMap = s.t.m_levelMap ∧ r.t.m_pathMap = s.t.m_pathMap ∧
    r.t.m_surfaceMap = s.t.m_surfaceMap ∧ r.t.m_zoneMap = s.t.m_zoneMap ∧
    r.t.errors ≠ [] ∧ a.handle ∉ s.used ∧ a.outsideBoundaryCondition = "Surface" ∧
    a.adjacentZone = none := by
  unfold surfaceStep at h
  simp only [] at h
  split at h
  · rename_i hcond
    split at h
    · simp at h
    · split at h
      · simp at h
      · split at h
        · simp at h
        · split at h
          · simp at h
          · split at h
            · simp at h
            · split at h
              · simp at h
              · split at h
                · rename_i hbc
                  unfold interiorStep at h
                  split at h
                  · rename_i hadj
                    simp only [Outcome.abort.injEq] at h
                    subst h
                    refine ⟨rfl, rfl, by simp, by simp, by simp, by simp, by simp, by simp,
                      errors_of_error_log _ _ _, hcond.1, hbc, ?_⟩
                    simp [Surface.adjacentZone, hadj]
                  · rename_i adj hadj
                    split at h
                    · rename_i hsp
                      simp only [Outcome.abort.injEq] at h
                      subst h
                      refine ⟨rfl, rfl, by simp, by simp, by simp, by simp, by simp, by simp,
                        errors_of_error_log _ _ _, hcond.1, hbc, ?_⟩
                      simp [Surface.adjacentZone, hadj, hsp]
                    · rename_i sp hsp
                      split at h
                      · rename_i hkz
                        simp only [Outcome.abort.injEq] at h
                        subst h
                        refine ⟨rfl, rfl, by simp, by simp, by simp, by simp, by simp, by simp,
                          errors_of_error_log _ _ _, hcond.1, hbc, ?_⟩
                        simp [Surface.adjacentZone, hadj, hsp, hkz]
                      · split at h <;> simp at h
                · simp at h
  · simp at h

end Aborts

section LiveTables2

open model ForwardTranslator

theorem SurfaceRun.paths_numbered {xs : List Surface} {s r : SurfaceLoop}
    (h : SurfaceRun xs s r) (hnr : s.nr = 0) (hp : s.t.m_data.paths = []) :
    Numbered (fun p => p.nr) r.t.m_data.paths ∧ r.nr = (r.t.m_data.paths.length : Int) := by
  obtain ⟨extra, he1, he2, he3, _⟩ := h.paths_extend
  rw [hp, List.nil_append] at he1
  rw [hnr] at he2 he3
  refine ⟨?_, by rw [he1, he2]; simp⟩
  intro i p hi
  rw [List.get?_eq_getElem?, he1] at hi
  have := he3 i p hi
  simp only []
  rw [this]
  omega

theorem storiesPhase_levelTable_live (model : Model) (t : ForwardTranslator) (h : Ready t) :
    TableLive (storiesPhase model t).m_levelMap (fun l => l.nr)
      (storiesPhase model t).m_data.levels := by
  apply TableLive.of_bounds _ (storiesPhase_levelMapOK model t h)
  obtain ⟨f1, f2, _⟩ := storiesPhase_fresh model t h.2.1 h.2.2.2.2.2.1
  intro i l hi
  rw [List.get?_eq_getElem?] at hi
  have hlt : i < model.stories.length := by
    by_contra hcon
    rw [List.getElem?_eq_none (by omega)] at hi
    exact absurd hi (by simp)
  obtain ⟨l2, q1, q2, _⟩ := f2 i _ (List.getElem?_eq_getElem hlt)
  rw [hi] at q1
  rw [Option.some.inj q1]
  exact q2

/-- The story table and the surface table after a run of the shared body on a ready
translator, whatever it returns. -/
theorem translateBody_tables_live (ext : Externals) (pe : ElementChoice)
    (t : ForwardTranslator) (model : Model) (hvac : Bool) (hr : Ready t)
    (b : Bool) (r : ForwardTranslator)
    (h : translateBody ext pe t model hvac = some (b, r)) :
    TableLive r.m_levelMap (fun l => l.nr) r.m_data.levels ∧
    TableLive r.m_surfaceMap (fun p => p.nr) r.m_data.paths := by
  have hlev := storiesPhase_levelTable_live model t hr
  have hsm0 : (storiesPhase model t).m_surfaceMap = [] := by simp [hr.2.2.2.2.2.2.2.2]
  have hp0 : (storiesPhase model t).m_data.paths = [] := by simp [hr.2.2.2.1]
  cases b with
  | true =>
    obtain ⟨nr, tz, ts, r0, _, hzi, _, hrun, h3, h4⟩ :=
      translateBody_true_trace ext pe t model hvac hr r h
    have hnet : NetworkRun model hvac (storiesPhase model t) r0 := by
      refine ⟨nr, tz, ts, hzi, hrun, ?_⟩
      rcases h3 with ⟨hv, _, hp⟩ | h3
      · exact Or.inl ⟨hv, hp⟩
      · exact Or.inr h3
    obtain ⟨f1, _, f3⟩ := hnet.network_frame
    obtain ⟨_, hnum, _⟩ := hnet.lists_numbered (by simp [hr.2.2.1]) hp0 (by simp [hr.2.2.2.2.1])
    obtain ⟨_, _, _, z4, _, _, z7, _⟩ := hzi
    simp only [] at z4 z7
    obtain ⟨hpn, hnrp⟩ := hrun.paths_numbered rfl (by simp only []; rw [z4, hp0])
    obtain ⟨_, hbound⟩ := hrun.surfaceMap_bound
    simp only [] at hbound
    rw [h4]
    simp only [setValid_m_levelMap, setValid_m_data, setValid_m_surfaceMap]
    refine ⟨by rw [f1, f3]; exact hlev, ?_⟩
    have hsm : r0.m_surfaceMap = ts.t.m_surfaceMap ∧
        ts.t.m_data.paths.length ≤ r0.m_data.paths.length := by
      rcases h3 with ⟨_, _, hpost⟩ | ⟨_, h5⟩
      · obtain ⟨_, _, _, g4, _⟩ := hpost.hvac_frame
        obtain ⟨nr1, t1, t2, _, hair, hclo, hflow⟩ := hpost
        obtain ⟨_, _, _, _, _, _, _, _, _, _, np, a111, _⟩ := hair
        obtain ⟨_, _, _, _, _, _, _, _, _, _, _, cl, c1, _⟩ := hclo
        simp only [] at a111
        refine ⟨g4, ?_⟩
        rw [hflow.path_length, c1, a111]
        simp
      · rw [h5]
        exact ⟨rfl, le_refl _⟩
    apply TableLive.of_bounds hnum
    intro e he
    rw [hsm.1] at he
    rcases hbound e he with h0 | h0
    · rw [z7, hsm0] at h0
      exact absurd h0 (by simp)
    · have := hsm.2
      exact ⟨by omega, by omega⟩
  | false =>
    by_cases hs : model.stories = []
    · rcases translateBody_spec ext pe t model hvac hr with ⟨_, h0⟩ | ⟨hne, _⟩
      · rw [h0] at h
        simp only [Option.some.injEq, Prod.mk.injEq, true_and] at h
        rw [← h]
        refine ⟨by simpa using hlev, ?_⟩
        intro e he
        have he2 : e ∈ (storiesPhase model t).m_surfaceMap := by simpa using he
        rw [hsm0] at he2
        exact absurd he2 (by simp)
      · exact absurd hs hne
    · rcases translateBody_false_trace ext pe t model hvac hr hs r h with
        ⟨pre, z, post, mid, sr, _, _, hzi, hab, hrr⟩ |
        ⟨nr, tz, _, hzi, pre, a, post, mid, sr, _, _, hrun, _, hab, hrr⟩
      · obtain ⟨_, a2, _, a4, _, a6, _⟩ := zoneStep_abort mid sr z hab
        obtain ⟨_, z2, z3, _, _, _, z7, _⟩ := hzi
        rw [hrr, a2, a4, a6, z2, z3, z7]
        refine ⟨hlev, ?_⟩
        intro e he
        rw [hsm0] at he
        exact absurd he (by simp)
      · obtain ⟨_, _, a3, _, a5, _, a7, _⟩ := surfaceStep_abort ext pe _ mid sr a hab
        obtain ⟨_, z2, z3, z4, _, _, z7, _⟩ := hzi
        simp only [] at z2 z3 z4 z7
        obtain ⟨s1, _, _, _, _, s6, _⟩ := hrun.run_frame
        simp only [] at s1 s6
        obtain ⟨hpn, hnrp⟩ := hrun.paths_numbered rfl (by simp only []; rw [z4, hp0])
        obtain ⟨_, hbound⟩ := hrun.surfaceMap_bound
        simp only [] at hbound
        rw [hrr, a3, a5, a7]
        refine ⟨by rw [s1, s6, z2, z3]; exact hlev, ?_⟩
        apply TableLive.of_bounds hpn
        intro e he
        rcases hbound e he with h0 | h0
        · rw [z7, hsm0] at h0
          exact absurd h0 (by simp)
        · exact ⟨by omega, by omega⟩

/-- The zone table after a run of the shared body that returns true, for a model with
referential integrity. -/
theorem translateBody_zoneTable_live (ext : Externals) (pe : ElementChoice)
    (t : ForwardTranslator) (model : Model) (hvac : Bool) (hr : Ready t)
    (hm : model.zoneRefsResolve) (r : ForwardTranslator)
    (h : translateBody ext pe t model hvac = some (true, r)) :
    TableLive r.m_zoneMap (fun z => z.nr) r.m_data.zones := by
  obtain ⟨nr, tz, ts, r0, _, hzi, h2, hrun, h3, h4⟩ :=
    translateBody_true_trace ext pe t model hvac hr r h
  have hnet : NetworkRun model hvac (storiesPhase model t) r0 := by
    refine ⟨nr, tz, ts, hzi, hrun, ?_⟩
    rcases h3 with ⟨hv, _, hp⟩ | h3
    · exact Or.inl ⟨hv, hp⟩
    · exact Or.inr h3
  obtain ⟨hnum, _, _⟩ := hnet.lists_numbered (by simp [hr.2.2.1]) (by simp [hr.2.2.2.1])
    (by simp [hr.2.2.2.2.1])
  obtain ⟨_, _, _, _, _, _, _, _, _, ⟨new, zn1, zn2, _, _⟩, z11, z12, _⟩ := hzi
  simp only [] at zn1 z11 z12
  have hz0 : (storiesPhase model t).m_data.zones = [] := by simp [hr.2.2.1]
  have hzm0 : (storiesPhase model t).m_zoneMap = [] := by simp [hr.2.2.2.2.2.2.1]
  rw [hz0, List.nil_append] at zn1
  have hkeep : ts.t.m_zoneMap = tz.m_zoneMap := by
    apply surfaceLoop_zoneMap_keep ext pe _ model.surfaces _ ts _ h2
    intro a ha k hk
    obtain ⟨z, hzmem, hzk⟩ := List.mem_map.mp (hm.1 a ha k hk)
    obtain ⟨v, hv, _⟩ := z12 z hzmem
    rw [hzk] at hv
    exact ⟨v, hv⟩
  obtain ⟨_, hzones, _⟩ := hrun.run_frame
  simp only [] at hzones
  have hfin : r0.m_zoneMap = ts.t.m_zoneMap ∧
      ts.t.m_data.zones.length ≤ r0.m_data.zones.length := by
    rcases h3 with ⟨_, _, hpost⟩ | ⟨_, h5⟩
    · obtain ⟨_, _, g3, _⟩ := hpost.hvac_frame
      obtain ⟨nr1, t1, t2, _, hair, hclo, hflow⟩ := hpost
      obtain ⟨_, _, _, _, _, _, _, _, ⟨nz, a91, _⟩, _⟩ := hair
      simp only [] at a91
      refine ⟨g3, ?_⟩
      rw [hflow.2.1, hclo.2.1, a91]
      simp
    · rw [h5]
      exact ⟨rfl, le_refl _⟩
  rw [h4]
  simp only [setValid_m_zoneMap, setValid_m_data]
  apply TableLive.of_bounds hnum
  intro e he
  rw [hfin.1, hkeep] at he
  rcases z11 e he with h0 | h0
  · rw [hzm0] at h0
    exact absurd h0 (by simp)
  · have h1 := hfin.2
    rw [hzones, zn1, zn2] at h1
    exact ⟨h0.1, by omega⟩

end LiveTables2

section LiveTables3

open model ForwardTranslator

/-- C16 (amended): after `translate` returns on a fresh translator (template a baseline,
either mode, with or without HVAC), whether with true or with false, every value of the
story-to-level table is the `nr` of a level of the level list and every value of
`surfaceMap()` is the `nr` of a path of the path list; when it returns true and the zone
references of the model resolve, every value of `zoneMap()` is the `nr` of a zone of the zone
list. -/
theorem translate_tables_live (ext : Externals) (template : prj.Data) (model : Model)
    (hvac : Bool) (descriptor : String) (afeMap : Table String) (hb : template.Baseline) :
    (∀ b r, (ForwardTranslator.new template).translate ext model hvac descriptor = some (b, r) →
      TableLive r.m_levelMap (fun l => l.nr) r.m_data.levels ∧
      TableLive r.m_surfaceMap (fun p => p.nr) r.m_data.paths ∧
      (b = true → model.zoneRefsResolve →
        TableLive r.m_zoneMap (fun z => z.nr) r.m_data.zones)) ∧
    (∀ b r, (ForwardTranslator.new template).translateWithMap ext model afeMap hvac
        = some (b, r) →
      TableLive r.m_levelMap (fun l => l.nr) r.m_data.levels ∧
      TableLive r.m_surfaceMap (fun p => p.nr) r.m_data.paths ∧
      (b = true → model.zoneRefsResolve →
        TableLive r.m_zoneMap (fun z => z.nr) r.m_data.zones)) := by
  have hr := Ready.new template hb
  constructor
  · intro b r heq
    have hr2 := translate_ready _ descriptor hr
    obtain ⟨h1, h2⟩ := translateBody_tables_live ext _ _ model hvac hr2 b r heq
    refine ⟨h1, h2, ?_⟩
    intro hbt hm
    subst hbt
    exact translateBody_zoneTable_live ext _ _ model hvac hr2 hm r heq
  · intro b r heq
    obtain ⟨h1, h2⟩ := translateBody_tables_live ext _ _ model hvac hr.resetLog b r heq
    refine ⟨h1, h2, ?_⟩
    intro hbt hm
    subst hbt
    exact translateBody_zoneTable_live ext _ _ model hvac hr.resetLog hm r heq

/-- Witness of C16 (amended): the example building with HVAC translates, and the three tables
of the result hold only numbers of records of the level, path and zone lists. -/
theorem translate_tables_live_witness :
    Examples.template.Baseline ∧ Examples.building.zoneRefsResolve ∧
    ∃ r, (ForwardTranslator.new Examples.template).translate Examples.ext Examples.building
        true "Average" = some (true, r) ∧
      r.m_surfaceMap = [(31, 1), (33, 2)] ∧
      TableLive r.m_levelMap (fun l => l.nr) r.m_data.levels ∧
      TableLive r.m_surfaceMap (fun p => p.nr) r.m_data.paths ∧
      TableLive r.m_zoneMap (fun z => z.nr) r.m_data.zones := by
  refine ⟨Examples.template_baseline, Examples.building_zoneRefs, ?_⟩
  obtain ⟨r, hr, _, _, _, hsm⟩ := Examples.building_translate Examples.ext
  have h := (translate_tables_live Examples.ext Examples.template Examples.building true
    "Average" [] Examples.template_baseline).1 true r hr
  exact ⟨r, hr, hsm, h.1, h.2.1, h.2.2 rfl Examples.building_zoneRefs⟩

/-- C16, counterexample: one story, a zone on it and a second zone (handle 12) without a
space. `translate` returns false, and `zoneMap()` then maps handle 12 to the index 2, while
the zone list holds zone 1 only: the table entry is written before the level check, the zone
is appended after it. -/
theorem translate_dangling_zone_index :
    ∃ r, (ForwardTranslator.new Examples.template).translate Examples.ext
        Examples.unresolvedZone true "Average" = some (false, r) ∧
      r.m_zoneMap = [(11, 1), (12, 2)] ∧ r.m_data.zones.map (fun z => z.nr) = [1] ∧
      ¬ TableLive r.m_zoneMap (fun z => z.nr) r.m_data.zones := by
  have h : ∃ r, (ForwardTranslator.new Examples.template).translate Examples.ext
        Examples.unresolvedZone true "Average" = some (false, r) ∧
      r.m_zoneMap = [(11, 1), (12, 2)] ∧ r.m_data.zones.map (fun z => z.nr) = [1] := by
    simp [ForwardTranslator.translate, ForwardTranslator.new,
      resetLog, checkDescriptor, afePhase, elementChoice, findAFEs, findAFEsStep,
      buildAfeMap, translateBody, storiesPhase, setDescription, translateStories, storyStep,
      networkPhases, translateZones, zoneStep, zoneLevel, zoneVolume, tableLookupQMap,
      translateSurfaces, finish, forEach, Outcome.bind, Outcome.map, LOG, setValid,
      Table.find, Table.value, Table.set, Table.index, Examples.unresolvedZone,
      Examples.zoneA, Examples.zoneNoSpace, Examples.spaceA, Examples.template, firstStory,
      LogLevel.toInt]
  obtain ⟨r, h1, h2, h3⟩ := h
  refine ⟨r, h1, h2, h3, ?_⟩
  intro hlive
  obtain ⟨z, hz, hnr⟩ := hlive (12, 2) (by rw [h2]; simp)
  have : z.nr ∈ r.m_data.zones.map (fun z => z.nr) := List.mem_map.mpr ⟨z, hz, rfl⟩
  rw [h3] at this
  simp only [] at hnr
  rw [hnr] at this
  simp at this

end LiveTables3

section ZoneWithoutStory

open model ForwardTranslator

theorem firstStory_none (l : List Space) (h : ∀ sp ∈ l, sp.buildingStory = none) :
    firstStory l = none := by
  induction l with
  | nil => rfl
  | cons sp rest ih =>
    have h1 := h sp (List.mem_cons_self _ _)
    simp only [firstStory, h1]
    exact ih (fun x hx => h x (List.mem_cons_of_mem _ hx))

/-- A run of the shared body on a ready translator, for a model with stories and a thermal
zone none of whose spaces has a story, returns false at the first zone without a level. -/
theorem translateBody_zone_without_story (ext : Externals) (pe : ElementChoice)
    (t : ForwardTranslator) (model : Model) (hvac : Bool) (hr : Ready t)
    (hs : model.stories ≠ []) (Z : ThermalZone) (hZ : Z ∈ model.thermalZones)
    (hno : ∀ sp ∈ Z.spaces, sp.buildingStory = none) :
    ∃ r, translateBody ext pe t model hvac = some (false, r) ∧ r.valid = false ∧
      r.errors ≠ [] ∧ r.m_data.paths = [] ∧ r.m_data.ahs = [] ∧
      ∃ pre z post, model.thermalZones = pre ++ z :: post ∧ Z ∉ pre ∧
        r.m_data.zones.length = pre.length := by
  have hnf : ¬ LevelFound (storiesPhase model t).m_levelMap Z := by
    rintro ⟨k, v, hk, _⟩
    rw [firstStory_none _ hno] at hk
    exact absurd hk (by simp)
  obtain ⟨r, heq, hv⟩ := translateBody_fails_of_unresolved ext pe t model hvac hr hs
    ⟨Z, hZ, hnf⟩
  refine ⟨r, heq, hv, ?_⟩
  rcases translateBody_false_trace ext pe t model hvac hr hs r heq with
    ⟨pre, z, post, mid, sr, hx, _, hzi, hab, hrr⟩ | ⟨nr, tz, _, hzi, _⟩
  · obtain ⟨_, a2, _, _, _, _, _, a8, _⟩ := zoneStep_abort mid sr z hab
    obtain ⟨_, _, _, z4, z5, _, _, _, _, ⟨new, zn1, zn2, _⟩, _, _, z13⟩ := hzi
    rw [hrr, a2, z4, z5, zn1]
    refine ⟨a8, by simp [hr.2.2.2.1], by simp [hr.2.2.2.2.1], pre, z, post, hx, ?_, ?_⟩
    · intro hmem
      exact hnf (z13 Z hmem)
    · simp [hr.2.2.1, zn2]
  · exact absurd (hzi.2.2.2.2.2.2.2.2.2.2.2.2 Z hZ) hnf

/-- C11: for a model with at least one story that has a thermal zone none of whose spaces has
a building story, `translate` on a fresh translator (template a baseline, either mode, with
or without HVAC) returns false, `valid()` is false afterwards, an error message is recorded,
no path and no AHS is created, and the zone list holds one zone per thermal zone that comes
before the first thermal zone without a level, among which that zone is not. -/
theorem translate_zone_without_story (ext : Externals) (template : prj.Data) (model : Model)
    (hvac : Bool) (descriptor : String) (afeMap : Table String) (hb : template.Baseline)
    (hs : model.stories ≠ []) (Z : ThermalZone) (hZ : Z ∈ model.thermalZones)
    (hno : ∀ sp ∈ Z.spaces, sp.buildingStory = none) :
    (∃ r, (ForwardTranslator.new template).translate ext model hvac descriptor
        = some (false, r) ∧ r.valid = false ∧ r.errors ≠ [] ∧
      r.m_data.paths = [] ∧ r.m_data.ahs = [] ∧
      ∃ pre z post, model.thermalZones = pre ++ z :: post ∧ Z ∉ pre ∧
        r.m_data.zones.length = pre.length) ∧
    (∃ r, (ForwardTranslator.new template).translateWithMap ext model afeMap hvac
        = some (false, r) ∧ r.valid = false ∧ r.errors ≠ [] ∧
      r.m_data.paths = [] ∧ r.m_data.ahs = [] ∧
      ∃ pre z post, model.thermalZones = pre ++ z :: post ∧ Z ∉ pre ∧
        r.m_data.zones.length = pre.length) := by
  have hr := Ready.new template hb
  exact ⟨translateBody_zone_without_story ext _ _ model hvac (translate_ready _ descriptor hr)
      hs Z hZ hno,
    translateBody_zone_without_story ext _ _ model hvac hr.resetLog hs Z hZ hno⟩

/-- Witness of C11: the model with one story, a zone on it and a second zone without a
space. -/
theorem translate_zone_without_story_witness :
    Examples.template.Baseline ∧ Examples.unresolvedZone.stories ≠ [] ∧
    Examples.zoneNoSpace ∈ Examples.unresolvedZone.thermalZones ∧
    (∀ sp ∈ Examples.zoneNoSpace.spaces, sp.buildingStory = none) ∧
    ∃ r, (ForwardTranslator.new Examples.template).translate Examples.ext
        Examples.unresolvedZone true "Average" = some (false, r) ∧ r.valid = false ∧
      r.errors ≠ [] ∧ r.m_data.paths = [] ∧ r.m_data.ahs = [] ∧
      ∃ pre z post, Examples.unresolvedZone.thermalZones = pre ++ z :: post ∧
        Examples.zoneNoSpace ∉ pre ∧ r.m_data.zones.length = pre.length :=
  ⟨Examples.template_baseline, by simp [Examples.unresolvedZone],
    by simp [Examples.unresolvedZone], by simp [Examples.zoneNoSpace],
    (translate_zone_without_story Examples.ext Examples.template Examples.unresolvedZone true
      "Average" [] Examples.template_baseline (by simp [Examples.unresolvedZone])
      Examples.zoneNoSpace (by simp [Examples.unresolvedZone])
      (by simp [Examples.zoneNoSpace])).1⟩

end ZoneWithoutStory

section AdjacentUnresolved

open model ForwardTranslator

/-- The surface loop body at an unconsumed surface with boundary condition "Surface" whose
zone has a nonzero index in the zone table and whose adjacent surface does not lead to a
thermal zone: `return false`. -/
theorem surfaceStep_adjacent_unresolved (ext : Externals) (pe : ElementChoice) (w : ℚ)
    (s : SurfaceLoop) (a : Surface) (hok : ZoneLookupOK s.t) (hu : a.handle ∉ s.used)
    (hbc : a.outsideBoundaryCondition = "Surface") (z : Handle) (v : Int)
    (hown : a.ownZone = some z) (hf : s.t.m_zoneMap.find z = some v) (hv : v ≠ 0)
    (hadj : a.adjacentZone = none) :
    ∃ sr, surfaceStep ext pe w s a = .abort sr := by
  have hmem : (z, v) ∈ s.t.m_zoneMap := Table.find_mem _ _ _ hf
  obtain ⟨zone, hzone, level, hlevel⟩ := hok (z, v) hmem hv
  simp only [] at hzone hlevel
  unfold Surface.ownZone at hown
  unfold Surface.adjacentZone at hadj
  unfold surfaceStep
  simp only []
  rw [if_pos ⟨hu, by rw [hbc]; decide⟩]
  cases hsp : a.space with
  | none => rw [hsp] at hown; exact absurd hown (by simp)
  | some space =>
    rw [hsp] at hown
    simp only [] at hown ⊢
    rw [hown]
    simp only [tableLookupStdMap, hf]
    rw [if_neg hv, hzone]
    simp only []
    rw [hlevel]
    simp only []
    rw [if_neg (by rw [hbc]; decide), if_pos hbc]
    unfold interiorStep
    cases hA : a.adjacentSurface with
    | none => exact ⟨_, rfl⟩
    | some adj =>
      rw [hA] at hadj
      simp only [] at hadj ⊢
      cases hB : adj.space with
      | none => exact ⟨_, rfl⟩
      | some asp =>
        rw [hB] at hadj
        simp only [] at hadj ⊢
        rw [hadj]
        exact ⟨_, rfl⟩

theorem translateBody_of_surface_abort (ext : Externals) (pe : ElementChoice)
    (t : ForwardTranslator) (model : Model) (hvac : Bool)
    (hne : (storiesPhase model t).m_data.levels.length ≠ 0) (sz : Int × ForwardTranslator)
    (sr : SurfaceLoop)
    (h1 : forEach zoneStep model.thermalZones (0, storiesPhase model t) = .next sz)
    (h2 : forEach (surfaceStep ext pe sz.2.m_data.rc.wind_H) model.surfaces
      { nr := 0, used := [], t := sz.2 } = .abort sr) :
    translateBody ext pe t model hvac = some (false, sr.t) := by
  unfold translateBody
  simp only []
  rw [if_neg hne]
  unfold networkPhases translateZones translateSurfaces
  rw [h1]
  simp only [Outcome.map, Outcome.bind]
  rw [h2]
  rfl

/-- A run of the shared body on a ready translator whose surface loop falls through the
surfaces `pre` and then meets an unconsumed surface `a` with boundary condition "Surface",
in a space of a thermal zone of the model, whose adjacent surface does not lead to a thermal
zone: it returns false with the network data and the surface table of the run over the
surfaces `pre` alone. -/
theorem translateBody_adjacent_unresolved (ext : Externals) (pe : ElementChoice)
    (t : ForwardTranslator) (model : Model) (hvac : Bool) (hr : Ready t)
    (pre : List Surface) (a : Surface) (post : List Surface)
    (hx : model.surfaces = pre ++ a :: post) (r0 : ForwardTranslator)
    (h0 : translateBody ext pe t { model with surfaces := pre } false = some (true, r0))
    (hused : ∀ b ∈ pre, ∀ adj, b.adjacentSurface = some adj → adj.handle ≠ a.handle)
    (hbc : a.outsideBoundaryCondition = "Surface") (z : Handle) (hown : a.ownZone = some z)
    (hzm : z ∈ model.thermalZones.map (fun tz => tz.handle))
    (hadj : a.adjacentZone = none) :
    ∃ r, translateBody ext pe t model hvac = some (false, r) ∧ r.valid = false ∧
      r.errors ≠ [] ∧ r.m_data = r0.m_data ∧ r.m_surfaceMap = r0.m_surfaceMap := by
  have hne := (translateBody_true_steps ext pe t _ false r0 h0).1
  obtain ⟨nr, tz, ts, r1, hz1, hzi, hs1, hrun, h3, h4⟩ :=
    translateBody_true_trace ext pe t _ false hr r0 h0
  change forEach zoneStep model.thermalZones (0, storiesPhase model t) = .next (nr, tz) at hz1
  change ZonesInv (storiesPhase model t) model.thermalZones (nr, tz) at hzi
  change forEach (surfaceStep ext pe tz.m_data.rc.wind_H) pre _ = .next ts at hs1
  change SurfaceRun pre _ ts at hrun
  change (storiesPhase model t).m_data.levels.length ≠ 0 at hne
  have hr1 : r1 = ts.t := by
    rcases h3 with ⟨hv, _⟩ | ⟨_, h5⟩
    · exact absurd hv (by simp)
    · exact h5
  have hzok : ZoneLookupOK ts.t :=
    hrun.run_zoneLookupOK (hzi.zones_zoneLookupOK (storiesPhase_levelMapOK model t hr)
      (by simp [hr.2.2.1]) (by simp [hr.2.2.2.2.2.2.1]))
  have hu : a.handle ∉ ts.used := by
    intro hmem
    rcases hrun.used_origin _ hmem with h | ⟨b, hb, hk⟩
    · simp at h
    · obtain ⟨x, hx1, hx2⟩ := usedDelta_mem b _ hk
      exact hused b hb x hx1 hx2
  obtain ⟨Z, hZ, hZz⟩ := List.mem_map.mp hzm
  obtain ⟨v, hv1, hv2, _⟩ := hzi.2.2.2.2.2.2.2.2.2.2.2.1 Z hZ
  simp only [] at hv1 hZz
  rw [hZz] at hv1
  have hf := hrun.zoneMap_stable.1 z v hv1
  obtain ⟨sr, hab⟩ := surfaceStep_adjacent_unresolved ext pe tz.m_data.rc.wind_H ts a hzok hu
    hbc z v hown hf (by omega) hadj
  have hloop : forEach (surfaceStep ext pe tz.m_data.rc.wind_H) model.surfaces
      { nr := 0, used := [], t := tz } = .abort sr := by
    rw [hx, forEach_append, hs1]
    simp only [Outcome.bind, forEach]
    rw [hab]
  have heq := translateBody_of_surface_abort ext pe t model hvac hne (nr, tz) sr hz1 hloop
  obtain ⟨_, _, a3, a4, _, _, a7, _, a9, _⟩ := surfaceStep_abort ext pe _ ts sr a hab
  refine ⟨sr.t, heq, ?_, a9, ?_, ?_⟩
  · simp [ForwardTranslator.valid, a4]
  · rw [a3, h4, hr1]
    simp
  · rw [a7, h4, hr1]
    simp

end AdjacentUnresolved
section AdjacentUnresolved2

open model ForwardTranslator

/-- The example building cut off before the ceiling without an adjacent surface translates,
with one path, for the exterior wall. -/
theorem Examples.loneCeiling_before :
    ∃ r0, (ForwardTranslator.new Examples.template).translate Examples.ext
        { Examples.loneCeiling with surfaces := [Examples.wallA] } false "Average"
        = some (true, r0) ∧
      r0.m_data.paths.map (fun p => p.nr) = [1] ∧ r0.m_surfaceMap = [(31, 1)] := by
  simp [ForwardTranslator.translate, ForwardTranslator.new, resetLog, checkDescriptor, afePhase,
    buildAfeMap, translateBody, storiesPhase, setDescription, translateStories, storyStep,
    networkPhases, translateZones, zoneStep, zoneLevel, zoneVolume, tableLookupQMap,
    tableLookupStdMap, translateSurfaces, surfaceStep, exteriorPath, SurfaceLoop.addPath,
    Table.index, relativeHeight, finish, forEach, Outcome.bind, Outcome.map, LOG, setValid,
    Table.find, Table.value, Table.set, listAt, Examples.loneCeiling, Examples.building,
    Examples.zoneA, Examples.zoneB, Examples.spaceA, Examples.spaceB, Examples.wallA,
    Examples.twoStories, Examples.template]

/-- C12: let the surface loop of `translate` on a fresh translator (template a baseline,
either mode, with or without HVAC) reach a surface `a`, that is, let the translation of the
model cut off before `a` (surfaces `pre`, no HVAC) return true, and let `a` be unconsumed (no
surface before it names it as its adjacent surface), have boundary condition "Surface" and a
space in a thermal zone of the model, while its adjacent surface is absent, or has no space,
or has a space without thermal zone. Then `translate` returns false, `valid()` is false
afterwards, an error message is recorded, and the network data (so the path list) and the
surface table are those of the translation cut off before `a`: no path is created for `a`
or for a later surface. -/
theorem translate_adjacent_unresolved (ext : Externals) (template : prj.Data) (model : Model)
    (hvac : Bool) (descriptor : String) (afeMap : Table String) (hb : template.Baseline)
    (pre : List Surface) (a : Surface) (post : List Surface)
    (hx : model.surfaces = pre ++ a :: post)
    (hused : ∀ b ∈ pre, ∀ adj, b.adjacentSurface = some adj → adj.handle ≠ a.handle)
    (hbc : a.outsideBoundaryCondition = "Surface") (z : Handle) (hown : a.ownZone = some z)
    (hzm : z ∈ model.thermalZones.map (fun tz => tz.handle))
    (hadj : a.adjacentZone = none) :
    (∀ r0, (ForwardTranslator.new template).translate ext { model with surfaces := pre } false
        descriptor = some (true, r0) →
      ∃ r, (ForwardTranslator.new template).translate ext model hvac descriptor
          = some (false, r) ∧ r.valid = false ∧ r.errors ≠ [] ∧
        r.m_data = r0.m_data ∧ r.m_surfaceMap = r0.m_surfaceMap) ∧
    (∀ r0, (ForwardTranslator.new template).translateWithMap ext { model with surfaces := pre }
        afeMap false = some (true, r0) →
      ∃ r, (ForwardTranslator.new template).translateWithMap ext model afeMap hvac
          = some (false, r) ∧ r.valid = false ∧ r.errors ≠ [] ∧
        r.m_data = r0.m_data ∧ r.m_surfaceMap = r0.m_surfaceMap) := by
  have hr := Ready.new template hb
  constructor
  · intro r0 h0
    exact translateBody_adjacent_unresolved ext _ _ model hvac (translate_ready _ descriptor hr)
      pre a post hx r0 h0 hused hbc z hown hzm hadj
  · intro r0 h0
    exact translateBody_adjacent_unresolved ext _ _ model hvac hr.resetLog
      pre a post hx r0 h0 hused hbc z hown hzm hadj

/-- Witness of C12: the example building whose second surface is a ceiling of space A with
boundary condition "Surface" and no adjacent surface: `translate` returns false, and the only
path is the one of the exterior wall that comes before the ceiling. -/
theorem translate_adjacent_unresolved_witness :
    Examples.template.Baseline ∧
    Examples.loneCeiling.surfaces = [Examples.wallA] ++ Examples.ceilingLone ::
      [Examples.floorB] ∧
    Examples.ceilingLone.outsideBoundaryCondition = "Surface" ∧
    Examples.ceilingLone.ownZone = some 11 ∧ Examples.ceilingLone.adjacentZone = none ∧
    ∃ r0 r, (ForwardTranslator.new Examples.template).translate Examples.ext
        { Examples.loneCeiling with surfaces := [Examples.wallA] } false "Average"
        = some (true, r0) ∧
      (ForwardTranslator.new Examples.template).translate Examples.ext Examples.loneCeiling
        true "Average" = some (false, r) ∧ r.valid = false ∧ r.errors ≠ [] ∧
      r.m_data = r0.m_data ∧ r.m_surfaceMap = r0.m_surfaceMap ∧
      r0.m_data.paths.map (fun p => p.nr) = [1] := by
  refine ⟨Examples.template_baseline, rfl, rfl, rfl, rfl, ?_⟩
  obtain ⟨r0, h0, hp, _⟩ := Examples.loneCeiling_before
  obtain ⟨r, h1, h2, h3, h4, h5⟩ :=
    (translate_adjacent_unresolved Examples.ext Examples.template Examples.loneCeiling true
      "Average" [] Examples.template_baseline [Examples.wallA] Examples.ceilingLone
      [Examples.floorB] rfl
      (by
        intro b hb adj hadj
        simp only [List.mem_singleton] at hb
        subst hb
        simp [Examples.wallA] at hadj)
      rfl 11 rfl (by simp [Examples.loneCeiling, Examples.building, Examples.zoneA])
      rfl).1 r0 h0
  exact ⟨r0, r, h0, h1, h2, h3, h4, h5, hp⟩

end AdjacentUnresolved2

section NoRollback

open model ForwardTranslator

theorem translateBody_of_fallthrough (ext : Externals) (pe : ElementChoice)
    (t : ForwardTranslator) (model : Model)
    (hne : (storiesPhase model t).m_data.levels.length ≠ 0) (sz : Int × ForwardTranslator)
    (ts : SurfaceLoop)
    (h1 : forEach zoneStep model.thermalZones (0, storiesPhase model t) = .next sz)
    (h2 : forEach (surfaceStep ext pe sz.2.m_data.rc.wind_H) model.surfaces
      { nr := 0, used := [], t := sz.2 } = .next ts) :
    translateBody ext pe t model false = some (true, ts.t.setValid true) := by
  unfold translateBody
  simp only []
  rw [if_neg hne]
  unfold networkPhases translateZones translateSurfaces
  rw [h1]
  simp only [Outcome.map, Outcome.bind]
  rw [h2]
  rfl

/-- A run of the shared body on a ready translator, for a model with stories, that returns
false: the network data is the one of the run cut off before the thermal zone or before the
surface at which it stopped. -/
theorem translateBody_abort_keeps (ext : Externals) (pe : ElementChoice)
    (t : ForwardTranslator) (model : Model) (hvac : Bool) (hr : Ready t)
    (hs : model.stories ≠ []) (r : ForwardTranslator)
    (h : translateBody ext pe t model hvac = some (false, r)) :
    r.valid = false ∧
    ((∃ pre z post r0, model.thermalZones = pre ++ z :: post ∧
        translateBody ext pe t { model with thermalZones := pre, surfaces := [] } false
          = some (true, r0) ∧ r.m_data = r0.m_data) ∨
      (∃ pre a post r0, model.surfaces = pre ++ a :: post ∧
        a.outsideBoundaryCondition = "Surface" ∧ a.adjacentZone = none ∧
        translateBody ext pe t { model with surfaces := pre } false = some (true, r0) ∧
        r.m_data = r0.m_data)) := by
  have hne : (storiesPhase model t).m_data.levels.length ≠ 0 :=
    fun h0 => hs ((storiesPhase_levels_ne model t hr).mp h0)
  rcases translateBody_false_trace ext pe t model hvac hr hs r h with
    ⟨pre, z, post, mid, sr, hx, hpre, _, hab, hrr⟩ |
    ⟨nr, tz, hz1, _, pre, a, post, mid, sr, hx, hpre, _, _, hab, hrr⟩
  · obtain ⟨_, a2, a3, _⟩ := zoneStep_abort mid sr z hab
    refine ⟨by rw [hrr]; simp [ForwardTranslator.valid, a3], Or.inl ?_⟩
    refine ⟨pre, z, post, (mid.2).setValid true, hx, ?_, by rw [hrr, a2]; simp⟩
    exact translateBody_of_fallthrough ext pe t
      { model with thermalZones := pre, surfaces := [] } hne mid
      { nr := 0, used := [], t := mid.2 } hpre rfl
  · obtain ⟨_, _, a3, a4, _, _, _, _, _, _, a11, a12⟩ := surfaceStep_abort ext pe _ mid sr a hab
    refine ⟨by rw [hrr]; simp [ForwardTranslator.valid, a4], Or.inr ?_⟩
    refine ⟨pre, a, post, (mid.t).setValid true, hx, a11, a12, ?_, by rw [hrr, a3]; simp⟩
    exact translateBody_of_fallthrough ext pe t { model with surfaces := pre } hne (nr, tz) mid
      hz1 hpre

/-- The example building with the ceiling without an adjacent surface: `translate` returns
false. -/
theorem Examples.loneCeiling_translate :
    ∃ r, (ForwardTranslator.new Examples.template).translate Examples.ext
        Examples.loneCeiling true "Average" = some (false, r) ∧
      r.m_data.paths.map (fun p => p.nr) = [1] ∧
      r.m_data.zones.map (fun z => z.nr) = [1, 2] := by
  simp [ForwardTranslator.translate, ForwardTranslator.new, resetLog, checkDescriptor, afePhase,
    buildAfeMap, translateBody, storiesPhase, setDescription, translateStories, storyStep,
    networkPhases, translateZones, zoneStep, zoneLevel, zoneVolume, tableLookupQMap,
    tableLookupStdMap, translateSurfaces, surfaceStep, exteriorPath, interiorStep,
    SurfaceLoop.addPath,
    Table.index, relativeHeight, finish, forEach, Outcome.bind, Outcome.map, LOG, setValid,
    Table.find, Table.value, Table.set, listAt, Examples.loneCeiling, Examples.building,
    Examples.zoneA, Examples.zoneB, Examples.spaceA, Examples.spaceB, Examples.wallA,
    Examples.ceilingLone, Examples.twoStories, Examples.template, LogLevel.toInt]

/-- C14: when `translate` on a fresh translator (template a baseline, either mode, with or
without HVAC) returns false for a model with stories, that is, when it aborts at a thermal
zone without a level or at a surface whose adjacent surface does not resolve, `valid()` is
false and nothing is rolled back: the network data returned (levels, zones, paths and the
rest) is exactly the network data of the successful translation of the model cut off before
the failure point, that is, of the model with the thermal zones before the failing zone and
no surface, or of the model with the surfaces before the failing surface, without HVAC. -/
theorem translate_abort_keeps (ext : Externals) (template : prj.Data) (model : Model)
    (hvac : Bool) (descriptor : String) (afeMap : Table String) (hb : template.Baseline)
    (hs : model.stories ≠ []) :
    (∀ r, (ForwardTranslator.new template).translate ext model hvac descriptor
        = some (false, r) →
      r.valid = false ∧
      ((∃ pre z post r0, model.thermalZones = pre ++ z :: post ∧
          (ForwardTranslator.new template).translate ext
            { model with thermalZones := pre, surfaces := [] } false descriptor
            = some (true, r0) ∧ r.m_data = r0.m_data) ∨
        (∃ pre a post r0, model.surfaces = pre ++ a :: post ∧
          a.outsideBoundaryCondition = "Surface" ∧ a.adjacentZone = none ∧
          (ForwardTranslator.new template).translate ext { model with surfaces := pre } false
            descriptor = some (true, r0) ∧ r.m_data = r0.m_data))) ∧
    (∀ r, (ForwardTranslator.new template).translateWithMap ext model afeMap hvac
        = some (false, r) →
      r.valid = false ∧
      ((∃ pre z post r0, model.thermalZones = pre ++ z :: post ∧
          (ForwardTranslator.new template).translateWithMap ext
            { model with thermalZones := pre, surfaces := [] } afeMap false
            = some (true, r0) ∧ r.m_data = r0.m_data) ∨
        (∃ pre a post r0, model.surfaces = pre ++ a :: post ∧
          a.outsideBoundaryCondition = "Surface" ∧ a.adjacentZone = none ∧
          (ForwardTranslator.new template).translateWithMap ext { model with surfaces := pre }
            afeMap false = some (true, r0) ∧ r.m_data = r0.m_data))) := by
  have hr := Ready.new template hb
  constructor
  · intro r heq
    exact translateBody_abort_keeps ext _ _ model hvac (translate_ready _ descriptor hr) hs r heq
  · intro r heq
    exact translateBody_abort_keeps ext _ _ model hvac hr.resetLog hs r heq

/-- Witness of C14: the example building with the ceiling without an adjacent surface: the
translation returns false and keeps the two zones and the path of the exterior wall. -/
theorem translate_abort_keeps_witness :
    Examples.template.Baseline ∧ Examples.loneCeiling.stories ≠ [] ∧
    ∃ r, (ForwardTranslator.new Examples.template).translate Examples.ext
        Examples.loneCeiling true "Average" = some (false, r) ∧
      r.m_data.paths.map (fun p => p.nr) = [1] ∧
      r.m_data.zones.map (fun z => z.nr) = [1, 2] ∧
      r.valid = false ∧
      ((∃ pre z post r0, Examples.loneCeiling.thermalZones = pre ++ z :: post ∧
          (ForwardTranslator.new Examples.template).translate Examples.ext
            { Examples.loneCeiling with thermalZones := pre, surfaces := [] } false "Average"
            = some (true, r0) ∧ r.m_data = r0.m_data) ∨
        (∃ pre a post r0, Examples.loneCeiling.surfaces = pre ++ a :: post ∧
          a.outsideBoundaryCondition = "Surface" ∧ a.adjacentZone = none ∧
          (ForwardTranslator.new Examples.template).translate Examples.ext
            { Examples.loneCeiling with surfaces := pre } false "Average" = some (true, r0) ∧
          r.m_data = r0.m_data)) := by
  have hs : Examples.loneCeiling.stories ≠ [] := by
    simp [Examples.loneCeiling, Examples.building, Examples.twoStories]
  refine ⟨Examples.template_baseline, hs, ?_⟩
  obtain ⟨r, h1, h2, h3⟩ := Examples.loneCeiling_translate
  have h := (translate_abort_keeps Examples.ext Examples.template Examples.loneCeiling true
    "Average" [] Examples.template_baseline hs).1 r h1
  exact ⟨r, h1, h2, h3, h.1, h.2⟩

end NoRollback

section LogInsert

open model ForwardTranslator

/-- A function on states that commutes with putting a message in front of the log: running
it on a state whose log is `L` is running it on the state with an empty log and putting `L`
in front of the log of the result. -/
theorem log_front {σ : Type} (sh : LogMessage → σ → σ) (log : σ → List LogMessage)
    (setLog : List LogMessage → σ → σ)
    (l1 : ∀ w L s, setLog (w :: L) s = sh w (setLog L s))
    (l2 : ∀ s, setLog (log s) s = s)
    (f : σ → Outcome σ) (hf : ∀ w s, f (sh w s) = (f s).map (sh w)) (s : σ)
    (L : List LogMessage) :
    f (setLog L s) = (f (setLog [] s)).map (fun r => setLog (L ++ log r) r) := by
  induction L with
  | nil =>
    have : (fun r : σ => setLog ([] ++ log r) r) = id := by
      funext r
      simp [l2]
    rw [this]
    cases f (setLog [] s) <;> rfl
  | cons w L ih =>
    rw [l1, hf, ih, Outcome.map_map]
    congr 1
    funext r
    rw [List.cons_append, l1]

/-- A function on states that commutes with putting a message in front of the log also
commutes with putting a message into the log after the messages `A`. -/
theorem log_insert {σ : Type} (sh : LogMessage → σ → σ) (log : σ → List LogMessage)
    (setLog : List LogMessage → σ → σ)
    (l1 : ∀ w L s, setLog (w :: L) s = sh w (setLog L s))
    (l2 : ∀ s, setLog (log s) s = s)
    (l3 : ∀ L s, log (setLog L s) = L)
    (l4 : ∀ L M s, setLog L (setLog M s) = setLog L s)
    (f : σ → Outcome σ) (hf : ∀ w s, f (sh w s) = (f s).map (sh w)) (s : σ)
    (A B : List LogMessage) (w : LogMessage) :
    f (setLog (A ++ w :: B) s) =
      (f (setLog (A ++ B) s)).map (fun r => setLog (A ++ w :: (log r).drop A.length) r) := by
  rw [log_front sh log setLog l1 l2 f hf s (A ++ w :: B),
    log_front sh log setLog l1 l2 f hf s (A ++ B), Outcome.map_map]
  congr 1
  funext r
  rw [l3, l4]
  simp

theorem insertLog_translateHVACBlock (model : Model) (t : ForwardTranslator)
    (A B : List LogMessage) (w : LogMessage) (h : t.m_logSink = A ++ B) :
    translateHVACBlock model (t.insertLog A w) =
      (translateHVACBlock model t).map (fun r => r.insertLog A w) := by
  have key := log_insert (fun w t => t.shiftLog w) (fun t => t.m_logSink)
    (fun L t => { t with m_logSink := L }) (fun _ _ _ => rfl) (fun _ => rfl) (fun _ _ => rfl)
    (fun _ _ _ => rfl) (translateHVACBlock model)
    (fun w t => shiftLog_translateHVACBlock w model t) t A B w
  simp only [] at key
  have e1 : t.insertLog A w = { t with m_logSink := A ++ w :: B } := by
    unfold ForwardTranslator.insertLog
    rw [h, List.drop_left]
  have e2 : ({ t with m_logSink := A ++ B } : ForwardTranslator) = t := by
    rw [← h]
  rw [e1, key, e2]
  rfl

theorem insertLog_surfaceLoop (ext : Externals) (pe : ElementChoice) (wh : ℚ)
    (xs : List Surface) (s : SurfaceLoop) (A B : List LogMessage) (w : LogMessage)
    (h : s.t.m_logSink = A ++ B) :
    forEach (surfaceStep ext pe wh) xs (s.insertLog A w) =
      (forEach (surfaceStep ext pe wh) xs s).map (fun r => r.insertLog A w) := by
  have key := log_insert (fun w (s : SurfaceLoop) => s.shiftLog w) (fun s => s.t.m_logSink)
    (fun L s => { s with t := { s.t with m_logSink := L } }) (fun _ _ _ => rfl) (fun _ => rfl)
    (fun _ _ => rfl) (fun _ _ _ => rfl) (fun s => forEach (surfaceStep ext pe wh) xs s)
    (fun m s => forEach_comm (surfaceStep ext pe wh) (fun r => r.shiftLog m)
      (fun s a => shiftLog_surfaceStep m ext pe wh s a) xs s) s A B w
  simp only [] at key
  have e1 : s.insertLog A w = { s with t := { s.t with m_logSink := A ++ w :: B } } := by
    unfold SurfaceLoop.insertLog ForwardTranslator.insertLog
    rw [h, List.drop_left]
  have e2 : ({ s with t := { s.t with m_logSink := A ++ B } } : SurfaceLoop) = s := by
    rw [← h]
  rw [e1, key, e2]
  rfl

/-- The surface loop body at an unconsumed surface, not on the ground, that has no thermal
zone: one warning, and on to the next surface. -/
theorem surfaceStep_unattached (ext : Externals) (pe : ElementChoice) (w : ℚ)
    (s : SurfaceLoop) (a : Surface) (hu : a.handle ∉ s.used)
    (hg : a.outsideBoundaryCondition ≠ "Ground") (hown : a.ownZone = none) :
    surfaceStep ext pe w s a = .next (s.insertLog s.t.m_logSink (unattachedWarning a)) := by
  have hw : LogLevel.Warn.toInt ≤ LogLevel.Warn.toInt := le_refl _
  unfold Surface.ownZone at hown
  unfold surfaceStep
  simp only []
  rw [if_pos ⟨hu, hg⟩]
  unfold SurfaceLoop.insertLog ForwardTranslator.insertLog unattachedWarning
  cases hsp : a.space with
  | none =>
    simp only [LOG, if_pos hw, List.drop_length]
  | some space =>
    rw [hsp] at hown
    simp only [] at hown ⊢
    rw [hown]
    simp only [LOG, if_pos hw, List.drop_length]

end LogInsert
section Unattached

open model ForwardTranslator

theorem translateBody_of_next (ext : Externals) (pe : ElementChoice)
    (t : ForwardTranslator) (model : Model) (hvac : Bool)
    (hne : (storiesPhase model t).m_data.levels.length ≠ 0) (sz : Int × ForwardTranslator)
    (ts : SurfaceLoop) (r1 : ForwardTranslator)
    (h1 : forEach zoneStep model.thermalZones (0, storiesPhase model t) = .next sz)
    (h2 : forEach (surfaceStep ext pe sz.2.m_data.rc.wind_H) model.surfaces
      { nr := 0, used := [], t := sz.2 } = .next ts)
    (h3 : (hvac = true ∧ translateHVACBlock model ts.t = .next r1) ∨
      (hvac = false ∧ r1 = ts.t)) :
    translateBody ext pe t model hvac = some (true, r1.setValid true) := by
  unfold translateBody
  simp only []
  rw [if_neg hne]
  unfold networkPhases translateZones translateSurfaces
  rw [h1]
  simp only [Outcome.map, Outcome.bind]
  rw [h2]
  simp only []
  rcases h3 with ⟨hv, h4⟩ | ⟨hv, h4⟩
  · rw [if_pos hv, h4]
    rfl
  · rw [if_neg (by rw [hv]; simp), h4]
    rfl

/-- A run of the shared body on a ready translator whose surface loop falls through the
surfaces `pre` and then meets an unconsumed surface `a`, not on the ground, that has no
thermal zone: it returns what the run for the model without `a` returns, with the warning for
`a` put into the log after the messages logged up to there. -/
theorem translateBody_skip_unattached (ext : Externals) (pe : ElementChoice)
    (t : ForwardTranslator) (model : Model) (hvac : Bool) (hr : Ready t)
    (pre : List Surface) (a : Surface) (post : List Surface)
    (hx : model.surfaces = pre ++ a :: post) (r0 : ForwardTranslator)
    (h0 : translateBody ext pe t { model with surfaces := pre } false = some (true, r0))
    (hused : ∀ b ∈ pre, ∀ adj, b.adjacentSurface = some adj → adj.handle ≠ a.handle)
    (hg : a.outsideBoundaryCondition ≠ "Ground") (hown : a.ownZone = none) :
    ∃ b r', translateBody ext pe t { model with surfaces := pre ++ post } hvac = some (b, r') ∧
      translateBody ext pe t model hvac
        = some (b, r'.insertLog r0.m_logSink (unattachedWarning a)) ∧
      ∃ B, r'.m_logSink = r0.m_logSink ++ B := by
  have hne := (translateBody_true_steps ext pe t _ false r0 h0).1
  obtain ⟨nr, tz, mid, r1, hz1, hzi, hs1, hrun, h3, h4⟩ :=
    translateBody_true_trace ext pe t _ false hr r0 h0
  change forEach zoneStep model.thermalZones (0, storiesPhase model t) = .next (nr, tz) at hz1
  change forEach (surfaceStep ext pe tz.m_data.rc.wind_H) pre _ = .next mid at hs1
  change SurfaceRun pre _ mid at hrun
  change (storiesPhase model t).m_data.levels.length ≠ 0 at hne
  have hr1 : r1 = mid.t := by
    rcases h3 with ⟨hv, _⟩ | ⟨_, h5⟩
    · exact absurd hv (by simp)
    · exact h5
  have hlog : r0.m_logSink = mid.t.m_logSink := by
    rw [h4, hr1]
    rfl
  rw [hlog]
  have hu : a.handle ∉ mid.used := by
    intro hmem
    rcases hrun.used_origin _ hmem with h | ⟨b, hb, hk⟩
    · simp at h
    · obtain ⟨x, hx1, hx2⟩ := usedDelta_mem b _ hk
      exact hused b hb x hx1 hx2
  have hstep := surfaceStep_unattached ext pe tz.m_data.rc.wind_H mid a hu hg hown
  have hins := insertLog_surfaceLoop ext pe tz.m_data.rc.wind_H post mid mid.t.m_logSink []
    (unattachedWarning a) (by simp)
  have hfull : forEach (surfaceStep ext pe tz.m_data.rc.wind_H) model.surfaces
      { nr := 0, used := [], t := tz } =
      (forEach (surfaceStep ext pe tz.m_data.rc.wind_H) post mid).map
        (fun r => r.insertLog mid.t.m_logSink (unattachedWarning a)) := by
    rw [hx, forEach_append, hs1]
    simp only [Outcome.bind, forEach]
    rw [hstep]
    exact hins
  have hcut : forEach (surfaceStep ext pe tz.m_data.rc.wind_H) (pre ++ post)
      { nr := 0, used := [], t := tz } =
      forEach (surfaceStep ext pe tz.m_data.rc.wind_H) post mid := by
    rw [forEach_append, hs1]
    rfl
  have htot : ∃ b r', translateBody ext pe t { model with surfaces := pre ++ post } hvac
      = some (b, r') := by
    rcases translateBody_spec ext pe t { model with surfaces := pre ++ post } hvac hr with
      ⟨_, h⟩ | ⟨_, ⟨_, _, h⟩ | ⟨_, _, h⟩⟩
    · exact ⟨_, _, h⟩
    · exact ⟨_, _, h⟩
    · exact ⟨_, _, h⟩
  obtain ⟨b, r', hb⟩ := htot
  refine ⟨b, r', hb, ?_⟩
  cases b with
  | true =>
    obtain ⟨_, sz, ts, r2, g1, g2, g3, g4⟩ := translateBody_true_steps ext pe t _ hvac r' hb
    change forEach zoneStep model.thermalZones (0, storiesPhase model t) = .next sz at g1
    rw [hz1] at g1
    simp only [Outcome.next.injEq] at g1
    subst g1
    change forEach (surfaceStep ext pe tz.m_data.rc.wind_H) (pre ++ post) _ = .next ts at g2
    rw [hcut] at g2
    rw [g2] at hfull
    simp only [Outcome.map] at hfull
    obtain ⟨e1, he1⟩ := surfaceLoop_log ext pe _ post mid ts (Or.inl g2)
    rcases g3 with ⟨hv, g5⟩ | ⟨hv, g5⟩
    · change translateHVACBlock model ts.t = .next r2 at g5
      obtain ⟨e2, he2⟩ := hvacBlock_log model ts.t r2 g5
      have hh := insertLog_translateHVACBlock model ts.t mid.t.m_logSink e1
        (unattachedWarning a) he1
      rw [g5] at hh
      simp only [Outcome.map] at hh
      have := translateBody_of_next ext pe t model hvac hne (nr, tz) _ _ hz1 hfull
        (Or.inl ⟨hv, hh⟩)
      rw [this, g4]
      refine ⟨rfl, e1 ++ e2, ?_⟩
      show r2.m_logSink = _
      rw [he2, he1, List.append_assoc]
    · have := translateBody_of_next ext pe t model hvac hne (nr, tz) _
        (ts.t.insertLog mid.t.m_logSink (unattachedWarning a)) hz1 hfull (Or.inr ⟨hv, rfl⟩)
      rw [this, g4, g5]
      exact ⟨rfl, e1, he1⟩
  | false =>
    rcases translateBody_false_steps ext pe t _ hvac r' hb with ⟨g0, _⟩ | ⟨_, sr, g1, _⟩ |
      ⟨_, sz, sr, g1, g2, g3⟩
    · exact absurd g0 hne
    · change forEach zoneStep model.thermalZones (0, storiesPhase model t) = .abort sr at g1
      rw [hz1] at g1
      exact absurd g1 (by simp)
    · change forEach zoneStep model.thermalZones (0, storiesPhase model t) = .next sz at g1
      rw [hz1] at g1
      simp only [Outcome.next.injEq] at g1
      subst g1
      change forEach (surfaceStep ext pe tz.m_data.rc.wind_H) (pre ++ post) _ = .abort sr at g2
      rw [hcut] at g2
      rw [g2] at hfull
      simp only [Outcome.map] at hfull
      obtain ⟨e1, he1⟩ := surfaceLoop_log ext pe _ post mid sr (Or.inr g2)
      have := translateBody_of_surface_abort ext pe t model hvac hne (nr, tz) _ hz1 hfull
      rw [this, g3]
      exact ⟨rfl, e1, he1⟩

end Unattached
section Unattached2

open model ForwardTranslator

theorem unattachedWarning_level (a : Surface) : (unattachedWarning a).logLevel = .Warn := by
  unfold unattachedWarning
  split <;> rfl

/-- What putting a warning into the log changes: the log alone, which holds one warning more
and the same errors. -/
theorem insertLog_frame (t : ForwardTranslator) (A B : List LogMessage) (w : LogMessage)
    (h : t.m_logSink = A ++ B) (hw : w.logLevel = .Warn) :
    (t.insertLog A w).m_data = t.m_data ∧ (t.insertLog A w).m_surfaceMap = t.m_surfaceMap ∧
    (t.insertLog A w).m_zoneMap = t.m_zoneMap ∧ (t.insertLog A w).valid = t.valid ∧
    (t.insertLog A w).m_logSink = A ++ w :: B ∧
    (t.insertLog A w).warnings.length = t.warnings.length + 1 ∧
    (t.insertLog A w).errors = t.errors := by
  have hl : (t.insertLog A w).m_logSink = A ++ w :: B := by
    unfold ForwardTranslator.insertLog
    rw [h, List.drop_left]
  refine ⟨rfl, rfl, rfl, rfl, hl, ?_, ?_⟩
  · unfold ForwardTranslator.warnings
    rw [hl, h]
    simp [List.filter_cons, hw]
    omega
  · unfold ForwardTranslator.errors
    rw [hl, h]
    simp [List.filter_cons, hw]

/-- The example building cut off before the wall without a space translates. -/
theorem Examples.looseWall_before :
    ∃ r0, (ForwardTranslator.new Examples.template).translate Examples.ext
        { Examples.looseWall with surfaces := [Examples.wallA] } false "Average"
        = some (true, r0) := by
  obtain ⟨r0, h, _⟩ := Examples.loneCeiling_before
  exact ⟨r0, h⟩

/-- C13: let the surface loop of `translate` on a fresh translator (template a baseline,
either mode, with or without HVAC) reach a surface `a`, that is, let the translation of the
model cut off before `a` (surfaces `pre`, no HVAC) return true, and let `a` be unconsumed (no
surface before it names it as its adjacent surface), not on the ground, and without a space
or in a space without thermal zone. Then `translate` returns what it returns for the model
without `a` (the same flag, so `a` never makes it return false, the same network data, so no
path for `a`, the same surface table and zone table, the same `valid()`, the same errors),
but for the log, which holds exactly one message more: the warning for `a`, put after the
messages logged before `a` was reached. -/
theorem translate_skips_unattached (ext : Externals) (template : prj.Data) (model : Model)
    (hvac : Bool) (descriptor : String) (afeMap : Table String) (hb : template.Baseline)
    (pre : List Surface) (a : Surface) (post : List Surface)
    (hx : model.surfaces = pre ++ a :: post)
    (hused : ∀ b ∈ pre, ∀ adj, b.adjacentSurface = some adj → adj.handle ≠ a.handle)
    (hg : a.outsideBoundaryCondition ≠ "Ground") (hown : a.ownZone = none) :
    (∀ r0, (ForwardTranslator.new template).translate ext { model with surfaces := pre } false
        descriptor = some (true, r0) →
      ∃ b r' r B, (ForwardTranslator.new template).translate ext
          { model with surfaces := pre ++ post } hvac descriptor = some (b, r') ∧
        (ForwardTranslator.new template).translate ext model hvac descriptor = some (b, r) ∧
        r'.m_logSink = r0.m_logSink ++ B ∧
        r.m_logSink = r0.m_logSink ++ unattachedWarning a :: B ∧
        (unattachedWarning a).logLevel = .Warn ∧
        r.m_data = r'.m_data ∧ r.m_surfaceMap = r'.m_surfaceMap ∧ r.m_zoneMap = r'.m_zoneMap ∧
        r.valid = r'.valid ∧ r.warnings.length = r'.warnings.length + 1 ∧
        r.errors = r'.errors) ∧
    (∀ r0, (ForwardTranslator.new template).translateWithMap ext { model with surfaces := pre }
        afeMap false = some (true, r0) →
      ∃ b r' r B, (ForwardTranslator.new template).translateWithMap ext
          { model with surfaces := pre ++ post } afeMap hvac = some (b, r') ∧
        (ForwardTranslator.new template).translateWithMap ext model afeMap hvac
          = some (b, r) ∧
        r'.m_logSink = r0.m_logSink ++ B ∧
        r.m_logSink = r0.m_logSink ++ unattachedWarning a :: B ∧
        (unattachedWarning a).logLevel = .Warn ∧
        r.m_data = r'.m_data ∧ r.m_surfaceMap = r'.m_surfaceMap ∧ r.m_zoneMap = r'.m_zoneMap ∧
        r.valid = r'.valid ∧ r.warnings.length = r'.warnings.length + 1 ∧
        r.errors = r'.errors) := by
  have hr := Ready.new template hb
  have hw := unattachedWarning_level a
  constructor
  · intro r0 h0
    obtain ⟨b, r', h1, h2, B, h3⟩ := translateBody_skip_unattached ext _ _ model hvac
      (translate_ready _ descriptor hr) pre a post hx r0 h0 hused hg hown
    obtain ⟨f1, f2, f3, f4, f5, f6, f7⟩ := insertLog_frame r' _ B (unattachedWarning a) h3 hw
    exact ⟨b, r', _, B, h1, h2, h3, f5, hw, f1, f2, f3, f4, f6, f7⟩
  · intro r0 h0
    obtain ⟨b, r', h1, h2, B, h3⟩ := translateBody_skip_unattached ext _ _ model hvac
      hr.resetLog pre a post hx r0 h0 hused hg hown
    obtain ⟨f1, f2, f3, f4, f5, f6, f7⟩ := insertLog_frame r' _ B (unattachedWarning a) h3 hw
    exact ⟨b, r', _, B, h1, h2, h3, f5, hw, f1, f2, f3, f4, f6, f7⟩

/-- Witness of C13: the example building with an exterior wall that belongs to no space put
between its exterior wall and its interior pair: `translate` returns true as for the example
building itself, with the same nine paths and one warning more. -/
theorem translate_skips_unattached_witness :
    Examples.template.Baseline ∧
    Examples.looseWall.surfaces = [Examples.wallA] ++ Examples.wallLoose ::
      [Examples.ceilingA, Examples.floorB] ∧
    Examples.wallLoose.outsideBoundaryCondition ≠ "Ground" ∧
    Examples.wallLoose.ownZone = none ∧
    ∃ r' r, (ForwardTranslator.new Examples.template).translate Examples.ext Examples.building
        true "Average" = some (true, r') ∧
      (ForwardTranslator.new Examples.template).translate Examples.ext Examples.looseWall
        true "Average" = some (true, r) ∧
      r.m_data = r'.m_data ∧ r.m_data.paths.length = 9 ∧ r.m_surfaceMap = [(31, 1), (33, 2)] ∧
      r.warnings.length = r'.warnings.length + 1 ∧ r.errors = r'.errors := by
  refine ⟨Examples.template_baseline, rfl, by decide, rfl, ?_⟩
  obtain ⟨r0, h0⟩ := Examples.looseWall_before
  obtain ⟨b, r', r, B, h1, h2, _, _, _, h6, h7, _, _, h10, h11⟩ :=
    (translate_skips_unattached Examples.ext Examples.template Examples.looseWall true
      "Average" [] Examples.template_baseline [Examples.wallA] Examples.wallLoose
      [Examples.ceilingA, Examples.floorB] rfl
      (by
        intro b hb adj hadj
        simp only [List.mem_singleton] at hb
        subst hb
        simp [Examples.wallA] at hadj)
      (by decide) rfl).1 r0 h0
  obtain ⟨rb, g1, _, g3, _, g5⟩ := Examples.building_translate Examples.ext
  change (ForwardTranslator.new Examples.template).translate Examples.ext Examples.building
    true "Average" = some (b, r') at h1
  rw [g1] at h1
  simp only [Option.some.injEq, Prod.mk.injEq] at h1
  obtain ⟨hb1, hb2⟩ := h1
  subst hb1
  subst hb2
  refine ⟨rb, r, g1, h2, h6, ?_, by rw [h7, g5], h10, h11⟩
  rw [h6]
  have := congrArg List.length g3
  simpa using this

end Unattached2

section SteadyWeather

open model ForwardTranslator

/-- C29: `setSteadyWeather` returns true for every wind speed and direction, stores the
absolute value of the speed and the direction as given in the steady-state weather record,
records one warning exactly when the speed is negative (and no error), and changes no level,
zone, path, airflow element or AHS record, no table and no validity flag. -/
theorem setSteadyWeather_spec (t : ForwardTranslator) (windSpeed windDirection : ℚ) :
    (t.setSteadyWeather windSpeed windDirection).1 = true ∧
    (t.setSteadyWeather windSpeed windDirection).2.m_data.rc.ssWeather.windspd = |windSpeed| ∧
    (t.setSteadyWeather windSpeed windDirection).2.m_data.rc.ssWeather.winddir
      = windDirection ∧
    (windSpeed < 0 → (t.setSteadyWeather windSpeed windDirection).2.warnings = t.warnings ++
      [{ logLevel := .Warn,
         logMessage := "Steady state wind speed is negative, using absolute value." }]) ∧
    (¬ windSpeed < 0 → (t.setSteadyWeather windSpeed windDirection).2.m_logSink
      = t.m_logSink) ∧
    ((t.setSteadyWeather windSpeed windDirection).2.warnings ≠ t.warnings ↔ windSpeed < 0) ∧
    (t.setSteadyWeather windSpeed windDirection).2.errors = t.errors ∧
    (t.setSteadyWeather windSpeed windDirection).2.m_data.levels = t.m_data.levels ∧
    (t.setSteadyWeather windSpeed windDirection).2.m_data.zones = t.m_data.zones ∧
    (t.setSteadyWeather windSpeed windDirection).2.m_data.paths = t.m_data.paths ∧
    (t.setSteadyWeather windSpeed windDirection).2.m_data.airflowElements
      = t.m_data.airflowElements ∧
    (t.setSteadyWeather windSpeed windDirection).2.m_data.ahs = t.m_data.ahs ∧
    (t.setSteadyWeather windSpeed windDirection).2.m_data.valid = t.m_data.valid ∧
    (t.setSteadyWeather windSpeed windDirection).2.m_valid = t.m_valid ∧
    (t.setSteadyWeather windSpeed windDirection).2.m_zoneMap = t.m_zoneMap ∧
    (t.setSteadyWeather windSpeed windDirection).2.m_surfaceMap = t.m_surfaceMap := by
  by_cases h : windSpeed < 0
  · have hw := warnings_LOG_Warn t "Steady state wind speed is negative, using absolute value."
    have he : (t.LOG .Warn "Steady state wind speed is negative, using absolute value.").errors
        = t.errors := by
      simp [ForwardTranslator.LOG, ForwardTranslator.errors, LogLevel.toInt]
    have e : t.setSteadyWeather windSpeed windDirection = (true,
        { (t.LOG .Warn "Steady state wind speed is negative, using absolute value.") with
          m_data := { t.m_data with rc := { t.m_data.rc with
            ssWeather := { windspd := -windSpeed, winddir := windDirection } } } }) := by
      simp only [setSteadyWeather, if_pos h]
      simp
    rw [e]
    refine ⟨rfl, (abs_of_neg h).symm, rfl, fun _ => hw, fun h2 => absurd h h2, ?_, he,
      rfl, rfl, rfl, rfl, rfl, rfl, ?_, ?_, ?_⟩
    · constructor
      · intro _; exact h
      · intro _
        show (t.LOG .Warn "Steady state wind speed is negative, using absolute value.").warnings
          ≠ t.warnings
        rw [hw]
        simp
    · simp
    · simp
    · simp
  · have e : t.setSteadyWeather windSpeed windDirection = (true,
        { t with
          m_data := { t.m_data with rc := { t.m_data.rc with
            ssWeather := { windspd := windSpeed, winddir := windDirection } } } }) := by
      simp only [setSteadyWeather, if_neg h]
    rw [e]
    refine ⟨rfl, (abs_of_nonneg (not_lt.mp h)).symm, rfl, fun h2 => absurd h2 h,
      fun _ => rfl, ?_, rfl, rfl, rfl, rfl, rfl, rfl, rfl, rfl, rfl, rfl⟩
    constructor
    · intro hne; exact absurd rfl hne
    · intro h2; exact absurd h2 h

end SteadyWeather

section CapturedLog

open model ForwardTranslator

theorem Captured.keep_of_log {t r : ForwardTranslator} (h : Captured t)
    (e : r.m_logSink = t.m_logSink) : Captured r := by
  intro m hm
  rw [e] at hm
  exact h m hm

theorem Captured.keep_log (t : ForwardTranslator) (h : Captured t) (l : LogLevel) (msg : String) :
    Captured (t.LOG l msg) := by
  unfold ForwardTranslator.LOG
  split
  · rename_i hl
    intro m hm
    simp only [List.mem_append, List.mem_singleton] at hm
    rcases hm with hm | hm
    · exact h m hm
    · rw [hm]
      exact hl
  · exact h

theorem Captured.keep_tableLookupQMap (t : ForwardTranslator) (h : Captured t) (map : Table Handle)
    (k : Handle) (name : String) : Captured (t.tableLookupQMap map k name).2 := by
  unfold ForwardTranslator.tableLookupQMap
  simp only []
  split
  · exact h.keep_log t _ _
  · exact h

theorem Captured.keep_tableLookupStdMap (t : ForwardTranslator) (h : Captured t)
    (map : Table Handle) (k : Handle) (name : String) : Captured (t.tableLookupStdMap map k name).2 := by
  unfold ForwardTranslator.tableLookupStdMap
  split
  · exact h.keep_log t _ _
  · exact h

theorem Captured.keep_storiesPhase (model : Model) (t : ForwardTranslator) (h : Captured t) :
    Captured (storiesPhase model t) :=
  h.keep_of_log (storiesPhase_m_logSink model t)

theorem Captured.keep_zoneVolume (t : ForwardTranslator) (h : Captured t) (z : ThermalZone) :
    Captured (zoneVolume t z).2 := by
  unfold ForwardTranslator.zoneVolume
  split
  · exact h
  · simp only []
    split
    · exact h.keep_log t _ _
    · exact h

theorem Captured.keep_zoneLevel (t : ForwardTranslator) (h : Captured t) (spaces : List Space) :
    Captured (zoneLevel t spaces).2 := by
  induction spaces with
  | nil => exact h
  | cons s rest ih =>
    unfold ForwardTranslator.zoneLevel
    split
    · exact h.keep_tableLookupQMap t _ _ _
    · exact ih

theorem Outcome.all_forEach {σ α : Type} (body : σ → α → Outcome σ) (P : σ → Prop)
    (hb : ∀ s a, P s → (body s a).all P) (l : List α) (s : σ) (h : P s) :
    (forEach body l s).all P := by
  induction l generalizing s with
  | nil => exact h
  | cons a rest ih =>
    unfold forEach
    have h1 := hb s a h
    cases hr : body s a with
    | next s1 =>
      rw [hr] at h1
      exact ih s1 h1
    | abort s1 =>
      rw [hr] at h1
      exact h1
    | outOfRange => trivial

theorem Outcome.all_bind {σ : Type} (P : σ → Prop) (o : Outcome σ) (f : σ → Outcome σ)
    (h : o.all P) (hf : ∀ s, P s → (f s).all P) : (o.bind f).all P := by
  cases o with
  | next s => exact hf s h
  | abort s => exact h
  | outOfRange => trivial

theorem Outcome.all_map {σ τ : Type} (P : σ → Prop) (Q : τ → Prop) (o : Outcome σ)
    (f : σ → τ)
    (h : o.all P) (hf : ∀ s, P s → Q (f s)) : (o.map f).all Q := by
  cases o with
  | next s => exact hf s h
  | abort s => exact hf s h
  | outOfRange => trivial

theorem Captured.keep_zoneStep (s : Int × ForwardTranslator) (h : Captured s.2) (z : ThermalZone) :
    (zoneStep s z).all (fun r => Captured r.2) := by
  have h0 : Captured ({ s.2 with m_zoneMap := s.2.m_zoneMap.set z.handle (s.1 + 1) } :
      ForwardTranslator) := h.keep_of_log rfl
  have h1 := (h0.keep_zoneVolume _ z).keep_zoneLevel _ z.spaces
  unfold ForwardTranslator.zoneStep
  simp only []
  split
  · exact h1.keep_of_log rfl
  · exact (h1.keep_log _ _ _).keep_of_log rfl

theorem Captured.keep_surfaceStep (ext : Externals) (pe : ElementChoice) (w : ℚ) (s : SurfaceLoop)
    (h : Captured s.t) (a : Surface) :
    (surfaceStep ext pe w s a).all (fun r => Captured r.t) := by
  unfold ForwardTranslator.surfaceStep
  simp only []
  split
  · split
    · exact h.keep_log _ _ _
    · split
      · exact h.keep_log _ _ _
      · rename_i tz _
        have h1 := h.keep_tableLookupStdMap s.t s.t.m_zoneMap tz "zoneMap"
        split
        · exact h1
        · split
          · trivial
          · split
            · trivial
            · split
              · exact h1.keep_of_log rfl
              · split
                · unfold ForwardTranslator.interiorStep
                  split
                  · exact (h1.keep_log _ _ _).keep_of_log rfl
                  · split
                    · exact (h1.keep_log _ _ _).keep_of_log rfl
                    · split
                      · exact (h1.keep_log _ _ _).keep_of_log rfl
                      · split
                        · exact h1.keep_of_log rfl
                        · exact h1
                · exact h1
  · exact h

end CapturedLog
section CapturedLog2

open model ForwardTranslator

theorem Captured.keep_foldl {α : Type} (f : ForwardTranslator → α → ForwardTranslator)
    (hf : ∀ t a, Captured t → Captured (f t a)) (l : List α) (t : ForwardTranslator)
    (h : Captured t) : Captured (l.foldl f t) := by
  induction l generalizing t with
  | nil => exact h
  | cons a rest ih => exact ih (f t a) (hf t a h)

theorem Captured.keep_servedZoneStep (ahs : prj.Ahs) (t : ForwardTranslator) (h : Captured t)
    (z : ThermalZone) : Captured (servedZoneStep ahs t z) :=
  (h.keep_tableLookupStdMap t t.m_zoneMap z.handle "zoneMap").keep_of_log rfl

theorem Captured.keep_airloopStep (s : Int × ForwardTranslator) (h : Captured s.2)
    (loop : AirLoopHVAC) : Captured (airloopStep s loop).2 := by
  unfold ForwardTranslator.airloopStep
  split
  · exact h
  · have h0 : Captured (ForwardTranslator.airloopStart s loop) := h.keep_of_log rfl
    have h1 := Captured.keep_foldl
      (ForwardTranslator.servedZoneStep (ForwardTranslator.airloopAhs s))
      (fun t a ht => ht.keep_servedZoneStep _ t a) loop.thermalZones _ h0
    exact h1.keep_of_log rfl

theorem Captured.keep_translateAirLoops (loops : List AirLoopHVAC) (t : ForwardTranslator)
    (h : Captured t) : Captured (translateAirLoops loops t) := by
  unfold ForwardTranslator.translateAirLoops
  suffices hs : ∀ s : Int × ForwardTranslator, Captured s.2 →
      Captured (loops.foldl ForwardTranslator.airloopStep s).2 from hs (0, t) h
  induction loops with
  | nil => exact fun s hs => hs
  | cons a rest ih => exact fun s hs => ih _ (hs.keep_airloopStep s a)

theorem Captured.keep_closureStep (t : ForwardTranslator) (h : Captured t) (i : Nat) :
    (closureStep t i).all Captured := by
  unfold ForwardTranslator.closureStep
  split
  · trivial
  · exact h.keep_of_log rfl

theorem Captured.keep_flowStep (t : ForwardTranslator) (h : Captured t) (z : ThermalZone) :
    (flowStep t z).all Captured := by
  unfold ForwardTranslator.flowStep
  simp only []
  split
  · exact h.keep_log _ _ _
  · split
    · trivial
    · split
      · trivial
      · exact h.keep_of_log rfl

theorem Captured.keep_translateHVACBlock (model : Model) (t : ForwardTranslator) (h : Captured t) :
    (translateHVACBlock model t).all Captured := by
  unfold ForwardTranslator.translateHVACBlock
  apply Outcome.all_bind
  · exact Outcome.all_forEach ForwardTranslator.closureStep Captured
      (fun s i hs => hs.keep_closureStep s i) _ _
      (h.keep_translateAirLoops model.airLoops t)
  · intro s hs
    unfold ForwardTranslator.setFlows
    split
    · exact Captured.keep_foldl (fun t (_ : ThermalZone) => t.LOG .Warn
        "Zone equipment not yet accounted for.") (fun t _ ht => ht.keep_log t _ _) _ s hs
    · exact Outcome.all_forEach ForwardTranslator.flowStep Captured
        (fun s z hs => hs.keep_flowStep s z) _ _
        (hs.keep_log s _ _)

/-- The log that a run of the shared body leaves holds entries that passed the threshold of
the sink only, when the log it started with does. -/
theorem Captured.keep_translateBody (ext : Externals) (pe : ElementChoice) (t : ForwardTranslator)
    (h : Captured t) (model : Model) (hvac : Bool) (b : Bool) (r : ForwardTranslator)
    (heq : translateBody ext pe t model hvac = some (b, r)) : Captured r := by
  have h1 := h.keep_storiesPhase model
  unfold ForwardTranslator.translateBody at heq
  simp only [] at heq
  split at heq
  · simp only [Option.some.injEq, Prod.mk.injEq] at heq
    rw [← heq.2]
    exact (h1.keep_log _ _ _).keep_of_log rfl
  · have h2 : (ForwardTranslator.networkPhases ext pe model hvac
        (ForwardTranslator.storiesPhase model t)).all Captured := by
      unfold ForwardTranslator.networkPhases
      apply Outcome.all_bind
      · apply Outcome.all_bind
        · unfold ForwardTranslator.translateZones
          exact Outcome.all_map (fun r : Int × ForwardTranslator => Captured r.2) Captured _ _
            (Outcome.all_forEach ForwardTranslator.zoneStep (fun r => Captured r.2)
              (fun s z hs => Captured.keep_zoneStep s hs z) _ _ h1) (fun _ hs => hs)
        · intro s hs
          unfold ForwardTranslator.translateSurfaces
          exact Outcome.all_map (fun r : SurfaceLoop => Captured r.t) Captured _ _
            (Outcome.all_forEach _ (fun r => Captured r.t)
              (fun s a hs => Captured.keep_surfaceStep ext pe _ s hs a) _ _ hs) (fun _ hs => hs)
      · intro s hs
        split
        · exact hs.keep_translateHVACBlock model s
        · exact hs
    cases hn : ForwardTranslator.networkPhases ext pe model hvac
        (ForwardTranslator.storiesPhase model t) with
    | next s =>
      rw [hn] at heq h2
      simp only [finish, Option.some.injEq, Prod.mk.injEq] at heq
      rw [← heq.2]
      exact Captured.keep_of_log h2 rfl
    | abort s =>
      rw [hn] at heq h2
      simp only [finish, Option.some.injEq, Prod.mk.injEq] at heq
      rw [← heq.2]
      exact h2
    | outOfRange =>
      rw [hn] at heq
      simp [finish] at heq

theorem Captured.keep_resetLog (t : ForwardTranslator) : Captured t.resetLog := by
  intro m hm
  simp [ForwardTranslator.resetLog] at hm

theorem Captured.keep_checkDescriptor (t : ForwardTranslator) (h : Captured t) (d : String) :
    Captured (t.checkDescriptor d).2 := by
  unfold ForwardTranslator.checkDescriptor
  simp only []
  split
  · exact h
  · exact h.keep_log _ _ _

theorem Captured.keep_translate (ext : Externals) (t : ForwardTranslator) (model : Model)
    (hvac : Bool) (d : String) (b : Bool) (r : ForwardTranslator)
    (heq : t.translate ext model hvac d = some (b, r)) : Captured r := by
  have h1 : Captured (ForwardTranslator.afePhase (t.resetLog.checkDescriptor d).2) :=
    ((Captured.keep_resetLog t).keep_checkDescriptor _ d).keep_of_log (afePhase_m_logSink _)
  exact h1.keep_translateBody ext _ _ model hvac b r heq

theorem Captured.keep_translateWithMap (ext : Externals) (t : ForwardTranslator) (model : Model)
    (afeMap : Table String) (hvac : Bool) (b : Bool) (r : ForwardTranslator)
    (heq : t.translateWithMap ext model afeMap hvac = some (b, r)) : Captured r :=
  (Captured.keep_resetLog t).keep_translateBody ext _ _ model hvac b r heq

end CapturedLog2
section LogSplit

open model ForwardTranslator

/-- On a log whose entries all passed the threshold of the sink, `warnings()` and `errors()`
split the log. -/
theorem Captured.partition {t : ForwardTranslator} (h : Captured t) : LogPartition t := by
  have hlev : ∀ l : LogLevel, LogLevel.Warn.toInt ≤ l.toInt →
      ((l = LogLevel.Warn) ↔ l.toInt < LogLevel.Error.toInt) := by
    intro l hl
    cases l <;> simp [LogLevel.toInt] at hl ⊢
  have hlev2 : ∀ l : LogLevel, (LogLevel.Warn.toInt < l.toInt) ↔
      (LogLevel.Error.toInt ≤ l.toInt) := by
    intro l
    cases l <;> simp [LogLevel.toInt]
  have hw : t.warnings
      = t.m_logSink.filter (fun m => decide (m.logLevel.toInt < LogLevel.Error.toInt)) := by
    unfold ForwardTranslator.warnings
    apply List.filter_congr
    intro m hm
    simp only [decide_eq_decide]
    exact hlev m.logLevel (h m hm)
  have he : t.errors
      = t.m_logSink.filter (fun m => decide (LogLevel.Error.toInt ≤ m.logLevel.toInt)) := by
    unfold ForwardTranslator.errors
    apply List.filter_congr
    intro m _
    simp only [decide_eq_decide]
    exact hlev2 m.logLevel
  have hdisj : ∀ m : LogMessage, m ∈ t.warnings → m ∉ t.errors := by
    intro m h1 h2
    rw [hw, List.mem_filter] at h1
    rw [he, List.mem_filter] at h2
    have a1 := of_decide_eq_true h1.2
    have a2 := of_decide_eq_true h2.2
    omega
  refine ⟨hw, he, ?_, ?_, ?_, ?_⟩
  · rw [hw]; exact List.filter_sublist _
  · rw [he]; exact List.filter_sublist _
  · intro m
    rw [hw, he]
    generalize t.m_logSink = L
    induction L with
    | nil => simp
    | cons x rest ih =>
      by_cases hx : x.logLevel.toInt < LogLevel.Error.toInt
      · have hx2 : ¬ LogLevel.Error.toInt ≤ x.logLevel.toInt := by omega
        simp only [List.filter_cons, hx, hx2, decide_True, decide_False, if_true,
          Bool.false_eq_true, if_false, List.count_cons]
        omega
      · have hx2 : LogLevel.Error.toInt ≤ x.logLevel.toInt := by omega
        simp only [List.filter_cons, hx, hx2, decide_True, decide_False, if_true,
          Bool.false_eq_true, if_false, List.count_cons]
        omega
  · intro m hm
    by_cases hx : m.logLevel.toInt < LogLevel.Error.toInt
    · have hmw : m ∈ t.warnings := by
        rw [hw, List.mem_filter]
        exact ⟨hm, decide_eq_true hx⟩
      exact Or.inl ⟨hmw, hdisj m hmw⟩
    · have hme : m ∈ t.errors := by
        rw [he, List.mem_filter]
        exact ⟨hm, decide_eq_true (by omega)⟩
      exact Or.inr ⟨hme, fun hmw => hdisj m hmw hme⟩

theorem Captured.keep_new (template : prj.Data) : Captured (ForwardTranslator.new template) := by
  intro m hm
  simp [ForwardTranslator.new] at hm

/-- C28: the log of a translator holds only entries that the sink let pass (severity `Warn`
or above): that is so for a freshly constructed translator, it stays so under `LOG` and
`setSteadyWeather`, and it is so after every call of `translate` in either mode, whatever the
translator was before. On every such log `warnings()` is exactly the list of the entries
below the severity `Error` and `errors()` exactly the list of the entries at or above it,
both in logging order, and every entry of the log is in exactly one of the two lists, as
often as it is in the log. -/
theorem warnings_errors_partition (ext : Externals) (template : prj.Data) :
    LogPartition (ForwardTranslator.new template) ∧
    (∀ t : ForwardTranslator, Captured t → LogPartition t) ∧
    (∀ (t : ForwardTranslator) (l : LogLevel) (msg : String), Captured t →
      LogPartition (t.LOG l msg)) ∧
    (∀ (t : ForwardTranslator) (speed dir : ℚ), Captured t →
      LogPartition (t.setSteadyWeather speed dir).2) ∧
    (∀ (t : ForwardTranslator) (model : Model) (hvac : Bool) (d : String) (b : Bool)
      (r : ForwardTranslator), t.translate ext model hvac d = some (b, r) → LogPartition r) ∧
    (∀ (t : ForwardTranslator) (model : Model) (afeMap : Table String) (hvac : Bool) (b : Bool)
      (r : ForwardTranslator), t.translateWithMap ext model afeMap hvac = some (b, r) →
      LogPartition r) := by
  refine ⟨(Captured.keep_new template).partition, fun t h => h.partition,
    fun t l msg h => (h.keep_log t l msg).partition, ?_,
    fun t model hvac d b r heq => (Captured.keep_translate ext t model hvac d b r heq).partition,
    fun t model afeMap hvac b r heq =>
      (Captured.keep_translateWithMap ext t model afeMap hvac b r heq).partition⟩
  intro t speed dir h
  apply Captured.partition
  unfold ForwardTranslator.setSteadyWeather
  simp only []
  split
  · exact (h.keep_log t _ _).keep_of_log rfl
  · exact h.keep_of_log rfl

end LogSplit
section LogSplit2

open model ForwardTranslator

/-- Witness of C28: the model with a zone without a level, translated with an unknown leakage
descriptor: the log holds two warnings (unknown descriptor, no volume) and one error, in that
order, and the two lists split it. -/
theorem warnings_errors_partition_witness :
    ∃ r, (ForwardTranslator.new Examples.template).translate Examples.ext
        Examples.unresolvedZone true "Drafty" = some (false, r) ∧
      r.m_logSink.map (fun m => m.logLevel) = [LogLevel.Warn, LogLevel.Warn, LogLevel.Error] ∧
      r.warnings.length = 2 ∧ r.errors.length = 1 ∧ LogPartition r := by
  have h : ∃ r, (ForwardTranslator.new Examples.template).translate Examples.ext
        Examples.unresolvedZone true "Drafty" = some (false, r) ∧
      r.m_logSink.map (fun m => m.logLevel) = [LogLevel.Warn, LogLevel.Warn, LogLevel.Error] ∧
      r.warnings.length = 2 ∧ r.errors.length = 1 := by
    simp [ForwardTranslator.translate, ForwardTranslator.new,
      resetLog, checkDescriptor, afePhase, elementChoice, findAFEs, findAFEsStep,
      buildAfeMap, translateBody, storiesPhase, setDescription, translateStories, storyStep,
      networkPhases, translateZones, zoneStep, zoneLevel, zoneVolume, tableLookupQMap,
      translateSurfaces, finish, forEach, Outcome.bind, Outcome.map, LOG, setValid,
      Table.find, Table.value, Table.set, Table.index, Examples.unresolvedZone,
      Examples.zoneA, Examples.zoneNoSpace, Examples.spaceA, Examples.template, firstStory,
      LogLevel.toInt, ForwardTranslator.warnings, ForwardTranslator.errors]
  obtain ⟨r, h1, h2, h3, h4⟩ := h
  exact ⟨r, h1, h2, h3, h4,
    (warnings_errors_partition Examples.ext Examples.template).2.2.2.2.1 _ _ _ _ _ r h1⟩

end LogSplit2

section WriteOperation

open model ForwardTranslator

theorem modelToPrj_of_translate (ext : Externals) (print : prj.Data → String)
    (template : prj.Data) (disk : Disk) (model : Model) (path : String) (hvac : Bool)
    (d : String) (r : ForwardTranslator)
    (h : (ForwardTranslator.new template).translate ext model hvac d = some (true, r)) :
    ForwardTranslator.modelToPrj ext print template disk model path hvac d =
      some (false, if disk.canOpen path then disk.write path (print r.m_data) else disk) := by
  unfold ForwardTranslator.modelToPrj ForwardTranslator.translateToString
  rw [h]
  simp only []
  split <;> rfl

/-- Whatever the model, the destination and the state of the file system, `modelToPrj` does
not return true. -/
theorem modelToPrj_never_true (ext : Externals) (print : prj.Data → String)
    (template : prj.Data) (disk : Disk) (model : Model) (path : String) (hvac : Bool)
    (d : String) (b : Bool) (disk2 : Disk)
    (h : ForwardTranslator.modelToPrj ext print template disk model path hvac d
      = some (b, disk2)) : b = false := by
  unfold ForwardTranslator.modelToPrj at h
  split at h
  · exact absurd h (by simp)
  · simp only [Option.some.injEq, Prod.mk.injEq] at h
    exact h.1.symm
  · split at h
    · simp only [Option.some.injEq, Prod.mk.injEq] at h
      exact h.1.symm
    · simp only [Option.some.injEq, Prod.mk.injEq] at h
      exact h.1.symm

/-- C30, the code at a failing input: for the end-to-end scenario and a destination that can
be opened, the translation inside `modelToPrj` returns true with `valid()` true and the
printed network is written to the destination, yet `modelToPrj` returns false; `toPrj` on
the translated translator writes the same text to the same destination and returns true. -/
theorem modelToPrj_written_returns_false :
    ∃ r, (ForwardTranslator.new Examples.template).translate Examples.ext Examples.scenario
        false "Average" = some (true, r) ∧ r.valid = true ∧
      Examples.disk.canOpen "out.prj" = true ∧
      ForwardTranslator.modelToPrj Examples.ext Examples.print Examples.template Examples.disk
        Examples.scenario "out.prj" false "Average"
        = some (false, Examples.disk.write "out.prj" (Examples.print r.m_data)) ∧
      (Examples.disk.write "out.prj" (Examples.print r.m_data)).content "out.prj"
        = some (Examples.print r.m_data) ∧
      (r.toPrj Examples.print Examples.disk "out.prj").1 = true ∧
      (∀ model path hvac d b disk2,
        ForwardTranslator.modelToPrj Examples.ext Examples.print Examples.template
          Examples.disk model path hvac d = some (b, disk2) → b = false) := by
  have hr := translate_ready (ForwardTranslator.new Examples.template) "Average"
    (Ready.new _ Examples.template_baseline)
  obtain ⟨r0, hrun, heq⟩ := translateBody_succeeds Examples.ext
    (elementChoice (findAFEs ((ForwardTranslator.new Examples.template).resetLog.checkDescriptor
      "Average").2.buildAfeMap.m_afeMap)
      ((ForwardTranslator.new Examples.template).resetLog.checkDescriptor "Average").1)
    _ Examples.scenario false hr (by simp [Examples.scenario]) Examples.scenario_levels
    Examples.scenario_adjacency
  have hv : (r0.setValid true).valid = true := hrun.valid (by simp [hr.1])
  have hm := modelToPrj_of_translate Examples.ext Examples.print Examples.template
    Examples.disk Examples.scenario "out.prj" false "Average" _ heq
  refine ⟨r0.setValid true, heq, hv, rfl, ?_, ?_, ?_, ?_⟩
  · rw [hm]
    rfl
  · simp [Disk.write]
  · unfold ForwardTranslator.toPrj ForwardTranslator.toString
    rw [hv]
    rfl
  · intro model path hvac d b disk2 h
    exact modelToPrj_never_true _ _ _ _ _ _ _ _ b disk2 h

end WriteOperation

section ValidFlag

open model ForwardTranslator

theorem Outcome.all_mono {σ : Type} {P Q : σ → Prop} {o : Outcome σ} (h : o.all P)
    (hpq : ∀ s, P s → Q s) : o.all Q := by
  cases o with
  | next s => exact hpq s h
  | abort s => exact hpq s h
  | outOfRange => trivial

theorem Outcome.all_of_sat {σ : Type} {P Q R : σ → Prop} {o : Outcome σ} (h : o.sat P Q)
    (hp : ∀ s, P s → R s) (hq : ∀ s, Q s → R s) : o.all R := by
  cases o with
  | next s => exact hp s h
  | abort s => exact hq s h
  | outOfRange => trivial

theorem zoneStep_data_valid (s : Int × ForwardTranslator) (z : ThermalZone) :
    (zoneStep s z).all (fun r => r.2.m_data.valid = s.2.m_data.valid) := by
  unfold zoneStep
  simp only []
  split
  · simp [Outcome.all]
  · simp [Outcome.all]

theorem surfaceStep_data_valid (ext : Externals) (pe : ElementChoice) (w : ℚ) (s : SurfaceLoop)
    (a : Surface) :
    (surfaceStep ext pe w s a).all (fun r => r.t.m_data.valid = s.t.m_data.valid) := by
  unfold surfaceStep
  simp only []
  split
  · split
    · simp [Outcome.all]
    · split
      · simp [Outcome.all]
      · split
        · simp [Outcome.all]
        · split
          · trivial
          · split
            · trivial
            · split
              · simp [Outcome.all, SurfaceLoop.addPath]
              · split
                · unfold interiorStep
                  split
                  · simp [Outcome.all]
                  · split
                    · simp [Outcome.all]
                    · split
                      · simp [Outcome.all]
                      · split
                        · simp [Outcome.all, SurfaceLoop.addPath]
                        · simp [Outcome.all]
                · simp [Outcome.all]
  · rfl

theorem closureStep_data_valid (t : ForwardTranslator) (i : Nat) :
    (closureStep t i).all (fun r => r.m_data.valid = t.m_data.valid) := by
  unfold closureStep
  split
  · trivial
  · simp [Outcome.all]

theorem flowStep_data_valid (t : ForwardTranslator) (z : ThermalZone) :
    (flowStep t z).all (fun r => r.m_data.valid = t.m_data.valid) := by
  unfold flowStep
  simp only []
  split
  · simp [Outcome.all]
  · split
    · trivial
    · split
      · trivial
      · simp [Outcome.all]

theorem translateHVACBlock_data_valid (model : Model) (t : ForwardTranslator) :
    (translateHVACBlock model t).all (fun r => r.m_data.valid = t.m_data.valid) := by
  have h1 : (translateAirLoops model.airLoops t).m_data.valid = t.m_data.valid :=
    (translateAirLoops_inv t model.airLoops).2.2.1
  unfold translateHVACBlock
  apply Outcome.all_bind (fun r : ForwardTranslator => r.m_data.valid = t.m_data.valid)
  · unfold connectAhs
    exact Outcome.all_forEach closureStep
      (fun r : ForwardTranslator => r.m_data.valid = t.m_data.valid)
      (fun s i hs => Outcome.all_mono (closureStep_data_valid s i) (fun r hr => hr.trans hs))
      _ _ h1
  · intro s hs
    unfold setFlows
    split
    · show (List.foldl _ s model.thermalZones).m_data.valid = _
      have : ∀ (l : List ThermalZone) (u : ForwardTranslator),
          (l.foldl (fun t _ => t.LOG .Warn "Zone equipment not yet accounted for.")
            u).m_data.valid = u.m_data.valid := by
        intro l
        induction l with
        | nil => intro u; rfl
        | cons a rest ih => intro u; simp only [List.foldl_cons]; rw [ih]; simp
      rw [this]
      exact hs
    · exact Outcome.all_forEach flowStep
        (fun r : ForwardTranslator => r.m_data.valid = t.m_data.valid)
        (fun s z hs => Outcome.all_mono (flowStep_data_valid s z) (fun r hr => hr.trans hs))
        _ _ (by simp [hs])

theorem networkPhases_data_valid (ext : Externals) (pe : ElementChoice) (model : Model)
    (hvac : Bool) (t : ForwardTranslator) :
    (networkPhases ext pe model hvac t).all (fun r => r.m_data.valid = t.m_data.valid) := by
  unfold networkPhases
  apply Outcome.all_bind (fun r : ForwardTranslator => r.m_data.valid = t.m_data.valid)
  · apply Outcome.all_bind (fun r : ForwardTranslator => r.m_data.valid = t.m_data.valid)
    · unfold translateZones
      exact Outcome.all_map (fun r : Int × ForwardTranslator => r.2.m_data.valid = t.m_data.valid)
        _ _ _
        (Outcome.all_forEach zoneStep
          (fun r : Int × ForwardTranslator => r.2.m_data.valid = t.m_data.valid)
          (fun s z hs => Outcome.all_mono (zoneStep_data_valid s z) (fun r hr => hr.trans hs))
          _ _ rfl) (fun _ hs => hs)
    · intro s hs
      unfold translateSurfaces
      exact Outcome.all_map (fun r : SurfaceLoop => r.t.m_data.valid = t.m_data.valid) _ _ _
        (Outcome.all_forEach _ (fun r : SurfaceLoop => r.t.m_data.valid = t.m_data.valid)
          (fun s a hs => Outcome.all_mono (surfaceStep_data_valid ext pe _ s a)
            (fun r hr => hr.trans hs)) _ _ hs) (fun _ hs => hs)
  · intro s hs
    split
    · exact Outcome.all_mono (translateHVACBlock_data_valid model s) (fun r hr => hr.trans hs)
    · exact hs

end ValidFlag
section ValidFlag2

open model ForwardTranslator

/-- What a run of the shared body that returns leaves of the two validity flags, whatever the
translator was before: `m_data.valid` as it was, `m_valid` equal to the value returned. -/
theorem translateBody_flags (ext : Externals) (pe : ElementChoice) (t : ForwardTranslator)
    (model : Model) (hvac : Bool) (b : Bool) (r : ForwardTranslator)
    (h : translateBody ext pe t model hvac = some (b, r)) :
    r.m_data.valid = t.m_data.valid ∧ r.m_valid = b := by
  constructor
  · have h2 := networkPhases_data_valid ext pe model hvac (storiesPhase model t)
    unfold translateBody at h
    simp only [] at h
    split at h
    · simp only [Option.some.injEq, Prod.mk.injEq] at h
      rw [← h.2]
      simp
    · cases hn : networkPhases ext pe model hvac (storiesPhase model t) with
      | next s =>
        rw [hn] at h h2
        simp only [finish, Option.some.injEq, Prod.mk.injEq] at h
        rw [← h.2]
        simpa using h2
      | abort s =>
        rw [hn] at h h2
        simp only [finish, Option.some.injEq, Prod.mk.injEq] at h
        rw [← h.2]
        simpa using h2
      | outOfRange =>
        rw [hn] at h
        simp [finish] at h
  · cases b with
    | true =>
      obtain ⟨_, _, _, r0, _, _, _, h4⟩ := translateBody_true_steps ext pe t model hvac r h
      rw [h4]
      rfl
    | false =>
      rcases translateBody_false_steps ext pe t model hvac r h with ⟨_, g⟩ | ⟨_, sr, g1, g2⟩ |
        ⟨_, sz, sr, _, g2, g3⟩
      · rw [g]
        rfl
      · obtain ⟨pre, z, post, mid, _, _, hab⟩ := forEach_abort_split _ _ _ _ g1
        rw [g2]
        exact (zoneStep_abort mid sr z hab).2.2.1
      · obtain ⟨pre, a, post, mid, _, _, hab⟩ := forEach_abort_split _ _ _ _ g2
        rw [g3]
        exact (surfaceStep_abort ext pe _ mid sr a hab).2.2.2.1

theorem valid_iff_of_flags (t r : ForwardTranslator) (b : Bool)
    (h : r.m_data.valid = t.m_data.valid ∧ r.m_valid = b) :
    r.m_data.valid = t.m_data.valid ∧ (r.valid = true ↔ (b = true ∧ t.m_data.valid = true)) := by
  refine ⟨h.1, ?_⟩
  unfold ForwardTranslator.valid
  rw [h.1, h.2]
  simp

theorem translateBody_of_zone_abort (ext : Externals) (pe : ElementChoice)
    (t : ForwardTranslator) (model : Model) (hvac : Bool)
    (hne : (storiesPhase model t).m_data.levels.length ≠ 0) (sr : Int × ForwardTranslator)
    (h1 : forEach zoneStep model.thermalZones (0, storiesPhase model t) = .abort sr) :
    translateBody ext pe t model hvac = some (false, sr.2) := by
  unfold translateBody
  simp only []
  rw [if_neg hne]
  unfold networkPhases translateZones
  rw [h1]
  rfl

/-- On every translator, the translation of the model whose only thermal zone has no space
returns false. -/
theorem Examples.onlyNoSpace_fails (ext : Externals) (pe : ElementChoice)
    (t : ForwardTranslator) (hvac : Bool) :
    ∃ r, translateBody ext pe t Examples.onlyNoSpace hvac = some (false, r) := by
  have hne : (storiesPhase Examples.onlyNoSpace t).m_data.levels.length ≠ 0 := by
    rw [storiesPhase_levels]
    have := (translateStories_inv Examples.onlyNoSpace.stories
      (t.setDescription Examples.onlyNoSpace)).2.2.1
    rw [this]
    simp [Examples.onlyNoSpace]
  have hz : ∃ sr, forEach zoneStep Examples.onlyNoSpace.thermalZones
      (0, storiesPhase Examples.onlyNoSpace t) = .abort sr := by
    simp [Examples.onlyNoSpace, forEach, zoneStep, zoneLevel, Examples.zoneNoSpace]
  obtain ⟨sr, hsr⟩ := hz
  exact ⟨sr.2, translateBody_of_zone_abort ext pe t _ hvac hne sr hsr⟩

end ValidFlag2
section ValidFlag3

open model ForwardTranslator

/-- C27: `valid()` is false on a freshly constructed translator, whose `m_data.valid` says
whether the template loaded. A call of `translate` (any of the three overloads, on any
translator, fresh or used) that returns leaves `m_data.valid` as it was and `valid()` true if
and only if it returned true and the template had loaded; so a call that returns false leaves
`valid()` false also when `valid()` was true before it. On a fresh translator with a baseline
template the call does return. -/
theorem valid_after_translate (ext : Externals) (OPNG : Int) (template : prj.Data) :
    (ForwardTranslator.new template).valid = false ∧
    (ForwardTranslator.new template).m_data.valid = template.valid ∧
    (∀ (t : ForwardTranslator) (model : Model) (hvac : Bool) (d : String) (b : Bool)
      (r : ForwardTranslator), t.translate ext model hvac d = some (b, r) →
      r.m_data.valid = t.m_data.valid ∧
      (r.valid = true ↔ (b = true ∧ t.m_data.valid = true))) ∧
    (∀ (t : ForwardTranslator) (model : Model) (afeMap : Table String) (hvac : Bool) (b : Bool)
      (r : ForwardTranslator), t.translateWithMap ext model afeMap hvac = some (b, r) →
      r.m_data.valid = t.m_data.valid ∧
      (r.valid = true ↔ (b = true ∧ t.m_data.valid = true))) ∧
    (∀ (t : ForwardTranslator) (model : Model) (rate : ℝ) (hvac : Bool) (b : Bool)
      (r : ForwardTranslator), t.translateWithRate ext OPNG model rate hvac = some (b, r) →
      r.m_data.valid = t.m_data.valid ∧
      (r.valid = true ↔ (b = true ∧ t.m_data.valid = true))) ∧
    (template.Baseline → ∀ (model : Model) (hvac : Bool) (d : String),
      ∃ b r, (ForwardTranslator.new template).translate ext model hvac d = some (b, r)) := by
  refine ⟨?_, ?_, ?_, ?_, ?_, ?_⟩
  · simp [ForwardTranslator.valid, ForwardTranslator.new]
  · unfold ForwardTranslator.new
    simp only []
    split <;> rfl
  · intro t model hvac d b r h
    have hf := translateBody_flags ext _ _ model hvac b r h
    have e : (afePhase (t.resetLog.checkDescriptor d).2).m_data.valid = t.m_data.valid := by
      rw [afePhase_m_data]
      unfold checkDescriptor
      simp only []
      split <;> simp [resetLog]
    rw [e] at hf
    exact valid_iff_of_flags t r b hf
  · intro t model afeMap hvac b r h
    have hf := translateBody_flags ext _ _ model hvac b r h
    exact valid_iff_of_flags t r b hf
  · intro t model rate hvac b r h
    have hf := translateBody_flags ext _ _ model hvac b r h
    exact valid_iff_of_flags t r b hf
  · intro hb model hvac d
    have hr := translate_ready (ForwardTranslator.new template) d (Ready.new template hb)
    rcases translateBody_spec ext
      (elementChoice (findAFEs ((ForwardTranslator.new template).resetLog.checkDescriptor
        d).2.buildAfeMap.m_afeMap)
        ((ForwardTranslator.new template).resetLog.checkDescriptor d).1) _ model hvac hr with
      ⟨_, h⟩ | ⟨_, ⟨_, _, h⟩ | ⟨_, _, h⟩⟩
    · exact ⟨_, _, h⟩
    · exact ⟨_, _, h⟩
    · exact ⟨_, _, h⟩

/-- Witness of C27: a fresh translator is not valid; the end-to-end scenario translates and
makes it valid; a second call on the same translator, for a model whose thermal zone has no
level, returns false and leaves it not valid. -/
theorem valid_after_translate_witness :
    (ForwardTranslator.new Examples.template).valid = false ∧
    ∃ r1 r2, (ForwardTranslator.new Examples.template).translate Examples.ext Examples.scenario
        false "Average" = some (true, r1) ∧ r1.valid = true ∧
      r1.translate Examples.ext Examples.onlyNoSpace false "Average" = some (false, r2) ∧
      r2.valid = false := by
  have hall := valid_after_translate Examples.ext 0 Examples.template
  refine ⟨hall.1, ?_⟩
  have hr := translate_ready (ForwardTranslator.new Examples.template) "Average"
    (Ready.new _ Examples.template_baseline)
  obtain ⟨r0, hrun, heq⟩ := translateBody_succeeds Examples.ext
    (elementChoice (findAFEs ((ForwardTranslator.new Examples.template).resetLog.checkDescriptor
      "Average").2.buildAfeMap.m_afeMap)
      ((ForwardTranslator.new Examples.template).resetLog.checkDescriptor "Average").1)
    _ Examples.scenario false hr (by simp [Examples.scenario]) Examples.scenario_levels
    Examples.scenario_adjacency
  have hv : (r0.setValid true).valid = true := hrun.valid (by simp [hr.1])
  obtain ⟨r2, h2⟩ := Examples.onlyNoSpace_fails Examples.ext
    (elementChoice (findAFEs ((r0.setValid true).resetLog.checkDescriptor
      "Average").2.buildAfeMap.m_afeMap)
      ((r0.setValid true).resetLog.checkDescriptor "Average").1)
    (afePhase ((r0.setValid true).resetLog.checkDescriptor "Average").2) false
  refine ⟨r0.setValid true, r2, heq, hv, h2, ?_⟩
  have h3 := (hall.2.2.1 (r0.setValid true) Examples.onlyNoSpace false "Average" false r2 h2).2
  cases hc : r2.valid with
  | false => rfl
  | true => exact absurd (h3.mp hc).1 (by simp)

end ValidFlag3

section WithoutHvac

open model ForwardTranslator

/-- The network after the zone loop over the zones `zs` and the surface loop over the
surfaces `xs`, started without zones, paths and AHS records. -/
theorem noHvac_of_loops {t1 : ForwardTranslator} {zs : List ThermalZone} {nr : Int}
    {tz : ForwardTranslator} {xs : List Surface} {mid : SurfaceLoop}
    (hz : t1.m_data.zones = []) (hp : t1.m_data.paths = []) (ha : t1.m_data.ahs = [])
    (hzi : ZonesInv t1 zs (nr, tz))
    (hrun : SurfaceRun xs { nr := 0, used := [], t := tz } mid) :
    NoHvac mid.t ∧ mid.t.m_data.zones.length = zs.length ∧
    Numbered (fun z => z.nr) mid.t.m_data.zones := by
  obtain ⟨_, _, _, z4, z5, _, _, _, _, ⟨new, zn1, zn2, zn3, zn4⟩, _⟩ := hzi
  simp only [] at z4 z5 zn1
  rw [hz, List.nil_append] at zn1
  obtain ⟨_, s2, s3, _⟩ := hrun.run_frame
  simp only [] at s2 s3
  obtain ⟨extra, he1, _, _, he4⟩ := hrun.paths_extend
  simp only [] at he1
  rw [z4, hp, List.nil_append] at he1
  refine ⟨⟨by rw [s3, z5, ha], ?_, ?_⟩, by rw [s2, zn1, zn2], by rw [s2, zn1]; exact zn3⟩
  · intro z hzm
    rw [s2, zn1] at hzm
    exact (zn4 z hzm).2.1
  · intro p hpm
    rw [he1] at hpm
    obtain ⟨q1, q2, q3, q4, q5, q6, _⟩ := he4 p hpm
    exact ⟨q2, q3, q4, q5, q1, q6⟩

/-- A run of the shared body without HVAC on a ready translator. -/
theorem translateBody_no_hvac (ext : Externals) (pe : ElementChoice) (t : ForwardTranslator)
    (model : Model) (hr : Ready t) :
    ∃ b r, translateBody ext pe t model false = some (b, r) ∧ NoHvac r ∧
      r.m_data.zones.length ≤ model.thermalZones.length ∧
      Numbered (fun z => z.nr) r.m_data.zones ∧
      (b = true → r.m_data.zones.length = model.thermalZones.length) := by
  have hz0 : (storiesPhase model t).m_data.zones = [] := by simp [hr.2.2.1]
  have hp0 : (storiesPhase model t).m_data.paths = [] := by simp [hr.2.2.2.1]
  have ha0 : (storiesPhase model t).m_data.ahs = [] := by simp [hr.2.2.2.2.1]
  have htot : ∃ b r, translateBody ext pe t model false = some (b, r) := by
    rcases translateBody_spec ext pe t model false hr with
      ⟨_, h⟩ | ⟨_, ⟨_, _, h⟩ | ⟨_, _, h⟩⟩
    · exact ⟨_, _, h⟩
    · exact ⟨_, _, h⟩
    · exact ⟨_, _, h⟩
  obtain ⟨b, r, h⟩ := htot
  refine ⟨b, r, h, ?_⟩
  cases b with
  | true =>
    obtain ⟨nr, tz, ts, r0, _, hzi, _, hrun, h3, h4⟩ :=
      translateBody_true_trace ext pe t model false hr r h
    have hr0 : r0 = ts.t := by
      rcases h3 with ⟨hv, _⟩ | ⟨_, h5⟩
      · exact absurd hv (by simp)
      · exact h5
    obtain ⟨n1, n2, n3⟩ := noHvac_of_loops hz0 hp0 ha0 hzi hrun
    rw [h4, hr0]
    exact ⟨n1, le_of_eq n2, n3, fun _ => n2⟩
  | false =>
    refine (fun (hh : NoHvac r ∧ r.m_data.zones.length ≤ model.thermalZones.length ∧
      Numbered (fun z => z.nr) r.m_data.zones) => ⟨hh.1, hh.2.1, hh.2.2, fun hb =>
        absurd hb (by simp)⟩) ?_
    by_cases hs : model.stories = []
    · rcases translateBody_spec ext pe t model false hr with ⟨_, h0⟩ | ⟨hne, _⟩
      · rw [h0] at h
        simp only [Option.some.injEq, Prod.mk.injEq, true_and] at h
        have e : r.m_data = (storiesPhase model t).m_data := by
          rw [← h]
          simp
        unfold NoHvac
        rw [e, hz0, hp0, ha0]
        refine ⟨⟨rfl, fun z hzm => absurd hzm (by simp), fun p hpm => absurd hpm (by simp)⟩,
          by simp, ?_⟩
        intro i z hi
        simp at hi
      · exact absurd hs hne
    · rcases translateBody_false_trace ext pe t model false hr hs r h with
        ⟨pre, z, post, mid, sr, hx, _, hzi, hab, hrr⟩ |
        ⟨nr, tz, _, hzi, pre, a, post, mid, sr, _, _, hrun, _, hab, hrr⟩
      · obtain ⟨_, a2, _⟩ := zoneStep_abort mid sr z hab
        obtain ⟨n1, n2, n3⟩ := noHvac_of_loops hz0 hp0 ha0 hzi
          (SurfaceRun.nil { nr := 0, used := [], t := mid.2 })
        simp only [] at n1 n2 n3
        have e : r.m_data = mid.2.m_data := by rw [hrr, a2]
        unfold NoHvac
        rw [e]
        refine ⟨n1, ?_, n3⟩
        rw [n2, hx]
        simp
      · obtain ⟨_, _, a3, _⟩ := surfaceStep_abort ext pe _ mid sr a hab
        obtain ⟨n1, n2, n3⟩ := noHvac_of_loops hz0 hp0 ha0 hzi hrun
        have e : r.m_data = mid.t.m_data := by rw [hrr, a3]
        unfold NoHvac
        rw [e]
        exact ⟨n1, le_of_eq n2, n3⟩

end WithoutHvac
section WithoutHvac2

open model ForwardTranslator

/-- C21 (amended): without HVAC, `translate` on a fresh translator (template a baseline,
either mode) returns for every model, also one with air loops, and whatever it returns the
network holds no AHS record, no system zone, no path flagged system, recirculation, outside
air or exhaust or tagged with an AHS, and no flow-rate override; the zone list is numbered in
order and never longer than the list of thermal zones, and when `translate` returns true it
holds exactly one zone per thermal zone. -/
theorem translate_no_hvac (ext : Externals) (template : prj.Data) (model : Model)
    (descriptor : String) (afeMap : Table String) (hb : template.Baseline) :
    (∃ b r, (ForwardTranslator.new template).translate ext model false descriptor
        = some (b, r) ∧ NoHvac r ∧
      r.m_data.zones.length ≤ model.thermalZones.length ∧
      Numbered (fun z => z.nr) r.m_data.zones ∧
      (b = true → r.m_data.zones.length = model.thermalZones.length)) ∧
    (∃ b r, (ForwardTranslator.new template).translateWithMap ext model afeMap false
        = some (b, r) ∧ NoHvac r ∧
      r.m_data.zones.length ≤ model.thermalZones.length ∧
      Numbered (fun z => z.nr) r.m_data.zones ∧
      (b = true → r.m_data.zones.length = model.thermalZones.length)) := by
  have hr := Ready.new template hb
  exact ⟨translateBody_no_hvac ext _ _ model (translate_ready _ descriptor hr),
    translateBody_no_hvac ext _ _ model hr.resetLog⟩

/-- Witness of C21 (amended): the example building, which has an air loop, translated without
HVAC: `translate` returns true, and there are two zones for its two thermal zones and nothing
of the HVAC block. -/
theorem translate_no_hvac_witness :
    Examples.template.Baseline ∧ Examples.building.airLoops ≠ [] ∧
    ∃ r, (ForwardTranslator.new Examples.template).translate Examples.ext Examples.building
        false "Average" = some (true, r) ∧ NoHvac r ∧ r.m_data.zones.length = 2 ∧
      r.m_data.paths.length = 2 := by
  refine ⟨Examples.template_baseline, by simp [Examples.building], ?_⟩
  obtain ⟨b, r, h1, h2, _, _, _⟩ := (translate_no_hvac Examples.ext Examples.template
    Examples.building "Average" [] Examples.template_baseline).1
  have h : ∃ r, (ForwardTranslator.new Examples.template).translate Examples.ext
      Examples.building false "Average" = some (true, r) ∧ r.m_data.zones.length = 2 ∧
      r.m_data.paths.length = 2 := by
    simp [ForwardTranslator.translate, ForwardTranslator.new, resetLog, checkDescriptor,
      afePhase, buildAfeMap, translateBody, storiesPhase, setDescription, translateStories,
      storyStep, networkPhases, translateZones, zoneStep, zoneLevel, zoneVolume,
      tableLookupQMap, tableLookupStdMap, translateSurfaces, surfaceStep, exteriorPath,
      interiorStep, interiorPath, SurfaceLoop.addPath, Table.index, relativeHeight, finish,
      forEach, Outcome.bind, Outcome.map, LOG, setValid, Table.find, Table.value, Table.set,
      listAt, Examples.building, Examples.zoneA, Examples.zoneB, Examples.spaceA,
      Examples.spaceB, Examples.wallA, Examples.ceilingA, Examples.floorB,
      Examples.twoStories, Examples.template]
  obtain ⟨r2, g1, g2, g3⟩ := h
  rw [g1] at h1
  simp only [Option.some.injEq, Prod.mk.injEq] at h1
  obtain ⟨_, e⟩ := h1
  subst e
  exact ⟨r2, g1, h2, g2, g3⟩

/-- C21, counterexample: the model with one story and two thermal zones, the second without a
space, translated without HVAC: `translate` returns false and the zone list holds one zone
for the two thermal zones. -/
theorem translate_no_hvac_zone_missing :
    Examples.unresolvedZone.thermalZones.length = 2 ∧
    ∃ r, (ForwardTranslator.new Examples.template).translate Examples.ext
        Examples.unresolvedZone false "Average" = some (false, r) ∧
      r.m_data.zones.length = 1 := by
  refine ⟨rfl, ?_⟩
  simp [ForwardTranslator.translate, ForwardTranslator.new,
    resetLog, checkDescriptor, afePhase, elementChoice, findAFEs, findAFEsStep,
    buildAfeMap, translateBody, storiesPhase, setDescription, translateStories, storyStep,
    networkPhases, translateZones, zoneStep, zoneLevel, zoneVolume, tableLookupQMap,
    translateSurfaces, finish, forEach, Outcome.bind, Outcome.map, LOG, setValid,
    Table.find, Table.value, Table.set, Table.index, Examples.unresolvedZone,
    Examples.zoneA, Examples.zoneNoSpace, Examples.spaceA, Examples.template, firstStory,
    LogLevel.toInt]

end WithoutHvac2

section HvacTrace

open model ForwardTranslator

/-- A run of the HVAC block that falls through, step by step: the air loop phase, the loop
that closes the AHS records and the flow-rate step, each with what it establishes. -/
theorem translateHVACBlock_trace (model : Model) (t r0 : ForwardTranslator) (hok : PathMapOK t)
    (h : translateHVACBlock model t = .next r0) :
    ∃ nr t1 t2, model.airLoops.foldl airloopStep (0, t) = (nr, t1) ∧
      t1 = translateAirLoops model.airLoops t ∧
      AirInv t model.airLoops (nr, t1) ∧ PathMapOK t1 ∧
      connectAhs t1 = .next t2 ∧ ClosureInv t1 t1.m_data.ahs.length t2 ∧ PathMapOK t2 ∧
      setFlows model t2 = .next r0 ∧ FlowInv t2 r0 := by
  have hair := translateAirLoops_inv t model.airLoops
  have ht1 : (model.airLoops.foldl airloopStep (0, t)).2 = translateAirLoops model.airLoops t :=
    rfl
  generalize hs : model.airLoops.foldl airloopStep (0, t) = s at hair ht1
  obtain ⟨nr, t1⟩ := s
  simp only [] at ht1
  have hclo := connectAhs_inv t1
  have hok1 : PathMapOK t1 := by
    obtain ⟨_, _, _, _, _, _, _, h8, _, _, np, hp1, _⟩ := hair
    intro e he
    rcases h8 e he with h | h
    · rcases hok e h with h0 | h0
      · exact Or.inl h0
      · right
        refine ⟨h0.1, ?_⟩
        have := h0.2
        simp only [] at hp1 ⊢
        rw [hp1]
        simp
        omega
    · exact Or.inr h
  unfold translateHVACBlock at h
  rw [← ht1, Outcome.bind_eq_next] at h
  obtain ⟨t2, hc, hf⟩ := h
  rw [hc] at hclo
  simp only [Outcome.sat] at hclo
  have hok2 : PathMapOK t2 := by
    obtain ⟨_, _, _, _, _, _, _, _, _, _, h11, cl, hc1, _⟩ := hclo
    intro e he
    rcases h11 e he with h | h
    · rcases hok1 e h with h0 | h0
      · exact Or.inl h0
      · right
        refine ⟨h0.1, ?_⟩
        have := h0.2
        rw [hc1]
        simp
        omega
    · exact Or.inr h
  have hflow := setFlows_inv model t2 hok2
  rw [hf] at hflow
  exact ⟨nr, t1, t2, rfl, ht1, hair, hok1, hc, hclo, hok2, hf, hflow⟩

/-- A run of the shared body with HVAC on a ready translator that returns true, step by
step. -/
theorem translateBody_hvac_trace (ext : Externals) (pe : ElementChoice) (t : ForwardTranslator)
    (model : Model) (hr : Ready t) (r : ForwardTranslator)
    (h : translateBody ext pe t model true = some (true, r)) :
    ∃ nr tz ts na t1 t2 r0,
      ZonesInv (storiesPhase model t) model.thermalZones (nr, tz) ∧
      SurfaceRun model.surfaces { nr := 0, used := [], t := tz } ts ∧
      ts.t.m_pathMap = [] ∧
      model.airLoops.foldl airloopStep (0, ts.t) = (na, t1) ∧
      AirInv ts.t model.airLoops (na, t1) ∧ PathMapOK t1 ∧
      connectAhs t1 = .next t2 ∧ ClosureInv t1 t1.m_data.ahs.length t2 ∧ PathMapOK t2 ∧
      setFlows model t2 = .next r0 ∧ FlowInv t2 r0 ∧ r = r0.setValid true := by
  obtain ⟨nr, tz, ts, r0, _, hzi, _, hrun, h3, h4⟩ :=
    translateBody_true_trace ext pe t model true hr r h
  have hb : translateHVACBlock model ts.t = .next r0 := by
    rcases h3 with ⟨_, h5, _⟩ | ⟨hv, _⟩
    · exact h5
    · exact absurd hv (by simp)
  have hpm : ts.t.m_pathMap = [] := by
    rw [hrun.run_frame.2.2.2.2.2.2.1]
    have := hzi.2.2.2.2.2.1
    simp only [] at this ⊢
    rw [this]
    simp [hr.2.2.2.2.2.2.2.1]
  obtain ⟨na, t1, t2, g1, _, g3, g4, g5, g6, g7, g8, g9⟩ :=
    translateHVACBlock_trace model ts.t r0 (hr.pathMapOK_after hzi hrun) hb
  exact ⟨nr, tz, ts, na, t1, t2, r0, hzi, hrun, hpm, g1, g3, g4, g5, g6, g7, g8, g9, h4⟩

end HvacTrace

section SystemZones

open model ForwardTranslator

theorem recircPath_pa (size : Int) (a : prj.Ahs) : (recircPath size a).pa = 0 := rfl

theorem oaPath_pa (size : Int) (a : prj.Ahs) : (oaPath size a).pa = 0 := rfl

theorem exhaustPath_pa (size : Int) (a : prj.Ahs) : (exhaustPath size a).pa = 0 := rfl

/-- The AHS records and system zones of a run of the shared body with HVAC that returns
true. -/
theorem translateBody_ahs_zones (ext : Externals) (pe : ElementChoice) (t : ForwardTranslator)
    (model : Model) (hr : Ready t) (r : ForwardTranslator)
    (h : translateBody ext pe t model true = some (true, r)) : AhsZones model r := by
  obtain ⟨nr, tz, ts, na, t1, t2, r0, hzi, hrun, _, _, hair, _, _, hclo0, _, _, hflow, hrr⟩ :=
    translateBody_hvac_trace ext pe t model hr r h
  have hz0 : (storiesPhase model t).m_data.zones = [] := by simp [hr.2.2.1]
  have hp0 : (storiesPhase model t).m_data.paths = [] := by simp [hr.2.2.2.1]
  have ha0 : (storiesPhase model t).m_data.ahs = [] := by simp [hr.2.2.2.2.1]
  obtain ⟨⟨n1, n2, n3⟩, n4, _⟩ := noHvac_of_loops hz0 hp0 ha0 hzi hrun
  obtain ⟨_, _, _, _, _, _, _, _, ⟨nz, hz1, hz2, hz3⟩, ⟨nas, ha1, ha2, ha3⟩, np, hp1, _, hp3, _⟩ :=
    hair
  simp only [] at hz1 ha1 hp1
  rw [n1, List.nil_append] at ha1
  obtain ⟨cl, hc1, _, hc3⟩ := ClosureInv.closure_mem hclo0 (le_refl _)
  obtain ⟨_, c2, _, _, _, _, _, c8, _, c10, _⟩ := hclo0
  obtain ⟨_, f2, f3, _, _, _, _, _, _, f10⟩ := hflow
  have ezones : r.m_data.zones = ts.t.m_data.zones ++ nz := by
    rw [hrr]
    show r0.m_data.zones = _
    rw [f2, c2, hz1]
  have eahs : r.m_data.ahs = t2.m_data.ahs := by
    rw [hrr]
    exact f3
  have hlen : t2.m_data.ahs.length = (servedLoops model.airLoops).length := by
    rw [c8, ha1, ha2]
  refine ⟨by rw [eahs, hlen], by rw [ezones]; simp [n4, hz2], ?_, ?_, ?_⟩
  · intro i z hi hzz
    rw [ezones, List.getElem?_append_left (by omega)] at hzz
    exact n2 z (List.getElem?_mem hzz)
  · intro j loop hj
    have hjlt : j < (servedLoops model.airLoops).length := by
      by_contra hcon
      rw [List.getElem?_eq_none (by omega)] at hj
      exact absurd hj (by simp)
    have hjn : j < nas.length := by omega
    have ha0j : t1.m_data.ahs[j]? = some nas[j] := by
      rw [ha1]
      exact List.getElem?_eq_getElem hjn
    obtain ⟨q1, q2, q3, _⟩ := ha3 j nas[j] (List.getElem?_eq_getElem hjn)
    have hrzlt : 2 * j < nz.length := by omega
    have hszlt : 2 * j + 1 < nz.length := by omega
    obtain ⟨r1, r2, r3, r4, r5⟩ := hz3 (2 * j) nz[2 * j] (List.getElem?_eq_getElem hrzlt)
    obtain ⟨s1, s2, s3, s4, s5⟩ := hz3 (2 * j + 1) nz[2 * j + 1]
      (List.getElem?_eq_getElem hszlt)
    refine ⟨closeAhs ((t1.m_data.paths.length : Int) + 3 * (j : Int)) nas[j], nz[2 * j],
      nz[2 * j + 1], ?_, ?_, ?_, q1, ?_, ?_, ?_, ?_, r3, r2, r5, r4, s3, s2, s5, s4⟩
    · rw [eahs]
      exact c10 j nas[j] (by rw [ha1, ha2]; exact hjlt) ha0j
    · rw [ezones, ← n4, List.getElem?_append_right (by omega)]
      simp only [Nat.add_sub_cancel_left]
      exact List.getElem?_eq_getElem hrzlt
    · rw [ezones, ← n4, List.getElem?_append_right (by omega)]
      have : ts.t.m_data.zones.length + 2 * j + 1 - ts.t.m_data.zones.length = 2 * j + 1 := by
        omega
      rw [this]
      exact List.getElem?_eq_getElem hszlt
    · rw [r1, n4]
      push_cast
      ring
    · rw [s1, r1]
      push_cast
      ring
    · show nas[j].zone_r = _
      rw [q2, r1]
      push_cast
      ring
    · show nas[j].zone_s = _
      rw [q3, s1]
      push_cast
      ring
  · intro p hp hpa
    have hp2 : p.clearFahs ∈ r0.m_data.paths.map prj.Path.clearFahs :=
      List.mem_map.mpr ⟨p, by rw [hrr] at hp; exact hp, rfl⟩
    rw [f10, hc1, hp1, List.map_append, List.map_append] at hp2
    have hpaq : ∀ q : prj.Path, q.clearFahs = p.clearFahs → q.pa = p.pa := by
      intro q hq
      have := congrArg prj.Path.pa hq
      simpa [prj.Path.clearFahs] using this
    rcases List.mem_append.mp hp2 with hp3' | hp3'
    · rcases List.mem_append.mp hp3' with hp4 | hp4
      · obtain ⟨q, hq, hqe⟩ := List.mem_map.mp hp4
        have := (n3 q hq).2.2.2.2.1
        rw [hpaq q hqe] at this
        exact absurd this hpa
      · obtain ⟨q, hq, hqe⟩ := List.mem_map.mp hp4
        obtain ⟨b1, b2, _⟩ := hp3 q hq
        rw [hpaq q hqe] at b1 b2
        exact ⟨b1, b2⟩
    · obtain ⟨q, hq, hqe⟩ := List.mem_map.mp hp3'
      obtain ⟨m, hm⟩ := List.getElem?_of_mem hq
      obtain ⟨a0, _, _, hcase⟩ := hc3 m q hm
      have hq0 : q.pa = 0 := by
        rcases hcase with ⟨_, e⟩ | ⟨_, e⟩ | ⟨_, e⟩ <;> rw [e] <;> rfl
      rw [hpaq q hqe] at hq0
      exact absurd hq0 hpa

end SystemZones
section SystemZones2

open model ForwardTranslator

theorem Examples.buildingIdleLoop_translate :
    ∃ r, (ForwardTranslator.new Examples.template).translate Examples.ext
        Examples.buildingIdleLoop true "Average" = some (true, r) := by
  have hr := translate_ready (ForwardTranslator.new Examples.template) "Average"
    (Ready.new _ Examples.template_baseline)
  obtain ⟨r0, _, heq⟩ := translateBody_succeeds Examples.ext
    (elementChoice (findAFEs ((ForwardTranslator.new Examples.template).resetLog.checkDescriptor
      "Average").2.buildAfeMap.m_afeMap)
      ((ForwardTranslator.new Examples.template).resetLog.checkDescriptor "Average").1)
    _ Examples.buildingIdleLoop true hr
    (by simp [Examples.buildingIdleLoop, Examples.building, Examples.twoStories])
    (by
      intro z hz
      simp only [Examples.buildingIdleLoop, Examples.building, List.mem_cons,
        List.mem_singleton, List.not_mem_nil, or_false] at hz
      rcases hz with hz | hz <;> subst hz <;>
        simp [Model.levelResolves, firstStory, Examples.zoneA, Examples.zoneB, Examples.spaceA,
          Examples.spaceB, Examples.buildingIdleLoop, Examples.building, Examples.twoStories])
    (by
      intro s hs _
      simp only [Examples.buildingIdleLoop, Examples.building, List.mem_cons,
        List.mem_singleton, List.not_mem_nil, or_false] at hs
      rcases hs with hs | hs | hs <;> subst hs <;>
        simp [Surface.adjacentZone, Examples.wallA, Examples.ceilingA, Examples.floorB,
          Examples.spaceA, Examples.spaceB] at *)
  exact ⟨_, heq⟩

/-- C22: after `translate` with HVAC on a fresh translator (template a baseline, either mode)
has returned true, so that the HVAC block has run: the AHS list holds exactly one record per
air loop that serves at least one thermal zone, in order and numbered from 1; the zone list
holds the zones of the thermal zones, none a system zone, and after them exactly two system
zones per AHS record, the return zone and then the supply zone, with consecutive numbers that
continue the zone numbering, both on level 1, flagged system and variable contaminants and
not variable pressure, whose numbers the AHS record stores as `zone_r` and `zone_s`; and every
path tagged with an AHS is tagged with one of these records. An air loop that serves no zone
hence adds no AHS record, no zone and no path. -/
theorem translate_ahs_zones (ext : Externals) (template : prj.Data) (model : Model)
    (descriptor : String) (afeMap : Table String) (hb : template.Baseline) :
    (∀ r, (ForwardTranslator.new template).translate ext model true descriptor = some (true, r) →
      AhsZones model r) ∧
    (∀ r, (ForwardTranslator.new template).translateWithMap ext model afeMap true
        = some (true, r) → AhsZones model r) := by
  have hr := Ready.new template hb
  constructor
  · intro r heq
    exact translateBody_ahs_zones ext _ _ model (translate_ready _ descriptor hr) r heq
  · intro r heq
    exact translateBody_ahs_zones ext _ _ model hr.resetLog r heq

/-- Witness of C22: the example building with a first air loop that serves no zone and a
second one that serves both zones: one AHS record and four zones, the last two the return
and the supply zone of the AHS. -/
theorem translate_ahs_zones_witness :
    Examples.template.Baseline ∧ Examples.buildingIdleLoop.airLoops.length = 2 ∧
    ∃ r, (ForwardTranslator.new Examples.template).translate Examples.ext
        Examples.buildingIdleLoop true "Average" = some (true, r) ∧
      r.m_data.ahs.length = 1 ∧ r.m_data.zones.length = 4 ∧
      AhsZones Examples.buildingIdleLoop r := by
  refine ⟨Examples.template_baseline, rfl, ?_⟩
  obtain ⟨r, hr⟩ := Examples.buildingIdleLoop_translate
  have h := (translate_ahs_zones Examples.ext Examples.template Examples.buildingIdleLoop
    "Average" [] Examples.template_baseline).1 r hr
  refine ⟨r, hr, ?_, ?_, h⟩
  · rw [h.1]
    rfl
  · rw [h.2.1]
    rfl

end SystemZones2

section ResultsSource

open model ForwardTranslator

theorem foldl_equipment_warning (l : List ThermalZone) (t : ForwardTranslator) :
    l.foldl (fun t _ => t.LOG .Warn "Zone equipment not yet accounted for.") t
      = t.withEquipmentWarnings l.length := by
  induction l generalizing t with
  | nil =>
    unfold withEquipmentWarnings
    simp
  | cons a rest ih =>
    simp only [List.foldl_cons, List.length_cons]
    rw [ih]
    unfold withEquipmentWarnings
    simp only [LOG, LogLevel.toInt, le_refl, if_true, List.append_assoc]
    congr 2

theorem setFlows_of_results (model : Model) (t : ForwardTranslator)
    (h : model.hasSqlFile = true) :
    setFlows model t = .next (t.withEquipmentWarnings model.thermalZones.length) := by
  unfold setFlows
  rw [if_pos h, foldl_equipment_warning]

/-- With simulation results at hand, a run of the shared body is the run with the
flow-assignment step omitted, but for the equipment warnings, one per thermal zone, that a run
with HVAC that returns true has at the end of its log. -/
theorem translateBody_of_results (ext : Externals) (pe : ElementChoice) (t : ForwardTranslator)
    (model : Model) (hvac : Bool) (h : model.hasSqlFile = true) :
    translateBody ext pe t model hvac =
      (translateBodyNoFlows ext pe t model hvac).map (fun br =>
        (br.1, if hvac = true ∧ br.1 = true
          then br.2.withEquipmentWarnings model.thermalZones.length else br.2)) := by
  unfold translateBody translateBodyNoFlows
  simp only []
  split
  · simp
  · unfold networkPhases networkPhasesNoFlows translateHVACBlock
    cases (translateZones model.thermalZones (storiesPhase model t)).bind
        (translateSurfaces ext pe model.surfaces) with
    | next s =>
      simp only [Outcome.bind]
      cases hvac with
      | false => simp [finish]
      | true =>
        simp only [if_true]
        cases connectAhs (translateAirLoops model.airLoops s) with
        | next u =>
          simp only [setFlows_of_results model u h, finish, Option.map_some', and_self, if_true]
          rfl
        | abort u => simp [finish]
        | outOfRange => simp [finish]
    | abort s => simp [Outcome.bind, finish]
    | outOfRange => simp [Outcome.bind, finish]

end ResultsSource
section ResultsSource2

open model ForwardTranslator

/-- A run of the shared body that returns false does so before the HVAC block: it returns the
same with and without HVAC. -/
theorem translateBody_false_any_hvac (ext : Externals) (pe : ElementChoice)
    (t : ForwardTranslator) (model : Model) (hvac hvac2 : Bool) (r : ForwardTranslator)
    (h : translateBody ext pe t model hvac = some (false, r)) :
    translateBody ext pe t model hvac2 = some (false, r) := by
  rcases translateBody_false_steps ext pe t model hvac r h with ⟨g0, g⟩ | ⟨hne, sr, g1, g2⟩ |
    ⟨hne, sz, sr, g1, g2, g3⟩
  · unfold translateBody
    simp only []
    rw [if_pos g0, g]
  · rw [g2]
    exact translateBody_of_zone_abort ext pe t model hvac2 hne sr g1
  · rw [g3]
    exact translateBody_of_surface_abort ext pe t model hvac2 hne sz sr g1 g2

theorem withEquipmentWarnings_frame (t : ForwardTranslator) (n : Nat) :
    (t.withEquipmentWarnings n).m_data = t.m_data ∧
    (t.withEquipmentWarnings n).m_pathMap = t.m_pathMap ∧
    (t.withEquipmentWarnings n).valid = t.valid ∧
    (t.withEquipmentWarnings n).errors = t.errors ∧
    (t.withEquipmentWarnings n).m_logSink = t.m_logSink ++ List.replicate n equipmentWarning := by
  refine ⟨rfl, rfl, rfl, ?_, rfl⟩
  unfold ForwardTranslator.errors withEquipmentWarnings
  simp only [List.filter_append]
  have : (List.replicate n equipmentWarning).filter
      (fun m => decide (LogLevel.Warn.toInt < m.logLevel.toInt)) = [] := by
    rw [List.filter_eq_nil_iff]
    intro m hm
    rw [List.eq_of_mem_replicate hm]
    simp [equipmentWarning]
  rw [this]
  simp

/-- No path carries a flow-rate override after a run of the shared body, with or without
HVAC, on a ready translator, for a model with simulation results at hand. -/
theorem translateBody_results_no_override (ext : Externals) (pe : ElementChoice)
    (t : ForwardTranslator) (model : Model) (hvac : Bool) (hr : Ready t)
    (hsql : model.hasSqlFile = true) (b : Bool) (r : ForwardTranslator)
    (h : translateBody ext pe t model hvac = some (b, r)) :
    ∀ p ∈ r.m_data.paths, p.Fahs = none := by
  have hfalse : ∀ r2, translateBody ext pe t model false = some (b, r2) →
      ∀ p ∈ r2.m_data.paths, p.Fahs = none := by
    intro r2 h2 p hp
    obtain ⟨b3, r3, g1, g2, _⟩ := translateBody_no_hvac ext pe t model hr
    rw [h2] at g1
    simp only [Option.some.injEq, Prod.mk.injEq] at g1
    rw [← g1.2] at g2
    exact (g2.2.2 p hp).2.2.2.2.2
  cases hvac with
  | false => exact hfalse r h
  | true =>
    cases b with
    | false => exact hfalse r (translateBody_false_any_hvac ext pe t model true false r h)
    | true =>
      obtain ⟨nr, tz, ts, na, t1, t2, r0, hzi, hrun, _, _, hair, _, _, hclo, _, hsf, _, hrr⟩ :=
        translateBody_hvac_trace ext pe t model hr r h
      have hz0 : (storiesPhase model t).m_data.zones = [] := by simp [hr.2.2.1]
      have hp0 : (storiesPhase model t).m_data.paths = [] := by simp [hr.2.2.2.1]
      have ha0 : (storiesPhase model t).m_data.ahs = [] := by simp [hr.2.2.2.2.1]
      obtain ⟨⟨_, _, n3⟩, _, _⟩ := noHvac_of_loops hz0 hp0 ha0 hzi hrun
      obtain ⟨_, _, _, _, _, _, _, _, _, _, np, hp1, _, hp3, _⟩ := hair
      simp only [] at hp1
      obtain ⟨cl, hc1, _, hc3⟩ := ClosureInv.closure_mem hclo (le_refl _)
      rw [setFlows_of_results model t2 hsql] at hsf
      simp only [Outcome.next.injEq] at hsf
      have e : r.m_data.paths = (ts.t.m_data.paths ++ np) ++ cl := by
        rw [hrr, ← hsf]
        show t2.m_data.paths = _
        rw [hc1, hp1]
      intro p hp
      rw [e] at hp
      rcases List.mem_append.mp hp with hp | hp
      · rcases List.mem_append.mp hp with hp | hp
        · exact (n3 p hp).2.2.2.2.2
        · exact (hp3 p hp).2.2.2.2.1
      · obtain ⟨m, hm⟩ := List.getElem?_of_mem hp
        obtain ⟨a0, _, _, hcase⟩ := hc3 m p hm
        rcases hcase with ⟨_, e1⟩ | ⟨_, e1⟩ | ⟨_, e1⟩ <;> rw [e1] <;> rfl

/-- A run of the shared body with HVAC on a ready translator for a model with simulation
results at hand, set against the run with the flow-assignment step omitted. -/
theorem translateBody_with_results (ext : Externals) (pe : ElementChoice)
    (t : ForwardTranslator) (model : Model) (hr : Ready t) (hsql : model.hasSqlFile = true) :
    ∃ b r r2, translateBody ext pe t model true = some (b, r) ∧
      translateBodyNoFlows ext pe t model true = some (b, r2) ∧
      r.m_data = r2.m_data ∧ r.m_pathMap = r2.m_pathMap ∧ r.valid = r2.valid ∧
      r.errors = r2.errors ∧ (∀ p ∈ r.m_data.paths, p.Fahs = none) ∧
      r.m_logSink = r2.m_logSink ++
        (if b = true then List.replicate model.thermalZones.length equipmentWarning
          else []) := by
  have htot : ∃ b r, translateBody ext pe t model true = some (b, r) := by
    rcases translateBody_spec ext pe t model true hr with
      ⟨_, h⟩ | ⟨_, ⟨_, _, h⟩ | ⟨_, _, h⟩⟩
    · exact ⟨_, _, h⟩
    · exact ⟨_, _, h⟩
    · exact ⟨_, _, h⟩
  obtain ⟨b, r, h⟩ := htot
  have hno := translateBody_results_no_override ext pe t model true hr hsql b r h
  have heq := translateBody_of_results ext pe t model true hsql
  rw [h] at heq
  cases h2 : translateBodyNoFlows ext pe t model true with
  | none =>
    rw [h2] at heq
    simp at heq
  | some br =>
    obtain ⟨b2, r2⟩ := br
    rw [h2] at heq
    simp only [Option.map_some', Option.some.injEq, Prod.mk.injEq, true_and] at heq
    obtain ⟨e1, e2⟩ := heq
    subst e1
    refine ⟨b, r, r2, h, rfl, ?_⟩
    cases b with
    | true =>
      simp only [if_true] at e2
      obtain ⟨f1, f2, f3, f4, f5⟩ := withEquipmentWarnings_frame r2 model.thermalZones.length
      rw [e2]
      rw [e2] at hno
      exact ⟨f1, f2, f3, f4, hno, f5⟩
    | false =>
      simp only [Bool.false_eq_true, if_false] at e2
      rw [e2]
      rw [e2] at hno
      exact ⟨rfl, rfl, rfl, rfl, hno, by simp⟩

end ResultsSource2
section ResultsSource3

open model ForwardTranslator

theorem Examples.buildingWithResults_translate :
    ∃ r, (ForwardTranslator.new Examples.template).translate Examples.ext
        Examples.buildingWithResults true "Average" = some (true, r) := by
  have hr := translate_ready (ForwardTranslator.new Examples.template) "Average"
    (Ready.new _ Examples.template_baseline)
  obtain ⟨r0, _, heq⟩ := translateBody_succeeds Examples.ext
    (elementChoice (findAFEs ((ForwardTranslator.new Examples.template).resetLog.checkDescriptor
      "Average").2.buildAfeMap.m_afeMap)
      ((ForwardTranslator.new Examples.template).resetLog.checkDescriptor "Average").1)
    _ Examples.buildingWithResults true hr
    (by simp [Examples.buildingWithResults, Examples.building, Examples.twoStories])
    (by
      intro z hz
      simp only [Examples.buildingWithResults, Examples.building, List.mem_cons,
        List.mem_singleton, List.not_mem_nil, or_false] at hz
      rcases hz with hz | hz <;> subst hz <;>
        simp [Model.levelResolves, firstStory, Examples.zoneA, Examples.zoneB, Examples.spaceA,
          Examples.spaceB, Examples.buildingWithResults, Examples.building,
          Examples.twoStories])
    (by
      intro s hs _
      simp only [Examples.buildingWithResults, Examples.building, List.mem_cons,
        List.mem_singleton, List.not_mem_nil, or_false] at hs
      rcases hs with hs | hs | hs <;> subst hs <;>
        simp [Surface.adjacentZone, Examples.wallA, Examples.ceilingA, Examples.floorB,
          Examples.spaceA, Examples.spaceB] at *)
  exact ⟨_, heq⟩

/-- C26: with HVAC and simulation results at hand (`model.sqlFile()` is set), `translate` on a
fresh translator (template a baseline, either mode) returns, and it returns the flag that the
run with the flow-assignment step omitted returns, true whenever that run returns true, with
the same network data (levels, zones, paths, AHS records and the rest), the same named-path
table, the same `valid()` and the same errors; no path carries a flow-rate override; and the
log is the log of that run, followed, when the flag is true, by one equipment warning per
thermal zone. -/
theorem translate_with_results (ext : Externals) (template : prj.Data) (model : Model)
    (descriptor : String) (afeMap : Table String) (hb : template.Baseline)
    (hsql : model.hasSqlFile = true) :
    (∃ b r r2, (ForwardTranslator.new template).translate ext model true descriptor
        = some (b, r) ∧
      (ForwardTranslator.new template).translateNoFlows ext model true descriptor
        = some (b, r2) ∧
      r.m_data = r2.m_data ∧ r.m_pathMap = r2.m_pathMap ∧ r.valid = r2.valid ∧
      r.errors = r2.errors ∧ (∀ p ∈ r.m_data.paths, p.Fahs = none) ∧
      r.m_logSink = r2.m_logSink ++
        (if b = true then List.replicate model.thermalZones.length equipmentWarning
          else [])) ∧
    (∃ b r r2, (ForwardTranslator.new template).translateWithMap ext model afeMap true
        = some (b, r) ∧
      (ForwardTranslator.new template).translateWithMapNoFlows ext model afeMap true
        = some (b, r2) ∧
      r.m_data = r2.m_data ∧ r.m_pathMap = r2.m_pathMap ∧ r.valid = r2.valid ∧
      r.errors = r2.errors ∧ (∀ p ∈ r.m_data.paths, p.Fahs = none) ∧
      r.m_logSink = r2.m_logSink ++
        (if b = true then List.replicate model.thermalZones.length equipmentWarning
          else [])) := by
  have hr := Ready.new template hb
  exact ⟨translateBody_with_results ext _ _ model (translate_ready _ descriptor hr) hsql,
    translateBody_with_results ext _ _ model hr.resetLog hsql⟩

/-- Witness of C26: the example building with an air loop and simulation results at hand:
`translate` returns true as the run without the flow-assignment step does, with the same
network data, no flow-rate override, and two equipment warnings for its two thermal zones. -/
theorem translate_with_results_witness :
    Examples.template.Baseline ∧ Examples.buildingWithResults.hasSqlFile = true ∧
    ∃ r r2, (ForwardTranslator.new Examples.template).translate Examples.ext
        Examples.buildingWithResults true "Average" = some (true, r) ∧
      (ForwardTranslator.new Examples.template).translateNoFlows Examples.ext
        Examples.buildingWithResults true "Average" = some (true, r2) ∧
      r.m_data = r2.m_data ∧ (∀ p ∈ r.m_data.paths, p.Fahs = none) ∧
      r.m_logSink = r2.m_logSink ++ [equipmentWarning, equipmentWarning] := by
  refine ⟨Examples.template_baseline, rfl, ?_⟩
  obtain ⟨b, r, r2, h1, h2, h3, _, _, _, h7, h8⟩ :=
    (translate_with_results Examples.ext Examples.template Examples.buildingWithResults
      "Average" [] Examples.template_baseline rfl).1
  obtain ⟨r3, g⟩ := Examples.buildingWithResults_translate
  rw [g] at h1
  simp only [Option.some.injEq, Prod.mk.injEq] at h1
  obtain ⟨e1, e2⟩ := h1
  subst e1
  subst e2
  refine ⟨r3, r2, g, h2, h3, h7, ?_⟩
  rw [h8]
  rfl

end ResultsSource3

section PathTable

open model ForwardTranslator

theorem String.append_right_cancel (a b s : String) (h : a ++ s = b ++ s) : a = b := by
  have h1 := congrArg String.data h
  simp only [String.data_append] at h1
  exact String.ext (List.append_cancel_right h1)

/-- Two strings whose last `n` characters differ are different, whatever is put in front of
them. -/
theorem String.append_ne_of_tail (a b s1 s2 : String) (n : Nat) (h1 : n ≤ s1.data.length)
    (h2 : n ≤ s2.data.length) (hne : s1.data.reverse.take n ≠ s2.data.reverse.take n) :
    a ++ s1 ≠ b ++ s2 := by
  intro h
  have h3 := congrArg (fun s => s.data.reverse.take n) h
  simp only [String.data_append, List.reverse_append] at h3
  rw [List.take_append_of_le_length (by simpa using h1),
    List.take_append_of_le_length (by simpa using h2)] at h3
  exact hne h3

theorem supply_ne_return (a b : String) : a ++ " supply" ≠ b ++ " return" :=
  String.append_ne_of_tail a b _ _ 2 (by decide) (by decide) (by decide)

theorem supply_ne_closure (a b : String) :
    a ++ " supply" ≠ b ++ " recirculation" ∧ a ++ " supply" ≠ b ++ " oa" ∧
    a ++ " supply" ≠ b ++ " exhaust" :=
  ⟨String.append_ne_of_tail a b _ _ 2 (by decide) (by decide) (by decide),
    String.append_ne_of_tail a b _ _ 2 (by decide) (by decide) (by decide),
    String.append_ne_of_tail a b _ _ 2 (by decide) (by decide) (by decide)⟩

theorem return_ne_closure (a b : String) :
    a ++ " return" ≠ b ++ " recirculation" ∧ a ++ " return" ≠ b ++ " oa" ∧
    a ++ " return" ≠ b ++ " exhaust" :=
  ⟨String.append_ne_of_tail a b _ _ 2 (by decide) (by decide) (by decide),
    String.append_ne_of_tail a b _ _ 2 (by decide) (by decide) (by decide),
    String.append_ne_of_tail a b _ _ 2 (by decide) (by decide) (by decide)⟩

theorem Table.find_set {κ : Type} [DecidableEq κ] (m : Table κ) (k k2 : κ) (v : Int) :
    (m.set k v).find k2 = if k2 = k then some v else m.find k2 := by
  by_cases h : k2 = k
  · rw [if_pos h, h]
    exact Table.find_set_self m k v
  · rw [if_neg h]
    exact Table.find_set_ne m k k2 v h

theorem InjBelow.set_next {m : Table String} {bound : Int} (h : InjBelow m bound)
    (k : String) (v : Int) (hv : bound < v) (h1 : 1 ≤ v) : InjBelow (m.set k v) v := by
  obtain ⟨hi, hb⟩ := h
  constructor
  · intro k1 k2 w h1 h2
    rw [Table.find_set] at h1 h2
    by_cases e1 : k1 = k
    · by_cases e2 : k2 = k
      · rw [e1, e2]
      · rw [if_pos e1] at h1
        rw [if_neg e2] at h2
        have := (hb k2 w h2).2
        have hw : v = w := Option.some.inj h1
        omega
    · by_cases e2 : k2 = k
      · rw [if_neg e1] at h1
        rw [if_pos e2] at h2
        have := (hb k1 w h1).2
        have hw : v = w := Option.some.inj h2
        omega
      · rw [if_neg e1] at h1
        rw [if_neg e2] at h2
        exact hi k1 k2 w h1 h2
  · intro k1 w h1'
    rw [Table.find_set] at h1'
    by_cases e1 : k1 = k
    · rw [if_pos e1] at h1'
      have hw : v = w := Option.some.inj h1'
      omega
    · rw [if_neg e1] at h1'
      have := hb k1 w h1'
      omega

theorem InjBelow.widen {m : Table String} {bound b2 : Int} (h : InjBelow m bound)
    (hb : bound ≤ b2) : InjBelow m b2 :=
  ⟨h.1, fun k v hk => ⟨(h.2 k v hk).1, le_trans (h.2 k v hk).2 hb⟩⟩

theorem InjBelow.nil (bound : Int) : InjBelow [] bound :=
  ⟨fun k1 _ v h => by simp [Table.find] at h, fun k v h => by simp [Table.find] at h⟩

theorem servedZoneStep_injBelow (ahs : prj.Ahs) (t : ForwardTranslator) (z : ThermalZone)
    (h : InjBelow t.m_pathMap (t.m_data.paths.length : Int)) :
    InjBelow (servedZoneStep ahs t z).m_pathMap
      ((servedZoneStep ahs t z).m_data.paths.length : Int) := by
  unfold servedZoneStep
  simp only [ForwardTranslator.tableLookupStdMap_m_data,
    ForwardTranslator.tableLookupStdMap_m_pathMap, List.length_append, List.length_cons,
    List.length_nil]
  have h1 := h.set_next (z.name ++ " supply") ((t.m_data.paths.length : Int) + 1) (by omega)
    (by omega)
  have h2 := h1.set_next (z.name ++ " return") ((t.m_data.paths.length : Int) + 1 + 1)
    (by omega) (by omega)
  apply h2.widen
  push_cast
  omega

theorem airloopStep_injBelow (s : Int × ForwardTranslator) (loop : AirLoopHVAC)
    (h : InjBelow s.2.m_pathMap (s.2.m_data.paths.length : Int)) :
    InjBelow (airloopStep s loop).2.m_pathMap
      ((airloopStep s loop).2.m_data.paths.length : Int) := by
  unfold airloopStep
  split
  · exact h
  · simp only []
    have key : ∀ (l : List ThermalZone) (u : ForwardTranslator),
        InjBelow u.m_pathMap (u.m_data.paths.length : Int) →
        InjBelow (l.foldl (servedZoneStep (airloopAhs s)) u).m_pathMap
          ((l.foldl (servedZoneStep (airloopAhs s)) u).m_data.paths.length : Int) := by
      intro l
      induction l with
      | nil => exact fun u hu => hu
      | cons a rest ih => exact fun u hu => ih _ (servedZoneStep_injBelow _ u a hu)
    exact key loop.thermalZones (airloopStart s loop) h

theorem translateAirLoops_injBelow (loops : List AirLoopHVAC) (t : ForwardTranslator)
    (h : InjBelow t.m_pathMap (t.m_data.paths.length : Int)) :
    InjBelow (translateAirLoops loops t).m_pathMap
      ((translateAirLoops loops t).m_data.paths.length : Int) := by
  unfold translateAirLoops
  suffices hs : ∀ s : Int × ForwardTranslator,
      InjBelow s.2.m_pathMap (s.2.m_data.paths.length : Int) →
      InjBelow (loops.foldl airloopStep s).2.m_pathMap
        ((loops.foldl airloopStep s).2.m_data.paths.length : Int) from hs (0, t) h
  induction loops with
  | nil => exact fun s hs => hs
  | cons a rest ih => exact fun s hs => ih _ (airloopStep_injBelow s a hs)

theorem closureStep_injBelow (t : ForwardTranslator) (i : Nat)
    (h : InjBelow t.m_pathMap (t.m_data.paths.length : Int)) :
    (closureStep t i).all
      (fun r => InjBelow r.m_pathMap (r.m_data.paths.length : Int)) := by
  unfold closureStep
  split
  · trivial
  · simp only [Outcome.all, List.length_append, List.length_cons, List.length_nil]
    have h1 := h.set_next ("AHS_" ++ ToString.toString (i + 1) ++ " recirculation")
      ((t.m_data.paths.length : Int) + 1) (by omega) (by omega)
    have h2 := h1.set_next ("AHS_" ++ ToString.toString (i + 1) ++ " oa")
      ((t.m_data.paths.length : Int) + 1 + 1) (by omega) (by omega)
    have h3 := h2.set_next ("AHS_" ++ ToString.toString (i + 1) ++ " exhaust")
      ((t.m_data.paths.length : Int) + 1 + 1 + 1) (by omega) (by omega)
    apply h3.widen
    push_cast
    omega

theorem connectAhs_injBelow (t t2 : ForwardTranslator)
    (h : InjBelow t.m_pathMap (t.m_data.paths.length : Int))
    (hc : connectAhs t = .next t2) :
    InjBelow t2.m_pathMap (t2.m_data.paths.length : Int) := by
  have := Outcome.all_forEach closureStep
    (fun r : ForwardTranslator => InjBelow r.m_pathMap (r.m_data.paths.length : Int))
    (fun s i hs => closureStep_injBelow s i hs) (List.range t.m_data.ahs.length) t h
  unfold connectAhs at hc
  rw [hc] at this
  exact this

end PathTable

section FlowRates

open model ForwardTranslator

theorem setFahs_at (paths p1 : List prj.Path) (m : Table String) (key : String) (flow : ℚ)
    (h : setFahs paths (m.value key 0) flow = some p1) :
    p1.length = paths.length ∧ ∀ i : Nat, p1[i]? = (paths[i]?).map (fun q =>
      if m.find key = some ((i : Int) + 1) then { q with Fahs := some flow } else q) := by
  unfold setFahs Table.value at h
  cases hf : m.find key with
  | none =>
    rw [hf] at h
    simp only [Option.getD_none, ne_eq, not_true_eq_false, if_false, Option.some.injEq] at h
    subst h
    refine ⟨rfl, fun i => ?_⟩
    cases paths[i]? <;> simp
  | some v =>
    rw [hf] at h
    simp only [Option.getD_some] at h
    by_cases hv : v = 0
    · rw [if_neg (by simpa using hv)] at h
      simp only [Option.some.injEq] at h
      subst h
      refine ⟨rfl, fun i => ?_⟩
      have : ¬ (some v = some ((i : Int) + 1)) := by
        intro e
        have := Option.some.inj e
        omega
      simp only [if_neg this]
      cases paths[i]? <;> simp
    · rw [if_pos hv] at h
      unfold listModify at h
      cases hl : listAt paths (v - 1) with
      | none => rw [hl] at h; simp at h
      | some a =>
        rw [hl] at h
        simp only [Option.some.injEq] at h
        subst h
        unfold listAt at hl
        by_cases h0 : 0 ≤ v - 1
        · rw [if_pos h0, List.get?_eq_getElem?] at hl
          have hlt : (v - 1).toNat < paths.length := by
            by_contra hcon
            rw [List.getElem?_eq_none (by omega)] at hl
            simp at hl
          refine ⟨by simp, fun i => ?_⟩
          by_cases hi : (v - 1).toNat = i
          · have e : some v = some ((i : Int) + 1) := by
              congr 1
              omega
            simp only [if_pos e]
            subst hi
            rw [List.getElem?_set_self hlt, hl]
            rfl
          · have e : ¬ (some v = some ((i : Int) + 1)) := by
              intro e
              have := Option.some.inj e
              omega
            simp only [if_neg e]
            rw [List.getElem?_set_ne hi]
            cases paths[i]? <;> simp
        · rw [if_neg h0] at hl
          simp at hl

/-- One round of the flow-rate loop, position by position of the path list. -/
theorem flowStep_paths (t r : ForwardTranslator) (z : ThermalZone)
    (h : flowStep t z = .next r) :
    r.m_pathMap = t.m_pathMap ∧ r.m_data.paths.length = t.m_data.paths.length ∧
    r.m_logSink = t.m_logSink ++ (if flowArea z = 0 then [areaWarning z] else []) ∧
    ∀ i : Nat, r.m_data.paths[i]? = (t.m_data.paths[i]?).map (flowOverride t.m_pathMap z i) := by
  unfold flowStep at h
  simp only [] at h
  by_cases ha : flowArea z = 0
  · have ha2 : (z.spaces.map (fun space => space.floorArea)).sum = 0 := ha
    rw [if_pos ha2] at h
    simp only [Outcome.next.injEq] at h
    subst h
    refine ⟨by simp, by simp, ?_, fun i => ?_⟩
    · rw [if_pos ha]
      simp [LOG, LogLevel.toInt, areaWarning]
    · simp only [LOG_m_data]
      cases t.m_data.paths[i]? with
      | none => rfl
      | some q =>
        simp only [Option.map_some', Option.some.injEq]
        unfold flowOverride
        rw [if_pos ha]
  · have ha2 : ¬ (z.spaces.map (fun space => space.floorArea)).sum = 0 := ha
    rw [if_neg ha2] at h
    cases h1 : setFahs t.m_data.paths (t.m_pathMap.value (z.name ++ " supply") 0)
        ((z.spaces.map (fun space => space.floorArea)).sum * 0.00508 * 1.2041) with
    | none => rw [h1] at h; simp at h
    | some p1 =>
      rw [h1] at h
      simp only [] at h
      cases h2 : setFahs p1 (t.m_pathMap.value (z.name ++ " return") 0)
          (0.9 * ((z.spaces.map (fun space => space.floorArea)).sum * 0.00508 * 1.2041)) with
      | none => rw [h2] at h; simp at h
      | some p2 =>
        rw [h2] at h
        simp only [Outcome.next.injEq] at h
        subst h
        obtain ⟨l1, g1⟩ := setFahs_at _ _ _ _ _ h1
        obtain ⟨l2, g2⟩ := setFahs_at _ _ _ _ _ h2
        refine ⟨rfl, by simp only []; rw [l2, l1], ?_, fun i => ?_⟩
        · rw [if_neg ha]
          simp
        · simp only []
          rw [g2 i, g1 i]
          cases t.m_data.paths[i]? with
          | none => rfl
          | some q =>
            simp only [Option.map_some', Option.some.injEq]
            unfold flowOverride
            rw [if_neg ha]
            unfold flowArea
            by_cases c2 : t.m_pathMap.find (z.name ++ " return") = some ((i : Int) + 1)
            · rw [if_pos c2, if_pos c2]
              by_cases c1 : t.m_pathMap.find (z.name ++ " supply") = some ((i : Int) + 1)
              · rw [if_pos c1]
              · rw [if_neg c1]
            · rw [if_neg c2, if_neg c2]

/-- The flow-rate loop, position by position of the path list: the rounds of the thermal
zones in order; and its log: one warning per thermal zone whose floor area is zero. -/
theorem flowLoop_paths (zones : List ThermalZone) (t r : ForwardTranslator)
    (h : forEach flowStep zones t = .next r) :
    r.m_pathMap = t.m_pathMap ∧ r.m_data.paths.length = t.m_data.paths.length ∧
    r.m_logSink = t.m_logSink ++
      (zones.filter (fun z => decide (flowArea z = 0))).map areaWarning ∧
    ∀ i : Nat, r.m_data.paths[i]? =
      (t.m_data.paths[i]?).map
        (fun q => zones.foldl (fun q z => flowOverride t.m_pathMap z i q) q) := by
  induction zones generalizing t with
  | nil =>
    simp only [forEach, Outcome.next.injEq] at h
    subst h
    refine ⟨rfl, rfl, by simp, fun i => ?_⟩
    cases t.m_data.paths[i]? <;> simp
  | cons a rest ih =>
    simp only [forEach] at h
    cases h1 : flowStep t a with
    | next u =>
      rw [h1] at h
      simp only [] at h
      obtain ⟨a1, a2, a3, a4⟩ := flowStep_paths t u a h1
      obtain ⟨b1, b2, b3, b4⟩ := ih u h
      refine ⟨by rw [b1, a1], by rw [b2, a2], ?_, fun i => ?_⟩
      · rw [b3, a3, List.filter_cons]
        by_cases ha : flowArea a = 0
        · simp [ha]
        · simp [ha]
      · rw [b4 i, a4 i, a1]
        cases t.m_data.paths[i]? <;> simp
    | abort u => rw [h1] at h; simp at h
    | outOfRange => rw [h1] at h; simp at h

end FlowRates

section FlowRates2

open model ForwardTranslator

theorem flowOverride_cases (m : Table String) (z : ThermalZone) (i : Nat) (q : prj.Path) :
    flowOverride m z i q = q ∨
    (flowArea z ≠ 0 ∧
      ((m.find (z.name ++ " return") = some ((i : Int) + 1) ∧
        flowOverride m z i q = { q with Fahs := some (0.9 * (flowArea z * 0.00508 * 1.2041)) }) ∨
       (m.find (z.name ++ " supply") = some ((i : Int) + 1) ∧
        m.find (z.name ++ " return") ≠ some ((i : Int) + 1) ∧
        flowOverride m z i q = { q with Fahs := some (flowArea z * 0.00508 * 1.2041) }))) := by
  unfold flowOverride
  by_cases ha : flowArea z = 0
  · left
    rw [if_pos ha]
  · rw [if_neg ha]
    by_cases c2 : m.find (z.name ++ " return") = some ((i : Int) + 1)
    · right
      rw [if_pos c2]
      exact ⟨ha, Or.inl ⟨c2, rfl⟩⟩
    · rw [if_neg c2]
      by_cases c1 : m.find (z.name ++ " supply") = some ((i : Int) + 1)
      · right
        rw [if_pos c1]
        exact ⟨ha, Or.inr ⟨c1, c2, rfl⟩⟩
      · left
        rw [if_neg c1]

theorem flowOverride_setFahs (m : Table String) (z : ThermalZone) (i : Nat) (q : prj.Path)
    (x : Option ℚ) : { flowOverride m z i q with Fahs := x } = { q with Fahs := x } := by
  rcases flowOverride_cases m z i q with h | ⟨_, ⟨_, h⟩ | ⟨_, _, h⟩⟩ <;> rw [h]

/-- The path at position `i` after the rounds of the zones `zones`: the path `q` from before
the loop, or `q` with the flow-rate override that the round of one of the zones assigns, a
zone of nonzero floor area under whose name the position is registered. -/
theorem flowOverride_fold_cases (m : Table String) (zones : List ThermalZone) (i : Nat)
    (q : prj.Path) :
    zones.foldl (fun q z => flowOverride m z i q) q = q ∨
    ∃ z ∈ zones, flowArea z ≠ 0 ∧
      ((m.find (z.name ++ " return") = some ((i : Int) + 1) ∧
        zones.foldl (fun q z => flowOverride m z i q) q
          = { q with Fahs := some (0.9 * (flowArea z * 0.00508 * 1.2041)) }) ∨
       (m.find (z.name ++ " supply") = some ((i : Int) + 1) ∧
        zones.foldl (fun q z => flowOverride m z i q) q
          = { q with Fahs := some (flowArea z * 0.00508 * 1.2041) })) := by
  induction zones generalizing q with
  | nil => left; rfl
  | cons a rest ih =>
    simp only [List.foldl_cons]
    rcases ih (flowOverride m a i q) with h | ⟨z, hz, ha, h⟩
    · rw [h]
      rcases flowOverride_cases m a i q with g | ⟨ga, ⟨g1, g2⟩ | ⟨g1, _, g2⟩⟩
      · left; exact g
      · right; exact ⟨a, List.mem_cons_self _ _, ga, Or.inl ⟨g1, g2⟩⟩
      · right; exact ⟨a, List.mem_cons_self _ _, ga, Or.inr ⟨g1, g2⟩⟩
    · right
      refine ⟨z, List.mem_cons_of_mem _ hz, ha, ?_⟩
      rcases h with ⟨h1, h2⟩ | ⟨h1, h2⟩
      · exact Or.inl ⟨h1, by rw [h2, flowOverride_setFahs]⟩
      · exact Or.inr ⟨h1, by rw [h2, flowOverride_setFahs]⟩

/-- The rounds of zones under none of whose names the position `i` is registered leave the
path at that position as it is. -/
theorem flowOverride_fold_untouched (m : Table String) (zones : List ThermalZone) (i : Nat)
    (q : prj.Path)
    (h : ∀ z ∈ zones, m.find (z.name ++ " return") ≠ some ((i : Int) + 1) ∧
      m.find (z.name ++ " supply") ≠ some ((i : Int) + 1)) :
    zones.foldl (fun q z => flowOverride m z i q) q = q := by
  rcases flowOverride_fold_cases m zones i q with g | ⟨z, hz, _, ⟨g, _⟩ | ⟨g, _⟩⟩
  · exact g
  · exact absurd g (h z hz).1
  · exact absurd g (h z hz).2

/-- The override that the round of the zone at position `k` assigns stays to the end of the
loop when no later zone has the name of that zone, the table `m` holding no index twice. -/
theorem flowOverride_fold_last (m : Table String)
    (hinj : ∀ k1 k2 v, m.find k1 = some v → m.find k2 = some v → k1 = k2)
    (zones : List ThermalZone) (k : Nat) (z : ThermalZone) (hz : zones[k]? = some z)
    (ha : flowArea z ≠ 0)
    (hlater : ∀ (k2 : Nat) (z2 : ThermalZone), k < k2 → zones[k2]? = some z2 →
      z2.name ≠ z.name)
    (i : Nat) (q : prj.Path) :
    (m.find (z.name ++ " supply") = some ((i : Int) + 1) →
      zones.foldl (fun q z => flowOverride m z i q) q
        = { q with Fahs := some (flowArea z * 0.00508 * 1.2041) }) ∧
    (m.find (z.name ++ " return") = some ((i : Int) + 1) →
      zones.foldl (fun q z => flowOverride m z i q) q
        = { q with Fahs := some (0.9 * (flowArea z * 0.00508 * 1.2041)) }) := by
  induction zones generalizing k q with
  | nil => simp at hz
  | cons a rest ih =>
    simp only [List.foldl_cons]
    cases k with
    | zero =>
      simp only [List.getElem?_cons_zero, Option.some.injEq] at hz
      subst hz
      have hrest : ∀ z2 ∈ rest, z2.name ≠ a.name := by
        intro z2 hz2
        obtain ⟨j, hj⟩ := List.getElem?_of_mem hz2
        exact hlater (j + 1) z2 (by omega) (by simpa using hj)
      constructor
      · intro hs
        have hnr : m.find (a.name ++ " return") ≠ some ((i : Int) + 1) := by
          intro hr
          exact supply_ne_return a.name a.name (hinj _ _ _ hs hr)
        have e : flowOverride m a i q = { q with Fahs := some (flowArea a * 0.00508 * 1.2041) } := by
          unfold flowOverride
          rw [if_neg ha, if_neg hnr, if_pos hs]
        rw [e]
        apply flowOverride_fold_untouched
        intro z2 hz2
        constructor
        · intro h2
          exact supply_ne_return a.name z2.name (hinj _ _ _ hs h2)
        · intro h2
          exact hrest z2 hz2 (String.append_right_cancel _ _ _ (hinj _ _ _ h2 hs))
      · intro hr
        have e : flowOverride m a i q
            = { q with Fahs := some (0.9 * (flowArea a * 0.00508 * 1.2041)) } := by
          unfold flowOverride
          rw [if_neg ha, if_pos hr]
        rw [e]
        apply flowOverride_fold_untouched
        intro z2 hz2
        constructor
        · intro h2
          exact hrest z2 hz2 (String.append_right_cancel _ _ _ (hinj _ _ _ h2 hr))
        · intro h2
          exact supply_ne_return z2.name a.name (hinj _ _ _ h2 hr)
    | succ k =>
      simp only [List.getElem?_cons_succ] at hz
      have := ih k hz (fun k2 z2 hk hz2 => hlater (k2 + 1) z2 (by omega) (by simpa using hz2))
        (flowOverride m a i q)
      constructor
      · intro hs
        rw [this.1 hs, flowOverride_setFahs]
      · intro hr
        rw [this.2 hr, flowOverride_setFahs]

end FlowRates2

section FlowRates3

open model ForwardTranslator

/-- A run of the shared body with HVAC that returns true, split before the flow-rate step:
the run with the flow-rate step omitted returns true with the translator `t2`, whose
named-path table holds the numbers of paths of its list, none twice, and none of whose paths
carries a flow-rate override; the flow-rate step runs on `t2`. -/
theorem translateBody_flows_trace (ext : Externals) (pe : ElementChoice)
    (t : ForwardTranslator) (model : Model) (hr : Ready t) (r : ForwardTranslator)
    (h : translateBody ext pe t model true = some (true, r)) :
    ∃ t2 r0, translateBodyNoFlows ext pe t model true = some (true, t2.setValid true) ∧
      InjBelow t2.m_pathMap (t2.m_data.paths.length : Int) ∧
      (∀ p ∈ t2.m_data.paths, p.Fahs = none) ∧
      setFlows model t2 = .next r0 ∧ r = r0.setValid true := by
  obtain ⟨hne, _⟩ := translateBody_true_steps ext pe t model true r h
  obtain ⟨nr, tz, ts, r0, f1, hzi, f2, hrun, h3, h4⟩ :=
    translateBody_true_trace ext pe t model true hr r h
  have hb : translateHVACBlock model ts.t = .next r0 := by
    rcases h3 with ⟨_, h5, _⟩ | ⟨hv, _⟩
    · exact h5
    · exact absurd hv (by simp)
  have hpm : ts.t.m_pathMap = [] := by
    rw [hrun.run_frame.2.2.2.2.2.2.1]
    have := hzi.2.2.2.2.2.1
    simp only [] at this ⊢
    rw [this]
    simp [hr.2.2.2.2.2.2.2.1]
  obtain ⟨na, t1, t2, g1, g2, hair, _, g5, hclo, _, g8, _⟩ :=
    translateHVACBlock_trace model ts.t r0 (hr.pathMapOK_after hzi hrun) hb
  refine ⟨t2, r0, ?_, ?_, ?_, g8, h4⟩
  · unfold translateBodyNoFlows
    simp only []
    rw [if_neg hne]
    unfold networkPhasesNoFlows translateZones translateSurfaces
    rw [f1]
    simp only [Outcome.map, Outcome.bind]
    rw [f2]
    simp only [Outcome.map, Outcome.bind, if_true]
    rw [← g2, g5]
    rfl
  · apply connectAhs_injBelow t1 t2 _ g5
    rw [g2]
    apply translateAirLoops_injBelow
    rw [hpm]
    exact InjBelow.nil _
  · have hz0 : (storiesPhase model t).m_data.zones = [] := by simp [hr.2.2.1]
    have hp0 : (storiesPhase model t).m_data.paths = [] := by simp [hr.2.2.2.1]
    have ha0 : (storiesPhase model t).m_data.ahs = [] := by simp [hr.2.2.2.2.1]
    obtain ⟨⟨_, _, n3⟩, _, _⟩ := noHvac_of_loops hz0 hp0 ha0 hzi hrun
    obtain ⟨_, _, _, _, _, _, _, _, _, _, np, hp1, _, hp3, _⟩ := hair
    simp only [] at hp1
    obtain ⟨cl, hc1, _, hc3⟩ := ClosureInv.closure_mem hclo (le_refl _)
    intro p hp
    rw [hc1, hp1] at hp
    rcases List.mem_append.mp hp with hp | hp
    · rcases List.mem_append.mp hp with hp | hp
      · exact (n3 p hp).2.2.2.2.2
      · exact (hp3 p hp).2.2.2.2.1
    · obtain ⟨m, hm⟩ := List.getElem?_of_mem hp
      obtain ⟨a0, _, _, hcase⟩ := hc3 m p hm
      rcases hcase with ⟨_, e1⟩ | ⟨_, e1⟩ | ⟨_, e1⟩ <;> rw [e1] <;> rfl

theorem setFlows_no_results (model : Model) (t : ForwardTranslator)
    (h : model.hasSqlFile = false) :
    setFlows model t = forEach flowStep model.thermalZones (t.LOG .Warn
      "Simulation results not available, using 1 scfm/ft^2 to set supply flows") := by
  unfold setFlows
  rw [h]
  simp

/-- The flow-rate step without simulation results, position by position of the path list,
and its log. -/
theorem setFlows_paths (model : Model) (t r : ForwardTranslator)
    (hsql : model.hasSqlFile = false) (h : setFlows model t = .next r) :
    r.m_pathMap = t.m_pathMap ∧ r.m_data.paths.length = t.m_data.paths.length ∧
    r.m_logSink = t.m_logSink ++ noResultsWarning ::
      (model.thermalZones.filter (fun z => decide (flowArea z = 0))).map areaWarning ∧
    ∀ i : Nat, r.m_data.paths[i]? = (t.m_data.paths[i]?).map
      (fun q => model.thermalZones.foldl (fun q z => flowOverride t.m_pathMap z i q) q) := by
  rw [setFlows_no_results model t hsql] at h
  obtain ⟨a1, a2, a3, a4⟩ := flowLoop_paths _ _ _ h
  refine ⟨by rw [a1]; simp, by rw [a2]; simp, ?_, fun i => ?_⟩
  · rw [a3]
    simp [LOG, LogLevel.toInt, noResultsWarning]
  · rw [a4 i]
    simp

end FlowRates3

section FlowRates4

open model ForwardTranslator

/-- The flow-rate overrides after a run of the shared body with HVAC, without simulation
results, that returns true. -/
theorem translateBody_flow_rates (ext : Externals) (pe : ElementChoice)
    (t : ForwardTranslator) (model : Model) (hr : Ready t) (hsql : model.hasSqlFile = false)
    (r : ForwardTranslator) (h : translateBody ext pe t model true = some (true, r)) :
    FlowRates model r := by
  obtain ⟨t2, r0, _, hinj, _, hsf, hrr⟩ := translateBody_flows_trace ext pe t model hr r h
  obtain ⟨a1, a2, _, a4⟩ := setFlows_paths model t2 r0 hsql hsf
  obtain ⟨_, _, hnum, _⟩ := translateBody_lists_numbered ext pe t model true hr r h
  have hpm : r.m_pathMap = t2.m_pathMap := by rw [hrr]; exact a1
  have hpaths : r.m_data.paths = r0.m_data.paths := by rw [hrr]; rfl
  intro k z hz ha hlater
  have key : ∀ (n : Int) (x : ℚ), (∃ key, t2.m_pathMap.find key = some n ∧
      ∀ (i : Nat) (q : prj.Path), t2.m_pathMap.find key = some ((i : Int) + 1) →
        model.thermalZones.foldl (fun q z => flowOverride t2.m_pathMap z i q) q
          = { q with Fahs := some x }) →
      ∃ p, listAt r.m_data.paths (n - 1) = some p ∧ p.nr = n ∧ p.Fahs = some x := by
    intro n x ⟨key, hk, hfold⟩
    obtain ⟨hn1, hn2⟩ := hinj.2 key n hk
    have hlt : (n - 1).toNat < t2.m_data.paths.length := by omega
    have hn : n = (((n - 1).toNat : Nat) : Int) + 1 := by omega
    have hq := List.getElem?_eq_getElem hlt
    have hp := a4 (n - 1).toNat
    rw [hq, Option.map_some', hfold _ _ (by rw [← hn]; exact hk)] at hp
    refine ⟨{ t2.m_data.paths[(n - 1).toNat] with Fahs := some x }, ?_, ?_, rfl⟩
    · unfold listAt
      rw [if_pos (by omega), List.get?_eq_getElem?, hpaths]
      exact hp
    · have := hnum (n - 1).toNat _
        (by rw [List.get?_eq_getElem?, hpaths]; exact hp)
      exact this.trans hn.symm
  have hlast := flowOverride_fold_last t2.m_pathMap hinj.1 model.thermalZones k z hz ha hlater
  constructor
  · intro n hn
    rw [hpm] at hn
    exact key n _ ⟨_, hn, fun i q hi => (hlast i q).1 hi⟩
  · intro n hn
    rw [hpm] at hn
    exact key n _ ⟨_, hn, fun i q hi => (hlast i q).2 hi⟩

/-- C24: with HVAC and no simulation results (`model.sqlFile()` is not set), after `translate`
on a fresh translator (template a baseline, either mode) has returned true, so that the
flow-rate step has run: for every thermal zone whose spaces have floor areas that sum to a
nonzero area `A` (and whose name no later thermal zone has, thermal zones having names of
their own), if "<name> supply" is registered in the named-path table with the number `n` then
path `n` carries the flow-rate override `A * 0.00508 * 1.2041`, and if "<name> return" is
registered with the number `n` then path `n` carries the override
`0.9 * (A * 0.00508 * 1.2041)`, that is 0.9 times the supply value. -/
theorem translate_flow_rates (ext : Externals) (template : prj.Data) (model : Model)
    (descriptor : String) (afeMap : Table String) (hb : template.Baseline)
    (hsql : model.hasSqlFile = false) :
    (∀ r, (ForwardTranslator.new template).translate ext model true descriptor = some (true, r) →
      FlowRates model r) ∧
    (∀ r, (ForwardTranslator.new template).translateWithMap ext model afeMap true
        = some (true, r) → FlowRates model r) := by
  have hr := Ready.new template hb
  constructor
  · intro r heq
    exact translateBody_flow_rates ext _ _ model (translate_ready _ descriptor hr) hsql r heq
  · intro r heq
    exact translateBody_flow_rates ext _ _ model hr.resetLog hsql r heq

/-- Witness of C24: the example building, whose two thermal zones have floor area 30 and are
served by one air loop: the supply paths 3 and 5 carry 30 * 0.00508 * 1.2041 = 0.18350484,
the return paths 4 and 6 carry 0.9 times that, and no other path carries an override. -/
theorem translate_flow_rates_witness :
    Examples.template.Baseline ∧ Examples.building.hasSqlFile = false ∧
    ∃ r, (ForwardTranslator.new Examples.template).translate Examples.ext
        Examples.building true "Average" = some (true, r) ∧
      FlowRates Examples.building r ∧
      r.m_pathMap.find "Zone A supply" = some 3 ∧ r.m_pathMap.find "Zone A return" = some 4 ∧
      r.m_pathMap.find "Zone B supply" = some 5 ∧ r.m_pathMap.find "Zone B return" = some 6 ∧
      r.m_data.paths.map (fun p => (p.nr, p.Fahs)) =
        [(1, none), (2, none), (3, some 0.18350484), (4, some 0.165154356),
         (5, some 0.18350484), (6, some 0.165154356), (7, none), (8, none), (9, none)] := by
  refine ⟨Examples.template_baseline, rfl, ?_⟩
  have h : ∃ r, (ForwardTranslator.new Examples.template).translate Examples.ext
        Examples.building true "Average" = some (true, r) ∧
      r.m_pathMap.find "Zone A supply" = some 3 ∧ r.m_pathMap.find "Zone A return" = some 4 ∧
      r.m_pathMap.find "Zone B supply" = some 5 ∧ r.m_pathMap.find "Zone B return" = some 6 ∧
      r.m_data.paths.map (fun p => (p.nr, p.Fahs)) =
        [(1, none), (2, none), (3, some 0.18350484), (4, some 0.165154356),
         (5, some 0.18350484), (6, some 0.165154356), (7, none), (8, none), (9, none)] := by
    simp [ForwardTranslator.translate, ForwardTranslator.new, resetLog, checkDescriptor,
      afePhase, buildAfeMap, translateBody, storiesPhase, setDescription, translateStories,
      storyStep, networkPhases, translateZones, zoneStep, zoneLevel, zoneVolume,
      tableLookupQMap, tableLookupStdMap, translateSurfaces, surfaceStep, exteriorPath,
      interiorStep, interiorPath, SurfaceLoop.addPath, Table.index,
      relativeHeight, finish, forEach, Outcome.bind, Outcome.map, LOG, setValid,
      Table.find, Table.value, Table.set, listAt, Examples.building, Examples.zoneA,
      Examples.zoneB, Examples.spaceA, Examples.spaceB, Examples.wallA, Examples.ceilingA,
      Examples.floorB, Examples.twoStories, Examples.template,
      translateHVACBlock, translateAirLoops, airloopStep, airloopAhs, airloopStart, newAhs,
      returnZone, supplyZone, servedZoneStep, connectAhs, closureStep, closeAhs, recircPath,
      oaPath, exhaustPath, setFlows, flowStep, setFahs, listModify, List.range,
      List.range.loop]
    norm_num
  obtain ⟨r, h1, h2⟩ := h
  exact ⟨r, h1, (translate_flow_rates Examples.ext Examples.template Examples.building
    "Average" [] Examples.template_baseline rfl).1 r h1, h2⟩

end FlowRates4

section FlowSkipped

open model ForwardTranslator

theorem networkPhases_flows (ext : Externals) (pe : ElementChoice) (model : Model)
    (t : ForwardTranslator) :
    networkPhases ext pe model true t
      = (networkPhasesNoFlows ext pe model true t).bind (setFlows model) := by
  unfold networkPhases networkPhasesNoFlows translateHVACBlock
  cases (translateZones model.thermalZones t).bind (translateSurfaces ext pe model.surfaces) with
  | next s => simp [Outcome.bind]
  | abort s => simp [Outcome.bind]
  | outOfRange => simp [Outcome.bind]

theorem setFlows_no_abort (model : Model) (t r : ForwardTranslator) :
    setFlows model t ≠ .abort r := by
  have hflow : ∀ s z r, flowStep s z ≠ .abort r := by
    intro s z r
    unfold flowStep
    simp only []
    split
    · simp
    · split
      · simp
      · split <;> simp
  unfold setFlows
  split
  · simp
  · exact forEach_no_abort flowStep hflow _ _ _

/-- A run of the shared body with HVAC that returns false returns what the run with the
flow-rate step omitted returns. -/
theorem translateBody_flows_false (ext : Externals) (pe : ElementChoice)
    (t : ForwardTranslator) (model : Model) (r : ForwardTranslator)
    (h : translateBody ext pe t model true = some (false, r)) :
    translateBodyNoFlows ext pe t model true = some (false, r) := by
  unfold translateBody at h
  unfold translateBodyNoFlows
  simp only [] at h ⊢
  split
  · rename_i h0
    rw [if_pos h0] at h
    exact h
  · rename_i h0
    rw [if_neg h0, networkPhases_flows, finish_eq_false] at h
    rw [finish_eq_false]
    cases h1 : networkPhasesNoFlows ext pe model true (storiesPhase model t) with
    | next s =>
      rw [h1] at h
      simp only [Outcome.bind] at h
      exact absurd h (setFlows_no_abort model s r)
    | abort s =>
      rw [h1] at h
      simpa [Outcome.bind] using h
    | outOfRange =>
      rw [h1] at h
      simp [Outcome.bind] at h

theorem errors_append_warnings (t : ForwardTranslator) (l : List LogMessage)
    (ws : List LogMessage) (hw : ∀ m ∈ ws, m.logLevel = LogLevel.Warn)
    (h : t.m_logSink = l ++ ws) :
    t.errors = l.filter (fun m => decide (LogLevel.Warn.toInt < m.logLevel.toInt)) := by
  unfold ForwardTranslator.errors
  rw [h, List.filter_append]
  have : ws.filter (fun m => decide (LogLevel.Warn.toInt < m.logLevel.toInt)) = [] := by
    rw [List.filter_eq_nil_iff]
    intro m hm
    rw [hw m hm]
    simp
  rw [this]
  simp

/-- A run of the shared body with HVAC, without simulation results, that returns true, set
against the run with the flow-rate step omitted. -/
theorem translateBody_flow_skips (ext : Externals) (pe : ElementChoice)
    (t : ForwardTranslator) (model : Model) (hr : Ready t) (hsql : model.hasSqlFile = false)
    (r : ForwardTranslator) (h : translateBody ext pe t model true = some (true, r)) :
    ∃ r2, translateBodyNoFlows ext pe t model true = some (true, r2) ∧
      FlowSkips model r r2 := by
  obtain ⟨t2, r0, hno, hinj, _, hsf, hrr⟩ := translateBody_flows_trace ext pe t model hr r h
  obtain ⟨a1, a2, a3, a4⟩ := setFlows_paths model t2 r0 hsql hsf
  have hlog : r.m_logSink = (t2.setValid true).m_logSink ++ noResultsWarning ::
      (model.thermalZones.filter (fun z => decide (flowArea z = 0))).map areaWarning := by
    rw [hrr]
    exact a3
  refine ⟨t2.setValid true, hno, ?_, ?_, ?_, hlog, ?_⟩
  · rw [hrr]
    exact a1
  · rw [errors_append_warnings r _ _ _ hlog]
    · rfl
    · intro m hm
      simp only [List.mem_cons, List.mem_map] at hm
      rcases hm with hm | ⟨z, _, hm⟩
      · rw [hm]; rfl
      · rw [← hm]; rfl
  · rw [hrr]
    exact a2
  · intro i q hq
    have hq2 : t2.m_data.paths[i]? = some q := hq
    have hp : r.m_data.paths[i]? = some
        (model.thermalZones.foldl (fun q z => flowOverride t2.m_pathMap z i q) q) := by
      rw [hrr]
      show r0.m_data.paths[i]? = _
      rw [a4 i, hq2]
      rfl
    have hpm : r.m_pathMap = t2.m_pathMap := by rw [hrr]; exact a1
    refine ⟨_, hp, ?_⟩
    rw [hpm]
    exact flowOverride_fold_cases t2.m_pathMap model.thermalZones i q

end FlowSkipped

section FlowSkipped2

open model ForwardTranslator

theorem flowStep_zero_area (t : ForwardTranslator) (z : ThermalZone) (h : flowArea z = 0) :
    flowStep t z = .next (t.LOG .Warn
      ("Failed to compute floor area for Zone '" ++ z.name ++ "'")) := by
  have h2 : (z.spaces.map (fun space => space.floorArea)).sum = 0 := h
  unfold flowStep
  simp only []
  rw [if_pos h2]

theorem flowStep_unregistered (t : ForwardTranslator) (z : ThermalZone) (h : flowArea z ≠ 0)
    (hs : t.m_pathMap.find (z.name ++ " supply") = none)
    (hr : t.m_pathMap.find (z.name ++ " return") = none) :
    flowStep t z = .next t := by
  have h2 : ¬ (z.spaces.map (fun space => space.floorArea)).sum = 0 := h
  unfold flowStep
  simp only []
  rw [if_neg h2]
  simp [Table.value, hs, hr, setFahs]

/-- C25: in the flow-rate approximation, (1) the round of a thermal zone whose floor area is
zero logs one warning, and nothing else: the network data and the named-path table stay as
they are and no error is recorded; (2) the round of a thermal zone of nonzero floor area
neither of whose names "<name> supply" and "<name> return" is registered changes nothing at
all, the log included; (3) when one of the two names is not registered, the round logs nothing
and its assignment is skipped: the path list is changed by the other assignment only; and
(4) with HVAC and no simulation results `translate` on a fresh translator (template a
baseline, either mode) returns, with the flag that the run with the flow-rate step omitted
returns: when it is false the two results are equal, when it is true the two have the same
named-path table and errors, the log has the opening warning of the approximation and one
warning per thermal zone of zero floor area and nothing else more, and a path differs, in its
flow-rate override only, if a thermal zone of nonzero floor area has its position registered
under its supply or return name. -/
theorem translate_flow_skips (ext : Externals) (template : prj.Data) (model : Model)
    (descriptor : String) (afeMap : Table String) (hb : template.Baseline)
    (hsql : model.hasSqlFile = false) :
    (∀ (t : ForwardTranslator) (z : ThermalZone), flowArea z = 0 →
      ∃ r, flowStep t z = .next r ∧ r.m_data = t.m_data ∧ r.m_pathMap = t.m_pathMap ∧
        r.m_logSink = t.m_logSink ++ [areaWarning z] ∧
        r.warnings = t.warnings ++ [areaWarning z] ∧ r.errors = t.errors) ∧
    (∀ (t : ForwardTranslator) (z : ThermalZone), flowArea z ≠ 0 →
      t.m_pathMap.find (z.name ++ " supply") = none →
      t.m_pathMap.find (z.name ++ " return") = none → flowStep t z = .next t) ∧
    (∀ (t r : ForwardTranslator) (z : ThermalZone), flowArea z ≠ 0 →
      flowStep t z = .next r →
      r.m_logSink = t.m_logSink ∧
      (t.m_pathMap.find (z.name ++ " supply") = none →
        ∀ i : Nat, r.m_data.paths[i]? = (t.m_data.paths[i]?).map (fun q =>
          if t.m_pathMap.find (z.name ++ " return") = some ((i : Int) + 1) then
            { q with Fahs := some (0.9 * (flowArea z * 0.00508 * 1.2041)) }
          else q)) ∧
      (t.m_pathMap.find (z.name ++ " return") = none →
        ∀ i : Nat, r.m_data.paths[i]? = (t.m_data.paths[i]?).map (fun q =>
          if t.m_pathMap.find (z.name ++ " supply") = some ((i : Int) + 1) then
            { q with Fahs := some (flowArea z * 0.00508 * 1.2041) }
          else q))) ∧
    (∃ b r r2, (ForwardTranslator.new template).translate ext model true descriptor
        = some (b, r) ∧
      (ForwardTranslator.new template).translateNoFlows ext model true descriptor
        = some (b, r2) ∧
      (b = false → r = r2) ∧ (b = true → FlowSkips model r r2)) ∧
    (∃ b r r2, (ForwardTranslator.new template).translateWithMap ext model afeMap true
        = some (b, r) ∧
      (ForwardTranslator.new template).translateWithMapNoFlows ext model afeMap true
        = some (b, r2) ∧
      (b = false → r = r2) ∧ (b = true → FlowSkips model r r2)) := by
  have hr := Ready.new template hb
  have hbody : ∀ (pe : ElementChoice) (t : ForwardTranslator), Ready t →
      ∃ b r r2, translateBody ext pe t model true = some (b, r) ∧
        translateBodyNoFlows ext pe t model true = some (b, r2) ∧
        (b = false → r = r2) ∧ (b = true → FlowSkips model r r2) := by
    intro pe t ht
    have htot : ∃ b r, translateBody ext pe t model true = some (b, r) := by
      rcases translateBody_spec ext pe t model true ht with
        ⟨_, h⟩ | ⟨_, ⟨_, _, h⟩ | ⟨_, _, h⟩⟩
      · exact ⟨_, _, h⟩
      · exact ⟨_, _, h⟩
      · exact ⟨_, _, h⟩
    obtain ⟨b, r, h⟩ := htot
    cases b with
    | false =>
      exact ⟨false, r, r, h, translateBody_flows_false ext pe t model r h, fun _ => rfl,
        fun hc => absurd hc (by simp)⟩
    | true =>
      obtain ⟨r2, h2, h3⟩ := translateBody_flow_skips ext pe t model ht hsql r h
      exact ⟨true, r, r2, h, h2, fun hc => absurd hc (by simp), fun _ => h3⟩
  refine ⟨?_, ?_, ?_, hbody _ _ (translate_ready _ descriptor hr), hbody _ _ hr.resetLog⟩
  · intro t z hz
    refine ⟨_, flowStep_zero_area t z hz, by simp, by simp, ?_, ?_, ?_⟩
    · simp [LOG, LogLevel.toInt, areaWarning]
    · exact warnings_LOG_Warn t _
    · simp [ForwardTranslator.LOG, ForwardTranslator.errors, LogLevel.toInt]
  · intro t z hz hs hret
    exact flowStep_unregistered t z hz hs hret
  · intro t r z hz hstep
    obtain ⟨_, _, a3, a4⟩ := flowStep_paths t r z hstep
    rw [if_neg hz] at a3
    refine ⟨by simpa using a3, ?_, ?_⟩
    · intro hs i
      rw [a4 i]
      congr 1
      funext q
      unfold flowOverride
      rw [if_neg hz]
      simp [hs]
    · intro hret i
      rw [a4 i]
      congr 1
      funext q
      unfold flowOverride
      rw [if_neg hz]
      simp [hret]

/-- Witness of C25: a building with three thermal zones and an air loop that serves zone B
and zone D: zone A (floor area 30) has no registered path, zone D has floor area zero.
`translate` returns true as the run with the flow-rate step omitted does; the log holds the
opening warning and the warning for zone D, and no error; the supply and return path of
zone B (2 and 3) carry an override, the paths of zone D (4 and 5) and the other paths do
not. -/
theorem translate_flow_skips_witness :
    Examples.template.Baseline ∧ Examples.buildingFlows.hasSqlFile = false ∧
    flowArea Examples.zoneD = 0 ∧
    ∃ r r2, (ForwardTranslator.new Examples.template).translate Examples.ext
        Examples.buildingFlows true "Average" = some (true, r) ∧
      (ForwardTranslator.new Examples.template).translateNoFlows Examples.ext
        Examples.buildingFlows true "Average" = some (true, r2) ∧
      FlowSkips Examples.buildingFlows r r2 ∧
      r.m_pathMap.find "Zone A supply" = none ∧ r.m_pathMap.find "Zone A return" = none ∧
      r.m_pathMap.find "Zone D supply" = some 4 ∧ r.m_pathMap.find "Zone D return" = some 5 ∧
      r.m_logSink = [noResultsWarning, areaWarning Examples.zoneD] ∧ r.errors = [] ∧
      r.m_data.paths.map (fun p => (p.nr, p.Fahs)) =
        [(1, none), (2, some 0.18350484), (3, some 0.165154356), (4, none), (5, none),
         (6, none), (7, none), (8, none)] := by
  refine ⟨Examples.template_baseline, rfl, by simp [flowArea, Examples.zoneD, Examples.spaceD],
    ?_⟩
  have h : ∃ r, (ForwardTranslator.new Examples.template).translate Examples.ext
        Examples.buildingFlows true "Average" = some (true, r) ∧
      r.m_pathMap.find "Zone A supply" = none ∧ r.m_pathMap.find "Zone A return" = none ∧
      r.m_pathMap.find "Zone D supply" = some 4 ∧ r.m_pathMap.find "Zone D return" = some 5 ∧
      r.m_logSink = [noResultsWarning, areaWarning Examples.zoneD] ∧ r.errors = [] ∧
      r.m_data.paths.map (fun p => (p.nr, p.Fahs)) =
        [(1, none), (2, some 0.18350484), (3, some 0.165154356), (4, none), (5, none),
         (6, none), (7, none), (8, none)] := by
    have k1 : "AHS_" ++ ToString.toString (1 : Nat) ++ " recirculation"
        = "AHS_1 recirculation" := by decide
    have k2 : "AHS_" ++ ToString.toString (1 : Nat) ++ " oa" = "AHS_1 oa" := by decide
    have k3 : "AHS_" ++ ToString.toString (1 : Nat) ++ " exhaust" = "AHS_1 exhaust" := by
      decide
    simp [k1, k2, k3, ForwardTranslator.translate, ForwardTranslator.new, resetLog, checkDescriptor,
      afePhase, buildAfeMap, translateBody, storiesPhase, setDescription, translateStories,
      storyStep, networkPhases, translateZones, zoneStep, zoneLevel, zoneVolume,
      tableLookupQMap, tableLookupStdMap, translateSurfaces, surfaceStep, exteriorPath,
      interiorStep, interiorPath, SurfaceLoop.addPath, Table.index,
      relativeHeight, finish, forEach, Outcome.bind, Outcome.map, LOG, setValid,
      Table.find, Table.value, Table.set, listAt, Examples.buildingFlows, Examples.zoneA,
      Examples.zoneB, Examples.zoneD, Examples.spaceA, Examples.spaceB, Examples.spaceD,
      Examples.wallA, Examples.twoStories, Examples.template,
      translateHVACBlock, translateAirLoops, airloopStep, airloopAhs, airloopStart, newAhs,
      returnZone, supplyZone, servedZoneStep, connectAhs, closureStep, closeAhs, recircPath,
      oaPath, exhaustPath, setFlows, flowStep, setFahs, listModify, List.range,
      List.range.loop, LogLevel.toInt, ForwardTranslator.errors, noResultsWarning,
      areaWarning]
    norm_num
  obtain ⟨r, h1, h2⟩ := h
  obtain ⟨b, r3, r2, g1, g2, _, g4⟩ :=
    (translate_flow_skips Examples.ext Examples.template Examples.buildingFlows
      "Average" [] Examples.template_baseline rfl).2.2.2.1
  rw [h1] at g1
  simp only [Option.some.injEq, Prod.mk.injEq] at g1
  obtain ⟨e1, e2⟩ := g1
  subst e1
  subst e2
  exact ⟨r, r2, h1, g2, g4 rfl, h2⟩

end FlowSkipped2

section ServedPaths

open model ForwardTranslator

/-- One round of the loop over the zones served by an air loop. -/
theorem servedZoneStep_exact (ahs : prj.Ahs) (t : ForwardTranslator) (z : ThermalZone) :
    (servedZoneStep ahs t z).m_zoneMap = t.m_zoneMap ∧
    (servedZoneStep ahs t z).m_data.ahs = t.m_data.ahs ∧
    (servedZoneStep ahs t z).m_data.zones = t.m_data.zones ∧
    (servedZoneStep ahs t z).m_data.paths = t.m_data.paths ++
      [supplyPath (t.m_data.paths.length : Int) ahs (t.m_zoneMap.value z.handle 0),
       returnPath (t.m_data.paths.length : Int) ahs (t.m_zoneMap.value z.handle 0)] ∧
    (servedZoneStep ahs t z).m_pathMap =
      (t.m_pathMap.set (z.name ++ " supply") ((t.m_data.paths.length : Int) + 1)).set
        (z.name ++ " return") ((t.m_data.paths.length : Int) + 1 + 1) := by
  have hlook : (t.tableLookupStdMap t.m_zoneMap z.handle "zoneMap").1
      = t.m_zoneMap.value z.handle 0 := ForwardTranslator.tableLookupStdMap_fst _ _ _ _
  unfold servedZoneStep
  simp only [ForwardTranslator.tableLookupStdMap_m_data,
    ForwardTranslator.tableLookupStdMap_m_zoneMap, ForwardTranslator.tableLookupStdMap_m_pathMap,
    hlook, true_and, and_true]
  rfl

/-- What the loop over the zones served by an air loop keeps. -/
theorem servedFold_frame (ahs : prj.Ahs) (zones : List ThermalZone) (t : ForwardTranslator) :
    (zones.foldl (servedZoneStep ahs) t).m_zoneMap = t.m_zoneMap ∧
    (zones.foldl (servedZoneStep ahs) t).m_data.ahs = t.m_data.ahs ∧
    (zones.foldl (servedZoneStep ahs) t).m_data.zones = t.m_data.zones ∧
    (zones.foldl (servedZoneStep ahs) t).m_data.paths.length
      = t.m_data.paths.length + 2 * zones.length ∧
    (∀ i : Nat, i < t.m_data.paths.length →
      (zones.foldl (servedZoneStep ahs) t).m_data.paths[i]? = t.m_data.paths[i]?) ∧
    ∀ key : String, (∀ z ∈ zones, key ≠ z.name ++ " supply" ∧ key ≠ z.name ++ " return") →
      (zones.foldl (servedZoneStep ahs) t).m_pathMap.find key = t.m_pathMap.find key := by
  induction zones generalizing t with
  | nil => exact ⟨rfl, rfl, rfl, rfl, fun _ _ => rfl, fun _ _ => rfl⟩
  | cons a rest ih =>
    simp only [List.foldl_cons]
    obtain ⟨e1, e2, e3, e4, e5⟩ := servedZoneStep_exact ahs t a
    obtain ⟨f1, f2, f3, f4, f5, f6⟩ := ih (servedZoneStep ahs t a)
    refine ⟨by rw [f1, e1], by rw [f2, e2], by rw [f3, e3], ?_, ?_, ?_⟩
    · rw [f4, e4]
      simp only [List.length_append, List.length_cons, List.length_nil]
      omega
    · intro i hi
      rw [f5 i (by rw [e4]; simp only [List.length_append]; omega), e4,
        List.getElem?_append_left hi]
    · intro key hkey
      rw [f6 key (fun z hz => hkey z (List.mem_cons_of_mem _ hz)), e5,
        Table.find_set_ne _ _ _ _ (hkey a (List.mem_cons_self _ _)).2,
        Table.find_set_ne _ _ _ _ (hkey a (List.mem_cons_self _ _)).1]

/-- The two paths of every zone served by an air loop, and their registration. -/
theorem servedFold_served (ahs : prj.Ahs) (zones : List ThermalZone) (t : ForwardTranslator)
    (k : Nat) (z : ThermalZone) (hz : zones[k]? = some z) (n : Nat)
    (hn : n = t.m_data.paths.length + 2 * k) :
    (zones.foldl (servedZoneStep ahs) t).m_data.paths[n]?
      = some (supplyPath (n : Int) ahs (t.m_zoneMap.value z.handle 0)) ∧
    (zones.foldl (servedZoneStep ahs) t).m_data.paths[n + 1]?
      = some (returnPath (n : Int) ahs (t.m_zoneMap.value z.handle 0)) ∧
    ((∀ (k2 : Nat) (z2 : ThermalZone), k < k2 → zones[k2]? = some z2 → z2.name ≠ z.name) →
      (zones.foldl (servedZoneStep ahs) t).m_pathMap.find (z.name ++ " supply")
        = some ((n : Int) + 1) ∧
      (zones.foldl (servedZoneStep ahs) t).m_pathMap.find (z.name ++ " return")
        = some ((n : Int) + 2)) := by
  induction zones generalizing t k n with
  | nil => simp at hz
  | cons a rest ih =>
    simp only [List.foldl_cons]
    obtain ⟨e1, e2, e3, e4, e5⟩ := servedZoneStep_exact ahs t a
    have hlen : (servedZoneStep ahs t a).m_data.paths.length = t.m_data.paths.length + 2 := by
      rw [e4]
      simp
    cases k with
    | zero =>
      simp only [List.getElem?_cons_zero, Option.some.injEq] at hz
      subst hz
      have hn0 : n = t.m_data.paths.length := by omega
      subst hn0
      obtain ⟨_, _, _, _, f5, f6⟩ := servedFold_frame ahs rest (servedZoneStep ahs t a)
      refine ⟨?_, ?_, ?_⟩
      · rw [f5 _ (by omega), e4, List.getElem?_append_right (le_refl _)]
        simp
      · rw [f5 _ (by omega), e4, List.getElem?_append_right (by omega)]
        simp
      · intro hlater
        have hrest : ∀ z2 ∈ rest, z2.name ≠ a.name := by
          intro z2 hz2
          obtain ⟨j, hj⟩ := List.getElem?_of_mem hz2
          exact hlater (j + 1) z2 (by omega) (by simpa using hj)
        constructor
        · rw [f6 _ (fun z2 hz2 => ⟨fun h => hrest z2 hz2
              (String.append_right_cancel _ _ _ h).symm, supply_ne_return _ _⟩), e5,
            Table.find_set_ne _ _ _ _ (supply_ne_return _ _), Table.find_set_self]
        · rw [f6 _ (fun z2 hz2 => ⟨fun h => supply_ne_return _ _ h.symm, fun h => hrest z2 hz2
              (String.append_right_cancel _ _ _ h).symm⟩), e5, Table.find_set_self]
          congr 1
    | succ k =>
      simp only [List.getElem?_cons_succ] at hz
      have := ih (servedZoneStep ahs t a) k hz n (by rw [hlen]; omega)
      rw [e1] at this
      refine ⟨this.1, this.2.1, fun hlater => this.2.2 ?_⟩
      intro k2 z2 hk hz2
      exact hlater (k2 + 1) z2 (by omega) (by simpa using hz2)

end ServedPaths

section ServedPaths2

open model ForwardTranslator

theorem servedLoops_cons_idle (a : AirLoopHVAC) (rest : List AirLoopHVAC)
    (h : a.thermalZones.length = 0) : servedLoops (a :: rest) = servedLoops rest := by
  unfold servedLoops
  rw [List.filter_cons]
  simp [h]

theorem servedLoops_cons_served (a : AirLoopHVAC) (rest : List AirLoopHVAC)
    (h : a.thermalZones.length ≠ 0) : servedLoops (a :: rest) = a :: servedLoops rest := by
  unfold servedLoops
  rw [List.filter_cons]
  simp [h]

theorem servedZoneCount_cons (a : AirLoopHVAC) (rest : List AirLoopHVAC) :
    servedZoneCount (a :: rest) = a.thermalZones.length + servedZoneCount rest := by
  simp [servedZoneCount]

/-- One round of the loop over the air loops, for an air loop that serves a zone. -/
theorem airloopStep_exact (s : Int × ForwardTranslator) (a : AirLoopHVAC)
    (h : a.thermalZones.length ≠ 0) :
    (airloopStep s a).1 = s.1 + 1 ∧
    (airloopStep s a).2.m_zoneMap = s.2.m_zoneMap ∧
    (airloopStep s a).2.m_data.zones.length = s.2.m_data.zones.length + 2 ∧
    (airloopStep s a).2.m_data.ahs = s.2.m_data.ahs ++ [airloopAhs s] ∧
    (airloopStep s a).2.m_data.paths
      = (a.thermalZones.foldl (servedZoneStep (airloopAhs s)) (airloopStart s a)).m_data.paths ∧
    (airloopStep s a).2.m_pathMap
      = (a.thermalZones.foldl (servedZoneStep (airloopAhs s)) (airloopStart s a)).m_pathMap ∧
    (airloopStart s a).m_data.paths = s.2.m_data.paths ∧
    (airloopStart s a).m_pathMap = s.2.m_pathMap ∧
    (airloopStart s a).m_zoneMap = s.2.m_zoneMap := by
  obtain ⟨f1, f2, f3, _⟩ := servedFold_frame (airloopAhs s) a.thermalZones (airloopStart s a)
  unfold airloopStep
  rw [if_neg h]
  refine ⟨rfl, ?_, ?_, ?_, rfl, rfl, rfl, rfl, rfl⟩
  · show (a.thermalZones.foldl (servedZoneStep (airloopAhs s)) (airloopStart s a)).m_zoneMap = _
    rw [f1]
    rfl
  · show (a.thermalZones.foldl (servedZoneStep (airloopAhs s))
      (airloopStart s a)).m_data.zones.length = _
    rw [f3]
    simp [airloopStart]
  · show (a.thermalZones.foldl (servedZoneStep (airloopAhs s)) (airloopStart s a)).m_data.ahs
      ++ [airloopAhs s] = _
    rw [f2]
    rfl

/-- What the loop over the air loops keeps, and how many records it appends. -/
theorem airFold_frame (loops : List AirLoopHVAC) (s : Int × ForwardTranslator) :
    (loops.foldl airloopStep s).1 = s.1 + ((servedLoops loops).length : Int) ∧
    (loops.foldl airloopStep s).2.m_zoneMap = s.2.m_zoneMap ∧
    (loops.foldl airloopStep s).2.m_data.zones.length
      = s.2.m_data.zones.length + 2 * (servedLoops loops).length ∧
    (loops.foldl airloopStep s).2.m_data.ahs.length
      = s.2.m_data.ahs.length + (servedLoops loops).length ∧
    (loops.foldl airloopStep s).2.m_data.paths.length
      = s.2.m_data.paths.length + 2 * servedZoneCount loops ∧
    (∀ i : Nat, i < s.2.m_data.paths.length →
      (loops.foldl airloopStep s).2.m_data.paths[i]? = s.2.m_data.paths[i]?) ∧
    (∀ i : Nat, i < s.2.m_data.ahs.length →
      (loops.foldl airloopStep s).2.m_data.ahs[i]? = s.2.m_data.ahs[i]?) ∧
    ∀ key : String, (∀ loop ∈ loops, ∀ z ∈ loop.thermalZones,
        key ≠ z.name ++ " supply" ∧ key ≠ z.name ++ " return") →
      (loops.foldl airloopStep s).2.m_pathMap.find key = s.2.m_pathMap.find key := by
  induction loops generalizing s with
  | nil =>
    simp [servedLoops, servedZoneCount]
  | cons a rest ih =>
    simp only [List.foldl_cons]
    obtain ⟨g1, g2, g3, g4, g5, g6, g7, g8⟩ := ih (airloopStep s a)
    by_cases h : a.thermalZones.length = 0
    · have e : airloopStep s a = s := by
        unfold airloopStep
        rw [if_pos h]
      rw [e] at g1 g2 g3 g4 g5 g6 g7 g8 ⊢
      rw [servedLoops_cons_idle a rest h, servedZoneCount_cons, h]
      refine ⟨g1, g2, g3, g4, by rw [g5]; omega, g6, g7, ?_⟩
      intro key hkey
      exact g8 key (fun loop hl => hkey loop (List.mem_cons_of_mem _ hl))
    · obtain ⟨e1, e2, e3, e4, e5, e6, e7, e8, e9⟩ := airloopStep_exact s a h
      obtain ⟨_, _, _, f4, f5, f6⟩ :=
        servedFold_frame (airloopAhs s) a.thermalZones (airloopStart s a)
      rw [servedLoops_cons_served a rest h, servedZoneCount_cons]
      have hplen : (airloopStep s a).2.m_data.paths.length
          = s.2.m_data.paths.length + 2 * a.thermalZones.length := by
        rw [e5, f4, e7]
      have halen : (airloopStep s a).2.m_data.ahs.length = s.2.m_data.ahs.length + 1 := by
        rw [e4]
        simp
      refine ⟨?_, by rw [g2, e2], ?_, ?_, ?_, ?_, ?_, ?_⟩
      · rw [g1, e1]
        simp only [List.length_cons]
        push_cast
        omega
      · rw [g3, e3]
        simp only [List.length_cons]
        omega
      · rw [g4, halen]
        simp only [List.length_cons]
        omega
      · rw [g5, hplen]
        omega
      · intro i hi
        rw [g6 i (by omega), e5, f5 i (by rw [e7]; exact hi), e7]
      · intro i hi
        rw [g7 i (by omega), e4, List.getElem?_append_left hi]
      · intro key hkey
        rw [g8 key (fun loop hl => hkey loop (List.mem_cons_of_mem _ hl)), e6,
          f6 key (hkey a (List.mem_cons_self _ _)), e8]

end ServedPaths2

section ServedPaths3

open model ForwardTranslator

theorem mem_servedLoops_index (loops : List AirLoopHVAC) (loop : AirLoopHVAC)
    (hl : loop ∈ loops) (z : ThermalZone) (hz : z ∈ loop.thermalZones) :
    ∃ j : Nat, (servedLoops loops)[j]? = some loop := by
  apply List.getElem?_of_mem
  unfold servedLoops
  rw [List.mem_filter]
  refine ⟨hl, ?_⟩
  have : loop.thermalZones.length ≠ 0 := by
    intro h
    rw [List.length_eq_zero] at h
    rw [h] at hz
    simp at hz
  simpa using this

/-- The AHS record of every air loop that serves a zone, the two paths of every zone that it
serves, and their registration, after the loop over the air loops. -/
theorem airFold_served (loops : List AirLoopHVAC) (s : Int × ForwardTranslator)
    (j : Nat) (loop : AirLoopHVAC) (hj : (servedLoops loops)[j]? = some loop)
    (m : Nat) (hm : m = s.2.m_data.ahs.length + j) :
    ∃ a, (loops.foldl airloopStep s).2.m_data.ahs[m]? = some a ∧
      a.nr = s.1 + (j : Int) + 1 ∧
      a.zone_r = (s.2.m_data.zones.length : Int) + 2 * (j : Int) + 1 ∧
      a.zone_s = (s.2.m_data.zones.length : Int) + 2 * (j : Int) + 2 ∧
      ∀ (k : Nat) (z : ThermalZone), loop.thermalZones[k]? = some z →
        ∀ n : Nat, n = s.2.m_data.paths.length
            + 2 * (servedZoneCount ((servedLoops loops).take j) + k) →
          (loops.foldl airloopStep s).2.m_data.paths[n]?
            = some (supplyPath (n : Int) a (s.2.m_zoneMap.value z.handle 0)) ∧
          (loops.foldl airloopStep s).2.m_data.paths[n + 1]?
            = some (returnPath (n : Int) a (s.2.m_zoneMap.value z.handle 0)) ∧
          ((∀ (k2 : Nat) (z2 : ThermalZone), k < k2 → loop.thermalZones[k2]? = some z2 →
              z2.name ≠ z.name) →
            (∀ (j2 : Nat) (loop2 : AirLoopHVAC), j < j2 →
              (servedLoops loops)[j2]? = some loop2 →
              ∀ z2 ∈ loop2.thermalZones, z2.name ≠ z.name) →
            (loops.foldl airloopStep s).2.m_pathMap.find (z.name ++ " supply")
              = some ((n : Int) + 1) ∧
            (loops.foldl airloopStep s).2.m_pathMap.find (z.name ++ " return")
              = some ((n : Int) + 2)) := by
  induction loops generalizing s j m with
  | nil => simp [servedLoops] at hj
  | cons L rest ih =>
    simp only [List.foldl_cons]
    by_cases h : L.thermalZones.length = 0
    · have e : airloopStep s L = s := by
        unfold airloopStep
        rw [if_pos h]
      rw [e]
      rw [servedLoops_cons_idle L rest h] at hj ⊢
      exact ih s j hj m hm
    · obtain ⟨e1, e2, e3, e4, e5, e6, e7, e8, e9⟩ := airloopStep_exact s L h
      obtain ⟨_, _, _, f4, _, _⟩ :=
        servedFold_frame (airloopAhs s) L.thermalZones (airloopStart s L)
      obtain ⟨_, _, _, _, _, g6, g7, g8⟩ := airFold_frame rest (airloopStep s L)
      have hplen : (airloopStep s L).2.m_data.paths.length
          = s.2.m_data.paths.length + 2 * L.thermalZones.length := by
        rw [e5, f4, e7]
      have halen : (airloopStep s L).2.m_data.ahs.length = s.2.m_data.ahs.length + 1 := by
        rw [e4]
        simp
      rw [servedLoops_cons_served L rest h] at hj ⊢
      cases j with
      | zero =>
        simp only [List.getElem?_cons_zero, Option.some.injEq] at hj
        subst hj
        refine ⟨airloopAhs s, ?_, ?_, ?_, ?_, ?_⟩
        · rw [g7 m (by omega), e4, List.getElem?_append_right (by omega)]
          have : m - s.2.m_data.ahs.length = 0 := by omega
          rw [this]
          rfl
        · simp [airloopAhs, newAhs]
        · simp [airloopAhs, newAhs, returnZone]
        · simp [airloopAhs, newAhs, returnZone, supplyZone]
          omega
        · intro k z hz n hn
          simp only [List.take_zero, servedZoneCount, List.map_nil, List.sum_nil,
            zero_add] at hn
          have hk : k < L.thermalZones.length := by
            by_contra hcon
            rw [List.getElem?_eq_none (by omega)] at hz
            simp at hz
          obtain ⟨p1, p2, p3⟩ := servedFold_served (airloopAhs s) L.thermalZones
            (airloopStart s L) k z hz n (by rw [e7]; exact hn)
          rw [e9] at p1 p2
          refine ⟨?_, ?_, ?_⟩
          · rw [g6 n (by omega), e5]
            exact p1
          · rw [g6 (n + 1) (by omega), e5]
            exact p2
          · intro hin hlater
            have hkeys : ∀ loop2 ∈ rest, ∀ z2 ∈ loop2.thermalZones, z2.name ≠ z.name := by
              intro loop2 hl2 z2 hz2
              obtain ⟨j2, hj2⟩ := mem_servedLoops_index rest loop2 hl2 z2 hz2
              exact hlater (j2 + 1) loop2 (by omega) (by simpa using hj2) z2 hz2
            obtain ⟨q1, q2⟩ := p3 hin
            constructor
            · rw [g8 _ (fun loop2 hl2 z2 hz2 => ⟨fun hc => hkeys loop2 hl2 z2 hz2
                (String.append_right_cancel _ _ _ hc).symm, supply_ne_return _ _⟩), e6]
              exact q1
            · rw [g8 _ (fun loop2 hl2 z2 hz2 => ⟨fun hc => supply_ne_return _ _ hc.symm,
                fun hc => hkeys loop2 hl2 z2 hz2
                  (String.append_right_cancel _ _ _ hc).symm⟩), e6]
              exact q2
      | succ j =>
        simp only [List.getElem?_cons_succ] at hj
        obtain ⟨a, a1, a2, a3, a4, a5⟩ := ih (airloopStep s L) j hj m (by rw [halen]; omega)
        refine ⟨a, a1, ?_, ?_, ?_, ?_⟩
        · rw [a2, e1]
          push_cast
          omega
        · rw [a3, e3]
          push_cast
          omega
        · rw [a4, e3]
          push_cast
          omega
        · intro k z hz n hn
          simp only [List.take_succ_cons, servedZoneCount_cons] at hn
          obtain ⟨p1, p2, p3⟩ := a5 k z hz n (by rw [hplen]; omega)
          rw [e2] at p1 p2
          refine ⟨p1, p2, ?_⟩
          intro hin hlater
          exact p3 hin (fun j2 loop2 hj2 hl2 =>
            hlater (j2 + 1) loop2 (by omega) (by simpa using hl2))

end ServedPaths3

section ServedPaths4

open model ForwardTranslator

theorem closureStep_find_served (t : ForwardTranslator) (i : Nat) (key : String) (v : Option Int)
    (hkey : ∀ b : String, key ≠ b ++ " recirculation" ∧ key ≠ b ++ " oa" ∧
      key ≠ b ++ " exhaust")
    (h : t.m_pathMap.find key = v) :
    (closureStep t i).all (fun r => r.m_pathMap.find key = v) := by
  unfold closureStep
  split
  · trivial
  · simp only [Outcome.all]
    rw [Table.find_set_ne _ _ _ _ (hkey _).2.2, Table.find_set_ne _ _ _ _ (hkey _).2.1,
      Table.find_set_ne _ _ _ _ (hkey _).1]
    exact h

/-- The loop that closes the AHS records keeps what the named-path table holds under the
supply and return names. -/
theorem connectAhs_find_served (t t2 : ForwardTranslator) (hc : connectAhs t = .next t2)
    (name : String) :
    t2.m_pathMap.find (name ++ " supply") = t.m_pathMap.find (name ++ " supply") ∧
    t2.m_pathMap.find (name ++ " return") = t.m_pathMap.find (name ++ " return") := by
  have key : ∀ key : String, (∀ b : String, key ≠ b ++ " recirculation" ∧ key ≠ b ++ " oa" ∧
      key ≠ b ++ " exhaust") → t2.m_pathMap.find key = t.m_pathMap.find key := by
    intro key hkey
    have := Outcome.all_forEach closureStep
      (fun r : ForwardTranslator => r.m_pathMap.find key = t.m_pathMap.find key)
      (fun s i hs => closureStep_find_served s i key _ hkey hs)
      (List.range t.m_data.ahs.length) t rfl
    unfold connectAhs at hc
    rw [hc] at this
    exact this
  exact ⟨key _ (fun b => supply_ne_closure name b), key _ (fun b => return_ne_closure name b)⟩

end ServedPaths4

section ServedPaths5

open model ForwardTranslator

/-- The supply and return paths after a run of the shared body with HVAC that returns
true. -/
theorem translateBody_served_paths (ext : Externals) (pe : ElementChoice)
    (t : ForwardTranslator) (model : Model) (hr : Ready t) (r : ForwardTranslator)
    (h : translateBody ext pe t model true = some (true, r)) : ServedPaths model r := by
  obtain ⟨nr, tz, ts, na, t1, t2, r0, hzi, hrun, _, hfold, _, _, hconn, hclo, _, _, hflow,
    hrr⟩ := translateBody_hvac_trace ext pe t model hr r h
  have hz0 : (storiesPhase model t).m_data.zones = [] := by simp [hr.2.2.1]
  have hp0 : (storiesPhase model t).m_data.paths = [] := by simp [hr.2.2.2.1]
  have ha0 : (storiesPhase model t).m_data.ahs = [] := by simp [hr.2.2.2.2.1]
  obtain ⟨⟨_, _, n3⟩, _, _⟩ := noHvac_of_loops hz0 hp0 ha0 hzi hrun
  have hahs0 : ts.t.m_data.ahs.length = 0 := by
    rw [hrun.run_frame.2.2.1]
    have := hzi.2.2.2.2.1
    simp only [] at this ⊢
    rw [this, ha0]
    rfl
  have ht1 : (model.airLoops.foldl airloopStep (0, ts.t)).2 = t1 := by rw [hfold]
  obtain ⟨_, b2, _, b4, b5, b6, _, _⟩ := airFold_frame model.airLoops (0, ts.t)
  rw [ht1] at b2 b4 b5 b6
  simp only [] at b2 b4 b5 b6
  obtain ⟨c1, c2, c3, c4, c5, c6, c7, c8, c9, c10, c11, _⟩ := hclo
  obtain ⟨cl, d1, d2, d3⟩ := ClosureInv.closure_mem
    (show ClosureInv t1 t1.m_data.ahs.length t2 from
      ⟨c1, c2, c3, c4, c5, c6, c7, c8, c9, c10, c11, by assumption⟩) (le_refl _)
  have hlen2 : t2.m_data.paths.length = t1.m_data.paths.length + 3 * t1.m_data.ahs.length := by
    rw [d1, List.length_append, d2]
  have hrp : r.m_data.paths = r0.m_data.paths := by rw [hrr]; rfl
  have hra : r.m_data.ahs = t2.m_data.ahs := by rw [hrr]; exact hflow.2.2.1
  have hrz : r.m_zoneMap = ts.t.m_zoneMap := by
    rw [hrr]
    show r0.m_zoneMap = _
    rw [hflow.2.2.2.2.1, c4, b2]
  have hrm : r.m_pathMap = t2.m_pathMap := by
    rw [hrr]
    exact hflow.2.2.2.2.2.2.2.1
  refine ⟨ts.t.m_data.paths.length, ?_, ?_, ?_⟩
  · rw [hrp, hflow.path_length, hlen2, b5, b4, hahs0]
    omega
  · intro i p hp hsys
    rw [hrp] at hp
    obtain ⟨q, hq, hqp⟩ := hflow.path_at i p hp
    have hqs : q.system = true := by
      rw [(clearFahs_fields p q hqp).2.2.2.2.1]
      exact hsys
    have hi2 : i < t2.m_data.paths.length := by
      by_contra hcon
      rw [List.getElem?_eq_none (by omega)] at hq
      simp at hq
    constructor
    · by_contra hcon
      have hi : i < ts.t.m_data.paths.length := by omega
      rw [d1, List.getElem?_append_left (by omega), b6 i hi] at hq
      have := (n3 q (List.getElem?_mem hq)).1
      rw [this] at hqs
      simp at hqs
    · by_contra hcon
      have hi : t1.m_data.paths.length ≤ i := by omega
      rw [d1, List.getElem?_append_right hi] at hq
      obtain ⟨a0, _, _, hcase⟩ := d3 _ q hq
      rcases hcase with ⟨_, e1⟩ | ⟨_, e1⟩ | ⟨_, e1⟩ <;> rw [e1] at hqs <;>
        simp [recircPath, oaPath, exhaustPath] at hqs
  · intro j loop hj
    obtain ⟨a0, a1, a2, a3, a4, a5⟩ := airFold_served model.airLoops (0, ts.t) j loop hj j
      (by simp only []; omega)
    rw [ht1] at a1 a5
    simp only [] at a2 a3 a4 a5
    have hjlt : j < t1.m_data.ahs.length := by
      by_contra hcon
      rw [List.getElem?_eq_none (by omega)] at a1
      simp at a1
    refine ⟨closeAhs ((t1.m_data.paths.length : Int) + 3 * (j : Int)) a0, ?_, ?_, ?_⟩
    · rw [hra]
      exact c10 j a0 hjlt a1
    · show a0.nr = _
      rw [a2]
      omega
    · intro k z hz
      generalize hN : ts.t.m_data.paths.length
        + 2 * (servedZoneCount ((servedLoops model.airLoops).take j) + k) = N
      obtain ⟨p1, p2, p3⟩ := a5 k z hz N hN.symm
      have hn1 : N + 1 < t1.m_data.paths.length := by
        by_contra hcon
        rw [List.getElem?_eq_none (by omega)] at p2
        simp at p2
      have q1 : t2.m_data.paths[N]? = t1.m_data.paths[N]? := by
        rw [d1, List.getElem?_append_left (by omega)]
      have q2 : t2.m_data.paths[N + 1]? = t1.m_data.paths[N + 1]? := by
        rw [d1, List.getElem?_append_left (by omega)]
      rw [← q1] at p1
      rw [← q2] at p2
      have q1 := p1
      have q2 := p2
      obtain ⟨sp, s1, s2⟩ := hflow.path_from _ _ q1
      obtain ⟨rp, r1, r2⟩ := hflow.path_from _ _ q2
      obtain ⟨u1, u2, u3, u4, u5, _⟩ := clearFahs_fields sp _ s2
      obtain ⟨v1, v2, v3, v4, v5, _⟩ := clearFahs_fields rp _ r2
      refine ⟨sp, rp, by rw [hrp]; exact s1, by rw [hrp]; exact r1, ?_, ?_, ?_, ?_, ?_, ?_,
        ?_, ?_, ?_, ?_, ?_, ?_⟩
      · rw [← u1]
        rfl
      · rw [← u1, ← v1]
        rfl
      · rw [← u2]
        rfl
      · rw [← u3, hrz]
        rfl
      · rw [← v2, hrz]
        rfl
      · rw [← v3]
        rfl
      · rw [← u4]
        rfl
      · rw [← v4]
        rfl
      · rw [← u5]
        rfl
      · rw [← v5]
        rfl
      · intro hmem
        obtain ⟨z0, hz0m, hz0h⟩ := List.mem_map.mp hmem
        obtain ⟨v, hv1, hv2, hv3⟩ := hzi.2.2.2.2.2.2.2.2.2.2.2.1 z0 hz0m
        simp only [] at hv1
        rw [hz0h] at hv1
        have hfind : ts.t.m_zoneMap.find z.handle = some v :=
          hrun.zoneMap_stable.1 _ _ hv1
        have hpzm : sp.pzm = v := by
          rw [← u3]
          show ts.t.m_zoneMap.value z.handle 0 = v
          unfold Table.value
          rw [hfind]
          rfl
        rw [hrz, hpzm]
        exact ⟨hfind, hv2, hv3⟩
      · intro hin hlater
        obtain ⟨w1, w2⟩ := p3 hin hlater
        obtain ⟨x1, x2⟩ := connectAhs_find_served t1 t2 hconn z.name
        rw [hrm, x1, x2, w1, w2, ← u1, ← v1]
        constructor
        · rfl
        · show _ = some (_ + 1 + 1)
          congr 1

end ServedPaths5

section ServedPaths6

open model ForwardTranslator

/-- C23: after `translate` with HVAC on a fresh translator (template a baseline, either mode)
has returned true, so that the HVAC block has run: after the paths of the surfaces the path
list holds exactly two paths per thermal zone served by an air loop, in the order of the air
loops and of their zones, followed by the three closing paths per AHS, and no other path is
flagged system. The first of the two is the supply path, from the supply zone of the AHS of
the loop to the index of the served zone (what the zone table holds for it, the index of a
zone of the thermal zones when the served zone is a thermal zone of the model), the second is
the return path, from that index to the return zone of the AHS; both are numbered by their
position, flagged system and tagged with the number of the AHS. The named-path table holds
the number of the supply path under "<zone name> supply" and the number of the return path
under "<zone name> return", provided no zone served later has the same name (a later
registration under the same name replaces the entry). -/
theorem translate_served_paths (ext : Externals) (template : prj.Data) (model : Model)
    (descriptor : String) (afeMap : Table String) (hb : template.Baseline) :
    (∀ r, (ForwardTranslator.new template).translate ext model true descriptor = some (true, r) →
      ServedPaths model r) ∧
    (∀ r, (ForwardTranslator.new template).translateWithMap ext model afeMap true
        = some (true, r) → ServedPaths model r) := by
  have hr := Ready.new template hb
  constructor
  · intro r heq
    exact translateBody_served_paths ext _ _ model (translate_ready _ descriptor hr) r heq
  · intro r heq
    exact translateBody_served_paths ext _ _ model hr.resetLog r heq

/-- Witness of C23: the example building, whose air loop serves zone A (index 1) and zone B
(index 2), with return zone 3 and supply zone 4: after the two paths of the surfaces come
the supply path 3 (zone 4 to zone 1) and the return path 4 (zone 1 to zone 3) of zone A and
the supply path 5 (zone 4 to zone 2) and the return path 6 (zone 2 to zone 3) of zone B, all
four flagged system and tagged with AHS 1, registered under the names of the zones. -/
theorem translate_served_paths_witness :
    Examples.template.Baseline ∧
    ∃ r, (ForwardTranslator.new Examples.template).translate Examples.ext
        Examples.building true "Average" = some (true, r) ∧
      ServedPaths Examples.building r ∧
      r.m_pathMap.find "Zone A supply" = some 3 ∧ r.m_pathMap.find "Zone A return" = some 4 ∧
      r.m_pathMap.find "Zone B supply" = some 5 ∧ r.m_pathMap.find "Zone B return" = some 6 ∧
      r.m_data.paths.map (fun p => (p.nr, p.pzn, p.pzm, p.pa, p.system)) =
        [(1, 1, -1, 0, false), (2, 1, 2, 0, false), (3, 4, 1, 1, true), (4, 1, 3, 1, true),
         (5, 4, 2, 1, true), (6, 2, 3, 1, true), (7, 3, 4, 0, false), (8, -1, 4, 0, false),
         (9, 3, -1, 0, false)] := by
  refine ⟨Examples.template_baseline, ?_⟩
  have h : ∃ r, (ForwardTranslator.new Examples.template).translate Examples.ext
        Examples.building true "Average" = some (true, r) ∧
      r.m_pathMap.find "Zone A supply" = some 3 ∧ r.m_pathMap.find "Zone A return" = some 4 ∧
      r.m_pathMap.find "Zone B supply" = some 5 ∧ r.m_pathMap.find "Zone B return" = some 6 ∧
      r.m_data.paths.map (fun p => (p.nr, p.pzn, p.pzm, p.pa, p.system)) =
        [(1, 1, -1, 0, false), (2, 1, 2, 0, false), (3, 4, 1, 1, true), (4, 1, 3, 1, true),
         (5, 4, 2, 1, true), (6, 2, 3, 1, true), (7, 3, 4, 0, false), (8, -1, 4, 0, false),
         (9, 3, -1, 0, false)] := by
    simp [ForwardTranslator.translate, ForwardTranslator.new, resetLog, checkDescriptor,
      afePhase, buildAfeMap, translateBody, storiesPhase, setDescription, translateStories,
      storyStep, networkPhases, translateZones, zoneStep, zoneLevel, zoneVolume,
      tableLookupQMap, tableLookupStdMap, translateSurfaces, surfaceStep, exteriorPath,
      interiorStep, interiorPath, SurfaceLoop.addPath, Table.index,
      relativeHeight, finish, forEach, Outcome.bind, Outcome.map, LOG, setValid,
      Table.find, Table.value, Table.set, listAt, Examples.building, Examples.zoneA,
      Examples.zoneB, Examples.spaceA, Examples.spaceB, Examples.wallA, Examples.ceilingA,
      Examples.floorB, Examples.twoStories, Examples.template,
      translateHVACBlock, translateAirLoops, airloopStep, airloopAhs, airloopStart, newAhs,
      returnZone, supplyZone, servedZoneStep, connectAhs, closureStep, closeAhs, recircPath,
      oaPath, exhaustPath, setFlows, flowStep, setFahs, listModify, List.range,
      List.range.loop]
  obtain ⟨r, h1, h2⟩ := h
  exact ⟨r, h1, (translate_served_paths Examples.ext Examples.template Examples.building
    "Average" [] Examples.template_baseline).1 r h1, h2⟩

end ServedPaths6

section ElementCoefficients

open ForwardTranslator

end ElementCoefficients

section TransitionClamp

/-- The computation of `setLamCoef` for a positive turbulent coefficient and a non-zero
exponent, with its intermediate values. -/
theorem setLamCoef_eq (Ct x : ℝ) (hC : 0 < Ct) (hx : x ≠ 0) :
    setLamCoef Ct x = some
      ((1.81625e-5 * (1.81625e-5 * 30.0 * (Ct / (0.6 * 1.414213562))
          / Real.sqrt (Ct / (0.6 * 1.414213562))))
        / (1.20410 *
          (if (1.81625e-5 * 30.0 * (Ct / (0.6 * 1.414213562))
                / Real.sqrt (Ct / (0.6 * 1.414213562)) / (Ct * 1.097315)) ^ (1.0 / x) < 1.0e-10
            then 1.0e-10
            else (1.81625e-5 * 30.0 * (Ct / (0.6 * 1.414213562))
                / Real.sqrt (Ct / (0.6 * 1.414213562)) / (Ct * 1.097315)) ^ (1.0 / x)))) := by
  have hA : 0 < Ct / (0.6 * 1.414213562) := by positivity
  have hD : 0 < Real.sqrt (Ct / (0.6 * 1.414213562)) := Real.sqrt_pos.mpr hA
  have hq : 0 < 1.81625e-5 * 30.0 * (Ct / (0.6 * 1.414213562)) /
      Real.sqrt (Ct / (0.6 * 1.414213562)) / (Ct * 1.097315) := by positivity
  have hCs : Ct * 1.097315 ≠ 0 := by positivity
  have h06 : (0.6 : ℝ) * 1.414213562 ≠ 0 := by norm_num
  have hp := Real.rpow_pos_of_pos hq (1.0 / x)
  unfold setLamCoef
  simp only [fdiv, fsqrt, fpow, if_neg h06, Option.some_bind, if_neg (not_lt.mpr hA.le),
    if_neg hD.ne', if_neg hCs, if_neg hx, if_pos hq]
  split_ifs with h1 h2 h3
  · norm_num at h2
  · rfl
  · exfalso
    have : (1.20410 : ℝ) * _ ≠ 0 := mul_ne_zero (by norm_num) hp.ne'
    exact this h3
  · rfl

/-- The transition clamp of `setLamCoef` in the arithmetic of the real numbers, for a
turbulent coefficient `Ct > 0` and an exponent `x > 0`: with the flow area
`A = Ct / (0.6 * SQRT2)`, the transition flow `F = MUAIR * 30 * A / sqrt A` and the computed
transition pressure drop `dP0 = (F / (Ct * SRHO)) ^ (1 / x)`, the pressure drop `dP` used in
the final division is `dP0`, replaced by `1e-10` when `dP0` is smaller; it is never below
`1e-10`, the divisor `RHOAIR * dP` is not zero, and the result is the real number
`(MUAIR * F) / (RHOAIR * dP)`, which is positive. The constants are those of the source:
`SQRT2 = 1.414213562`, `SRHO = 1.097315`, `MUAIR = 1.81625e-5`, `RHOAIR = 1.2041`. The
statement is about real numbers only: the doubles of the program round every operation, the
power can overflow and the final quotient can underflow to 0 for extreme arguments, and none
of that is expressed here. -/
theorem setLamCoef_clamped (Ct x : ℝ) (hC : 0 < Ct) (hx : 0 < x) :
    ∃ A F dP0 dP c : ℝ,
      A = Ct / (0.6 * 1.414213562) ∧
      F = 1.81625e-5 * 30 * A / Real.sqrt A ∧
      dP0 = (F / (Ct * 1.097315)) ^ (1 / x) ∧
      dP = (if dP0 < 1.0e-10 then 1.0e-10 else dP0) ∧
      (1.0e-10 : ℝ) ≤ dP ∧ (1.20410 : ℝ) * dP ≠ 0 ∧
      setLamCoef Ct x = some c ∧ c = (1.81625e-5 * F) / (1.20410 * dP) ∧ 0 < c := by
  have hA : 0 < Ct / (0.6 * 1.414213562) := by positivity
  have hD : 0 < Real.sqrt (Ct / (0.6 * 1.414213562)) := Real.sqrt_pos.mpr hA
  have hF : 0 < 1.81625e-5 * 30 * (Ct / (0.6 * 1.414213562)) /
      Real.sqrt (Ct / (0.6 * 1.414213562)) := by positivity
  have hdp : (1.0e-10 : ℝ) ≤
      (if (1.81625e-5 * 30 * (Ct / (0.6 * 1.414213562))
            / Real.sqrt (Ct / (0.6 * 1.414213562)) / (Ct * 1.097315)) ^ (1 / x) < 1.0e-10
        then 1.0e-10
        else (1.81625e-5 * 30 * (Ct / (0.6 * 1.414213562))
            / Real.sqrt (Ct / (0.6 * 1.414213562)) / (Ct * 1.097315)) ^ (1 / x)) := by
    split_ifs with h
    · exact le_refl _
    · exact not_lt.mp h
  have hdpos : (0 : ℝ) <
      (if (1.81625e-5 * 30 * (Ct / (0.6 * 1.414213562))
            / Real.sqrt (Ct / (0.6 * 1.414213562)) / (Ct * 1.097315)) ^ (1 / x) < 1.0e-10
        then 1.0e-10
        else (1.81625e-5 * 30 * (Ct / (0.6 * 1.414213562))
            / Real.sqrt (Ct / (0.6 * 1.414213562)) / (Ct * 1.097315)) ^ (1 / x)) :=
    lt_of_lt_of_le (by norm_num) hdp
  refine ⟨_, _, _, _, _, rfl, rfl, rfl, rfl, hdp, ?_, ?_, rfl, ?_⟩
  · exact mul_ne_zero (by norm_num) hdpos.ne'
  · rw [setLamCoef_eq Ct x hC hx.ne']
    norm_num
  · exact div_pos (mul_pos (by norm_num) hF) (mul_pos (by norm_num) hdpos)

end TransitionClamp

section TransitionClamp2

/-- An instance in which the clamp is taken, in the arithmetic of the real numbers: the
turbulent coefficient `1e14` with the exponent 1, where the computed transition pressure drop
is below `1e-10`. -/
theorem setLamCoef_clamped_witness :
    (0 : ℝ) < 1.0e14 ∧ (0 : ℝ) < 1 ∧
    ∃ A F dP0 dP c : ℝ,
      A = 1.0e14 / (0.6 * 1.414213562) ∧
      F = 1.81625e-5 * 30 * A / Real.sqrt A ∧
      dP0 = (F / (1.0e14 * 1.097315)) ^ (1 / (1 : ℝ)) ∧
      dP0 < 1.0e-10 ∧ dP = 1.0e-10 ∧
      setLamCoef 1.0e14 1 = some c ∧ c = (1.81625e-5 * F) / (1.20410 * dP) ∧ 0 < c := by
  refine ⟨by norm_num, by norm_num, ?_⟩
  obtain ⟨A, F, dP0, dP, c, hA, hF, h0, hdP, _, _, hs, hc, hpos⟩ :=
    setLamCoef_clamped 1.0e14 1 (by norm_num) (by norm_num)
  have hApos : 0 < A := by rw [hA]; norm_num
  have hsq : Real.sqrt A < 1.1e7 := by
    rw [Real.sqrt_lt' (by norm_num), hA]
    norm_num
  have hsq0 : 0 < Real.sqrt A := Real.sqrt_pos.mpr hApos
  have hF2 : F = 1.81625e-5 * 30 * Real.sqrt A := by
    rw [hF, mul_div_assoc, Real.div_sqrt]
  have hlt : dP0 < 1.0e-10 := by
    rw [h0, div_self (one_ne_zero), Real.rpow_one, hF2, div_lt_iff (by norm_num)]
    nlinarith
  refine ⟨A, F, dP0, dP, c, hA, hF, h0, hlt, ?_, hs, hc, hpos⟩
  rw [hdP, if_pos hlt]

end TransitionClamp2

section ZoneLevels

open model ForwardTranslator

/-- The story table after the loop over the stories of a translator without story entries:
a story whose handle no later story has is registered with its position plus one. -/
theorem translateStories_levelMap (stories : List BuildingStory) (t0 : ForwardTranslator)
    (j : Nat) (b : BuildingStory) (hb : stories[j]? = some b)
    (hlater : ∀ (j2 : Nat) (b2 : BuildingStory), j < j2 → stories[j2]? = some b2 →
      b2.handle ≠ b.handle) :
    (translateStories stories t0).2.2.m_levelMap.find b.handle = some ((j : Int) + 1) := by
  have key := foldl_invariant storyStep
    (fun pre s => s.1 = (pre.length : Int) + 1 ∧
      ∀ (j : Nat) (b : BuildingStory), pre[j]? = some b →
        (∀ (j2 : Nat) (b2 : BuildingStory), j < j2 → pre[j2]? = some b2 →
          b2.handle ≠ b.handle) →
        s.2.2.m_levelMap.find b.handle = some ((j : Int) + 1)) stories (1, 0, t0)
    ⟨by simp, fun j b h => by simp at h⟩
    (by
      intro pre a post s _ hinv
      obtain ⟨h1, h2⟩ := hinv
      refine ⟨by simp [storyStep, h1], ?_⟩
      intro j b hj hl
      by_cases hlt : j < pre.length
      · rw [List.getElem?_append_left hlt] at hj
        have hne : b.handle ≠ a.handle := by
          intro he
          exact hl pre.length a hlt (by simp) he.symm
        have := h2 j b hj (fun j2 b2 hj2 hb2 => hl j2 b2 hj2 (by
          have hlt2 : j2 < pre.length := by
            by_contra hcon
            rw [List.getElem?_eq_none (by omega)] at hb2
            simp at hb2
          rw [List.getElem?_append_left hlt2]
          exact hb2))
        simp only [storyStep]
        rw [Table.find_set_ne _ _ _ _ hne]
        exact this
      · have hj2 : j = pre.length := by
          have : j < (pre ++ [a]).length := by
            by_contra hcon
            rw [List.getElem?_eq_none (by omega)] at hj
            simp at hj
          simp at this
          omega
        subst hj2
        simp at hj
        subst hj
        simp only [storyStep]
        rw [Table.find_set_self, h1])
  exact key.2 j b hb hlater

/-- A pass of the zone loop that falls through appends one zone, on the level that the story
table holds for the first story found among the spaces of the thermal zone, flagged variable
pressure and variable contaminants. -/
theorem zoneStep_next_level (s r : Int × ForwardTranslator) (z : ThermalZone)
    (h : zoneStep s z = .next r) :
    r.2.m_levelMap = s.2.m_levelMap ∧
    ∃ zone story, r.2.m_data.zones = s.2.m_data.zones ++ [zone] ∧
      firstStory z.spaces = some story ∧
      s.2.m_levelMap.find story = some zone.pl ∧ zone.pl ≠ 0 ∧
      zone.variablePressure = true ∧ zone.variableContaminants = true ∧
      zone.system = false := by
  unfold zoneStep at h
  simp only [] at h
  split at h
  · rename_i hne
    simp only [Outcome.next.injEq] at h
    subst h
    have hfst := zoneLevel_fst
      (zoneVolume { s.2 with m_zoneMap := s.2.m_zoneMap.set z.handle (s.1 + 1) } z).2 z.spaces
    refine ⟨by simp, ?_⟩
    cases hf : firstStory z.spaces with
    | none =>
      rw [hf] at hfst
      exact absurd hfst hne
    | some story =>
      rw [hf] at hfst
      simp only [zoneVolume_m_levelMap, Table.value] at hfst
      cases hv : s.2.m_levelMap.find story with
      | none =>
        rw [hv] at hfst
        exact absurd hfst hne
      | some v =>
        rw [hv] at hfst
        simp only [Option.getD_some] at hfst
        refine ⟨?newzone, story, ?e, rfl, ?_, ?_, ?_, ?_, ?_⟩
        case e =>
          simp only [zoneLevel_m_data, zoneVolume_m_data]
          exact rfl
        · simp only []
          rw [hfst]
          exact hv
        · simp only []
          exact hne
        · rfl
        · rfl
        · rfl
  · simp at h

theorem zoneLoop_levels (t0 : ForwardTranslator) (zs : List ThermalZone) :
    (forEach zoneStep zs (0, t0)).sat (ZoneLevelsInv t0 zs) (fun _ => True) := by
  apply forEach_invariant zoneStep (ZoneLevelsInv t0) (fun _ => True) zs (0, t0)
  · refine ⟨rfl, by simp, ?_⟩
    intro i z h
    simp at h
  · intro pre a post s _ hinv
    obtain ⟨hmap, hlen, hlev⟩ := hinv
    cases hstep : zoneStep s a with
    | outOfRange =>
      unfold zoneStep at hstep
      simp only [] at hstep
      split at hstep <;> simp at hstep
    | abort r => trivial
    | next r =>
      simp only [Outcome.sat]
      obtain ⟨hm, zone, story, hz1, hz2, hz3, hz4, hz5, hz6, hz7⟩ :=
        zoneStep_next_level s r a hstep
      refine ⟨hm.trans hmap, by rw [hz1]; simp [hlen]; omega, ?_⟩
      intro i z hi
      by_cases hlt : i < pre.length
      · rw [List.getElem?_append_left hlt] at hi
        obtain ⟨zn, st, q1, q2⟩ := hlev i z hi
        refine ⟨zn, st, ?_, q2⟩
        rw [hz1, List.getElem?_append_left (by omega)]
        exact q1
      · have hi2 : i = pre.length := by
          have : i < (pre ++ [a]).length := by
            by_contra hcon
            rw [List.getElem?_eq_none (by omega)] at hi
            exact absurd hi (by simp)
          simp at this
          omega
        subst hi2
        simp at hi
        subst hi
        refine ⟨zone, story, ?_, hz2, by rw [← hmap]; exact hz3, hz4, hz5, hz6, hz7⟩
        rw [hz1, ← hlen]
        simp

end ZoneLevels

section ZoneLevels2

open model ForwardTranslator

theorem translateBody_zone_levels (ext : Externals) (pe : ElementChoice)
    (t : ForwardTranslator) (model : Model) (hvac : Bool) (hr : Ready t)
    (r : ForwardTranslator) (h : translateBody ext pe t model hvac = some (true, r)) :
    ZoneLevelsOK model r := by
  obtain ⟨nr, tz, ts, r0, h1, hzi, h2, hrun, h3, h4⟩ :=
    translateBody_true_trace ext pe t model hvac hr r h
  obtain ⟨r1, hnet, hr1⟩ := translateBody_true_run ext pe t model hvac hr r h
  obtain ⟨n1, _, n3⟩ := hnet.network_frame
  have hlev := zoneLoop_levels (storiesPhase model t) model.thermalZones
  rw [h1] at hlev
  simp only [Outcome.sat] at hlev
  obtain ⟨_, _, hlev⟩ := hlev
  have hz0 : (storiesPhase model t).m_data.zones = [] := by simp [hr.2.2.1]
  obtain ⟨_, _, _, _, _, _, _, _, _, ⟨new, zn1, _, zn3, _⟩, _⟩ := hzi
  simp only [] at zn1
  rw [hz0, List.nil_append] at zn1
  obtain ⟨_, hzones, _⟩ := hrun.run_frame
  simp only [] at hzones
  have hfin : ∃ nz, r.m_data.zones = tz.m_data.zones ++ nz := by
    rcases h3 with ⟨_, h5, hpost⟩ | ⟨_, h5⟩
    · obtain ⟨nr1, t1, t2, _, hair, hclo, hflow⟩ := hpost
      obtain ⟨_, _, _, _, _, _, _, _, ⟨nz, a91, _⟩, _⟩ := hair
      simp only [] at a91
      refine ⟨nz, ?_⟩
      rw [h4]
      simp only [setValid_m_data]
      rw [hflow.2.1, hclo.2.1, a91, hzones]
    · refine ⟨[], ?_⟩
      rw [h4, h5]
      simp [hzones]
  obtain ⟨nz, hz⟩ := hfin
  have hlm : r.m_levelMap = (storiesPhase model t).m_levelMap := by
    rw [hr1]
    exact n3
  have hll : r.m_data.levels = (storiesPhase model t).m_data.levels := by
    rw [hr1]
    exact n1
  obtain ⟨_, f2, _⟩ := storiesPhase_fresh model t hr.2.1 hr.2.2.2.2.2.1
  intro i z hi
  obtain ⟨zone, story, q1, q2, q3, q4, q5, q6, q7⟩ := hlev i z hi
  rw [hz0] at q1
  simp only [List.length_nil, Nat.zero_add] at q1
  have hlt : i < tz.m_data.zones.length := by
    by_contra hcon
    rw [List.getElem?_eq_none (by omega)] at q1
    exact absurd q1 (by simp)
  refine ⟨zone, story, by rw [hz, List.getElem?_append_left hlt]; exact q1, ?_, q2,
    by rw [hlm]; exact q3, q4, ?_, q5, q6, q7⟩
  · rw [zn1] at q1
    exact zn3 i zone (by rw [List.get?_eq_getElem?]; exact q1)
  · intro j b hj hbs hlater
    have hfind := translateStories_levelMap model.stories (t.setDescription model) j b hj
      (fun j2 b2 hj2 hb2 => by rw [hbs]; exact hlater j2 b2 hj2 hb2)
    rw [← storiesPhase_m_levelMap, hbs, q3] at hfind
    have hpl : zone.pl = (j : Int) + 1 := Option.some.inj hfind
    obtain ⟨l, l1, l2, _⟩ := f2 j b hj
    exact ⟨hpl, l, by rw [hll]; exact l1, by rw [l2, hpl]⟩

/-- The level of a zone is found at the first space with a story, whatever comes after it. -/
theorem firstStory_append (pre : List Space) (space : Space) (rest : List Space)
    (story : Handle) (hpre : ∀ s ∈ pre, s.buildingStory = none)
    (hs : space.buildingStory = some story) :
    firstStory (pre ++ space :: rest) = some story := by
  induction pre with
  | nil => simp [firstStory, hs]
  | cons a pre ih =>
    simp only [List.cons_append, firstStory]
    rw [hpre a (List.mem_cons_self _ _)]
    exact ih (fun s h => hpre s (List.mem_cons_of_mem _ h))

theorem Examples.spanning_translate :
    ∃ r, (ForwardTranslator.new Examples.template).translate Examples.ext
        Examples.spanning false "Average" = some (true, r) ∧
      r.m_data.zones.map (fun z => (z.nr, z.pl, z.variablePressure, z.variableContaminants))
        = [(1, 2, true, true)] := by
  simp [ForwardTranslator.translate, ForwardTranslator.new, resetLog, checkDescriptor,
    afePhase, buildAfeMap, translateBody, storiesPhase, setDescription, translateStories,
    storyStep, networkPhases, translateZones, zoneStep, zoneLevel, zoneVolume,
    tableLookupQMap, translateSurfaces, finish, forEach, Outcome.bind, Outcome.map, LOG,
    setValid, Table.find, Table.value, Table.set, Examples.spanning, Examples.zoneSpan,
    Examples.spaceLoft, Examples.spaceUpper, Examples.spaceLower, Examples.twoStories,
    Examples.template]

/-- C34: after `translate` on a fresh translator (template a baseline, either mode, with or
without HVAC) has returned true, for every thermal zone the translated zone (the zone at the
position of the thermal zone, numbered by it) is on the level of the first of the spaces of
the zone, in the order of its spaces, that has a building story: the level that the story
table holds for that story, which is level `j + 1`, the level created for it, when the story
is at position `j` of the stories (and no later story has the same handle); the spaces after
that one are not looked at (whatever follows the first space with a story, the story found is
the same); and the zone is flagged variable pressure and variable contaminants, and not
system. -/
theorem translate_zone_levels (ext : Externals) (template : prj.Data) (model : Model)
    (hvac : Bool) (descriptor : String) (afeMap : Table String) (hb : template.Baseline) :
    (∀ r, (ForwardTranslator.new template).translate ext model hvac descriptor
        = some (true, r) → ZoneLevelsOK model r) ∧
    (∀ r, (ForwardTranslator.new template).translateWithMap ext model afeMap hvac
        = some (true, r) → ZoneLevelsOK model r) ∧
    (∀ (pre : List Space) (space : Space) (rest : List Space) (story : Handle),
      (∀ s ∈ pre, s.buildingStory = none) → space.buildingStory = some story →
      firstStory (pre ++ space :: rest) = some story ∧
      ∀ t : ForwardTranslator, (t.zoneLevel (pre ++ space :: rest)).1
        = t.m_levelMap.value story 0) := by
  have hr := Ready.new template hb
  refine ⟨?_, ?_, ?_⟩
  · intro r heq
    exact translateBody_zone_levels ext _ _ model hvac (translate_ready _ descriptor hr) r heq
  · intro r heq
    exact translateBody_zone_levels ext _ _ model hvac hr.resetLog r heq
  · intro pre space rest story hpre hs
    have hf := firstStory_append pre space rest story hpre hs
    refine ⟨hf, fun t => ?_⟩
    rw [zoneLevel_fst, hf]

/-- Witness of C34: a zone whose first space is on no story, whose second space is on story 2
and whose third space is on story 1: the translated zone is on level 2. -/
theorem translate_zone_levels_witness :
    Examples.template.Baseline ∧
    ∃ r zone, (ForwardTranslator.new Examples.template).translate Examples.ext
        Examples.spanning false "Average" = some (true, r) ∧
      ZoneLevelsOK Examples.spanning r ∧
      r.m_data.zones = [zone] ∧ zone.pl = 2 ∧ zone.variablePressure = true ∧
      zone.variableContaminants = true := by
  refine ⟨Examples.template_baseline, ?_⟩
  obtain ⟨r, h1, h2⟩ := Examples.spanning_translate
  have hok := (translate_zone_levels Examples.ext Examples.template Examples.spanning
    false "Average" [] Examples.template_baseline).1 r h1
  cases hz : r.m_data.zones with
  | nil => rw [hz] at h2; simp at h2
  | cons zone rest =>
    rw [hz] at h2
    simp only [List.map_cons, List.cons.injEq, Prod.mk.injEq, List.map_eq_nil_iff] at h2
    obtain ⟨⟨_, g2, g3, g4⟩, g5⟩ := h2
    subst g5
    exact ⟨r, zone, h1, hok, hz, g2, g3, g4⟩

end ZoneLevels2

section NeverCleared

open model ForwardTranslator

theorem KeysKept.keys_same {κ : Type} [DecidableEq κ] (m : Table κ) : KeysKept m m :=
  fun _ h => h

theorem KeysKept.keys_chain {κ : Type} [DecidableEq κ] {m0 m1 m2 : Table κ} (h1 : KeysKept m0 m1)
    (h2 : KeysKept m1 m2) : KeysKept m0 m2 :=
  fun k h => h2 k (h1 k h)

theorem KeysKept.set_kept {κ : Type} [DecidableEq κ] (m : Table κ) (k : κ) (v : Int) :
    KeysKept m (m.set k v) := by
  intro k2 h
  rw [Table.find_set]
  split
  · rfl
  · exact h

theorem KeysKept.index_kept {κ : Type} [DecidableEq κ] (m : Table κ) (k : κ) :
    KeysKept m (m.index k).2 := by
  intro k2 h
  cases hv : m.find k2 with
  | none => rw [hv] at h; simp at h
  | some v => rw [Table.find_index_of_find m k k2 v hv]; rfl

theorem Kept.same (t : ForwardTranslator) : Kept t t :=
  ⟨⟨[], by simp⟩, ⟨[], by simp⟩, ⟨[], by simp⟩, le_refl _, KeysKept.keys_same _, KeysKept.keys_same _,
    KeysKept.keys_same _, KeysKept.keys_same _, KeysKept.keys_same _, KeysKept.keys_same _⟩

theorem Kept.chain {t0 t1 t2 : ForwardTranslator} (h1 : Kept t0 t1) (h2 : Kept t1 t2) :
    Kept t0 t2 := by
  obtain ⟨⟨a1, ha1⟩, ⟨a2, ha2⟩, ⟨a3, ha3⟩, a4, a5, a6, a7, a8, a9, a10⟩ := h1
  obtain ⟨⟨b1, hb1⟩, ⟨b2, hb2⟩, ⟨b3, hb3⟩, b4, b5, b6, b7, b8, b9, b10⟩ := h2
  exact ⟨⟨a1 ++ b1, by rw [hb1, ha1, List.append_assoc]⟩,
    ⟨a2 ++ b2, by rw [hb2, ha2, List.append_assoc]⟩,
    ⟨a3 ++ b3, by rw [hb3, ha3, List.append_assoc]⟩, le_trans a4 b4, a5.keys_chain b5, a6.keys_chain b6,
    a7.keys_chain b7, a8.keys_chain b8, a9.keys_chain b9, a10.keys_chain b10⟩

/-- A translator with the same network data and the same tables keeps everything. -/
theorem Kept.of_eq {t r : ForwardTranslator} (hd : r.m_data = t.m_data)
    (h1 : r.m_afeMap = t.m_afeMap) (h2 : r.m_levelMap = t.m_levelMap)
    (h3 : r.m_zoneMap = t.m_zoneMap) (h4 : r.m_pathMap = t.m_pathMap)
    (h5 : r.m_surfaceMap = t.m_surfaceMap) (h6 : r.m_ahsMap = t.m_ahsMap) : Kept t r := by
  unfold Kept
  rw [hd, h1, h2, h3, h4, h5, h6]
  exact Kept.same t

theorem Kept.hold_log (t : ForwardTranslator) (l : LogLevel) (msg : String) :
    Kept t (t.LOG l msg) :=
  Kept.of_eq (by simp) (by simp) (by simp) (by simp) (by simp) (by simp) (by simp)

theorem setValid_frame (t : ForwardTranslator) (b : Bool) :
    (t.setValid b).m_afeMap = t.m_afeMap ∧ (t.setValid b).m_levelMap = t.m_levelMap ∧
    (t.setValid b).m_pathMap = t.m_pathMap ∧ (t.setValid b).m_ahsMap = t.m_ahsMap :=
  ⟨rfl, rfl, rfl, rfl⟩

theorem Kept.hold_setValid (t : ForwardTranslator) (b : Bool) : Kept t (t.setValid b) :=
  Kept.of_eq rfl rfl rfl rfl rfl rfl rfl

theorem Kept.hold_storyStep (s : Int × ℚ × ForwardTranslator) (b : BuildingStory) :
    Kept s.2.2 (storyStep s b).2.2 := by
  unfold storyStep
  exact ⟨⟨[_], rfl⟩, ⟨[], by simp⟩, ⟨[], by simp⟩, le_refl _, KeysKept.keys_same _,
    KeysKept.set_kept _ _ _, KeysKept.keys_same _, KeysKept.keys_same _, KeysKept.keys_same _,
    KeysKept.keys_same _⟩

theorem Kept.hold_storiesPhase (model : Model) (t : ForwardTranslator) :
    Kept t (storiesPhase model t) := by
  have h1 : Kept t (t.setDescription model) :=
    ⟨⟨[], by simp [setDescription]⟩, ⟨[], by simp [setDescription]⟩,
      ⟨[], by simp [setDescription]⟩, le_refl _, KeysKept.keys_same _, KeysKept.keys_same _,
      KeysKept.keys_same _, KeysKept.keys_same _, KeysKept.keys_same _, KeysKept.keys_same _⟩
  have h2 : Kept t (translateStories model.stories (t.setDescription model)).2.2 := by
    unfold translateStories
    exact foldl_invariant storyStep (fun _ s => Kept t s.2.2) model.stories _ h1
      (fun pre a post s _ hs => hs.chain (Kept.hold_storyStep s a))
  refine h2.chain ?_
  unfold storiesPhase
  exact ⟨⟨[], by simp⟩, ⟨[], by simp⟩, ⟨[], by simp⟩, le_refl _, KeysKept.keys_same _,
    KeysKept.keys_same _, KeysKept.keys_same _, KeysKept.keys_same _, KeysKept.keys_same _, KeysKept.keys_same _⟩

theorem Kept.hold_zoneVolume (t : ForwardTranslator) (z : ThermalZone) :
    Kept t (zoneVolume t z).2 :=
  Kept.of_eq (by simp) (by simp) (by simp) (by simp) (by simp) (by simp) (by simp)

theorem Kept.hold_zoneLevel (t : ForwardTranslator) (spaces : List Space) :
    Kept t (zoneLevel t spaces).2 :=
  Kept.of_eq (by simp) (by simp) (by simp) (by simp) (by simp) (by simp) (by simp)

theorem Kept.hold_zoneStep (s : Int × ForwardTranslator) (z : ThermalZone) :
    (zoneStep s z).all (fun r => Kept s.2 r.2) := by
  have h0 : Kept s.2 ({ s.2 with m_zoneMap := s.2.m_zoneMap.set z.handle (s.1 + 1) } :
      ForwardTranslator) :=
    ⟨⟨[], by simp⟩, ⟨[], by simp⟩, ⟨[], by simp⟩, le_refl _, KeysKept.keys_same _,
      KeysKept.keys_same _, KeysKept.set_kept _ _ _, KeysKept.keys_same _, KeysKept.keys_same _,
      KeysKept.keys_same _⟩
  have h1 := (h0.chain (Kept.hold_zoneVolume _ z)).chain (Kept.hold_zoneLevel _ z.spaces)
  unfold zoneStep
  simp only []
  split
  · simp only [Outcome.all]
    refine h1.chain ?_
    exact ⟨⟨[], by simp⟩, ⟨[_], rfl⟩, ⟨[], by simp⟩, le_refl _, KeysKept.keys_same _,
      KeysKept.keys_same _, KeysKept.keys_same _, KeysKept.keys_same _, KeysKept.keys_same _, KeysKept.keys_same _⟩
  · simp only [Outcome.all]
    exact (h1.chain (Kept.hold_log _ _ _)).chain (Kept.hold_setValid _ _)

end NeverCleared

section NeverCleared2

open model ForwardTranslator

theorem Kept.hold_tableLookupStdMap (t : ForwardTranslator) (m : Table Handle) (h : Handle)
    (n : String) : Kept t (t.tableLookupStdMap m h n).2 :=
  Kept.of_eq (by simp) (by simp) (by simp) (by simp) (by simp) (by simp) (by simp)

theorem Kept.hold_addPath (s : SurfaceLoop) (t : ForwardTranslator) (h : Handle)
    (path : prj.Path) : Kept t (s.addPath t h path).t := by
  unfold SurfaceLoop.addPath
  exact ⟨⟨[], by simp⟩, ⟨[], by simp⟩,
    ⟨[({ path with nr := s.nr + 1 } : prj.Path).clearFahs], by simp⟩, le_refl _,
    KeysKept.keys_same _,
    KeysKept.keys_same _, KeysKept.keys_same _, KeysKept.keys_same _,
    KeysKept.set_kept _ _ _, KeysKept.keys_same _⟩

theorem Kept.hold_interiorStep (pe : ElementChoice) (s : SurfaceLoop) (t : ForwardTranslator)
    (a : Surface) (z : Handle) (zone : prj.Zone) (path : prj.Path) :
    (interiorStep pe s t a z zone path).all (fun r => Kept t r.t) := by
  unfold interiorStep
  split
  · exact (Kept.hold_log _ _ _).chain (Kept.hold_setValid _ _)
  · split
    · exact (Kept.hold_log _ _ _).chain (Kept.hold_setValid _ _)
    · split
      · exact (Kept.hold_log _ _ _).chain (Kept.hold_setValid _ _)
      · split
        · simp only [Outcome.all]
          have h0 : ∀ k : Handle, Kept t ({ t with m_zoneMap := (t.m_zoneMap.index k).2 } :
              ForwardTranslator) := fun k =>
            ⟨⟨[], by simp⟩, ⟨[], by simp⟩, ⟨[], by simp⟩, le_refl _, KeysKept.keys_same _,
              KeysKept.keys_same _, KeysKept.index_kept _ _, KeysKept.keys_same _,
              KeysKept.keys_same _, KeysKept.keys_same _⟩
          exact (h0 _).chain (Kept.hold_addPath s _ _ _)
        · exact Kept.same t

theorem Kept.hold_surfaceStep (ext : Externals) (pe : ElementChoice) (w : ℚ) (s : SurfaceLoop)
    (a : Surface) : (surfaceStep ext pe w s a).all (fun r => Kept s.t r.t) := by
  have hl := Kept.hold_tableLookupStdMap s.t
  unfold surfaceStep
  simp only []
  split
  · split
    · exact Kept.hold_log _ _ _
    · split
      · exact Kept.hold_log _ _ _
      · split
        · exact hl _ _ _
        · split
          · trivial
          · split
            · trivial
            · split
              · exact (hl _ _ _).chain (Kept.hold_addPath s _ _ _)
              · split
                · exact Outcome.all_mono (Kept.hold_interiorStep pe s _ a _ _ _)
                    (fun r hr => (hl _ _ _).chain hr)
                · exact hl _ _ _
  · exact Kept.same s.t

theorem Kept.hold_servedZoneStep (ahs : prj.Ahs) (t : ForwardTranslator) (z : ThermalZone) :
    Kept t (servedZoneStep ahs t z) := by
  obtain ⟨e1, e2, e3, e4, e5⟩ := servedZoneStep_exact ahs t z
  refine ⟨⟨[], ?_⟩, ⟨[], by rw [e3]; simp⟩, ⟨_, by rw [e4, List.map_append]⟩, by rw [e2],
    ?_, ?_, by rw [e1]; exact KeysKept.keys_same _, ?_, ?_, ?_⟩
  · simp [servedZoneStep]
  · simp only [servedZoneStep, tableLookupStdMap_m_afeMap]
    exact KeysKept.keys_same _
  · simp only [servedZoneStep, tableLookupStdMap_m_levelMap]
    exact KeysKept.keys_same _
  · rw [e5]
    exact (KeysKept.set_kept _ _ _).keys_chain (KeysKept.set_kept _ _ _)
  · simp only [servedZoneStep, tableLookupStdMap_m_surfaceMap]
    exact KeysKept.keys_same _
  · simp only [servedZoneStep, tableLookupStdMap_m_ahsMap]
    exact KeysKept.keys_same _

theorem Kept.hold_airloopStep (s : Int × ForwardTranslator) (loop : AirLoopHVAC) :
    Kept s.2 (airloopStep s loop).2 := by
  unfold airloopStep
  split
  · exact Kept.same _
  · simp only []
    have h0 : Kept s.2 (airloopStart s loop) := by
      unfold airloopStart
      exact ⟨⟨[], by simp⟩, ⟨[_, _], rfl⟩, ⟨[], by simp⟩, le_refl _, KeysKept.keys_same _,
        KeysKept.keys_same _, KeysKept.keys_same _, KeysKept.keys_same _,
        KeysKept.keys_same _, KeysKept.set_kept _ _ _⟩
    have h1 : Kept s.2 (loop.thermalZones.foldl (servedZoneStep (airloopAhs s))
        (airloopStart s loop)) :=
      foldl_invariant (servedZoneStep (airloopAhs s)) (fun _ u => Kept s.2 u) _ _ h0
        (fun pre a post u _ hu => hu.chain (Kept.hold_servedZoneStep _ u a))
    refine h1.chain ?_
    exact ⟨⟨[], by simp⟩, ⟨[], by simp⟩, ⟨[], by simp⟩, by simp, KeysKept.keys_same _,
      KeysKept.keys_same _, KeysKept.keys_same _, KeysKept.keys_same _,
      KeysKept.keys_same _, KeysKept.keys_same _⟩

theorem Kept.hold_translateAirLoops (loops : List AirLoopHVAC) (t : ForwardTranslator) :
    Kept t (translateAirLoops loops t) := by
  unfold translateAirLoops
  exact foldl_invariant airloopStep (fun _ s => Kept t s.2) loops (0, t) (Kept.same t)
    (fun pre a post s _ hs => hs.chain (Kept.hold_airloopStep s a))

theorem Kept.hold_closureStep (t : ForwardTranslator) (i : Nat) :
    (closureStep t i).all (fun r => Kept t r) := by
  unfold closureStep
  split
  · trivial
  · simp only [Outcome.all]
    exact ⟨⟨[], by simp⟩, ⟨[], by simp⟩, ⟨_, List.map_append _ _ _⟩, by simp,
      KeysKept.keys_same _, KeysKept.keys_same _, KeysKept.keys_same _,
      ((KeysKept.set_kept _ _ _).keys_chain (KeysKept.set_kept _ _ _)).keys_chain
        (KeysKept.set_kept _ _ _),
      KeysKept.keys_same _, KeysKept.keys_same _⟩

theorem flowOverride_clearFahs (m : Table String) (z : ThermalZone) (i : Nat) (q : prj.Path) :
    (flowOverride m z i q).clearFahs = q.clearFahs := by
  rcases flowOverride_cases m z i q with h | ⟨_, ⟨_, h⟩ | ⟨_, _, h⟩⟩ <;> rw [h] <;> rfl

theorem Kept.hold_flowStep (t : ForwardTranslator) (z : ThermalZone) :
    (flowStep t z).all (fun r => Kept t r) := by
  cases h : flowStep t z with
  | outOfRange => trivial
  | abort r =>
    exfalso
    unfold flowStep at h
    simp only [] at h
    split at h
    · simp at h
    · split at h
      · simp at h
      · split at h <;> simp at h
  | next r =>
    simp only [Outcome.all]
    obtain ⟨a1, a2, a3, a4⟩ := flowStep_paths t r z h
    have hp : r.m_data.paths.map prj.Path.clearFahs = t.m_data.paths.map prj.Path.clearFahs := by
      apply List.ext_getElem?
      intro i
      simp only [List.getElem?_map]
      rw [a4 i]
      cases t.m_data.paths[i]? with
      | none => rfl
      | some q => simp [flowOverride_clearFahs]
    have hrest : r.m_data.levels = t.m_data.levels ∧ r.m_data.zones = t.m_data.zones ∧
        r.m_data.ahs = t.m_data.ahs ∧ r.m_afeMap = t.m_afeMap ∧ r.m_levelMap = t.m_levelMap ∧
        r.m_zoneMap = t.m_zoneMap ∧ r.m_surfaceMap = t.m_surfaceMap ∧
        r.m_ahsMap = t.m_ahsMap := by
      unfold flowStep at h
      simp only [] at h
      split at h
      · simp only [Outcome.next.injEq] at h
        subst h
        simp
      · split at h
        · simp at h
        · split at h
          · simp at h
          · simp only [Outcome.next.injEq] at h
            subst h
            simp
    obtain ⟨r1, r2, r3, r4, r5, r6, r7, r8⟩ := hrest
    exact ⟨⟨[], by rw [r1]; simp⟩, ⟨[], by rw [r2]; simp⟩, ⟨[], by rw [hp]; simp⟩,
      by rw [r3], by rw [r4]; exact KeysKept.keys_same _, by rw [r5]; exact KeysKept.keys_same _,
      by rw [r6]; exact KeysKept.keys_same _, by rw [a1]; exact KeysKept.keys_same _,
      by rw [r7]; exact KeysKept.keys_same _, by rw [r8]; exact KeysKept.keys_same _⟩

end NeverCleared2

section NeverCleared3

open model ForwardTranslator

theorem Kept.hold_setFlows (model : Model) (t : ForwardTranslator) :
    (setFlows model t).all (fun r => Kept t r) := by
  unfold setFlows
  split
  · simp only [Outcome.all]
    exact foldl_invariant (fun (u : ForwardTranslator) (_ : ThermalZone) =>
      u.LOG .Warn "Zone equipment not yet accounted for.") (fun _ u => Kept t u) _ _
      (Kept.same t) (fun pre a post u _ hu => hu.chain (Kept.hold_log u _ _))
  · exact Outcome.all_forEach flowStep (fun r : ForwardTranslator => Kept t r)
      (fun s z hs => Outcome.all_mono (Kept.hold_flowStep s z) (fun r hr => hs.chain hr))
      _ _ (Kept.hold_log t _ _)

theorem Kept.hold_translateHVACBlock (model : Model) (t : ForwardTranslator) :
    (translateHVACBlock model t).all (fun r => Kept t r) := by
  unfold translateHVACBlock
  apply Outcome.all_bind (fun r : ForwardTranslator => Kept t r)
  · unfold connectAhs
    exact Outcome.all_forEach closureStep (fun r : ForwardTranslator => Kept t r)
      (fun s i hs => Outcome.all_mono (Kept.hold_closureStep s i) (fun r hr => hs.chain hr))
      _ _ (Kept.hold_translateAirLoops model.airLoops t)
  · intro s hs
    exact Outcome.all_mono (Kept.hold_setFlows model s) (fun r hr => hs.chain hr)

theorem Kept.hold_networkPhases (ext : Externals) (pe : ElementChoice) (model : Model)
    (hvac : Bool) (t : ForwardTranslator) :
    (networkPhases ext pe model hvac t).all (fun r => Kept t r) := by
  unfold networkPhases
  apply Outcome.all_bind (fun r : ForwardTranslator => Kept t r)
  · apply Outcome.all_bind (fun r : ForwardTranslator => Kept t r)
    · unfold translateZones
      exact Outcome.all_map (fun r : Int × ForwardTranslator => Kept t r.2) _ _ _
        (Outcome.all_forEach zoneStep (fun r : Int × ForwardTranslator => Kept t r.2)
          (fun s z hs => Outcome.all_mono (Kept.hold_zoneStep s z) (fun r hr => hs.chain hr))
          _ _ (Kept.same t)) (fun _ hs => hs)
    · intro s hs
      unfold translateSurfaces
      exact Outcome.all_map (fun r : SurfaceLoop => Kept t r.t) _ _ _
        (Outcome.all_forEach _ (fun r : SurfaceLoop => Kept t r.t)
          (fun u a hu => Outcome.all_mono (Kept.hold_surfaceStep ext pe _ u a)
            (fun r hr => hu.chain hr)) _ _ hs) (fun _ hs => hs)
  · intro s hs
    split
    · exact Outcome.all_mono (Kept.hold_translateHVACBlock model s) (fun r hr => hs.chain hr)
    · exact hs

/-- A run of the shared body that returns clears nothing of what the translator held. -/
theorem Kept.hold_translateBody (ext : Externals) (pe : ElementChoice) (t : ForwardTranslator)
    (model : Model) (hvac : Bool) (b : Bool) (r : ForwardTranslator)
    (h : translateBody ext pe t model hvac = some (b, r)) : Kept t r := by
  have h1 := Kept.hold_storiesPhase model t
  have h2 := Kept.hold_networkPhases ext pe model hvac (storiesPhase model t)
  unfold translateBody at h
  simp only [] at h
  split at h
  · simp only [Option.some.injEq, Prod.mk.injEq] at h
    rw [← h.2]
    exact (h1.chain (Kept.hold_log _ _ _)).chain (Kept.hold_setValid _ _)
  · cases hn : networkPhases ext pe model hvac (storiesPhase model t) with
    | next s =>
      rw [hn] at h h2
      simp only [finish, Option.some.injEq, Prod.mk.injEq] at h
      rw [← h.2]
      exact (h1.chain h2).chain (Kept.hold_setValid _ _)
    | abort s =>
      rw [hn] at h h2
      simp only [finish, Option.some.injEq, Prod.mk.injEq] at h
      rw [← h.2]
      exact h1.chain h2
    | outOfRange =>
      rw [hn] at h
      simp [finish] at h

theorem buildAfeMap_keys (u : ForwardTranslator) :
    KeysKept u.m_afeMap u.buildAfeMap.m_afeMap := by
  have key : ∀ (l : List prj.AirflowElement) (m : Table String),
      KeysKept m (l.foldl (fun m e => m.set e.name e.nr) m) := by
    intro l
    induction l with
    | nil => exact fun m => KeysKept.keys_same m
    | cons a rest ih =>
      intro m
      exact (KeysKept.set_kept m a.name a.nr).keys_chain (ih _)
  exact key _ _

theorem findAFEsStep_keys (s : AfeTables) (g : String × String × String × String × String) :
    KeysKept s.afeMap (findAFEsStep s g).afeMap := by
  show KeysKept s.afeMap
    ((((s.afeMap.index g.2.1).2.index g.2.2.1).2.index g.2.2.2.1).2.index g.2.2.2.2).2
  exact (((KeysKept.index_kept _ _).keys_chain (KeysKept.index_kept _ _)).keys_chain
    (KeysKept.index_kept _ _)).keys_chain (KeysKept.index_kept _ _)

theorem findAFEs_keys (m : Table String) : KeysKept m (findAFEs m).afeMap := by
  have key : ∀ (l : List (String × String × String × String × String)) (s : AfeTables),
      KeysKept s.afeMap (l.foldl findAFEsStep s).afeMap := by
    intro l
    induction l with
    | nil => exact fun s => KeysKept.keys_same _
    | cons a rest ih =>
      intro s
      exact (findAFEsStep_keys s a).keys_chain (ih _)
  unfold findAFEs
  exact key _ { afeMap := m, extWallAFE := [], intWallAFE := [], floorAFE := [], roofAFE := [] }

theorem Kept.hold_afePhase (u : ForwardTranslator) : Kept u u.afePhase := by
  have he : u.afePhase.m_afeMap = (findAFEs u.buildAfeMap.m_afeMap).afeMap := by
    simp only [ForwardTranslator.afePhase]
  have hk : KeysKept u.m_afeMap u.afePhase.m_afeMap := by
    rw [he]
    exact (buildAfeMap_keys u).keys_chain (findAFEs_keys _)
  have hd : u.afePhase.m_data = u.m_data := afePhase_m_data u
  have h2 : u.afePhase.m_levelMap = u.m_levelMap := by
    simp only [ForwardTranslator.afePhase, ForwardTranslator.buildAfeMap]
  have h3 : u.afePhase.m_zoneMap = u.m_zoneMap := by
    simp only [ForwardTranslator.afePhase, ForwardTranslator.buildAfeMap]
  have h4 : u.afePhase.m_pathMap = u.m_pathMap := by
    simp only [ForwardTranslator.afePhase, ForwardTranslator.buildAfeMap]
  have h5 : u.afePhase.m_surfaceMap = u.m_surfaceMap := by
    simp only [ForwardTranslator.afePhase, ForwardTranslator.buildAfeMap]
  have h6 : u.afePhase.m_ahsMap = u.m_ahsMap := by
    simp only [ForwardTranslator.afePhase, ForwardTranslator.buildAfeMap]
  unfold Kept
  rw [hd, h2, h3, h4, h5, h6]
  exact ⟨⟨[], by simp⟩, ⟨[], by simp⟩, ⟨[], by simp⟩, le_refl _, hk, KeysKept.keys_same _,
    KeysKept.keys_same _, KeysKept.keys_same _, KeysKept.keys_same _, KeysKept.keys_same _⟩

theorem Kept.hold_translate (ext : Externals) (t : ForwardTranslator) (model : Model)
    (hvac : Bool) (d : String) (b : Bool) (r : ForwardTranslator)
    (h : t.translate ext model hvac d = some (b, r)) : Kept t r := by
  have h0 : Kept t t.resetLog := Kept.of_eq rfl rfl rfl rfl rfl rfl rfl
  have h1 : Kept t.resetLog (t.resetLog.checkDescriptor d).2 := by
    unfold checkDescriptor
    simp only []
    split
    · exact Kept.same _
    · exact Kept.hold_log _ _ _
  exact ((h0.chain h1).chain (Kept.hold_afePhase _)).chain
    (Kept.hold_translateBody ext _ _ model hvac b r h)

theorem Kept.hold_translateWithMap (ext : Externals) (t : ForwardTranslator) (model : Model)
    (afeMap : Table String) (hvac : Bool) (b : Bool) (r : ForwardTranslator)
    (h : t.translateWithMap ext model afeMap hvac = some (b, r)) : Kept t r := by
  have h0 : Kept t t.resetLog := Kept.of_eq rfl rfl rfl rfl rfl rfl rfl
  exact h0.chain (Kept.hold_translateBody ext _ _ model hvac b r h)

end NeverCleared3

section NeverCleared4

open model ForwardTranslator

theorem Examples.scenario_twice :
    ∃ r1 r2, (ForwardTranslator.new Examples.template).translate Examples.ext
        Examples.scenario false "Average" = some (true, r1) ∧
      r1.translate Examples.ext Examples.scenario false "Average" = some (true, r2) ∧
      r1.m_data.levels.map (fun l => l.nr) = [1, 2] ∧
      r1.m_data.zones.map (fun z => z.nr) = [1, 2] ∧
      r1.m_data.paths.map (fun p => p.nr) = [1, 2] ∧
      r2.m_data.levels.map (fun l => l.nr) = [1, 2, 1, 2] ∧
      r2.m_data.zones.map (fun z => z.nr) = [1, 2, 1, 2] ∧
      r2.m_data.paths.map (fun p => p.nr) = [1, 2, 1, 2] := by
  have key : match (ForwardTranslator.new Examples.template).translate Examples.ext
        Examples.scenario false "Average" with
      | some (true, r1) =>
        (match r1.translate Examples.ext Examples.scenario false "Average" with
          | some (true, r2) =>
            r1.m_data.levels.map (fun l => l.nr) = [1, 2] ∧
            r1.m_data.zones.map (fun z => z.nr) = [1, 2] ∧
            r1.m_data.paths.map (fun p => p.nr) = [1, 2] ∧
            r2.m_data.levels.map (fun l => l.nr) = [1, 2, 1, 2] ∧
            r2.m_data.zones.map (fun z => z.nr) = [1, 2, 1, 2] ∧
            r2.m_data.paths.map (fun p => p.nr) = [1, 2, 1, 2]
          | _ => False)
      | _ => False := by
    simp [ForwardTranslator.translate, ForwardTranslator.new, resetLog, checkDescriptor,
      afePhase, buildAfeMap, translateBody, storiesPhase, setDescription, translateStories,
      storyStep, networkPhases, translateZones, zoneStep, zoneLevel, zoneVolume,
      tableLookupQMap, tableLookupStdMap, translateSurfaces, surfaceStep, exteriorPath,
      SurfaceLoop.addPath, Table.index, relativeHeight, finish, forEach, Outcome.bind,
      Outcome.map, LOG, setValid, Table.find, Table.value, Table.set, listAt,
      Examples.scenario, Examples.zoneA, Examples.zoneB, Examples.spaceA, Examples.spaceB,
      Examples.template]
  cases h1 : (ForwardTranslator.new Examples.template).translate Examples.ext
      Examples.scenario false "Average" with
  | none => rw [h1] at key; exact key.elim
  | some br =>
    obtain ⟨b, r1⟩ := br
    rw [h1] at key
    cases b with
    | false => exact key.elim
    | true =>
      simp only [] at key
      cases h2 : r1.translate Examples.ext Examples.scenario false "Average" with
      | none => rw [h2] at key; exact key.elim
      | some br2 =>
        obtain ⟨b2, r2⟩ := br2
        rw [h2] at key
        cases b2 with
        | false => exact key.elim
        | true => exact ⟨r1, r2, rfl, h2, key⟩

end NeverCleared4

section NeverCleared5

open model ForwardTranslator

/-- C39: `translate` never clears what the translator holds: whatever the translator was
before, a call in either mode that returns leaves the level list and the zone list of before
as the front of the new lists, the path list of before as the front of the new path list (but
for flow-rate overrides), an AHS list that is not shorter, and every key of the six lookup
tables still a key; only the constructor clears the levels, those of a template that loaded.
As the loops number levels, zones and surface paths from 1 in every call, two calls on the
same translator duplicate numbers: for the end-to-end scenario (two stories, two thermal
zones, two exterior walls) both of two consecutive calls return true, after which the level
list holds four levels for the two stories, numbered 1, 2, 1, 2, the zone list holds four
zones numbered 1, 2, 1, 2, so two zones have the same number, and the paths are numbered
1, 2, 1, 2. -/
theorem translate_never_clears (ext : Externals) :
    (∀ (t : ForwardTranslator) (model : Model) (hvac : Bool) (d : String) (b : Bool)
      (r : ForwardTranslator), t.translate ext model hvac d = some (b, r) → Kept t r) ∧
    (∀ (t : ForwardTranslator) (model : Model) (afeMap : Table String) (hvac : Bool) (b : Bool)
      (r : ForwardTranslator), t.translateWithMap ext model afeMap hvac = some (b, r) →
      Kept t r) ∧
    (∀ template : prj.Data, template.valid = true →
      (ForwardTranslator.new template).m_data.levels = []) ∧
    (1 ≤ Examples.scenario.stories.length ∧ 1 ≤ Examples.scenario.thermalZones.length ∧
      ∃ r1 r2 z1 z2, (ForwardTranslator.new Examples.template).translate Examples.ext
          Examples.scenario false "Average" = some (true, r1) ∧
        r1.translate Examples.ext Examples.scenario false "Average" = some (true, r2) ∧
        r1.m_data.levels.length = Examples.scenario.stories.length ∧
        r2.m_data.levels.length = 2 * Examples.scenario.stories.length ∧
        r2.m_data.levels.map (fun l => l.nr) = [1, 2, 1, 2] ∧
        r2.m_data.zones.map (fun z => z.nr) = [1, 2, 1, 2] ∧
        r2.m_data.paths.map (fun p => p.nr) = [1, 2, 1, 2] ∧
        r2.m_data.zones[0]? = some z1 ∧ r2.m_data.zones[2]? = some z2 ∧ z1.nr = z2.nr) := by
  refine ⟨fun t model hvac d b r h => Kept.hold_translate ext t model hvac d b r h,
    fun t model afeMap hvac b r h => Kept.hold_translateWithMap ext t model afeMap hvac b r h,
    ?_, by simp [Examples.scenario], by simp [Examples.scenario], ?_⟩
  · intro template hv
    simp [ForwardTranslator.new, hv]
  · obtain ⟨r1, r2, h1, h2, g1, _, _, g4, g5, g6⟩ := Examples.scenario_twice
    have hl1 : r1.m_data.levels.length = 2 := by
      have := congrArg List.length g1
      simpa using this
    have hl2 : r2.m_data.levels.length = 4 := by
      have := congrArg List.length g4
      simpa using this
    have hz := g5
    rcases hzl : r2.m_data.zones with _ | ⟨a, _ | ⟨b, _ | ⟨c, rest⟩⟩⟩
    · rw [hzl] at hz; simp at hz
    · rw [hzl] at hz; simp at hz
    · rw [hzl] at hz; simp at hz
    · rw [hzl] at hz
      simp only [List.map_cons, List.cons.injEq] at hz
      refine ⟨r1, r2, a, c, h1, h2, by rw [hl1]; rfl, by rw [hl2]; rfl, g4, g5, g6, ?_, ?_, ?_⟩
      · rw [hzl]; simp
      · rw [hzl]; simp
      · rw [hz.1, hz.2.2.1]

end NeverCleared5

section InBounds

open model ForwardTranslator

theorem Outcome.all_forEach_mem {σ α : Type} (body : σ → α → Outcome σ) (P : σ → Prop)
    (l : List α) (hb : ∀ s, ∀ a ∈ l, P s → (body s a).all P) (s : σ) (h : P s) :
    (forEach body l s).all P := by
  induction l generalizing s with
  | nil => exact h
  | cons a rest ih =>
    unfold forEach
    have h1 := hb s a (List.mem_cons_self _ _) h
    cases hr : body s a with
    | next s1 =>
      rw [hr] at h1
      exact ih (fun s b hb2 => hb s b (List.mem_cons_of_mem _ hb2)) s1 h1
    | abort s1 =>
      rw [hr] at h1
      exact h1
    | outOfRange => trivial

theorem PathHeights.of_paths {t r : ForwardTranslator} (h : PathHeights t)
    (e : r.m_data.paths = t.m_data.paths) : PathHeights r := by
  intro p hp
  rw [e] at hp
  exact h p hp

theorem PathHeights.of_added {t r : ForwardTranslator} (h : PathHeights t) (l : List prj.Path)
    (e : r.m_data.paths = t.m_data.paths ++ l) (hl : ∀ p ∈ l, p.relHt.isSome = true) :
    PathHeights r := by
  intro p hp
  rw [e, List.mem_append] at hp
  rcases hp with hp | hp
  · exact h p hp
  · exact hl p hp

theorem PathHeights.of_cleared {t r : ForwardTranslator} (h : PathHeights t)
    (e : r.m_data.paths.map prj.Path.clearFahs = t.m_data.paths.map prj.Path.clearFahs) :
    PathHeights r := by
  intro p hp
  have hm : p.clearFahs ∈ t.m_data.paths.map prj.Path.clearFahs := by
    rw [← e]
    exact List.mem_map_of_mem _ hp
  obtain ⟨q, hq, hqp⟩ := List.mem_map.mp hm
  have e2 : q.clearFahs.relHt = p.clearFahs.relHt := congrArg prj.Path.relHt hqp
  have e3 : q.relHt = p.relHt := e2
  rw [← e3]
  exact h q hq

theorem relativeHeight_of_vertices (v : List Point3d) (refht : ℚ) (h : 1 ≤ v.length) :
    (v.length : ℚ) ≠ 0 ∧
    relativeHeight v refht
      = some ((v.map (fun point => point.z)).sum / (v.length : ℚ) - refht) := by
  constructor
  · have : (0 : ℚ) < (v.length : ℚ) := by exact_mod_cast h
    exact ne_of_gt this
  · unfold relativeHeight
    rw [if_neg (by omega)]

theorem zoneStep_heights (s : Int × ForwardTranslator) (z : ThermalZone)
    (h : PathHeights s.2) : (zoneStep s z).all (fun r => PathHeights r.2) := by
  unfold zoneStep
  simp only []
  split
  · exact h.of_paths (by simp)
  · exact h.of_paths (by simp)

theorem surfaceStep_heights (ext : Externals) (pe : ElementChoice) (w : ℚ) (s : SurfaceLoop)
    (a : Surface) (hv : 1 ≤ a.vertices.length) (h : PathHeights s.t) :
    (surfaceStep ext pe w s a).all (fun r => PathHeights r.t) := by
  have hrel : ∀ refht, (relativeHeight a.vertices refht).isSome = true := by
    intro refht
    rw [(relativeHeight_of_vertices a.vertices refht hv).2]
    rfl
  have h1 : ∀ k : Handle, PathHeights (s.t.tableLookupStdMap s.t.m_zoneMap k "zoneMap").2 :=
    fun k => h.of_paths (by simp)
  unfold surfaceStep
  simp only []
  split
  · split
    · exact h.of_paths (by simp)
    · split
      · exact h.of_paths (by simp)
      · split
        · exact h.of_paths (by simp)
        · split
          · trivial
          · split
            · trivial
            · split
              · refine (h1 _).of_added [_] rfl ?_
                intro p hp
                rw [List.mem_singleton] at hp
                rw [hp]
                show (exteriorPath _ _ _ _ _ _).relHt.isSome = true
                rw [exteriorPath_relHt]
                exact hrel _
              · split
                · unfold interiorStep
                  split
                  · exact h.of_paths (by simp)
                  · split
                    · exact h.of_paths (by simp)
                    · split
                      · exact h.of_paths (by simp)
                      · split
                        · refine (h1 _).of_added [_] rfl ?_
                          intro p hp
                          rw [List.mem_singleton] at hp
                          rw [hp]
                          show (interiorPath _ _ _ _ _).relHt.isSome = true
                          rw [interiorPath_relHt]
                          exact hrel _
                        · exact h.of_paths (by simp)
                · exact h.of_paths (by simp)
  · exact h

theorem servedZoneStep_heights (ahs : prj.Ahs) (t : ForwardTranslator) (z : ThermalZone)
    (h : PathHeights t) : PathHeights (servedZoneStep ahs t z) := by
  refine h.of_added [_, _] (servedZoneStep_exact ahs t z).2.2.2.1 ?_
  intro p hp
  simp only [List.mem_cons, List.mem_singleton, List.not_mem_nil, or_false] at hp
  rcases hp with hp | hp <;> rw [hp] <;> rfl

theorem airloopStep_heights (s : Int × ForwardTranslator) (loop : AirLoopHVAC)
    (h : PathHeights s.2) : PathHeights (airloopStep s loop).2 := by
  unfold airloopStep
  split
  · exact h
  · simp only []
    have h0 : PathHeights (airloopStart s loop) := h.of_paths (by simp [airloopStart])
    have h1 : PathHeights (loop.thermalZones.foldl (servedZoneStep (airloopAhs s))
        (airloopStart s loop)) :=
      foldl_invariant (servedZoneStep (airloopAhs s)) (fun _ u => PathHeights u) _ _ h0
        (fun pre a post u _ hu => servedZoneStep_heights _ u a hu)
    exact h1.of_paths rfl

theorem translateAirLoops_heights (loops : List AirLoopHVAC) (t : ForwardTranslator)
    (h : PathHeights t) : PathHeights (translateAirLoops loops t) := by
  unfold translateAirLoops
  exact foldl_invariant airloopStep (fun _ s => PathHeights s.2) loops (0, t) h
    (fun pre a post s _ hs => airloopStep_heights s a hs)

theorem closureStep_heights (t : ForwardTranslator) (i : Nat) (h : PathHeights t) :
    (closureStep t i).all PathHeights := by
  unfold closureStep
  split
  · trivial
  · refine h.of_added [_, _, _] rfl ?_
    intro p hp
    simp only [List.mem_cons, List.mem_singleton, List.not_mem_nil, or_false] at hp
    rcases hp with hp | hp | hp <;> rw [hp] <;> rfl

theorem flowStep_cleared (t r : ForwardTranslator) (z : ThermalZone)
    (h : flowStep t z = .next r) :
    r.m_data.paths.map prj.Path.clearFahs = t.m_data.paths.map prj.Path.clearFahs := by
  obtain ⟨_, _, _, a4⟩ := flowStep_paths t r z h
  apply List.ext_getElem?
  intro i
  simp only [List.getElem?_map]
  rw [a4 i]
  cases t.m_data.paths[i]? with
  | none => rfl
  | some q => simp [flowOverride_clearFahs]

theorem flowStep_no_abort (t r : ForwardTranslator) (z : ThermalZone) :
    flowStep t z ≠ .abort r := by
  intro h
  unfold flowStep at h
  simp only [] at h
  split at h
  · simp at h
  · split at h
    · simp at h
    · split at h <;> simp at h

theorem flowStep_heights (t : ForwardTranslator) (z : ThermalZone) (h : PathHeights t) :
    (flowStep t z).all PathHeights := by
  cases hf : flowStep t z with
  | outOfRange => trivial
  | abort r => exact absurd hf (flowStep_no_abort t r z)
  | next r => exact h.of_cleared (flowStep_cleared t r z hf)

theorem setFlows_heights (model : Model) (t : ForwardTranslator) (h : PathHeights t) :
    (setFlows model t).all PathHeights := by
  unfold setFlows
  split
  · exact foldl_invariant (fun (t : ForwardTranslator) (_ : ThermalZone) =>
      t.LOG .Warn "Zone equipment not yet accounted for.") (fun _ u => PathHeights u) _ _ h
      (fun pre a post u _ hu => hu.of_paths (by simp))
  · exact Outcome.all_forEach flowStep PathHeights
      (fun s z hs => flowStep_heights s z hs) _ _ (h.of_paths (by simp))

theorem translateHVACBlock_heights (model : Model) (t : ForwardTranslator)
    (h : PathHeights t) : (translateHVACBlock model t).all PathHeights := by
  unfold translateHVACBlock
  apply Outcome.all_bind PathHeights
  · unfold connectAhs
    exact Outcome.all_forEach closureStep PathHeights
      (fun s i hs => closureStep_heights s i hs) _ _ (translateAirLoops_heights _ t h)
  · intro s hs
    exact setFlows_heights model s hs

theorem networkPhases_heights (ext : Externals) (pe : ElementChoice) (model : Model)
    (hvac : Bool) (t : ForwardTranslator)
    (hv : ∀ a ∈ model.surfaces, 1 ≤ a.vertices.length) (h : PathHeights t) :
    (networkPhases ext pe model hvac t).all PathHeights := by
  unfold networkPhases
  apply Outcome.all_bind PathHeights
  · apply Outcome.all_bind PathHeights
    · unfold translateZones
      exact Outcome.all_map (fun r : Int × ForwardTranslator => PathHeights r.2) _ _ _
        (Outcome.all_forEach zoneStep (fun r : Int × ForwardTranslator => PathHeights r.2)
          (fun s z hs => zoneStep_heights s z hs) _ _ h) (fun _ hs => hs)
    · intro s hs
      unfold translateSurfaces
      exact Outcome.all_map (fun r : SurfaceLoop => PathHeights r.t) _ _ _
        (Outcome.all_forEach_mem _ (fun r : SurfaceLoop => PathHeights r.t) _
          (fun s a ha hs => surfaceStep_heights ext pe _ s a (hv a ha) hs) _ hs)
        (fun _ hs => hs)
  · intro s hs
    split
    · exact translateHVACBlock_heights model s hs
    · exact hs

theorem translateBody_heights (ext : Externals) (pe : ElementChoice) (t : ForwardTranslator)
    (model : Model) (hvac : Bool) (hv : ∀ a ∈ model.surfaces, 1 ≤ a.vertices.length)
    (h : PathHeights t) (b : Bool) (r : ForwardTranslator)
    (hr : translateBody ext pe t model hvac = some (b, r)) : PathHeights r := by
  have h0 : PathHeights (storiesPhase model t) := by
    refine h.of_paths ?_
    have := (translateStories_frame model.stories (t.setDescription model)).2.2.2.2.2.2.2.2.1
    simp only [storiesPhase]
    rw [this]
    rfl
  have h2 := networkPhases_heights ext pe model hvac (storiesPhase model t) hv h0
  unfold translateBody at hr
  simp only [] at hr
  split at hr
  · simp only [Option.some.injEq, Prod.mk.injEq] at hr
    rw [← hr.2]
    exact h0.of_paths (by simp)
  · cases hn : networkPhases ext pe model hvac (storiesPhase model t) with
    | next s =>
      rw [hn] at hr h2
      simp only [finish, Option.some.injEq, Prod.mk.injEq] at hr
      rw [← hr.2]
      exact PathHeights.of_paths h2 (by simp)
    | abort s =>
      rw [hn] at hr h2
      simp only [finish, Option.some.injEq, Prod.mk.injEq] at hr
      rw [← hr.2]
      exact h2
    | outOfRange =>
      rw [hn] at hr
      simp [finish] at hr

end InBounds

section InBounds2

open model ForwardTranslator

theorem storiesPhase_levelMap_bound (model : Model) (t : ForwardTranslator)
    (hm : t.m_levelMap = []) : LevelMapOK (storiesPhase model t) := by
  obtain ⟨_, _, h3, _, _, h6, _⟩ := translateStories_inv model.stories (t.setDescription model)
  intro e he
  rw [storiesPhase_m_levelMap] at he
  rcases h6 e he with h | h
  · have : (t.setDescription model).m_levelMap = [] := hm
    rw [this] at h
    simp at h
  · refine ⟨h.1, ?_⟩
    rw [storiesPhase_levels, h3]
    push_cast
    have := h.2
    omega

/-- The shared body returns, true or false, on every translator that holds no zone and whose
story, zone and named-path tables are empty: no list access of a run is out of range. -/
theorem translateBody_returns (ext : Externals) (pe : ElementChoice) (t : ForwardTranslator)
    (model : Model) (hvac : Bool) (hl : t.m_levelMap = []) (hz : t.m_data.zones = [])
    (hzm : t.m_zoneMap = []) (hpm : t.m_pathMap = []) :
    ∃ b r, translateBody ext pe t model hvac = some (b, r) := by
  unfold translateBody
  simp only []
  split
  · exact ⟨_, _, rfl⟩
  · have hnet := networkPhases_spec ext pe model hvac (storiesPhase model t)
      (storiesPhase_levelMap_bound model t hl) (by simp [hz]) (by simp [hzm])
      (by intro e he; simp [hpm] at he)
    cases hr : networkPhases ext pe model hvac (storiesPhase model t) with
    | outOfRange => rw [hr] at hnet; exact hnet.elim
    | next r0 => exact ⟨true, _, rfl⟩
    | abort r => exact ⟨false, _, rfl⟩

theorem new_fresh (template : prj.Data) :
    (ForwardTranslator.new template).m_data.zones = template.zones ∧
    (ForwardTranslator.new template).m_data.paths = template.paths ∧
    (ForwardTranslator.new template).m_levelMap = [] ∧
    (ForwardTranslator.new template).m_zoneMap = [] ∧
    (ForwardTranslator.new template).m_pathMap = [] := by
  unfold ForwardTranslator.new
  refine ⟨?_, ?_, rfl, rfl, rfl⟩
  · simp only []
    split <;> rfl
  · simp only []
    split <;> rfl

theorem checkDescriptor_frame (t : ForwardTranslator) (d : String) :
    (t.checkDescriptor d).2.m_data = t.m_data ∧
    (t.checkDescriptor d).2.m_levelMap = t.m_levelMap ∧
    (t.checkDescriptor d).2.m_zoneMap = t.m_zoneMap ∧
    (t.checkDescriptor d).2.m_pathMap = t.m_pathMap := by
  unfold ForwardTranslator.checkDescriptor
  simp only []
  split
  · exact ⟨rfl, rfl, rfl, rfl⟩
  · simp

theorem translate_entry_fresh (t : ForwardTranslator) (d : String) :
    (t.resetLog.checkDescriptor d).2.afePhase.m_data = t.m_data ∧
    (t.resetLog.checkDescriptor d).2.afePhase.m_levelMap = t.m_levelMap ∧
    (t.resetLog.checkDescriptor d).2.afePhase.m_zoneMap = t.m_zoneMap ∧
    (t.resetLog.checkDescriptor d).2.afePhase.m_pathMap = t.m_pathMap := by
  obtain ⟨c1, c2, c3, c4⟩ := checkDescriptor_frame t.resetLog d
  refine ⟨?_, ?_, ?_, ?_⟩
  · rw [afePhase_m_data, c1]; rfl
  · simp only [ForwardTranslator.afePhase, ForwardTranslator.buildAfeMap]
    rw [c2]; rfl
  · simp only [ForwardTranslator.afePhase, ForwardTranslator.buildAfeMap]
    rw [c3]; rfl
  · simp only [ForwardTranslator.afePhase, ForwardTranslator.buildAfeMap]
    rw [c4]; rfl

/-- C40: on a fresh translator whose template holds no zones and no paths, for every model
in which every surface has at least one vertex, `translate` returns (in both modes, with or
without HVAC): no run ends in an out-of-range access of the zone list or the level list in
the surface loop, of the AHS list in the closing loop, or of the path list in the flow-rate
step, these being the accesses after which the embedding yields no result; and the divisor of
the mean of the `z` coordinates, the number of vertices, is not zero for any surface, so that
every relative height is a number, in the result too. -/
theorem translate_in_bounds (ext : Externals) (template : prj.Data) (model : Model)
    (hvac : Bool) (descriptor : String) (afeMap : Table String)
    (hz : template.zones = []) (hp : template.paths = [])
    (hv : ∀ a ∈ model.surfaces, 1 ≤ a.vertices.length) :
    (∃ b r, (ForwardTranslator.new template).translate ext model hvac descriptor
        = some (b, r) ∧ ∀ p ∈ r.m_data.paths, p.relHt.isSome = true) ∧
    (∃ b r, (ForwardTranslator.new template).translateWithMap ext model afeMap hvac
        = some (b, r) ∧ ∀ p ∈ r.m_data.paths, p.relHt.isSome = true) ∧
    ∀ a ∈ model.surfaces, ∀ refht : ℚ, (a.vertices.length : ℚ) ≠ 0 ∧
      relativeHeight a.vertices refht
        = some ((a.vertices.map (fun point => point.z)).sum / (a.vertices.length : ℚ)
            - refht) := by
  obtain ⟨n1, n2, n3, n4, n5⟩ := new_fresh template
  refine ⟨?_, ?_, fun a ha refht => relativeHeight_of_vertices a.vertices refht (hv a ha)⟩
  · obtain ⟨e1, e2, e3, e4⟩ := translate_entry_fresh (ForwardTranslator.new template) descriptor
    obtain ⟨b, r, hr⟩ := translateBody_returns ext
      (elementChoice (findAFEs ((ForwardTranslator.new template).resetLog.checkDescriptor
        descriptor).2.buildAfeMap.m_afeMap)
        ((ForwardTranslator.new template).resetLog.checkDescriptor descriptor).1)
      ((ForwardTranslator.new template).resetLog.checkDescriptor descriptor).2.afePhase
      model hvac (by rw [e2, n3]) (by rw [e1, n1, hz]) (by rw [e3, n4]) (by rw [e4, n5])
    refine ⟨b, r, hr, ?_⟩
    refine translateBody_heights ext _ _ model hvac hv ?_ b r hr
    intro p hpm
    rw [e1, n2, hp] at hpm
    simp at hpm
  · obtain ⟨b, r, hr⟩ := translateBody_returns ext
      { roof := (afeMap.index "roof").1, exterior := (afeMap.index "exterior").1,
        floor := (afeMap.index "floor").1, interior := (afeMap.index "interior").1 }
      (ForwardTranslator.new template).resetLog model hvac n3 (n1.trans hz) n4 n5
    refine ⟨b, r, hr, ?_⟩
    refine translateBody_heights ext _ _ model hvac hv ?_ b r hr
    intro p hpm
    have : (ForwardTranslator.new template).resetLog.m_data.paths = [] := n2.trans hp
    rw [this] at hpm
    simp at hpm

/-- Witness of C40: the example building (an exterior wall and an interior pair, each with
four vertices, one air loop) on the example template. -/
theorem translate_in_bounds_witness :
    Examples.template.zones = [] ∧ Examples.template.paths = [] ∧
    (∀ a ∈ Examples.building.surfaces, 1 ≤ a.vertices.length) ∧
    (∃ b r, (ForwardTranslator.new Examples.template).translate Examples.ext
        Examples.building true "Average" = some (b, r) ∧
      ∀ p ∈ r.m_data.paths, p.relHt.isSome = true) :=
  have hv : ∀ a ∈ Examples.building.surfaces, 1 ≤ a.vertices.length := by
    intro a ha
    simp only [Examples.building, List.mem_cons, List.mem_singleton, List.not_mem_nil,
      or_false] at ha
    rcases ha with ha | ha | ha <;> rw [ha] <;> decide
  ⟨rfl, rfl, hv,
    (translate_in_bounds Examples.ext Examples.template Examples.building true "Average" []
      rfl rfl hv).1⟩

end InBounds2

section FlowFrames

open model ForwardTranslator

theorem FlowFrame.frame_same (t : ForwardTranslator) : FlowFrame t t :=
  ⟨t.m_data.paths, t.m_logSink, rfl, rfl⟩

theorem FlowFrame.frame_chain {t u r : ForwardTranslator} (h1 : FlowFrame t u) (h2 : FlowFrame u r) :
    FlowFrame t r := by
  obtain ⟨p1, l1, e1, c1⟩ := h1
  obtain ⟨p2, l2, e2, c2⟩ := h2
  subst e1
  exact ⟨p2, l2, e2, c2.trans c1⟩

theorem FlowFrame.frame_log (t : ForwardTranslator) (l : LogLevel) (msg : String) :
    FlowFrame t (t.LOG l msg) := by
  unfold ForwardTranslator.LOG
  split
  · exact ⟨t.m_data.paths, _, rfl, rfl⟩
  · exact FlowFrame.frame_same t

theorem flowStep_flowFrame (t r : ForwardTranslator) (z : ThermalZone)
    (h : flowStep t z = .next r) : FlowFrame t r := by
  have hc := flowStep_cleared t r z h
  unfold flowStep at h
  simp only [] at h
  split at h
  · simp only [Outcome.next.injEq] at h
    rw [← h]
    exact FlowFrame.frame_log t _ _
  · split at h
    · simp at h
    · split at h
      · simp at h
      · simp only [Outcome.next.injEq] at h
        refine ⟨r.m_data.paths, t.m_logSink, ?_, hc⟩
        rw [← h]

theorem flowLoop_flowFrame (zones : List ThermalZone) (t r : ForwardTranslator)
    (h : forEach flowStep zones t = .next r) : FlowFrame t r := by
  induction zones generalizing t with
  | nil =>
    simp only [forEach, Outcome.next.injEq] at h
    rw [← h]
    exact FlowFrame.frame_same t
  | cons a rest ih =>
    unfold forEach at h
    cases hs : flowStep t a with
    | next s =>
      rw [hs] at h
      exact (flowStep_flowFrame t s a hs).frame_chain (ih s h)
    | abort s =>
      rw [hs] at h
      simp at h
    | outOfRange =>
      rw [hs] at h
      simp at h

theorem equipmentLoop_flowFrame (l : List ThermalZone) (t : ForwardTranslator) :
    FlowFrame t (l.foldl (fun t _ => t.LOG .Warn "Zone equipment not yet accounted for.") t) ∧
    (l.foldl (fun (t : ForwardTranslator) (_ : ThermalZone) =>
      t.LOG .Warn "Zone equipment not yet accounted for.") t).m_data = t.m_data := by
  induction l generalizing t with
  | nil => exact ⟨FlowFrame.frame_same t, rfl⟩
  | cons a rest ih =>
    simp only [List.foldl_cons]
    obtain ⟨i1, i2⟩ := ih (t.LOG .Warn "Zone equipment not yet accounted for.")
    exact ⟨(FlowFrame.frame_log t _ _).frame_chain i1, by rw [i2]; simp⟩

theorem setFlows_flowFrame (model : Model) (t r : ForwardTranslator)
    (h : setFlows model t = .next r) : FlowFrame t r := by
  unfold setFlows at h
  split at h
  · simp only [Outcome.next.injEq] at h
    rw [← h]
    exact (equipmentLoop_flowFrame _ t).1
  · exact (FlowFrame.frame_log t _ _).frame_chain (flowLoop_flowFrame _ _ r h)

theorem setFlows_never_aborts (model : Model) (t r : ForwardTranslator) :
    setFlows model t ≠ .abort r := by
  intro h
  unfold setFlows at h
  split at h
  · simp at h
  · exact forEach_no_abort flowStep (fun s z r => flowStep_no_abort s r z) _ _ r h

/-- What the flow-rate step does to the path at position `i`: with simulation results
nothing; without them the path is kept, or it is given an override by the round of a thermal
zone under whose supply or return name the position is registered. -/
theorem setFlows_positions (model : Model) (t r : ForwardTranslator)
    (h : setFlows model t = .next r) (i : Nat) (q : prj.Path)
    (hq : t.m_data.paths[i]? = some q) :
    ∃ p, r.m_data.paths[i]? = some p ∧ p.clearFahs = q.clearFahs ∧
      (p = q ∨ (model.hasSqlFile = false ∧ ∃ z ∈ model.thermalZones, flowArea z ≠ 0 ∧
        (t.m_pathMap.find (z.name ++ " supply") = some ((i : Int) + 1) ∨
          t.m_pathMap.find (z.name ++ " return") = some ((i : Int) + 1)))) := by
  cases hsql : model.hasSqlFile with
  | true =>
    refine ⟨q, ?_, rfl, Or.inl rfl⟩
    unfold setFlows at h
    rw [hsql] at h
    simp only [if_true, Outcome.next.injEq] at h
    rw [← h, (equipmentLoop_flowFrame _ t).2]
    exact hq
  | false =>
    obtain ⟨_, _, _, a4⟩ := setFlows_paths model t r hsql h
    have hp := a4 i
    rw [hq] at hp
    simp only [Option.map_some'] at hp
    refine ⟨_, hp, ?_, ?_⟩
    · rcases flowOverride_fold_cases t.m_pathMap model.thermalZones i q with g |
        ⟨z, _, _, ⟨_, g⟩ | ⟨_, g⟩⟩ <;> rw [g] <;> rfl
    · rcases flowOverride_fold_cases t.m_pathMap model.thermalZones i q with g |
        ⟨z, hz, ha, ⟨g, _⟩ | ⟨g, _⟩⟩
      · exact Or.inl g
      · exact Or.inr ⟨rfl, z, hz, ha, Or.inr g⟩
      · exact Or.inr ⟨rfl, z, hz, ha, Or.inl g⟩

/-- The flow-rate step leaves every path that is not flagged system-controlled as it is,
when the positions registered under supply and return names are those of system-controlled
paths. -/
theorem setFlows_untouched (model : Model) (t r : ForwardTranslator) (hk : SystemKeys t)
    (h : setFlows model t = .next r) (i : Nat) (q : prj.Path)
    (hq : t.m_data.paths[i]? = some q) (hs : q.system = false) :
    r.m_data.paths[i]? = some q := by
  obtain ⟨p, hp, _, hcase⟩ := setFlows_positions model t r h i q hq
  rcases hcase with e | ⟨_, z, _, _, hreg⟩
  · rw [hp, e]
  · obtain ⟨p2, hp2, hsys⟩ := hk z.name i hreg
    rw [hq] at hp2
    rw [← Option.some.inj hp2, hs] at hsys
    exact absurd hsys (by simp)

end FlowFrames

section SystemKeyChain

open model ForwardTranslator

theorem getElem?_append_some {α : Type} {l : List α} {i : Nat} {a : α} (e : List α)
    (h : l[i]? = some a) : (l ++ e)[i]? = some a := by
  have hi : i < l.length := by
    by_contra hc
    rw [List.getElem?_eq_none (by omega)] at h
    exact absurd h (by simp)
  rw [List.getElem?_append_left hi]
  exact h

theorem SystemKeys.of_frame {t r : ForwardTranslator} (h : SystemKeys t)
    (hm : r.m_pathMap = t.m_pathMap) (e : List prj.Path)
    (hp : r.m_data.paths = t.m_data.paths ++ e) : SystemKeys r := by
  intro name i hreg
  rw [hm] at hreg
  obtain ⟨p, hp1, hp2⟩ := h name i hreg
  exact ⟨p, by rw [hp]; exact getElem?_append_some e hp1, hp2⟩

theorem SystemKeys.of_empty {t : ForwardTranslator} (h : t.m_pathMap = []) : SystemKeys t := by
  intro name i hreg
  rw [h] at hreg
  simp [Table.find] at hreg

theorem servedZoneStep_systemKeys (ahs : prj.Ahs) (t : ForwardTranslator) (z : ThermalZone)
    (h : SystemKeys t) : SystemKeys (servedZoneStep ahs t z) := by
  obtain ⟨_, _, _, e4, e5⟩ := servedZoneStep_exact ahs t z
  intro name i hreg
  rw [e5, Table.find_set, Table.find_set, Table.find_set, Table.find_set] at hreg
  rw [e4]
  rcases hreg with hA | hB
  · rw [if_neg (supply_ne_return name z.name)] at hA
    by_cases c : name ++ " supply" = z.name ++ " supply"
    · rw [if_pos c] at hA
      simp only [Option.some.injEq] at hA
      have hi : i = t.m_data.paths.length := by omega
      subst hi
      refine ⟨supplyPath (t.m_data.paths.length : Int) ahs (t.m_zoneMap.value z.handle 0),
        ?_, rfl⟩
      rw [List.getElem?_append_right (le_refl _)]
      simp
    · rw [if_neg c] at hA
      obtain ⟨p, hp1, hp2⟩ := h name i (Or.inl hA)
      exact ⟨p, getElem?_append_some _ hp1, hp2⟩
  · by_cases c : name ++ " return" = z.name ++ " return"
    · rw [if_pos c] at hB
      simp only [Option.some.injEq] at hB
      have hi : i = t.m_data.paths.length + 1 := by omega
      subst hi
      refine ⟨returnPath (t.m_data.paths.length : Int) ahs (t.m_zoneMap.value z.handle 0),
        ?_, rfl⟩
      rw [List.getElem?_append_right (by omega)]
      simp
    · rw [if_neg c, if_neg (fun e => supply_ne_return z.name name e.symm)] at hB
      obtain ⟨p, hp1, hp2⟩ := h name i (Or.inr hB)
      exact ⟨p, getElem?_append_some _ hp1, hp2⟩

theorem airloopStep_systemKeys (s : Int × ForwardTranslator) (loop : AirLoopHVAC)
    (h : SystemKeys s.2) : SystemKeys (airloopStep s loop).2 := by
  unfold airloopStep
  split
  · exact h
  · simp only []
    have h0 : SystemKeys (airloopStart s loop) :=
      h.of_frame rfl [] (by simp [airloopStart])
    have h1 : SystemKeys (loop.thermalZones.foldl (servedZoneStep (airloopAhs s))
        (airloopStart s loop)) :=
      foldl_invariant (servedZoneStep (airloopAhs s)) (fun _ u => SystemKeys u) _ _ h0
        (fun pre a post u _ hu => servedZoneStep_systemKeys _ u a hu)
    exact h1.of_frame rfl [] (by simp)

theorem translateAirLoops_systemKeys (loops : List AirLoopHVAC) (t : ForwardTranslator)
    (h : SystemKeys t) : SystemKeys (translateAirLoops loops t) := by
  unfold translateAirLoops
  exact foldl_invariant airloopStep (fun _ s => SystemKeys s.2) loops (0, t) h
    (fun pre a post s _ hs => airloopStep_systemKeys s a hs)

theorem closureStep_systemKeys (t : ForwardTranslator) (i : Nat) (h : SystemKeys t) :
    (closureStep t i).all SystemKeys := by
  cases hc : closureStep t i with
  | outOfRange => trivial
  | abort r =>
    exfalso
    unfold closureStep at hc
    split at hc <;> simp at hc
  | next r =>
    have hp : ∃ e, r.m_data.paths = t.m_data.paths ++ e := by
      unfold closureStep at hc
      split at hc
      · simp at hc
      · simp only [Outcome.next.injEq] at hc
        rw [← hc]
        exact ⟨_, rfl⟩
    obtain ⟨e, he⟩ := hp
    intro name k hreg
    have hs := closureStep_find_served t i (name ++ " supply") _
      (fun b => supply_ne_closure name b) rfl
    have hr := closureStep_find_served t i (name ++ " return") _
      (fun b => return_ne_closure name b) rfl
    rw [hc] at hs hr
    simp only [Outcome.all] at hs hr
    rw [hs, hr] at hreg
    obtain ⟨p, hp1, hp2⟩ := h name k hreg
    exact ⟨p, by rw [he]; exact getElem?_append_some e hp1, hp2⟩

theorem connectAhs_systemKeys (t : ForwardTranslator) (h : SystemKeys t) :
    (connectAhs t).all SystemKeys := by
  unfold connectAhs
  exact Outcome.all_forEach closureStep SystemKeys
    (fun s i hs => closureStep_systemKeys s i hs) _ _ h

/-- A run of the shared body with HVAC on a ready translator that returns true, split before
the flow-rate step, with the run without HVAC beside it: the path list before the flow-rate
step starts with the paths of the run without HVAC, the paths made from surfaces; and the
flow-rate step leaves as it is every path that is not flagged system-controlled, every path
flagged recirculation, outside air or exhaust, and every path made from a surface. -/
theorem translateBody_flows_untouched (ext : Externals) (pe : ElementChoice)
    (t : ForwardTranslator) (model : Model) (hr : Ready t) (r : ForwardTranslator)
    (h : translateBody ext pe t model true = some (true, r)) :
    ∃ t2 r0 r1, translateBodyNoFlows ext pe t model true = some (true, t2.setValid true) ∧
      setFlows model t2 = .next r0 ∧ r = r0.setValid true ∧
      translateBody ext pe t model false = some (true, r1) ∧
      (∃ e, t2.m_data.paths = r1.m_data.paths ++ e) ∧
      ∀ (i : Nat) (q : prj.Path), t2.m_data.paths[i]? = some q →
        (q.system = false ∨ q.recirculation = true ∨ q.outsideAir = true ∨ q.exhaust = true ∨
          i < r1.m_data.paths.length) →
        r.m_data.paths[i]? = some q := by
  obtain ⟨hne, _⟩ := translateBody_true_steps ext pe t model true r h
  obtain ⟨nr, tz, ts, r0, f1, hzi, f2, hrun, h3, h4⟩ :=
    translateBody_true_trace ext pe t model true hr r h
  have hb : translateHVACBlock model ts.t = .next r0 := by
    rcases h3 with ⟨_, h5, _⟩ | ⟨hv, _⟩
    · exact h5
    · exact absurd hv (by simp)
  have hpm : ts.t.m_pathMap = [] := by
    rw [hrun.run_frame.2.2.2.2.2.2.1]
    have := hzi.2.2.2.2.2.1
    simp only [] at this ⊢
    rw [this]
    simp [hr.2.2.2.2.2.2.2.1]
  obtain ⟨na, t1, t2, g1, g2, hair, _, g5, hclo, _, g8, _⟩ :=
    translateHVACBlock_trace model ts.t r0 (hr.pathMapOK_after hzi hrun) hb
  have hk2 : SystemKeys t2 := by
    have hk1 : SystemKeys t1 := by
      rw [g2]
      exact translateAirLoops_systemKeys _ _ (SystemKeys.of_empty hpm)
    have := connectAhs_systemKeys t1 hk1
    rw [g5] at this
    exact this
  have hz0 : (storiesPhase model t).m_data.zones = [] := by simp [hr.2.2.1]
  have hp0 : (storiesPhase model t).m_data.paths = [] := by simp [hr.2.2.2.1]
  have ha0 : (storiesPhase model t).m_data.ahs = [] := by simp [hr.2.2.2.2.1]
  obtain ⟨⟨_, _, n3⟩, _, _⟩ := noHvac_of_loops hz0 hp0 ha0 hzi hrun
  obtain ⟨_, _, _, _, _, _, _, _, _, _, np, hp1, _, hp3, _⟩ := hair
  simp only [] at hp1
  obtain ⟨cl, hc1, _, hc3⟩ := ClosureInv.closure_mem hclo (le_refl _)
  refine ⟨t2, r0, ts.t.setValid true, ?_, g8, h4, ?_, ⟨np ++ cl, ?_⟩, ?_⟩
  · unfold translateBodyNoFlows
    simp only []
    rw [if_neg hne]
    unfold networkPhasesNoFlows translateZones translateSurfaces
    rw [f1]
    simp only [Outcome.map, Outcome.bind]
    rw [f2]
    simp only [Outcome.map, Outcome.bind, if_true]
    rw [← g2, g5]
    rfl
  · unfold translateBody
    simp only []
    rw [if_neg hne]
    unfold networkPhases translateZones translateSurfaces
    rw [f1]
    simp only [Outcome.map, Outcome.bind]
    rw [f2]
    simp [Outcome.map, Outcome.bind, finish]
  · rw [hc1, hp1, List.append_assoc]
    rfl
  · intro i q hq hcond
    have hsys : q.system = false := by
      rw [hc1, hp1] at hq
      by_cases hi1 : i < (ts.t.m_data.paths ++ np).length
      · rw [List.getElem?_append_left hi1] at hq
        by_cases hi0 : i < ts.t.m_data.paths.length
        · rw [List.getElem?_append_left hi0] at hq
          exact (n3 q (List.getElem?_mem hq)).1
        · rw [List.getElem?_append_right (by omega)] at hq
          obtain ⟨_, _, s3, ⟨c1, c2, c3⟩, _⟩ := hp3 q (List.getElem?_mem hq)
          rcases hcond with hc | hc | hc | hc | hc
          · exact hc
          · rw [c1] at hc; exact absurd hc (by simp)
          · rw [c2] at hc; exact absurd hc (by simp)
          · rw [c3] at hc; exact absurd hc (by simp)
          · exact absurd hc hi0
      · rw [List.getElem?_append_right (by omega)] at hq
        obtain ⟨a0, _, _, hcase⟩ := hc3 _ q hq
        rcases hcase with ⟨_, e1⟩ | ⟨_, e1⟩ | ⟨_, e1⟩ <;> rw [e1] <;> rfl
    rw [h4]
    exact setFlows_untouched model t2 r0 hk2 g8 i q hq hsys

end SystemKeyChain

section FlowFrames2

open model ForwardTranslator

theorem FlowFrame.lists {t r : ForwardTranslator} (h : FlowFrame t r) :
    r.m_data.levels = t.m_data.levels ∧ r.m_data.zones = t.m_data.zones ∧
    r.m_data.ahs = t.m_data.ahs ∧ r.m_data.airflowElements = t.m_data.airflowElements ∧
    r.m_data.paths.length = t.m_data.paths.length := by
  obtain ⟨paths, log, e, c⟩ := h
  subst e
  refine ⟨rfl, rfl, rfl, rfl, ?_⟩
  have := congrArg List.length c
  simpa using this

/-- C37: the flow-rate assignment step changes nothing but the log and the flow-rate override
of paths registered under a supply or return name. (1) From whatever translator `t` the step
starts, if it falls through with the translator `r` then `r` is `t` but for the log and the
field `Fahs` of paths (`FlowFrame`): the level, zone, AHS and element lists are the same
lists, the path list has the same length, and position by position the path has every field
but `Fahs` as before and is the very same path unless a thermal zone of nonzero floor area
has the position registered under its supply or return name (and there are no simulation
results). (2) The step never makes `translate` return false. (3) In a translation with HVAC
on a fresh translator with a baseline template that returns true (either mode), the step runs
on the translator `t2` that the run with the step omitted leaves, and every path of `t2` that
is not flagged system-controlled, every path flagged recirculation, outside air or exhaust,
and every path made from a surface (the paths of the run without HVAC, with which the list
starts) is in the result as it was. -/
theorem setFlows_only_overrides (ext : Externals) (template : prj.Data) (building : Model)
    (descriptor : String) (afeMap : Table String) (hb : template.Baseline) :
    (∀ (t r : ForwardTranslator), setFlows building t = .next r →
      FlowFrame t r ∧
      r.m_data.levels = t.m_data.levels ∧ r.m_data.zones = t.m_data.zones ∧
      r.m_data.ahs = t.m_data.ahs ∧ r.m_data.airflowElements = t.m_data.airflowElements ∧
      r.m_data.paths.length = t.m_data.paths.length ∧
      ∀ (i : Nat) (q : prj.Path), t.m_data.paths[i]? = some q →
        ∃ p, r.m_data.paths[i]? = some p ∧ p.clearFahs = q.clearFahs ∧
          (p = q ∨ (building.hasSqlFile = false ∧ ∃ z ∈ building.thermalZones,
            flowArea z ≠ 0 ∧
            (t.m_pathMap.find (z.name ++ " supply") = some ((i : Int) + 1) ∨
              t.m_pathMap.find (z.name ++ " return") = some ((i : Int) + 1))))) ∧
    (∀ (t r : ForwardTranslator), setFlows building t ≠ .abort r) ∧
    (∀ r, (ForwardTranslator.new template).translate ext building true descriptor
        = some (true, r) →
      ∃ t2 r0 r1, (ForwardTranslator.new template).translateNoFlows ext building true
          descriptor = some (true, t2.setValid true) ∧
        setFlows building t2 = .next r0 ∧ r = r0.setValid true ∧
        (ForwardTranslator.new template).translate ext building false descriptor
          = some (true, r1) ∧
        (∃ e, t2.m_data.paths = r1.m_data.paths ++ e) ∧
        ∀ (i : Nat) (q : prj.Path), t2.m_data.paths[i]? = some q →
          (q.system = false ∨ q.recirculation = true ∨ q.outsideAir = true ∨
            q.exhaust = true ∨ i < r1.m_data.paths.length) →
          r.m_data.paths[i]? = some q) ∧
    (∀ r, (ForwardTranslator.new template).translateWithMap ext building afeMap true
        = some (true, r) →
      ∃ t2 r0 r1, (ForwardTranslator.new template).translateWithMapNoFlows ext building
          afeMap true = some (true, t2.setValid true) ∧
        setFlows building t2 = .next r0 ∧ r = r0.setValid true ∧
        (ForwardTranslator.new template).translateWithMap ext building afeMap false
          = some (true, r1) ∧
        (∃ e, t2.m_data.paths = r1.m_data.paths ++ e) ∧
        ∀ (i : Nat) (q : prj.Path), t2.m_data.paths[i]? = some q →
          (q.system = false ∨ q.recirculation = true ∨ q.outsideAir = true ∨
            q.exhaust = true ∨ i < r1.m_data.paths.length) →
          r.m_data.paths[i]? = some q) := by
  refine ⟨?_, fun t r => setFlows_never_aborts building t r, ?_, ?_⟩
  · intro t r h
    have hf := setFlows_flowFrame building t r h
    obtain ⟨l1, l2, l3, l4, l5⟩ := hf.lists
    exact ⟨hf, l1, l2, l3, l4, l5, fun i q hq => setFlows_positions building t r h i q hq⟩
  · intro r h
    exact translateBody_flows_untouched ext _ _ building
      (translate_ready _ descriptor (Ready.new template hb)) r h
  · intro r h
    exact translateBody_flows_untouched ext _ _ building (Ready.new template hb).resetLog r h

/-- Witness of C37: the example building, whose air loop serves both zones. The translation
with HVAC returns true; the flow-rate step ran on the translator of the run with the step
omitted and left a translator that differs from it in the log and in overrides only; the
overrides are on the four supply and return paths (3 to 6), the two paths made from surfaces
(1, 2) and the three closing paths (7 to 9) are as they were. -/
theorem setFlows_only_overrides_witness :
    Examples.template.Baseline ∧
    ∃ r t2 r0 r1, (ForwardTranslator.new Examples.template).translate Examples.ext
        Examples.building true "Average" = some (true, r) ∧
      (ForwardTranslator.new Examples.template).translateNoFlows Examples.ext
        Examples.building true "Average" = some (true, t2.setValid true) ∧
      setFlows Examples.building t2 = .next r0 ∧ r = r0.setValid true ∧ FlowFrame t2 r0 ∧
      (ForwardTranslator.new Examples.template).translate Examples.ext
        Examples.building false "Average" = some (true, r1) ∧
      (∀ (i : Nat) (q : prj.Path), t2.m_data.paths[i]? = some q →
        (q.system = false ∨ i < r1.m_data.paths.length) → r.m_data.paths[i]? = some q) ∧
      r.m_data.paths.map (fun p => (p.nr, p.pzn, p.pzm, p.pa, p.Fahs.isSome)) =
        [(1, 1, -1, 0, false), (2, 1, 2, 0, false), (3, 4, 1, 1, true), (4, 1, 3, 1, true),
         (5, 4, 2, 1, true), (6, 2, 3, 1, true), (7, 3, 4, 0, false), (8, -1, 4, 0, false),
         (9, 3, -1, 0, false)] := by
  obtain ⟨r, h1, _, h3, _⟩ := Examples.building_translate Examples.ext
  have hT := setFlows_only_overrides Examples.ext Examples.template Examples.building
    "Average" [] Examples.template_baseline
  obtain ⟨t2, r0, r1, g1, g2, g3, g4, _, g6⟩ := hT.2.2.1 r h1
  refine ⟨Examples.template_baseline, r, t2, r0, r1, h1, g1, g2, g3, (hT.1 t2 r0 g2).1, g4, ?_,
    h3⟩
  intro i q hq hc
  rcases hc with hc | hc
  · exact g6 i q hq (Or.inl hc)
  · exact g6 i q hq (Or.inr (Or.inr (Or.inr (Or.inr hc))))

end FlowFrames2

section SurfaceSteps

open model ForwardTranslator

theorem forEach_skip {σ α : Type} (body : σ → α → Outcome σ) (pre : List α) (a : α)
    (post : List α) (s : σ) (h : ∀ mid, forEach body pre s = .next mid → body mid a = .next mid) :
    forEach body (pre ++ a :: post) s = forEach body (pre ++ post) s := by
  rw [forEach_append, forEach_append]
  cases hp : forEach body pre s with
  | next mid =>
    simp only [Outcome.bind, forEach]
    rw [h mid hp]
  | abort r => rfl
  | outOfRange => rfl

theorem forEach_next_split {σ α : Type} (body : σ → α → Outcome σ) (xs ys : List α) (s r : σ)
    (h : forEach body (xs ++ ys) s = .next r) :
    ∃ mid, forEach body xs s = .next mid ∧ forEach body ys mid = .next r := by
  rw [forEach_append] at h
  cases hp : forEach body xs s with
  | next mid =>
    rw [hp] at h
    exact ⟨mid, rfl, h⟩
  | abort r2 =>
    rw [hp] at h
    simp [Outcome.bind] at h
  | outOfRange =>
    rw [hp] at h
    simp [Outcome.bind] at h

theorem Table.index_of_find {κ : Type} [DecidableEq κ] (m : Table κ) (k : κ) (v : Int)
    (h : m.find k = some v) : m.index k = (v, m) := by
  unfold Table.index
  rw [h]

/-- The pass of the surface loop for a surface with boundary condition "Ground". -/
theorem surfaceStep_ground (ext : Externals) (pe : ElementChoice) (w : ℚ) (s : SurfaceLoop)
    (a : Surface) (hg : a.outsideBoundaryCondition = "Ground") :
    surfaceStep ext pe w s a = .next s := by
  unfold surfaceStep
  simp only []
  rw [if_neg (by rw [hg]; simp)]

/-- The pass of the surface loop for a surface whose handle is in the list `used`. -/
theorem surfaceStep_consumed (ext : Externals) (pe : ElementChoice) (w : ℚ) (s : SurfaceLoop)
    (a : Surface) (hu : a.handle ∈ s.used) : surfaceStep ext pe w s a = .next s := by
  unfold surfaceStep
  simp only []
  rw [if_neg (by simp [hu])]

/-- The pass of the surface loop for an unconsumed surface with boundary condition "Surface"
whose thermal zone and adjacent thermal zone are in the zone table, the first with a nonzero
index, and are not the same. -/
theorem surfaceStep_interior (ext : Externals) (pe : ElementChoice) (w : ℚ) (s : SurfaceLoop)
    (a : Surface) (hu : a.handle ∉ s.used) (hbc : a.outsideBoundaryCondition = "Surface")
    (z : Handle) (hown : a.ownZone = some z) (v : Int) (hv : s.t.m_zoneMap.find z = some v)
    (hv0 : v ≠ 0) (zone : prj.Zone) (hzone : listAt s.t.m_data.zones (v - 1) = some zone)
    (level : prj.Level) (hlevel : listAt s.t.m_data.levels (zone.pl - 1) = some level)
    (adj : AdjacentSurface) (hadj : a.adjacentSurface = some adj) (k : Handle)
    (hk : a.adjacentZone = some k) (hkz : k ≠ z) (kv : Int)
    (hkv : s.t.m_zoneMap.find k = some kv) :
    surfaceStep ext pe w s a = .next
      { s.addPath s.t a.handle (interiorPath pe a zone kv
          { relHt := relativeHeight a.vertices level.refht, pld := zone.pl,
            mult := a.grossArea }) with used := s.used ++ [adj.handle] } := by
  unfold Surface.ownZone at hown
  unfold Surface.adjacentZone at hk
  rw [hadj] at hk
  simp only [] at hk
  unfold surfaceStep
  simp only []
  rw [if_pos ⟨hu, by rw [hbc]; decide⟩]
  cases hsp : a.space with
  | none => rw [hsp] at hown; simp at hown
  | some space =>
    rw [hsp] at hown
    simp only [] at hown ⊢
    rw [hown]
    simp only [tableLookupStdMap, hv, if_neg hv0, hzone, hlevel]
    rw [if_neg (by rw [hbc]; decide), if_pos hbc]
    unfold interiorStep
    rw [hadj]
    simp only []
    cases hasp : adj.space with
    | none => rw [hasp] at hk; simp at hk
    | some aspace =>
      rw [hasp] at hk
      simp only [] at hk ⊢
      rw [hk]
      simp only []
      rw [if_pos hkz, Table.index_of_find _ k kv hkv]

/-- The pass of the surface loop for a surface whose boundary condition is neither
"Outdoors" nor "Surface" and whose thermal zone is in the zone table. -/
theorem surfaceStep_other (ext : Externals) (pe : ElementChoice) (w : ℚ) (s : SurfaceLoop)
    (a : Surface) (ho : a.outsideBoundaryCondition ≠ "Outdoors")
    (hs : a.outsideBoundaryCondition ≠ "Surface")
    (z : Handle) (hown : a.ownZone = some z) (v : Int) (hv : s.t.m_zoneMap.find z = some v)
    (hzone : v ≠ 0 → ∃ zone level, listAt s.t.m_data.zones (v - 1) = some zone ∧
      listAt s.t.m_data.levels (zone.pl - 1) = some level) :
    surfaceStep ext pe w s a = .next s := by
  by_cases hc : ¬ (a.handle ∈ s.used) ∧ a.outsideBoundaryCondition ≠ "Ground"
  · unfold Surface.ownZone at hown
    unfold surfaceStep
    simp only []
    rw [if_pos hc]
    cases hsp : a.space with
    | none => rw [hsp] at hown; simp at hown
    | some space =>
      rw [hsp] at hown
      simp only [] at hown ⊢
      rw [hown]
      simp only [tableLookupStdMap, hv]
      by_cases hv0 : v = 0
      · rw [if_pos hv0]
      · obtain ⟨zone, level, h1, h2⟩ := hzone hv0
        rw [if_neg hv0, h1]
        simp only []
        rw [h2]
        simp only []
        rw [if_neg ho, if_neg hs]
  · unfold surfaceStep
    simp only []
    rw [if_neg hc]

end SurfaceSteps

section SurfaceSteps2

open model ForwardTranslator

/-- The state in which the surface loop of a run on a ready translator is after the surfaces
`pre`: the zone table holds a nonzero index for every thermal zone of the model, the index
of a zone of the list that has that number and whose level is a level of the list; and the
loop local `nr` is the length of the path list. -/
theorem surfaceLoop_reached (ext : Externals) (pe : ElementChoice) (t : ForwardTranslator)
    (hr : Ready t) (model : Model) (pre : List Surface) (nr : Int) (tz : ForwardTranslator)
    (mid : SurfaceLoop)
    (hz1 : forEach zoneStep model.thermalZones (0, storiesPhase model t) = .next (nr, tz))
    (hs1 : forEach (surfaceStep ext pe tz.m_data.rc.wind_H) pre
      { nr := 0, used := [], t := tz } = .next mid) :
    ZonesInv (storiesPhase model t) model.thermalZones (nr, tz) ∧
    SurfaceRun pre { nr := 0, used := [], t := tz } mid ∧ ZoneLookupOK mid.t ∧
    mid.nr = (mid.t.m_data.paths.length : Int) ∧
    ∀ z ∈ model.thermalZones, ∃ v zone level, mid.t.m_zoneMap.find z.handle = some v ∧
      v ≠ 0 ∧ listAt mid.t.m_data.zones (v - 1) = some zone ∧ zone.nr = v ∧
      listAt mid.t.m_data.levels (zone.pl - 1) = some level := by
  have hz := translateZones_spec (storiesPhase model t) model.thermalZones
  rw [hz1] at hz
  simp only [Outcome.sat] at hz
  have hz0 : (storiesPhase model t).m_data.zones = [] := by simp [hr.2.2.1]
  have hp0 : (storiesPhase model t).m_data.paths = [] := by simp [hr.2.2.2.1]
  have hzok := hz.zones_zoneLookupOK (storiesPhase_levelMapOK model t hr) hz0
    (by simp [hr.2.2.2.2.2.2.1])
  have hs := forEach_surfaceRun ext pe tz.m_data.rc.wind_H pre
    { nr := 0, used := [], t := tz } hzok
  rw [hs1] at hs
  simp only [Outcome.sat] at hs
  have hok := hs.run_zoneLookupOK hzok
  refine ⟨hz, hs, hok, ?_, ?_⟩
  · obtain ⟨extra, e1, e2, _⟩ := hs.paths_extend
    have e3 : tz.m_data.paths = [] := by
      have := hz.2.2.2.1
      simp only [] at this
      rw [this, hp0]
    simp only [] at e1 e2
    rw [e1, e2, e3]
    simp
  · intro z hzm
    obtain ⟨v, hv1, hv2, _⟩ := hz.2.2.2.2.2.2.2.2.2.2.2.1 z hzm
    simp only [] at hv1
    have hv3 := hs.zoneMap_stable.1 _ _ hv1
    simp only [] at hv3
    have hv0 : v ≠ 0 := by omega
    obtain ⟨zone, hzone, level, hlevel⟩ := hok _ (Table.find_mem _ _ _ hv3) hv0
    simp only [] at hzone hlevel
    refine ⟨v, zone, level, hv3, hv0, hzone, ?_, hlevel⟩
    obtain ⟨new, n1, _, n3, _⟩ := hz.2.2.2.2.2.2.2.2.2.1
    simp only [] at n1
    have e4 : mid.t.m_data.zones = new := by
      rw [hs.run_frame.2.1]
      simp only []
      rw [n1, hz0]
      rfl
    rw [e4] at hzone
    exact (n3.listAt_nr v zone hzone).1

/-- A surface whose pass leaves the loop state as it is, in whatever state the loop reaches
it, can be taken out of the model: the run returns the same. -/
theorem translateBody_skip_surface (ext : Externals) (pe : ElementChoice)
    (t : ForwardTranslator) (model : Model) (hvac : Bool) (pre : List Surface) (a : Surface)
    (post : List Surface)
    (h : ∀ nr tz mid,
      forEach zoneStep model.thermalZones (0, storiesPhase model t) = .next (nr, tz) →
      forEach (surfaceStep ext pe tz.m_data.rc.wind_H) pre
        { nr := 0, used := [], t := tz } = .next mid →
      surfaceStep ext pe tz.m_data.rc.wind_H mid a = .next mid) :
    translateBody ext pe t { model with surfaces := pre ++ a :: post } hvac =
      translateBody ext pe t { model with surfaces := pre ++ post } hvac := by
  have hn : networkPhases ext pe { model with surfaces := pre ++ a :: post } hvac
      (storiesPhase model t) =
      networkPhases ext pe { model with surfaces := pre ++ post } hvac
        (storiesPhase model t) := by
    unfold networkPhases translateZones translateSurfaces
    show (((forEach zoneStep model.thermalZones (0, storiesPhase model t)).map Prod.snd).bind
      _).bind _ = (((forEach zoneStep model.thermalZones (0, storiesPhase model t)).map
        Prod.snd).bind _).bind _
    cases hzr : forEach zoneStep model.thermalZones (0, storiesPhase model t) with
    | next sz =>
      obtain ⟨nr, tz⟩ := sz
      simp only [Outcome.map, Outcome.bind]
      rw [forEach_skip _ pre a post _ (h nr tz · hzr)]
      rfl
    | abort sz => rfl
    | outOfRange => rfl
  unfold translateBody
  show (if (storiesPhase model t).m_data.levels.length = 0 then _
    else finish (networkPhases ext pe { model with surfaces := pre ++ a :: post } hvac
      (storiesPhase model t))) = _
  rw [hn]
  rfl

end SurfaceSteps2

section SurfaceSteps3

open model ForwardTranslator

theorem surfaceStep_used_kept (ext : Externals) (pe : ElementChoice) (w : ℚ)
    (s : SurfaceLoop) (a : Surface) :
    (surfaceStep ext pe w s a).all (fun r => ∀ k ∈ s.used, k ∈ r.used) := by
  unfold surfaceStep
  simp only []
  split
  · split
    · exact fun k hk => hk
    · split
      · exact fun k hk => hk
      · split
        · exact fun k hk => hk
        · split
          · trivial
          · split
            · trivial
            · split
              · exact fun k hk => hk
              · split
                · unfold interiorStep
                  split
                  · exact fun k hk => hk
                  · split
                    · exact fun k hk => hk
                    · split
                      · exact fun k hk => hk
                      · split
                        · exact fun k hk => List.mem_append_left _ hk
                        · exact fun k hk => hk
                · exact fun k hk => hk
  · exact fun k hk => hk

theorem surfaceLoop_used_kept (ext : Externals) (pe : ElementChoice) (w : ℚ)
    (xs : List Surface) (s r : SurfaceLoop)
    (h : forEach (surfaceStep ext pe w) xs s = .next r) : ∀ k ∈ s.used, k ∈ r.used := by
  have := Outcome.all_forEach (surfaceStep ext pe w)
    (fun r : SurfaceLoop => ∀ k ∈ s.used, k ∈ r.used)
    (fun u a hu => Outcome.all_mono (surfaceStep_used_kept ext pe w u a)
      (fun r hr k hk => hr k (hu k hk))) xs s (fun k hk => hk)
  rw [h] at this
  exact this

end SurfaceSteps3

section ExteriorPaths

open model ForwardTranslator

theorem SurfaceRun.not_used {xs : List Surface} {s r : SurfaceLoop} (h : SurfaceRun xs s r)
    (a : Surface) (hs : a.handle ∉ s.used)
    (hused : ∀ b ∈ xs, ∀ adj, b.adjacentSurface = some adj → adj.handle ≠ a.handle) :
    a.handle ∉ r.used := by
  intro hmem
  rcases h.used_origin _ hmem with h1 | ⟨b, hb, hk⟩
  · exact hs h1
  · obtain ⟨x, hx1, hx2⟩ := usedDelta_mem b _ hk
    exact hused b hb x hx1 hx2

end ExteriorPaths

section ExteriorPaths2

open model ForwardTranslator

end ExteriorPaths2

section InteriorPaths

open model ForwardTranslator

end InteriorPaths

section InteriorPaths2

open model ForwardTranslator

end InteriorPaths2

section NoPath

open model ForwardTranslator

/-- A run of the shared body on a ready translator: a surface whose handle an interior
surface `b` before it, which creates a path, has as the handle of its adjacent surface can be
taken out of the model without any change of what the run returns. -/
theorem translateBody_consumed (ext : Externals) (pe : ElementChoice)
    (t : ForwardTranslator) (hr : Ready t) (model : Model) (hvac : Bool)
    (pre1 : List Surface) (b : Surface) (between : List Surface) (c : Surface)
    (post : List Surface)
    (hused : ∀ x ∈ pre1, ∀ adj, x.adjacentSurface = some adj → adj.handle ≠ b.handle)
    (hbc : b.outsideBoundaryCondition = "Surface") (z : Handle) (hown : b.ownZone = some z)
    (hzm : z ∈ model.thermalZones.map (fun tz => tz.handle))
    (adj : AdjacentSurface) (hadj : b.adjacentSurface = some adj) (k : Handle)
    (hk : b.adjacentZone = some k) (hkm : k ∈ model.thermalZones.map (fun tz => tz.handle))
    (hkz : k ≠ z) (hc : c.handle = adj.handle) :
    translateBody ext pe t
        { model with surfaces := (pre1 ++ b :: between) ++ c :: post } hvac =
      translateBody ext pe t { model with surfaces := (pre1 ++ b :: between) ++ post } hvac := by
  apply translateBody_skip_surface
  intro nr tz mid2 f1 g2
  obtain ⟨mid, f2, g4⟩ := forEach_next_split _ pre1 (b :: between) _ mid2 g2
  obtain ⟨_, hrun, _, _, hzones⟩ := surfaceLoop_reached ext pe t hr model pre1 nr tz mid f1 f2
  have hu : b.handle ∉ mid.used := hrun.not_used b (by simp) hused
  obtain ⟨tzz, htz, hz⟩ := List.mem_map.mp hzm
  obtain ⟨v, zone, level, hv, hv0, hzone, _, hlevel⟩ := hzones tzz htz
  rw [hz] at hv
  obtain ⟨tzk, htk, hzk⟩ := List.mem_map.mp hkm
  obtain ⟨kv, _, _, hkv, _, _, _, _⟩ := hzones tzk htk
  rw [hzk] at hkv
  have hstep := surfaceStep_interior ext pe tz.m_data.rc.wind_H mid b hu hbc z hown v hv hv0
    zone hzone level hlevel adj hadj k hk hkz kv hkv
  unfold forEach at g4
  rw [hstep] at g4
  simp only [] at g4
  have hmem := surfaceLoop_used_kept ext pe _ between _ mid2 g4 adj.handle (by simp)
  apply surfaceStep_consumed
  rw [hc]
  exact hmem

/-- The pass of the surface loop for a surface whose boundary condition is neither "Outdoors"
nor "Surface", in whatever state: it never returns false, and when it completes the loop
state is as before or has one warning more in the log. -/
theorem surfaceStep_other_bc (ext : Externals) (pe : ElementChoice) (w : ℚ) (s : SurfaceLoop)
    (a : Surface) (ho : a.outsideBoundaryCondition ≠ "Outdoors")
    (hs : a.outsideBoundaryCondition ≠ "Surface") :
    (∀ r, surfaceStep ext pe w s a ≠ .abort r) ∧
    ∀ r, surfaceStep ext pe w s a = .next r →
      r = s ∨ ∃ msg, r = { s with t := s.t.LOG .Warn msg } := by
  have key : (surfaceStep ext pe w s a).sat
      (fun r => r = s ∨ ∃ msg, r = { s with t := s.t.LOG .Warn msg }) (fun _ => False) ∨
      surfaceStep ext pe w s a = .outOfRange := by
    unfold surfaceStep
    simp only []
    split
    · split
      · exact Or.inl (Or.inr ⟨_, rfl⟩)
      · split
        · exact Or.inl (Or.inr ⟨_, rfl⟩)
        · rename_i z _
          unfold tableLookupStdMap
          cases hf : s.t.m_zoneMap.find z with
          | none =>
            simp only []
            rw [if_pos True.intro]
            exact Or.inl (Or.inr ⟨_, rfl⟩)
          | some v =>
            simp only []
            split
            · exact Or.inl (Or.inl rfl)
            · split
              · exact Or.inr rfl
              · split
                · exact Or.inr rfl
                · exact Or.inl (Or.inl rfl)
    · exact Or.inl (Or.inl rfl)
  constructor
  · intro r hr
    rcases key with h | h
    · rw [hr] at h
      exact h
    · rw [hr] at h
      exact absurd h (by simp)
  · intro r hr
    rcases key with h | h
    · rw [hr] at h
      exact h
    · rw [hr] at h
      exact absurd h (by simp)

end NoPath

section NoPath2

open model ForwardTranslator

/-- C33 (amended): on a fresh translator (template a baseline), in both modes, with and
without HVAC, a surface `a` that follows the surfaces `pre` in the surface list can be taken
out of the model without any change of what `translate` returns (the same flag, network
data, tables and log, so that `a` contributes no path, no surface table entry, no warning
and no error) (1) if its boundary condition is "Ground"; (2) if its boundary condition is
neither "Outdoors" nor "Surface" and it is in a space of a thermal zone of the model; (3) if
it is consumed: an interior surface `b` before it that creates a path (unconsumed, in a
thermal zone of the model, its adjacent surface in another thermal zone of the model) has
the handle of `a` as the handle of its adjacent surface. And (4) the pass of the surface loop
for a surface whose boundary condition is neither "Outdoors" nor "Surface", attached or not,
in whatever state, never returns false, and leaves the loop state (path counter, consumed
list, translator) as it is or with one warning more in the log: a path comes from a surface
with boundary condition "Outdoors" or "Surface" only. -/
theorem translate_surface_without_path (ext : Externals) (template : prj.Data) (model : Model)
    (descriptor : String) (afeMap : Table String) (hb : template.Baseline)
    (pre : List Surface) (a : Surface) (post : List Surface) :
    (a.outsideBoundaryCondition = "Ground" →
      SameRuns ext template model descriptor afeMap (pre ++ a :: post) (pre ++ post)) ∧
    (a.outsideBoundaryCondition ≠ "Outdoors" → a.outsideBoundaryCondition ≠ "Surface" →
      ∀ z, a.ownZone = some z → z ∈ model.thermalZones.map (fun tz => tz.handle) →
      SameRuns ext template model descriptor afeMap (pre ++ a :: post) (pre ++ post)) ∧
    (∀ (pre1 : List Surface) (b : Surface) (between : List Surface) (adj : AdjacentSurface)
      (z k : Handle), pre = pre1 ++ b :: between →
      (∀ x ∈ pre1, ∀ other, x.adjacentSurface = some other → other.handle ≠ b.handle) →
      b.outsideBoundaryCondition = "Surface" → b.ownZone = some z →
      z ∈ model.thermalZones.map (fun tz => tz.handle) → b.adjacentSurface = some adj →
      b.adjacentZone = some k → k ∈ model.thermalZones.map (fun tz => tz.handle) → k ≠ z →
      a.handle = adj.handle →
      SameRuns ext template model descriptor afeMap (pre ++ a :: post) (pre ++ post)) ∧
    (a.outsideBoundaryCondition ≠ "Outdoors" → a.outsideBoundaryCondition ≠ "Surface" →
      ∀ (pe : ElementChoice) (w : ℚ) (s : SurfaceLoop),
        (∀ r, surfaceStep ext pe w s a ≠ .abort r) ∧
        ∀ r, surfaceStep ext pe w s a = .next r →
          r = s ∨ ∃ msg, r = { s with t := s.t.LOG .Warn msg }) := by
  have hr := Ready.new template hb
  refine ⟨?_, ?_, ?_, ?_⟩
  · intro hg hvac
    exact ⟨translateBody_skip_surface ext _ _ model hvac pre a post
        (fun _ _ mid _ _ => surfaceStep_ground ext _ _ mid a hg),
      translateBody_skip_surface ext _ _ model hvac pre a post
        (fun _ _ mid _ _ => surfaceStep_ground ext _ _ mid a hg)⟩
  · intro ho hs z hown hzm hvac
    obtain ⟨tzz, htz, hz⟩ := List.mem_map.mp hzm
    have key : ∀ (pe : ElementChoice) (t : ForwardTranslator), Ready t →
        translateBody ext pe t { model with surfaces := pre ++ a :: post } hvac =
          translateBody ext pe t { model with surfaces := pre ++ post } hvac := by
      intro pe t hrt
      apply translateBody_skip_surface
      intro nr tz mid f1 f2
      obtain ⟨_, _, _, _, hzones⟩ :=
        surfaceLoop_reached ext pe t hrt model pre nr tz mid f1 f2
      obtain ⟨v, zone, level, hv, _, hzone, _, hlevel⟩ := hzones tzz htz
      rw [hz] at hv
      exact surfaceStep_other ext pe _ mid a ho hs z hown v hv
        (fun _ => ⟨zone, level, hzone, hlevel⟩)
    exact ⟨key _ _ (translate_ready _ descriptor hr), key _ _ hr.resetLog⟩
  · intro pre1 b between adj z k hpre hused hbc hown hzm hadj hk hkm hkz hc hvac
    rw [hpre]
    exact ⟨translateBody_consumed ext _ _ (translate_ready _ descriptor hr) model hvac pre1 b
        between a post hused hbc z hown hzm adj hadj k hk hkm hkz hc,
      translateBody_consumed ext _ _ hr.resetLog model hvac pre1 b between a post hused hbc z
        hown hzm adj hadj k hk hkm hkz hc⟩
  · intro ho hs pe w s
    exact surfaceStep_other_bc ext pe w s a ho hs

/-- Witness of C33: the example building with an adiabatic panel of space A put after its
exterior wall: `translate` returns what it returns for the example building, and the floor of
space B, consumed by the ceiling of space A, can be taken out as well. -/
theorem translate_surface_without_path_witness :
    Examples.template.Baseline ∧ Examples.panelA.outsideBoundaryCondition ≠ "Outdoors" ∧
    Examples.panelA.outsideBoundaryCondition ≠ "Surface" ∧
    Examples.panelA.ownZone = some 11 ∧
    SameRuns Examples.ext Examples.template Examples.building "Average" []
      ([Examples.wallA] ++ Examples.panelA :: [Examples.ceilingA, Examples.floorB])
      ([Examples.wallA] ++ [Examples.ceilingA, Examples.floorB]) ∧
    SameRuns Examples.ext Examples.template Examples.building "Average" []
      ([Examples.wallA, Examples.ceilingA] ++ Examples.floorB :: [])
      ([Examples.wallA, Examples.ceilingA] ++ []) := by
  have hz : (11 : Handle) ∈ Examples.building.thermalZones.map (fun tz => tz.handle) := by
    simp [Examples.building, Examples.zoneA]
  have hk : (12 : Handle) ∈ Examples.building.thermalZones.map (fun tz => tz.handle) := by
    simp [Examples.building, Examples.zoneB]
  refine ⟨Examples.template_baseline, by decide, by decide, rfl, ?_, ?_⟩
  · exact (translate_surface_without_path Examples.ext Examples.template Examples.building
      "Average" [] Examples.template_baseline [Examples.wallA] Examples.panelA
      [Examples.ceilingA, Examples.floorB]).2.1 (by decide) (by decide) 11 rfl hz
  · exact (translate_surface_without_path Examples.ext Examples.template Examples.building
      "Average" [] Examples.template_baseline [Examples.wallA, Examples.ceilingA]
      Examples.floorB []).2.2.1 [Examples.wallA] Examples.ceilingA []
      Examples.floorB.asAdjacent 11 12 rfl
      (by
        intro x hx other hother
        simp only [List.mem_singleton] at hx
        subst hx
        simp [Examples.wallA] at hother)
      rfl rfl hz rfl rfl hk (by decide) rfl

/-- Counterexample to C33 as stated: an adiabatic panel that belongs to no space (its
boundary condition is none of "Ground", "Outdoors" and "Surface") put after the exterior wall
of the example building. The translation returns true with the same paths as without the
panel, but its log holds the warning "Unattached surface 'Panel X'", while the translation
without the panel logs no warning. -/
theorem translate_unattached_panel_warns :
    Examples.panelLoose.outsideBoundaryCondition ≠ "Ground" ∧
    Examples.panelLoose.outsideBoundaryCondition ≠ "Outdoors" ∧
    Examples.panelLoose.outsideBoundaryCondition ≠ "Surface" ∧
    ∃ r1 r, (ForwardTranslator.new Examples.template).translate Examples.ext
        { Examples.building with surfaces := [Examples.wallA] } false "Average"
        = some (true, r1) ∧
      (ForwardTranslator.new Examples.template).translate Examples.ext
        { Examples.building with surfaces := [Examples.wallA, Examples.panelLoose] } false
        "Average" = some (true, r) ∧
      r1.warnings = [] ∧
      r.warnings = [{ logLevel := .Warn, logMessage := "Unattached surface 'Panel X'" }] ∧
      r.m_data.paths = r1.m_data.paths := by
  refine ⟨by decide, by decide, by decide, ?_⟩
  simp [ForwardTranslator.translate, ForwardTranslator.new, resetLog, checkDescriptor, afePhase,
    buildAfeMap, translateBody, storiesPhase, setDescription, translateStories, storyStep,
    networkPhases, translateZones, zoneStep, zoneLevel, zoneVolume, tableLookupQMap,
    tableLookupStdMap, translateSurfaces, surfaceStep, exteriorPath, SurfaceLoop.addPath,
    Table.index, relativeHeight, finish, forEach, Outcome.bind, Outcome.map, LOG, setValid,
    Table.find, Table.value, Table.set, listAt, Examples.building,
    Examples.zoneA, Examples.zoneB, Examples.spaceA, Examples.spaceB, Examples.wallA,
    Examples.panelLoose, Examples.twoStories, Examples.template, LogLevel.toInt,
    ForwardTranslator.warnings]

end NoPath2

section AfeMapFree

open model ForwardTranslator

theorem withAfeMap_LOG (t : ForwardTranslator) (am : Table String) (l : LogLevel) (msg : String) :
    (t.withAfeMap am).LOG l msg = (t.LOG l msg).withAfeMap am := by
  unfold LOG
  split <;> rfl

theorem withAfeMap_setValid (t : ForwardTranslator) (am : Table String) (v : Bool) :
    (t.withAfeMap am).setValid v = (t.setValid v).withAfeMap am := rfl

theorem withAfeMap_tableLookupQMap (t : ForwardTranslator) (am : Table String) (m : Table Handle)
    (h : Handle) (name : String) :
    (t.withAfeMap am).tableLookupQMap m h name =
      ((t.tableLookupQMap m h name).1, (t.tableLookupQMap m h name).2.withAfeMap am) := by
  unfold tableLookupQMap
  simp only []
  split
  · simp only [withAfeMap_LOG]
  · rfl

theorem withAfeMap_tableLookupStdMap (t : ForwardTranslator) (am : Table String) (m : Table Handle)
    (h : Handle) (name : String) :
    (t.withAfeMap am).tableLookupStdMap m h name =
      ((t.tableLookupStdMap m h name).1, (t.tableLookupStdMap m h name).2.withAfeMap am) := by
  unfold tableLookupStdMap
  split
  · simp only [withAfeMap_LOG]
  · rfl

theorem withAfeMap_storyStep (am : Table String) (s : Int × ℚ × ForwardTranslator)
    (b : BuildingStory) :
    storyStep (s.1, s.2.1, s.2.2.withAfeMap am) b =
      ((storyStep s b).1, (storyStep s b).2.1, (storyStep s b).2.2.withAfeMap am) := rfl

theorem withAfeMap_translateStories (am : Table String) (stories : List BuildingStory)
    (t : ForwardTranslator) :
    translateStories stories (t.withAfeMap am) =
      ((translateStories stories t).1, (translateStories stories t).2.1,
        (translateStories stories t).2.2.withAfeMap am) := by
  unfold translateStories
  exact foldl_comm storyStep (fun s => (s.1, s.2.1, s.2.2.withAfeMap am))
    (fun s b => withAfeMap_storyStep am s b) stories (1, 0, t)

theorem withAfeMap_storiesPhase (am : Table String) (model : Model) (t : ForwardTranslator) :
    storiesPhase model (t.withAfeMap am) = (storiesPhase model t).withAfeMap am := by
  unfold storiesPhase
  have : (t.withAfeMap am).setDescription model = (t.setDescription model).withAfeMap am := rfl
  rw [this, withAfeMap_translateStories]
  rfl

theorem withAfeMap_zoneVolume (am : Table String) (t : ForwardTranslator) (z : ThermalZone) :
    zoneVolume (t.withAfeMap am) z = ((zoneVolume t z).1, (zoneVolume t z).2.withAfeMap am) := by
  unfold zoneVolume
  split
  · rfl
  · simp only []
    split
    · simp only [withAfeMap_LOG]
    · rfl

theorem withAfeMap_zoneLevel (am : Table String) (t : ForwardTranslator) (spaces : List Space) :
    zoneLevel (t.withAfeMap am) spaces = ((zoneLevel t spaces).1, (zoneLevel t spaces).2.withAfeMap am) := by
  induction spaces with
  | nil => rfl
  | cons s rest ih =>
    unfold zoneLevel
    split
    · exact withAfeMap_tableLookupQMap t am _ _ _
    · exact ih

theorem withAfeMap_zoneStep (am : Table String) (s : Int × ForwardTranslator) (z : ThermalZone) :
    zoneStep (s.1, s.2.withAfeMap am) z = (zoneStep s z).map (fun r => (r.1, r.2.withAfeMap am)) := by
  unfold zoneStep
  simp only []
  have e1 : ({ s.2.withAfeMap am with m_zoneMap := s.2.m_zoneMap.set z.handle (s.1 + 1) }
      : ForwardTranslator) =
      ({ s.2 with m_zoneMap := s.2.m_zoneMap.set z.handle (s.1 + 1) }
        : ForwardTranslator).withAfeMap am := rfl
  have e0 : (s.2.withAfeMap am).m_zoneMap = s.2.m_zoneMap := rfl
  rw [e0, e1, withAfeMap_zoneVolume]
  simp only []
  rw [withAfeMap_zoneLevel]
  simp only []
  split
  · rfl
  · simp only [Outcome.map, withAfeMap_LOG, withAfeMap_setValid]

theorem withAfeMap_translateZones (am : Table String) (zs : List ThermalZone)
    (t : ForwardTranslator) :
    translateZones zs (t.withAfeMap am) = (translateZones zs t).map (fun r => r.withAfeMap am) := by
  unfold translateZones
  have := forEach_comm zoneStep (fun r : Int × ForwardTranslator => (r.1, r.2.withAfeMap am))
    (fun s a => withAfeMap_zoneStep am s a) zs (0, t)
  simp only [] at this
  rw [this, Outcome.map_map, Outcome.map_map]

theorem withAfeMap_addPath (am : Table String) (s : SurfaceLoop) (t : ForwardTranslator)
    (h : Handle) (p : prj.Path) :
    (s.withAfeMap am).addPath (t.withAfeMap am) h p = (s.addPath t h p).withAfeMap am := rfl

theorem withAfeMap_interiorStep (am : Table String) (pe : ElementChoice) (s : SurfaceLoop)
    (t : ForwardTranslator) (surface : Surface) (tz : Handle) (zone : prj.Zone)
    (path : prj.Path) :
    interiorStep pe (s.withAfeMap am) (t.withAfeMap am) surface tz zone path =
      (interiorStep pe s t surface tz zone path).map (fun r => r.withAfeMap am) := by
  unfold interiorStep
  split
  · simp only [Outcome.map, withAfeMap_LOG, withAfeMap_setValid]; rfl
  · split
    · simp only [Outcome.map, withAfeMap_LOG, withAfeMap_setValid]; rfl
    · split
      · simp only [Outcome.map, withAfeMap_LOG, withAfeMap_setValid]; rfl
      · split
        · rfl
        · rfl

theorem withAfeMap_surfaceStep (am : Table String) (ext : Externals) (pe : ElementChoice) (wh : ℚ)
    (s : SurfaceLoop) (surface : Surface) :
    surfaceStep ext pe wh (s.withAfeMap am) surface =
      (surfaceStep ext pe wh s surface).map (fun r => r.withAfeMap am) := by
  unfold surfaceStep
  have e0 : (s.withAfeMap am).used = s.used := rfl
  have e1 : (s.withAfeMap am).t = s.t.withAfeMap am := rfl
  have e2 : (s.t.withAfeMap am).m_zoneMap = s.t.m_zoneMap := rfl
  simp only [e0, e1, e2, withAfeMap_tableLookupStdMap]
  split
  · split
    · simp only [Outcome.map, withAfeMap_LOG]; rfl
    · split
      · simp only [Outcome.map, withAfeMap_LOG]; rfl
      · split
        · rfl
        · have e3 : ∀ t : ForwardTranslator, (t.withAfeMap am).m_data = t.m_data := fun _ => rfl
          simp only [e3]
          split
          · rfl
          · split
            · rfl
            · split
              · rfl
              · split
                · exact withAfeMap_interiorStep am pe s _ surface _ _ _
                · rfl
  · rfl

theorem withAfeMap_translateSurfaces (am : Table String) (ext : Externals) (pe : ElementChoice)
    (surfaces : List Surface) (t : ForwardTranslator) :
    translateSurfaces ext pe surfaces (t.withAfeMap am) =
      (translateSurfaces ext pe surfaces t).map (fun r => r.withAfeMap am) := by
  unfold translateSurfaces
  have := forEach_comm (surfaceStep ext pe t.m_data.rc.wind_H)
    (fun r : SurfaceLoop => r.withAfeMap am)
    (fun s a => withAfeMap_surfaceStep am ext pe _ s a) surfaces { nr := 0, used := [], t := t }
  have e : (t.withAfeMap am).m_data = t.m_data := rfl
  have e2 : ({ nr := 0, used := [], t := t.withAfeMap am } : SurfaceLoop) =
      ({ nr := 0, used := [], t := t } : SurfaceLoop).withAfeMap am := rfl
  rw [e, e2, this, Outcome.map_map, Outcome.map_map]
  rfl

theorem withAfeMap_servedZoneStep (am : Table String) (ahs : prj.Ahs) (t : ForwardTranslator)
    (z : ThermalZone) :
    servedZoneStep ahs (t.withAfeMap am) z = (servedZoneStep ahs t z).withAfeMap am := by
  unfold servedZoneStep
  have e2 : (t.withAfeMap am).m_zoneMap = t.m_zoneMap := rfl
  simp only [e2, withAfeMap_tableLookupStdMap]
  rfl

theorem withAfeMap_airloopStep (am : Table String) (s : Int × ForwardTranslator)
    (loop : AirLoopHVAC) :
    airloopStep (s.1, s.2.withAfeMap am) loop =
      ((airloopStep s loop).1, (airloopStep s loop).2.withAfeMap am) := by
  unfold airloopStep
  split
  · rfl
  · have e1 : airloopAhs (s.1, s.2.withAfeMap am) = airloopAhs s := rfl
    have e2 : airloopStart (s.1, s.2.withAfeMap am) loop = (airloopStart s loop).withAfeMap am := rfl
    simp only [e1, e2]
    rw [foldl_comm (servedZoneStep (airloopAhs s)) (fun t => t.withAfeMap am)
      (fun t z => withAfeMap_servedZoneStep am _ t z)]
    rfl

theorem withAfeMap_translateAirLoops (am : Table String) (loops : List AirLoopHVAC)
    (t : ForwardTranslator) :
    translateAirLoops loops (t.withAfeMap am) = (translateAirLoops loops t).withAfeMap am := by
  unfold translateAirLoops
  have := foldl_comm airloopStep (fun r : Int × ForwardTranslator => (r.1, r.2.withAfeMap am))
    (fun s a => withAfeMap_airloopStep am s a) loops (0, t)
  simp only [] at this
  rw [this]

theorem withAfeMap_closureStep (am : Table String) (t : ForwardTranslator) (i : Nat) :
    closureStep (t.withAfeMap am) i = (closureStep t i).map (fun r => r.withAfeMap am) := by
  unfold closureStep
  have e : (t.withAfeMap am).m_data = t.m_data := rfl
  simp only [e]
  split
  · rfl
  · rfl

theorem withAfeMap_connectAhs (am : Table String) (t : ForwardTranslator) :
    connectAhs (t.withAfeMap am) = (connectAhs t).map (fun r => r.withAfeMap am) := by
  unfold connectAhs
  have e : (t.withAfeMap am).m_data = t.m_data := rfl
  rw [e]
  exact forEach_comm closureStep (fun r => r.withAfeMap am)
    (fun s a => withAfeMap_closureStep am s a) _ t

theorem withAfeMap_flowStep (am : Table String) (t : ForwardTranslator) (z : ThermalZone) :
    flowStep (t.withAfeMap am) z = (flowStep t z).map (fun r => r.withAfeMap am) := by
  unfold flowStep
  have e : (t.withAfeMap am).m_data = t.m_data := rfl
  have e2 : (t.withAfeMap am).m_pathMap = t.m_pathMap := rfl
  simp only [e, e2]
  split
  · simp only [Outcome.map, withAfeMap_LOG]
  · split
    · rfl
    · split
      · rfl
      · rfl

theorem withAfeMap_setFlows (am : Table String) (model : Model) (t : ForwardTranslator) :
    setFlows model (t.withAfeMap am) = (setFlows model t).map (fun r => r.withAfeMap am) := by
  unfold setFlows
  split
  · simp only [Outcome.map]
    rw [foldl_comm (fun (t : ForwardTranslator) (_ : ThermalZone) =>
      t.LOG .Warn "Zone equipment not yet accounted for.") (fun t => t.withAfeMap am)
      (fun t _ => withAfeMap_LOG t am _ _)]
  · rw [withAfeMap_LOG]
    exact forEach_comm flowStep (fun r => r.withAfeMap am)
      (fun s a => withAfeMap_flowStep am s a) _ _

theorem withAfeMap_translateHVACBlock (am : Table String) (model : Model) (t : ForwardTranslator) :
    translateHVACBlock model (t.withAfeMap am) =
      (translateHVACBlock model t).map (fun r => r.withAfeMap am) := by
  unfold translateHVACBlock
  rw [withAfeMap_translateAirLoops, withAfeMap_connectAhs]
  exact Outcome.bind_map_comm _ _ _ (fun s => withAfeMap_setFlows am model s)

theorem withAfeMap_networkPhases (am : Table String) (ext : Externals) (pe : ElementChoice)
    (model : Model) (hvac : Bool) (t : ForwardTranslator) :
    networkPhases ext pe model hvac (t.withAfeMap am) =
      (networkPhases ext pe model hvac t).map (fun r => r.withAfeMap am) := by
  unfold networkPhases
  rw [withAfeMap_translateZones]
  rw [Outcome.bind_map_comm _ _ _ (fun s => withAfeMap_translateSurfaces am ext pe _ s)]
  apply Outcome.bind_map_comm
  intro s
  split
  · exact withAfeMap_translateHVACBlock am model s
  · rfl

theorem withAfeMap_finish (am : Table String) (o : Outcome ForwardTranslator) :
    finish (o.map (fun r => r.withAfeMap am)) =
      (finish o).map (fun br => (br.1, br.2.withAfeMap am)) := by
  cases o <;> rfl

theorem withAfeMap_translateBody (am : Table String) (ext : Externals) (pe : ElementChoice)
    (t : ForwardTranslator) (model : Model) (hvac : Bool) :
    translateBody ext pe (t.withAfeMap am) model hvac =
      (translateBody ext pe t model hvac).map (fun br => (br.1, br.2.withAfeMap am)) := by
  unfold translateBody
  simp only [withAfeMap_storiesPhase]
  have e : ((storiesPhase model t).withAfeMap am).m_data = (storiesPhase model t).m_data := rfl
  rw [e]
  split
  · simp only [Option.map_some', withAfeMap_LOG, withAfeMap_setValid]
  · rw [withAfeMap_networkPhases, withAfeMap_finish]

end AfeMapFree

section ModesAgree

open model ForwardTranslator

theorem Table.value_index {κ : Type} [DecidableEq κ] (m : Table κ) (k k2 : κ) :
    Table.value (m.index k).2 k2 0 = Table.value m k2 0 := by
  unfold Table.index
  cases hk : m.find k with
  | none =>
    simp only []
    unfold Table.value
    by_cases h : k2 = k
    · rw [h, Table.find_set_self, hk]
      rfl
    · rw [Table.find_set_ne m k k2 0 h]
  | some v => rfl

theorem Table.value_set_self {κ : Type} [DecidableEq κ] (m : Table κ) (k : κ) (v : Int) :
    Table.value (m.set k v) k 0 = v := by
  unfold Table.value
  rw [Table.find_set_self]
  rfl

theorem Table.value_set_ne {κ : Type} [DecidableEq κ] (m : Table κ) (k k2 : κ) (v : Int)
    (hne : k2 ≠ k) : Table.value (m.set k v) k2 0 = Table.value m k2 0 := by
  unfold Table.value
  rw [Table.find_set_ne m k k2 v hne]

/-- The four element indices that the descriptor mode reads for each of the three known
descriptors: what the element table `m` holds under the names of the grade, 0 for a name
that it does not hold. -/
theorem findAFEs_choice (m : Table String) :
    elementChoice (findAFEs m) "Leaky" =
      { roof := Table.value m "RoofLeaky" 0, exterior := Table.value m "ExtWallLeaky" 0,
        floor := Table.value m "FloorLeaky" 0, interior := Table.value m "IntWallLeaky" 0 } ∧
    elementChoice (findAFEs m) "Average" =
      { roof := Table.value m "RoofAvg" 0, exterior := Table.value m "ExtWallAvg" 0,
        floor := Table.value m "FloorAvg" 0, interior := Table.value m "IntWallAvg" 0 } ∧
    elementChoice (findAFEs m) "Tight" =
      { roof := Table.value m "RoofTight" 0, exterior := Table.value m "ExtWallTight" 0,
        floor := Table.value m "FloorTight" 0, interior := Table.value m "IntWallTight" 0 } := by
  refine ⟨?_, ?_, ?_⟩
  · simp only [elementChoice, findAFEs, List.foldl_cons, List.foldl_nil, findAFEsStep]
    simp only [Table.index_fst, Table.value_index,
      Table.value_set_ne _ _ _ _ (show ("Leaky" : String) ≠ "Tight" by decide),
      Table.value_set_ne _ _ _ _ (show ("Leaky" : String) ≠ "Average" by decide),
      Table.value_set_self]
  · simp only [elementChoice, findAFEs, List.foldl_cons, List.foldl_nil, findAFEsStep]
    simp only [Table.index_fst, Table.value_index,
      Table.value_set_ne _ _ _ _ (show ("Average" : String) ≠ "Tight" by decide),
      Table.value_set_self]
  · simp only [elementChoice, findAFEs, List.foldl_cons, List.foldl_nil, findAFEsStep]
    simp only [Table.index_fst, Table.value_index, Table.value_set_self]

theorem foldl_set_find_other (l : List prj.AirflowElement) (m : Table String) (name : String)
    (h : ∀ e ∈ l, e.name ≠ name) :
    Table.find (l.foldl (fun m e => Table.set m e.name e.nr) m) name = Table.find m name := by
  induction l generalizing m with
  | nil => rfl
  | cons a rest ih =>
    simp only [List.foldl_cons]
    rw [ih _ (fun e he => h e (List.mem_cons_of_mem _ he))]
    exact Table.find_set_ne m a.name name a.nr (fun e => h a (List.mem_cons_self _ _) e.symm)

theorem foldl_set_find (l : List prj.AirflowElement) (m : Table String) (name : String)
    (i : Int) (h1 : ∃ e ∈ l, e.name = name) (h2 : ∀ e ∈ l, e.name = name → e.nr = i) :
    Table.find (l.foldl (fun m e => Table.set m e.name e.nr) m) name = some i := by
  induction l generalizing m with
  | nil =>
    obtain ⟨e, he, _⟩ := h1
    simp at he
  | cons a rest ih =>
    simp only [List.foldl_cons]
    by_cases hc : ∃ e ∈ rest, e.name = name
    · exact ih _ hc (fun e he => h2 e (List.mem_cons_of_mem _ he))
    · have hn : ∀ e ∈ rest, e.name ≠ name := fun e he hne => hc ⟨e, he, hne⟩
      rw [foldl_set_find_other rest _ name hn]
      obtain ⟨e, he, hname⟩ := h1
      rcases List.mem_cons.mp he with h | h
      · rw [h] at hname
        rw [hname, Table.find_set_self, ← h2 a (List.mem_cons_self _ _) hname]
      · exact absurd hname (hn e h)

/-- The element table that a fresh translator builds holds the index of a template element
under its name. -/
theorem buildAfeMap_value (template : prj.Data) (name : String) (i : Int)
    (h : IsElementIndex template name i) :
    Table.value (ForwardTranslator.new template).resetLog.buildAfeMap.m_afeMap name 0 = i := by
  have he : (ForwardTranslator.new template).resetLog.m_data.airflowElements
      = template.airflowElements := by
    unfold ForwardTranslator.new resetLog
    simp only []
    split <;> rfl
  have hm : (ForwardTranslator.new template).resetLog.m_afeMap = [] := rfl
  unfold buildAfeMap Table.value
  simp only []
  rw [he, hm, foldl_set_find _ _ name i h.1 h.2]
  rfl

theorem Table.index_fst_of_find {κ : Type} [DecidableEq κ] (m : Table κ) (k : κ) (v : Int)
    (h : m.find k = some v) : (m.index k).1 = v := by
  rw [Table.index_of_find m k v h]

/-- The descriptor mode with a known descriptor is the shared body run with the element
indices of the descriptor on the translator without the element table, which is put in
afterwards. -/
theorem translate_eq_withAfeMap (ext : Externals) (t : ForwardTranslator) (model : Model)
    (hvac : Bool) (d : String) (hknown : d ∈ ["Average", "Tight", "Leaky"]) :
    t.translate ext model hvac d =
      (translateBody ext (elementChoice (findAFEs t.resetLog.buildAfeMap.m_afeMap) d)
        t.resetLog model hvac).map
        (fun br => (br.1, br.2.withAfeMap
          (findAFEs t.resetLog.buildAfeMap.m_afeMap).afeMap)) := by
  have e : t.resetLog.afePhase =
      t.resetLog.withAfeMap (findAFEs t.resetLog.buildAfeMap.m_afeMap).afeMap := rfl
  unfold ForwardTranslator.translate
  simp only []
  rw [checkDescriptor_known _ d hknown]
  simp only []
  rw [e]
  exact withAfeMap_translateBody _ ext _ t.resetLog model hvac

/-- C38: the two long overloads of `translate` agree. Let `d` be one of the known
descriptors "Leaky", "Average", "Tight" and `g` the grade "Leaky", "Avg", "Tight" that goes
with it; let `ie`, `ii`, `if0` and `ir` be the indices of the template elements named
"ExtWall" ++ g, "IntWall" ++ g, "Floor" ++ g and "Roof" ++ g, and let the map `afeMap` hold
`ie` under "exterior", `ii` under "interior", `if0` under "floor" and `ir` under "roof". Then
for every model and HVAC flag, on fresh translators for the same template, the descriptor
mode returns what the explicit-map mode returns, the translator differing in the airflow
element lookup table only (which the explicit-map mode does not build): the same flag, the
same network data (levels, zones, paths, AHS records and all the rest), the same log and the
same other tables; and one returns if and only if the other does. -/
theorem translate_modes_agree (ext : Externals) (template : prj.Data) (model : Model)
    (hvac : Bool) (d g : String) (afeMap : Table String) (ie ii if0 ir : Int)
    (hd : (d = "Leaky" ∧ g = "Leaky") ∨ (d = "Average" ∧ g = "Avg") ∨
      (d = "Tight" ∧ g = "Tight"))
    (he : IsElementIndex template ("ExtWall" ++ g) ie)
    (hi : IsElementIndex template ("IntWall" ++ g) ii)
    (hf : IsElementIndex template ("Floor" ++ g) if0)
    (hr : IsElementIndex template ("Roof" ++ g) ir)
    (hm : Table.find afeMap "exterior" = some ie ∧ Table.find afeMap "interior" = some ii ∧
      Table.find afeMap "floor" = some if0 ∧ Table.find afeMap "roof" = some ir) :
    (ForwardTranslator.new template).translate ext model hvac d =
      ((ForwardTranslator.new template).translateWithMap ext model afeMap hvac).map
        (fun br => (br.1, br.2.withAfeMap
          (findAFEs (ForwardTranslator.new template).resetLog.buildAfeMap.m_afeMap).afeMap)) ∧
    (∀ b r, (ForwardTranslator.new template).translate ext model hvac d = some (b, r) →
      ∃ r2, (ForwardTranslator.new template).translateWithMap ext model afeMap hvac
          = some (b, r2) ∧
        r.m_data = r2.m_data ∧ r.m_data.levels = r2.m_data.levels ∧
        r.m_data.zones = r2.m_data.zones ∧ r.m_data.paths = r2.m_data.paths ∧
        r.m_data.ahs = r2.m_data.ahs ∧ r.m_logSink = r2.m_logSink ∧ r.m_valid = r2.m_valid ∧
        r.m_levelMap = r2.m_levelMap ∧ r.m_zoneMap = r2.m_zoneMap ∧
        r.m_pathMap = r2.m_pathMap ∧ r.m_surfaceMap = r2.m_surfaceMap ∧
        r.m_ahsMap = r2.m_ahsMap) ∧
    (∀ b r2, (ForwardTranslator.new template).translateWithMap ext model afeMap hvac
        = some (b, r2) →
      ∃ r, (ForwardTranslator.new template).translate ext model hvac d = some (b, r) ∧
        r.m_data = r2.m_data) := by
  have hknown : d ∈ ["Average", "Tight", "Leaky"] := by
    rcases hd with ⟨h, _⟩ | ⟨h, _⟩ | ⟨h, _⟩ <;> rw [h] <;> simp
  have hpe : elementChoice
      (findAFEs (ForwardTranslator.new template).resetLog.buildAfeMap.m_afeMap) d =
      { roof := (afeMap.index "roof").1, exterior := (afeMap.index "exterior").1,
        floor := (afeMap.index "floor").1, interior := (afeMap.index "interior").1 } := by
    obtain ⟨m1, m2, m3, m4⟩ := hm
    rw [Table.index_fst_of_find _ _ _ m1, Table.index_fst_of_find _ _ _ m2,
      Table.index_fst_of_find _ _ _ m3, Table.index_fst_of_find _ _ _ m4]
    obtain ⟨c1, c2, c3⟩ :=
      findAFEs_choice (ForwardTranslator.new template).resetLog.buildAfeMap.m_afeMap
    rcases hd with ⟨h1, h2⟩ | ⟨h1, h2⟩ | ⟨h1, h2⟩
    · subst h1
      subst h2
      rw [show ("ExtWall" ++ "Leaky" : String) = "ExtWallLeaky" by decide] at he
      rw [show ("IntWall" ++ "Leaky" : String) = "IntWallLeaky" by decide] at hi
      rw [show ("Floor" ++ "Leaky" : String) = "FloorLeaky" by decide] at hf
      rw [show ("Roof" ++ "Leaky" : String) = "RoofLeaky" by decide] at hr
      rw [c1, buildAfeMap_value template _ _ he, buildAfeMap_value template _ _ hi,
        buildAfeMap_value template _ _ hf, buildAfeMap_value template _ _ hr]
    · subst h1
      subst h2
      rw [show ("ExtWall" ++ "Avg" : String) = "ExtWallAvg" by decide] at he
      rw [show ("IntWall" ++ "Avg" : String) = "IntWallAvg" by decide] at hi
      rw [show ("Floor" ++ "Avg" : String) = "FloorAvg" by decide] at hf
      rw [show ("Roof" ++ "Avg" : String) = "RoofAvg" by decide] at hr
      rw [c2, buildAfeMap_value template _ _ he, buildAfeMap_value template _ _ hi,
        buildAfeMap_value template _ _ hf, buildAfeMap_value template _ _ hr]
    · subst h1
      subst h2
      rw [show ("ExtWall" ++ "Tight" : String) = "ExtWallTight" by decide] at he
      rw [show ("IntWall" ++ "Tight" : String) = "IntWallTight" by decide] at hi
      rw [show ("Floor" ++ "Tight" : String) = "FloorTight" by decide] at hf
      rw [show ("Roof" ++ "Tight" : String) = "RoofTight" by decide] at hr
      rw [c3, buildAfeMap_value template _ _ he, buildAfeMap_value template _ _ hi,
        buildAfeMap_value template _ _ hf, buildAfeMap_value template _ _ hr]
  have hmain : (ForwardTranslator.new template).translate ext model hvac d =
      ((ForwardTranslator.new template).translateWithMap ext model afeMap hvac).map
        (fun br => (br.1, br.2.withAfeMap
          (findAFEs (ForwardTranslator.new template).resetLog.buildAfeMap.m_afeMap).afeMap)) := by
    rw [translate_eq_withAfeMap ext _ model hvac d hknown, hpe]
    rfl
  refine ⟨hmain, ?_, ?_⟩
  · intro b r h
    rw [hmain] at h
    generalize (findAFEs (ForwardTranslator.new template).resetLog.buildAfeMap.m_afeMap).afeMap
      = X at h
    cases h2 : (ForwardTranslator.new template).translateWithMap ext model afeMap hvac with
    | none => rw [h2] at h; simp at h
    | some br =>
      rw [h2] at h
      simp only [Option.map_some', Option.some.injEq, Prod.mk.injEq] at h
      obtain ⟨hb, hr2⟩ := h
      subst hr2
      subst hb
      exact ⟨br.2, rfl, rfl, rfl, rfl, rfl, rfl, rfl, rfl, rfl, rfl, rfl, rfl, rfl⟩
  · intro b r2 h
    rw [hmain, h]
    generalize (findAFEs (ForwardTranslator.new template).resetLog.buildAfeMap.m_afeMap).afeMap
      = X
    exact ⟨r2.withAfeMap X, rfl, rfl⟩

end ModesAgree

section ModesAgree2

open model ForwardTranslator

theorem Examples.gradedTemplate_index (i : Int) (name : String)
    (h : Examples.gradedElement i name ∈ Examples.gradedTemplate.airflowElements)
    (hu : ∀ e ∈ Examples.gradedTemplate.airflowElements, e.name = name → e.nr = i) :
    IsElementIndex Examples.gradedTemplate name i :=
  ⟨⟨_, h, rfl⟩, hu⟩

theorem Examples.gradedTemplate_indices :
    IsElementIndex Examples.gradedTemplate ("ExtWall" ++ "Avg") 1 ∧
    IsElementIndex Examples.gradedTemplate ("IntWall" ++ "Avg") 2 ∧
    IsElementIndex Examples.gradedTemplate ("Floor" ++ "Avg") 3 ∧
    IsElementIndex Examples.gradedTemplate ("Roof" ++ "Avg") 4 := by
  have n1 : ("ExtWall" ++ "Avg" : String) = "ExtWallAvg" := by decide
  have n2 : ("IntWall" ++ "Avg" : String) = "IntWallAvg" := by decide
  have n3 : ("Floor" ++ "Avg" : String) = "FloorAvg" := by decide
  have n4 : ("Roof" ++ "Avg" : String) = "RoofAvg" := by decide
  rw [n1, n2, n3, n4]
  have hmem : ∀ e ∈ Examples.gradedTemplate.airflowElements,
      e = Examples.gradedElement 1 "ExtWallAvg" ∨ e = Examples.gradedElement 2 "IntWallAvg" ∨
      e = Examples.gradedElement 3 "FloorAvg" ∨ e = Examples.gradedElement 4 "RoofAvg" := by
    intro e he
    simpa [Examples.gradedTemplate] using he
  refine ⟨?_, ?_, ?_, ?_⟩
  · refine Examples.gradedTemplate_index 1 _ (by simp [Examples.gradedTemplate]) ?_
    intro e he hn
    rcases hmem e he with h | h | h | h <;> rw [h] at hn ⊢
    · rfl
    · exact absurd hn (show ("IntWallAvg" : String) ≠ "ExtWallAvg" by decide)
    · exact absurd hn (show ("FloorAvg" : String) ≠ "ExtWallAvg" by decide)
    · exact absurd hn (show ("RoofAvg" : String) ≠ "ExtWallAvg" by decide)
  · refine Examples.gradedTemplate_index 2 _ (by simp [Examples.gradedTemplate]) ?_
    intro e he hn
    rcases hmem e he with h | h | h | h <;> rw [h] at hn ⊢
    · exact absurd hn (show ("ExtWallAvg" : String) ≠ "IntWallAvg" by decide)
    · rfl
    · exact absurd hn (show ("FloorAvg" : String) ≠ "IntWallAvg" by decide)
    · exact absurd hn (show ("RoofAvg" : String) ≠ "IntWallAvg" by decide)
  · refine Examples.gradedTemplate_index 3 _ (by simp [Examples.gradedTemplate]) ?_
    intro e he hn
    rcases hmem e he with h | h | h | h <;> rw [h] at hn ⊢
    · exact absurd hn (show ("ExtWallAvg" : String) ≠ "FloorAvg" by decide)
    · exact absurd hn (show ("IntWallAvg" : String) ≠ "FloorAvg" by decide)
    · rfl
    · exact absurd hn (show ("RoofAvg" : String) ≠ "FloorAvg" by decide)
  · refine Examples.gradedTemplate_index 4 _ (by simp [Examples.gradedTemplate]) ?_
    intro e he hn
    rcases hmem e he with h | h | h | h <;> rw [h] at hn ⊢
    · exact absurd hn (show ("ExtWallAvg" : String) ≠ "RoofAvg" by decide)
    · exact absurd hn (show ("IntWallAvg" : String) ≠ "RoofAvg" by decide)
    · exact absurd hn (show ("FloorAvg" : String) ≠ "RoofAvg" by decide)
    · rfl

/-- The explicit-map translation of the example building on the template with the elements
of the grade "Average": the exterior wall gets element 1, the ceiling of space A element 3,
the paths of the air loop none. -/
theorem Examples.building_with_map :
    ∃ r2, (ForwardTranslator.new Examples.gradedTemplate).translateWithMap Examples.ext
        Examples.building
        [("exterior", 1), ("interior", 2), ("floor", 3), ("roof", 4)] true = some (true, r2) ∧
      r2.m_data.paths.map (fun p => (p.nr, p.pe)) =
        [(1, 1), (2, 3), (3, 0), (4, 0), (5, 0), (6, 0), (7, 0), (8, 0), (9, 0)] := by
  have k1 : "AHS_" ++ ToString.toString (1 : Nat) ++ " recirculation"
      = "AHS_1 recirculation" := by decide
  have k2 : "AHS_" ++ ToString.toString (1 : Nat) ++ " oa" = "AHS_1 oa" := by decide
  have k3 : "AHS_" ++ ToString.toString (1 : Nat) ++ " exhaust" = "AHS_1 exhaust" := by
    decide
  simp [k1, k2, k3, ForwardTranslator.translateWithMap, ForwardTranslator.new, resetLog,
    translateBody, storiesPhase, setDescription, translateStories,
    storyStep, networkPhases, translateZones, zoneStep, zoneLevel, zoneVolume,
    tableLookupQMap, tableLookupStdMap, translateSurfaces, surfaceStep, exteriorPath,
    interiorStep, interiorPath, SurfaceLoop.addPath, Table.index,
    relativeHeight, finish, forEach, Outcome.bind, Outcome.map, LOG, setValid,
    Table.find, Table.value, Table.set, listAt, Examples.building, Examples.zoneA,
    Examples.zoneB, Examples.spaceA, Examples.spaceB,
    Examples.wallA, Examples.ceilingA, Examples.floorB, Examples.twoStories,
    Examples.gradedTemplate,
    translateHVACBlock, translateAirLoops, airloopStep, airloopAhs, airloopStart, newAhs,
    returnZone, supplyZone, servedZoneStep, connectAhs, closureStep, closeAhs, recircPath,
    oaPath, exhaustPath, setFlows, flowStep, setFahs, listModify, List.range,
    List.range.loop, LogLevel.toInt]

/-- Witness of C38: the example building on the template with the elements of the grade
"Average", descriptor "Average" against the map exterior 1, interior 2, floor 3, roof 4: both
modes return true with the same network data; the exterior wall has element 1 and the
ceiling of space A element 3. -/
theorem translate_modes_agree_witness :
    IsElementIndex Examples.gradedTemplate ("ExtWall" ++ "Avg") 1 ∧
    IsElementIndex Examples.gradedTemplate ("IntWall" ++ "Avg") 2 ∧
    IsElementIndex Examples.gradedTemplate ("Floor" ++ "Avg") 3 ∧
    IsElementIndex Examples.gradedTemplate ("Roof" ++ "Avg") 4 ∧
    ∃ r r2, (ForwardTranslator.new Examples.gradedTemplate).translate Examples.ext
        Examples.building true "Average" = some (true, r) ∧
      (ForwardTranslator.new Examples.gradedTemplate).translateWithMap Examples.ext
        Examples.building
        [("exterior", 1), ("interior", 2), ("floor", 3), ("roof", 4)] true = some (true, r2) ∧
      r.m_data = r2.m_data ∧
      r.m_data.paths.map (fun p => (p.nr, p.pe)) =
        [(1, 1), (2, 3), (3, 0), (4, 0), (5, 0), (6, 0), (7, 0), (8, 0), (9, 0)] := by
  obtain ⟨i1, i2, i3, i4⟩ := Examples.gradedTemplate_indices
  refine ⟨i1, i2, i3, i4, ?_⟩
  obtain ⟨r2, h2, hp⟩ := Examples.building_with_map
  obtain ⟨r, h1, hd⟩ := (translate_modes_agree Examples.ext Examples.gradedTemplate
    Examples.building true "Average" "Avg"
    [("exterior", 1), ("interior", 2), ("floor", 3), ("roof", 4)] 1 2 3 4
    (Or.inr (Or.inl ⟨rfl, rfl⟩)) i1 i2 i3 i4
    ⟨by decide, by decide, by decide, by decide⟩).2.2 true r2 h2
  exact ⟨r, r2, h1, h2, hd, by rw [hd]; exact hp⟩

end ModesAgree2

end contam

end openstudio
